import Mathlib

/-!
# DqnInspect: a verification development

A shallow embedding of `Code/DqnInspect.h` (the reflection generator of the
`dqn` repository): the tokenizer `EnumOrStructOrFunctionLexer`, the token
stream `CPPTokeniser`, the declaration parsers `ParseCPPEnum`,
`ParseCPPStruct`, `ParseCPPInspectPrototype` and the code generator of `main`.

Conventions of the embedding.

* The file buffer is a `List Char` that holds the file's bytes followed by the
  terminating NUL which `main` writes at `file_buf[file_size]`.  A pointer into
  the buffer is its offset (a `Nat`).  Reading at an offset past the NUL is a
  read outside the buffer and is reported as `Fault.outOfBounds`.
* C `int` lengths are `Int` (the source computes a negative length in one
  place).
* A C loop that may fail to terminate is run with fuel; running out of fuel is
  `Fault.outOfFuel`.  A failed `assert` is `Fault.assertFail`, the use of a
  null list node is `Fault.nullDeref`.
* Linked lists are Lean lists; appending at the tail of a linked list is `++`.
-/

namespace DqnInspect

/-! ## Outcomes -/

/-- The ways in which a C routine fails to return normally. -/
inductive Fault where
  | assertFail
  | outOfBounds
  | nullDeref
  | outOfFuel
  deriving DecidableEq, Repr

deriving instance DecidableEq for Except

/-- The NUL character that terminates the file buffer. -/
def NUL : Char := Char.ofNat 0

/-- The read `ptr[0]`.  `mem` is the memory from the start of the file buffer on: the text
of the file, its terminating NUL, and the part of the arena after it that is given.  A read
beyond `mem` is reported as `outOfBounds`: nothing is said about what the code reads
there. -/
def readChar (mem : List Char) (ptr : Nat) : Except Fault Char :=
  match mem.get? ptr with
  | some c => pure c
  | none => throw Fault.outOfBounds

/-- The loop `while (p(ptr[0])) ptr++;` over the memory that starts at `ptr`.  The loop
has no test of its own for the terminating NUL: where `p` holds of the NUL it goes on
through the memory after the file buffer.  It is reported as `outOfBounds` when no
character of the given memory stops it, nothing being said about what the code reads
beyond that memory. -/
def scanWhile (p : Char → Bool) : List Char → Nat → Except Fault Nat
  | [], _ => throw Fault.outOfBounds
  | c :: rest, ptr => if p c then scanWhile p rest (ptr + 1) else pure ptr

/-! ## String utilities -/

def CharIsAlpha (ch : Char) : Bool :=
  (decide ('A' ≤ ch) && decide (ch ≤ 'Z')) || (decide ('a' ≤ ch) && decide (ch ≤ 'z'))

def CharIsDigit (ch : Char) : Bool := decide ('0' ≤ ch) && decide (ch ≤ '9')

def CharIsAlphaNum (ch : Char) : Bool := CharIsAlpha ch || CharIsDigit ch

def CharIsWhitespace (ch : Char) : Bool :=
  ch == ' ' || ch == '\t' || ch == '\n' || ch == '\r'

/-- A `StringLiteral`: a pointer into the file buffer and a length. -/
structure StringLiteral where
  str : Nat := 0
  len : Int := 0
  deriving DecidableEq, Repr, Inhabited

/-- The characters a `StringLiteral` denotes. -/
def StringLiteral.text (mem : List Char) (s : StringLiteral) : List Char :=
  (mem.drop s.str).take s.len.toNat

/-- The function `StrCmp` of the source: equal lengths and equal bytes. -/
def StrCmp (mem : List Char) (a b : StringLiteral) : Bool :=
  if a.len ≠ b.len then false else a.text mem == b.text mem

/-- The comparison `StrCmp(a, STR_LITERAL(lit))` against a literal of the program. -/
def StrCmpLit (mem : List Char) (a : StringLiteral) (lit : List Char) : Bool :=
  if a.len ≠ (lit.length : Int) then false else a.text mem == lit

/-! ## Tokens -/

inductive CPPTokenType where
  | EndOfStream
  | LeftBrace
  | RightBrace
  | LeftSqBracket
  | RightSqBracket
  | OpenParen
  | CloseParen
  | Comma
  | Colon
  | FwdSlash
  | Comment
  | LessThan
  | GreaterThan
  | Equals
  | String
  | SemiColon
  | Identifier
  | Number
  | Asterisks
  | VarArgs
  | InspectCode
  | InspectGeneratePrototype
  | Hash
  deriving DecidableEq, Repr, Inhabited

structure CPPToken where
  type : CPPTokenType := CPPTokenType.EndOfStream
  str : Nat := 0
  len : Int := 0
  deriving DecidableEq, Repr, Inhabited

structure CPPTokeniser where
  tokens : List CPPToken := []
  tokens_index : Nat := 0
  tokens_max : Nat := 16384
  spaces_per_indent : Nat := 4
  indent_level : Int := 0
  output_file : List Char := []
  deriving DecidableEq, Repr, Inhabited

/-! ## The tokenizer -/

/-- The locals of one pass of `EnumOrStructOrFunctionLexer`. -/
structure LexScope where
  indent_level : Int := 0
  started_lexing_brace_scope : Bool := false
  started_lexing_function : Bool := false
  paren_level : Int := 0
  deriving DecidableEq, Repr, Inhabited

/-- The block-comment loop
`for (;;) { while (ptr[0] != '*') ptr++; ptr++; if (ptr[0] == '\\') break; ... }`
over the buffer suffix that starts at `ptr`. -/
def blockCommentLoop : List Char → Nat → Except Fault Nat
  | [], _ => throw Fault.outOfBounds
  | c :: rest, ptr =>
    if c ≠ '*' then blockCommentLoop rest (ptr + 1)
    else
      match rest with
      | [] => throw Fault.outOfBounds
      | d :: _ => if d = '\\' then pure (ptr + 1) else blockCommentLoop rest (ptr + 1)

/-- The string loop
`for (token->str = ++ptr;;) { while (ptr[0] != '"') ptr++; token->len = ptr - token->str;
   if (ptr[-1] != '\\') { ptr++; break; } }`;
it returns the new `ptr` and the token length. -/
def stringLoop (mem : List Char) (str : Nat) : Nat → Nat → Except Fault (Nat × Int)
  | 0, _ => throw Fault.outOfFuel
  | fuel + 1, ptr => do
    let q ← scanWhile (fun ch => ch != '"') (mem.drop ptr) ptr
    let prev ← readChar mem (q - 1)
    if prev ≠ '\\' then pure (q + 1, (q : Int) - (str : Int))
    else stringLoop mem str fuel q

/-- The body of the `switch` of the lexer for the token that starts at `str`
(`token->str = ptr++`): the token, the new `ptr` and the updated locals. -/
def lexToken (fuel : Nat) (mem : List Char) (str : Nat) (sc : LexScope) :
    Except Fault (CPPToken × Nat × LexScope) := do
  let c ← readChar mem str
  let ptr := str + 1
  if c = '\x7b' then
    pure ({ type := CPPTokenType.LeftBrace, str := str, len := 1 }, ptr,
      { sc with started_lexing_brace_scope := true, indent_level := sc.indent_level + 1 })
  else if c = '\x7d' then
    pure ({ type := CPPTokenType.RightBrace, str := str, len := 1 }, ptr,
      { sc with indent_level := sc.indent_level - 1 })
  else if c = '[' then pure ({ type := CPPTokenType.LeftSqBracket, str := str, len := 1 }, ptr, sc)
  else if c = ']' then pure ({ type := CPPTokenType.RightSqBracket, str := str, len := 1 }, ptr, sc)
  else if c = '(' then
    pure ({ type := CPPTokenType.OpenParen, str := str, len := 1 }, ptr,
      { sc with started_lexing_function := true, paren_level := sc.paren_level + 1 })
  else if c = ')' then
    pure ({ type := CPPTokenType.CloseParen, str := str, len := 1 }, ptr,
      { sc with paren_level := sc.paren_level - 1 })
  else if c = ',' then pure ({ type := CPPTokenType.Comma, str := str, len := 1 }, ptr, sc)
  else if c = ';' then pure ({ type := CPPTokenType.SemiColon, str := str, len := 1 }, ptr, sc)
  else if c = '=' then pure ({ type := CPPTokenType.Equals, str := str, len := 1 }, ptr, sc)
  else if c = '<' then pure ({ type := CPPTokenType.LessThan, str := str, len := 1 }, ptr, sc)
  else if c = '>' then pure ({ type := CPPTokenType.GreaterThan, str := str, len := 1 }, ptr, sc)
  else if c = ':' then pure ({ type := CPPTokenType.Colon, str := str, len := 1 }, ptr, sc)
  else if c = '*' then pure ({ type := CPPTokenType.Asterisks, str := str, len := 1 }, ptr, sc)
  else if c = '.' then do
    let c1 ← readChar mem (str + 1)
    if c1 = '.' then do
      let c2 ← readChar mem (str + 2)
      if c2 = '.' then pure ({ type := CPPTokenType.VarArgs, str := str, len := 3 }, ptr + 2, sc)
      else pure ({ type := CPPTokenType.EndOfStream, str := str, len := 0 }, ptr, sc)
    else pure ({ type := CPPTokenType.EndOfStream, str := str, len := 0 }, ptr, sc)
  else if c = '/' then do
    let n ← readChar mem ptr
    if n = '/' then do
      let p1 ← scanWhile (fun ch => ch == ' ' || ch == '\t') (mem.drop ptr) ptr
      let p2 ← scanWhile (fun ch => ch != '\n') (mem.drop p1) p1
      pure ({ type := CPPTokenType.Comment, str := p1, len := (p2 : Int) - (p1 : Int) }, p2, sc)
    else if n = '*' then do
      let p ← blockCommentLoop (mem.drop ptr) ptr
      pure ({ type := CPPTokenType.Comment, str := str, len := (p : Int) - (str : Int) }, p, sc)
    else pure ({ type := CPPTokenType.FwdSlash, str := str, len := 1 }, ptr, sc)
  else if c = '"' then do
    let (p, len) ← stringLoop mem (str + 1) fuel (str + 1)
    pure ({ type := CPPTokenType.String, str := str + 1, len := len }, p, sc)
  else if CharIsDigit c then do
    let p ← scanWhile
      (fun ch => CharIsDigit ch || ch == 'x' || ch == 'b' || ch == 'e' || ch == '.' || ch == 'f')
      (mem.drop str) str
    pure ({ type := CPPTokenType.Number, str := str, len := (p : Int) - (str : Int) }, p, sc)
  else if CharIsAlpha c || c == '_' then do
    let p ← scanWhile (fun ch => CharIsAlphaNum ch || ch == '_') (mem.drop (str + 1)) (str + 1)
    pure ({ type := CPPTokenType.Identifier, str := str, len := (p : Int) - (str : Int) }, p, sc)
  else pure ({ type := CPPTokenType.Identifier, str := str, len := 0 }, str, sc)

/-- The test made after a token was kept: has the scope that was opened closed again? -/
def lexStop (lexing_function : Bool) (sc : LexScope) : Bool :=
  if lexing_function then sc.started_lexing_function && sc.paren_level == 0
  else sc.started_lexing_brace_scope && sc.indent_level == 0

/-- One pass of the lexer: the inner loop `for (; ptr;)` of
`EnumOrStructOrFunctionLexer`. -/
def lexPass (mem : List Char) (lexing_function : Bool) :
    Nat → CPPTokeniser → Nat → LexScope → Except Fault (CPPTokeniser × Nat)
  | 0, _, _, _ => throw Fault.outOfFuel
  | fuel + 1, tokeniser, ptr, sc => do
    let ptr ← scanWhile CharIsWhitespace (mem.drop ptr) ptr
    let c ← readChar mem ptr
    if c = NUL then pure (tokeniser, ptr)
    else if ¬ (tokeniser.tokens.length < tokeniser.tokens_max) then throw Fault.assertFail
    else do
      let (token, ptr, sc) ← lexToken fuel mem ptr sc
      if token.len = 0 then lexPass mem lexing_function fuel tokeniser ptr sc
      else
        let tokeniser := { tokeniser with tokens := tokeniser.tokens ++ [token] }
        if lexStop lexing_function sc then pure (tokeniser, ptr)
        else lexPass mem lexing_function fuel tokeniser ptr sc

/-- The function `EnumOrStructOrFunctionLexer`: one pass for a struct or enum, two
passes for a function prototype (the macro call, then the declaration). -/
def EnumOrStructOrFunctionLexer (fuel : Nat) (mem : List Char) (tokeniser : CPPTokeniser)
    (ptr : Nat) (lexing_function : Bool) : Except Fault (CPPTokeniser × Nat) := do
  let (tokeniser, ptr) ← lexPass mem lexing_function fuel tokeniser ptr {}
  if lexing_function then lexPass mem lexing_function fuel tokeniser ptr {}
  else pure (tokeniser, ptr)

/-! ## The token stream -/

/-- The read `tokeniser->tokens[tokeniser->tokens_index]`; a slot that was never
written reads as the cleared token. -/
def CPPTokeniser_PeekToken (tokeniser : CPPTokeniser) : CPPToken :=
  tokeniser.tokens.getD tokeniser.tokens_index default

/-- The `for` loop of `CPPTokeniser_NextToken`. -/
def nextTokenLoop : Nat → CPPToken → CPPTokeniser → Except Fault (CPPToken × CPPTokeniser)
  | 0, result, tokeniser => pure (result, tokeniser)
  | amount + 1, _, tokeniser =>
    let result := tokeniser.tokens.getD tokeniser.tokens_index default
    let indent_level :=
      if result.type = CPPTokenType.LeftBrace then tokeniser.indent_level + 1
      else if result.type = CPPTokenType.RightBrace then tokeniser.indent_level - 1
      else tokeniser.indent_level
    let tokeniser :=
      { tokeniser with tokens_index := tokeniser.tokens_index + 1, indent_level := indent_level }
    if ¬ (0 ≤ tokeniser.indent_level) then throw Fault.assertFail
    else if result.type = CPPTokenType.EndOfStream then pure (result, tokeniser)
    else nextTokenLoop amount result tokeniser

def CPPTokeniser_NextToken (tokeniser : CPPTokeniser) (amount : Nat := 1) :
    Except Fault (CPPToken × CPPTokeniser) :=
  let result := tokeniser.tokens.getD tokeniser.tokens_index default
  if result.type ≠ CPPTokenType.EndOfStream then nextTokenLoop amount result tokeniser
  else pure (result, tokeniser)

/-- The function `CPPTokeniser_RewindToken`: `tokeniser->tokens[--tokeniser->tokens_index];`.
The cursor of the source is an `int`, the cursor here a natural number.  From a cursor that
is not 0 the new cursor is the one of the source, `rewoundCursor`.  From the cursor 0, where
the source gives -1, the cursor here stays 0 and does not follow the source.  Both calls in
the source, in `ParseCPPStruct` and in `ParseCPPInspectPrototype`, rewind right after
`CPPTokeniser_NextToken` returned an identifier, so from a cursor that is at least 1. -/
def CPPTokeniser_RewindToken (tokeniser : CPPTokeniser) : CPPTokeniser :=
  { tokeniser with tokens_index := tokeniser.tokens_index - 1 }

/-- The function `CPPTokeniser_AcceptTokenIfType`, always called with a token to
write to: the answer, the value of `*token` afterwards, the tokeniser. -/
def CPPTokeniser_AcceptTokenIfType (tokeniser : CPPTokeniser) (type : CPPTokenType)
    (token : CPPToken) : Except Fault (Bool × CPPToken × CPPTokeniser) :=
  let check := CPPTokeniser_PeekToken tokeniser
  if check.type = type then do
    let (_, tokeniser) ← CPPTokeniser_NextToken tokeniser
    pure (true, check, tokeniser)
  else pure (false, token, tokeniser)

/-! ## Parsing helpers -/

/-- The text `printf` writes for `%.*s` with precision `len` and argument `str`:
at most `len` characters (no limit when `len` is negative), up to the NUL. -/
def fmtStr (mem : List Char) (len : Int) (str : Nat) : List Char :=
  let s := (mem.drop str).takeWhile (fun ch => ch != NUL)
  if len < 0 then s else s.take len.toNat

def fmtLit (mem : List Char) (s : StringLiteral) : List Char := fmtStr mem s.len s.str

def CPPTokenType_Strings : CPPTokenType → String
  | CPPTokenType.EndOfStream => "End Of Stream"
  | CPPTokenType.LeftBrace => "\x7b"
  | CPPTokenType.RightBrace => "\x7d"
  | CPPTokenType.LeftSqBracket => "["
  | CPPTokenType.RightSqBracket => "]"
  | CPPTokenType.OpenParen => "("
  | CPPTokenType.CloseParen => ")"
  | CPPTokenType.Comma => ","
  | CPPTokenType.Colon => ":"
  | CPPTokenType.FwdSlash => "/"
  | CPPTokenType.Comment => "comment"
  | CPPTokenType.LessThan => "<"
  | CPPTokenType.GreaterThan => ">"
  | CPPTokenType.Equals => "="
  | CPPTokenType.String => "\""
  | CPPTokenType.SemiColon => ";"
  | CPPTokenType.Identifier => "Identifier"
  | CPPTokenType.Number => "[0-9]"
  | CPPTokenType.Asterisks => "*"
  | CPPTokenType.VarArgs => "Variable Args (...)"
  | CPPTokenType.InspectCode => "DQN_INSPECT"
  | CPPTokenType.InspectGeneratePrototype => "DQN_INSPECT_GENERATE_PROTOTYPE"
  | CPPTokenType.Hash => "#"

def IsIdentifierToken (mem : List Char) (token : CPPToken) (expect_str : String) : Bool :=
  token.type == CPPTokenType.Identifier &&
    StrCmpLit mem { str := token.str, len := token.len } expect_str.toList

/-- The text of the diagnostic that `ExpectToken` prints. -/
def expectDiagnostic (mem : List Char) (token : CPPToken) (type : CPPTokenType) : List Char :=
  "Expected token type: ".toList ++ (CPPTokenType_Strings type).toList ++ " received: ".toList
    ++ fmtStr mem token.len token.str ++ "\n".toList
    ++ "Context: ".toList ++ fmtStr mem (if token.len > 100 then 100 else token.len) token.str
    ++ "\n\n".toList

/-- The function `ExpectToken`.  Its diagnostic goes to `stdout`, which is also the
stream `tokeniser.output_file` of `main`; the model appends it there. -/
def ExpectToken (mem : List Char) (tokeniser : CPPTokeniser) (token : CPPToken)
    (type : CPPTokenType) : Bool × CPPTokeniser :=
  if token.type = type then (true, tokeniser)
  else (false, { tokeniser with
    output_file := tokeniser.output_file ++ expectDiagnostic mem token type })

/-- The function `ConsumeAsterisks`: the count, the last asterisk consumed (the
cleared token when there is none), the tokeniser. -/
def ConsumeAsterisks :
    Nat → CPPTokeniser → Int → CPPToken → Except Fault (Int × CPPToken × CPPTokeniser)
  | 0, _, _, _ => throw Fault.outOfFuel
  | fuel + 1, tokeniser, result, last_asterisks_token =>
    let peek_token := CPPTokeniser_PeekToken tokeniser
    if peek_token.type = CPPTokenType.Asterisks then do
      let (_, tokeniser) ← CPPTokeniser_NextToken tokeniser
      ConsumeAsterisks fuel tokeniser (result + 1) peek_token
    else pure (result, last_asterisks_token, tokeniser)

/-- The function `ConsumeConstIdentifier`: the answer, the last `const` consumed
(the cleared token when there is none), the tokeniser. -/
def ConsumeConstIdentifier (mem : List Char) :
    Nat → CPPTokeniser → Bool → CPPToken → Except Fault (Bool × CPPToken × CPPTokeniser)
  | 0, _, _, _ => throw Fault.outOfFuel
  | fuel + 1, tokeniser, result, last_const_token =>
    let peek_token := CPPTokeniser_PeekToken tokeniser
    if IsIdentifierToken mem peek_token "const" then do
      let (_, tokeniser) ← CPPTokeniser_NextToken tokeniser
      ConsumeConstIdentifier mem fuel tokeniser true peek_token
    else pure (result, last_const_token, tokeniser)

/-- The assignment `if (token && last.type != EndOfStream) *token = last;` that ends
`ConsumeAsterisks` and `ConsumeConstIdentifier`. -/
def writeBack (token last : CPPToken) : CPPToken :=
  if last.type ≠ CPPTokenType.EndOfStream then last else token

/-- The loop `for (int level = 1; level != 0;)` of `SkipFunctionParam` for the
scope opened by `opener` and closed by `closer`. -/
def skipScope (opener closer : CPPTokenType) :
    Nat → Int → CPPTokeniser → Except Fault CPPTokeniser
  | 0, _, _ => throw Fault.outOfFuel
  | fuel + 1, level, tokeniser =>
    if level = 0 then pure tokeniser
    else do
      let (_, tokeniser) ← CPPTokeniser_NextToken tokeniser
      let token := CPPTokeniser_PeekToken tokeniser
      let level := if token.type = opener then level + 1 else level
      let level := if token.type = closer then level - 1 else level
      skipScope opener closer fuel level tokeniser

def SkipFunctionParam : Nat → CPPTokeniser → Except Fault CPPTokeniser
  | 0, _ => throw Fault.outOfFuel
  | fuel + 1, tokeniser =>
    let token := CPPTokeniser_PeekToken tokeniser
    if token.type = CPPTokenType.EndOfStream then pure tokeniser
    else do
      let (token, tokeniser) ←
        if token.type = CPPTokenType.OpenParen then do
          let tokeniser ←
            skipScope CPPTokenType.OpenParen CPPTokenType.CloseParen fuel 1 tokeniser
          let (_, tokeniser) ← CPPTokeniser_NextToken tokeniser
          pure (CPPTokeniser_PeekToken tokeniser, tokeniser)
        else pure (token, tokeniser)
      let (token, tokeniser) ←
        if token.type = CPPTokenType.LeftBrace then do
          let tokeniser ←
            skipScope CPPTokenType.LeftBrace CPPTokenType.RightBrace fuel 1 tokeniser
          let (_, tokeniser) ← CPPTokeniser_NextToken tokeniser
          pure (CPPTokeniser_PeekToken tokeniser, tokeniser)
        else pure (token, tokeniser)
      if token.type = CPPTokenType.CloseParen then pure tokeniser
      else if token.type = CPPTokenType.Comma then pure tokeniser
      else do
        let (_, tokeniser) ← CPPTokeniser_NextToken tokeniser
        SkipFunctionParam fuel tokeniser

/-! ## Declarations -/

structure CPPVariableDecl where
  type : StringLiteral := {}
  name : StringLiteral := {}
  template_expr : StringLiteral := {}
  array_dimensions : Int := 0
  default_value : StringLiteral := {}
  deriving DecidableEq, Repr, Inhabited

/-- A node of a `CPPDeclLinkedList<T>`; the list itself is a Lean list of nodes.
The nodes of a metadata list are kept as their values: the program never reads
the metadata list of a metadata node. -/
structure CPPDeclLinkedList (T : Type) where
  metadata_list : List CPPVariableDecl := []
  value : T
  deriving DecidableEq, Repr

/-- The template loop `while (template_depth != 0 && token.type != EndOfStream)`
shared by `ParseCPPTypeAndVariableDecl` and `ParseCPPVariableType`. -/
def templateLoop :
    Nat → Int → CPPToken → CPPTokeniser → Except Fault (Int × CPPToken × CPPTokeniser)
  | 0, _, _, _ => throw Fault.outOfFuel
  | fuel + 1, template_depth, token, tokeniser =>
    if template_depth ≠ 0 ∧ token.type ≠ CPPTokenType.EndOfStream then do
      let (token, tokeniser) ← CPPTokeniser_NextToken tokeniser
      let template_depth :=
        if token.type = CPPTokenType.LessThan then template_depth + 1
        else if token.type = CPPTokenType.GreaterThan then template_depth - 1
        else template_depth
      templateLoop fuel template_depth token tokeniser
    else pure (template_depth, token, tokeniser)

/-- The inner loop `while (token.type != RightSqBracket && token.type != EndOfStream)`
of the array suffix. -/
def arrayInnerLoop : Nat → CPPToken → CPPTokeniser → Except Fault (CPPToken × CPPTokeniser)
  | 0, _, _ => throw Fault.outOfFuel
  | fuel + 1, token, tokeniser =>
    if token.type ≠ CPPTokenType.RightSqBracket ∧ token.type ≠ CPPTokenType.EndOfStream then do
      let (token, tokeniser) ← CPPTokeniser_NextToken tokeniser
      arrayInnerLoop fuel token tokeniser
    else pure (token, tokeniser)

/-- The loop `for (token = PeekToken; token.type == LeftSqBracket && ...; token = NextToken)`
over the array suffixes, entered with `token` already peeked. -/
def arrayLoop :
    Nat → CPPToken → Int → CPPTokeniser → Except Fault (CPPToken × Int × CPPTokeniser)
  | 0, _, _, _ => throw Fault.outOfFuel
  | fuel + 1, token, array_dimensions, tokeniser =>
    if token.type = CPPTokenType.LeftSqBracket ∧ token.type ≠ CPPTokenType.EndOfStream then do
      let (_, tokeniser) ← arrayInnerLoop fuel token tokeniser
      let (token, tokeniser) ← CPPTokeniser_NextToken tokeniser
      arrayLoop fuel token (array_dimensions + 1) tokeniser
    else pure (token, array_dimensions, tokeniser)

mutual

/-- The loop `for (int total_asterisks_count = 0;;)` of `ParseCPPTypeAndVariableDecl`. -/
def declLoop (mem : List Char) (parse_function_param : Bool) :
    Nat → CPPTokeniser → CPPToken → CPPToken → List (CPPDeclLinkedList CPPVariableDecl) →
      Except Fault (List (CPPDeclLinkedList CPPVariableDecl) × CPPTokeniser)
  | 0, _, _, _, _ => throw Fault.outOfFuel
  | fuel + 1, tokeniser, variable_type, token, result => do
    let (accepted, token, tokeniser) ←
      CPPTokeniser_AcceptTokenIfType tokeniser CPPTokenType.LessThan token
    let (variable_template_expr, tokeniser) ←
      if accepted then do
        let (template_depth, token, tokeniser) ← templateLoop fuel 1 token tokeniser
        if template_depth = 0 then
          let expr_start := token.str + 1
          let expr_end := token.str
          pure (({ str := expr_start, len := (expr_end : Int) - (expr_start : Int) } :
            StringLiteral), tokeniser)
        else pure (({} : StringLiteral), tokeniser)
      else pure (({} : StringLiteral), tokeniser)
    let last_modifier_token : CPPToken := {}
    let (total_asterisks_count, last, tokeniser) ← ConsumeAsterisks fuel tokeniser 0 {}
    let last_modifier_token := writeBack last_modifier_token last
    let (is_const, last, tokeniser) ← ConsumeConstIdentifier mem fuel tokeniser false {}
    let last_modifier_token := writeBack last_modifier_token last
    let (total_asterisks_count, last_modifier_token, tokeniser) ←
      if is_const then do
        let (more, last, tokeniser) ← ConsumeAsterisks fuel tokeniser 0 {}
        let last_modifier_token := writeBack last_modifier_token last
        let (_, last, tokeniser) ← ConsumeConstIdentifier mem fuel tokeniser false {}
        pure (total_asterisks_count + more, writeBack last_modifier_token last, tokeniser)
      else pure (total_asterisks_count, last_modifier_token, tokeniser)
    let peeked := CPPTokeniser_PeekToken tokeniser
    if variable_type.type = CPPTokenType.Identifier ∧ peeked.type ≠ CPPTokenType.Identifier then
      pure (result, tokeniser)
    else do
      let (variable_name, tokeniser) ←
        if variable_type.type = CPPTokenType.Identifier then do
          let (_, tokeniser) ← CPPTokeniser_NextToken tokeniser
          pure (peeked, tokeniser)
        else pure (({} : CPPToken), tokeniser)
      let variable_type_len : Int :=
        if last_modifier_token.type ≠ CPPTokenType.EndOfStream then
          ((last_modifier_token.str : Int) - (variable_type.str : Int)) + 1
        else variable_type.len
      let (token, array_dimensions, tokeniser) ←
        arrayLoop fuel (CPPTokeniser_PeekToken tokeniser) total_asterisks_count tokeniser
      let (metadata_list, token, tokeniser) ←
        if IsIdentifierToken mem token "DQN_INSPECT_META" then do
          let (metadata, tokeniser) ← ParseCPPInspectMeta mem fuel tokeniser
          pure (metadata.map (fun node => node.value), CPPTokeniser_PeekToken tokeniser, tokeniser)
        else pure ([], token, tokeniser)
      let value : CPPVariableDecl :=
        { type := { str := variable_type.str, len := variable_type_len }
          name := { str := variable_name.str, len := variable_name.len }
          template_expr := variable_template_expr
          array_dimensions := array_dimensions }
      if token.type = CPPTokenType.Equals then do
        let (_, tokeniser) ← CPPTokeniser_NextToken tokeniser
        let token := CPPTokeniser_PeekToken tokeniser
        let default_value_start :=
          if token.type = CPPTokenType.String then token.str - 1 else token.str
        let tokeniser ← SkipFunctionParam fuel tokeniser
        let token := CPPTokeniser_PeekToken tokeniser
        if token.type ≠ CPPTokenType.Comma ∧ token.type ≠ CPPTokenType.CloseParen then
          declLoop mem parse_function_param fuel tokeniser variable_type token
            (result ++ [{ metadata_list := metadata_list, value := value }])
        else
          let default_value_end := token.str
          let value :=
            { value with default_value :=
                { str := default_value_start
                  len := (default_value_end : Int) - (default_value_start : Int) } }
          declTail mem parse_function_param fuel tokeniser variable_type token
            (result ++ [{ metadata_list := metadata_list, value := value }])
      else
        declTail mem parse_function_param fuel tokeniser variable_type token
          (result ++ [{ metadata_list := metadata_list, value := value }])

/-- The end of the body of that loop: `if (token.type == Comma) { ... } else break;`. -/
def declTail (mem : List Char) (parse_function_param : Bool) :
    Nat → CPPTokeniser → CPPToken → CPPToken → List (CPPDeclLinkedList CPPVariableDecl) →
      Except Fault (List (CPPDeclLinkedList CPPVariableDecl) × CPPTokeniser)
  | 0, _, _, _, _ => throw Fault.outOfFuel
  | fuel + 1, tokeniser, variable_type, token, result =>
    if token.type = CPPTokenType.Comma then do
      let (variable_type, tokeniser) ←
        if parse_function_param then do
          let (_, tokeniser) ← CPPTokeniser_NextToken tokeniser
          pure (CPPTokeniser_PeekToken tokeniser, tokeniser)
        else pure (variable_type, tokeniser)
      let (token, tokeniser) ← CPPTokeniser_NextToken tokeniser
      declLoop mem parse_function_param fuel tokeniser variable_type token result
    else pure (result, tokeniser)

def ParseCPPTypeAndVariableDecl (mem : List Char) :
    Nat → CPPTokeniser → Bool →
      Except Fault (List (CPPDeclLinkedList CPPVariableDecl) × CPPTokeniser)
  | 0, _, _ => throw Fault.outOfFuel
  | fuel + 1, tokeniser, parse_function_param => do
    let (token, tokeniser) ← CPPTokeniser_NextToken tokeniser
    if token.type ≠ CPPTokenType.Identifier ∧ token.type ≠ CPPTokenType.VarArgs then
      pure ([], tokeniser)
    else do
      let (_, _, tokeniser) ← ConsumeConstIdentifier mem fuel tokeniser false {}
      declLoop mem parse_function_param fuel tokeniser token token []

def ParseCPPInspectMeta (mem : List Char) :
    Nat → CPPTokeniser →
      Except Fault (List (CPPDeclLinkedList CPPVariableDecl) × CPPTokeniser)
  | 0, _ => throw Fault.outOfFuel
  | fuel + 1, tokeniser => do
    let (token, tokeniser) ← CPPTokeniser_NextToken tokeniser
    let (ok, tokeniser) := ExpectToken mem tokeniser token CPPTokenType.Identifier
    if ¬ ok ∨ ¬ IsIdentifierToken mem token "DQN_INSPECT_META" then pure ([], tokeniser)
    else do
      let (token, tokeniser) ← CPPTokeniser_NextToken tokeniser
      let (ok, tokeniser) := ExpectToken mem tokeniser token CPPTokenType.OpenParen
      if ¬ ok then pure ([], tokeniser)
      else ParseCPPTypeAndVariableDecl mem fuel tokeniser true

end

/-! ## Parse results -/

inductive ParsedResultType where
  | Invalid
  | Struct
  | Enum
  | FunctionPrototype
  deriving DecidableEq, Repr, Inhabited

structure ParsedEnum where
  struct_or_class_decl : Bool := false
  name : StringLiteral := {}
  members : List (CPPDeclLinkedList StringLiteral) := []
  deriving DecidableEq, Repr

structure ParsedStruct where
  name : StringLiteral := {}
  members : List (CPPDeclLinkedList CPPVariableDecl) := []
  deriving DecidableEq, Repr

structure ParsedFunctionPrototype where
  return_type : StringLiteral := {}
  name : StringLiteral := {}
  members : List (CPPDeclLinkedList CPPVariableDecl) := []
  deriving DecidableEq, Repr

/-- The tagged union `ParsedResult`: the tag and the member of the union it selects. -/
inductive ParsedResult where
  | Invalid
  | Struct (parsed_struct : ParsedStruct)
  | Enum (parsed_enum : ParsedEnum)
  | FunctionPrototype (parsed_func_prototype : ParsedFunctionPrototype)
  deriving DecidableEq, Repr

def ParsedResult.type : ParsedResult → ParsedResultType
  | ParsedResult.Invalid => ParsedResultType.Invalid
  | ParsedResult.Struct _ => ParsedResultType.Struct
  | ParsedResult.Enum _ => ParsedResultType.Enum
  | ParsedResult.FunctionPrototype _ => ParsedResultType.FunctionPrototype

/-! ## The enum parser -/

/-- The loop
`for (token = NextToken; indent_level != original_indent_level && token.type != EndOfStream;
      token = NextToken)` of `ParseCPPEnum`, entered after its initialisation. -/
def enumLoop (mem : List Char) (original_indent_level : Int) :
    Nat → CPPToken → CPPTokeniser → List (CPPDeclLinkedList StringLiteral) →
      Except Fault (List (CPPDeclLinkedList StringLiteral) × CPPTokeniser)
  | 0, _, _, _ => throw Fault.outOfFuel
  | fuel + 1, token, tokeniser, members =>
    if tokeniser.indent_level ≠ original_indent_level ∧
        token.type ≠ CPPTokenType.EndOfStream then do
      let (members, tokeniser) ←
        if token.type = CPPTokenType.Identifier then do
          let peek_token := CPPTokeniser_PeekToken tokeniser
          let (metadata, tokeniser) ←
            if IsIdentifierToken mem peek_token "DQN_INSPECT_META" then
              ParseCPPInspectMeta mem fuel tokeniser
            else pure ([], tokeniser)
          pure (members ++ [{ metadata_list := metadata.map (fun node => node.value)
                              value := { str := token.str, len := token.len } }], tokeniser)
        else pure (members, tokeniser)
      let (token, tokeniser) ← CPPTokeniser_NextToken tokeniser
      enumLoop mem original_indent_level fuel token tokeniser members
    else pure (members, tokeniser)

def ParseCPPEnum (fuel : Nat) (mem : List Char) (tokeniser : CPPTokeniser) :
    Except Fault (Bool × ParsedEnum × CPPTokeniser) := do
  let parsed_enum : ParsedEnum := {}
  let (token, tokeniser) ← CPPTokeniser_NextToken tokeniser
  let (ok, tokeniser) := ExpectToken mem tokeniser token CPPTokenType.Identifier
  if ¬ ok ∨ ¬ IsIdentifierToken mem token "enum" then pure (false, parsed_enum, tokeniser)
  else do
    let (token, tokeniser) ← CPPTokeniser_NextToken tokeniser
    let (parsed_enum, token, tokeniser) ←
      if IsIdentifierToken mem token "class" ∨ IsIdentifierToken mem token "struct" then do
        let (token, tokeniser) ← CPPTokeniser_NextToken tokeniser
        pure ({ parsed_enum with struct_or_class_decl := true }, token, tokeniser)
      else pure (parsed_enum, token, tokeniser)
    let (ok, tokeniser) := ExpectToken mem tokeniser token CPPTokenType.Identifier
    if ¬ ok then pure (false, parsed_enum, tokeniser)
    else do
      let original_indent_level := tokeniser.indent_level
      let enum_name := token
      let (token, tokeniser) ← CPPTokeniser_NextToken tokeniser
      let (ok, tokeniser) := ExpectToken mem tokeniser token CPPTokenType.LeftBrace
      if ¬ ok then pure (false, parsed_enum, tokeniser)
      else do
        let parsed_enum := { parsed_enum with name := { str := enum_name.str, len := enum_name.len } }
        let (token, tokeniser) ← CPPTokeniser_NextToken tokeniser
        let (members, tokeniser) ← enumLoop mem original_indent_level fuel token tokeniser []
        pure (true, { parsed_enum with members := members }, tokeniser)

/-! ## The type parser of prototypes -/

/-- The loop `while (type->len >= 1 && CharIsWhitespace(type->str[type->len - 1])) type->len--;`
on a length that is not negative. -/
def trimTrailingWhitespace (mem : List Char) (str : Nat) : Nat → Nat
  | 0 => 0
  | len + 1 =>
    if CharIsWhitespace (mem.getD (str + len) NUL) then trimTrailingWhitespace mem str len
    else len + 1

def ParseCPPVariableType (fuel : Nat) (mem : List Char) (tokeniser : CPPTokeniser)
    (type : StringLiteral) : Except Fault (Bool × StringLiteral × CPPTokeniser) := do
  let (token, tokeniser) ← CPPTokeniser_NextToken tokeniser
  let (ok, tokeniser) := ExpectToken mem tokeniser token CPPTokenType.Identifier
  if ¬ ok then pure (false, type, tokeniser)
  else do
    let var_type_start := token.str
    let (_, _, tokeniser) ← ConsumeConstIdentifier mem fuel tokeniser false {}
    let peek_token := CPPTokeniser_PeekToken tokeniser
    let (_template_expr, tokeniser) ←
      if peek_token.type = CPPTokenType.LessThan then do
        let (token, tokeniser) ← CPPTokeniser_NextToken tokeniser
        let (template_depth, token, tokeniser) ← templateLoop fuel 1 token tokeniser
        if template_depth = 0 then
          let expr_start := peek_token.str + 1
          let expr_end := token.str
          pure (({ str := expr_start, len := (expr_end : Int) - (expr_start : Int) } :
            StringLiteral), tokeniser)
        else pure (({} : StringLiteral), tokeniser)
      else pure (({} : StringLiteral), tokeniser)
    let (_, _, tokeniser) ← ConsumeAsterisks fuel tokeniser 0 {}
    let (is_const, _, tokeniser) ← ConsumeConstIdentifier mem fuel tokeniser false {}
    let tokeniser ←
      if is_const then do
        let (_, _, tokeniser) ← ConsumeAsterisks fuel tokeniser 0 {}
        let (_, _, tokeniser) ← ConsumeConstIdentifier mem fuel tokeniser false {}
        pure tokeniser
      else pure tokeniser
    let var_name := CPPTokeniser_PeekToken tokeniser
    let (ok, tokeniser) := ExpectToken mem tokeniser var_name CPPTokenType.Identifier
    if ¬ ok then pure (false, type, tokeniser)
    else
      let var_type_end := var_name.str
      let len : Int := (var_type_end : Int) - (var_type_start : Int)
      let len : Int :=
        if 1 ≤ len then (trimTrailingWhitespace mem var_type_start len.toNat : Nat) else len
      pure (true, { str := var_type_start, len := len }, tokeniser)

/-! ## The struct parser -/

/-- The loop
`for (token = NextToken; indent_level != original_indent_level && token.type != EndOfStream;
      token = NextToken)` of `ParseCPPStruct`, entered after its initialisation. -/
def structLoop (mem : List Char) (original_indent_level : Int) :
    Nat → CPPToken → CPPTokeniser → List (CPPDeclLinkedList CPPVariableDecl) →
      Except Fault (List (CPPDeclLinkedList CPPVariableDecl) × CPPTokeniser)
  | 0, _, _, _ => throw Fault.outOfFuel
  | fuel + 1, token, tokeniser, members =>
    if tokeniser.indent_level ≠ original_indent_level ∧
        token.type ≠ CPPTokenType.EndOfStream then do
      let (members, tokeniser) ←
        if token.type = CPPTokenType.Identifier then do
          let tokeniser := CPPTokeniser_RewindToken tokeniser
          let (link, tokeniser) ← ParseCPPTypeAndVariableDecl mem fuel tokeniser false
          pure (members ++ link, tokeniser)
        else pure (members, tokeniser)
      let (token, tokeniser) ← CPPTokeniser_NextToken tokeniser
      structLoop mem original_indent_level fuel token tokeniser members
    else pure (members, tokeniser)

def ParseCPPStruct (fuel : Nat) (mem : List Char) (tokeniser : CPPTokeniser) :
    Except Fault (Bool × ParsedStruct × CPPTokeniser) := do
  let parsed_struct : ParsedStruct := {}
  let (token, tokeniser) ← CPPTokeniser_NextToken tokeniser
  let (ok, tokeniser) := ExpectToken mem tokeniser token CPPTokenType.Identifier
  if ¬ ok ∨ (¬ IsIdentifierToken mem token "struct" ∧ ¬ IsIdentifierToken mem token "class") then
    pure (false, parsed_struct, tokeniser)
  else do
    let original_indent_level := tokeniser.indent_level
    let (token, tokeniser) ← CPPTokeniser_NextToken tokeniser
    let (ok, tokeniser) :=
      if token.type ≠ CPPTokenType.LeftBrace then
        ExpectToken mem tokeniser token CPPTokenType.Identifier
      else (true, tokeniser)
    if ¬ ok then pure (false, parsed_struct, tokeniser)
    else do
      let parsed_struct : ParsedStruct :=
        if token.type ≠ CPPTokenType.LeftBrace then
          { parsed_struct with name := { str := token.str, len := token.len } }
        else parsed_struct
      let (token, tokeniser) ← CPPTokeniser_NextToken tokeniser
      let (members, tokeniser) ← structLoop mem original_indent_level fuel token tokeniser []
      let parsed_struct := { parsed_struct with members := members }
      if parsed_struct.name.len = 0 then pure (false, parsed_struct, tokeniser)
      else pure (true, parsed_struct, tokeniser)

/-! ## The prototype parser -/

structure FunctionDefaultParam where
  name : StringLiteral := {}
  value : StringLiteral := {}
  deriving DecidableEq, Repr, Inhabited

/-- The loop over the macro call of `DQN_INSPECT_GENERATE_PROTOTYPE(...)`:
`for (token = NextToken; token.type != CloseParen && token.type != EndOfStream;
      token = NextToken)`, entered after its initialisation. -/
def defaultParamLoop :
    Nat → CPPToken → CPPTokeniser → List FunctionDefaultParam →
      Except Fault (List FunctionDefaultParam × CPPTokeniser)
  | 0, _, _, _ => throw Fault.outOfFuel
  | fuel + 1, token, tokeniser, default_param_list =>
    if token.type ≠ CPPTokenType.CloseParen ∧ token.type ≠ CPPTokenType.EndOfStream then do
      let (default_param_list, tokeniser) ←
        if token.type = CPPTokenType.Comma then pure (default_param_list, tokeniser)
        else
          let default_param_name : StringLiteral := { str := token.str, len := token.len }
          if token.type ≠ CPPTokenType.Identifier then do
            let tokeniser ← SkipFunctionParam fuel tokeniser
            pure (default_param_list, tokeniser)
          else do
            let (token, tokeniser) ← CPPTokeniser_NextToken tokeniser
            if token.type ≠ CPPTokenType.Equals then do
              let tokeniser ← SkipFunctionParam fuel tokeniser
              pure (default_param_list, tokeniser)
            else do
              let token := CPPTokeniser_PeekToken tokeniser
              let default_value_start :=
                if token.type = CPPTokenType.String then token.str - 1 else token.str
              let tokeniser ← SkipFunctionParam fuel tokeniser
              let peek_token := CPPTokeniser_PeekToken tokeniser
              if peek_token.type ≠ CPPTokenType.Comma ∧
                  peek_token.type ≠ CPPTokenType.CloseParen then
                pure (default_param_list, tokeniser)
              else
                let default_value_end := peek_token.str
                pure (default_param_list ++
                  [{ name := default_param_name
                     value := { str := default_value_start
                                len := (default_value_end : Int) - (default_value_start : Int) } }],
                  tokeniser)
      let (token, tokeniser) ← CPPTokeniser_NextToken tokeniser
      defaultParamLoop fuel token tokeniser default_param_list
    else pure (default_param_list, tokeniser)

/-- The loop `while (token.type != OpenParen && token.type != EndOfStream)` that
looks for the parenthesis after the function name. -/
def functionNameLoop : Nat → CPPToken → CPPTokeniser → Except Fault (CPPToken × CPPTokeniser)
  | 0, _, _ => throw Fault.outOfFuel
  | fuel + 1, token, tokeniser =>
    if token.type ≠ CPPTokenType.OpenParen ∧ token.type ≠ CPPTokenType.EndOfStream then do
      let (_, tokeniser) ← CPPTokeniser_NextToken tokeniser
      functionNameLoop fuel (CPPTokeniser_PeekToken tokeniser) tokeniser
    else pure (token, tokeniser)

/-- The loop over the parameters of the prototype:
`for (token = NextToken; token.type != CloseParen && token.type != EndOfStream;
      token = NextToken)`, entered after its initialisation. -/
def functionParamLoop (mem : List Char) :
    Nat → CPPToken → CPPTokeniser → List (CPPDeclLinkedList CPPVariableDecl) →
      Except Fault (List (CPPDeclLinkedList CPPVariableDecl) × CPPTokeniser)
  | 0, _, _, _ => throw Fault.outOfFuel
  | fuel + 1, token, tokeniser, members =>
    if token.type ≠ CPPTokenType.CloseParen ∧ token.type ≠ CPPTokenType.EndOfStream then do
      let (members, tokeniser) ←
        if token.type = CPPTokenType.Identifier ∨ token.type = CPPTokenType.VarArgs then do
          let tokeniser := CPPTokeniser_RewindToken tokeniser
          let (link, tokeniser) ← ParseCPPTypeAndVariableDecl mem fuel tokeniser true
          pure (members ++ link, tokeniser)
        else pure (members, tokeniser)
      let (token, tokeniser) ← CPPTokeniser_NextToken tokeniser
      functionParamLoop mem fuel token tokeniser members
    else pure (members, tokeniser)

/-- The inner loop of the reconciliation: the first parameter whose name is that of
the declared default takes its value (`decl->default_value = default_param->value; break;`). -/
def applyDefaultParam (mem : List Char) (default_param : FunctionDefaultParam) :
    List (CPPDeclLinkedList CPPVariableDecl) → List (CPPDeclLinkedList CPPVariableDecl)
  | [] => []
  | param_link :: rest =>
    if StrCmp mem param_link.value.name default_param.name then
      { param_link with value := { param_link.value with default_value := default_param.value } }
        :: rest
    else param_link :: applyDefaultParam mem default_param rest

/-- The outer loop of the reconciliation, over the declared defaults in order. -/
def mapDefaultParams (mem : List Char) :
    List FunctionDefaultParam → List (CPPDeclLinkedList CPPVariableDecl) →
      List (CPPDeclLinkedList CPPVariableDecl)
  | [], members => members
  | default_param :: rest, members =>
    mapDefaultParams mem rest (applyDefaultParam mem default_param members)

def ParseCPPInspectPrototype (fuel : Nat) (mem : List Char) (tokeniser : CPPTokeniser) :
    Except Fault (Bool × ParsedFunctionPrototype × CPPTokeniser) := do
  let parsed_func : ParsedFunctionPrototype := {}
  let (token, tokeniser) ← CPPTokeniser_NextToken tokeniser
  let (ok, tokeniser) := ExpectToken mem tokeniser token CPPTokenType.InspectGeneratePrototype
  if ¬ ok then pure (false, parsed_func, tokeniser)
  else do
    let (accepted, _, tokeniser) ←
      CPPTokeniser_AcceptTokenIfType tokeniser CPPTokenType.OpenParen token
    if ¬ accepted then pure (false, parsed_func, tokeniser)
    else do
      let (token, tokeniser) ← CPPTokeniser_NextToken tokeniser
      let (default_param_list, tokeniser) ← defaultParamLoop fuel token tokeniser []
      -- Grab return type token
      let token := CPPTokeniser_PeekToken tokeniser
      let (ok, tokeniser) := ExpectToken mem tokeniser token CPPTokenType.Identifier
      if ¬ ok then pure (false, parsed_func, tokeniser)
      else do
        let (ok, return_type, tokeniser) ←
          ParseCPPVariableType fuel mem tokeniser parsed_func.return_type
        let parsed_func := { parsed_func with return_type := return_type }
        if ¬ ok then pure (false, parsed_func, tokeniser)
        else do
          -- Grab function name token
          let token := CPPTokeniser_PeekToken tokeniser
          let (ok, tokeniser) := ExpectToken mem tokeniser token CPPTokenType.Identifier
          if ¬ ok then pure (false, parsed_func, tokeniser)
          else do
            let name_start := token.str
            let (token, tokeniser) ← functionNameLoop fuel token tokeniser
            let (ok, tokeniser) := ExpectToken mem tokeniser token CPPTokenType.OpenParen
            if ¬ ok then pure (false, parsed_func, tokeniser)
            else do
              let name_end := token.str
              let parsed_func := { parsed_func with
                name := { str := name_start, len := (name_end : Int) - (name_start : Int) } }
              let token := CPPTokeniser_PeekToken tokeniser
              let (ok, tokeniser) := ExpectToken mem tokeniser token CPPTokenType.OpenParen
              if ¬ ok then pure (false, parsed_func, tokeniser)
              else do
                let (_, tokeniser) ← CPPTokeniser_NextToken tokeniser
                let (token, tokeniser) ← CPPTokeniser_NextToken tokeniser
                let (members, tokeniser) ← functionParamLoop mem fuel token tokeniser []
                let members := mapDefaultParams mem default_param_list members
                pure (true, { parsed_func with members := members }, tokeniser)

/-! ## The marker scan of `main` -/

inductive InspectMode where
  | All
  | Code
  | GenerateProtypes
  deriving DecidableEq, Repr, Inhabited

/-- The loop of `StrFind` over the buffer suffix that starts at `buf_ptr`;
`strncmp(buf_ptr, find.str, find.len) == 0` compares the next `find.len` bytes. -/
def strFindLoop (find : List Char) (buf_end : Int) : List Char → Nat → Except Fault (Option Nat)
  | [], _ => throw Fault.outOfBounds
  | c :: rest, buf_ptr =>
    if c = NUL then pure none
    else if buf_end - (buf_ptr : Int) < (find.length : Int) then pure none
    else if (c :: rest).take find.length = find then pure (some buf_ptr)
    else strFindLoop find buf_end rest (buf_ptr + 1)

/-- The function `StrFind`; `none` is the null pointer. -/
def StrFind (mem : List Char) (src : StringLiteral) (find : List Char) :
    Except Fault (Option Nat) :=
  strFindLoop find ((src.str : Int) + src.len) (mem.drop src.str) src.str

def INSPECT_PROTOTYPE : String := "DQN_INSPECT_GENERATE_PROTOTYPE"

def INSPECT_PREFIX : String := "DQN_INSPECT"

/-- The function `CPPTokeniser_MakeToken` followed by the writes to the new token. -/
def CPPTokeniser_MakeToken (tokeniser : CPPTokeniser) (token : CPPToken) :
    Except Fault CPPTokeniser :=
  if ¬ (tokeniser.tokens.length < tokeniser.tokens_max) then throw Fault.assertFail
  else pure { tokeniser with tokens := tokeniser.tokens ++ [token] }

/-- The loop `for (char *ptr = StrFind(buffer, INSPECT_PREFIX); ptr; ptr = StrFind(...))`
of `main`; `buffer` is the part of the file not yet scanned and `file_buf_end` the
offset of the terminating NUL. -/
def markerLoop (mem : List Char) (mode : InspectMode) (file_buf_end : Nat) :
    Nat → CPPTokeniser → StringLiteral → Except Fault CPPTokeniser
  | 0, _, _ => throw Fault.outOfFuel
  | fuel + 1, tokeniser, buffer => do
    match ← StrFind mem buffer INSPECT_PREFIX.toList with
    | none => pure tokeniser
    | some ptr =>
      let marker_str := ptr
      let marker_len : Int := (file_buf_end : Int) - (ptr : Int)
      let inspect_type :=
        if StrCmpLit mem { str := ptr, len := INSPECT_PROTOTYPE.length } INSPECT_PROTOTYPE.toList
        then CPPTokenType.InspectGeneratePrototype else CPPTokenType.InspectCode
      let ptr :=
        if inspect_type = CPPTokenType.InspectCode then ptr + INSPECT_PREFIX.length
        else ptr + INSPECT_PROTOTYPE.length
      if (inspect_type = CPPTokenType.InspectCode ∧ mode = InspectMode.GenerateProtypes) ∨
          (inspect_type ≠ CPPTokenType.InspectCode ∧ mode = InspectMode.Code) then
        markerLoop mem mode file_buf_end fuel tokeniser
          { str := ptr, len := (file_buf_end : Int) - (ptr : Int) }
      else do
        let tokeniser ← CPPTokeniser_MakeToken tokeniser
          { type := inspect_type, str := marker_str, len := marker_len }
        let (tokeniser, ptr) ← EnumOrStructOrFunctionLexer fuel mem tokeniser ptr
          (inspect_type == CPPTokenType.InspectGeneratePrototype)
        markerLoop mem mode file_buf_end fuel tokeniser
          { str := ptr, len := (file_buf_end : Int) - (ptr : Int) }

/-- The tokens of a file: the marker scan, then the `EndOfStream` sentinel.  `mem` is the
file buffer up to its terminating NUL, its last character. -/
def lexFile (fuel : Nat) (mem : List Char) (mode : InspectMode) (tokeniser : CPPTokeniser) :
    Except Fault CPPTokeniser := do
  let file_size := mem.length - 1
  let tokeniser ← markerLoop mem mode file_size fuel tokeniser { str := 0, len := file_size }
  CPPTokeniser_MakeToken tokeniser { type := CPPTokenType.EndOfStream }

/-! ## The parse loop of `main` -/

/-- The macro `INSPECT_MAX`. -/
def INSPECT_MAX (a b : Int) : Int := if a > b then a else b

/-- What the parse loop of `main` carries from one iteration to the next. -/
structure ParseLoopState where
  tokeniser : CPPTokeniser
  parsing_results : List ParsedResult := []
  max_func_return_type_decl_len : Int := 0
  max_func_name_decl_len : Int := 0
  deriving DecidableEq, Repr

/-- The body of the parse loop of `main` up to the test
`if (parse_result.type != ParsedResultType::Invalid)`: the value of `parse_result`,
the value of `token`, and the state with the widths updated. -/
def parseLoopBody (fuel : Nat) (mem : List Char) (st : ParseLoopState) :
    Except Fault (ParsedResult × CPPToken × ParseLoopState) := do
  let token := CPPTokeniser_PeekToken st.tokeniser
  if token.type = CPPTokenType.InspectCode ∨
      token.type = CPPTokenType.InspectGeneratePrototype then
    if token.type = CPPTokenType.InspectCode then do
      let (_, tokeniser) ← CPPTokeniser_NextToken st.tokeniser
      let token := CPPTokeniser_PeekToken tokeniser
      if IsIdentifierToken mem token "enum" then do
        let (ok, parsed_enum, tokeniser) ← ParseCPPEnum fuel mem tokeniser
        pure (if ok then ParsedResult.Enum parsed_enum else ParsedResult.Invalid, token,
          { st with tokeniser := tokeniser })
      else if IsIdentifierToken mem token "struct" ∨ IsIdentifierToken mem token "class" then do
        let (ok, parsed_struct, tokeniser) ← ParseCPPStruct fuel mem tokeniser
        pure (if ok then ParsedResult.Struct parsed_struct else ParsedResult.Invalid, token,
          { st with tokeniser := tokeniser })
      else pure (ParsedResult.Invalid, token, { st with tokeniser := tokeniser })
    else do
      let (ok, parsed_func_prototype, tokeniser) ← ParseCPPInspectPrototype fuel mem st.tokeniser
      if ok then
        pure (ParsedResult.FunctionPrototype parsed_func_prototype, token,
          { st with
            tokeniser := tokeniser
            max_func_return_type_decl_len :=
              INSPECT_MAX st.max_func_return_type_decl_len parsed_func_prototype.return_type.len
            max_func_name_decl_len :=
              INSPECT_MAX st.max_func_name_decl_len parsed_func_prototype.name.len })
      else pure (ParsedResult.Invalid, token, { st with tokeniser := tokeniser })
  else do
    let (token, tokeniser) ← CPPTokeniser_NextToken st.tokeniser
    pure (ParsedResult.Invalid, token, { st with tokeniser := tokeniser })

/-- The parse loop of `main`:
`for (token = PeekToken; ; token = PeekToken) { ...; if (parse_result.type != Invalid)
   parsing_results.push_back(parse_result); if (token.type == EndOfStream) break; }`. -/
def parseLoop (mem : List Char) : Nat → ParseLoopState → Except Fault ParseLoopState
  | 0, _ => throw Fault.outOfFuel
  | fuel + 1, st => do
    let (parse_result, token, st) ← parseLoopBody fuel mem st
    let st :=
      if parse_result.type ≠ ParsedResultType.Invalid then
        { st with parsing_results := st.parsing_results ++ [parse_result] }
      else st
    if token.type = CPPTokenType.EndOfStream then pure st
    else parseLoop mem fuel st

/-! ## The code generator of `main` -/

/-- The spaces `printf("%*s", num_spaces, "")` writes. -/
def fmtPad (num_spaces : Int) : List Char := List.replicate num_spaces.natAbs ' '

/-- The text `printf` writes for `%d`. -/
def fmtInt (n : Int) : List Char := (toString n).toList

/-- The function `CPPTokeniser_SprintfToFile`, given the text the format expands to. -/
def CPPTokeniser_SprintfToFile (tokeniser : CPPTokeniser) (text : List Char) : CPPTokeniser :=
  let num_spaces : Int := (tokeniser.spaces_per_indent : Int) * tokeniser.indent_level
  { tokeniser with output_file := tokeniser.output_file ++ fmtPad num_spaces ++ text }

/-- The function `CPPTokeniser_SprintfToFileNoIndenting`, given the text the format
expands to. -/
def CPPTokeniser_SprintfToFileNoIndenting (tokeniser : CPPTokeniser) (text : List Char) :
    CPPTokeniser :=
  { tokeniser with output_file := tokeniser.output_file ++ text }

def indentMore (tokeniser : CPPTokeniser) : CPPTokeniser :=
  { tokeniser with indent_level := tokeniser.indent_level + 1 }

def indentLess (tokeniser : CPPTokeniser) : CPPTokeniser :=
  { tokeniser with indent_level := tokeniser.indent_level - 1 }

/-- The loop that writes the entries of `DqnInspect_<Enum>_Strings`. -/
def writeEnumStrings (mem : List Char) :
    List (CPPDeclLinkedList StringLiteral) → CPPTokeniser → CPPTokeniser
  | [], tokeniser => tokeniser
  | link :: next, tokeniser =>
    let enum_value := link.value
    writeEnumStrings mem next
      (CPPTokeniser_SprintfToFileNoIndenting tokeniser
        ("\"".toList ++ fmtLit mem enum_value ++ "\", ".toList))

/-- The local type `SourceCode` of the stringify generator; `decl` is the text that
`snprintf` wrote and `decl_len` the value of `decl.len` (its length and the NUL). -/
structure SourceCode where
  decl : List Char := []
  decl_len : Int := 0
  enum_value : StringLiteral := {}
  deriving DecidableEq, Repr, Inhabited

/-- The text of `fmt` for one variant: `"if (val == %.*s::%.*s) "` for an enum declared
with `class` or `struct`, `"if (val == %.*s) "` otherwise. -/
def enumTestDecl (mem : List Char) (parsed_enum : ParsedEnum) (enum_value : StringLiteral) :
    List Char :=
  if parsed_enum.struct_or_class_decl then
    "if (val == ".toList ++ fmtLit mem parsed_enum.name ++ "::".toList
      ++ fmtLit mem enum_value ++ ") ".toList
  else "if (val == ".toList ++ fmtLit mem enum_value ++ ") ".toList

/-- The loop that fills the list `src_code` and computes `longest_decl_len`. -/
def buildSourceCode (mem : List Char) (parsed_enum : ParsedEnum) :
    List (CPPDeclLinkedList StringLiteral) → List SourceCode → Int → List SourceCode × Int
  | [], src_code, longest_decl_len => (src_code, longest_decl_len)
  | link :: next, src_code, longest_decl_len =>
    let enum_value := link.value
    let decl := enumTestDecl mem parsed_enum enum_value
    let required_len : Int := (decl.length : Int) + 1
    buildSourceCode mem parsed_enum next
      (src_code ++ [{ decl := decl, decl_len := required_len, enum_value := enum_value }])
      (INSPECT_MAX longest_decl_len required_len)

/-- The loop that writes one line of `DqnInspectEnum_Stringify` per node of `src_code`. -/
def writeStringifyLines (mem : List Char) (parsed_enum : ParsedEnum) (longest_decl_len : Int) :
    List SourceCode → Int → CPPTokeniser → CPPTokeniser
  | [], _, tokeniser => tokeniser
  | src_code :: next, enum_index, tokeniser =>
    let enum_value := src_code.enum_value
    let padding := longest_decl_len - src_code.decl_len
    let tokeniser := CPPTokeniser_SprintfToFile tokeniser
      ((src_code.decl.take src_code.decl_len.toNat) ++ fmtPad padding)
    let tokeniser := CPPTokeniser_SprintfToFileNoIndenting tokeniser
      ("\x7b if (len) *len = CHAR_COUNT(\"".toList ++ fmtLit mem enum_value
        ++ "\"); return DqnInspect_".toList ++ fmtLit mem parsed_enum.name
        ++ "_Strings[".toList ++ fmtInt enum_index ++ "]; \x7d\n".toList)
    writeStringifyLines mem parsed_enum longest_decl_len next (enum_index + 1) tokeniser

/-- The block that writes `DqnInspectEnum_Stringify`.  With no variant the statement
`curr_src_code->next = nullptr;` goes through a null pointer. -/
def writeEnumStringify (mem : List Char) (parsed_enum : ParsedEnum) (tokeniser : CPPTokeniser) :
    Except Fault CPPTokeniser := do
  let tokeniser := CPPTokeniser_SprintfToFile tokeniser
    ("char const *DqnInspectEnum_Stringify(".toList ++ fmtLit mem parsed_enum.name
      ++ " val, int *len = nullptr)\n\x7b\n".toList)
  let tokeniser := indentMore tokeniser
  let (src_code, longest_decl_len) := buildSourceCode mem parsed_enum parsed_enum.members [] 0
  if src_code = [] then throw Fault.nullDeref
  else
    let tokeniser := writeStringifyLines mem parsed_enum longest_decl_len src_code 0 tokeniser
    let tokeniser := CPPTokeniser_SprintfToFile tokeniser "return nullptr;\n".toList
    let tokeniser := indentLess tokeniser
    pure (CPPTokeniser_SprintfToFile tokeniser "\x7d\n\n".toList)

/-- The local type `CPPDeclToMetaValue` of the metadata generator. -/
structure CPPDeclToMetaValue where
  cpp_decl : StringLiteral := {}
  value : StringLiteral := {}
  deriving DecidableEq, Repr, Inhabited

/-- The local type `MetadataEntry`; `cpp_decl_to_val` is a `FixedArray` of 32 slots. -/
structure MetadataEntry where
  type : StringLiteral := {}
  name : StringLiteral := {}
  cpp_decl_to_val : List CPPDeclToMetaValue := []
  deriving DecidableEq, Repr, Inhabited

/-- The update `FixedArray_Add(&entry->cpp_decl_to_val, decl_to_val)` of the first entry
with the type and name of the metadata; `none` when no entry has them. -/
def addToMetadataEntry (mem : List Char) (metadata : CPPVariableDecl)
    (decl_to_val : CPPDeclToMetaValue) :
    List MetadataEntry → Except Fault (Option (List MetadataEntry))
  | [] => pure none
  | check_metadata_entry :: rest =>
    if StrCmp mem check_metadata_entry.type metadata.type ∧
        StrCmp mem check_metadata_entry.name metadata.name then
      if ¬ (check_metadata_entry.cpp_decl_to_val.length < 32) then throw Fault.assertFail
      else pure (some ({ check_metadata_entry with
        cpp_decl_to_val := check_metadata_entry.cpp_decl_to_val ++ [decl_to_val] } :: rest))
    else do
      match ← addToMetadataEntry mem metadata decl_to_val rest with
      | none => pure none
      | some rest => pure (some (check_metadata_entry :: rest))

/-- The loop over the metadata of one variant. -/
def collectVariantMetadata (mem : List Char) (cpp_decl : StringLiteral) :
    List CPPVariableDecl → List MetadataEntry → Except Fault (List MetadataEntry)
  | [], metadata_entries => pure metadata_entries
  | metadata :: next, metadata_entries => do
    let decl_to_val : CPPDeclToMetaValue :=
      { cpp_decl := cpp_decl, value := metadata.default_value }
    match ← addToMetadataEntry mem metadata decl_to_val metadata_entries with
    | some metadata_entries => collectVariantMetadata mem cpp_decl next metadata_entries
    | none =>
      if ¬ (metadata_entries.length + 1 ≤ 32) then throw Fault.assertFail
      else
        collectVariantMetadata mem cpp_decl next
          (metadata_entries ++
            [{ type := metadata.type, name := metadata.name, cpp_decl_to_val := [decl_to_val] }])

/-- The loop over the variants that fills `metadata_entries`. -/
def collectMetadata (mem : List Char) :
    List (CPPDeclLinkedList StringLiteral) → List MetadataEntry →
      Except Fault (List MetadataEntry)
  | [], metadata_entries => pure metadata_entries
  | link :: next, metadata_entries => do
    let metadata_entries ←
      collectVariantMetadata mem link.value link.metadata_list metadata_entries
    collectMetadata mem next metadata_entries

/-- The loop that writes one test per variant that carries the metadata; `body` is
the text of the statement between the braces. -/
def writeMetadataTests (mem : List Char) (parsed_enum : ParsedEnum)
    (body : StringLiteral → List Char) :
    List CPPDeclToMetaValue → CPPTokeniser → CPPTokeniser
  | [], tokeniser => tokeniser
  | decl_to_val :: next, tokeniser =>
    let tokeniser := CPPTokeniser_SprintfToFile tokeniser
      (enumTestDecl mem parsed_enum decl_to_val.cpp_decl)
    let tokeniser := CPPTokeniser_SprintfToFileNoIndenting tokeniser (body decl_to_val.value)
    writeMetadataTests mem parsed_enum body next tokeniser

/-- The accessor written for one metadata entry. -/
def writeMetadataGetter (mem : List Char) (parsed_enum : ParsedEnum) (metadata : MetadataEntry)
    (tokeniser : CPPTokeniser) : CPPTokeniser :=
  if metadata.type.len ≥ 4 ∧ (mem.drop metadata.type.str).take 4 = "char".toList then
    let tokeniser := CPPTokeniser_SprintfToFile tokeniser
      (fmtLit mem metadata.type ++ " DqnInspectMetadata_".toList ++ fmtLit mem metadata.name
        ++ "(".toList ++ fmtLit mem parsed_enum.name ++ " val)\n\x7b\n".toList)
    let tokeniser := indentMore tokeniser
    let tokeniser := writeMetadataTests mem parsed_enum
      (fun value => "\x7b return ".toList ++ fmtLit mem value ++ "; \x7d\n".toList)
      metadata.cpp_decl_to_val tokeniser
    let tokeniser := CPPTokeniser_SprintfToFile tokeniser "return nullptr;\n".toList
    let tokeniser := indentLess tokeniser
    CPPTokeniser_SprintfToFile tokeniser "\x7d\n\n".toList
  else
    let tokeniser := CPPTokeniser_SprintfToFile tokeniser
      ("bool DqnInspectMetadata_".toList ++ fmtLit mem metadata.name ++ "(".toList
        ++ fmtLit mem parsed_enum.name ++ " val, ".toList ++ fmtLit mem metadata.type
        ++ " *value)\n\x7b\n".toList)
    let tokeniser := indentMore tokeniser
    let tokeniser := writeMetadataTests mem parsed_enum
      (fun value => "\x7b *value = ".toList ++ fmtLit mem value ++ "; return true; \x7d\n".toList)
      metadata.cpp_decl_to_val tokeniser
    let tokeniser := CPPTokeniser_SprintfToFile tokeniser "return false;\n".toList
    let tokeniser := indentLess tokeniser
    CPPTokeniser_SprintfToFile tokeniser "\x7d\n\n".toList

/-- The case `ParsedResultType::Enum` of the generator. -/
def generateEnum (mem : List Char) (parsed_enum : ParsedEnum) (tokeniser : CPPTokeniser) :
    Except Fault CPPTokeniser := do
  -- Write Stringified Enum Array
  let tokeniser := CPPTokeniser_SprintfToFile tokeniser
    ("char const *DqnInspect_".toList ++ fmtLit mem parsed_enum.name
      ++ "_Strings[] = \x7b".toList)
  let tokeniser := indentMore tokeniser
  let tokeniser := writeEnumStrings mem parsed_enum.members tokeniser
  let tokeniser := indentLess tokeniser
  let tokeniser := CPPTokeniser_SprintfToFile tokeniser "\x7d;\n\n".toList
  -- Write InspectEnumString Function
  let tokeniser ← writeEnumStringify mem parsed_enum tokeniser
  -- Write User Annotated Metadata Getter Functions
  let metadata_entries ← collectMetadata mem parsed_enum.members []
  pure (metadata_entries.foldl
    (fun tokeniser metadata => writeMetadataGetter mem parsed_enum metadata tokeniser) tokeniser)

/-- The loop that writes the entries of `DqnInspect_<Struct>_StructMembers`. -/
def writeStructMembers (mem : List Char) :
    List (CPPDeclLinkedList CPPVariableDecl) → CPPTokeniser → CPPTokeniser
  | [], tokeniser => tokeniser
  | member :: next, tokeniser =>
    let decl := member.value
    let tokeniser := CPPTokeniser_SprintfToFile tokeniser "\x7b\n".toList
    let tokeniser := indentMore tokeniser
    let tokeniser := CPPTokeniser_SprintfToFile tokeniser
      ("STR_AND_LEN(\"".toList ++ fmtLit mem decl.type ++ "\"), ".toList)
    let tokeniser := CPPTokeniser_SprintfToFileNoIndenting tokeniser
      ("STR_AND_LEN(\"".toList ++ fmtLit mem decl.name ++ "\"),\n".toList)
    let tokeniser :=
      if decl.template_expr.len ≤ 0 then
        CPPTokeniser_SprintfToFile tokeniser
          "nullptr, 0, // template_expr and template_expr_len\n".toList
      else
        CPPTokeniser_SprintfToFile tokeniser
          ("STR_AND_LEN(\"".toList ++ fmtLit mem decl.template_expr
            ++ "\"), // template_expr\n".toList)
    let tokeniser := CPPTokeniser_SprintfToFile tokeniser
      (fmtInt decl.array_dimensions ++ " // array_dimensions\n".toList)
    let tokeniser := indentLess tokeniser
    let tokeniser := CPPTokeniser_SprintfToFile tokeniser "\x7d,\n".toList
    writeStructMembers mem next tokeniser

/-- The case `ParsedResultType::Struct` of the generator. -/
def generateStruct (mem : List Char) (parsed_struct : ParsedStruct) (tokeniser : CPPTokeniser) :
    Except Fault CPPTokeniser := do
  let name := fmtLit mem parsed_struct.name
  -- Write DqnInspect_StructMembers Definition
  let tokeniser := CPPTokeniser_SprintfToFile tokeniser
    ("DqnInspect_StructMember const DqnInspect_".toList ++ name
      ++ "_StructMembers[] =\n\x7b\n".toList)
  let tokeniser := indentMore tokeniser
  let tokeniser := writeStructMembers mem parsed_struct.members tokeniser
  let tokeniser := indentLess tokeniser
  let tokeniser := CPPTokeniser_SprintfToFile tokeniser "\x7d;\n\n".toList
  -- Write DqnInspect_Struct Definition
  let tokeniser := CPPTokeniser_SprintfToFile tokeniser
    ("DqnInspect_Struct const DqnInspect_".toList ++ name ++ "_Struct =\n\x7b\n".toList)
  let tokeniser := indentMore tokeniser
  let tokeniser := CPPTokeniser_SprintfToFile tokeniser
    ("STR_AND_LEN(\"".toList ++ name ++ "\"),\n".toList)
  let tokeniser := CPPTokeniser_SprintfToFile tokeniser
    ("DqnInspect_".toList ++ name ++ "_StructMembers, // members\n".toList)
  let tokeniser := CPPTokeniser_SprintfToFile tokeniser
    ("ARRAY_COUNT(DqnInspect_".toList ++ name ++ "_StructMembers) // members_len\n".toList)
  let tokeniser := indentLess tokeniser
  let tokeniser := CPPTokeniser_SprintfToFile tokeniser "\x7d;\n\n".toList
  if tokeniser.indent_level ≠ 0 then throw Fault.assertFail
  else
    -- Write DqnInspect_Struct getter
    let tokeniser := CPPTokeniser_SprintfToFile tokeniser
      ("DqnInspect_Struct const *DqnInspect_GetStruct(".toList ++ name ++ " const *val)\n".toList)
    let tokeniser := CPPTokeniser_SprintfToFile tokeniser "\x7b\n".toList
    let tokeniser := indentMore tokeniser
    let tokeniser := CPPTokeniser_SprintfToFile tokeniser "(void)val;\n".toList
    let tokeniser := CPPTokeniser_SprintfToFile tokeniser
      ("DqnInspect_Struct const *result = &DqnInspect_".toList ++ name ++ "_Struct;\n".toList)
    let tokeniser := CPPTokeniser_SprintfToFile tokeniser "return result;\n".toList
    let tokeniser := indentLess tokeniser
    pure (CPPTokeniser_SprintfToFile tokeniser "\x7d\n\n".toList)

/-- The loop `for (int i = 0; i < spaces_remaining; ++i) ...NoIndenting(" ")`. -/
def writeSpaces (spaces_remaining : Int) (tokeniser : CPPTokeniser) : CPPTokeniser :=
  CPPTokeniser_SprintfToFileNoIndenting tokeniser (List.replicate spaces_remaining.toNat ' ')

/-- The loop that writes the parameters of a prototype. -/
def writeFunctionParams (mem : List Char) :
    List (CPPDeclLinkedList CPPVariableDecl) → CPPTokeniser → CPPTokeniser
  | [], tokeniser => tokeniser
  | param_link :: next, tokeniser =>
    let decl := param_link.value
    let tokeniser := CPPTokeniser_SprintfToFileNoIndenting tokeniser (fmtLit mem decl.type)
    let tokeniser :=
      if decl.template_expr.len > 0 then
        CPPTokeniser_SprintfToFileNoIndenting tokeniser
          ("<".toList ++ fmtLit mem decl.template_expr ++ ">".toList)
      else tokeniser
    let tokeniser :=
      if decl.name.len > 0 then
        CPPTokeniser_SprintfToFileNoIndenting tokeniser (" ".toList ++ fmtLit mem decl.name)
      else tokeniser
    let tokeniser :=
      if decl.default_value.len > 0 then
        CPPTokeniser_SprintfToFileNoIndenting tokeniser
          (" = ".toList ++ fmtLit mem decl.default_value)
      else tokeniser
    let tokeniser :=
      if next ≠ [] then CPPTokeniser_SprintfToFileNoIndenting tokeniser ", ".toList
      else tokeniser
    writeFunctionParams mem next tokeniser

/-- The case `ParsedResultType::FunctionPrototype` of the generator. -/
def generateFunctionPrototype (mem : List Char) (max_func_return_type_decl_len : Int)
    (max_func_name_decl_len : Int) (parsed_func : ParsedFunctionPrototype)
    (tokeniser : CPPTokeniser) : CPPTokeniser :=
  let return_type := parsed_func.return_type
  let func_name := parsed_func.name
  let spaces_remaining := max_func_return_type_decl_len - return_type.len
  let tokeniser := CPPTokeniser_SprintfToFile tokeniser (fmtLit mem return_type ++ " ".toList)
  let tokeniser := writeSpaces spaces_remaining tokeniser
  let spaces_remaining := max_func_name_decl_len - func_name.len
  let tokeniser := CPPTokeniser_SprintfToFile tokeniser (fmtLit mem func_name)
  let tokeniser := writeSpaces spaces_remaining tokeniser
  let tokeniser := CPPTokeniser_SprintfToFile tokeniser "(".toList
  let tokeniser := writeFunctionParams mem parsed_func.members tokeniser
  CPPTokeniser_SprintfToFileNoIndenting tokeniser ");\n".toList

/-- The body of the loop `for (ParsedResult &parser : parsing_results)`. -/
def generateResult (mem : List Char) (max_func_return_type_decl_len : Int)
    (max_func_name_decl_len : Int) (parser : ParsedResult) (tokeniser : CPPTokeniser) :
    Except Fault CPPTokeniser :=
  match parser with
  | ParsedResult.Enum parsed_enum => generateEnum mem parsed_enum tokeniser
  | ParsedResult.Struct parsed_struct => generateStruct mem parsed_struct tokeniser
  | ParsedResult.FunctionPrototype parsed_func =>
    pure (generateFunctionPrototype mem max_func_return_type_decl_len max_func_name_decl_len
      parsed_func tokeniser)
  | ParsedResult.Invalid => pure tokeniser

/-- The loop `for (ParsedResult &parser : parsing_results)` of `main`. -/
def generateResults (mem : List Char) (max_func_return_type_decl_len : Int)
    (max_func_name_decl_len : Int) :
    List ParsedResult → CPPTokeniser → Except Fault CPPTokeniser
  | [], tokeniser => pure tokeniser
  | parser :: rest, tokeniser => do
    let tokeniser ← generateResult mem max_func_return_type_decl_len max_func_name_decl_len
      parser tokeniser
    generateResults mem max_func_return_type_decl_len max_func_name_decl_len rest tokeniser

/-- The part of `main` that works on one file, between the header and the footer it
prints: the marker scan, the parse loop and the generator.  It gives the parse results
and the tokeniser, whose `output_file` holds the text written to `stdout`. -/
def inspectFile (fuel : Nat) (mem : List Char) (mode : InspectMode) :
    Except Fault (List ParsedResult × CPPTokeniser) := do
  let tokeniser : CPPTokeniser := { spaces_per_indent := 4, tokens_max := 16384 }
  let tokeniser ← lexFile fuel mem mode tokeniser
  let st ← parseLoop mem fuel { tokeniser := tokeniser }
  let tokeniser ← generateResults mem st.max_func_return_type_decl_len
    st.max_func_name_decl_len st.parsing_results st.tokeniser
  pure (st.parsing_results, tokeniser)

/-- The file buffer `main` builds for a file with the given contents, up to its
terminating NUL.  The memory after the NUL, the part of the arena in which `main`
allocates next, is not part of it: a read after the NUL is a read beyond the given
memory. -/
def fileBuffer (contents : String) : List Char := contents.toList ++ [NUL]

/-! ## Notions used to state the properties -/

/-- A parameter with its default-value field cleared: what is left is its metadata,
type text, name, generic-argument text and array dimensions. -/
def withoutDefault (param : CPPDeclLinkedList CPPVariableDecl) :
    CPPDeclLinkedList CPPVariableDecl :=
  { param with value := { param.value with default_value := {} } }

/-- Some parameter of the list has the name of the declared default. -/
def namesParam (mem : List Char) (params : List (CPPDeclLinkedList CPPVariableDecl))
    (default_param : FunctionDefaultParam) : Bool :=
  params.any (fun param => StrCmp mem param.value.name default_param.name)

/-- The characters that the lexer turns into a token by themselves, with the kind of
that token. -/
def delimiterTable : List (Char × CPPTokenType) :=
  [('\x7b', CPPTokenType.LeftBrace), ('\x7d', CPPTokenType.RightBrace),
   ('[', CPPTokenType.LeftSqBracket), (']', CPPTokenType.RightSqBracket),
   ('(', CPPTokenType.OpenParen), (')', CPPTokenType.CloseParen),
   (',', CPPTokenType.Comma), (';', CPPTokenType.SemiColon), ('=', CPPTokenType.Equals),
   ('<', CPPTokenType.LessThan), ('>', CPPTokenType.GreaterThan), (':', CPPTokenType.Colon),
   ('*', CPPTokenType.Asterisks)]

/-- The effect of one character of plain text on the depth counters of the lexer. -/
def scopeStep (sc : LexScope) (c : Char) : LexScope :=
  if c = '\x7b' then
    { sc with started_lexing_brace_scope := true, indent_level := sc.indent_level + 1 }
  else if c = '\x7d' then { sc with indent_level := sc.indent_level - 1 }
  else if c = '(' then
    { sc with started_lexing_function := true, paren_level := sc.paren_level + 1 }
  else if c = ')' then { sc with paren_level := sc.paren_level - 1 }
  else sc

/-- A character that may start an identifier. -/
def identStart (c : Char) : Bool := CharIsAlpha c || c == '_'

/-- A character that may continue an identifier. -/
def identRest (c : Char) : Bool := CharIsAlphaNum c || c == '_'

/-- A character that may continue a number. -/
def numberRest (c : Char) : Bool :=
  CharIsDigit c || c == 'x' || c == 'b' || c == 'e' || c == '.' || c == 'f'
/-- A piece of plain source text: some whitespace, then the characters of one
identifier, number or delimiter; `type` is the kind of token they make. -/
structure Lexeme where
  space : List Char := []
  text : List Char
  type : CPPTokenType
  deriving DecidableEq, Repr

def Lexeme.render (l : Lexeme) : List Char := l.space ++ l.text

/-- The text of a list of lexemes. -/
def renderLexemes : List Lexeme → List Char
  | [] => []
  | l :: ls => l.render ++ renderLexemes ls

/-- The lexeme is written as a token of its kind is written, given the text that
follows it: its space is whitespace; a delimiter is its character; an identifier is a
letter or underscore and then letters, digits and underscores, as many as there are; a
number is a digit and then digits and the characters `x b e . f`, as many as there
are. -/
def Lexeme.wellFormed (l : Lexeme) (follows : List Char) : Bool :=
  l.space.all CharIsWhitespace &&
  (match l.text with
   | [] => false
   | c :: cs =>
     (cs.isEmpty && delimiterTable.contains (c, l.type)) ||
     (l.type == CPPTokenType.Identifier && identStart c && cs.all identRest &&
       (match follows with
        | [] => false
        | d :: _ => !identRest d)) ||
     (l.type == CPPTokenType.Number && CharIsDigit c && cs.all numberRest &&
       (match follows with
        | [] => false
        | d :: _ => !numberRest d)))

/-- Every lexeme of the list is well formed, given the text `tail` after the list. -/
def wellFormedLexemes : List Lexeme → List Char → Bool
  | [], _ => true
  | l :: ls, tail => l.wellFormed (renderLexemes ls ++ tail) && wellFormedLexemes ls tail

/-- The tokens of a list of lexemes whose text starts at offset `ptr`. -/
def lexemeTokens (ptr : Nat) : List Lexeme → List CPPToken
  | [] => []
  | l :: ls =>
    { type := l.type, str := ptr + l.space.length, len := l.text.length }
      :: lexemeTokens (ptr + l.space.length + l.text.length) ls

/-- The effect of a token of the given kind on the depth counters of the lexer. -/
def typeScope (sc : LexScope) (type : CPPTokenType) : LexScope :=
  match type with
  | CPPTokenType.LeftBrace =>
    { sc with started_lexing_brace_scope := true, indent_level := sc.indent_level + 1 }
  | CPPTokenType.RightBrace => { sc with indent_level := sc.indent_level - 1 }
  | CPPTokenType.OpenParen =>
    { sc with started_lexing_function := true, paren_level := sc.paren_level + 1 }
  | CPPTokenType.CloseParen => { sc with paren_level := sc.paren_level - 1 }
  | _ => sc

/-- The depth counters after tokens of the given kinds. -/
def typesScope (sc : LexScope) (types : List CPPTokenType) : LexScope :=
  types.foldl typeScope sc

/-- The first token at which the lexer's test for the end of the scope succeeds is the
last one of the list. -/
def StopsAtLast (lexing_function : Bool) (sc : LexScope) (types : List CPPTokenType) : Prop :=
  types ≠ [] ∧ lexStop lexing_function (typesScope sc types) = true ∧
    ∀ k, 0 < k → k < types.length →
      lexStop lexing_function (typesScope sc (types.take k)) = false

/-- The lexer's test for the end of the scope succeeds after no token of the list. -/
def NeverStops (lexing_function : Bool) (sc : LexScope) (types : List CPPTokenType) : Prop :=
  ∀ k, 0 < k → k ≤ types.length →
    lexStop lexing_function (typesScope sc (types.take k)) = false

/-- The number of tokens of kind `opener` less the number of tokens of kind `closer`. -/
def scopeDepth (opener closer : CPPTokenType) (types : List CPPTokenType) : Int :=
  (types.count opener : Int) - (types.count closer : Int)

/-- The tokens nest properly: as many closers as openers, and no closer without an
opener before it. -/
def Balanced (opener closer : CPPTokenType) (types : List CPPTokenType) : Prop :=
  scopeDepth opener closer types = 0 ∧
    ∀ k, k ≤ types.length → 0 ≤ scopeDepth opener closer (types.take k)

instance (opener closer : CPPTokenType) (types : List CPPTokenType) :
    Decidable (Balanced opener closer types) := by
  unfold Balanced
  exact inferInstance

/-- The kind of token that opens the scope the lexer follows: a parenthesis for a
function prototype, a brace for a struct or enum. -/
def scopeOpener (lexing_function : Bool) : CPPTokenType :=
  if lexing_function then CPPTokenType.OpenParen else CPPTokenType.LeftBrace

/-- The kind of token that closes the scope the lexer follows. -/
def scopeCloser (lexing_function : Bool) : CPPTokenType :=
  if lexing_function then CPPTokenType.CloseParen else CPPTokenType.RightBrace

/-- The kinds of the tokens of a list of lexemes. -/
def lexemeTypes (ls : List Lexeme) : List CPPTokenType := ls.map (fun l => l.type)

/-- The entries `ParseCPPEnum` records for the identifiers among the tokens, when none
of them carries metadata. -/
def identifierLiterals (tokens : List CPPToken) : List (CPPDeclLinkedList StringLiteral) :=
  (tokens.filter (fun t => t.type == CPPTokenType.Identifier)).map
    (fun t => { metadata_list := [], value := { str := t.str, len := t.len } })

/-- The kinds of a list of tokens. -/
def tokenTypes (tokens : List CPPToken) : List CPPTokenType := tokens.map (fun t => t.type)

/-- The brace depth of a list of tokens. -/
def braceDepth (tokens : List CPPToken) : Int :=
  scopeDepth CPPTokenType.LeftBrace CPPTokenType.RightBrace (tokenTypes tokens)

/-- The lexemes of the variants of an enum: for each variant the lexeme of its name and
the lexemes that follow it up to the next variant (an initializer, a comma). -/
def variantLexemes : List (Lexeme × List Lexeme) → List Lexeme
  | [] => []
  | v :: vs => v.1 :: (v.2 ++ variantLexemes vs)

/-- The text of the entries of a string table with the given names: each name between
double quotes, followed by a comma and a space. -/
def stringTable : List (List Char) → List Char
  | [] => []
  | name :: names => "\"".toList ++ name ++ "\", ".toList ++ stringTable names

/-- The identifier lexemes of a list. -/
def identifierLexemes (ls : List Lexeme) : List Lexeme :=
  ls.filter (fun l => l.type == CPPTokenType.Identifier)

/-- The text of one test of the stringify function: the variant is written
`Enum::Variant` for an enum declared with `class` or `struct`, `Variant` otherwise. -/
def stringifyTest (qualified : Bool) (enumName variant : List Char) : List Char :=
  "if (val == ".toList ++ (if qualified then enumName ++ "::".toList else []) ++ variant
    ++ ") ".toList

/-- The width of the widest test. -/
def stringifyWidth (qualified : Bool) (enumName : List Char) : List (List Char) → Nat
  | [] => 0
  | variant :: variants =>
    max (stringifyTest qualified enumName variant).length
      (stringifyWidth qualified enumName variants)

/-- The line of the stringify function for the variant at position `index`: the test,
padded to `width`, and the statement that reports the length of the name and returns
entry `index` of the string table. -/
def stringifyLine (indent : List Char) (qualified : Bool) (enumName : List Char) (width : Nat)
    (index : Nat) (variant : List Char) : List Char :=
  indent ++ stringifyTest qualified enumName variant
    ++ List.replicate (width - (stringifyTest qualified enumName variant).length) ' '
    ++ "\x7b if (len) *len = CHAR_COUNT(\"".toList ++ variant
    ++ "\"); return DqnInspect_".toList ++ enumName ++ "_Strings[".toList
    ++ (toString index).toList ++ "]; \x7d\n".toList

/-- The lines of the stringify function for the variants, the first one at position
`index`. -/
def stringifyLines (indent : List Char) (qualified : Bool) (enumName : List Char) (width : Nat) :
    Nat → List (List Char) → List Char
  | _, [] => []
  | index, variant :: variants =>
    stringifyLine indent qualified enumName width index variant
      ++ stringifyLines indent qualified enumName width (index + 1) variants

/-- The names of the variants of a parsed enum, as `printf` writes them. -/
def variantNames (mem : List Char) (parsed_enum : ParsedEnum) : List (List Char) :=
  parsed_enum.members.map (fun m => fmtLit mem m.value)

/-- The node that the first loop of the stringify generator makes for a variant. -/
def sourceCodeOf (mem : List Char) (parsed_enum : ParsedEnum)
    (m : CPPDeclLinkedList StringLiteral) : SourceCode :=
  { decl := enumTestDecl mem parsed_enum m.value
    decl_len := ((enumTestDecl mem parsed_enum m.value).length : Int) + 1
    enum_value := m.value }

/-- The text of the stringify function of an enum, written at indentation `pad`, its
body at indentation `inner`. -/
def stringifyText (pad inner : List Char) (qualified : Bool) (enumName : List Char)
    (variants : List (List Char)) : List Char :=
  pad ++ "char const *DqnInspectEnum_Stringify(".toList ++ enumName
    ++ " val, int *len = nullptr)\n\x7b\n".toList
    ++ stringifyLines inner qualified enumName (stringifyWidth qualified enumName variants) 0
        variants
    ++ inner ++ "return nullptr;\n".toList ++ pad ++ "\x7d\n\n".toList

/-- The text of the string table of an enum, written at indentation `pad`. -/
def stringTableText (pad : List Char) (enumName : List Char) (variants : List (List Char)) :
    List Char :=
  pad ++ "char const *DqnInspect_".toList ++ enumName ++ "_Strings[] = \x7b".toList
    ++ stringTable variants ++ pad ++ "\x7d;\n\n".toList

/-- The lexemes of the data members of a struct, each written as a type, a name and a
semicolon. -/
def memberLexemes : List (Lexeme × Lexeme × Lexeme) → List Lexeme
  | [] => []
  | m :: ms => m.1 :: m.2.1 :: m.2.2 :: memberLexemes ms

/-- What an entry of the member-descriptor array says about a member: the type text, the
name text, the text of the generic arguments if there are any, the array dimensions. -/
structure MemberDescriptor where
  type : List Char
  name : List Char
  template_expr : Option (List Char) := none
  array_dimensions : Int := 0
  deriving DecidableEq, Repr

/-- The descriptor of a parsed member, with the texts as `printf` writes them. -/
def describeMember (mem : List Char) (member : CPPDeclLinkedList CPPVariableDecl) :
    MemberDescriptor :=
  { type := fmtLit mem member.value.type
    name := fmtLit mem member.value.name
    template_expr :=
      if member.value.template_expr.len ≤ 0 then none
      else some (fmtLit mem member.value.template_expr)
    array_dimensions := member.value.array_dimensions }

/-- The text of one entry of the member-descriptor array, written at indentation `pad`,
its fields at indentation `inner`. -/
def memberEntry (pad inner : List Char) (d : MemberDescriptor) : List Char :=
  pad ++ "\x7b\n".toList
    ++ inner ++ "STR_AND_LEN(\"".toList ++ d.type ++ "\"), ".toList
    ++ "STR_AND_LEN(\"".toList ++ d.name ++ "\"),\n".toList
    ++ inner ++ (match d.template_expr with
        | none => "nullptr, 0, // template_expr and template_expr_len\n".toList
        | some expr => "STR_AND_LEN(\"".toList ++ expr ++ "\"), // template_expr\n".toList)
    ++ inner ++ (toString d.array_dimensions).toList ++ " // array_dimensions\n".toList
    ++ pad ++ "\x7d,\n".toList

/-- The text of the entries of the member-descriptor array, in order. -/
def memberEntries (pad inner : List Char) : List MemberDescriptor → List Char
  | [] => []
  | d :: ds => memberEntry pad inner d ++ memberEntries pad inner ds

/-- The string denotes the text: it has the length of the text and points at it. -/
def Spells (mem : List Char) (s : StringLiteral) (text : List Char) : Prop :=
  s.len = (text.length : Int) ∧ ∃ rest, mem.drop s.str = text ++ rest

/-- What the emitted prototype says about a parameter: the type text, and the texts of the
generic arguments, of the name and of the default value where the parameter has them. -/
structure ParamDescriptor where
  type : List Char
  template_expr : Option (List Char) := none
  name : Option (List Char) := none
  default_value : Option (List Char) := none
  deriving DecidableEq, Repr

/-- The descriptor of a parsed parameter, with the texts as `printf` writes them. -/
def describeParam (mem : List Char) (param : CPPDeclLinkedList CPPVariableDecl) :
    ParamDescriptor :=
  { type := fmtLit mem param.value.type
    template_expr :=
      if param.value.template_expr.len > 0 then some (fmtLit mem param.value.template_expr)
      else none
    name := if param.value.name.len > 0 then some (fmtLit mem param.value.name) else none
    default_value :=
      if param.value.default_value.len > 0 then some (fmtLit mem param.value.default_value)
      else none }

/-- A parameter as the emitted prototype renders it: `type<generic> name = default`. -/
def renderParam (d : ParamDescriptor) : List Char :=
  d.type
    ++ (match d.template_expr with
        | some expr => "<".toList ++ expr ++ ">".toList
        | none => [])
    ++ (match d.name with
        | some name => " ".toList ++ name
        | none => [])
    ++ (match d.default_value with
        | some value => " = ".toList ++ value
        | none => [])

/-- The parameters of the emitted prototype, separated by `, `. -/
def renderParams : List ParamDescriptor → List Char
  | [] => []
  | [d] => renderParam d
  | d :: ds => renderParam d ++ ", ".toList ++ renderParams ds

/-- The line of the emitted prototype: the return type and the name, each padded to a
column, then the parameters between parentheses. -/
def prototypeText (pad returnType : List Char) (returnPad : Nat) (name : List Char)
    (namePad : Nat) (params : List ParamDescriptor) : List Char :=
  pad ++ returnType ++ " ".toList ++ List.replicate returnPad ' '
    ++ pad ++ name ++ List.replicate namePad ' '
    ++ pad ++ "(".toList ++ renderParams params ++ ");\n".toList

instance (lexing_function : Bool) (sc : LexScope) (types : List CPPTokenType) :
    Decidable (StopsAtLast lexing_function sc types) :=
  decidable_of_iff
    (types ≠ [] ∧ lexStop lexing_function (typesScope sc types) = true ∧
      ∀ k, 1 ≤ k → k < types.length →
        lexStop lexing_function (typesScope sc (types.take k)) = false) Iff.rfl

instance (lexing_function : Bool) (sc : LexScope) (types : List CPPTokenType) :
    Decidable (NeverStops lexing_function sc types) :=
  decidable_of_iff
    (∀ k, 1 ≤ k → k ≤ types.length →
      lexStop lexing_function (typesScope sc (types.take k)) = false) Iff.rfl

/-- No declaration of the list has a generic-argument text of positive length. -/
def NoTemplateText (ds : List (CPPDeclLinkedList CPPVariableDecl)) : Prop :=
  ∀ d ∈ ds, d.value.template_expr.len ≤ 0

/-- The tokens of a list of array suffixes, each given by its opening bracket, the tokens
of its expression and its closing bracket. -/
def suffixTokens : List (CPPToken × List CPPToken × CPPToken) → List CPPToken
  | [] => []
  | g :: gs => g.1 :: (g.2.1 ++ g.2.2 :: suffixTokens gs)

/-- Taking the tokens one after the other from the brace depth `indent_level` never brings
the brace depth below zero: the assertion of `CPPTokeniser_NextToken` holds all along. -/
def BraceDepthOk (indent_level : Int) (tokens : List CPPToken) : Prop :=
  ∀ j, j ≤ tokens.length → 0 ≤ indent_level + braceDepth (tokens.take j)

instance (indent_level : Int) (tokens : List CPPToken) :
    Decidable (BraceDepthOk indent_level tokens) :=
  decidable_of_iff
    (∀ j, j ≤ tokens.length → 0 ≤ indent_level + braceDepth (tokens.take j)) Iff.rfl

/-! ### The passes of the parse loop -/

/-- The cursor of `b` is that of `a` moved forward over the same tokens. -/
def Advances (a b : CPPTokeniser) : Prop :=
  b.tokens = a.tokens ∧ a.tokens_index ≤ b.tokens_index

/-- What `ParseCPPTypeAndVariableDecl` does to the cursor: it reads the token at the
cursor, so it moves past it unless it is the end of the stream. -/
def ParseAdvances (mem : List Char) (fuel : Nat) : Prop :=
  ∀ pfp tk r, ParseCPPTypeAndVariableDecl mem fuel tk pfp = Except.ok r →
    Advances tk r.2 ∧
      ((CPPTokeniser_PeekToken tk).type ≠ CPPTokenType.EndOfStream →
        tk.tokens_index + 1 ≤ r.2.tokens_index)

/-- The loop condition of the member loops holds the token that was read last: when it
is not the end of the stream, it is the token before the cursor. -/
def ReadLast (token : CPPToken) (tk : CPPTokeniser) : Prop :=
  token.type ≠ CPPTokenType.EndOfStream →
    1 ≤ tk.tokens_index ∧ tk.tokens.getD (tk.tokens_index - 1) default = token

/-- The call of a parse routine in the body of the parse loop of `main`, for the
annotated declaration at the cursor: `ParseCPPEnum` or `ParseCPPStruct` after a
`DQN_INSPECT` marker, by the keyword that follows it, and `ParseCPPInspectPrototype` at
a `DQN_INSPECT_GENERATE_PROTOTYPE` marker.  The value is `none` when no routine is
called; otherwise it is whether the routine returned success, the result it filled in
and the tokeniser it left. -/
def routineCall (fuel : Nat) (mem : List Char) (tokeniser : CPPTokeniser) :
    Except Fault (Option (Bool × ParsedResult × CPPTokeniser)) :=
  let token := CPPTokeniser_PeekToken tokeniser
  if token.type = CPPTokenType.InspectCode then do
    let (_, tokeniser) ← CPPTokeniser_NextToken tokeniser
    let token := CPPTokeniser_PeekToken tokeniser
    if IsIdentifierToken mem token "enum" then do
      let (ok, parsed_enum, tokeniser) ← ParseCPPEnum fuel mem tokeniser
      pure (some (ok, ParsedResult.Enum parsed_enum, tokeniser))
    else if IsIdentifierToken mem token "struct" ∨ IsIdentifierToken mem token "class" then do
      let (ok, parsed_struct, tokeniser) ← ParseCPPStruct fuel mem tokeniser
      pure (some (ok, ParsedResult.Struct parsed_struct, tokeniser))
    else pure none
  else if token.type = CPPTokenType.InspectGeneratePrototype then do
    let (ok, parsed_func_prototype, tokeniser) ← ParseCPPInspectPrototype fuel mem tokeniser
    pure (some (ok, ParsedResult.FunctionPrototype parsed_func_prototype, tokeniser))
  else pure none

/-- One pass through the body of the parse loop of `main`: the tokeniser at its top and
the call of a parse routine made in it. -/
structure LoopPass where
  start : CPPTokeniser
  call : Option (Bool × ParsedResult × CPPTokeniser)

/-- The entry of the result list that a pass accounts for: the result of its parse
routine when the routine returned success, and none otherwise. -/
def LoopPass.entry (pass : LoopPass) : Option ParsedResult :=
  match pass.call with
  | some (true, result, _) => some result
  | _ => none

/-! ## Definitions for the claims on metadata, prototypes and the driver -/

/-- The characters for which the `switch` of the lexer has no token kind: not the NUL, not
whitespace, none of the one-character delimiters, not a dot, a slash or a double quote,
not a digit, a letter or an underscore. -/
def noTokenKind (c : Char) : Bool :=
  c != NUL && !CharIsWhitespace c && !"\x7b\x7d[](),;=<>:*./\"".toList.contains c &&
    !CharIsDigit c && !CharIsAlpha c && c != '_'

/-- The value of `ch` that the loop over `file_name` stores:
`if (ch == '.') ch = '_'; if (ch >= 'a' && ch <= 'z') ch -= 'a' - 'A';`. -/
def hashDefineChar (ch : Char) : Char :=
  let ch := if ch = '.' then '_' else ch
  if 'a' ≤ ch ∧ ch ≤ 'z' then Char.ofNat (ch.toNat - ('a'.toNat - 'A'.toNat)) else ch

/-- The loop `for (int i = file_name_len - 1; i >= 0; i--, extracted_file_name_len++)` of
`main`, given the characters of `file_name` from the last to the first and the part of
`extracted_file_name_buf` written so far. -/
def extractFileNameLoop : List Char → List Char → List Char
  | [], extracted => extracted
  | ch :: rest, extracted =>
    let ch := hashDefineChar ch
    if ch = '\\' ∨ ch = '/' then extracted
    else extractFileNameLoop rest (ch :: extracted)

/-- The text `file_include_contents_hash_define` of `main` (its
`file_include_contents_hash_define_len` characters) for the program argument
`file_name`. -/
def file_include_contents_hash_define (file_name : List Char) : List Char :=
  extractFileNameLoop file_name.reverse []

/-- The text that `main` prints before it inspects the file `file_name`: the banner with
the path and the opening of the inclusion guard. -/
def fileGuardOpening (file_name : List Char) : List Char :=
  "//\n// ".toList ++ file_name ++ "\n//\n\n#ifndef DQN_INSPECT_".toList
    ++ file_include_contents_hash_define file_name ++ "\n#define DQN_INSPECT_".toList
    ++ file_include_contents_hash_define file_name ++ "\n\n".toList

/-- The text that `main` prints after the generated code of the file `file_name`. -/
def fileGuardClosing (file_name : List Char) : List Char :=
  "\n#undef ARRAY_COUNT\n#undef CHAR_COUNT\n#undef STR_AND_LEN\n#endif // DQN_INSPECT_".toList
    ++ file_include_contents_hash_define file_name ++ "\n\n".toList

/-- The name of the inclusion guard as the code forms it from a file name without
directories: every `.` becomes `_`, the letters `a` to `z` become capitals, and every
other character is kept. -/
def guardName (name : List Char) : List Char :=
  name.map (fun c => if c = '.' then '_' else c.toUpper)

/-- The text the generator writes for a struct from the outermost indentation: the
member-descriptor array, the descriptor of the struct and the lookup function; `inner` is
the indentation of the lines between braces and `inner2` that of the fields of a member
entry. -/
def structText (inner inner2 : List Char) (name : List Char)
    (members : List MemberDescriptor) : List Char :=
  "DqnInspect_StructMember const DqnInspect_".toList ++ name
      ++ "_StructMembers[] =\n\x7b\n".toList
    ++ memberEntries inner inner2 members
    ++ "\x7d;\n\n".toList
    ++ "DqnInspect_Struct const DqnInspect_".toList ++ name ++ "_Struct =\n\x7b\n".toList
    ++ inner ++ "STR_AND_LEN(\"".toList ++ name ++ "\"),\n".toList
    ++ inner ++ "DqnInspect_".toList ++ name ++ "_StructMembers, // members\n".toList
    ++ inner ++ "ARRAY_COUNT(DqnInspect_".toList ++ name
      ++ "_StructMembers) // members_len\n".toList
    ++ "\x7d;\n\n".toList
    ++ "DqnInspect_Struct const *DqnInspect_GetStruct(".toList ++ name
      ++ " const *val)\n".toList
    ++ "\x7b\n".toList
    ++ inner ++ "(void)val;\n".toList
    ++ inner ++ "DqnInspect_Struct const *result = &DqnInspect_".toList ++ name
      ++ "_Struct;\n".toList
    ++ inner ++ "return result;\n".toList
    ++ "\x7d\n\n".toList

/-- The file buffer of the types of the header's usage example, annotated:
`DQN_INSPECT enum InspectedEnum { HelloWorld };` and
`DQN_INSPECT struct InspectedStruct { int x; };`. -/
def usageExampleBuffer : List Char :=
  fileBuffer ("DQN_INSPECT enum InspectedEnum \x7b HelloWorld \x7d;\n" ++
    "DQN_INSPECT struct InspectedStruct \x7b int x; \x7d;")

/-- Two metadata entries have the same key: the same key type text and the same key name,
as `StrCmp` compares them. -/
def sameKey (mem : List Char) (a b : CPPVariableDecl) : Bool :=
  StrCmp mem a.type b.type && StrCmp mem a.name b.name

/-- The keys met when going through metadata entries in order, after the keys `keys`: an
entry adds its key when no key met so far is the same. -/
def distinctKeys (mem : List Char) :
    List CPPVariableDecl → List CPPVariableDecl → List CPPVariableDecl
  | keys, [] => keys
  | keys, d :: ds =>
    if keys.any (fun key => sameKey mem key d) then distinctKeys mem keys ds
    else distinctKeys mem (keys ++ [d]) ds

/-- The metadata entries of the variants of an enum, in declaration order, each with the
variant that carries it. -/
def metadataItems :
    List (CPPDeclLinkedList StringLiteral) → List (StringLiteral × CPPVariableDecl)
  | [] => []
  | link :: next => link.metadata_list.map (fun d => (link.value, d)) ++ metadataItems next

/-- The distinct keys of a list of metadata entries, in order of first appearance. -/
def metadataKeys (mem : List Char) (items : List (StringLiteral × CPPVariableDecl)) :
    List CPPVariableDecl :=
  distinctKeys mem [] (items.map (fun item => item.2))

/-- The variants that carry the key, each with its value for that key, in declaration
order: one for each metadata entry with that key. -/
def keyTests (mem : List Char) (items : List (StringLiteral × CPPVariableDecl))
    (key : CPPVariableDecl) : List CPPDeclToMetaValue :=
  (items.filter (fun item => sameKey mem key item.2)).map
    (fun item => { cpp_decl := item.1, value := item.2.default_value })

/-- The metadata of an enum by key: for each distinct key, in order of first appearance, the
variants that carry it and their values. -/
def groupMetadata (mem : List Char) (items : List (StringLiteral × CPPVariableDecl)) :
    List MetadataEntry :=
  (metadataKeys mem items).map
    (fun key => { type := key.type, name := key.name, cpp_decl_to_val := keyTests mem items key })

/-- What holds of the keys met in a list of entries: no two of them are the same key, each
entry has one of them as its key, and each of them is an entry of the list. -/
def KeysOf (mem : List Char) (keys ds : List CPPVariableDecl) : Prop :=
  keys.Pairwise (fun a b => sameKey mem a b = false) ∧
    (∀ d ∈ ds, ∃ key ∈ keys, sameKey mem key d = true) ∧ ∀ key ∈ keys, key ∈ ds

/-- The fixed arrays of the metadata generator are large enough for the entries: at most 32
distinct keys, and at most 32 entries for each key. -/
def MetadataFits (mem : List Char) (items : List (StringLiteral × CPPVariableDecl)) : Prop :=
  (metadataKeys mem items).length ≤ 32 ∧
    ∀ key ∈ metadataKeys mem items, (keyTests mem items key).length ≤ 32

instance (mem : List Char) (items : List (StringLiteral × CPPVariableDecl)) :
    Decidable (MetadataFits mem items) :=
  decidable_of_iff ((metadataKeys mem items).length ≤ 32 ∧
    ∀ key ∈ metadataKeys mem items, (keyTests mem items key).length ≤ 32) Iff.rfl

/-- The key type text starts with `char`: the test
`metadata.type.len >= char_type.len && strncmp(metadata.type.str, "char", 4) == 0`. -/
def startsWithChar (mem : List Char) (type : StringLiteral) : Bool :=
  decide (type.len ≥ 4) && ((mem.drop type.str).take 4 == "char".toList)

/-- The tests of an accessor, one line each, written at indentation `inner`: the test on
the variant and the statement that yields its value, `return value;` in the direct form
and `*value = value; return true;` in the try-get form. -/
def accessorTests (inner : List Char) (qualified : Bool) (enumName : List Char)
    (direct : Bool) : List (List Char × List Char) → List Char
  | [] => []
  | test :: tests =>
    inner ++ stringifyTest qualified enumName test.1
      ++ (if direct then "\x7b return ".toList ++ test.2 ++ "; \x7d\n".toList
          else "\x7b *value = ".toList ++ test.2 ++ "; return true; \x7d\n".toList)
      ++ accessorTests inner qualified enumName direct tests

/-- The text of a metadata accessor written at indentation `pad`, its body at indentation
`inner`: the direct-return form, which ends in `return nullptr;`, or the try-get form with
the out-parameter `value`, which ends in `return false;`. -/
def accessorText (pad inner : List Char) (qualified : Bool)
    (enumName keyType keyName : List Char) (direct : Bool)
    (tests : List (List Char × List Char)) : List Char :=
  pad
    ++ (if direct then
          keyType ++ " DqnInspectMetadata_".toList ++ keyName ++ "(".toList ++ enumName
            ++ " val)\n\x7b\n".toList
        else
          "bool DqnInspectMetadata_".toList ++ keyName ++ "(".toList ++ enumName
            ++ " val, ".toList ++ keyType ++ " *value)\n\x7b\n".toList)
    ++ accessorTests inner qualified enumName direct tests
    ++ inner ++ (if direct then "return nullptr;\n".toList else "return false;\n".toList)
    ++ pad ++ "\x7d\n\n".toList

/-- The accessor of one metadata entry of the generator, with the texts as `printf` writes
them. -/
def accessorOf (mem : List Char) (pad inner : List Char) (parsed_enum : ParsedEnum)
    (metadata : MetadataEntry) : List Char :=
  accessorText pad inner parsed_enum.struct_or_class_decl (fmtLit mem parsed_enum.name)
    (fmtLit mem metadata.type) (fmtLit mem metadata.name) (startsWithChar mem metadata.type)
    (metadata.cpp_decl_to_val.map
      (fun decl_to_val => (fmtLit mem decl_to_val.cpp_decl, fmtLit mem decl_to_val.value)))

/-- The accessors of the metadata entries, one after the other. -/
def accessorsText (mem : List Char) (pad inner : List Char) (parsed_enum : ParsedEnum) :
    List MetadataEntry → List Char
  | [] => []
  | metadata :: rest =>
    accessorOf mem pad inner parsed_enum metadata ++ accessorsText mem pad inner parsed_enum rest

/-- The file buffer of an enum with metadata: the variant `A` carries the keys `int k` and
`char const *s`, the variant `B` the key `int k`, the variant `C` none. -/
def metadataExampleBuffer : List Char :=
  fileBuffer ("DQN_INSPECT enum E \x7b A DQN_INSPECT_META(int k = 1, char const *s = \"x\"), " ++
    "B DQN_INSPECT_META(int k = 2), C \x7d;")

/-- The enum that `ParseCPPEnum` makes of `metadataExampleBuffer`. -/
def metadataExampleEnum : ParsedEnum :=
  { name := { str := 17, len := 1 }
    members :=
      [{ value := { str := 21, len := 1 }
         metadata_list :=
           [{ type := { str := 40, len := 3 }, name := { str := 44, len := 1 }
              default_value := { str := 48, len := 1 } },
            { type := { str := 51, len := 12 }, name := { str := 63, len := 1 }
              array_dimensions := 1, default_value := { str := 67, len := 3 } }] },
       { value := { str := 73, len := 1 }
         metadata_list :=
           [{ type := { str := 92, len := 3 }, name := { str := 96, len := 1 }
              default_value := { str := 100, len := 1 } }] },
       { value := { str := 104, len := 1 } }] }

/-- A parsed enum whose single variant carries 33 distinct metadata keys: the key names
are the prefixes of lengths 1 to 33 of the buffer. -/
def manyKeysEnum : ParsedEnum :=
  { name := { str := 0, len := 1 }
    members :=
      [{ value := { str := 0, len := 1 }
         metadata_list := (List.range 33).map (fun i =>
           { type := { str := 0, len := 1 }, name := { str := 0, len := (i : Int) + 1 } }) }] }

/-- The column at which the next character is written after `text`: the number of
characters since the last line break. -/
def column (text : List Char) : Nat :=
  (text.reverse.takeWhile (fun c => c != '\n')).length

/-- The prototypes among the parse results, in order. -/
def prototypesOf : List ParsedResult → List ParsedFunctionPrototype
  | [] => []
  | ParsedResult.FunctionPrototype parsed_func :: rest => parsed_func :: prototypesOf rest
  | _ :: rest => prototypesOf rest

/-- The longest of the lengths, and 0 when none is positive. -/
def longest (lens : List Int) : Int := lens.foldl INSPECT_MAX 0

/-- What `b` has written is what `a` had written followed by whole lines. -/
def Prints (a b : CPPTokeniser) : Prop :=
  ∃ text, b.output_file = a.output_file ++ text ∧ column text = 0

/-- The file of two annotated prototypes, `int Add(int a, int b);` and
`char const *Name(Foo *f);`. -/
def alignedExampleBuffer : List Char :=
  fileBuffer ("DQN_INSPECT_GENERATE_PROTOTYPE()\nint Add(int a, int b);\n" ++
    "DQN_INSPECT_GENERATE_PROTOTYPE()\nchar const *Name(Foo *f);")

/-- The parse results of `alignedExampleBuffer`. -/
def alignedExampleResults : List ParsedResult :=
  [ParsedResult.FunctionPrototype
    { return_type := { str := 33, len := 3 }
      name := { str := 37, len := 3 }
      members := [{ value := { type := { str := 41, len := 3 }, name := { str := 45, len := 1 } } },
                  { value := { type := { str := 48, len := 3 }, name := { str := 52, len := 1 } } }] },
   ParsedResult.FunctionPrototype
    { return_type := { str := 89, len := 12 }
      name := { str := 101, len := 4 }
      members := [{ value := { type := { str := 106, len := 5 }, name := { str := 111, len := 1 }
                               array_dimensions := 1 } }] }]

/-- The tokens of the names that follow the first one in a declaration of several names:
for each of them a comma, its asterisks and the name. -/
def laterTokens : List (CPPToken × List CPPToken × CPPToken) → List CPPToken
  | [] => []
  | item :: rest => item.1 :: (item.2.1 ++ item.2.2 :: laterTokens rest)

/-- The declaration that `ParseCPPTypeAndVariableDecl` records for a name with the
asterisks `stars` before it, under the base type token `ty`: the type text starts at the
base type and, when there are asterisks, ends at the last of them. -/
def declaredAs (ty : CPPToken) (stars : List CPPToken) (name : CPPToken) :
    CPPDeclLinkedList CPPVariableDecl :=
  { value :=
      { type :=
          { str := ty.str
            len := match stars.getLast? with
              | none => ty.len
              | some last => ((last.str : Int) - (ty.str : Int)) + 1 }
        name := { str := name.str, len := name.len }
        array_dimensions := stars.length } }

/-- The tokens of an entry `T k = v` of a metadata call: the type of one identifier, the
asterisks after it, the name, the `=`, the tokens of the value, and the comma or closing
parenthesis that follows the value. -/
structure MetaEntryTokens where
  type : CPPToken
  stars : List CPPToken := []
  name : CPPToken
  eq : CPPToken
  first : CPPToken
  more : List CPPToken := []
  sep : CPPToken
  deriving DecidableEq, Repr

/-- The tokens of the entry after its type. -/
def MetaEntryTokens.tail (e : MetaEntryTokens) : List CPPToken :=
  e.stars ++ e.name :: e.eq :: e.first :: (e.more ++ [e.sep])

def MetaEntryTokens.tokens (e : MetaEntryTokens) : List CPPToken := e.type :: e.tail

def metaEntryTokens : List MetaEntryTokens → List CPPToken
  | [] => []
  | e :: es => e.tokens ++ metaEntryTokens es

/-- The token is no parenthesis, no brace, no comma and not the end of the stream. -/
def flatToken (t : CPPToken) : Bool :=
  t.type != CPPTokenType.OpenParen && t.type != CPPTokenType.CloseParen &&
    t.type != CPPTokenType.Comma && t.type != CPPTokenType.EndOfStream &&
    t.type != CPPTokenType.LeftBrace && t.type != CPPTokenType.RightBrace

/-- The entry is written `T *...* k = v`: the type and the name are identifiers, the name
is not `const`, and the value is made of tokens that are no parentheses, braces or
commas. -/
def MetaEntryTokens.ok (mem : List Char) (e : MetaEntryTokens) : Bool :=
  e.type.type == CPPTokenType.Identifier &&
    e.stars.all (fun s => s.type == CPPTokenType.Asterisks) &&
    e.name.type == CPPTokenType.Identifier && !IsIdentifierToken mem e.name "const" &&
    e.eq.type == CPPTokenType.Equals && flatToken e.first && e.more.all flatToken

/-- The entries are separated by commas and the last one is followed by the closing
parenthesis. -/
def metaEntriesOk (mem : List Char) : List MetaEntryTokens → Bool
  | [] => false
  | [e] => e.ok mem && e.sep.type == CPPTokenType.CloseParen
  | e :: es => e.ok mem && e.sep.type == CPPTokenType.Comma && metaEntriesOk mem es

/-- The metadata entry that the entry `T *...* k = v` describes: the key type text from
the type to the last asterisk, the key name, and the value text from the first token of
the value (from the opening quote when it is a string) to the comma or parenthesis after
the value. -/
def MetaEntryTokens.decl (e : MetaEntryTokens) : CPPVariableDecl :=
  { type :=
      { str := e.type.str
        len := match e.stars.getLast? with
          | none => e.type.len
          | some last => ((last.str : Int) - (e.type.str : Int)) + 1 }
    name := { str := e.name.str, len := e.name.len }
    array_dimensions := e.stars.length
    default_value :=
      { str := if e.first.type = CPPTokenType.String then e.first.str - 1 else e.first.str
        len := (e.sep.str : Int) -
          ((if e.first.type = CPPTokenType.String then e.first.str - 1
            else e.first.str : Nat) : Int) } }

/-- The tokens of a variant of an enum: its name, the metadata call that follows it when
there is one (the identifier `DQN_INSPECT_META`, the opening parenthesis and the entries,
the last of which ends with the closing parenthesis), and the comma after the variant. -/
structure VariantTokens where
  name : CPPToken
  call : Option (CPPToken × CPPToken × List MetaEntryTokens) := none
  comma : CPPToken
  deriving DecidableEq, Repr

def VariantTokens.callTokens (v : VariantTokens) : List CPPToken :=
  match v.call with
  | none => []
  | some (metaTok, openTok, entries) => metaTok :: openTok :: metaEntryTokens entries

def VariantTokens.tokens (v : VariantTokens) : List CPPToken :=
  v.name :: (v.callTokens ++ [v.comma])

def variantTokens : List VariantTokens → List CPPToken
  | [] => []
  | v :: vs => v.tokens ++ variantTokens vs

/-- The variant is written `Name,` or `Name DQN_INSPECT_META(T1 k1 = v1, ...),`. -/
def VariantTokens.ok (mem : List Char) (v : VariantTokens) : Bool :=
  v.name.type == CPPTokenType.Identifier &&
    !IsIdentifierToken mem v.name "DQN_INSPECT_META" &&
    v.comma.type == CPPTokenType.Comma &&
    (match v.call with
     | none => true
     | some (metaTok, openTok, entries) =>
       IsIdentifierToken mem metaTok "DQN_INSPECT_META" &&
         openTok.type == CPPTokenType.OpenParen && metaEntriesOk mem entries)

/-- The entries of the metadata call of the variant, none when it has no call. -/
def VariantTokens.entries (v : VariantTokens) : List MetaEntryTokens :=
  match v.call with
  | none => []
  | some (_, _, entries) => entries

/-- The member that the variant describes: its name, and one metadata entry for each
entry of its call, in order. -/
def VariantTokens.member (v : VariantTokens) : CPPDeclLinkedList StringLiteral :=
  { value := { str := v.name.str, len := v.name.len }
    metadata_list := v.entries.map (fun e => e.decl) }

/-- The file buffer of the enum
`enum E { A DQN_INSPECT_META(int k = 1, char *s = "x"), B, };`, annotated. -/
def metaCallBuffer : List Char :=
  fileBuffer "DQN_INSPECT enum E \x7b A DQN_INSPECT_META(int k = 1, char *s = \"x\"), B, \x7d;"

/-- The variant `A` of `metaCallBuffer` with its metadata call. -/
def metaCallVariantA : VariantTokens :=
  { name := { type := CPPTokenType.Identifier, str := 21, len := 1 }
    call := some
      ({ type := CPPTokenType.Identifier, str := 23, len := 16 },
       { type := CPPTokenType.OpenParen, str := 39, len := 1 },
       [{ type := { type := CPPTokenType.Identifier, str := 40, len := 3 }
          name := { type := CPPTokenType.Identifier, str := 44, len := 1 }
          eq := { type := CPPTokenType.Equals, str := 46, len := 1 }
          first := { type := CPPTokenType.Number, str := 48, len := 1 }
          sep := { type := CPPTokenType.Comma, str := 49, len := 1 } },
        { type := { type := CPPTokenType.Identifier, str := 51, len := 4 }
          stars := [{ type := CPPTokenType.Asterisks, str := 56, len := 1 }]
          name := { type := CPPTokenType.Identifier, str := 57, len := 1 }
          eq := { type := CPPTokenType.Equals, str := 59, len := 1 }
          first := { type := CPPTokenType.String, str := 62, len := 1 }
          sep := { type := CPPTokenType.CloseParen, str := 64, len := 1 } }])
    comma := { type := CPPTokenType.Comma, str := 65, len := 1 } }

/-- The variant `B` of `metaCallBuffer`, which has no metadata call. -/
def metaCallVariantB : VariantTokens :=
  { name := { type := CPPTokenType.Identifier, str := 67, len := 1 }
    comma := { type := CPPTokenType.Comma, str := 68, len := 1 } }

/-- The tokens of `metaCallBuffer`, with the cursor on `enum`. -/
def metaCallTokeniser : CPPTokeniser :=
  { tokens :=
      [{ type := CPPTokenType.InspectCode, str := 0, len := 72 },
       { type := CPPTokenType.Identifier, str := 12, len := 4 },
       { type := CPPTokenType.Identifier, str := 17, len := 1 },
       { type := CPPTokenType.LeftBrace, str := 19, len := 1 }]
      ++ variantTokens [metaCallVariantA, metaCallVariantB]
      ++ [{ type := CPPTokenType.RightBrace, str := 70, len := 1 },
          { type := CPPTokenType.EndOfStream }]
    tokens_index := 1 }

/-- The variants of a parsed enum with their metadata entries, the texts as `printf`
writes them. -/
def describeVariants (mem : List Char) (parsed_enum : ParsedEnum) :
    List (List Char × List ParamDescriptor) :=
  parsed_enum.members.map (fun member =>
    (fmtLit mem member.value,
      member.metadata_list.map (fun metadata => describeParam mem { value := metadata })))

/-- The variants of the enums among the parse results. -/
def describeEnums (mem : List Char) :
    List ParsedResult → List (List (List Char × List ParamDescriptor))
  | [] => []
  | ParsedResult.Enum parsed_enum :: rest =>
    describeVariants mem parsed_enum :: describeEnums mem rest
  | _ :: rest => describeEnums mem rest

/-- The file buffer of the example in the source. -/
def sourceMetadataBuffer : List Char :=
  fileBuffer ("DQN_INSPECT enum struct EnumWithMetadata\n\x7b\n" ++
    "    Rect   DQN_INSPECT_META(char const *FilePath = \"Rect.vert\", " ++
    "V3 Coords = V3(1, 2, 3)),\n" ++
    "    Square DQN_INSPECT_META(char *file_path = \"Rect.vert\"),\n" ++
    "    Count,\n\x7d;")

/-- The kinds and the texts of the lexemes, without the space before them. -/
def lexemeWords (ls : List Lexeme) : List (CPPTokenType × List Char) :=
  ls.map (fun l => (l.type, l.text))

/-- A parameter `type *...* name` of a prototype, the type being one identifier, with the
comma or closing parenthesis that follows it. -/
structure PointerParam where
  type : Lexeme
  stars : List Lexeme := []
  name : Lexeme
  sep : Lexeme
  deriving DecidableEq, Repr

def PointerParam.tail (p : PointerParam) : List Lexeme := p.stars ++ [p.name, p.sep]

def PointerParam.lexemes (p : PointerParam) : List Lexeme := p.type :: p.tail

def pointerParamLexemes : List PointerParam → List Lexeme
  | [] => []
  | p :: ps => p.lexemes ++ pointerParamLexemes ps

def PointerParam.ok (p : PointerParam) : Bool :=
  p.type.type == CPPTokenType.Identifier &&
    p.stars.all (fun s => s.type == CPPTokenType.Asterisks) &&
    p.name.type == CPPTokenType.Identifier && p.name.text != "const".toList

/-- The parameters are separated by commas and the last one is followed by the closing
parenthesis. -/
def pointerParamsOk : List PointerParam → Bool
  | [] => false
  | [p] => p.ok && p.sep.type == CPPTokenType.CloseParen
  | p :: ps => p.ok && p.sep.type == CPPTokenType.Comma && pointerParamsOk ps

/-- What the emitted prototype says about such a parameter: the type text runs from the
type to the last asterisk, as it is written. -/
def PointerParam.descriptor (p : PointerParam) : ParamDescriptor :=
  { type := p.type.text ++ renderLexemes p.stars, name := some p.name.text }

/-- The lexemes of the parameters with the spacing of the generator: nothing before a
comma or the closing parenthesis, one blank before a name and after a comma, `lead`
before the first type, and the asterisks spaced as they are written. -/
def canonicalPointerParams : List Char → List PointerParam → List Lexeme
  | _, [] => []
  | lead, p :: ps =>
    { p.type with space := lead } ::
      (p.stars ++ { p.name with space := [' '] } :: { p.sep with space := [] } ::
        canonicalPointerParams [' '] ps)

/-- The parameter list `(int a, char  *  b)` of a prototype `void f(int a, char  *  b);`. -/
def roundTripBuffer : List Char := fileBuffer "void f(int a, char  *  b);"

def roundTripFirst : PointerParam :=
  { type := { text := "int".toList, type := CPPTokenType.Identifier }
    name := { space := [' '], text := "a".toList, type := CPPTokenType.Identifier }
    sep := { text := ",".toList, type := CPPTokenType.Comma } }

def roundTripSecond : PointerParam :=
  { type := { space := [' '], text := "char".toList, type := CPPTokenType.Identifier }
    stars := [{ space := "  ".toList, text := "*".toList, type := CPPTokenType.Asterisks }]
    name := { space := "  ".toList, text := "b".toList, type := CPPTokenType.Identifier }
    sep := { text := ")".toList, type := CPPTokenType.CloseParen } }

/-- The lexemes of `void f(int a, char  *  b)`. -/
def roundTripLexemes : List Lexeme :=
  [{ text := "void".toList, type := CPPTokenType.Identifier },
   { space := [' '], text := "f".toList, type := CPPTokenType.Identifier },
   { text := "(".toList, type := CPPTokenType.OpenParen }] ++
    pointerParamLexemes [roundTripFirst, roundTripSecond]

/-! ## Notions for nested scopes, token order and the brace count -/

/-- The tokens of `f(1)(2), x` and the end of the stream. -/
def twoGroupsTokens : List CPPToken :=
  [{ type := CPPTokenType.Identifier, str := 0, len := 1 },
   { type := CPPTokenType.OpenParen, str := 1, len := 1 },
   { type := CPPTokenType.Number, str := 2, len := 1 },
   { type := CPPTokenType.CloseParen, str := 3, len := 1 },
   { type := CPPTokenType.OpenParen, str := 4, len := 1 },
   { type := CPPTokenType.Number, str := 5, len := 1 },
   { type := CPPTokenType.CloseParen, str := 6, len := 1 },
   { type := CPPTokenType.Comma, str := 7, len := 1 },
   { type := CPPTokenType.Identifier, str := 9, len := 1 },
   { type := CPPTokenType.EndOfStream }]

/-- The text `find` stands in `text` at offset `i`. -/
def OccursAt (find text : List Char) (i : Nat) : Prop :=
  (text.drop i).take find.length = find

instance (find text : List Char) (i : Nat) : Decidable (OccursAt find text i) := by
  unfold OccursAt
  exact inferInstance

/-- A declaration of a struct body as the loop of `ParseCPPStruct` reads one: a one-word
type, a name other than `const`, and a token after the name that is neither a brace nor an
identifier nor one of `[`, `=`, `,`. -/
def DeclShape (m : Lexeme × Lexeme × Lexeme) : Prop :=
  m.1.type = CPPTokenType.Identifier ∧ m.2.1.type = CPPTokenType.Identifier ∧
    m.2.1.text ≠ "const".toList ∧
    m.2.2.type ≠ CPPTokenType.EndOfStream ∧ m.2.2.type ≠ CPPTokenType.LeftBrace ∧
    m.2.2.type ≠ CPPTokenType.RightBrace ∧ m.2.2.type ≠ CPPTokenType.Identifier ∧
    m.2.2.type ≠ CPPTokenType.LeftSqBracket ∧ m.2.2.type ≠ CPPTokenType.Equals ∧
    m.2.2.type ≠ CPPTokenType.Comma

instance (m : Lexeme × Lexeme × Lexeme) : Decidable (DeclShape m) := by
  unfold DeclShape; infer_instance

/-- The lexemes of a struct body written in pieces: each piece is some declarations and
the one token that follows them, a brace or any other token that is not an identifier. -/
def scopedLexemes : List (List (Lexeme × Lexeme × Lexeme) × Lexeme) → List Lexeme
  | [] => []
  | s :: ss => memberLexemes s.1 ++ s.2 :: scopedLexemes ss

/-- The declarations of the pieces of a struct body, in order, whatever the brace depth
they are written at. -/
def scopedMembers :
    List (List (Lexeme × Lexeme × Lexeme) × Lexeme) → List (Lexeme × Lexeme × Lexeme)
  | [] => []
  | s :: ss => s.1 ++ scopedMembers ss

/-- What a lexeme adds to the brace depth. -/
def lexemeDepth (l : Lexeme) : Int :=
  if l.type = CPPTokenType.LeftBrace then 1
  else if l.type = CPPTokenType.RightBrace then -1 else 0

/-- The pieces of a body read at the depth `d` above that of the struct: the depth stays
above that of the struct before each piece, and it is that of the struct after the last
one. -/
def scopeCloses : Int → List (List (Lexeme × Lexeme × Lexeme) × Lexeme) → Bool
  | d, [] => d == 0
  | d, s :: ss => decide (0 < d) && scopeCloses (d + lexemeDepth s.2) ss

/-- The iterations the loop of `ParseCPPStruct` makes over the pieces of a body. -/
def scopedFuel : List (List (Lexeme × Lexeme × Lexeme) × Lexeme) → Nat
  | [] => 4
  | s :: ss => 2 * s.1.length + 1 + scopedFuel ss

/-- The tokens `ts` lie in the text between the offsets `lo` and `hi`: each has a length
of at least 1 and lies between the two offsets, and each starts at or after the end of
those before it. -/
def TokensWithin (lo : Nat) (ts : List CPPToken) (hi : Nat) : Prop :=
  lo ≤ hi ∧
    (∀ t ∈ ts, (lo : Int) ≤ t.str ∧ 1 ≤ t.len ∧ (t.str : Int) + t.len ≤ hi) ∧
    ts.Pairwise (fun a b => (a.str : Int) + a.len ≤ b.str)

instance (lo : Nat) (ts : List CPPToken) (hi : Nat) : Decidable (TokensWithin lo ts hi) := by
  unfold TokensWithin; infer_instance

/-- The brace depth of the tokeniser is the depth `D` it started from and the brace depth
of the tokens before the cursor, none of which ends the stream; the cursor is in the
stream or right after it. -/
def DepthCounted (D : Int) (tk : CPPTokeniser) : Prop :=
  tk.tokens_index ≤ tk.tokens.length ∧
    tk.indent_level = D + braceDepth (tk.tokens.take tk.tokens_index) ∧
    ∀ t ∈ tk.tokens.take tk.tokens_index, t.type ≠ CPPTokenType.EndOfStream

instance (D : Int) (tk : CPPTokeniser) : Decidable (DepthCounted D tk) := by
  unfold DepthCounted; infer_instance

/-- A step of the parser keeps the count: when the depth was that of the tokens before
the cursor, it is so afterwards. -/
def Keeps (a b : CPPTokeniser) : Prop := ∀ D, DepthCounted D a → DepthCounted D b

def ParseKeeps (mem : List Char) (fuel : Nat) : Prop :=
  ∀ pfp tk r, ParseCPPTypeAndVariableDecl mem fuel tk pfp = Except.ok r → Keeps tk r.2

/-- The file of an annotated enum and an annotated struct, each with one member. -/
def depthExampleBuffer : List Char :=
  fileBuffer "DQN_INSPECT enum E \x7b A \x7d; DQN_INSPECT struct S \x7b int x; \x7d;"

/-- The tokens of `depthExampleBuffer` before the sentinel. -/
def depthExampleTokens : List CPPToken :=
  [{ type := CPPTokenType.InspectCode, str := 0, len := 58 },
   { type := CPPTokenType.Identifier, str := 12, len := 4 },
   { type := CPPTokenType.Identifier, str := 17, len := 1 },
   { type := CPPTokenType.LeftBrace, str := 19, len := 1 },
   { type := CPPTokenType.Identifier, str := 21, len := 1 },
   { type := CPPTokenType.RightBrace, str := 23, len := 1 },
   { type := CPPTokenType.InspectCode, str := 26, len := 32 },
   { type := CPPTokenType.Identifier, str := 38, len := 6 },
   { type := CPPTokenType.Identifier, str := 45, len := 1 },
   { type := CPPTokenType.LeftBrace, str := 47, len := 1 },
   { type := CPPTokenType.Identifier, str := 49, len := 3 },
   { type := CPPTokenType.Identifier, str := 53, len := 1 },
   { type := CPPTokenType.SemiColon, str := 54, len := 1 },
   { type := CPPTokenType.RightBrace, str := 56, len := 1 }]

/-- The state of the parse loop at its end on `depthExampleBuffer`. -/
def depthExampleFinal : ParseLoopState :=
  { tokeniser := { tokens := depthExampleTokens ++ [{ type := CPPTokenType.EndOfStream }]
                   tokens_index := 14 }
    parsing_results :=
      [ParsedResult.Enum
         { name := { str := 17, len := 1 }
           members := [{ value := { str := 21, len := 1 } }] },
       ParsedResult.Struct
         { name := { str := 45, len := 1 }
           members := [{ value := { type := { str := 49, len := 3 }
                                    name := { str := 53, len := 1 } } }] }] }

/-! ## Text items, members and parameters with modifiers, runs of the parse loop -/

/-- The memory that holds the file `{ // x`, its terminating NUL and, after it in the
arena, the bytes `a.h`, a line break and a closing brace. -/
def pastTheEndMemory : List Char := fileBuffer "\x7b // x" ++ fileBuffer "a.h\n\x7d"

/-- The tokeniser at the end of a pass of the parse loop of `main`: the one that the parse
routine left when one was called, and the one after `CPPTokeniser_NextToken` otherwise
(the step over the marker that no `enum`, `struct` or `class` follows, or over a token
that is no marker). -/
def LoopPass.leaves (pass : LoopPass) : Except Fault CPPTokeniser :=
  match pass.call with
  | some (_, _, tokeniser) => pure tokeniser
  | none => do
    let (_, tokeniser) ← CPPTokeniser_NextToken pass.start
    pure tokeniser

/-- The value of `token` that the test `if (token.type == EndOfStream) break;` reads at
the end of a pass of the parse loop of `main`: after a `DQN_INSPECT` marker the token
that follows the marker, at a `DQN_INSPECT_GENERATE_PROTOTYPE` marker the marker, and
otherwise the token that `CPPTokeniser_NextToken` returned. -/
def LoopPass.token (pass : LoopPass) : Except Fault CPPToken :=
  let token := CPPTokeniser_PeekToken pass.start
  if token.type = CPPTokenType.InspectCode then do
    let (_, tokeniser) ← CPPTokeniser_NextToken pass.start
    pure (CPPTokeniser_PeekToken tokeniser)
  else if token.type = CPPTokenType.InspectGeneratePrototype then pure token
  else do
    let (token, _) ← CPPTokeniser_NextToken pass.start
    pure token

/-- The passes `passes` are the run of the parse loop of `main` from the tokeniser
`start` to the tokeniser `final`: the first pass starts at `start`; every pass makes the
call of a parse routine that `main` dispatches at its cursor; every pass but the last
reads a token that is not the end of the stream, and the next pass starts with the
tokeniser it leaves; the last pass reads the end of the stream and leaves `final`. -/
def LoopRun (mem : List Char) : Nat → CPPTokeniser → List LoopPass → CPPTokeniser → Prop
  | _, _, [], _ => False
  | fuel, start, [pass], final =>
    pass.start = start ∧ routineCall (fuel - 1) mem start = Except.ok pass.call ∧
      pass.leaves = Except.ok final ∧
      ∃ t, pass.token = Except.ok t ∧ t.type = CPPTokenType.EndOfStream
  | fuel, start, pass :: next :: rest, final =>
    pass.start = start ∧ routineCall (fuel - 1) mem start = Except.ok pass.call ∧
      (∃ t, pass.token = Except.ok t ∧ t.type ≠ CPPTokenType.EndOfStream) ∧
      ∃ mid, pass.leaves = Except.ok mid ∧ LoopRun mem (fuel - 1) mid (next :: rest) final

/-- The file of an annotated enum without a name, which `ParseCPPEnum` rejects, and an
annotated enum `E`. -/
def resultListBuffer : List Char :=
  fileBuffer "DQN_INSPECT enum \x7b A \x7d; DQN_INSPECT enum E \x7b B \x7d;"

/-- The tokens of `resultListBuffer`. -/
def resultListTokens : List CPPToken :=
  [{ type := CPPTokenType.InspectCode, str := 0, len := 49 },
   { type := CPPTokenType.Identifier, str := 12, len := 4 },
   { type := CPPTokenType.LeftBrace, str := 17, len := 1 },
   { type := CPPTokenType.Identifier, str := 19, len := 1 },
   { type := CPPTokenType.RightBrace, str := 21, len := 1 },
   { type := CPPTokenType.InspectCode, str := 24, len := 25 },
   { type := CPPTokenType.Identifier, str := 36, len := 4 },
   { type := CPPTokenType.Identifier, str := 41, len := 1 },
   { type := CPPTokenType.LeftBrace, str := 43, len := 1 },
   { type := CPPTokenType.Identifier, str := 45, len := 1 },
   { type := CPPTokenType.RightBrace, str := 47, len := 1 },
   { type := CPPTokenType.EndOfStream, str := 0, len := 0 }]

/-- The state of the parse loop at its end on `resultListTokens`: the cursor on the end of
the stream, the diagnostic of the first enum in the output, one result. -/
def resultListFinal : ParseLoopState :=
  { tokeniser :=
      { tokens := resultListTokens
        tokens_index := 11
        output_file :=
          "Expected token type: Identifier received: \x7b\nContext: \x7b\n\n".toList }
    parsing_results :=
      [ParsedResult.Enum
        { name := { str := 41, len := 1 }
          members := [{ value := { str := 45, len := 1 } }] }] }

/-- A piece of source text that the switch of the lexer has a case for and gets through:
a lexeme of plain text (an identifier, a number, a one-character delimiter); a dot that
does not start three dots; three dots; a slash that starts no comment; a line comment
`//text` that a line break ends; a string literal whose body holds no quote and does not
end in a backslash.  Each comes after some whitespace. -/
inductive TextItem where
  | plain (l : Lexeme)
  | dot (space : List Char)
  | varArgs (space : List Char)
  | slash (space : List Char)
  | lineComment (space text : List Char)
  | string (space body : List Char)
  deriving DecidableEq, Repr

/-- The whitespace before the item. -/
def TextItem.space : TextItem → List Char
  | TextItem.plain l => l.space
  | TextItem.dot sp => sp
  | TextItem.varArgs sp => sp
  | TextItem.slash sp => sp
  | TextItem.lineComment sp _ => sp
  | TextItem.string sp _ => sp

/-- The characters of the item that the switch reads over. -/
def TextItem.text : TextItem → List Char
  | TextItem.plain l => l.text
  | TextItem.dot _ => ['.']
  | TextItem.varArgs _ => ['.', '.', '.']
  | TextItem.slash _ => ['/']
  | TextItem.lineComment _ text => '/' :: '/' :: text
  | TextItem.string _ body => '"' :: (body ++ ['"'])

def TextItem.render (i : TextItem) : List Char := i.space ++ i.text

/-- The text of a list of items. -/
def renderItems : List TextItem → List Char
  | [] => []
  | i :: is => i.render ++ renderItems is

/-- The token that the lexer keeps for the item whose text starts at offset `str`, if it
keeps one: none for a dot and for an empty string literal; the token of a line comment
starts at its second slash; the token of a string literal holds the body. -/
def TextItem.token (str : Nat) : TextItem → Option CPPToken
  | TextItem.plain l => some { type := l.type, str := str, len := l.text.length }
  | TextItem.dot _ => none
  | TextItem.varArgs _ => some { type := CPPTokenType.VarArgs, str := str, len := 3 }
  | TextItem.slash _ => some { type := CPPTokenType.FwdSlash, str := str, len := 1 }
  | TextItem.lineComment _ text =>
    some { type := CPPTokenType.Comment, str := str + 1, len := (text.length : Int) + 1 }
  | TextItem.string _ body =>
    if body = [] then none
    else some { type := CPPTokenType.String, str := str + 1, len := body.length }

/-- The tokens of a list of items whose text starts at offset `ptr`. -/
def itemTokens (ptr : Nat) : List TextItem → List CPPToken
  | [] => []
  | i :: is =>
    (i.token (ptr + i.space.length)).toList ++ itemTokens (ptr + i.render.length) is

/-- The kind of the token that the lexer keeps for the item, if it keeps one. -/
def TextItem.kind (i : TextItem) : Option CPPTokenType := (i.token 0).map (fun t => t.type)

/-- The kinds of the tokens of a list of items. -/
def itemKinds (is : List TextItem) : List CPPTokenType := is.filterMap TextItem.kind

/-- The item is written as the switch of the lexer reads it, given the text that follows
it: its space is whitespace; a lexeme of plain text is well formed; after a lone dot
comes a character, and not two more dots; after a lone slash comes a character that is
neither a slash nor an asterisk; the text of a line comment holds no line break and a
line break follows it; the body of a string literal holds no quote and does not end in a
backslash. -/
def TextItem.wellFormed (i : TextItem) (follows : List Char) : Bool :=
  match i with
  | TextItem.plain l => l.wellFormed follows
  | TextItem.dot sp =>
    sp.all CharIsWhitespace &&
      (match follows with
       | [] => false
       | d :: rest =>
         d != '.' ||
           (match rest with
            | [] => false
            | e :: _ => e != '.'))
  | TextItem.varArgs sp => sp.all CharIsWhitespace
  | TextItem.slash sp =>
    sp.all CharIsWhitespace &&
      (match follows with
       | [] => false
       | d :: _ => d != '/' && d != '*')
  | TextItem.lineComment sp text =>
    sp.all CharIsWhitespace && text.all (fun c => c != '\n') &&
      (match follows with
       | [] => false
       | d :: _ => d == '\n')
  | TextItem.string sp body =>
    sp.all CharIsWhitespace && body.all (fun c => c != '"') && body.getLast? != some '\\'

/-- Every item of the list is well formed, given the text `tail` after the list. -/
def itemsWellFormed : List TextItem → List Char → Bool
  | [], _ => true
  | i :: is, tail => i.wellFormed (renderItems is ++ tail) && itemsWellFormed is tail

/-- The text of a struct whose body holds a line comment with a closing brace in it, a
string literal with a closing brace in it and a lone dot, followed by ` z`. -/
def bracesInCommentsBuffer : List Char :=
  fileBuffer " struct P \x7b int x; // a \x7d\n char const *s = \"\x7d\"; . \x7d z"

/-- The items of `bracesInCommentsBuffer` between the braces of the struct. -/
def bracesInCommentsBody : List TextItem :=
  [TextItem.plain { space := [' '], text := "int".toList, type := CPPTokenType.Identifier },
   TextItem.plain { space := [' '], text := "x".toList, type := CPPTokenType.Identifier },
   TextItem.plain { space := [], text := ";".toList, type := CPPTokenType.SemiColon },
   TextItem.lineComment [' '] " a \x7d".toList,
   TextItem.plain { space := ['\n', ' '], text := "char".toList, type := CPPTokenType.Identifier },
   TextItem.plain { space := [' '], text := "const".toList, type := CPPTokenType.Identifier },
   TextItem.plain { space := [' '], text := "*".toList, type := CPPTokenType.Asterisks },
   TextItem.plain { space := [], text := "s".toList, type := CPPTokenType.Identifier },
   TextItem.plain { space := [' '], text := "=".toList, type := CPPTokenType.Equals },
   TextItem.string [' '] "\x7d".toList,
   TextItem.plain { space := [], text := ";".toList, type := CPPTokenType.SemiColon },
   TextItem.dot [' ']]

/-- A data member of a struct written as a type of one identifier, possibly followed by
`const`, the asterisks of a pointer type, a name and a semicolon: `T name;`,
`T *...* name;` or `T const *...* name;`. -/
structure MemberLexemes where
  type : Lexeme
  cst : Option Lexeme := none
  stars : List Lexeme := []
  name : Lexeme
  semi : Lexeme
  deriving DecidableEq, Repr

/-- The `const` and the asterisks between the type word and the name. -/
def MemberLexemes.modifiers (m : MemberLexemes) : List Lexeme := m.cst.toList ++ m.stars

def MemberLexemes.lexemes (m : MemberLexemes) : List Lexeme :=
  m.type :: (m.modifiers ++ [m.name, m.semi])

/-- The member has the form `T name;`, `T *...* name;` or `T const *...* name;`: a `const`
is only written before asterisks, and the name is not `const`. -/
def MemberLexemes.ok (m : MemberLexemes) : Bool :=
  m.type.type == CPPTokenType.Identifier &&
    (match m.cst with
     | none => true
     | some c => c.type == CPPTokenType.Identifier && c.text == "const".toList &&
         !m.stars.isEmpty) &&
    m.stars.all (fun s => s.type == CPPTokenType.Asterisks) &&
    m.name.type == CPPTokenType.Identifier && m.name.text != "const".toList &&
    m.semi.type == CPPTokenType.SemiColon

/-- What the member-descriptor array says about such a member: the type text runs from the
type word to the last asterisk, as it is written in the source; the name; no generic
arguments; the number of asterisks as dimension. -/
def MemberLexemes.descriptor (m : MemberLexemes) : MemberDescriptor :=
  { type := m.type.text ++ renderLexemes m.modifiers
    name := m.name.text
    array_dimensions := m.stars.length }

/-- The default-value text recorded for a value whose first token is `first` and which is
followed by the comma or parenthesis `sep`: the text from the first token, from its
opening quote when it is a string, up to `sep`. -/
def valueText (first sep : CPPToken) : StringLiteral :=
  { str := if first.type = CPPTokenType.String then first.str - 1 else first.str
    len := (sep.str : Int) -
      ((if first.type = CPPTokenType.String then first.str - 1 else first.str : Nat) : Int) }

/-- The tokens of an entry `name = value` of the macro call of a prototype: the name, the
`=`, the tokens of the value, and the comma or closing parenthesis that follows the
value. -/
structure DefaultTokens where
  name : CPPToken
  eq : CPPToken
  first : CPPToken
  more : List CPPToken := []
  sep : CPPToken
  deriving DecidableEq, Repr

def DefaultTokens.tokens (e : DefaultTokens) : List CPPToken :=
  e.name :: e.eq :: e.first :: (e.more ++ [e.sep])

/-- The entry is written `name = value`: the name is an identifier and the value is made
of tokens that are no parentheses, braces or commas. -/
def DefaultTokens.ok (e : DefaultTokens) : Bool :=
  e.name.type == CPPTokenType.Identifier && e.eq.type == CPPTokenType.Equals &&
    flatToken e.first && e.more.all flatToken

/-- The declared default that the entry `name = value` describes. -/
def DefaultTokens.param (e : DefaultTokens) : FunctionDefaultParam :=
  { name := { str := e.name.str, len := e.name.len }
    value := valueText e.first e.sep }

/-- The tokens of a parameter of a prototype: the type of one identifier, possibly `const`,
the asterisks, the name, possibly `=` and the tokens of a default value, and the comma or
closing parenthesis that follows the parameter. -/
structure ParamTokens where
  type : CPPToken
  cst : Option CPPToken := none
  stars : List CPPToken := []
  name : CPPToken
  default_value : Option (CPPToken × CPPToken × List CPPToken) := none
  sep : CPPToken
  deriving DecidableEq, Repr

/-- The `=` and the tokens of the default value, when the parameter has one. -/
def ParamTokens.valueTokens (p : ParamTokens) : List CPPToken :=
  match p.default_value with
  | none => []
  | some (eq, first, more) => eq :: first :: more

/-- The tokens of the parameter from its name on. -/
def ParamTokens.named (p : ParamTokens) : List CPPToken :=
  p.name :: (p.valueTokens ++ [p.sep])

/-- The tokens of the parameter after its type. -/
def ParamTokens.tail (p : ParamTokens) : List CPPToken :=
  p.cst.toList ++ (p.stars ++ p.named)

def ParamTokens.tokens (p : ParamTokens) : List CPPToken := p.type :: p.tail

/-- The parameter is written `T name`, `T *...* name` or `T const *...* name`, possibly
followed by `= value`: the type and the name are identifiers, a `const` is only written
before asterisks, the name is not `const`, and the value is made of tokens that are no
parentheses, braces or commas. -/
def ParamTokens.ok (mem : List Char) (p : ParamTokens) : Bool :=
  p.type.type == CPPTokenType.Identifier &&
    (match p.cst with
     | none => true
     | some c => IsIdentifierToken mem c "const" && !p.stars.isEmpty) &&
    p.stars.all (fun s => s.type == CPPTokenType.Asterisks) &&
    p.name.type == CPPTokenType.Identifier && !IsIdentifierToken mem p.name "const" &&
    (match p.default_value with
     | none => true
     | some (eq, first, more) =>
       eq.type == CPPTokenType.Equals && flatToken first && more.all flatToken)

/-- The declaration that the parameter describes: the type text from the type to the last
asterisk, the name, the number of asterisks, and the text of the default value written in
the source when there is one. -/
def ParamTokens.decl (p : ParamTokens) : CPPDeclLinkedList CPPVariableDecl :=
  { value :=
      { (declaredAs p.type p.stars p.name).value with
        default_value :=
          match p.default_value with
          | none => {}
          | some (_, first, _) => valueText first p.sep } }

theorem applyDefaultParam_withoutDefault (mem : List Char) (d : FunctionDefaultParam)
    (ps : List (CPPDeclLinkedList CPPVariableDecl)) :
    (applyDefaultParam mem d ps).map withoutDefault = ps.map withoutDefault := by
  induction ps with
  | nil => rfl
  | cons p ps ih =>
    unfold applyDefaultParam
    by_cases h : StrCmp mem p.value.name d.name = true
    · simp [h, withoutDefault]
    · simp [h, ih]

theorem mapDefaultParams_withoutDefault (mem : List Char) (ds : List FunctionDefaultParam)
    (ps : List (CPPDeclLinkedList CPPVariableDecl)) :
    (mapDefaultParams mem ds ps).map withoutDefault = ps.map withoutDefault := by
  induction ds generalizing ps with
  | nil => rfl
  | cons d ds ih =>
    unfold mapDefaultParams
    rw [ih, applyDefaultParam_withoutDefault]

theorem applyDefaultParam_of_unnamed (mem : List Char) (d : FunctionDefaultParam)
    (ps : List (CPPDeclLinkedList CPPVariableDecl))
    (h : ∀ p ∈ ps, StrCmp mem p.value.name d.name = false) :
    applyDefaultParam mem d ps = ps := by
  induction ps with
  | nil => rfl
  | cons p ps ih =>
    unfold applyDefaultParam
    have hp := h p (List.mem_cons_self _ _)
    simp only [hp, Bool.false_eq_true, if_false]
    rw [ih (fun q hq => h q (List.mem_cons_of_mem _ hq))]

theorem applyDefaultParam_getElem? (mem : List Char) (d : FunctionDefaultParam)
    (ps : List (CPPDeclLinkedList CPPVariableDecl)) (i : Nat)
    (p : CPPDeclLinkedList CPPVariableDecl) (hi : ps[i]? = some p)
    (hp : StrCmp mem p.value.name d.name = false) :
    (applyDefaultParam mem d ps)[i]? = some p := by
  induction ps generalizing i with
  | nil => simp at hi
  | cons q ps ih =>
    unfold applyDefaultParam
    cases i with
    | zero =>
      simp only [List.getElem?_cons_zero, Option.some.injEq] at hi
      subst hi
      simp [hp]
    | succ i =>
      simp only [List.getElem?_cons_succ] at hi
      by_cases hq : StrCmp mem q.value.name d.name = true
      · simp [hq, hi]
      · simp [hq, ih i hi]

theorem mapDefaultParams_getElem? (mem : List Char) (ds : List FunctionDefaultParam)
    (ps : List (CPPDeclLinkedList CPPVariableDecl)) (i : Nat)
    (p : CPPDeclLinkedList CPPVariableDecl) (hi : ps[i]? = some p)
    (hp : ∀ d ∈ ds, StrCmp mem p.value.name d.name = false) :
    (mapDefaultParams mem ds ps)[i]? = some p := by
  induction ds generalizing ps with
  | nil => simpa [mapDefaultParams] using hi
  | cons d ds ih =>
    unfold mapDefaultParams
    exact ih _ (applyDefaultParam_getElem? mem d ps i p hi (hp d (List.mem_cons_self _ _)))
      (fun e he => hp e (List.mem_cons_of_mem _ he))

theorem namesParam_applyDefaultParam (mem : List Char) (d e : FunctionDefaultParam)
    (ps : List (CPPDeclLinkedList CPPVariableDecl)) :
    namesParam mem (applyDefaultParam mem d ps) e = namesParam mem ps e := by
  induction ps with
  | nil => rfl
  | cons p ps ih =>
    unfold applyDefaultParam
    by_cases h : StrCmp mem p.value.name d.name = true
    · simp [h, namesParam]
    · simp only [namesParam] at ih
      simp [h, namesParam, ih]

theorem mapDefaultParams_filter (mem : List Char) (ds : List FunctionDefaultParam)
    (ps qs : List (CPPDeclLinkedList CPPVariableDecl))
    (hq : ∀ e, namesParam mem qs e = namesParam mem ps e) :
    mapDefaultParams mem (ds.filter (namesParam mem ps)) qs = mapDefaultParams mem ds qs := by
  induction ds generalizing qs with
  | nil => rfl
  | cons d ds ih =>
    by_cases h : namesParam mem ps d = true
    · rw [List.filter_cons_of_pos h]
      unfold mapDefaultParams
      exact ih _ (fun e => by rw [namesParam_applyDefaultParam, hq])
    · rw [List.filter_cons_of_neg h]
      conv_rhs => unfold mapDefaultParams
      have hno : ∀ p ∈ qs, StrCmp mem p.value.name d.name = false := by
        intro p hp
        have hqd : namesParam mem qs d = false := by
          rw [hq]; simpa using h
        simp only [namesParam, List.any_eq_false] at hqd
        simpa using hqd p hp
      rw [applyDefaultParam_of_unnamed mem d qs hno]
      exact ih qs hq

/-- C7. The reconciliation of `ParseCPPInspectPrototype` (`mapDefaultParams`) changes
nothing but default-value fields: the parameter list keeps its length, order,
metadata, type texts, names, generic-argument texts and array dimensions; a parameter
named by no declared default is kept as parsed from the source; a declared default
naming no parameter changes nothing, and the declared defaults that name no parameter
can be dropped without changing the result. -/
theorem C7_reconciliation_changes_only_named_defaults (mem : List Char)
    (ds : List FunctionDefaultParam) (ps : List (CPPDeclLinkedList CPPVariableDecl)) :
    (mapDefaultParams mem ds ps).map withoutDefault = ps.map withoutDefault ∧
    (mapDefaultParams mem ds ps).length = ps.length ∧
    (∀ (i : Nat) (p : CPPDeclLinkedList CPPVariableDecl), ps[i]? = some p →
      (∀ d ∈ ds, StrCmp mem p.value.name d.name = false) →
      (mapDefaultParams mem ds ps)[i]? = some p) ∧
    (∀ d, (∀ p ∈ ps, StrCmp mem p.value.name d.name = false) →
      applyDefaultParam mem d ps = ps) ∧
    mapDefaultParams mem (ds.filter (namesParam mem ps)) ps = mapDefaultParams mem ds ps := by
  refine ⟨mapDefaultParams_withoutDefault mem ds ps, ?_, ?_, ?_, ?_⟩
  · have h := congrArg List.length (mapDefaultParams_withoutDefault mem ds ps)
    simpa using h
  · exact fun i p hi hp => mapDefaultParams_getElem? mem ds ps i p hi hp
  · exact fun d h => applyDefaultParam_of_unnamed mem d ps h
  · exact mapDefaultParams_filter mem ds ps ps (fun _ => rfl)

/-! ## The lexer on plain text -/

theorem readChar_of_drop {mem : List Char} {ptr : Nat} {c : Char} {rest : List Char}
    (h : mem.drop ptr = c :: rest) : readChar mem ptr = Except.ok c := by
  have : mem[ptr]? = some c := by
    have h2 := congrArg (fun l => l[0]?) h
    simpa [List.getElem?_drop] using h2
  simp [readChar, List.get?_eq_getElem?, this, pure, Except.pure]

theorem drop_add_of_drop {mem : List Char} {ptr : Nat} {xs ys : List Char}
    (h : mem.drop ptr = xs ++ ys) : mem.drop (ptr + xs.length) = ys := by
  rw [← List.drop_drop, h, List.drop_left]

theorem scanWhile_append (p : Char → Bool) (xs : List Char) (y : Char) (rest : List Char)
    (ptr : Nat) (hxs : ∀ x ∈ xs, p x = true) (hy : p y = false) :
    scanWhile p (xs ++ y :: rest) ptr = Except.ok (ptr + xs.length) := by
  induction xs generalizing ptr with
  | nil => simp [scanWhile, hy, pure, Except.pure]
  | cons x xs ih =>
    have hx := hxs x (List.mem_cons_self _ _)
    have := ih (ptr + 1) (fun z hz => hxs z (List.mem_cons_of_mem _ hz))
    rw [List.cons_append]
    unfold scanWhile
    rw [if_pos hx, this]
    exact congrArg Except.ok (by simp only [List.length_cons]; omega)

theorem char_le_iff (a b : Char) : a ≤ b ↔ a.toNat ≤ b.toNat := by
  rfl

theorem char_eq_iff (a b : Char) : a = b ↔ a.toNat = b.toNat := by
  constructor
  · intro h; rw [h]
  · intro h
    apply Char.ext
    apply UInt32.ext
    exact h

theorem charIsAlpha_iff (c : Char) :
    CharIsAlpha c = true ↔ (65 ≤ c.toNat ∧ c.toNat ≤ 90) ∨ (97 ≤ c.toNat ∧ c.toNat ≤ 122) := by
  simp only [CharIsAlpha, Bool.or_eq_true, Bool.and_eq_true, decide_eq_true_eq, char_le_iff]
  rfl

theorem charIsDigit_iff (c : Char) :
    CharIsDigit c = true ↔ (48 ≤ c.toNat ∧ c.toNat ≤ 57) := by
  simp only [CharIsDigit, Bool.and_eq_true, decide_eq_true_eq, char_le_iff]
  rfl

theorem identStart_iff (c : Char) :
    identStart c = true ↔
      (65 ≤ c.toNat ∧ c.toNat ≤ 90) ∨ (97 ≤ c.toNat ∧ c.toNat ≤ 122) ∨ c.toNat = 95 := by
  simp only [identStart, Bool.or_eq_true, charIsAlpha_iff, beq_iff_eq, char_eq_iff]
  have : ('_' : Char).toNat = 95 := rfl
  omega

theorem mem_delimiterTable_iff (c : Char) (ty : CPPTokenType) :
    (c, ty) ∈ delimiterTable ↔
      (c = '\x7b' ∧ ty = CPPTokenType.LeftBrace) ∨ (c = '\x7d' ∧ ty = CPPTokenType.RightBrace) ∨
      (c = '[' ∧ ty = CPPTokenType.LeftSqBracket) ∨ (c = ']' ∧ ty = CPPTokenType.RightSqBracket) ∨
      (c = '(' ∧ ty = CPPTokenType.OpenParen) ∨ (c = ')' ∧ ty = CPPTokenType.CloseParen) ∨
      (c = ',' ∧ ty = CPPTokenType.Comma) ∨ (c = ';' ∧ ty = CPPTokenType.SemiColon) ∨
      (c = '=' ∧ ty = CPPTokenType.Equals) ∨ (c = '<' ∧ ty = CPPTokenType.LessThan) ∨
      (c = '>' ∧ ty = CPPTokenType.GreaterThan) ∨ (c = ':' ∧ ty = CPPTokenType.Colon) ∨
      (c = '*' ∧ ty = CPPTokenType.Asterisks) := by
  simp only [delimiterTable, List.mem_cons, Prod.mk.injEq, List.mem_singleton, List.not_mem_nil,
    or_false]

theorem lexToken_delimiter (fuel : Nat) (mem : List Char) (str : Nat) (sc : LexScope)
    (c : Char) (rest : List Char) (ty : CPPTokenType)
    (hm : mem.drop str = c :: rest) (hd : (c, ty) ∈ delimiterTable) :
    lexToken fuel mem str sc =
      Except.ok ({ type := ty, str := str, len := 1 }, str + 1, typeScope sc ty) := by
  have hr := readChar_of_drop hm
  rw [mem_delimiterTable_iff] at hd
  rcases hd with h | h | h | h | h | h | h | h | h | h | h | h | h <;>
    obtain ⟨rfl, rfl⟩ := h <;>
    (unfold lexToken; rw [hr]; simp only [bind, Except.bind]; simp [typeScope, pure, Except.pure])

theorem delimiter_not_space {c : Char} {ty : CPPTokenType} (hd : (c, ty) ∈ delimiterTable) :
    CharIsWhitespace c = false ∧ c ≠ NUL := by
  rw [mem_delimiterTable_iff] at hd
  rcases hd with h | h | h | h | h | h | h | h | h | h | h | h | h <;>
    obtain ⟨rfl, rfl⟩ := h <;> decide

theorem identStart_facts {c : Char} (h : identStart c = true) :
    c ≠ '\x7b' ∧ c ≠ '\x7d' ∧ c ≠ '[' ∧ c ≠ ']' ∧ c ≠ '(' ∧ c ≠ ')' ∧ c ≠ ',' ∧ c ≠ ';' ∧
    c ≠ '=' ∧ c ≠ '<' ∧ c ≠ '>' ∧ c ≠ ':' ∧ c ≠ '*' ∧ c ≠ '.' ∧ c ≠ '/' ∧ c ≠ '"' ∧
    CharIsDigit c = false ∧ CharIsWhitespace c = false ∧ c ≠ NUL := by
  refine ⟨?_, ?_, ?_, ?_, ?_, ?_, ?_, ?_, ?_, ?_, ?_, ?_, ?_, ?_, ?_, ?_, ?_, ?_, ?_⟩
  case refine_17 =>
    rw [← Bool.not_eq_true, charIsDigit_iff]
    rw [identStart_iff] at h
    omega
  case refine_18 =>
    rw [identStart_iff] at h
    simp only [CharIsWhitespace, Bool.or_eq_false_iff, beq_eq_false_iff_ne, ne_eq, char_eq_iff]
    have h1 : (' ' : Char).toNat = 32 := rfl
    have h2 : ('\t' : Char).toNat = 9 := rfl
    have h3 : ('\n' : Char).toNat = 10 := rfl
    have h4 : ('\r' : Char).toNat = 13 := rfl
    omega
  all_goals (rintro rfl; revert h; decide)

theorem charIsDigit_facts {c : Char} (h : CharIsDigit c = true) :
    c ≠ '\x7b' ∧ c ≠ '\x7d' ∧ c ≠ '[' ∧ c ≠ ']' ∧ c ≠ '(' ∧ c ≠ ')' ∧ c ≠ ',' ∧ c ≠ ';' ∧
    c ≠ '=' ∧ c ≠ '<' ∧ c ≠ '>' ∧ c ≠ ':' ∧ c ≠ '*' ∧ c ≠ '.' ∧ c ≠ '/' ∧ c ≠ '"' ∧
    CharIsWhitespace c = false ∧ c ≠ NUL := by
  refine ⟨?_, ?_, ?_, ?_, ?_, ?_, ?_, ?_, ?_, ?_, ?_, ?_, ?_, ?_, ?_, ?_, ?_, ?_⟩
  case refine_17 =>
    rw [charIsDigit_iff] at h
    simp only [CharIsWhitespace, Bool.or_eq_false_iff, beq_eq_false_iff_ne, ne_eq, char_eq_iff]
    have h1 : (' ' : Char).toNat = 32 := rfl
    have h2 : ('\t' : Char).toNat = 9 := rfl
    have h3 : ('\n' : Char).toNat = 10 := rfl
    have h4 : ('\r' : Char).toNat = 13 := rfl
    omega
  all_goals (rintro rfl; revert h; decide)

theorem lexToken_identifier (fuel : Nat) (mem : List Char) (str : Nat) (sc : LexScope)
    (c : Char) (cs : List Char) (d : Char) (rest : List Char)
    (hm : mem.drop str = (c :: cs) ++ d :: rest) (hc : identStart c = true)
    (hcs : ∀ x ∈ cs, identRest x = true) (hd : identRest d = false) :
    lexToken fuel mem str sc =
      Except.ok ({ type := CPPTokenType.Identifier, str := str, len := ((c :: cs).length : Nat) },
        str + (c :: cs).length, sc) := by
  have hr := @readChar_of_drop mem str c (cs ++ d :: rest) (by simpa using hm)
  obtain ⟨h1, h2, h3, h4, h5, h6, h7, h8, h9, h10, h11, h12, h13, h14, h15, h16, h17, -, -⟩ :=
    identStart_facts hc
  have hdrop : mem.drop (str + 1) = cs ++ d :: rest := by
    have := @drop_add_of_drop mem str [c] (cs ++ d :: rest) (by simpa using hm)
    simpa using this
  have hscan := scanWhile_append (fun ch => CharIsAlphaNum ch || ch == '_') cs d rest (str + 1)
    hcs hd
  have hc' : (CharIsAlpha c || c == '_') = true := hc
  unfold lexToken
  rw [hr]
  simp only [bind, Except.bind]
  rw [if_neg h1, if_neg h2, if_neg h3, if_neg h4, if_neg h5, if_neg h6, if_neg h7, if_neg h8,
    if_neg h9, if_neg h10, if_neg h11, if_neg h12, if_neg h13, if_neg h14, if_neg h15,
    if_neg h16]
  simp only [h17, Bool.false_eq_true, if_false, hc', if_true, hdrop, hscan, pure, Except.pure]
  simp only [List.length_cons, Except.ok.injEq, Prod.mk.injEq, CPPToken.mk.injEq, true_and,
    and_true]
  constructor
  · push_cast; ring
  · omega

theorem lexToken_number (fuel : Nat) (mem : List Char) (str : Nat) (sc : LexScope)
    (c : Char) (cs : List Char) (d : Char) (rest : List Char)
    (hm : mem.drop str = (c :: cs) ++ d :: rest) (hc : CharIsDigit c = true)
    (hcs : ∀ x ∈ cs, numberRest x = true) (hd : numberRest d = false) :
    lexToken fuel mem str sc =
      Except.ok ({ type := CPPTokenType.Number, str := str, len := ((c :: cs).length : Nat) },
        str + (c :: cs).length, sc) := by
  have hr := @readChar_of_drop mem str c (cs ++ d :: rest) (by simpa using hm)
  obtain ⟨h1, h2, h3, h4, h5, h6, h7, h8, h9, h10, h11, h12, h13, h14, h15, h16, -, -⟩ :=
    charIsDigit_facts hc
  have hall : ∀ x ∈ c :: cs, numberRest x = true := by
    intro x hx
    rcases List.mem_cons.mp hx with rfl | hx
    · simp [numberRest, hc]
    · exact hcs x hx
  have hscan := scanWhile_append
    (fun ch => CharIsDigit ch || ch == 'x' || ch == 'b' || ch == 'e' || ch == '.' || ch == 'f')
    (c :: cs) d rest str hall hd
  unfold lexToken
  rw [hr]
  simp only [bind, Except.bind]
  rw [if_neg h1, if_neg h2, if_neg h3, if_neg h4, if_neg h5, if_neg h6, if_neg h7, if_neg h8,
    if_neg h9, if_neg h10, if_neg h11, if_neg h12, if_neg h13, if_neg h14, if_neg h15,
    if_neg h16]
  simp only [hc, if_true, hm, hscan, pure, Except.pure]
  simp only [List.length_cons, Except.ok.injEq, Prod.mk.injEq, CPPToken.mk.injEq, true_and,
    and_true]
  push_cast; ring

/-- One iteration of the lexer that keeps the token it makes. -/
theorem lexPass_step (mem : List Char) (lexing_function : Bool) (fuel : Nat)
    (tokeniser : CPPTokeniser) (ptr : Nat) (sc : LexScope) (ws : List Char) (c : Char)
    (rest : List Char) (token : CPPToken) (ptr' : Nat) (sc' : LexScope)
    (hm : mem.drop ptr = ws ++ c :: rest) (hws : ∀ x ∈ ws, CharIsWhitespace x = true)
    (hc : CharIsWhitespace c = false) (hnul : c ≠ NUL)
    (hroom : tokeniser.tokens.length < tokeniser.tokens_max)
    (htok : lexToken fuel mem (ptr + ws.length) sc = Except.ok (token, ptr', sc'))
    (hlen : token.len ≠ 0) :
    lexPass mem lexing_function (fuel + 1) tokeniser ptr sc =
      if lexStop lexing_function sc' = true then
        Except.ok ({ tokeniser with tokens := tokeniser.tokens ++ [token] }, ptr')
      else
        lexPass mem lexing_function fuel { tokeniser with tokens := tokeniser.tokens ++ [token] }
          ptr' sc' := by
  have hscan := scanWhile_append CharIsWhitespace ws c rest ptr hws hc
  have hr := readChar_of_drop (drop_add_of_drop hm)
  conv_lhs => unfold lexPass
  rw [hm, hscan]
  simp only [bind, Except.bind]
  rw [hr]
  simp only [if_neg hnul, hroom, not_true_eq_false, if_false, htok, if_neg hlen, pure,
    Except.pure]

/-- The iteration of the lexer that meets the end of the text. -/
theorem lexPass_end (mem : List Char) (lexing_function : Bool) (fuel : Nat)
    (tokeniser : CPPTokeniser) (ptr : Nat) (sc : LexScope) (ws : List Char)
    (rest : List Char)
    (hm : mem.drop ptr = ws ++ NUL :: rest) (hws : ∀ x ∈ ws, CharIsWhitespace x = true) :
    lexPass mem lexing_function (fuel + 1) tokeniser ptr sc =
      Except.ok (tokeniser, ptr + ws.length) := by
  have hscan := scanWhile_append CharIsWhitespace ws NUL rest ptr hws (by decide)
  have hr := readChar_of_drop (drop_add_of_drop hm)
  unfold lexPass
  rw [hm, hscan]
  simp only [bind, Except.bind]
  rw [hr]
  simp only [if_true, pure, Except.pure]

theorem typesScope_cons (sc : LexScope) (ty : CPPTokenType) (tys : List CPPTokenType) :
    typesScope sc (ty :: tys) = typesScope (typeScope sc ty) tys := rfl

theorem typeScope_of_not_scope (sc : LexScope) (ty : CPPTokenType)
    (h1 : ty ≠ CPPTokenType.LeftBrace) (h2 : ty ≠ CPPTokenType.RightBrace)
    (h3 : ty ≠ CPPTokenType.OpenParen) (h4 : ty ≠ CPPTokenType.CloseParen) :
    typeScope sc ty = sc := by
  cases ty <;> simp_all [typeScope]

/-- What `Lexeme.wellFormed` checks. -/
theorem Lexeme.wellFormed_cases {l : Lexeme} {follows : List Char}
    (h : l.wellFormed follows = true) :
    (∀ x ∈ l.space, CharIsWhitespace x = true) ∧
    ((∃ c, l.text = [c] ∧ (c, l.type) ∈ delimiterTable) ∨
     (l.type = CPPTokenType.Identifier ∧ ∃ c cs, l.text = c :: cs ∧ identStart c = true ∧
        (∀ x ∈ cs, identRest x = true) ∧ ∃ d rest, follows = d :: rest ∧ identRest d = false) ∨
     (l.type = CPPTokenType.Number ∧ ∃ c cs, l.text = c :: cs ∧ CharIsDigit c = true ∧
        (∀ x ∈ cs, numberRest x = true) ∧
          ∃ d rest, follows = d :: rest ∧ numberRest d = false)) := by
  unfold Lexeme.wellFormed at h
  simp only [Bool.and_eq_true, List.all_eq_true] at h
  obtain ⟨hsp, hk⟩ := h
  refine ⟨hsp, ?_⟩
  cases htext : l.text with
  | nil => rw [htext] at hk; simp at hk
  | cons c cs =>
    rw [htext] at hk
    simp only [Bool.or_eq_true, Bool.and_eq_true, List.isEmpty_iff, List.contains, List.elem_iff,
      beq_iff_eq, List.all_eq_true] at hk
    rcases hk with (⟨hcs, hd⟩ | ⟨⟨⟨hty, hs⟩, hcs⟩, hf⟩) | ⟨⟨⟨hty, hs⟩, hcs⟩, hf⟩
    · exact Or.inl ⟨c, by rw [hcs], hd⟩
    · refine Or.inr (Or.inl ⟨hty, c, cs, rfl, hs, hcs, ?_⟩)
      cases follows with
      | nil => simp at hf
      | cons d rest => exact ⟨d, rest, rfl, by simpa using hf⟩
    · refine Or.inr (Or.inr ⟨hty, c, cs, rfl, hs, hcs, ?_⟩)
      cases follows with
      | nil => simp at hf
      | cons d rest => exact ⟨d, rest, rfl, by simpa using hf⟩

/-- The token that one well-formed lexeme makes. -/
theorem lexToken_lexeme (fuel : Nat) (mem : List Char) (ptr : Nat) (sc : LexScope)
    (l : Lexeme) (follows : List Char) (hl : l.wellFormed follows = true)
    (hm : mem.drop ptr = l.render ++ follows) :
    lexToken fuel mem (ptr + l.space.length) sc =
      Except.ok ({ type := l.type, str := ptr + l.space.length, len := l.text.length },
        ptr + l.space.length + l.text.length, typeScope sc l.type) ∧
    ∃ c rest, l.text ++ follows = c :: rest ∧ CharIsWhitespace c = false ∧ c ≠ NUL := by
  have hm' : mem.drop (ptr + l.space.length) = l.text ++ follows := by
    apply @drop_add_of_drop mem ptr l.space
    simpa [Lexeme.render, List.append_assoc] using hm
  obtain ⟨-, hk⟩ := Lexeme.wellFormed_cases hl
  rcases hk with ⟨c, hc, hd⟩ | ⟨hty, c, cs, hc, hs, hcs, d, rest, hf, hd⟩ |
      ⟨hty, c, cs, hc, hs, hcs, d, rest, hf, hd⟩
  · rw [hc] at hm' ⊢
    refine ⟨?_, c, follows, rfl, (delimiter_not_space hd).1, (delimiter_not_space hd).2⟩
    rw [lexToken_delimiter fuel mem _ sc c follows l.type (by simpa using hm') hd]
    simp
  · rw [hc, hf] at hm'
    rw [hc]
    obtain ⟨-, -, -, -, -, -, -, -, -, -, -, -, -, -, -, -, -, hsp, hnul⟩ := identStart_facts hs
    refine ⟨?_, c, cs ++ follows, by simp, hsp, hnul⟩
    rw [lexToken_identifier fuel mem _ sc c cs d rest hm' hs hcs hd, hty]
    simp [typeScope, Nat.add_assoc]
  · rw [hc, hf] at hm'
    rw [hc]
    obtain ⟨-, -, -, -, -, -, -, -, -, -, -, -, -, -, -, -, hsp, hnul⟩ := charIsDigit_facts hs
    refine ⟨?_, c, cs ++ follows, by simp, hsp, hnul⟩
    rw [lexToken_number fuel mem _ sc c cs d rest hm' hs hcs hd, hty]
    simp [typeScope, Nat.add_assoc]

theorem lexeme_text_length_pos (l : Lexeme) (follows : List Char)
    (hl : l.wellFormed follows = true) : 0 < l.text.length := by
  obtain ⟨-, hk⟩ := Lexeme.wellFormed_cases hl
  rcases hk with ⟨c, hc, -⟩ | ⟨-, c, cs, hc, -⟩ | ⟨-, c, cs, hc, -⟩ <;> simp [hc]

/-- One iteration of the lexer on the text of a well-formed lexeme. -/
theorem lexPass_lexeme (mem : List Char) (lf : Bool) (fuel : Nat)
    (tokeniser : CPPTokeniser) (ptr : Nat) (sc : LexScope)
    (l : Lexeme) (follows : List Char) (hl : l.wellFormed follows = true)
    (hm : mem.drop ptr = l.render ++ follows)
    (hroom : tokeniser.tokens.length < tokeniser.tokens_max) :
    lexPass mem lf (fuel + 1) tokeniser ptr sc =
      if lexStop lf (typeScope sc l.type) = true then
        Except.ok ({ tokeniser with tokens := tokeniser.tokens ++
          [{ type := l.type, str := ptr + l.space.length, len := l.text.length }] },
          ptr + l.space.length + l.text.length)
      else
        lexPass mem lf fuel { tokeniser with tokens := tokeniser.tokens ++
          [{ type := l.type, str := ptr + l.space.length, len := l.text.length }] }
          (ptr + l.space.length + l.text.length) (typeScope sc l.type) := by
  obtain ⟨htok, c, rest, hcr, hc, hnul⟩ := lexToken_lexeme fuel mem ptr sc l follows hl hm
  have hpos := lexeme_text_length_pos l follows hl
  refine lexPass_step mem lf fuel tokeniser ptr sc l.space c rest _ _ _ ?_
    (Lexeme.wellFormed_cases hl).1 hc hnul hroom
    htok ?_
  · rw [hm, ← hcr]; simp [Lexeme.render]
  · simp only [ne_eq, Int.natCast_eq_zero]; omega

theorem stopsAtLast_cons {lf : Bool} {sc : LexScope} {ty : CPPTokenType}
    {tys : List CPPTokenType} (h : StopsAtLast lf sc (ty :: tys)) :
    (tys = [] ∧ lexStop lf (typeScope sc ty) = true) ∨
    (lexStop lf (typeScope sc ty) = false ∧ StopsAtLast lf (typeScope sc ty) tys) := by
  obtain ⟨-, hlast, hk⟩ := h
  cases tys with
  | nil => exact Or.inl ⟨rfl, hlast⟩
  | cons ty2 tys =>
    right
    refine ⟨?_, by simp, ?_, ?_⟩
    · have := hk 1 (by omega) (by simp)
      simpa [typesScope] using this
    · simpa [typesScope] using hlast
    · intro k hk0 hklt
      have := hk (k + 1) (by omega) (by simp at hklt ⊢; omega)
      simpa [typesScope] using this

theorem neverStops_cons {lf : Bool} {sc : LexScope} {ty : CPPTokenType}
    {tys : List CPPTokenType} (h : NeverStops lf sc (ty :: tys)) :
    lexStop lf (typeScope sc ty) = false ∧ NeverStops lf (typeScope sc ty) tys := by
  constructor
  · have := h 1 (by omega) (by simp)
    simpa [typesScope] using this
  · intro k hk0 hkle
    have := h (k + 1) (by omega) (by simp at hkle ⊢; omega)
    simpa [typesScope] using this

/-- The lexer on the text of well-formed lexemes, when its test for the end of the
scope succeeds first at the last of them: it makes their tokens and returns the
offset right after the last lexeme, whatever text follows. -/
theorem lexPass_lexemes_stop (mem : List Char) (lf : Bool) (ls : List Lexeme) :
    ∀ (tail : List Char) (fuel : Nat) (tokeniser : CPPTokeniser) (ptr : Nat) (sc : LexScope),
      wellFormedLexemes ls tail = true → mem.drop ptr = renderLexemes ls ++ tail →
      StopsAtLast lf sc (ls.map (fun l => l.type)) →
      tokeniser.tokens.length + ls.length ≤ tokeniser.tokens_max → ls.length ≤ fuel →
      lexPass mem lf fuel tokeniser ptr sc =
        Except.ok ({ tokeniser with tokens := tokeniser.tokens ++ lexemeTokens ptr ls },
          ptr + (renderLexemes ls).length) := by
  induction ls with
  | nil => intro tail fuel tokeniser ptr sc _ _ hstop; exact absurd rfl hstop.1
  | cons l ls ih =>
    intro tail fuel tokeniser ptr sc hwf hm hstop hroom hfuel
    simp only [wellFormedLexemes, Bool.and_eq_true] at hwf
    obtain ⟨hl, hwf'⟩ := hwf
    cases fuel with
    | zero => simp at hfuel
    | succ fuel =>
      have hm1 : mem.drop ptr = l.render ++ (renderLexemes ls ++ tail) := by
        rw [hm]; simp [renderLexemes, List.append_assoc]
      rw [lexPass_lexeme mem lf fuel tokeniser ptr sc l _ hl hm1
        (by simp at hroom; omega)]
      have hlen : (l.space ++ l.text).length = l.space.length + l.text.length := by simp
      rcases stopsAtLast_cons (by simpa using hstop) with ⟨hnil, hs⟩ | ⟨hs, hrest⟩
      · have hls : ls = [] := by simpa using hnil
        subst hls
        rw [if_pos hs]
        simp [lexemeTokens, renderLexemes, Lexeme.render, Nat.add_assoc]
      · rw [if_neg (by simp [hs])]
        have hm2 : mem.drop (ptr + l.space.length + l.text.length) =
            renderLexemes ls ++ tail := by
          have := @drop_add_of_drop mem ptr l.render _ hm1
          simpa [Lexeme.render, Nat.add_assoc] using this
        rw [ih tail fuel _ _ _ hwf' hm2 hrest (by simp at hroom ⊢; omega)
          (by simp at hfuel; omega)]
        simp [lexemeTokens, renderLexemes, Lexeme.render, Nat.add_assoc]

/-- The lexer on the text of well-formed lexemes that ends the buffer, when its test
for the end of the scope never succeeds: it makes their tokens and returns the offset
of the terminating NUL. -/
theorem lexPass_lexemes_end (mem : List Char) (lf : Bool) (ls : List Lexeme) :
    ∀ (ws rest : List Char) (fuel : Nat) (tokeniser : CPPTokeniser) (ptr : Nat)
      (sc : LexScope),
      wellFormedLexemes ls (ws ++ NUL :: rest) = true →
      mem.drop ptr = renderLexemes ls ++ (ws ++ NUL :: rest) →
      (∀ x ∈ ws, CharIsWhitespace x = true) →
      NeverStops lf sc (ls.map (fun l => l.type)) →
      tokeniser.tokens.length + ls.length ≤ tokeniser.tokens_max → ls.length < fuel →
      lexPass mem lf fuel tokeniser ptr sc =
        Except.ok ({ tokeniser with tokens := tokeniser.tokens ++ lexemeTokens ptr ls },
          ptr + (renderLexemes ls).length + ws.length) := by
  induction ls with
  | nil =>
    intro ws rest fuel tokeniser ptr sc _ hm hws _ _ hfuel
    cases fuel with
    | zero => simp at hfuel
    | succ fuel =>
      rw [lexPass_end mem lf fuel tokeniser ptr sc ws rest (by simpa [renderLexemes] using hm)
        hws]
      simp [lexemeTokens, renderLexemes]
  | cons l ls ih =>
    intro ws rest fuel tokeniser ptr sc hwf hm hws hnever hroom hfuel
    simp only [wellFormedLexemes, Bool.and_eq_true] at hwf
    obtain ⟨hl, hwf'⟩ := hwf
    cases fuel with
    | zero => simp at hfuel
    | succ fuel =>
      have hm1 : mem.drop ptr = l.render ++ (renderLexemes ls ++ (ws ++ NUL :: rest)) := by
        rw [hm]; simp [renderLexemes, List.append_assoc]
      rw [lexPass_lexeme mem lf fuel tokeniser ptr sc l _ hl hm1
        (by simp at hroom; omega)]
      obtain ⟨hs, hrest⟩ := neverStops_cons (by simpa using hnever)
      rw [if_neg (by simp [hs])]
      have hm2 : mem.drop (ptr + l.space.length + l.text.length) =
          renderLexemes ls ++ (ws ++ NUL :: rest) := by
        have := @drop_add_of_drop mem ptr l.render _ hm1
        simpa [Lexeme.render, Nat.add_assoc] using this
      rw [ih ws rest fuel _ _ _ hwf' hm2 hws hrest (by simp at hroom ⊢; omega)
        (by simp at hfuel; omega)]
      simp [lexemeTokens, renderLexemes, Lexeme.render, Nat.add_assoc]

/-! ## Where the lexer stops -/

theorem scopeDepth_nil (o c : CPPTokenType) : scopeDepth o c [] = 0 := by
  simp [scopeDepth]

theorem scopeDepth_cons (o c ty : CPPTokenType) (tys : List CPPTokenType) :
    scopeDepth o c (ty :: tys) =
      (if ty = o then 1 else 0) - (if ty = c then 1 else 0) + scopeDepth o c tys := by
  simp only [scopeDepth, List.count_cons, beq_iff_eq]
  split <;> split <;> push_cast <;> ring

theorem scopeDepth_append (o c : CPPTokenType) (xs ys : List CPPTokenType) :
    scopeDepth o c (xs ++ ys) = scopeDepth o c xs + scopeDepth o c ys := by
  simp only [scopeDepth, List.count_append]
  push_cast; ring

theorem scopeDepth_of_absent (o c : CPPTokenType) (tys : List CPPTokenType)
    (h : ∀ ty ∈ tys, ty ≠ o ∧ ty ≠ c) : scopeDepth o c tys = 0 := by
  have h1 : tys.count o = 0 := List.count_eq_zero.mpr (fun hm => (h o hm).1 rfl)
  have h2 : tys.count c = 0 := List.count_eq_zero.mpr (fun hm => (h c hm).2 rfl)
  simp [scopeDepth, h1, h2]

/-- The counter of the scope the lexer follows. -/
theorem level_typesScope (lf : Bool) (tys : List CPPTokenType) :
    ∀ sc : LexScope,
      (if lf then (typesScope sc tys).paren_level else (typesScope sc tys).indent_level) =
        (if lf then sc.paren_level else sc.indent_level) +
          scopeDepth (scopeOpener lf) (scopeCloser lf) tys := by
  induction tys with
  | nil => intro sc; simp [typesScope, scopeDepth_nil]
  | cons ty tys ih =>
    intro sc
    rw [typesScope_cons, ih, scopeDepth_cons]
    cases lf <;> cases ty <;> simp [typeScope, scopeOpener, scopeCloser] <;> ring

theorem started_typesScope (lf : Bool) (tys : List CPPTokenType) :
    ∀ sc : LexScope,
      (if lf then (typesScope sc tys).started_lexing_function
        else (typesScope sc tys).started_lexing_brace_scope) =
        ((if lf then sc.started_lexing_function else sc.started_lexing_brace_scope) ||
          decide (scopeOpener lf ∈ tys)) := by
  induction tys with
  | nil => intro sc; simp [typesScope]
  | cons ty tys ih =>
    intro sc
    rw [typesScope_cons, ih]
    cases lf <;> cases ty <;> simp [typeScope, scopeOpener]

theorem lexStop_typesScope (lf : Bool) (tys : List CPPTokenType) :
    lexStop lf (typesScope {} tys) =
      (decide (scopeOpener lf ∈ tys) &&
        decide (scopeDepth (scopeOpener lf) (scopeCloser lf) tys = 0)) := by
  have h1 := level_typesScope lf tys {}
  have h2 := started_typesScope lf tys {}
  cases lf <;> simp_all [lexStop] <;> congr 1

theorem take_scope (a b : List CPPTokenType) (o c : CPPTokenType) (k : Nat)
    (h1 : a.length < k) (h2 : k < (a ++ o :: (b ++ [c])).length) :
    (a ++ o :: (b ++ [c])).take k = a ++ o :: b.take (k - a.length - 1) := by
  rw [List.take_append_eq_append_take, List.take_of_length_le (by omega)]
  obtain ⟨j, hj⟩ : ∃ j, k - a.length = j + 1 := ⟨k - a.length - 1, by omega⟩
  rw [hj, List.take_succ_cons, List.take_append_of_le_length]
  · congr 3
  · simp at h2; omega

/-- Tokens outside the scope, the opener, properly nested tokens, the closer: the
lexer's test succeeds at the closer and at no token before it. -/
theorem stopsAtLast_scope (lf : Bool) (a b : List CPPTokenType)
    (ha : ∀ ty ∈ a, ty ≠ scopeOpener lf ∧ ty ≠ scopeCloser lf)
    (hb : Balanced (scopeOpener lf) (scopeCloser lf) b) :
    StopsAtLast lf {} (a ++ scopeOpener lf :: (b ++ [scopeCloser lf])) := by
  have hoc : scopeOpener lf ≠ scopeCloser lf := by cases lf <;> decide
  have hda := scopeDepth_of_absent _ _ a ha
  refine ⟨by simp, ?_, ?_⟩
  · rw [lexStop_typesScope]
    have : scopeDepth (scopeOpener lf) (scopeCloser lf)
        (a ++ scopeOpener lf :: (b ++ [scopeCloser lf])) = 0 := by
      rw [scopeDepth_append, scopeDepth_cons, scopeDepth_append, hda, hb.1]
      simp [scopeDepth_cons, scopeDepth_nil, hoc, hoc.symm]
    simp [this]
  · intro k hk0 hklt
    rw [lexStop_typesScope]
    by_cases hka : k ≤ a.length
    · have hnot : scopeOpener lf ∉ (a ++ scopeOpener lf :: (b ++ [scopeCloser lf])).take k := by
        rw [List.take_append_of_le_length hka]
        intro hmem
        exact (ha _ (List.mem_of_mem_take hmem)).1 rfl
      simp [hnot]
    · have hd : scopeDepth (scopeOpener lf) (scopeCloser lf)
          ((a ++ scopeOpener lf :: (b ++ [scopeCloser lf])).take k) ≠ 0 := by
        rw [take_scope a b _ _ k (by omega) hklt, scopeDepth_append, scopeDepth_cons, hda]
        have := hb.2 (k - a.length - 1) (by simp at hklt; omega)
        simp only [if_true, hoc, if_false]
        omega
      simp [hd]

theorem renderLexemes_append (xs ys : List Lexeme) :
    renderLexemes (xs ++ ys) = renderLexemes xs ++ renderLexemes ys := by
  induction xs with
  | nil => rfl
  | cons x xs ih => simp [renderLexemes, ih, List.append_assoc]

theorem lexemeTokens_append (ptr : Nat) (xs ys : List Lexeme) :
    lexemeTokens ptr (xs ++ ys) =
      lexemeTokens ptr xs ++ lexemeTokens (ptr + (renderLexemes xs).length) ys := by
  induction xs generalizing ptr with
  | nil => simp [lexemeTokens, renderLexemes]
  | cons x xs ih =>
    have e : ptr + x.space.length + x.text.length + (renderLexemes xs).length =
        ptr + (x.space.length + x.text.length + (renderLexemes xs).length) := by omega
    rw [List.cons_append, lexemeTokens, lexemeTokens, ih, renderLexemes]
    simp only [Lexeme.render, List.length_append, e, List.cons_append]

theorem lexemeTokens_length (ls : List Lexeme) :
    ∀ ptr : Nat, (lexemeTokens ptr ls).length = ls.length := by
  induction ls with
  | nil => intro ptr; rfl
  | cons x xs ih => intro ptr; simp [lexemeTokens, ih]

/-- The tokens of lexemes lie, in order, inside the text of the lexemes. -/
theorem lexemeTokens_bounds (ls : List Lexeme) :
    ∀ (ptr : Nat) (t : CPPToken), t ∈ lexemeTokens ptr ls →
      ptr ≤ t.str ∧ (t.str : Int) + t.len ≤ ((ptr + (renderLexemes ls).length : Nat) : Int) := by
  induction ls with
  | nil => intro ptr t ht; simp [lexemeTokens] at ht
  | cons l ls ih =>
    intro ptr t ht
    simp only [lexemeTokens, List.mem_cons] at ht
    rcases ht with rfl | ht
    · simp only [renderLexemes, Lexeme.render, List.length_append]
      constructor
      · omega
      · push_cast; omega
    · have := ih _ t ht
      simp only [renderLexemes, Lexeme.render, List.length_append]
      constructor
      · omega
      · have h2 := this.2
        push_cast at h2 ⊢
        omega

theorem wellFormedLexemes_append {xs ys : List Lexeme} {tail : List Char}
    (h : wellFormedLexemes (xs ++ ys) tail = true) :
    wellFormedLexemes xs (renderLexemes ys ++ tail) = true ∧ wellFormedLexemes ys tail = true := by
  induction xs with
  | nil => exact ⟨rfl, h⟩
  | cons x xs ih =>
    simp only [List.cons_append, wellFormedLexemes, Bool.and_eq_true] at h
    obtain ⟨hx, hrest⟩ := h
    obtain ⟨h1, h2⟩ := ih hrest
    simp only [wellFormedLexemes, Bool.and_eq_true]
    refine ⟨⟨?_, h1⟩, h2⟩
    simpa [renderLexemes_append, List.append_assoc] using hx

/-- One pass of the lexer over plain text made of the lexemes `a`, the opener of the
scope it follows, the lexemes `b`, the closer, where `a` holds neither opener nor
closer and `b` nests properly, followed by any text: the pass makes the tokens of these
lexemes, the last one being the closer, and returns the offset right after it. -/
theorem lexPass_scope (mem : List Char) (lf : Bool) (a b : List Lexeme)
    (lo lc : Lexeme) (tail : List Char) (fuel : Nat) (tokeniser : CPPTokeniser) (ptr : Nat)
    (hlo : lo.type = scopeOpener lf) (hlc : lc.type = scopeCloser lf)
    (ha : ∀ l ∈ a, l.type ≠ scopeOpener lf ∧ l.type ≠ scopeCloser lf)
    (hb : Balanced (scopeOpener lf) (scopeCloser lf) (lexemeTypes b))
    (hwf : wellFormedLexemes (a ++ lo :: (b ++ [lc])) tail = true)
    (hm : mem.drop ptr = renderLexemes (a ++ lo :: (b ++ [lc])) ++ tail)
    (hroom : tokeniser.tokens.length + (a ++ lo :: (b ++ [lc])).length ≤ tokeniser.tokens_max)
    (hfuel : (a ++ lo :: (b ++ [lc])).length ≤ fuel) :
    lexPass mem lf fuel tokeniser ptr {} =
      Except.ok ({ tokeniser with tokens :=
          tokeniser.tokens ++ lexemeTokens ptr (a ++ lo :: (b ++ [lc])) },
        ptr + (renderLexemes (a ++ lo :: b)).length + lc.space.length + 1) ∧
    (lexemeTokens ptr (a ++ lo :: (b ++ [lc]))).getLast? =
      some { type := scopeCloser lf,
             str := ptr + (renderLexemes (a ++ lo :: b)).length + lc.space.length, len := 1 } ∧
    (renderLexemes (a ++ lo :: (b ++ [lc]))).length =
      (renderLexemes (a ++ lo :: b)).length + lc.space.length + 1 ∧
    ∀ t ∈ lexemeTokens ptr (a ++ lo :: (b ++ [lc])),
      (t.str : Int) + t.len ≤
        ((ptr + (renderLexemes (a ++ lo :: b)).length + lc.space.length + 1 : Nat) : Int) := by
  have hlctext : lc.text.length = 1 := by
    obtain ⟨-, hlcwf⟩ := @wellFormedLexemes_append (a ++ lo :: b) [lc] tail
      (by simpa using hwf)
    simp only [wellFormedLexemes, Bool.and_eq_true, and_true] at hlcwf
    obtain ⟨-, hk⟩ := Lexeme.wellFormed_cases hlcwf
    rcases hk with ⟨c, hc, -⟩ | ⟨hty, -⟩ | ⟨hty, -⟩
    · simp [hc]
    · rw [hlc] at hty; cases lf <;> cases hty
    · rw [hlc] at hty; cases lf <;> cases hty
  have hlen : (renderLexemes (a ++ lo :: (b ++ [lc]))).length =
      (renderLexemes (a ++ lo :: b)).length + lc.space.length + 1 := by
    rw [show a ++ lo :: (b ++ [lc]) = (a ++ lo :: b) ++ [lc] by simp, renderLexemes_append]
    simp [renderLexemes, Lexeme.render, hlctext, Nat.add_assoc]
  have hstop : StopsAtLast lf {} (lexemeTypes (a ++ lo :: (b ++ [lc]))) := by
    have := stopsAtLast_scope lf (lexemeTypes a) (lexemeTypes b)
      (by
        intro ty hty
        simp only [lexemeTypes, List.mem_map] at hty
        obtain ⟨l, hl, rfl⟩ := hty
        exact ha l hl)
      hb
    simpa [lexemeTypes, hlo, hlc] using this
  refine ⟨?_, ?_, hlen, ?_⟩
  · rw [lexPass_lexemes_stop mem lf _ tail fuel tokeniser ptr {} hwf hm hstop hroom hfuel, hlen]
    simp [Nat.add_assoc]
  · rw [show a ++ lo :: (b ++ [lc]) = (a ++ lo :: b) ++ [lc] by simp, lexemeTokens_append]
    simp [lexemeTokens, hlc, hlctext, Nat.add_assoc]
  · intro t ht
    have := (lexemeTokens_bounds _ ptr t ht).2
    rw [hlen] at this
    simpa [Nat.add_assoc] using this

/-- Lexing a function prototype (`lexing_function` true) over plain text made of
the macro call (an opening parenthesis, the lexemes `args`, a closing parenthesis) and
the declaration (the lexemes `front`, which hold no parenthesis, an opening parenthesis,
the lexemes `params`, a closing parenthesis), the parentheses of `args` and of `params`
nesting properly, followed by any text: the first pass stops right after the `)` that
closes the macro call, the second pass goes on from there and stops right after the `)`
that closes the first parenthesis of the declaration, and the lexer returns the offset
of the character after that second `)`. -/
theorem lexer_two_passes_on_plain_text (mem : List Char) (args front params : List Lexeme)
    (op cp op2 cp2 : Lexeme) (call decl : List Lexeme) (tail : List Char) (fuel : Nat)
    (tokeniser : CPPTokeniser) (ptr : Nat)
    (hcall : call = op :: (args ++ [cp])) (hdecl : decl = front ++ op2 :: (params ++ [cp2]))
    (hop : op.type = CPPTokenType.OpenParen) (hcp : cp.type = CPPTokenType.CloseParen)
    (hop2 : op2.type = CPPTokenType.OpenParen) (hcp2 : cp2.type = CPPTokenType.CloseParen)
    (hargs : Balanced CPPTokenType.OpenParen CPPTokenType.CloseParen (lexemeTypes args))
    (hfront : ∀ l ∈ front,
      l.type ≠ CPPTokenType.OpenParen ∧ l.type ≠ CPPTokenType.CloseParen)
    (hparams : Balanced CPPTokenType.OpenParen CPPTokenType.CloseParen (lexemeTypes params))
    (hwf : wellFormedLexemes (call ++ decl) tail = true)
    (hm : mem.drop ptr = renderLexemes (call ++ decl) ++ tail)
    (hroom : tokeniser.tokens.length + (call ++ decl).length ≤ tokeniser.tokens_max)
    (hfuel : (call ++ decl).length ≤ fuel) :
    lexPass mem true fuel tokeniser ptr {} =
      Except.ok ({ tokeniser with tokens := tokeniser.tokens ++ lexemeTokens ptr call },
        ptr + (renderLexemes (op :: args)).length + cp.space.length + 1) ∧
    (lexemeTokens ptr call).getLast? =
      some { type := CPPTokenType.CloseParen,
             str := ptr + (renderLexemes (op :: args)).length + cp.space.length, len := 1 } ∧
    (renderLexemes call).length = (renderLexemes (op :: args)).length + cp.space.length + 1 ∧
    EnumOrStructOrFunctionLexer fuel mem tokeniser ptr true =
      Except.ok ({ tokeniser with tokens := tokeniser.tokens ++ lexemeTokens ptr (call ++ decl) },
        ptr + (renderLexemes call).length +
          (renderLexemes (front ++ op2 :: params)).length + cp2.space.length + 1) ∧
    (lexemeTokens ptr (call ++ decl)).getLast? =
      some { type := CPPTokenType.CloseParen,
             str := ptr + (renderLexemes call).length +
               (renderLexemes (front ++ op2 :: params)).length + cp2.space.length,
             len := 1 } := by
  subst hcall hdecl
  obtain ⟨hwf1, hwf2⟩ := wellFormedLexemes_append hwf
  have hm1 : mem.drop ptr = renderLexemes ([] ++ op :: (args ++ [cp])) ++
      (renderLexemes (front ++ op2 :: (params ++ [cp2])) ++ tail) := by
    rw [hm, renderLexemes_append]; simp [List.append_assoc]
  obtain ⟨p1, p2, p3, -⟩ := lexPass_scope mem true [] args op cp _ fuel tokeniser ptr hop hcp
    (by simp) hargs (by simpa using hwf1) hm1
    (by simp at hroom ⊢; omega) (by simp at hfuel ⊢; omega)
  simp only [List.nil_append] at p1 p2 p3
  have hm2 : mem.drop (ptr + (renderLexemes (op :: (args ++ [cp]))).length) =
      renderLexemes (front ++ op2 :: (params ++ [cp2])) ++ tail := by
    apply drop_add_of_drop
    rw [hm, renderLexemes_append, List.append_assoc]
  obtain ⟨q1, q2, -, -⟩ := lexPass_scope mem true front params op2 cp2 tail fuel
    { tokeniser with tokens := tokeniser.tokens ++ lexemeTokens ptr (op :: (args ++ [cp])) }
    (ptr + (renderLexemes (op :: (args ++ [cp]))).length) hop2 hcp2 hfront hparams hwf2 hm2
    (by
      simp only [List.length_append, lexemeTokens_length]
      simp only [List.length_append] at hroom
      omega)
    (by simp at hfuel ⊢; omega)
  refine ⟨p1, p2, p3, ?_, ?_⟩
  · unfold EnumOrStructOrFunctionLexer
    rw [p1]
    simp only [bind, Except.bind, if_true]
    have e : ptr + (renderLexemes (op :: args)).length + cp.space.length + 1 =
        ptr + (renderLexemes (op :: (args ++ [cp]))).length := by omega
    rw [e, q1]
    simp only [lexemeTokens_append, List.append_assoc]
  · have hne : lexemeTokens (ptr + (renderLexemes (op :: (args ++ [cp]))).length)
        (front ++ op2 :: (params ++ [cp2])) ≠ [] := by
      intro hnil
      rw [hnil] at q2
      simp at q2
    rw [lexemeTokens_append, List.getLast?_append_of_ne_nil _ hne, q2]
    rfl

/-- At the text `(b = 10)` and `int Add(int a, int b = 5)` of the scenario: the
first pass stops at offset 8, right after the `)` of the macro call; the lexer returns
offset 34, right after the `)` of the parameter list. -/
theorem lexer_two_passes_example :
    lexPass (fileBuffer "(b = 10)\nint Add(int a, int b = 5);") true 20 {} 0 {} =
      Except.ok ({ tokens :=
        [{ type := CPPTokenType.OpenParen, str := 0, len := 1 },
         { type := CPPTokenType.Identifier, str := 1, len := 1 },
         { type := CPPTokenType.Equals, str := 3, len := 1 },
         { type := CPPTokenType.Number, str := 5, len := 2 },
         { type := CPPTokenType.CloseParen, str := 7, len := 1 }] }, 8) ∧
    (EnumOrStructOrFunctionLexer 20 (fileBuffer "(b = 10)\nint Add(int a, int b = 5);") {} 0
        true).map (fun r => (r.1.tokens.getLast?, r.2)) =
      Except.ok (some { type := CPPTokenType.CloseParen, str := 33, len := 1 }, 34) := by
  have h := lexer_two_passes_on_plain_text (fileBuffer "(b = 10)\nint Add(int a, int b = 5);")
    [{ space := [], text := "b".toList, type := CPPTokenType.Identifier },
     { space := [' '], text := "=".toList, type := CPPTokenType.Equals },
     { space := [' '], text := "10".toList, type := CPPTokenType.Number }]
    [{ space := ['\n'], text := "int".toList, type := CPPTokenType.Identifier },
     { space := [' '], text := "Add".toList, type := CPPTokenType.Identifier }]
    [{ space := [], text := "int".toList, type := CPPTokenType.Identifier },
     { space := [' '], text := "a".toList, type := CPPTokenType.Identifier },
     { space := [], text := ",".toList, type := CPPTokenType.Comma },
     { space := [' '], text := "int".toList, type := CPPTokenType.Identifier },
     { space := [' '], text := "b".toList, type := CPPTokenType.Identifier },
     { space := [' '], text := "=".toList, type := CPPTokenType.Equals },
     { space := [' '], text := "5".toList, type := CPPTokenType.Number }]
    { space := [], text := ['('], type := CPPTokenType.OpenParen }
    { space := [], text := [')'], type := CPPTokenType.CloseParen }
    { space := [], text := ['('], type := CPPTokenType.OpenParen }
    { space := [], text := [')'], type := CPPTokenType.CloseParen }
    _ _ [';', NUL] 20 {} 0 rfl rfl rfl rfl rfl rfl (by decide) (by decide) (by decide)
    (by decide) (by decide) (by decide) (by decide)
  refine ⟨h.1, ?_⟩
  rw [h.2.2.2.1]
  decide

/-! ## The token stream at a known position -/

theorem getD_at (pre : List CPPToken) (t : CPPToken) (post : List CPPToken) :
    (pre ++ t :: post).getD pre.length default = t := by
  rw [List.getD_eq_getElem?_getD, List.getElem?_append_right (Nat.le_refl _)]
  simp

theorem braceDepth_single (t : CPPToken) :
    braceDepth [t] =
      if t.type = CPPTokenType.LeftBrace then 1
      else if t.type = CPPTokenType.RightBrace then -1 else 0 := by
  simp only [braceDepth, tokenTypes, List.map, scopeDepth_cons, scopeDepth_nil]
  by_cases hl : t.type = CPPTokenType.LeftBrace
  · simp [hl]
  · by_cases hr : t.type = CPPTokenType.RightBrace
    · simp [hr]
    · simp [hl, hr]

/-- `CPPTokeniser_NextToken` on any token but the end of the stream. -/
theorem next_token {tokeniser : CPPTokeniser} {t : CPPToken}
    (hg : tokeniser.tokens.getD tokeniser.tokens_index default = t)
    (h1 : t.type ≠ CPPTokenType.EndOfStream)
    (h0 : 0 ≤ tokeniser.indent_level + braceDepth [t]) :
    CPPTokeniser_NextToken tokeniser =
      Except.ok (t, { tokeniser with
        tokens_index := tokeniser.tokens_index + 1
        indent_level := tokeniser.indent_level + braceDepth [t] }) := by
  have hd : (if t.type = CPPTokenType.LeftBrace then tokeniser.indent_level + 1
      else if t.type = CPPTokenType.RightBrace then tokeniser.indent_level - 1
      else tokeniser.indent_level) = tokeniser.indent_level + braceDepth [t] := by
    rw [braceDepth_single]
    by_cases hl : t.type = CPPTokenType.LeftBrace
    · simp [hl]
    · by_cases hr : t.type = CPPTokenType.RightBrace
      · simp [hr]; ring
      · simp [hl, hr]
  unfold CPPTokeniser_NextToken
  simp only [hg, ne_eq, h1, not_false_eq_true, if_true]
  unfold nextTokenLoop
  simp only [hg, hd, h0, not_true_eq_false, if_false, h1, nextTokenLoop, pure, Except.pure]

/-- `CPPTokeniser_NextToken` on a token that is neither a brace nor the end of the
stream. -/
theorem next_plain {tokeniser : CPPTokeniser} {t : CPPToken}
    (hg : tokeniser.tokens.getD tokeniser.tokens_index default = t)
    (h0 : 0 ≤ tokeniser.indent_level)
    (h1 : t.type ≠ CPPTokenType.EndOfStream) (h2 : t.type ≠ CPPTokenType.LeftBrace)
    (h3 : t.type ≠ CPPTokenType.RightBrace) :
    CPPTokeniser_NextToken tokeniser =
      Except.ok (t, { tokeniser with tokens_index := tokeniser.tokens_index + 1 }) := by
  have hz : braceDepth [t] = 0 := by rw [braceDepth_single]; simp [h2, h3]
  rw [next_token hg h1 (by rw [hz]; simpa using h0), hz]
  simp

/-- `CPPTokeniser_NextToken` at the end of the stream. -/
theorem next_end {tokeniser : CPPTokeniser} {t : CPPToken}
    (hg : tokeniser.tokens.getD tokeniser.tokens_index default = t)
    (h : t.type = CPPTokenType.EndOfStream) :
    CPPTokeniser_NextToken tokeniser = Except.ok (t, tokeniser) := by
  unfold CPPTokeniser_NextToken
  simp only [hg, h, ne_eq, not_true_eq_false, if_false, pure, Except.pure]

theorem consumeAsterisks_none {tokeniser : CPPTokeniser} {t : CPPToken} (fuel : Nat)
    (hg : tokeniser.tokens.getD tokeniser.tokens_index default = t)
    (h : t.type ≠ CPPTokenType.Asterisks) (result : Int) (last : CPPToken) :
    ConsumeAsterisks (fuel + 1) tokeniser result last = Except.ok (result, last, tokeniser) := by
  unfold ConsumeAsterisks
  simp only [CPPTokeniser_PeekToken, hg, h, if_false, pure, Except.pure]

theorem consumeConst_none (mem : List Char) {tokeniser : CPPTokeniser} {t : CPPToken}
    (fuel : Nat) (hg : tokeniser.tokens.getD tokeniser.tokens_index default = t)
    (h : IsIdentifierToken mem t "const" = false) (result : Bool) (last : CPPToken) :
    ConsumeConstIdentifier mem (fuel + 1) tokeniser result last =
      Except.ok (result, last, tokeniser) := by
  unfold ConsumeConstIdentifier
  simp only [CPPTokeniser_PeekToken, hg, h, Bool.false_eq_true, if_false, pure, Except.pure]

/-- One iteration of the loop of `ParseCPPEnum` at a token that carries no metadata. -/
theorem enumLoop_step (mem : List Char) (original_indent_level : Int) (fuel : Nat)
    (token : CPPToken) (tokeniser : CPPTokeniser)
    (members : List (CPPDeclLinkedList StringLiteral))
    (h1 : tokeniser.indent_level ≠ original_indent_level)
    (h2 : token.type ≠ CPPTokenType.EndOfStream)
    (h3 : IsIdentifierToken mem (CPPTokeniser_PeekToken tokeniser) "DQN_INSPECT_META" = false) :
    enumLoop mem original_indent_level (fuel + 1) token tokeniser members =
      (CPPTokeniser_NextToken tokeniser >>= fun r =>
        enumLoop mem original_indent_level fuel r.1 r.2 (members ++ identifierLiterals [token])) := by
  conv_lhs => unfold enumLoop
  simp only [ne_eq, h1, not_false_eq_true, h2, and_self, if_true, h3, Bool.false_eq_true,
    if_false]
  by_cases hty : token.type = CPPTokenType.Identifier
  · simp only [hty, if_true, bind, Except.bind, pure, Except.pure, List.map_nil]
    simp [identifierLiterals, hty]
  · simp only [hty, if_false, bind, Except.bind, pure, Except.pure]
    simp [identifierLiterals, hty]

/-- The loop of `ParseCPPEnum` ends when the brace depth is back or the stream ends. -/
theorem enumLoop_stop (mem : List Char) (original_indent_level : Int) (fuel : Nat)
    (token : CPPToken) (tokeniser : CPPTokeniser)
    (members : List (CPPDeclLinkedList StringLiteral))
    (h : tokeniser.indent_level = original_indent_level ∨
      token.type = CPPTokenType.EndOfStream) :
    enumLoop mem original_indent_level (fuel + 1) token tokeniser members =
      Except.ok (members, tokeniser) := by
  unfold enumLoop
  rcases h with h | h <;> simp [h, pure, Except.pure]

theorem braceDepth_cons (t : CPPToken) (ts : List CPPToken) :
    braceDepth (t :: ts) = braceDepth [t] + braceDepth ts := by
  simp only [braceDepth, tokenTypes]
  rw [show t :: ts = [t] ++ ts by rfl, List.map_append, scopeDepth_append]

theorem braceDepth_append (xs ys : List CPPToken) :
    braceDepth (xs ++ ys) = braceDepth xs + braceDepth ys := by
  simp only [braceDepth, tokenTypes, List.map_append, scopeDepth_append]

theorem braceDepth_nil : braceDepth [] = 0 := by
  simp [braceDepth, tokenTypes, scopeDepth_nil]

theorem identifierLiterals_cons (t : CPPToken) (ts : List CPPToken) :
    identifierLiterals (t :: ts) = identifierLiterals [t] ++ identifierLiterals ts := by
  unfold identifierLiterals
  rw [show t :: ts = [t] ++ ts by rfl, List.filter_append, List.map_append]

/-- The loop of `ParseCPPEnum` over tokens that carry no metadata: it records the
identifiers among `token` and the tokens of `body`, up to the token `term` that ends the
stream or brings the brace depth back to `original_indent_level`. -/
theorem enumLoop_run (mem : List Char) (original_indent_level : Int) (body : List CPPToken) :
    ∀ (pre post : List CPPToken) (term token : CPPToken) (fuel : Nat)
      (tokeniser : CPPTokeniser) (members : List (CPPDeclLinkedList StringLiteral)),
      tokeniser.tokens = pre ++ body ++ term :: post →
      tokeniser.tokens_index = pre.length →
      (∀ t ∈ body ++ [term], IsIdentifierToken mem t "DQN_INSPECT_META" = false) →
      (∀ t ∈ token :: body, t.type ≠ CPPTokenType.EndOfStream) →
      (∀ k, k ≤ body.length →
        tokeniser.indent_level + braceDepth (body.take k) ≠ original_indent_level ∧
        0 ≤ tokeniser.indent_level + braceDepth (body.take k)) →
      (term.type = CPPTokenType.EndOfStream ∨
        (tokeniser.indent_level + braceDepth (body ++ [term]) = original_indent_level ∧
          0 ≤ original_indent_level)) →
      body.length + 2 ≤ fuel →
      enumLoop mem original_indent_level fuel token tokeniser members =
        Except.ok (members ++ identifierLiterals (token :: body),
          if term.type = CPPTokenType.EndOfStream then
            { tokeniser with
              tokens_index := tokeniser.tokens_index + body.length
              indent_level := tokeniser.indent_level + braceDepth body }
          else
            { tokeniser with
              tokens_index := tokeniser.tokens_index + body.length + 1
              indent_level := original_indent_level }) := by
  induction body with
  | nil =>
    intro pre post term token fuel tokeniser members ht hi hmeta heos hdepth hterm hfuel
    obtain ⟨f, rfl⟩ : ∃ f, fuel = f + 2 := ⟨fuel - 2, by simp at hfuel; omega⟩
    have hg : tokeniser.tokens.getD tokeniser.tokens_index default = term := by
      rw [ht, hi]; simpa using getD_at pre term post
    have h0 := hdepth 0 (by simp)
    simp only [List.take_zero, braceDepth_nil, add_zero] at h0
    have htok := heos token (by simp)
    have hm := hmeta term (by simp)
    rw [enumLoop_step mem _ _ token tokeniser members h0.1 htok
      (by unfold CPPTokeniser_PeekToken; rw [hg]; exact hm)]
    rcases hterm with hE | ⟨hR, horig⟩
    · rw [next_end hg hE]
      simp only [bind, Except.bind]
      rw [enumLoop_stop mem original_indent_level f term _ _ (Or.inr hE)]
      simp [hE, braceDepth_nil]
    · have hne : term.type ≠ CPPTokenType.EndOfStream := by
        intro hE
        have : braceDepth ([] ++ [term]) = 0 := by
          rw [List.nil_append, braceDepth_single]; simp [hE]
        rw [this] at hR
        exact h0.1 (by simpa using hR)
      simp only [List.nil_append] at hR
      rw [next_token hg hne (by rw [hR]; exact horig)]
      simp only [bind, Except.bind, hR]
      rw [enumLoop_stop mem original_indent_level f term _ _ (Or.inl rfl)]
      simp [hne]
  | cons b body ih =>
    intro pre post term token fuel tokeniser members ht hi hmeta heos hdepth hterm hfuel
    obtain ⟨f, rfl⟩ : ∃ f, fuel = f + 1 := ⟨fuel - 1, by simp at hfuel; omega⟩
    have hg : tokeniser.tokens.getD tokeniser.tokens_index default = b := by
      rw [ht, hi]; simpa using getD_at pre b (body ++ term :: post)
    have h0 := hdepth 0 (by simp)
    simp only [List.take_zero, braceDepth_nil, add_zero] at h0
    have h1 := hdepth 1 (by simp)
    simp only [List.take_succ_cons, List.take_zero] at h1
    have htok := heos token (by simp)
    have hb := heos b (by simp)
    have hm := hmeta b (by simp)
    rw [enumLoop_step mem _ _ token tokeniser members h0.1 htok
      (by unfold CPPTokeniser_PeekToken; rw [hg]; exact hm)]
    rw [next_token hg hb h1.2]
    simp only [bind, Except.bind]
    rw [ih (pre ++ [b]) post term b f _ _ (by simp [ht]) (by simp [hi])
      (fun t htm => hmeta t (by
        simp only [List.cons_append, List.mem_cons] at htm ⊢
        exact Or.inr (by simpa using htm)))
      (fun t htm => heos t (by
        simp only [List.mem_cons] at htm ⊢
        rcases htm with rfl | htm
        · exact Or.inr (Or.inl rfl)
        · exact Or.inr (Or.inr htm)))
      (fun k hk => by
        have := hdepth (k + 1) (by simp; omega)
        simp only [List.take_succ_cons] at this
        rw [braceDepth_cons] at this
        simp only
        constructor
        · intro h; exact this.1 (by omega)
        · omega)
      (by
        rcases hterm with hE | ⟨hR, horig⟩
        · exact Or.inl hE
        · right
          refine ⟨?_, horig⟩
          rw [List.cons_append, braceDepth_cons] at hR
          simp only
          omega)
      (by simp at hfuel ⊢; omega)]
    simp only [Except.ok.injEq, Prod.mk.injEq]
    constructor
    · rw [identifierLiterals_cons token (b :: body), List.append_assoc]
    · rw [braceDepth_cons b body]
      split <;> simp [Nat.add_assoc, Nat.add_comm 1, Int.add_assoc]

theorem getD_at_append (pre : List CPPToken) (xs : List CPPToken) (t : CPPToken)
    (post : List CPPToken) :
    (pre ++ xs ++ t :: post).getD (pre.length + xs.length) default = t := by
  have := getD_at (pre ++ xs) t post
  simpa using this

theorem expectToken_ok (mem : List Char) (tokeniser : CPPTokeniser) (token : CPPToken)
    (type : CPPTokenType) (h : token.type = type) :
    ExpectToken mem tokeniser token type = (true, tokeniser) := by
  simp [ExpectToken, h]

theorem isIdentifierToken_type {mem : List Char} {token : CPPToken} {s : String}
    (h : IsIdentifierToken mem token s = true) : token.type = CPPTokenType.Identifier := by
  simp only [IsIdentifierToken, Bool.and_eq_true, beq_iff_eq] at h
  exact h.1

/-- The token at the cursor, when the tokens before the cursor are known. -/
theorem getD_cursor {tokeniser : CPPTokeniser} {xs : List CPPToken} {t : CPPToken}
    {ys : List CPPToken} (ht : tokeniser.tokens = xs ++ t :: ys)
    (hi : tokeniser.tokens_index = xs.length) :
    tokeniser.tokens.getD tokeniser.tokens_index default = t := by
  rw [ht, hi]; exact getD_at xs t ys

/-- `CPPTokeniser_NextToken` at a token that is neither a brace nor the end of the
stream, when the tokens before the cursor are known. -/
theorem next_plain_at (tk : CPPTokeniser) (xs : List CPPToken) (t : CPPToken)
    (ys : List CPPToken) (ht : tk.tokens = xs ++ t :: ys) (hi : tk.tokens_index = xs.length)
    (h0 : 0 ≤ tk.indent_level)
    (h1 : t.type ≠ CPPTokenType.EndOfStream ∧ t.type ≠ CPPTokenType.LeftBrace ∧
      t.type ≠ CPPTokenType.RightBrace) :
    CPPTokeniser_NextToken tk =
      Except.ok (t, { tk with tokens_index := tk.tokens_index + 1 }) :=
  next_plain (getD_cursor ht hi) h0 h1.1 h1.2.1 h1.2.2

/-- `CPPTokeniser_NextToken` at an opening brace. -/
theorem next_leftBrace_at (tk : CPPTokeniser) (xs : List CPPToken) (t : CPPToken)
    (ys : List CPPToken) (ht : tk.tokens = xs ++ t :: ys) (hi : tk.tokens_index = xs.length)
    (h0 : 0 ≤ tk.indent_level) (h1 : t.type = CPPTokenType.LeftBrace) :
    CPPTokeniser_NextToken tk =
      Except.ok (t, { tk with tokens_index := tk.tokens_index + 1
                              indent_level := tk.indent_level + 1 }) := by
  have hz : braceDepth [t] = 1 := by rw [braceDepth_single]; simp [h1]
  rw [next_token (getD_cursor ht hi) (by rw [h1]; decide) (by rw [hz]; omega), hz]

theorem identifier_plain {t : CPPToken} (h : t.type = CPPTokenType.Identifier) :
    t.type ≠ CPPTokenType.EndOfStream ∧ t.type ≠ CPPTokenType.LeftBrace ∧
      t.type ≠ CPPTokenType.RightBrace := by
  rw [h]; decide

/-- The initialisation and the loop of `ParseCPPEnum` after the opening brace, over a
body without metadata that ends at the token `term`, which closes the brace or ends the
stream. -/
theorem enumBody_run (mem : List Char) (original_indent_level : Int)
    (tokeniser : CPPTokeniser) (pre post body : List CPPToken) (term : CPPToken) (fuel : Nat)
    (ht : tokeniser.tokens = pre ++ body ++ term :: post)
    (hi : tokeniser.tokens_index = pre.length)
    (h0 : 0 ≤ original_indent_level)
    (hind : tokeniser.indent_level = original_indent_level + 1)
    (hmeta : ∀ t ∈ body ++ [term], IsIdentifierToken mem t "DQN_INSPECT_META" = false)
    (heos : ∀ t ∈ body, t.type ≠ CPPTokenType.EndOfStream)
    (hdepth : ∀ k, k ≤ body.length → 0 ≤ braceDepth (body.take k))
    (hterm : term.type = CPPTokenType.EndOfStream ∨ 1 + braceDepth (body ++ [term]) = 0)
    (hfuel : body.length + 2 ≤ fuel) :
    ∃ (token : CPPToken) (next : CPPTokeniser),
      CPPTokeniser_NextToken tokeniser = Except.ok (token, next) ∧
      enumLoop mem original_indent_level fuel token next [] =
        Except.ok (identifierLiterals body,
          if term.type = CPPTokenType.EndOfStream then
            { tokeniser with
              tokens_index := tokeniser.tokens_index + body.length
              indent_level := tokeniser.indent_level + braceDepth body }
          else
            { tokeniser with
              tokens_index := tokeniser.tokens_index + body.length + 1
              indent_level := original_indent_level }) := by
  obtain ⟨f, rfl⟩ : ∃ f, fuel = f + 1 := ⟨fuel - 1, by omega⟩
  cases body with
  | nil =>
    have hg : tokeniser.tokens.getD tokeniser.tokens_index default = term :=
      getD_cursor (by simpa using ht) hi
    rcases hterm with hE | hR
    · refine ⟨term, tokeniser, next_end hg hE, ?_⟩
      rw [enumLoop_stop mem original_indent_level f term _ _ (Or.inr hE)]
      simp [hE, braceDepth_nil, identifierLiterals]
    · simp only [List.nil_append] at hR
      have hne : term.type ≠ CPPTokenType.EndOfStream := by
        intro hE
        rw [braceDepth_single] at hR
        simp [hE] at hR
      refine ⟨term, _, next_token hg hne (by rw [hind]; omega), ?_⟩
      rw [enumLoop_stop mem original_indent_level f term _ _ (Or.inl (by simp [hind]; omega))]
      simp only [hne, if_false, identifierLiterals, List.filter_nil, List.map_nil,
        List.length_nil, Nat.add_zero]
      congr 2
      simp [hind]; omega
  | cons b body =>
    have hg : tokeniser.tokens.getD tokeniser.tokens_index default = b :=
      getD_cursor (by simpa using ht) hi
    have hb := heos b (by simp)
    have h1 := hdepth 1 (by simp)
    simp only [List.take_succ_cons, List.take_zero] at h1
    refine ⟨b, _, next_token hg hb (by rw [hind]; omega), ?_⟩
    rw [enumLoop_run mem original_indent_level body (pre ++ [b]) post term b (f + 1) _ []
      (by simp [ht]) (by simp [hi]) (fun t h => hmeta t (by simp at h ⊢; tauto))
      (fun t h => heos t (by simpa using h))
      (fun k hk => by
        have := hdepth (k + 1) (by simp; omega)
        simp only [List.take_succ_cons] at this
        rw [braceDepth_cons] at this
        simp only [hind]
        constructor <;> omega)
      (by
        rcases hterm with hE | hR
        · exact Or.inl hE
        · right
          rw [List.cons_append, braceDepth_cons] at hR
          simp only [hind]
          constructor <;> omega)
      (by simp at hfuel ⊢; omega)]
    have e : braceDepth (b :: body) = braceDepth [b] + braceDepth body := braceDepth_cons b body
    simp only [List.nil_append, List.length_cons, e]
    by_cases hE : term.type = CPPTokenType.EndOfStream
    · simp only [hE, if_true]
      rw [show tokeniser.tokens_index + 1 + body.length =
        tokeniser.tokens_index + (body.length + 1) by omega, Int.add_assoc]
    · simp only [hE, if_false]
      rw [show tokeniser.tokens_index + 1 + body.length + 1 =
        tokeniser.tokens_index + (body.length + 1) + 1 by omega]

/-- `ParseCPPEnum` on the tokens of `enum Name {`, or `enum class Name {`, a body
without metadata, and the token that closes the brace or ends the stream: it succeeds,
with the identifiers of the body as variants, and prints no diagnostic. -/
theorem parseCPPEnum_run (mem : List Char) (tokeniser : CPPTokeniser)
    (pre post body : List CPPToken) (enumTok nameTok lbTok term : CPPToken)
    (kw : Option CPPToken) (fuel : Nat)
    (ht : tokeniser.tokens =
      pre ++ (enumTok :: (kw.toList ++ [nameTok, lbTok])) ++ body ++ term :: post)
    (hi : tokeniser.tokens_index = pre.length)
    (h0 : 0 ≤ tokeniser.indent_level)
    (henum : IsIdentifierToken mem enumTok "enum" = true)
    (hkw : ∀ k, kw = some k →
      IsIdentifierToken mem k "class" = true ∨ IsIdentifierToken mem k "struct" = true)
    (hnokw : kw = none → IsIdentifierToken mem nameTok "class" = false ∧
      IsIdentifierToken mem nameTok "struct" = false)
    (hname : nameTok.type = CPPTokenType.Identifier)
    (hlb : lbTok.type = CPPTokenType.LeftBrace)
    (hmeta : ∀ t ∈ body ++ [term], IsIdentifierToken mem t "DQN_INSPECT_META" = false)
    (heos : ∀ t ∈ body, t.type ≠ CPPTokenType.EndOfStream)
    (hdepth : ∀ k, k ≤ body.length → 0 ≤ braceDepth (body.take k))
    (hterm : term.type = CPPTokenType.EndOfStream ∨ 1 + braceDepth (body ++ [term]) = 0)
    (hfuel : body.length + 3 ≤ fuel) :
    ParseCPPEnum fuel mem tokeniser =
      Except.ok (true,
        { struct_or_class_decl := kw.isSome
          name := { str := nameTok.str, len := nameTok.len }
          members := identifierLiterals body },
        if term.type = CPPTokenType.EndOfStream then
          { tokeniser with
            tokens_index := tokeniser.tokens_index + (3 + kw.toList.length) + body.length
            indent_level := tokeniser.indent_level + 1 + braceDepth body }
        else
          { tokeniser with
            tokens_index := tokeniser.tokens_index + (3 + kw.toList.length) + body.length + 1 }) := by
  have henumT := isIdentifierToken_type henum
  unfold ParseCPPEnum
  rw [next_plain_at tokeniser pre enumTok (kw.toList ++ [nameTok, lbTok] ++ body ++ term :: post)
    (by rw [ht]; simp) hi h0 (identifier_plain henumT)]
  simp only [bind, Except.bind, expectToken_ok mem _ enumTok _ henumT, henum]
  cases kw with
  | none =>
    obtain ⟨hc, hs⟩ := hnokw rfl
    simp only [Option.toList, List.nil_append] at ht
    have e1 := next_plain_at { tokeniser with tokens_index := tokeniser.tokens_index + 1 }
      (pre ++ [enumTok]) nameTok (lbTok :: (body ++ term :: post))
      (by simp [ht]) (by simp [hi]) h0 (identifier_plain hname)
    have e2 := next_leftBrace_at
      { tokeniser with tokens_index := tokeniser.tokens_index + 1 + 1 }
      (pre ++ [enumTok, nameTok]) lbTok (body ++ term :: post)
      (by simp [ht]) (by simp [hi]) h0 hlb
    rw [e1]
    simp only [hc, hs, pure, Except.pure, expectToken_ok mem _ nameTok _ hname]
    rw [e2]
    simp only [expectToken_ok mem _ lbTok _ hlb, not_true_eq_false, or_self, if_false,
      Bool.false_eq_true]
    obtain ⟨tok, nxt, hn, hl⟩ := enumBody_run mem tokeniser.indent_level
      { tokeniser with tokens_index := tokeniser.tokens_index + 1 + 1 + 1
                       indent_level := tokeniser.indent_level + 1 }
      (pre ++ [enumTok, nameTok, lbTok]) post body term fuel (by simp [ht]) (by simp [hi]) h0 rfl
      hmeta heos hdepth hterm (by omega)
    rw [hn]
    simp only []
    rw [hl]
    by_cases hE : term.type = CPPTokenType.EndOfStream
    · simp [hE, Nat.add_assoc]
    · simp [hE, Nat.add_assoc]
  | some k =>
    have hk := hkw k rfl
    have hkT : k.type = CPPTokenType.Identifier := by
      rcases hk with h | h <;> exact isIdentifierToken_type h
    simp only [Option.toList, List.singleton_append] at ht
    have e0 := next_plain_at { tokeniser with tokens_index := tokeniser.tokens_index + 1 }
      (pre ++ [enumTok]) k (nameTok :: lbTok :: (body ++ term :: post))
      (by simp [ht]) (by simp [hi]) h0 (identifier_plain hkT)
    have e1 := next_plain_at { tokeniser with tokens_index := tokeniser.tokens_index + 1 + 1 }
      (pre ++ [enumTok, k]) nameTok (lbTok :: (body ++ term :: post))
      (by simp [ht]) (by simp [hi]) h0 (identifier_plain hname)
    have e2 := next_leftBrace_at
      { tokeniser with tokens_index := tokeniser.tokens_index + 1 + 1 + 1 }
      (pre ++ [enumTok, k, nameTok]) lbTok (body ++ term :: post)
      (by simp [ht]) (by simp [hi]) h0 hlb
    rw [e0]
    simp only [hk, if_true]
    rw [e1]
    simp only [pure, Except.pure, expectToken_ok mem _ nameTok _ hname]
    rw [e2]
    simp only [expectToken_ok mem _ lbTok _ hlb, not_true_eq_false, or_self, if_false,
      Bool.false_eq_true]
    obtain ⟨tok, nxt, hn, hl⟩ := enumBody_run mem tokeniser.indent_level
      { tokeniser with tokens_index := tokeniser.tokens_index + 1 + 1 + 1 + 1
                       indent_level := tokeniser.indent_level + 1 }
      (pre ++ [enumTok, k, nameTok, lbTok]) post body term fuel (by simp [ht]) (by simp [hi]) h0
      rfl hmeta heos hdepth hterm (by omega)
    rw [hn]
    simp only []
    rw [hl]
    by_cases hE : term.type = CPPTokenType.EndOfStream
    · simp [hE, Nat.add_assoc]
    · simp [hE, Nat.add_assoc]

/-! ## From lexemes to tokens -/

theorem tokenTypes_lexemeTokens (ls : List Lexeme) :
    ∀ ptr : Nat, tokenTypes (lexemeTokens ptr ls) = lexemeTypes ls := by
  induction ls with
  | nil => intro ptr; rfl
  | cons l ls ih =>
    intro ptr
    simp only [lexemeTokens, tokenTypes, lexemeTypes, List.map_cons] at ih ⊢
    rw [ih]

theorem lexemeTokens_take (ls : List Lexeme) :
    ∀ (ptr k : Nat), (lexemeTokens ptr ls).take k = lexemeTokens ptr (ls.take k) := by
  induction ls with
  | nil => intro ptr k; simp [lexemeTokens]
  | cons l ls ih =>
    intro ptr k
    cases k with
    | zero => simp [lexemeTokens]
    | succ k => simp [lexemeTokens, ih]

theorem braceDepth_lexemeTokens (ls : List Lexeme) (ptr : Nat) :
    braceDepth (lexemeTokens ptr ls) =
      scopeDepth CPPTokenType.LeftBrace CPPTokenType.RightBrace (lexemeTypes ls) := by
  rw [braceDepth, tokenTypes_lexemeTokens]

/-- The text of a token whose characters are known. -/
theorem text_at {mem : List Char} {str : Nat} {text rest : List Char}
    (hm : mem.drop str = text ++ rest) :
    StringLiteral.text mem { str := str, len := text.length } = text := by
  simp [StringLiteral.text, hm]

/-- `IsIdentifierToken` on a token whose characters are known. -/
theorem isIdentifierToken_at {mem : List Char} {str : Nat} {text rest : List Char}
    (hm : mem.drop str = text ++ rest) (type : CPPTokenType) (s : String) :
    IsIdentifierToken mem { type := type, str := str, len := text.length } s =
      (type == CPPTokenType.Identifier && text == s.toList) := by
  unfold IsIdentifierToken StrCmpLit
  by_cases hlen : (text.length : Int) = (s.toList.length : Int)
  · simp only [hlen, ne_eq, not_true_eq_false, if_false]
    rw [← hlen, text_at hm]
  · have hne : (text == s.toList) = false := by
      rw [beq_eq_false_iff_ne]
      intro h
      rw [h] at hlen
      exact hlen rfl
    rw [if_pos hlen, hne]

/-- The text `printf` writes for a token whose characters are known and hold no NUL. -/
theorem fmtStr_at {mem : List Char} {str : Nat} {text rest : List Char}
    (hm : mem.drop str = text ++ rest) (hnul : ∀ c ∈ text, c ≠ NUL) :
    fmtStr mem (text.length : Int) str = text := by
  unfold fmtStr
  have htw : ∀ (xs ys : List Char), (∀ c ∈ xs, c ≠ NUL) →
      ((xs ++ ys).takeWhile (fun ch => ch != NUL)).take xs.length = xs := by
    intro xs
    induction xs with
    | nil => intro ys _; simp
    | cons x xs ih =>
      intro ys h
      have hx : (x != NUL) = true := by simpa using h x (by simp)
      simp only [List.cons_append, List.takeWhile_cons, hx, if_true, List.length_cons,
        List.take_succ_cons]
      rw [ih ys (fun c hc => h c (by simp [hc]))]
  rw [hm]
  simp only [Int.toNat_ofNat]
  rw [if_neg (by omega)]
  exact htw text rest hnul

theorem identRest_ne_nul {c : Char} (h : identRest c = true) : c ≠ NUL := by
  rintro rfl; revert h; decide

theorem numberRest_ne_nul {c : Char} (h : numberRest c = true) : c ≠ NUL := by
  rintro rfl; revert h; decide

/-- The text of a well-formed lexeme holds no NUL, and its kind is not `EndOfStream`. -/
theorem lexeme_text_no_nul {l : Lexeme} {follows : List Char}
    (hl : l.wellFormed follows = true) :
    (∀ c ∈ l.text, c ≠ NUL) ∧ l.type ≠ CPPTokenType.EndOfStream := by
  obtain ⟨-, hk⟩ := Lexeme.wellFormed_cases hl
  rcases hk with ⟨c, hc, hd⟩ | ⟨hty, c, cs, hc, hs, hcs, -⟩ | ⟨hty, c, cs, hc, hs, hcs, -⟩
  · constructor
    · intro x hx
      rw [hc] at hx
      simp only [List.mem_singleton] at hx
      rw [hx]
      exact (delimiter_not_space hd).2
    · rw [mem_delimiterTable_iff] at hd
      rcases hd with h | h | h | h | h | h | h | h | h | h | h | h | h <;>
        (rw [h.2]; decide)
  · constructor
    · intro x hx
      rw [hc] at hx
      rcases List.mem_cons.1 hx with rfl | hx
      · exact (identStart_facts hs).2.2.2.2.2.2.2.2.2.2.2.2.2.2.2.2.2.2
      · exact identRest_ne_nul (hcs x hx)
    · rw [hty]; decide
  · constructor
    · intro x hx
      rw [hc] at hx
      rcases List.mem_cons.1 hx with rfl | hx
      · exact (charIsDigit_facts hs).2.2.2.2.2.2.2.2.2.2.2.2.2.2.2.2.2
      · exact numberRest_ne_nul (hcs x hx)
    · rw [hty]; decide

/-- The characters at the token of the first of some lexemes. -/
theorem drop_at_lexeme {mem : List Char} {ptr : Nat} {l : Lexeme} {rest : List Char}
    (hm : mem.drop ptr = l.render ++ rest) :
    mem.drop (ptr + l.space.length) = l.text ++ rest := by
  apply drop_add_of_drop
  rw [hm, Lexeme.render, List.append_assoc]

theorem drop_after_lexeme {mem : List Char} {ptr : Nat} {l : Lexeme} {rest : List Char}
    (hm : mem.drop ptr = l.render ++ rest) :
    mem.drop (ptr + l.space.length + l.text.length) = rest := by
  have := @drop_add_of_drop mem ptr l.render rest hm
  simpa [Lexeme.render, Nat.add_assoc] using this

theorem no_eos_lexemeTokens (ls : List Lexeme) :
    ∀ (ptr : Nat) (tail : List Char), wellFormedLexemes ls tail = true →
      ∀ t ∈ lexemeTokens ptr ls, t.type ≠ CPPTokenType.EndOfStream := by
  induction ls with
  | nil => intro ptr tail _ t ht; simp [lexemeTokens] at ht
  | cons l ls ih =>
    intro ptr tail hwf t ht
    simp only [wellFormedLexemes, Bool.and_eq_true] at hwf
    simp only [lexemeTokens, List.mem_cons] at ht
    rcases ht with rfl | ht
    · exact (lexeme_text_no_nul hwf.1).2
    · exact ih _ tail hwf.2 t ht

/-- No token of the lexemes is the identifier `s`, when no lexeme is. -/
theorem not_identifier_lexemeTokens (mem : List Char) (s : String) (ls : List Lexeme) :
    ∀ (ptr : Nat) (tail : List Char), mem.drop ptr = renderLexemes ls ++ tail →
      (∀ l ∈ ls, l.type = CPPTokenType.Identifier → l.text ≠ s.toList) →
      ∀ t ∈ lexemeTokens ptr ls, IsIdentifierToken mem t s = false := by
  induction ls with
  | nil => intro ptr tail _ _ t ht; simp [lexemeTokens] at ht
  | cons l ls ih =>
    intro ptr tail hm hno t ht
    have hm1 : mem.drop ptr = l.render ++ (renderLexemes ls ++ tail) := by
      rw [hm, renderLexemes, List.append_assoc]
    simp only [lexemeTokens, List.mem_cons] at ht
    rcases ht with rfl | ht
    · rw [isIdentifierToken_at (drop_at_lexeme hm1)]
      by_cases hty : l.type = CPPTokenType.Identifier
      · have := hno l (by simp) hty
        simp only [hty, beq_self_eq_true, Bool.true_and, beq_eq_false_iff_ne]
        exact this
      · simp [hty]
    · exact ih _ tail (drop_after_lexeme hm1) (fun l' h' => hno l' (by simp [h'])) t ht

/-- The names that `printf` writes for the entries `ParseCPPEnum` records are the texts
of the identifier lexemes. -/
theorem identifierLiterals_names (mem : List Char) (ls : List Lexeme) :
    ∀ (ptr : Nat) (tail : List Char), wellFormedLexemes ls tail = true →
      mem.drop ptr = renderLexemes ls ++ tail →
      (identifierLiterals (lexemeTokens ptr ls)).map (fun m => fmtLit mem m.value) =
        (identifierLexemes ls).map (fun l => l.text) := by
  induction ls with
  | nil => intro ptr tail _ _; rfl
  | cons l ls ih =>
    intro ptr tail hwf hm
    simp only [wellFormedLexemes, Bool.and_eq_true] at hwf
    have hm1 : mem.drop ptr = l.render ++ (renderLexemes ls ++ tail) := by
      rw [hm, renderLexemes, List.append_assoc]
    rw [lexemeTokens, identifierLiterals_cons, List.map_append,
      ih _ tail hwf.2 (drop_after_lexeme hm1)]
    by_cases hty : l.type = CPPTokenType.Identifier
    · have := fmtStr_at (drop_at_lexeme hm1) (lexeme_text_no_nul hwf.1).1
      simp [identifierLiterals, identifierLexemes, hty, fmtLit, this]
    · simp [identifierLiterals, identifierLexemes, hty]

theorem identifierLexemes_variantLexemes (vs : List (Lexeme × List Lexeme))
    (h : ∀ v ∈ vs, v.1.type = CPPTokenType.Identifier ∧
      ∀ l ∈ v.2, l.type ≠ CPPTokenType.Identifier) :
    identifierLexemes (variantLexemes vs) = vs.map (fun v => v.1) := by
  induction vs with
  | nil => rfl
  | cons v vs ih =>
    obtain ⟨h1, h2⟩ := h v (by simp)
    have hrest : identifierLexemes v.2 = [] := by
      simp only [identifierLexemes, List.filter_eq_nil_iff, beq_iff_eq]
      exact h2
    have := ih (fun v' h' => h v' (by simp [h']))
    simp only [identifierLexemes] at this hrest ⊢
    simp [variantLexemes, List.filter_cons, h1, List.filter_append, hrest, this]

/-- What the loop over the variants writes: the entries of the string table. -/
theorem writeEnumStrings_eq (mem : List Char) (members : List (CPPDeclLinkedList StringLiteral)) :
    ∀ tokeniser : CPPTokeniser,
      writeEnumStrings mem members tokeniser =
        CPPTokeniser_SprintfToFileNoIndenting tokeniser
          (stringTable (members.map (fun m => fmtLit mem m.value))) := by
  induction members with
  | nil => intro tokeniser; simp [writeEnumStrings, stringTable, CPPTokeniser_SprintfToFileNoIndenting]
  | cons m ms ih =>
    intro tokeniser
    rw [writeEnumStrings, ih]
    simp [CPPTokeniser_SprintfToFileNoIndenting, stringTable, List.append_assoc]

/-- The token of the first of some lexemes, and the place of the lexemes after it. -/
theorem lexemeTokens_peel {mem : List Char} {ptr : Nat} {l : Lexeme} {ls : List Lexeme}
    {tail : List Char} (hm : mem.drop ptr = renderLexemes (l :: ls) ++ tail) :
    ∃ (t : CPPToken) (next : Nat),
      lexemeTokens ptr (l :: ls) = t :: lexemeTokens next ls ∧
      mem.drop next = renderLexemes ls ++ tail ∧
      t.type = l.type ∧
      (∀ s : String, IsIdentifierToken mem t s =
        (l.type == CPPTokenType.Identifier && l.text == s.toList)) ∧
      ((∀ c ∈ l.text, c ≠ NUL) → fmtLit mem { str := t.str, len := t.len } = l.text) := by
  have hm1 : mem.drop ptr = l.render ++ (renderLexemes ls ++ tail) := by
    rw [hm, renderLexemes, List.append_assoc]
  refine ⟨_, _, rfl, drop_after_lexeme hm1, rfl, ?_, ?_⟩
  · intro s
    exact isIdentifierToken_at (drop_at_lexeme hm1) l.type s
  · intro hnul
    exact fmtStr_at (drop_at_lexeme hm1) hnul

theorem identifier_token_of_text {mem : List Char} {t : CPPToken} {l : Lexeme} {s : String}
    (h : ∀ s : String, IsIdentifierToken mem t s =
      (l.type == CPPTokenType.Identifier && l.text == s.toList))
    (hty : l.type = CPPTokenType.Identifier) (htext : l.text = s.toList) :
    IsIdentifierToken mem t s = true := by
  rw [h s, hty, htext]; simp

theorem not_identifier_token_of_text {mem : List Char} {t : CPPToken} {l : Lexeme} {s : String}
    (h : ∀ s : String, IsIdentifierToken mem t s =
      (l.type == CPPTokenType.Identifier && l.text == s.toList))
    (htext : l.text ≠ s.toList) :
    IsIdentifierToken mem t s = false := by
  rw [h s, Bool.and_eq_false_iff]
  right
  rw [beq_eq_false_iff_ne]
  exact htext

theorem not_identifier_token_of_type {mem : List Char} {t : CPPToken} {s : String}
    (h : t.type ≠ CPPTokenType.Identifier) : IsIdentifierToken mem t s = false := by
  simp [IsIdentifierToken, h]

/-- `ParseCPPEnum` on the tokens of the lexemes of `enum Name {`, or `enum class Name {`,
and of a body without metadata, followed by the token `term` that closes the brace or
ends the stream: it succeeds and prints no diagnostic; the variants it records are the
identifiers of the body. -/
theorem parseCPPEnum_lexemes (mem : List Char) (enumLex nameLex lb : Lexeme)
    (kw : Option Lexeme) (body front : List Lexeme) (tail : List Char) (ptr : Nat)
    (ps : CPPTokeniser) (pre post : List CPPToken) (term : CPPToken) (fuel : Nat)
    (hfront : front = enumLex :: (kw.toList ++ [nameLex, lb]))
    (hps : ps.tokens = pre ++ lexemeTokens ptr (front ++ body) ++ term :: post)
    (hi : ps.tokens_index = pre.length) (h0 : 0 ≤ ps.indent_level)
    (hm : mem.drop ptr = renderLexemes (front ++ body) ++ tail)
    (hwf : wellFormedLexemes (front ++ body) tail = true)
    (henum : enumLex.type = CPPTokenType.Identifier ∧ enumLex.text = "enum".toList)
    (hkw : ∀ k, kw = some k → k.type = CPPTokenType.Identifier ∧
      (k.text = "class".toList ∨ k.text = "struct".toList))
    (hname : nameLex.type = CPPTokenType.Identifier ∧
      (kw = none → nameLex.text ≠ "class".toList ∧ nameLex.text ≠ "struct".toList))
    (hlb : lb.type = CPPTokenType.LeftBrace)
    (hmeta : ∀ l ∈ body, l.type = CPPTokenType.Identifier →
      l.text ≠ "DQN_INSPECT_META".toList)
    (hmterm : IsIdentifierToken mem term "DQN_INSPECT_META" = false)
    (hdepth : ∀ k, k ≤ body.length →
      0 ≤ scopeDepth CPPTokenType.LeftBrace CPPTokenType.RightBrace (lexemeTypes (body.take k)))
    (hterm : term.type = CPPTokenType.EndOfStream ∨
      (term.type = CPPTokenType.RightBrace ∧
        scopeDepth CPPTokenType.LeftBrace CPPTokenType.RightBrace (lexemeTypes body) = 0))
    (hfuel : body.length + 3 ≤ fuel) :
    ∃ (parsed_enum : ParsedEnum) (parsed : CPPTokeniser),
      ParseCPPEnum fuel mem ps = Except.ok (true, parsed_enum, parsed) ∧
      parsed.output_file = ps.output_file ∧
      parsed.tokens = ps.tokens ∧
      parsed.tokens_index = pre.length + front.length + body.length +
        (if term.type = CPPTokenType.EndOfStream then 0 else 1) ∧
      parsed.indent_level = ps.indent_level +
        (if term.type = CPPTokenType.EndOfStream then
          1 + scopeDepth CPPTokenType.LeftBrace CPPTokenType.RightBrace (lexemeTypes body)
         else 0) ∧
      parsed_enum.struct_or_class_decl = kw.isSome ∧
      fmtLit mem parsed_enum.name = nameLex.text ∧
      parsed_enum.members.map (fun m => fmtLit mem m.value) =
        (identifierLexemes body).map (fun l => l.text) ∧
      ∀ m ∈ parsed_enum.members, m.metadata_list = [] := by
  subst hfront
  cases kw with
  | none =>
    simp only [Option.toList, List.nil_append, List.cons_append] at hps hm hwf
    obtain ⟨t0, p1, e0, hm1, ty0, id0, -⟩ := lexemeTokens_peel hm
    obtain ⟨t1, p2, e1, hm2, ty1, id1, fm1⟩ := lexemeTokens_peel hm1
    obtain ⟨t2, p3, e2, hm3, ty2, -, -⟩ := lexemeTokens_peel hm2
    simp only [wellFormedLexemes, Bool.and_eq_true] at hwf
    obtain ⟨-, hwf1, -, hwfb⟩ := hwf
    rw [e0, e1, e2] at hps
    have hrun := parseCPPEnum_run mem ps pre post (lexemeTokens p3 body) t0 t1 t2 term none fuel
      (by rw [hps]; simp) hi h0
      (identifier_token_of_text id0 henum.1 henum.2)
      (fun k hk => by cases hk)
      (fun _ => ⟨not_identifier_token_of_text id1 (hname.2 rfl).1,
        not_identifier_token_of_text id1 (hname.2 rfl).2⟩)
      (by rw [ty1]; exact hname.1) (by rw [ty2]; exact hlb)
      (by
        intro t ht
        rcases List.mem_append.1 ht with h | h
        · exact not_identifier_lexemeTokens mem _ body p3 tail hm3 hmeta t h
        · rw [List.mem_singleton.1 h]; exact hmterm)
      (no_eos_lexemeTokens body p3 tail hwfb)
      (by
        intro k hk
        rw [lexemeTokens_take, braceDepth_lexemeTokens]
        exact hdepth k (by simpa [lexemeTokens_length] using hk))
      (by
        rcases hterm with hE | ⟨hR, hz⟩
        · exact Or.inl hE
        · right
          rw [braceDepth_append, braceDepth_lexemeTokens, hz, braceDepth_single]
          simp [hR])
      (by simpa [lexemeTokens_length] using hfuel)
    refine ⟨_, _, hrun, ?_, ?_, ?_, ?_, rfl, ?_, ?_, ?_⟩
    · split <;> rfl
    · split <;> rfl
    · split <;> simp [lexemeTokens_length, hi]
    · split
      · simp [braceDepth_lexemeTokens]; omega
      · simp
    · exact fm1 (lexeme_text_no_nul hwf1).1
    · exact identifierLiterals_names mem body p3 tail hwfb hm3
    · intro m hm
      simp only [identifierLiterals, List.mem_map] at hm
      obtain ⟨t, -, rfl⟩ := hm
      rfl
  | some k =>
    obtain ⟨hkT, hkt⟩ := hkw k rfl
    have hfr : (enumLex :: ((some k).toList ++ [nameLex, lb])) ++ body =
        enumLex :: k :: nameLex :: lb :: body := rfl
    rw [hfr] at hps hm hwf
    obtain ⟨t0, p1, e0, hm1, ty0, id0, -⟩ := lexemeTokens_peel hm
    obtain ⟨tk, pk, ek, hmk, tyk, idk, -⟩ := lexemeTokens_peel hm1
    obtain ⟨t1, p2, e1, hm2, ty1, id1, fm1⟩ := lexemeTokens_peel hmk
    obtain ⟨t2, p3, e2, hm3, ty2, -, -⟩ := lexemeTokens_peel hm2
    simp only [wellFormedLexemes, Bool.and_eq_true] at hwf
    obtain ⟨-, -, hwf1, -, hwfb⟩ := hwf
    rw [e0, ek, e1, e2] at hps
    have hrun := parseCPPEnum_run mem ps pre post (lexemeTokens p3 body) t0 t1 t2 term (some tk)
      fuel (by rw [hps]; simp) hi h0
      (identifier_token_of_text id0 henum.1 henum.2)
      (fun k' hk' => by
        cases hk'
        rcases hkt with h | h
        · exact Or.inl (identifier_token_of_text idk hkT h)
        · exact Or.inr (identifier_token_of_text idk hkT h))
      (fun h => by cases h)
      (by rw [ty1]; exact hname.1) (by rw [ty2]; exact hlb)
      (by
        intro t ht
        rcases List.mem_append.1 ht with h | h
        · exact not_identifier_lexemeTokens mem _ body p3 tail hm3 hmeta t h
        · rw [List.mem_singleton.1 h]; exact hmterm)
      (no_eos_lexemeTokens body p3 tail hwfb)
      (by
        intro k hk
        rw [lexemeTokens_take, braceDepth_lexemeTokens]
        exact hdepth k (by simpa [lexemeTokens_length] using hk))
      (by
        rcases hterm with hE | ⟨hR, hz⟩
        · exact Or.inl hE
        · right
          rw [braceDepth_append, braceDepth_lexemeTokens, hz, braceDepth_single]
          simp [hR])
      (by simpa [lexemeTokens_length] using hfuel)
    refine ⟨_, _, hrun, ?_, ?_, ?_, ?_, rfl, ?_, ?_, ?_⟩
    · split <;> rfl
    · split <;> rfl
    · split <;> simp [lexemeTokens_length, hi]
    · split
      · simp [braceDepth_lexemeTokens]; omega
      · simp
    · exact fm1 (lexeme_text_no_nul hwf1).1
    · exact identifierLiterals_names mem body p3 tail hwfb hm3
    · intro m hm
      simp only [identifierLiterals, List.mem_map] at hm
      obtain ⟨t, -, rfl⟩ := hm
      rfl

theorem mem_variantLexemes {l : Lexeme} (vs : List (Lexeme × List Lexeme)) :
    l ∈ variantLexemes vs ↔ ∃ v ∈ vs, l = v.1 ∨ l ∈ v.2 := by
  induction vs with
  | nil => simp [variantLexemes]
  | cons v vs ih =>
    simp only [variantLexemes, List.mem_cons, List.mem_append, ih]
    constructor
    · rintro (h | h | ⟨w, hw, h⟩)
      · exact ⟨v, Or.inl rfl, Or.inl h⟩
      · exact ⟨v, Or.inl rfl, Or.inr h⟩
      · exact ⟨w, Or.inr hw, h⟩
    · rintro ⟨w, rfl | hw, h⟩
      · rcases h with h | h
        · exact Or.inl h
        · exact Or.inr (Or.inl h)
      · exact Or.inr (Or.inr ⟨w, hw, h⟩)

/-- Lexemes without braces have depth zero at every prefix. -/
theorem scopeDepth_take_of_absent (o c : CPPTokenType) (ls : List Lexeme)
    (h : ∀ l ∈ ls, l.type ≠ o ∧ l.type ≠ c) (k : Nat) :
    scopeDepth o c (lexemeTypes (ls.take k)) = 0 := by
  apply scopeDepth_of_absent
  intro ty hty
  simp only [lexemeTypes, List.mem_map] at hty
  obtain ⟨l, hl, rfl⟩ := hty
  exact h l (List.mem_of_mem_take hl)

theorem balanced_of_absent (o c : CPPTokenType) (ls : List Lexeme)
    (h : ∀ l ∈ ls, l.type ≠ o ∧ l.type ≠ c) : Balanced o c (lexemeTypes ls) := by
  constructor
  · have := scopeDepth_take_of_absent o c ls h ls.length
    simpa using this
  · intro k _
    have := scopeDepth_take_of_absent o c ls h k
    simp only [lexemeTypes, List.map_take] at this ⊢
    omega

/-- C3 as amended.  An annotated enum written as plain text with the header
`enum Name {`, `enum class Name {` or `enum struct Name {` (a name, which is neither
`class` nor `struct` when neither precedes it, and no underlying type), then the variants
and a closing brace, where each variant is an identifier other than `DQN_INSPECT_META`
followed by lexemes that are neither identifiers nor braces (a comma, an initializer
made of numbers).  The lexer makes the tokens of the declaration and
stops after the closing brace; on these tokens `ParseCPPEnum` succeeds without a
diagnostic and records one entry per variant, entry `i` naming variant `i`; the
generator writes the string table with exactly these names, in order. -/
theorem C3_enum_string_table (mem : List Char) (enumLex nameLex lb rb : Lexeme)
    (kw : Option Lexeme) (variants : List (Lexeme × List Lexeme)) (decl : List Lexeme)
    (tail : List Char) (fuel : Nat) (tokeniser : CPPTokeniser) (ptr : Nat)
    (hdecl : decl = enumLex :: (kw.toList ++ [nameLex, lb]) ++ variantLexemes variants ++ [rb])
    (henum : enumLex.type = CPPTokenType.Identifier ∧ enumLex.text = "enum".toList)
    (hkw : ∀ k, kw = some k → k.type = CPPTokenType.Identifier ∧
      (k.text = "class".toList ∨ k.text = "struct".toList))
    (hname : nameLex.type = CPPTokenType.Identifier ∧
      (kw = none → nameLex.text ≠ "class".toList ∧ nameLex.text ≠ "struct".toList))
    (hlb : lb.type = CPPTokenType.LeftBrace) (hrb : rb.type = CPPTokenType.RightBrace)
    (hvar : ∀ v ∈ variants, v.1.type = CPPTokenType.Identifier ∧
      v.1.text ≠ "DQN_INSPECT_META".toList ∧
      ∀ l ∈ v.2, l.type ≠ CPPTokenType.Identifier ∧ l.type ≠ CPPTokenType.LeftBrace ∧
        l.type ≠ CPPTokenType.RightBrace)
    (hwf : wellFormedLexemes decl tail = true)
    (hm : mem.drop ptr = renderLexemes decl ++ tail)
    (hroom : tokeniser.tokens.length + decl.length ≤ tokeniser.tokens_max)
    (hfuel : decl.length ≤ fuel) :
    EnumOrStructOrFunctionLexer fuel mem tokeniser ptr false =
      Except.ok ({ tokeniser with tokens := tokeniser.tokens ++ lexemeTokens ptr decl },
        ptr + (renderLexemes decl).length) ∧
    ∀ (ps : CPPTokeniser) (post : List CPPToken),
      ps.tokens = tokeniser.tokens ++ lexemeTokens ptr decl ++ post →
      ps.tokens_index = tokeniser.tokens.length → 0 ≤ ps.indent_level →
      ∃ (parsed_enum : ParsedEnum) (parsed : CPPTokeniser),
        ParseCPPEnum fuel mem ps = Except.ok (true, parsed_enum, parsed) ∧
        parsed.output_file = ps.output_file ∧
        parsed_enum.struct_or_class_decl = kw.isSome ∧
        fmtLit mem parsed_enum.name = nameLex.text ∧
        parsed_enum.members.length = variants.length ∧
        parsed_enum.members.map (fun m => fmtLit mem m.value) =
          variants.map (fun v => v.1.text) ∧
        ∀ out : CPPTokeniser,
          (writeEnumStrings mem parsed_enum.members out).output_file =
            out.output_file ++ stringTable (variants.map (fun v => v.1.text)) := by
  have hbody : ∀ l ∈ variantLexemes variants,
      l.type ≠ CPPTokenType.LeftBrace ∧ l.type ≠ CPPTokenType.RightBrace := by
    intro l hl
    obtain ⟨v, hv, h⟩ := (mem_variantLexemes variants).1 hl
    obtain ⟨h1, -, h3⟩ := hvar v hv
    rcases h with rfl | h
    · rw [h1]; decide
    · exact (h3 l h).2
  have hshape : decl = (enumLex :: (kw.toList ++ [nameLex])) ++
      lb :: (variantLexemes variants ++ [rb]) := by
    rw [hdecl]; simp
  constructor
  · have hfront : ∀ l ∈ enumLex :: (kw.toList ++ [nameLex]),
        l.type ≠ scopeOpener false ∧ l.type ≠ scopeCloser false := by
      intro l hl
      have hty : l.type = CPPTokenType.Identifier := by
        simp only [List.mem_cons, List.mem_append, List.mem_singleton, Option.mem_toList,
          List.not_mem_nil, or_false] at hl
        rcases hl with rfl | hl | rfl
        · exact henum.1
        · exact (hkw l hl).1
        · exact hname.1
      rw [hty]; decide
    obtain ⟨h1, -, h3, -⟩ := lexPass_scope mem false (enumLex :: (kw.toList ++ [nameLex]))
      (variantLexemes variants) lb rb tail fuel tokeniser ptr hlb hrb hfront
      (balanced_of_absent _ _ _ hbody) (by rw [← hshape]; exact hwf) (by rw [← hshape]; exact hm)
      (by rw [← hshape]; exact hroom) (by rw [← hshape]; exact hfuel)
    have h3 : ptr + (renderLexemes (enumLex :: (kw.toList ++ [nameLex]) ++
        lb :: variantLexemes variants)).length + rb.space.length + 1 =
        ptr + (renderLexemes decl).length := by
      rw [hshape, h3]; omega
    unfold EnumOrStructOrFunctionLexer
    rw [h1, h3, ← hshape]
    simp [bind, Except.bind, pure, Except.pure]
  · intro ps post hps hi h0
    have hsplit : decl = (enumLex :: (kw.toList ++ [nameLex, lb]) ++ variantLexemes variants) ++
        [rb] := hdecl
    obtain ⟨hwf1, -⟩ := @wellFormedLexemes_append
      (enumLex :: (kw.toList ++ [nameLex, lb]) ++ variantLexemes variants) [rb] tail
      (by rw [← hsplit]; exact hwf)
    have hm1 : mem.drop ptr =
        renderLexemes (enumLex :: (kw.toList ++ [nameLex, lb]) ++ variantLexemes variants) ++
          (renderLexemes [rb] ++ tail) := by
      rw [hm, hsplit, renderLexemes_append, List.append_assoc]
    obtain ⟨e, parsed, hrun, hout, -, -, -, hscoped, hnm, hmem, -⟩ :=
      parseCPPEnum_lexemes mem enumLex nameLex lb kw (variantLexemes variants) _ _ ptr ps
        tokeniser.tokens post
        { type := rb.type
          str := ptr + (renderLexemes (enumLex :: (kw.toList ++ [nameLex, lb]) ++
            variantLexemes variants)).length + rb.space.length
          len := rb.text.length } fuel rfl
        (by rw [hps, hsplit, lexemeTokens_append]; simp [lexemeTokens])
        hi h0 hm1 hwf1 henum hkw hname hlb
        (by
          intro l hl hty
          obtain ⟨v, hv, h⟩ := (mem_variantLexemes variants).1 hl
          obtain ⟨-, h2, h3⟩ := hvar v hv
          rcases h with rfl | h
          · exact h2
          · exact absurd hty (h3 l h).1)
        (not_identifier_token_of_type (by simp [hrb]))
        (fun k _ => by
          rw [scopeDepth_take_of_absent _ _ _ hbody k])
        (Or.inr ⟨hrb, by
          have := scopeDepth_take_of_absent _ _ _ hbody (variantLexemes variants).length
          simpa using this⟩)
        (by rw [hdecl] at hfuel; simp at hfuel ⊢; omega)
    have hnames : e.members.map (fun m => fmtLit mem m.value) =
        variants.map (fun v => v.1.text) := by
      rw [hmem, identifierLexemes_variantLexemes variants
        (fun v hv => ⟨(hvar v hv).1, fun l hl => ((hvar v hv).2.2 l hl).1⟩), List.map_map]
      rfl
    refine ⟨e, parsed, hrun, hout, hscoped, hnm, ?_, hnames, ?_⟩
    · have := congrArg List.length hnames
      simpa using this
    · intro out
      rw [writeEnumStrings_eq, hnames]
      rfl

/-- C3 as amended, at the enum `enum class Color { Red, Green, Blue };` of the scenario,
lexed after its marker and parsed with the cursor on `enum`: the table written is
`"Red", "Green", "Blue", `. -/
theorem C3_witness :
    ∃ (parsed_enum : ParsedEnum) (parsed : CPPTokeniser),
      ParseCPPEnum 20 (fileBuffer "DQN_INSPECT enum class Color \x7b Red, Green, Blue \x7d;")
        { tokens :=
            [{ type := CPPTokenType.InspectCode, str := 0, len := 49 },
             { type := CPPTokenType.Identifier, str := 12, len := 4 },
             { type := CPPTokenType.Identifier, str := 17, len := 5 },
             { type := CPPTokenType.Identifier, str := 23, len := 5 },
             { type := CPPTokenType.LeftBrace, str := 29, len := 1 },
             { type := CPPTokenType.Identifier, str := 31, len := 3 },
             { type := CPPTokenType.Comma, str := 34, len := 1 },
             { type := CPPTokenType.Identifier, str := 36, len := 5 },
             { type := CPPTokenType.Comma, str := 41, len := 1 },
             { type := CPPTokenType.Identifier, str := 43, len := 4 },
             { type := CPPTokenType.RightBrace, str := 48, len := 1 },
             { type := CPPTokenType.EndOfStream }]
          tokens_index := 1 } = Except.ok (true, parsed_enum, parsed) ∧
      parsed.output_file = [] ∧
      parsed_enum.struct_or_class_decl = true ∧
      fmtLit (fileBuffer "DQN_INSPECT enum class Color \x7b Red, Green, Blue \x7d;")
        parsed_enum.name = "Color".toList ∧
      parsed_enum.members.length = 3 ∧
      parsed_enum.members.map
          (fun m => fmtLit (fileBuffer "DQN_INSPECT enum class Color \x7b Red, Green, Blue \x7d;")
            m.value) = ["Red".toList, "Green".toList, "Blue".toList] ∧
      ∀ out : CPPTokeniser,
        (writeEnumStrings (fileBuffer "DQN_INSPECT enum class Color \x7b Red, Green, Blue \x7d;")
          parsed_enum.members out).output_file =
            out.output_file ++ "\"Red\", \"Green\", \"Blue\", ".toList :=
  (C3_enum_string_table (fileBuffer "DQN_INSPECT enum class Color \x7b Red, Green, Blue \x7d;")
    { space := [' '], text := "enum".toList, type := CPPTokenType.Identifier }
    { space := [' '], text := "Color".toList, type := CPPTokenType.Identifier }
    { space := [' '], text := ['\x7b'], type := CPPTokenType.LeftBrace }
    { space := [' '], text := ['\x7d'], type := CPPTokenType.RightBrace }
    (some { space := [' '], text := "class".toList, type := CPPTokenType.Identifier })
    [({ space := [' '], text := "Red".toList, type := CPPTokenType.Identifier },
      [{ space := [], text := [','], type := CPPTokenType.Comma }]),
     ({ space := [' '], text := "Green".toList, type := CPPTokenType.Identifier },
      [{ space := [], text := [','], type := CPPTokenType.Comma }]),
     ({ space := [' '], text := "Blue".toList, type := CPPTokenType.Identifier }, [])]
    _ [';', NUL] 20
    { tokens := [{ type := CPPTokenType.InspectCode, str := 0, len := 49 }] } 11 rfl
    (by decide) (by decide) (by decide) rfl rfl (by decide) (by decide) (by decide) (by decide)
    (by decide)).2 _ [{ type := CPPTokenType.EndOfStream }] rfl rfl (by decide)

/-! ## A scope that is never closed -/

/-- Tokens outside the scope, the opener, then tokens that never close it: the lexer's
test for the end of the scope never succeeds. -/
theorem neverStops_open (lf : Bool) (a b : List CPPTokenType)
    (ha : ∀ ty ∈ a, ty ≠ scopeOpener lf ∧ ty ≠ scopeCloser lf)
    (hb : ∀ k, k ≤ b.length → 0 ≤ scopeDepth (scopeOpener lf) (scopeCloser lf) (b.take k)) :
    NeverStops lf {} (a ++ scopeOpener lf :: b) := by
  have hoc : scopeOpener lf ≠ scopeCloser lf := by cases lf <;> decide
  have hda := scopeDepth_of_absent _ _ a ha
  intro k hk0 hkle
  rw [lexStop_typesScope]
  by_cases hka : k ≤ a.length
  · have hnot : scopeOpener lf ∉ (a ++ scopeOpener lf :: b).take k := by
      rw [List.take_append_of_le_length hka]
      intro hmem
      exact (ha _ (List.mem_of_mem_take hmem)).1 rfl
    simp [hnot]
  · have htake : (a ++ scopeOpener lf :: b).take k =
        a ++ scopeOpener lf :: b.take (k - a.length - 1) := by
      rw [List.take_append_eq_append_take, List.take_of_length_le (by omega)]
      obtain ⟨j, hj⟩ : ∃ j, k - a.length = j + 1 := ⟨k - a.length - 1, by omega⟩
      rw [hj, List.take_succ_cons]
      congr 3
    have hd := hb (k - a.length - 1) (by simp at hkle; omega)
    have : scopeDepth (scopeOpener lf) (scopeCloser lf)
        (a ++ scopeOpener lf :: b.take (k - a.length - 1)) ≠ 0 := by
      rw [scopeDepth_append, scopeDepth_cons, hda]
      simp only [if_true, hoc, if_false]
      omega
    rw [htake]
    simp [this]

/-! ## The marker scan -/

theorem enumTestDecl_eq (mem : List Char) (parsed_enum : ParsedEnum) (v : StringLiteral) :
    enumTestDecl mem parsed_enum v =
      stringifyTest parsed_enum.struct_or_class_decl (fmtLit mem parsed_enum.name)
        (fmtLit mem v) := by
  unfold enumTestDecl stringifyTest
  cases parsed_enum.struct_or_class_decl <;> simp [List.append_assoc]

/-- The list and the width that the first loop of the stringify generator builds. -/
theorem buildSourceCode_eq (mem : List Char) (parsed_enum : ParsedEnum)
    (members : List (CPPDeclLinkedList StringLiteral)) :
    ∀ (src_code : List SourceCode) (longest : Int),
      buildSourceCode mem parsed_enum members src_code longest =
        (src_code ++ members.map (sourceCodeOf mem parsed_enum),
          if members = [] then longest
          else max longest
            (((stringifyWidth parsed_enum.struct_or_class_decl (fmtLit mem parsed_enum.name)
              (members.map (fun m => fmtLit mem m.value)) : Nat) : Int) + 1)) := by
  induction members with
  | nil => intro src_code longest; simp [buildSourceCode]
  | cons m ms ih =>
    intro src_code longest
    rw [buildSourceCode, ih]
    simp only [List.map_cons, List.append_assoc, List.singleton_append, INSPECT_MAX,
      stringifyWidth, ← enumTestDecl_eq, sourceCodeOf, reduceCtorEq, if_false]
    congr 1
    by_cases hms : ms = []
    · subst hms
      simp only [List.map_nil, stringifyWidth, if_true]
      split <;> omega
    · simp only [hms, if_false]
      split <;> omega

theorem fmtInt_natCast (i : Nat) : fmtInt (i : Int) = (toString i).toList := rfl

theorem le_stringifyWidth (qualified : Bool) (enumName : List Char) (variants : List (List Char)) :
    ∀ v ∈ variants,
      (stringifyTest qualified enumName v).length ≤ stringifyWidth qualified enumName variants := by
  induction variants with
  | nil => intro v hv; simp at hv
  | cons x xs ih =>
    intro v hv
    rcases List.mem_cons.1 hv with rfl | hv
    · exact le_max_left _ _
    · exact le_trans (ih v hv) (le_max_right _ _)

/-- What the second loop of the stringify generator writes: one line per variant, in
order, numbered from `index`. -/
theorem writeStringifyLines_eq (mem : List Char) (parsed_enum : ParsedEnum) (width : Nat)
    (members : List (CPPDeclLinkedList StringLiteral)) :
    ∀ (index : Nat) (tokeniser : CPPTokeniser),
      (∀ m ∈ members, (enumTestDecl mem parsed_enum m.value).length ≤ width) →
      writeStringifyLines mem parsed_enum ((width : Int) + 1)
          (members.map (sourceCodeOf mem parsed_enum)) (index : Int) tokeniser =
        CPPTokeniser_SprintfToFileNoIndenting tokeniser
          (stringifyLines (fmtPad ((tokeniser.spaces_per_indent : Int) * tokeniser.indent_level))
            parsed_enum.struct_or_class_decl (fmtLit mem parsed_enum.name) width index
            (members.map (fun m => fmtLit mem m.value))) := by
  induction members with
  | nil =>
    intro index tokeniser _
    simp [writeStringifyLines, stringifyLines, CPPTokeniser_SprintfToFileNoIndenting]
  | cons m ms ih =>
    intro index tokeniser hw
    have hm := hw m (by simp)
    have hpad : fmtPad ((width : Int) + 1 - (((enumTestDecl mem parsed_enum m.value).length : Int) + 1)) =
        List.replicate (width - (enumTestDecl mem parsed_enum m.value).length) ' ' := by
      unfold fmtPad
      congr 1
      omega
    have htake : (enumTestDecl mem parsed_enum m.value).take
        (((enumTestDecl mem parsed_enum m.value).length : Int) + 1).toNat =
        enumTestDecl mem parsed_enum m.value := by
      apply List.take_of_length_le
      omega
    rw [List.map_cons, writeStringifyLines]
    simp only [sourceCodeOf, hpad, htake]
    have := ih (index + 1) (CPPTokeniser_SprintfToFileNoIndenting (CPPTokeniser_SprintfToFile tokeniser
      (enumTestDecl mem parsed_enum m.value ++
        List.replicate (width - (enumTestDecl mem parsed_enum m.value).length) ' '))
      ("\x7b if (len) *len = CHAR_COUNT(\"".toList ++ fmtLit mem m.value
        ++ "\"); return DqnInspect_".toList ++ fmtLit mem parsed_enum.name
        ++ "_Strings[".toList ++ fmtInt index ++ "]; \x7d\n".toList))
      (fun m' h' => hw m' (by simp [h']))
    simp only [sourceCodeOf, Nat.cast_add, Nat.cast_one] at this
    rw [this]
    simp only [CPPTokeniser_SprintfToFileNoIndenting, CPPTokeniser_SprintfToFile, List.map_cons,
      stringifyLines, stringifyLine, ← enumTestDecl_eq, fmtInt_natCast, List.append_assoc]

/-- What the stringify generator writes for an enum with at least one variant. -/
theorem writeEnumStringify_eq (mem : List Char) (parsed_enum : ParsedEnum)
    (tokeniser : CPPTokeniser) (hmembers : parsed_enum.members ≠ []) :
    writeEnumStringify mem parsed_enum tokeniser =
      Except.ok (CPPTokeniser_SprintfToFileNoIndenting tokeniser
        (stringifyText (fmtPad ((tokeniser.spaces_per_indent : Int) * tokeniser.indent_level))
          (fmtPad ((tokeniser.spaces_per_indent : Int) * (tokeniser.indent_level + 1)))
          parsed_enum.struct_or_class_decl (fmtLit mem parsed_enum.name)
          (variantNames mem parsed_enum))) := by
  unfold writeEnumStringify
  rw [buildSourceCode_eq]
  simp only [hmembers, if_false, List.nil_append, List.map_eq_nil_iff, pure, Except.pure]
  have hwidth : max (0 : Int)
      (((stringifyWidth parsed_enum.struct_or_class_decl (fmtLit mem parsed_enum.name)
        (parsed_enum.members.map (fun m => fmtLit mem m.value)) : Nat) : Int) + 1) =
      ((stringifyWidth parsed_enum.struct_or_class_decl (fmtLit mem parsed_enum.name)
        (parsed_enum.members.map (fun m => fmtLit mem m.value)) : Nat) : Int) + 1 := by
    omega
  rw [hwidth]
  have hlines := writeStringifyLines_eq mem parsed_enum
    (stringifyWidth parsed_enum.struct_or_class_decl (fmtLit mem parsed_enum.name)
      (parsed_enum.members.map (fun m => fmtLit mem m.value)))
    parsed_enum.members 0
    (indentMore (CPPTokeniser_SprintfToFile tokeniser
      ("char const *DqnInspectEnum_Stringify(".toList ++ fmtLit mem parsed_enum.name
        ++ " val, int *len = nullptr)\n\x7b\n".toList)))
    (fun m hm => by
      rw [enumTestDecl_eq]
      exact le_stringifyWidth _ _ _ _ (List.mem_map_of_mem _ hm))
  simp only [Nat.cast_zero] at hlines
  rw [hlines]
  simp only [CPPTokeniser_SprintfToFileNoIndenting, CPPTokeniser_SprintfToFile, indentMore,
    indentLess, variantNames, stringifyText, List.append_assoc, add_sub_cancel_right]

/-- C4.  For a parsed enum with at least one variant the stringify generator returns, and
what it writes is the header of `DqnInspectEnum_Stringify`, then one line per variant, in
variant order, then `return nullptr;` and the closing brace.  The line of the variant at
position `i` (from zero) holds the test `if (val == Variant) `, with the variant written
`Enum::Variant` exactly when the enum was declared with `class` or `struct`, padded to the
widest test, then `if (len) *len = CHAR_COUNT("Variant");` and
`return DqnInspect_Enum_Strings[i];`.  Nothing but the output changes. -/
theorem C4_stringify_is_a_chain_of_tests (mem : List Char) (parsed_enum : ParsedEnum)
    (tokeniser : CPPTokeniser) (hmembers : parsed_enum.members ≠ []) :
    writeEnumStringify mem parsed_enum tokeniser =
      Except.ok (CPPTokeniser_SprintfToFileNoIndenting tokeniser
        (fmtPad ((tokeniser.spaces_per_indent : Int) * tokeniser.indent_level)
          ++ "char const *DqnInspectEnum_Stringify(".toList ++ fmtLit mem parsed_enum.name
          ++ " val, int *len = nullptr)\n\x7b\n".toList
          ++ stringifyLines
              (fmtPad ((tokeniser.spaces_per_indent : Int) * (tokeniser.indent_level + 1)))
              parsed_enum.struct_or_class_decl (fmtLit mem parsed_enum.name)
              (stringifyWidth parsed_enum.struct_or_class_decl (fmtLit mem parsed_enum.name)
                (variantNames mem parsed_enum))
              0 (variantNames mem parsed_enum)
          ++ fmtPad ((tokeniser.spaces_per_indent : Int) * (tokeniser.indent_level + 1))
          ++ "return nullptr;\n".toList
          ++ fmtPad ((tokeniser.spaces_per_indent : Int) * tokeniser.indent_level)
          ++ "\x7d\n\n".toList)) :=
  writeEnumStringify_eq mem parsed_enum tokeniser hmembers

set_option maxRecDepth 100000

/-- C4, at the enum `enum class Color { Red, Green, Blue };` of the scenario: three
tests, the one for `Color::Blue` returns entry 2 of the string table, which is
`"Blue"`. -/
theorem C4_witness :
    writeEnumStringify (fileBuffer "DQN_INSPECT enum class Color \x7b Red, Green, Blue \x7d;")
      { struct_or_class_decl := true
        name := { str := 23, len := 5 }
        members := [{ value := { str := 31, len := 3 } }, { value := { str := 36, len := 5 } },
          { value := { str := 43, len := 4 } }] } {} =
      Except.ok { output_file :=
        ("char const *DqnInspectEnum_Stringify(Color val, int *len = nullptr)\n\x7b\n" ++
         "    if (val == Color::Red)   \x7b if (len) *len = CHAR_COUNT(\"Red\"); " ++
           "return DqnInspect_Color_Strings[0]; \x7d\n" ++
         "    if (val == Color::Green) \x7b if (len) *len = CHAR_COUNT(\"Green\"); " ++
           "return DqnInspect_Color_Strings[1]; \x7d\n" ++
         "    if (val == Color::Blue)  \x7b if (len) *len = CHAR_COUNT(\"Blue\"); " ++
           "return DqnInspect_Color_Strings[2]; \x7d\n" ++
         "    return nullptr;\n\x7d\n\n").toList } :=
  (C4_stringify_is_a_chain_of_tests
    (fileBuffer "DQN_INSPECT enum class Color \x7b Red, Green, Blue \x7d;")
    { struct_or_class_decl := true
      name := { str := 23, len := 5 }
      members := [{ value := { str := 31, len := 3 } }, { value := { str := 36, len := 5 } },
        { value := { str := 43, len := 4 } }] } {} (by decide)).trans (by decide)

/-- `ParseCPPTypeAndVariableDecl` on a member written as a one-word type, a name and a
token that is none of `[`, `=`, `,` and the metadata marker: one declaration with that type
and name, no generic arguments, no dimensions, no metadata; the cursor is left on the
token after the name. -/
theorem parseDecl_member (mem : List Char) (tokeniser : CPPTokeniser) (pre post : List CPPToken)
    (ty name after : CPPToken) (fuel : Nat) (parse_function_param : Bool)
    (ht : tokeniser.tokens = pre ++ ty :: name :: after :: post)
    (hi : tokeniser.tokens_index = pre.length) (h0 : 0 ≤ tokeniser.indent_level)
    (hty : ty.type = CPPTokenType.Identifier) (hname : name.type = CPPTokenType.Identifier)
    (hconst : IsIdentifierToken mem name "const" = false)
    (hafter : after.type ≠ CPPTokenType.LeftSqBracket ∧ after.type ≠ CPPTokenType.Equals ∧
      after.type ≠ CPPTokenType.Comma ∧ after.type ≠ CPPTokenType.Identifier) :
    ParseCPPTypeAndVariableDecl mem (fuel + 3) tokeniser parse_function_param =
      Except.ok
        ([{ metadata_list := []
            value := { type := { str := ty.str, len := ty.len }
                       name := { str := name.str, len := name.len } } }],
         { tokeniser with tokens_index := tokeniser.tokens_index + 2 }) := by
  have e1 := next_plain_at tokeniser pre ty (name :: after :: post) ht hi h0 (identifier_plain hty)
  have hg1 : ({ tokeniser with tokens_index := tokeniser.tokens_index + 1 } : CPPTokeniser).tokens.getD
      ({ tokeniser with tokens_index := tokeniser.tokens_index + 1 } : CPPTokeniser).tokens_index
      default = name :=
    @getD_cursor _ (pre ++ [ty]) name (after :: post) (by simp [ht]) (by simp [hi])
  have e2 := next_plain_at { tokeniser with tokens_index := tokeniser.tokens_index + 1 }
    (pre ++ [ty]) name (after :: post) (by simp [ht]) (by simp [hi]) h0 (identifier_plain hname)
  have hg2 : ({ tokeniser with tokens_index := tokeniser.tokens_index + 1 + 1 } :
      CPPTokeniser).tokens.getD
      ({ tokeniser with tokens_index := tokeniser.tokens_index + 1 + 1 } : CPPTokeniser).tokens_index
      default = after :=
    @getD_cursor _ (pre ++ [ty, name]) after post (by simp [ht]) (by simp [hi])
  rw [ParseCPPTypeAndVariableDecl]
  simp only [bind, Except.bind, e1, hty, ne_eq, not_true_eq_false, false_and, if_false]
  rw [consumeConst_none mem (fuel + 1) hg1 hconst]
  simp only []
  rw [declLoop]
  simp only [bind, Except.bind, CPPTokeniser_AcceptTokenIfType, CPPTokeniser_PeekToken, hg1,
    hname, reduceCtorEq, if_false, pure, Except.pure]
  rw [consumeAsterisks_none fuel hg1 (by rw [hname]; decide)]
  simp only []
  rw [consumeConst_none mem fuel hg1 hconst]
  simp only [Bool.false_eq_true, if_false, hty, hg1, hname, ne_eq, not_true_eq_false, and_false,
    if_true, e2]
  have hg2' : tokeniser.tokens.getD (tokeniser.tokens_index + 1 + 1) default = after := hg2
  have harr : arrayLoop (fuel + 1) after 0
      { tokeniser with tokens_index := tokeniser.tokens_index + 1 + 1 } =
      Except.ok (after, 0, { tokeniser with tokens_index := tokeniser.tokens_index + 1 + 1 }) := by
    rw [arrayLoop, if_neg (by simp [hafter.1])]
    rfl
  have hwb : writeBack (writeBack ({} : CPPToken) {}) {} = {} := by decide
  rw [hg2', harr]
  simp only [not_identifier_token_of_type hafter.2.2.2, Bool.false_eq_true, if_false, hafter.2.1,
    hwb, declTail, hafter.2.2.1, pure, Except.pure, List.nil_append, not_true_eq_false]

/-! ## The loop over the members of a struct -/

/-- One iteration of the loop of `ParseCPPStruct` at a token that is not an identifier. -/
theorem structLoop_skip (mem : List Char) (original_indent_level : Int) (fuel : Nat)
    (token : CPPToken) (tokeniser : CPPTokeniser)
    (members : List (CPPDeclLinkedList CPPVariableDecl))
    (hind : tokeniser.indent_level ≠ original_indent_level)
    (h1 : token.type ≠ CPPTokenType.EndOfStream) (h2 : token.type ≠ CPPTokenType.Identifier) :
    structLoop mem original_indent_level (fuel + 1) token tokeniser members =
      (CPPTokeniser_NextToken tokeniser >>= fun r =>
        structLoop mem original_indent_level fuel r.1 r.2 members) := by
  conv_lhs => unfold structLoop
  simp only [hind, h1, h2, ne_eq, not_false_eq_true, and_self, if_true, if_false, bind,
    Except.bind, pure, Except.pure]

/-- One iteration of the loop of `ParseCPPStruct` at an identifier. -/
theorem structLoop_decl (mem : List Char) (original_indent_level : Int) (fuel : Nat)
    (token : CPPToken) (tokeniser : CPPTokeniser)
    (members : List (CPPDeclLinkedList CPPVariableDecl))
    (hind : tokeniser.indent_level ≠ original_indent_level)
    (h2 : token.type = CPPTokenType.Identifier) :
    structLoop mem original_indent_level (fuel + 1) token tokeniser members =
      (ParseCPPTypeAndVariableDecl mem fuel (CPPTokeniser_RewindToken tokeniser) false >>=
        fun link => CPPTokeniser_NextToken link.2 >>= fun r =>
          structLoop mem original_indent_level fuel r.1 r.2 (members ++ link.1)) := by
  conv_lhs => unfold structLoop
  simp only [hind, h2, ne_eq, not_false_eq_true, reduceCtorEq, and_self, if_true, bind,
    Except.bind, pure, Except.pure]

theorem structLoop_stop (mem : List Char) (original_indent_level : Int) (fuel : Nat)
    (token : CPPToken) (tokeniser : CPPTokeniser)
    (members : List (CPPDeclLinkedList CPPVariableDecl))
    (h : tokeniser.indent_level = original_indent_level ∨
      token.type = CPPTokenType.EndOfStream) :
    structLoop mem original_indent_level (fuel + 1) token tokeniser members =
      Except.ok (members, tokeniser) := by
  unfold structLoop
  rcases h with h | h <;> simp [h, pure, Except.pure]

theorem memberLexemes_length (ms : List (Lexeme × Lexeme × Lexeme)) :
    (memberLexemes ms).length = 3 * ms.length := by
  induction ms with
  | nil => rfl
  | cons m ms ih => simp only [memberLexemes, List.length_cons, ih]; omega

/-- The length of the token of the first of some lexemes. -/
theorem lexemeTokens_head_len {ptr next : Nat} {l : Lexeme} {ls : List Lexeme} {t : CPPToken}
    (h : lexemeTokens ptr (l :: ls) = t :: lexemeTokens next ls) :
    t.len = l.text.length := by
  rw [lexemeTokens] at h
  injection h with h1 _
  rw [← h1]

/-! ## The member-descriptor array -/

/-- What the loop over the members of a struct writes: one entry per member, in order. -/
theorem writeStructMembers_eq (mem : List Char)
    (members : List (CPPDeclLinkedList CPPVariableDecl)) :
    ∀ tokeniser : CPPTokeniser,
      writeStructMembers mem members tokeniser =
        CPPTokeniser_SprintfToFileNoIndenting tokeniser
          (memberEntries (fmtPad ((tokeniser.spaces_per_indent : Int) * tokeniser.indent_level))
            (fmtPad ((tokeniser.spaces_per_indent : Int) * (tokeniser.indent_level + 1)))
            (members.map (describeMember mem))) := by
  induction members with
  | nil =>
    intro tokeniser
    simp [writeStructMembers, memberEntries, CPPTokeniser_SprintfToFileNoIndenting]
  | cons m ms ih =>
    intro tokeniser
    rw [writeStructMembers]
    simp only [ih]
    by_cases ht : m.value.template_expr.len ≤ 0
    · simp only [ht, if_true, CPPTokeniser_SprintfToFileNoIndenting, CPPTokeniser_SprintfToFile,
        indentMore, indentLess, List.map_cons, memberEntries, memberEntry, describeMember, fmtInt,
        List.append_assoc, add_sub_cancel_right]
    · simp only [ht, if_false, CPPTokeniser_SprintfToFileNoIndenting, CPPTokeniser_SprintfToFile,
        indentMore, indentLess, List.map_cons, memberEntries, memberEntry, describeMember, fmtInt,
        List.append_assoc, add_sub_cancel_right]

theorem sep_facts {sep : CPPToken}
    (hsep : sep.type = CPPTokenType.Comma ∨ sep.type = CPPTokenType.CloseParen) :
    sep.type ≠ CPPTokenType.EndOfStream ∧ sep.type ≠ CPPTokenType.LeftBrace ∧
    sep.type ≠ CPPTokenType.RightBrace ∧ sep.type ≠ CPPTokenType.Identifier ∧
    sep.type ≠ CPPTokenType.LeftSqBracket ∧ sep.type ≠ CPPTokenType.Equals ∧
    sep.type ≠ CPPTokenType.LessThan ∧ sep.type ≠ CPPTokenType.Asterisks := by
  rcases hsep with h | h <;> rw [h] <;> decide

/-- The end of the loop body on a comma, while parsing parameters: the comma and the
type of the next parameter are consumed. -/
theorem declTail_comma (mem : List Char) (tokeniser : CPPTokeniser) (pre post : List CPPToken)
    (ty sep next : CPPToken) (fuel : Nat) (result : List (CPPDeclLinkedList CPPVariableDecl))
    (ht : tokeniser.tokens = pre ++ sep :: next :: post)
    (hi : tokeniser.tokens_index = pre.length) (h0 : 0 ≤ tokeniser.indent_level)
    (hsep : sep.type = CPPTokenType.Comma) (hnext : next.type = CPPTokenType.Identifier) :
    declTail mem true (fuel + 1) tokeniser ty sep result =
      declLoop mem true fuel { tokeniser with tokens_index := tokeniser.tokens_index + 2 }
        next next result := by
  have e1 := next_plain_at tokeniser pre sep (next :: post) ht hi h0 (by rw [hsep]; decide)
  have hg : CPPTokeniser_PeekToken { tokeniser with tokens_index := tokeniser.tokens_index + 1 }
      = next :=
    @getD_cursor { tokeniser with tokens_index := tokeniser.tokens_index + 1 } (pre ++ [sep]) next
      post (by simp [ht]) (by simp [hi])
  have e2 := next_plain_at { tokeniser with tokens_index := tokeniser.tokens_index + 1 }
    (pre ++ [sep]) next post (by simp [ht]) (by simp [hi]) h0 (identifier_plain hnext)
  rw [declTail]
  simp only [hsep, if_true, e1, hg, e2, bind, Except.bind, pure, Except.pure]

/-- The end of the loop body on a closing parenthesis: the loop ends. -/
theorem declTail_close (mem : List Char) (tokeniser : CPPTokeniser) (ty sep : CPPToken)
    (parse_function_param : Bool) (fuel : Nat)
    (result : List (CPPDeclLinkedList CPPVariableDecl))
    (hsep : sep.type = CPPTokenType.CloseParen) :
    declTail mem parse_function_param (fuel + 1) tokeniser ty sep result =
      Except.ok (result, tokeniser) := by
  rw [declTail]
  simp [hsep, pure, Except.pure]

theorem spells_at {mem : List Char} {str : Nat} {text rest : List Char}
    (hm : mem.drop str = text ++ rest) :
    Spells mem { str := str, len := (text.length : Int) } text :=
  ⟨rfl, rest, hm⟩

/-! ## The macro call of a prototype -/

theorem whitespace_ne_nul {c : Char} (h : CharIsWhitespace c = true) : c ≠ NUL := by
  rintro rfl; revert h; decide

theorem fmtLit_of_spells {mem : List Char} {s : StringLiteral} {text : List Char}
    (h : Spells mem s text) (hnul : ∀ c ∈ text, c ≠ NUL) : fmtLit mem s = text := by
  obtain ⟨hlen, rest, hrest⟩ := h
  unfold fmtLit
  rw [hlen]
  exact fmtStr_at hrest hnul

/-- What the loop over the parameters of a prototype writes. -/
theorem writeFunctionParams_eq (mem : List Char)
    (members : List (CPPDeclLinkedList CPPVariableDecl)) :
    ∀ tokeniser : CPPTokeniser,
      writeFunctionParams mem members tokeniser =
        CPPTokeniser_SprintfToFileNoIndenting tokeniser
          (renderParams (members.map (describeParam mem))) := by
  induction members with
  | nil =>
    intro tokeniser
    simp [writeFunctionParams, renderParams, CPPTokeniser_SprintfToFileNoIndenting]
  | cons m ms ih =>
    intro tokeniser
    rw [writeFunctionParams]
    simp only [ih]
    cases ms with
    | nil =>
      by_cases h1 : m.value.template_expr.len > 0 <;> by_cases h2 : m.value.name.len > 0 <;>
        by_cases h3 : m.value.default_value.len > 0 <;>
        simp [h1, h2, h3, CPPTokeniser_SprintfToFileNoIndenting, renderParams, renderParam,
          describeParam, List.append_assoc]
    | cons n ns =>
      by_cases h1 : m.value.template_expr.len > 0 <;> by_cases h2 : m.value.name.len > 0 <;>
        by_cases h3 : m.value.default_value.len > 0 <;>
        simp [h1, h2, h3, CPPTokeniser_SprintfToFileNoIndenting, renderParams, renderParam,
          describeParam, List.append_assoc]

/-- What the generator writes for a prototype. -/
theorem generateFunctionPrototype_eq (mem : List Char) (w1 w2 : Int)
    (parsed_func : ParsedFunctionPrototype) (out : CPPTokeniser) :
    (generateFunctionPrototype mem w1 w2 parsed_func out).output_file =
      out.output_file ++
        prototypeText (fmtPad ((out.spaces_per_indent : Int) * out.indent_level))
          (fmtLit mem parsed_func.return_type) (w1 - parsed_func.return_type.len).toNat
          (fmtLit mem parsed_func.name) (w2 - parsed_func.name.len).toNat
          (parsed_func.members.map (describeParam mem)) := by
  simp [generateFunctionPrototype, writeFunctionParams_eq, writeSpaces, prototypeText,
    CPPTokeniser_SprintfToFile, CPPTokeniser_SprintfToFileNoIndenting, List.append_assoc]

theorem wellFormed_of_mem : ∀ (ls : List Lexeme) (tail : List Char),
    wellFormedLexemes ls tail = true → ∀ l ∈ ls, ∃ follows, l.wellFormed follows = true := by
  intro ls
  induction ls with
  | nil => intro tail _ l hl; simp at hl
  | cons x xs ih =>
    intro tail h l hl
    simp only [wellFormedLexemes, Bool.and_eq_true] at h
    rcases List.mem_cons.1 hl with rfl | hl
    · exact ⟨_, h.1⟩
    · exact ih tail h.2 l hl

theorem wellFormed_text {l : Lexeme} {follows : List Char} (h : l.wellFormed follows = true) :
    l.text ≠ [] ∧ (∀ c ∈ l.text, c ≠ NUL) ∧ ∀ c ∈ l.space, c ≠ NUL := by
  obtain ⟨hsp, hk⟩ := Lexeme.wellFormed_cases h
  refine ⟨?_, (lexeme_text_no_nul h).1, fun c hc => whitespace_ne_nul (hsp c hc)⟩
  rcases hk with ⟨c, hc, -⟩ | ⟨-, c, cs, hc, -⟩ | ⟨-, c, cs, hc, -⟩ <;> rw [hc] <;> simp

/-- The assertion of `CPPTokeniser_NextToken`: taking a closing brace at brace depth zero
aborts. -/
theorem next_rightBrace_aborts (tk : CPPTokeniser) (t : CPPToken)
    (hg : tk.tokens.getD tk.tokens_index default = t)
    (ht : t.type = CPPTokenType.RightBrace) (h0 : tk.indent_level = 0) :
    CPPTokeniser_NextToken tk = Except.error Fault.assertFail := by
  unfold CPPTokeniser_NextToken
  simp only [hg, ht, ne_eq, reduceCtorEq, not_false_eq_true, if_true]
  unfold nextTokenLoop
  simp only [hg, ht, h0, reduceCtorEq, if_false, if_true]
  rw [if_pos (by decide)]
  rfl

/-- C11, counterexample.  In the text `) x ( y`, lexed as a function prototype, the `)`
at offset 0 has no opener before it.  The lexer does not abort: its first pass appends
the tokens of `)`, `x` and `(` and stops after the `(`, its second pass appends the token
of `y`, and it returns the offset of the end of the text. -/
theorem C11_counterexample :
    EnumOrStructOrFunctionLexer 10 (fileBuffer ") x ( y") {} 0 true =
      Except.ok ({ tokens := [{ type := CPPTokenType.CloseParen, str := 0, len := 1 },
                              { type := CPPTokenType.Identifier, str := 2, len := 1 },
                              { type := CPPTokenType.OpenParen, str := 4, len := 1 },
                              { type := CPPTokenType.Identifier, str := 6, len := 1 }] }, 7) := by
  decide

/-! ## String literals -/

/-- The string loop at a quote that follows a backslash: it looks at the same quote
again and again. -/
theorem stringLoop_stuck (mem : List Char) (str q : Nat) (rest : List Char)
    (hq : mem.drop q = '"' :: rest) (hprev : readChar mem (q - 1) = Except.ok '\\') :
    ∀ fuel, stringLoop mem str fuel q = Except.error Fault.outOfFuel := by
  intro fuel
  induction fuel with
  | zero => rfl
  | succ fuel ih =>
    have hscan : scanWhile (fun ch => ch != '"') (mem.drop q) q = Except.ok q := by
      rw [hq]; simp [scanWhile, pure, Except.pure]
    unfold stringLoop
    simp only [hscan, bind, Except.bind, hprev, ne_eq, not_true_eq_false, if_false]
    exact ih

/-- The switch of the lexer at a quote. -/
theorem lexToken_quote (fuel : Nat) (mem : List Char) (str : Nat) (sc : LexScope)
    (rest : List Char) (hm : mem.drop str = '"' :: rest) :
    lexToken fuel mem str sc =
      (stringLoop mem (str + 1) fuel (str + 1) >>= fun r =>
        pure ({ type := CPPTokenType.String, str := str + 1, len := r.2 }, r.1, sc)) := by
  have hr := readChar_of_drop hm
  unfold lexToken
  rw [hr]
  simp only [bind, Except.bind]
  rw [if_neg (by decide), if_neg (by decide), if_neg (by decide), if_neg (by decide),
    if_neg (by decide), if_neg (by decide), if_neg (by decide), if_neg (by decide),
    if_neg (by decide), if_neg (by decide), if_neg (by decide), if_neg (by decide),
    if_neg (by decide), if_neg (by decide), if_neg (by decide), if_pos trivial]

/-- The lexer on a string literal in which no quote follows a backslash: one `String`
token that holds the characters between the quotes; the lexer goes on right after the
closing quote. -/
theorem lexToken_string (fuel : Nat) (mem : List Char) (str : Nat) (sc : LexScope)
    (body rest : List Char) (hm : mem.drop str = '"' :: (body ++ '"' :: rest))
    (hbody : ∀ c ∈ body, c ≠ '"') (hlast : body.getLast? ≠ some '\\') :
    lexToken (fuel + 1) mem str sc =
      Except.ok ({ type := CPPTokenType.String, str := str + 1, len := body.length },
        str + body.length + 2, sc) := by
  have hdrop : mem.drop (str + 1) = body ++ '"' :: rest := by
    have := @drop_add_of_drop mem str ['"'] (body ++ '"' :: rest) (by simpa using hm)
    simpa using this
  have hscan := scanWhile_append (fun ch => ch != '"') body '"' rest (str + 1)
    (fun x hx => by simpa using hbody x hx) (by simp)
  have hprev : ∃ c, readChar mem (str + 1 + body.length - 1) = Except.ok c ∧ c ≠ '\\' := by
    rcases List.eq_nil_or_concat body with h | ⟨init, c, h⟩
    · subst h
      exact ⟨'"', by simpa using readChar_of_drop hm, by decide⟩
    · subst h
      refine ⟨c, ?_, ?_⟩
      · have h2 : mem.drop (str + 1 + init.length) = c :: '"' :: rest := by
          have := @drop_add_of_drop mem (str + 1) init (c :: '"' :: rest)
            (by rw [hdrop]; simp)
          exact this
        have := readChar_of_drop h2
        simpa [Nat.add_assoc] using this
      · intro hc
        apply hlast
        rw [hc]
        simp
  obtain ⟨c, hc1, hc2⟩ := hprev
  rw [lexToken_quote (fuel + 1) mem str sc _ hm]
  unfold stringLoop
  rw [hdrop, hscan]
  simp only [bind, Except.bind, hc1, ne_eq, hc2, not_false_eq_true, if_true, pure, Except.pure]
  simp only [Except.ok.injEq, Prod.mk.injEq, CPPToken.mk.injEq, true_and, and_true]
  constructor
  · push_cast; ring
  · omega

/-- C12.  At a string literal in which a quote follows a backslash (the characters
`body`, which hold no quote, then `\"`), the lexer does not make a token: the string loop
finds the escaped quote, does not move past it and finds it again, so the lexer never
returns, whatever the fuel. -/
theorem C12_escaped_quote_never_ends (mem : List Char) (lf : Bool) (tokeniser : CPPTokeniser)
    (ptr : Nat) (sc : LexScope) (ws body rest : List Char)
    (hm : mem.drop ptr = ws ++ '"' :: (body ++ '\\' :: '"' :: rest))
    (hws : ∀ x ∈ ws, CharIsWhitespace x = true) (hbody : ∀ c ∈ body, c ≠ '"') :
    (∀ fuel, lexToken fuel mem (ptr + ws.length) sc = Except.error Fault.outOfFuel) ∧
    ∀ fuel r, lexPass mem lf fuel tokeniser ptr sc ≠ Except.ok r := by
  have hq0 : mem.drop (ptr + ws.length) = '"' :: (body ++ '\\' :: '"' :: rest) :=
    drop_add_of_drop hm
  have hdrop : mem.drop (ptr + ws.length + 1) = (body ++ ['\\']) ++ '"' :: rest := by
    have := @drop_add_of_drop mem (ptr + ws.length) ['"'] (body ++ '\\' :: '"' :: rest)
      (by simpa using hq0)
    simpa using this
  have hscan := scanWhile_append (fun ch => ch != '"') (body ++ ['\\']) '"' rest
    (ptr + ws.length + 1)
    (fun x hx => by
      rcases List.mem_append.1 hx with h | h
      · simpa using hbody x h
      · simp at h; subst h; decide) (by simp)
  have hquote : mem.drop (ptr + ws.length + 1 + (body ++ ['\\']).length) = '"' :: rest :=
    drop_add_of_drop hdrop
  have hprev : readChar mem (ptr + ws.length + 1 + (body ++ ['\\']).length - 1) =
      Except.ok '\\' := by
    have h2 : mem.drop (ptr + ws.length + 1 + body.length) = '\\' :: '"' :: rest := by
      have := @drop_add_of_drop mem (ptr + ws.length + 1) body ('\\' :: '"' :: rest)
        (by rw [hdrop]; simp)
      exact this
    have := readChar_of_drop h2
    simpa [Nat.add_assoc] using this
  have hstuck := stringLoop_stuck mem (ptr + ws.length + 1) _ rest hquote hprev
  have htok : ∀ fuel, lexToken fuel mem (ptr + ws.length) sc = Except.error Fault.outOfFuel := by
    intro fuel
    rw [lexToken_quote fuel mem _ sc _ hq0]
    cases fuel with
    | zero => rfl
    | succ fuel =>
      unfold stringLoop
      rw [hdrop, hscan]
      simp only [bind, Except.bind, hprev, ne_eq, not_true_eq_false, if_false, hstuck fuel]
  refine ⟨htok, ?_⟩
  intro fuel r
  cases fuel with
  | zero => simp [lexPass, throw, throwThe, MonadExceptOf.throw]
  | succ fuel =>
    have hws' := scanWhile_append CharIsWhitespace ws '"' (body ++ '\\' :: '"' :: rest) ptr hws
      (by decide)
    have hr := readChar_of_drop hq0
    unfold lexPass
    rw [hm, hws']
    simp only [bind, Except.bind, hr]
    rw [if_neg (by decide)]
    by_cases hroom : tokeniser.tokens.length < tokeniser.tokens_max
    · simp [hroom, htok fuel]
    · simp [hroom, throw, throwThe, MonadExceptOf.throw]

/-- C12, at the literal `"a\"b"`: the lexer never returns. -/
theorem C12_witness :
    (∀ fuel, lexToken fuel (fileBuffer "\"a\\\"b\"") (0 + ([] : List Char).length) {} =
      Except.error Fault.outOfFuel) ∧
    ∀ fuel r, lexPass (fileBuffer "\"a\\\"b\"") false fuel {} 0 {} ≠ Except.ok r :=
  C12_escaped_quote_never_ends (fileBuffer "\"a\\\"b\"") false {} 0 {} [] ['a'] ['b', '"', NUL]
    (by decide) (by decide) (by decide)

/-! ## Comments -/

/-- The switch of the lexer at a slash. -/
theorem lexToken_slash (fuel : Nat) (mem : List Char) (str : Nat) (sc : LexScope)
    (n : Char) (rest : List Char) (hm : mem.drop str = '/' :: n :: rest) :
    lexToken fuel mem str sc =
      if n = '/' then
        (scanWhile (fun ch => ch == ' ' || ch == '\t') (mem.drop (str + 1)) (str + 1) >>= fun p1 =>
          scanWhile (fun ch => ch != '\n') (mem.drop p1) p1 >>= fun p2 =>
            pure ({ type := CPPTokenType.Comment, str := p1, len := (p2 : Int) - (p1 : Int) },
              p2, sc))
      else if n = '*' then
        (blockCommentLoop (mem.drop (str + 1)) (str + 1) >>= fun p =>
          pure ({ type := CPPTokenType.Comment, str := str, len := (p : Int) - (str : Int) },
            p, sc))
      else pure ({ type := CPPTokenType.FwdSlash, str := str, len := 1 }, str + 1, sc) := by
  have hr := readChar_of_drop hm
  have hdrop : mem.drop (str + 1) = n :: rest := by
    have := @drop_add_of_drop mem str ['/'] (n :: rest) (by simpa using hm)
    simpa using this
  have hr1 := readChar_of_drop hdrop
  unfold lexToken
  rw [hr]
  simp only [bind, Except.bind]
  rw [if_neg (by decide), if_neg (by decide), if_neg (by decide), if_neg (by decide),
    if_neg (by decide), if_neg (by decide), if_neg (by decide), if_neg (by decide),
    if_neg (by decide), if_neg (by decide), if_neg (by decide), if_neg (by decide),
    if_neg (by decide), if_neg (by decide), if_pos trivial, hr1]

/-- C13.  At a line comment `//text` ended by a newline, the loop that skips spaces and
tabs runs while the read position is still on the second `/`, so it skips nothing: the
`Comment` token starts at that second `/` and runs to the newline, its text being `/`
followed by all of `text`, leading spaces and tabs included; the lexer goes on at the
newline. -/
theorem C13_line_comment_starts_at_second_slash (fuel : Nat) (mem : List Char) (str : Nat)
    (sc : LexScope) (text rest : List Char)
    (hm : mem.drop str = '/' :: '/' :: (text ++ '\n' :: rest))
    (htext : ∀ c ∈ text, c ≠ '\n') :
    lexToken fuel mem str sc =
      Except.ok ({ type := CPPTokenType.Comment, str := str + 1, len := text.length + 1 },
        str + 2 + text.length, sc) ∧
    StringLiteral.text mem { str := str + 1, len := text.length + 1 } = '/' :: text := by
  have hdrop : mem.drop (str + 1) = ('/' :: text) ++ '\n' :: rest := by
    have := @drop_add_of_drop mem str ['/'] ('/' :: (text ++ '\n' :: rest)) (by simpa using hm)
    simpa using this
  have hscan1 : scanWhile (fun ch => ch == ' ' || ch == '\t') (mem.drop (str + 1)) (str + 1) =
      Except.ok (str + 1) := by
    rw [hdrop]
    simp [scanWhile, pure, Except.pure]
  have hscan2 := scanWhile_append (fun ch => ch != '\n') ('/' :: text) '\n' rest (str + 1)
    (fun x hx => by
      rcases List.mem_cons.1 hx with rfl | h
      · decide
      · simpa using htext x h) (by simp)
  constructor
  · rw [lexToken_slash fuel mem str sc '/' _ hm, if_pos rfl]
    simp only [bind, Except.bind, hscan1]
    rw [hdrop, hscan2]
    simp only [pure, Except.pure, List.length_cons, Except.ok.injEq, Prod.mk.injEq,
      CPPToken.mk.injEq, true_and, and_true]
    constructor
    · push_cast; ring
    · omega
  · have := @text_at mem (str + 1) ('/' :: text) ('\n' :: rest) hdrop
    simpa using this

/-- C13, at the comment `// hello`: the token starts at offset 1, on the second `/`, and
its text is `/ hello`. -/
theorem C13_witness :
    lexToken 5 (fileBuffer "// hello\nint x;") 0 {} =
      Except.ok ({ type := CPPTokenType.Comment, str := 0 + 1
                   len := (" hello".toList.length : Int) + 1 },
        0 + 2 + " hello".toList.length, {}) ∧
    StringLiteral.text (fileBuffer "// hello\nint x;")
      { str := 0 + 1, len := (" hello".toList.length : Int) + 1 } = '/' :: " hello".toList :=
  C13_line_comment_starts_at_second_slash 5 (fileBuffer "// hello\nint x;") 0 {}
    " hello".toList ("int x;".toList ++ [NUL]) (by decide) (by decide)

/-! ### Block comments -/

/-- The block-comment loop over text that holds no backslash leaves the buffer. -/
theorem blockCommentLoop_no_backslash : ∀ (xs : List Char) (ptr : Nat),
    (∀ c ∈ xs, c ≠ '\\') → blockCommentLoop xs ptr = Except.error Fault.outOfBounds := by
  intro xs
  induction xs with
  | nil => intro ptr _; rfl
  | cons c rest ih =>
    intro ptr h
    have hrest : ∀ x ∈ rest, x ≠ '\\' := fun x hx => h x (List.mem_cons_of_mem _ hx)
    unfold blockCommentLoop
    by_cases hc : c = '*'
    · simp only [hc, ne_eq, not_true_eq_false, if_false]
      cases rest with
      | nil => rfl
      | cons d rest2 =>
        simp only [hrest d (List.mem_cons_self _ _), if_false]
        exact ih (ptr + 1) hrest
    · simp only [ne_eq, hc, not_false_eq_true, if_true]
      exact ih (ptr + 1) hrest

/-- The block-comment loop ends at the first `*` that a backslash follows. -/
theorem blockCommentLoop_star_backslash : ∀ (body : List Char) (rest : List Char) (ptr : Nat),
    (∀ c ∈ body, c ≠ '\\') →
    blockCommentLoop (body ++ '*' :: '\\' :: rest) ptr = Except.ok (ptr + body.length + 1) := by
  intro body
  induction body with
  | nil =>
    intro rest ptr _
    simp [blockCommentLoop, pure, Except.pure]
  | cons c body ih =>
    intro rest ptr h
    have hbody : ∀ x ∈ body, x ≠ '\\' := fun x hx => h x (List.mem_cons_of_mem _ hx)
    have hgo := ih rest (ptr + 1) hbody
    rw [List.cons_append]
    unfold blockCommentLoop
    by_cases hc : c = '*'
    · simp only [hc, ne_eq, not_true_eq_false, if_false]
      cases body with
      | nil =>
        simp only [List.nil_append, reduceCtorEq, if_false] at hgo ⊢
        rw [if_neg (by decide), hgo]
        simp [Nat.add_assoc]
      | cons d body2 =>
        simp only [List.cons_append, hbody d (List.mem_cons_self _ _), if_false] at hgo ⊢
        rw [hgo]
        simp only [List.length_cons, Except.ok.injEq]
        omega
    · simp only [ne_eq, hc, not_false_eq_true, if_true]
      rw [hgo]
      simp only [List.length_cons, Except.ok.injEq]
      omega

/-- C14.  At a block comment, the loop that looks for the end of the comment tests the
character after each `*` against the backslash, not against `/`.  When the text after the
opening `/*` holds no backslash, as in `/* a */ int x;`, the closing `*/` does not end
the comment and the lexer reads past the end of the buffer; when it holds `*\`, the
`Comment` token runs to the first such `*` and the lexer goes on at the backslash. -/
theorem C14_block_comment_ends_at_star_backslash (fuel : Nat) (mem : List Char) (str : Nat)
    (sc : LexScope) (text : List Char) (hm : mem.drop str = '/' :: '*' :: text) :
    ((∀ c ∈ text, c ≠ '\\') → lexToken fuel mem str sc = Except.error Fault.outOfBounds) ∧
    ∀ body rest, text = body ++ '*' :: '\\' :: rest → (∀ c ∈ body, c ≠ '\\') →
      lexToken fuel mem str sc =
        Except.ok ({ type := CPPTokenType.Comment, str := str, len := body.length + 3 },
          str + body.length + 3, sc) := by
  have hdrop : mem.drop (str + 1) = '*' :: text := by
    have := @drop_add_of_drop mem str ['/'] ('*' :: text) (by simpa using hm)
    simpa using this
  have hsw := lexToken_slash fuel mem str sc '*' text hm
  rw [if_neg (by decide), if_pos rfl, hdrop] at hsw
  constructor
  · intro hno
    rw [hsw, blockCommentLoop_no_backslash ('*' :: text) (str + 1)
      (fun c hc => by
        rcases List.mem_cons.1 hc with rfl | h
        · decide
        · exact hno c h)]
    rfl
  · intro body rest htext hbody
    rw [hsw, htext]
    have := blockCommentLoop_star_backslash ('*' :: body) rest (str + 1)
      (fun c hc => by
        rcases List.mem_cons.1 hc with rfl | h
        · decide
        · exact hbody c h)
    rw [List.cons_append] at this
    rw [this]
    simp only [bind, Except.bind, pure, Except.pure, List.length_cons, Except.ok.injEq,
      Prod.mk.injEq, CPPToken.mk.injEq, true_and, and_true]
    constructor
    · push_cast; ring
    · omega

/-- C14, at the comment `/* a */ int x;`: the lexer reads past the end of the buffer; and
at `/* a *\ b`: the token is `/* a *` and the lexer goes on at the backslash. -/
theorem C14_witness :
    lexToken 5 (fileBuffer "/* a */ int x;") 0 {} = Except.error Fault.outOfBounds ∧
    lexToken 5 (fileBuffer "/* a *\\ b") 0 {} =
      Except.ok ({ type := CPPTokenType.Comment, str := 0, len := 6 }, 6, {}) :=
  ⟨(C14_block_comment_ends_at_star_backslash 5 (fileBuffer "/* a */ int x;") 0 {}
      (" a */ int x;".toList ++ [NUL]) (by decide)).1 (by decide),
   (C14_block_comment_ends_at_star_backslash 5 (fileBuffer "/* a *\\ b") 0 {}
      (" a *\\ b".toList ++ [NUL]) (by decide)).2 " a ".toList (" b".toList ++ [NUL])
      (by decide) (by decide)⟩

/-! ## Dots -/

/-- The switch of the lexer at three dots. -/
theorem lexToken_varArgs (fuel : Nat) (mem : List Char) (str : Nat) (sc : LexScope)
    (rest : List Char) (hm : mem.drop str = '.' :: '.' :: '.' :: rest) :
    lexToken fuel mem str sc =
      Except.ok ({ type := CPPTokenType.VarArgs, str := str, len := 3 }, str + 3, sc) := by
  have hr := readChar_of_drop hm
  have hd1 : mem.drop (str + 1) = '.' :: '.' :: rest := by
    have := @drop_add_of_drop mem str ['.'] ('.' :: '.' :: rest) (by simpa using hm)
    simpa using this
  have hd2 : mem.drop (str + 2) = '.' :: rest := by
    have := @drop_add_of_drop mem str ['.', '.'] ('.' :: rest) (by simpa using hm)
    simpa using this
  have hr1 := readChar_of_drop hd1
  have hr2 := readChar_of_drop hd2
  unfold lexToken
  rw [hr]
  simp only [bind, Except.bind]
  rw [if_neg (by decide), if_neg (by decide), if_neg (by decide), if_neg (by decide),
    if_neg (by decide), if_neg (by decide), if_neg (by decide), if_neg (by decide),
    if_neg (by decide), if_neg (by decide), if_neg (by decide), if_neg (by decide),
    if_neg (by decide), if_pos trivial, hr1]
  simp only [if_true, hr2, pure, Except.pure]

/-- The switch of the lexer at a dot that does not start three dots: a token of length
zero, the read position one character further. -/
theorem lexToken_dot (fuel : Nat) (mem : List Char) (str : Nat) (sc : LexScope)
    (d : Char) (rest : List Char) (hm : mem.drop str = '.' :: d :: rest)
    (hd : d ≠ '.' ∨ ∃ e rest2, rest = e :: rest2 ∧ e ≠ '.') :
    ∃ token : CPPToken, token.len = 0 ∧
      lexToken fuel mem str sc = Except.ok (token, str + 1, sc) := by
  have hr := readChar_of_drop hm
  have hd1 : mem.drop (str + 1) = d :: rest := by
    have := @drop_add_of_drop mem str ['.'] (d :: rest) (by simpa using hm)
    simpa using this
  have hr1 := readChar_of_drop hd1
  refine ⟨{ type := CPPTokenType.EndOfStream, str := str, len := 0 }, rfl, ?_⟩
  unfold lexToken
  rw [hr]
  simp only [bind, Except.bind]
  rw [if_neg (by decide), if_neg (by decide), if_neg (by decide), if_neg (by decide),
    if_neg (by decide), if_neg (by decide), if_neg (by decide), if_neg (by decide),
    if_neg (by decide), if_neg (by decide), if_neg (by decide), if_neg (by decide),
    if_neg (by decide), if_pos trivial, hr1]
  rcases hd with hd | ⟨e, rest2, hrest, he⟩
  · simp only [hd, if_false, pure, Except.pure]
  · by_cases hdd : d = '.'
    · have hd2 : mem.drop (str + 2) = e :: rest2 := by
        have := @drop_add_of_drop mem str ['.', d] (e :: rest2) (by simpa [hrest] using hm)
        simpa using this
      have hr2 := readChar_of_drop hd2
      simp only [hdd, if_true, hr2, he, if_false, pure, Except.pure]
    · simp only [hdd, if_false, pure, Except.pure]

/-- C15.  In an iteration of the lexer that meets a dot after the whitespace `ws`: when
the two characters after the dot are dots, the three dots give one `VarArgs` token of
length 3 that starts at the first dot, and the lexer goes on after the third dot;
otherwise the dot gives no token: the lexer goes on one character further with the
tokens and the depth counters it had. -/
theorem C15_three_dots_one_token_other_dots_skipped (mem : List Char) (lf : Bool) (fuel : Nat)
    (tokeniser : CPPTokeniser) (ptr : Nat) (sc : LexScope) (ws : List Char) (d e : Char)
    (rest : List Char)
    (hm : mem.drop ptr = ws ++ '.' :: d :: e :: rest)
    (hws : ∀ x ∈ ws, CharIsWhitespace x = true)
    (hroom : tokeniser.tokens.length < tokeniser.tokens_max) :
    lexPass mem lf (fuel + 1) tokeniser ptr sc =
      if d = '.' ∧ e = '.' then
        if lexStop lf sc = true then
          Except.ok ({ tokeniser with tokens := tokeniser.tokens ++
            [{ type := CPPTokenType.VarArgs, str := ptr + ws.length, len := 3 }] },
            ptr + ws.length + 3)
        else
          lexPass mem lf fuel { tokeniser with tokens := tokeniser.tokens ++
            [{ type := CPPTokenType.VarArgs, str := ptr + ws.length, len := 3 }] }
            (ptr + ws.length + 3) sc
      else lexPass mem lf fuel tokeniser (ptr + ws.length + 1) sc := by
  by_cases hde : d = '.' ∧ e = '.'
  · rw [if_pos hde]
    obtain ⟨rfl, rfl⟩ := hde
    exact lexPass_step mem lf fuel tokeniser ptr sc ws '.' ('.' :: '.' :: rest) _ _ _ hm hws
      (by decide) (by decide) hroom
      (lexToken_varArgs fuel mem (ptr + ws.length) sc rest (drop_add_of_drop hm)) (by simp)
  · rw [if_neg hde]
    obtain ⟨token, hlen, htok⟩ := lexToken_dot fuel mem (ptr + ws.length) sc d (e :: rest)
      (drop_add_of_drop hm)
      (by
        by_cases hd : d = '.'
        · exact Or.inr ⟨e, rest, rfl, fun he => hde ⟨hd, he⟩⟩
        · exact Or.inl hd)
    have hscan := scanWhile_append CharIsWhitespace ws '.' (d :: e :: rest) ptr hws (by decide)
    have hr := readChar_of_drop (drop_add_of_drop hm)
    conv_lhs => unfold lexPass
    rw [hm, hscan]
    simp only [bind, Except.bind]
    rw [hr]
    simp only [if_neg (show ('.' : Char) ≠ NUL by decide), hroom, not_true_eq_false, if_false,
      htok, hlen, if_true]

/-- C15, at the text `a.b ... {}`: after the token of `a`, the dot at offset 1 gives no
token and the lexer goes on at `b`; the three dots at offset 4 give one `VarArgs` token. -/
theorem C15_witness :
    lexPass (fileBuffer "a.b ... \x7b\x7d") false 6
        { tokens := [{ type := CPPTokenType.Identifier, str := 0, len := 1 }] } 1 {} =
      lexPass (fileBuffer "a.b ... \x7b\x7d") false 5
        { tokens := [{ type := CPPTokenType.Identifier, str := 0, len := 1 }] } 2 {} ∧
    lexPass (fileBuffer "a.b ... \x7b\x7d") false 6
        { tokens := [{ type := CPPTokenType.Identifier, str := 0, len := 1 },
                     { type := CPPTokenType.Identifier, str := 2, len := 1 }] } 3 {} =
      lexPass (fileBuffer "a.b ... \x7b\x7d") false 5
        { tokens := [{ type := CPPTokenType.Identifier, str := 0, len := 1 },
                     { type := CPPTokenType.Identifier, str := 2, len := 1 },
                     { type := CPPTokenType.VarArgs, str := 4, len := 3 }] } 7 {} :=
  ⟨C15_three_dots_one_token_other_dots_skipped (fileBuffer "a.b ... \x7b\x7d") false 5
      { tokens := [{ type := CPPTokenType.Identifier, str := 0, len := 1 }] } 1 {} [] 'b' ' '
      ("... \x7b\x7d".toList ++ [NUL]) (by decide) (by decide) (by decide),
   C15_three_dots_one_token_other_dots_skipped (fileBuffer "a.b ... \x7b\x7d") false 5
      { tokens := [{ type := CPPTokenType.Identifier, str := 0, len := 1 },
                   { type := CPPTokenType.Identifier, str := 2, len := 1 }] } 3 {} [' '] '.' '.'
      (" \x7b\x7d".toList ++ [NUL]) (by decide) (by decide) (by decide)⟩

/-- The lexer on `a.b ... .. x {}`: the tokens of `a`, `b`, the three dots, `x` and the
braces; the other dots give no token. -/
theorem lexer_dots_example :
    EnumOrStructOrFunctionLexer 20 (fileBuffer "a.b ... .. x \x7b\x7d") {} 0 false =
      Except.ok ({ tokens := [{ type := CPPTokenType.Identifier, str := 0, len := 1 },
                              { type := CPPTokenType.Identifier, str := 2, len := 1 },
                              { type := CPPTokenType.VarArgs, str := 4, len := 3 },
                              { type := CPPTokenType.Identifier, str := 11, len := 1 },
                              { type := CPPTokenType.LeftBrace, str := 13, len := 1 },
                              { type := CPPTokenType.RightBrace, str := 14, len := 1 }] }, 15) := by
  decide

/-! ## Numbers -/

/-- C16.  In an iteration of the lexer that meets a digit `c` after the whitespace `ws`:
the lexer makes one `Number` token that starts at the digit and whose text is the
maximal run `c :: cs` of characters that are digits or one of `x`, `b`, `e`, `.`, `f`
(the character `d` after the run is none of them); the lexer goes on right after the run.
Nothing else is checked about the text of the number. -/
theorem C16_number_token_is_maximal_run (mem : List Char) (lf : Bool) (fuel : Nat)
    (tokeniser : CPPTokeniser) (ptr : Nat) (sc : LexScope) (ws : List Char) (c : Char)
    (cs : List Char) (d : Char) (rest : List Char)
    (hm : mem.drop ptr = ws ++ (c :: cs) ++ d :: rest)
    (hws : ∀ x ∈ ws, CharIsWhitespace x = true)
    (hc : CharIsDigit c = true)
    (hcs : ∀ x ∈ cs, (CharIsDigit x || x == 'x' || x == 'b' || x == 'e' || x == '.' || x == 'f')
      = true)
    (hd : (CharIsDigit d || d == 'x' || d == 'b' || d == 'e' || d == '.' || d == 'f') = false)
    (hroom : tokeniser.tokens.length < tokeniser.tokens_max) :
    lexPass mem lf (fuel + 1) tokeniser ptr sc =
      if lexStop lf sc = true then
        Except.ok ({ tokeniser with tokens := tokeniser.tokens ++
          [{ type := CPPTokenType.Number, str := ptr + ws.length, len := (c :: cs).length }] },
          ptr + ws.length + (c :: cs).length)
      else
        lexPass mem lf fuel { tokeniser with tokens := tokeniser.tokens ++
          [{ type := CPPTokenType.Number, str := ptr + ws.length, len := (c :: cs).length }] }
          (ptr + ws.length + (c :: cs).length) sc := by
  have hm' : mem.drop ptr = ws ++ c :: (cs ++ d :: rest) := by
    rw [hm]; simp [List.append_assoc]
  have hfacts := charIsDigit_facts hc
  have htok := lexToken_number fuel mem (ptr + ws.length) sc c cs d rest
    (by
      have := drop_add_of_drop hm'
      simpa using this)
    hc hcs hd
  exact lexPass_step mem lf fuel tokeniser ptr sc ws c (cs ++ d :: rest) _ _ _ hm' hws
    hfacts.2.2.2.2.2.2.2.2.2.2.2.2.2.2.2.2.1 hfacts.2.2.2.2.2.2.2.2.2.2.2.2.2.2.2.2.2 hroom htok
    (by simp only [ne_eq, Int.natCast_eq_zero, List.length_cons]; omega)

/-- C16, at `1.5f;` and at `0xFF;`: `1.5f` is one `Number` token; of `0xFF` the `Number`
token is `0x`, and the lexer goes on at `FF`. -/
theorem C16_witness :
    lexPass (fileBuffer "1.5f;") false 6 {} 0 {} =
      lexPass (fileBuffer "1.5f;") false 5
        { tokens := [{ type := CPPTokenType.Number, str := 0, len := 4 }] } 4 {} ∧
    lexPass (fileBuffer " 0xFF;") false 6 {} 0 {} =
      lexPass (fileBuffer " 0xFF;") false 5
        { tokens := [{ type := CPPTokenType.Number, str := 1, len := 2 }] } 3 {} :=
  ⟨C16_number_token_is_maximal_run (fileBuffer "1.5f;") false 5 {} 0 {} [] '1' ".5f".toList ';'
      [NUL] (by decide) (by decide) (by decide) (by decide) (by decide) (by decide),
   C16_number_token_is_maximal_run (fileBuffer " 0xFF;") false 5 {} 0 {} [' '] '0' ['x'] 'F'
      ['F', ';', NUL] (by decide) (by decide) (by decide) (by decide) (by decide) (by decide)⟩

/-- The lexer on `1.5f 0xFF x {}`: `1.5f` is one number, `0xFF` is the number `0x` and the
identifier `FF`. -/
theorem lexer_numbers_example :
    EnumOrStructOrFunctionLexer 20 (fileBuffer "1.5f 0xFF x \x7b\x7d") {} 0 false =
      Except.ok ({ tokens := [{ type := CPPTokenType.Number, str := 0, len := 4 },
                              { type := CPPTokenType.Number, str := 5, len := 2 },
                              { type := CPPTokenType.Identifier, str := 7, len := 2 },
                              { type := CPPTokenType.Identifier, str := 10, len := 1 },
                              { type := CPPTokenType.LeftBrace, str := 12, len := 1 },
                              { type := CPPTokenType.RightBrace, str := 13, len := 1 }] }, 14) := by
  decide

/-! ## Identifiers and delimiters -/

/-- The tokens of some lexemes have the kinds and the texts of the lexemes, in order. -/
theorem lexemeTokens_spell (mem : List Char) : ∀ (ls : List Lexeme) (tail : List Char)
    (ptr : Nat), mem.drop ptr = renderLexemes ls ++ tail →
    (lexemeTokens ptr ls).map
        (fun t => (t.type, StringLiteral.text mem { str := t.str, len := t.len })) =
      ls.map (fun l => (l.type, l.text)) := by
  intro ls
  induction ls with
  | nil => intro tail ptr _; rfl
  | cons l ls ih =>
    intro tail ptr hm
    have hm1 : mem.drop ptr = l.render ++ (renderLexemes ls ++ tail) := by
      rw [hm]; simp [renderLexemes, List.append_assoc]
    have hat := drop_at_lexeme hm1
    have hafter := drop_after_lexeme hm1
    simp only [lexemeTokens, List.map_cons, ih tail _ hafter, text_at hat]

/-- C17.  One pass of the lexer over plain text made of the lexemes `ls`, each an
identifier (a letter or underscore, then letters, digits and underscores, up to a
character that is none of them) or one of the delimiters `{ } [ ] ( ) , ; = < > : *`,
with whitespace before each: when the test for the end of the scope succeeds first at
the last lexeme, or never succeeds and the text ends after the whitespace `ws`, the
lexer appends exactly one token per lexeme, in order, with the kind and the text of the
lexeme (a delimiter has length 1), and returns the offset where it stopped. -/
theorem C17_one_token_per_identifier_and_delimiter (mem : List Char) (lf : Bool)
    (ls : List Lexeme) (tail ws rest : List Char) (fuel : Nat) (tokeniser : CPPTokeniser)
    (ptr : Nat) (sc : LexScope)
    (hkind : ∀ l ∈ ls, l.type ≠ CPPTokenType.Number)
    (hwf : wellFormedLexemes ls tail = true)
    (hm : mem.drop ptr = renderLexemes ls ++ tail)
    (hrun : (StopsAtLast lf sc (lexemeTypes ls) ∧ ws = []) ∨
      (NeverStops lf sc (lexemeTypes ls) ∧ tail = ws ++ NUL :: rest ∧
        ∀ x ∈ ws, CharIsWhitespace x = true))
    (hroom : tokeniser.tokens.length + ls.length ≤ tokeniser.tokens_max)
    (hfuel : ls.length < fuel) :
    lexPass mem lf fuel tokeniser ptr sc =
      Except.ok ({ tokeniser with tokens := tokeniser.tokens ++ lexemeTokens ptr ls },
        ptr + (renderLexemes ls).length + ws.length) ∧
    (lexemeTokens ptr ls).map
        (fun t => (t.type, StringLiteral.text mem { str := t.str, len := t.len })) =
      ls.map (fun l => (l.type, l.text)) ∧
    ∀ l ∈ ls, (l.type = CPPTokenType.Identifier ∧
        ∃ c cs, l.text = c :: cs ∧ identStart c = true ∧ ∀ x ∈ cs, identRest x = true) ∨
      ∃ c, l.text = [c] ∧ (c, l.type) ∈ delimiterTable := by
  refine ⟨?_, lexemeTokens_spell mem ls tail ptr hm, ?_⟩
  · rcases hrun with ⟨hstop, rfl⟩ | ⟨hnever, rfl, hws⟩
    · rw [lexPass_lexemes_stop mem lf ls tail fuel tokeniser ptr sc hwf hm hstop hroom
        (by omega)]
      simp
    · exact lexPass_lexemes_end mem lf ls ws rest fuel tokeniser ptr sc hwf hm hws hnever hroom
        hfuel
  · intro l hl
    obtain ⟨follows, hlw⟩ := wellFormed_of_mem ls tail hwf l hl
    obtain ⟨-, hk⟩ := Lexeme.wellFormed_cases hlw
    rcases hk with ⟨c, hc, hd⟩ | ⟨hty, c, cs, hc, hs, hcs, -⟩ | ⟨hty, -⟩
    · exact Or.inr ⟨c, hc, hd⟩
    · exact Or.inl ⟨hty, c, cs, hc, hs, hcs⟩
    · exact absurd hty (hkind l hl)

/-- C17, at the text ` struct P { int x_1; } z` lexed as a struct: six lexemes up to the
closing brace, six tokens. -/
theorem C17_witness :
    lexPass (fileBuffer " struct P \x7b int x_1; \x7d z") false 10 {} 0 {} =
      Except.ok ({ tokens := (lexemeTokens 0
        [{ space := [' '], text := "struct".toList, type := CPPTokenType.Identifier },
         { space := [' '], text := "P".toList, type := CPPTokenType.Identifier },
         { space := [' '], text := ['\x7b'], type := CPPTokenType.LeftBrace },
         { space := [' '], text := "int".toList, type := CPPTokenType.Identifier },
         { space := [' '], text := "x_1".toList, type := CPPTokenType.Identifier },
         { space := [], text := [';'], type := CPPTokenType.SemiColon },
         { space := [' '], text := ['\x7d'], type := CPPTokenType.RightBrace }]) }, 22) ∧
    (lexemeTokens 0
        [{ space := [' '], text := "struct".toList, type := CPPTokenType.Identifier },
         { space := [' '], text := "P".toList, type := CPPTokenType.Identifier },
         { space := [' '], text := ['\x7b'], type := CPPTokenType.LeftBrace },
         { space := [' '], text := "int".toList, type := CPPTokenType.Identifier },
         { space := [' '], text := "x_1".toList, type := CPPTokenType.Identifier },
         { space := [], text := [';'], type := CPPTokenType.SemiColon },
         { space := [' '], text := ['\x7d'], type := CPPTokenType.RightBrace }]).map
        (fun t => (t.type, StringLiteral.text (fileBuffer " struct P \x7b int x_1; \x7d z")
          { str := t.str, len := t.len })) =
      [(CPPTokenType.Identifier, "struct".toList), (CPPTokenType.Identifier, "P".toList),
       (CPPTokenType.LeftBrace, ['\x7b']), (CPPTokenType.Identifier, "int".toList),
       (CPPTokenType.Identifier, "x_1".toList), (CPPTokenType.SemiColon, [';']),
       (CPPTokenType.RightBrace, ['\x7d'])] :=
  have h := C17_one_token_per_identifier_and_delimiter
    (fileBuffer " struct P \x7b int x_1; \x7d z") false
    [{ space := [' '], text := "struct".toList, type := CPPTokenType.Identifier },
     { space := [' '], text := "P".toList, type := CPPTokenType.Identifier },
     { space := [' '], text := ['\x7b'], type := CPPTokenType.LeftBrace },
     { space := [' '], text := "int".toList, type := CPPTokenType.Identifier },
     { space := [' '], text := "x_1".toList, type := CPPTokenType.Identifier },
     { space := [], text := [';'], type := CPPTokenType.SemiColon },
     { space := [' '], text := ['\x7d'], type := CPPTokenType.RightBrace }]
    [' ', 'z', NUL] [] [] 10 {} 0 {} (by decide) (by decide) (by decide)
    (Or.inl ⟨by decide, rfl⟩) (by decide) (by decide)
  ⟨h.1, h.2.1⟩

/-! ## Generic arguments -/

theorem noTemplateText_append {ds : List (CPPDeclLinkedList CPPVariableDecl)}
    {d : CPPDeclLinkedList CPPVariableDecl} (h : NoTemplateText ds)
    (hd : d.value.template_expr.len ≤ 0) : NoTemplateText (ds ++ [d]) := by
  intro x hx
  rcases List.mem_append.1 hx with h1 | h1
  · exact h x h1
  · simp at h1; subst h1; exact hd

theorem bind_eq_ok {ε α β : Type} {x : Except ε α} {f : α → Except ε β} {r : β}
    (h : (x >>= f) = Except.ok r) : ∃ a, x = Except.ok a ∧ f a = Except.ok r := by
  cases x with
  | error e => simp [bind, Except.bind] at h
  | ok a => exact ⟨a, rfl, h⟩

theorem declLoop_noTemplateText_step (mem : List Char) (pfp : Bool) (fuel : Nat)
    (ihLoop : ∀ tk vt token result r, NoTemplateText result →
      declLoop mem pfp fuel tk vt token result = Except.ok r → NoTemplateText r.1)
    (ihTail : ∀ tk vt token result r, NoTemplateText result →
      declTail mem pfp fuel tk vt token result = Except.ok r → NoTemplateText r.1) :
    ∀ tk vt token result r, NoTemplateText result →
      declLoop mem pfp (fuel + 1) tk vt token result = Except.ok r → NoTemplateText r.1 := by
  intro tk vt token result r hres h
  unfold declLoop at h
  obtain ⟨d, hd, h⟩ := bind_eq_ok h
  rename_i h0
  clear h0
  obtain ⟨accepted, token1, tk1⟩ := d
  simp -zeta only [] at h
  lift_lets at h
  extract_lets l1 jp1 at h
  have hjp1 : ∀ x, x.1.len ≤ 0 → jp1 x = Except.ok r → NoTemplateText r.1 := by
    intro x hx h1
    simp -zeta only [jp1] at h1
    lift_lets at h1
    extract_lets jp2 at h1
    have hjp2 : ∀ y, jp2 y = Except.ok r → NoTemplateText r.1 := by
      intro y h2
      simp -zeta only [jp2] at h2
      lift_lets at h2
      extract_lets peeked vtl jp3 at h2
      have hjp3 : ∀ z, jp3 z = Except.ok r → NoTemplateText r.1 := by
        intro z h3
        simp -zeta only [jp3] at h3
        obtain ⟨a, ha, h3⟩ := bind_eq_ok h3
        lift_lets at h3
        extract_lets value jp4 at h3
        have hjp4 : ∀ w, jp4 w = Except.ok r → NoTemplateText r.1 := by
          intro w h4
          simp -zeta only [jp4] at h4
          split at h4
          · obtain ⟨b, hb, h4⟩ := bind_eq_ok h4
            obtain ⟨c, hc, h4⟩ := bind_eq_ok h4
            simp only [] at h4
            split at h4
            · refine ihLoop _ _ _ _ _ (noTemplateText_append hres ?_) h4
              exact hx
            · refine ihTail _ _ _ _ _ (noTemplateText_append hres ?_) h4
              exact hx
          · refine ihTail _ _ _ _ _ (noTemplateText_append hres ?_) h4
            exact hx
        split at h3
        · obtain ⟨b, hb, h3⟩ := bind_eq_ok h3
          simp only [pure_bind] at h3
          exact hjp4 (List.map (fun node => node.value) b.1, CPPTokeniser_PeekToken b.2, b.2) h3
        · simp only [pure_bind] at h3
          exact hjp4 ([], a.1, a.2.2) h3
      split at h2
      · simp only [pure, Except.pure, Except.ok.injEq] at h2
        subst h2
        exact hres
      · split at h2
        · obtain ⟨b, hb, h2⟩ := bind_eq_ok h2
          simp only [pure_bind] at h2
          exact hjp3 _ h2
        · simp only [pure_bind] at h2
          exact hjp3 _ h2
    obtain ⟨a, ha, h1⟩ := bind_eq_ok h1
    obtain ⟨b, hb, h1⟩ := bind_eq_ok h1
    split at h1
    · obtain ⟨c, hc, h1⟩ := bind_eq_ok h1
      obtain ⟨d, hd, h1⟩ := bind_eq_ok h1
      simp only [pure_bind] at h1
      exact hjp2 (a.1 + c.1, writeBack (writeBack (writeBack (writeBack l1 a.2.1) b.2.1) c.2.1) d.2.1,
        d.2.2) h1
    · simp only [pure_bind] at h1
      exact hjp2 (a.1, writeBack (writeBack l1 a.2.1) b.2.1, b.2.2) h1
  split at h
  · obtain ⟨d, hd, h⟩ := bind_eq_ok h
    simp only [pure_bind] at h
    split at h
    · exact hjp1 _ (by simp) h
    · exact hjp1 _ (by simp) h
  · simp only [pure_bind] at h
    exact hjp1 _ (by simp) h

theorem declTail_noTemplateText_step (mem : List Char) (pfp : Bool) (fuel : Nat)
    (ihLoop : ∀ tk vt token result r, NoTemplateText result →
      declLoop mem pfp fuel tk vt token result = Except.ok r → NoTemplateText r.1) :
    ∀ tk vt token result r, NoTemplateText result →
      declTail mem pfp (fuel + 1) tk vt token result = Except.ok r → NoTemplateText r.1 := by
  intro tk vt token result r hres h
  rw [declTail] at h
  split at h
  · simp only [pure_bind] at h
    split at h
    · obtain ⟨a, ha, h⟩ := bind_eq_ok h
      obtain ⟨b, hb, h⟩ := bind_eq_ok h
      exact ihLoop _ _ _ _ _ hres h
    · obtain ⟨b, hb, h⟩ := bind_eq_ok h
      exact ihLoop _ _ _ _ _ hres h
  · simp only [pure, Except.pure, Except.ok.injEq] at h
    subst h
    exact hres

theorem decl_noTemplateText (mem : List Char) (pfp : Bool) : ∀ fuel : Nat,
    (∀ tk vt token result r, NoTemplateText result →
      declLoop mem pfp fuel tk vt token result = Except.ok r → NoTemplateText r.1) ∧
    (∀ tk vt token result r, NoTemplateText result →
      declTail mem pfp fuel tk vt token result = Except.ok r → NoTemplateText r.1) := by
  intro fuel
  induction fuel with
  | zero =>
    constructor
    · intro tk vt token result r _ h
      unfold declLoop at h
      cases h
    · intro tk vt token result r _ h
      unfold declTail at h
      cases h
  | succ fuel ih =>
    exact ⟨declLoop_noTemplateText_step mem pfp fuel ih.1 ih.2,
      declTail_noTemplateText_step mem pfp fuel ih.1⟩

theorem parseDecl_noTemplateText (mem : List Char) (fuel : Nat) (tokeniser : CPPTokeniser)
    (pfp : Bool) (r : List (CPPDeclLinkedList CPPVariableDecl) × CPPTokeniser)
    (h : ParseCPPTypeAndVariableDecl mem fuel tokeniser pfp = Except.ok r) :
    NoTemplateText r.1 := by
  cases fuel with
  | zero =>
    unfold ParseCPPTypeAndVariableDecl at h
    cases h
  | succ fuel =>
    unfold ParseCPPTypeAndVariableDecl at h
    obtain ⟨a, ha, h⟩ := bind_eq_ok h
    simp only [] at h
    split at h
    · simp only [pure, Except.pure, Except.ok.injEq] at h
      subst h
      intro d hd
      cases hd
    · obtain ⟨b, hb, h⟩ := bind_eq_ok h
      exact (decl_noTemplateText mem pfp fuel).1 _ _ _ _ _ (fun d hd => by cases hd) h

theorem structLoop_noTemplateText (mem : List Char) (original_indent_level : Int) :
    ∀ (fuel : Nat) (token : CPPToken) (tokeniser : CPPTokeniser)
      (members : List (CPPDeclLinkedList CPPVariableDecl))
      (r : List (CPPDeclLinkedList CPPVariableDecl) × CPPTokeniser),
      NoTemplateText members →
      structLoop mem original_indent_level fuel token tokeniser members = Except.ok r →
      NoTemplateText r.1 := by
  intro fuel
  induction fuel with
  | zero =>
    intro token tokeniser members r _ h
    unfold structLoop at h
    cases h
  | succ fuel ih =>
    intro token tokeniser members r hmem h
    rw [structLoop] at h
    split at h
    · simp only [pure_bind] at h
      split at h
      · obtain ⟨c, hc, h⟩ := bind_eq_ok h
        obtain ⟨b, hb, h⟩ := bind_eq_ok h
        refine ih _ _ _ _ ?_ h
        intro d hd
        rcases List.mem_append.1 hd with h1 | h1
        · exact hmem d h1
        · exact parseDecl_noTemplateText mem fuel _ false c hc d h1
      · obtain ⟨b, hb, h⟩ := bind_eq_ok h
        exact ih _ _ _ _ hmem h
    · simp only [pure, Except.pure, Except.ok.injEq] at h
      subst h
      exact hmem

/-- C18.  Whatever `ParseCPPTypeAndVariableDecl` returns, none of the declarations it has
recorded carries a generic-argument text: for `Base<args> name` the text is taken from
`token.str + 1` to `token.str` at the closing `>`, a length of -1, and it stays empty
otherwise.  So every member descriptor says "no generic arguments", and the
member-descriptor array written from the declarations has `nullptr, 0` in every entry. -/
theorem C18_generic_arguments_are_never_recorded (mem : List Char) (fuel : Nat)
    (tokeniser : CPPTokeniser) (parse_function_param : Bool)
    (r : List (CPPDeclLinkedList CPPVariableDecl) × CPPTokeniser)
    (h : ParseCPPTypeAndVariableDecl mem fuel tokeniser parse_function_param = Except.ok r) :
    (∀ decl ∈ r.1, decl.value.template_expr.len ≤ 0) ∧
    (∀ decl ∈ r.1, (describeMember mem decl).template_expr = none) ∧
    ∀ out : CPPTokeniser,
      (writeStructMembers mem r.1 out).output_file =
        out.output_file ++
          memberEntries (fmtPad ((out.spaces_per_indent : Int) * out.indent_level))
            (fmtPad ((out.spaces_per_indent : Int) * (out.indent_level + 1)))
            (r.1.map (fun decl =>
              { type := fmtLit mem decl.value.type
                name := fmtLit mem decl.value.name
                template_expr := none
                array_dimensions := decl.value.array_dimensions })) := by
  have hno := parseDecl_noTemplateText mem fuel tokeniser parse_function_param r h
  have hdesc : ∀ decl ∈ r.1, describeMember mem decl =
      { type := fmtLit mem decl.value.type
        name := fmtLit mem decl.value.name
        template_expr := none
        array_dimensions := decl.value.array_dimensions } := by
    intro decl hd
    simp only [describeMember, hno decl hd, if_true]
  refine ⟨hno, ?_, ?_⟩
  · intro decl hd
    rw [hdesc decl hd]
  · intro out
    rw [writeStructMembers_eq, List.map_congr_left hdesc]
    rfl

/-- C18 at the member `Array<int> xs;` of `DQN_INSPECT struct S { Array<int> xs; };`, parsed
with the cursor on `Array`: one declaration is recorded, of type text `Array`, name `xs`
and a generic-argument text of length -1 that starts after the `>`. -/
theorem C18_witness :
    ParseCPPTypeAndVariableDecl (fileBuffer "DQN_INSPECT struct S \x7b Array<int> xs; \x7d;") 20
        { tokens :=
            [{ type := CPPTokenType.InspectCode, str := 0, len := 11 },
             { type := CPPTokenType.Identifier, str := 12, len := 6 },
             { type := CPPTokenType.Identifier, str := 19, len := 1 },
             { type := CPPTokenType.LeftBrace, str := 21, len := 1 },
             { type := CPPTokenType.Identifier, str := 23, len := 5 },
             { type := CPPTokenType.LessThan, str := 28, len := 1 },
             { type := CPPTokenType.Identifier, str := 29, len := 3 },
             { type := CPPTokenType.GreaterThan, str := 32, len := 1 },
             { type := CPPTokenType.Identifier, str := 34, len := 2 },
             { type := CPPTokenType.SemiColon, str := 36, len := 1 },
             { type := CPPTokenType.RightBrace, str := 38, len := 1 }]
          tokens_index := 4
          indent_level := 1 } false =
      Except.ok
        ([{ value :=
              { type := { str := 23, len := 5 }
                name := { str := 34, len := 2 }
                template_expr := { str := 33, len := -1 } } }],
         { tokens :=
            [{ type := CPPTokenType.InspectCode, str := 0, len := 11 },
             { type := CPPTokenType.Identifier, str := 12, len := 6 },
             { type := CPPTokenType.Identifier, str := 19, len := 1 },
             { type := CPPTokenType.LeftBrace, str := 21, len := 1 },
             { type := CPPTokenType.Identifier, str := 23, len := 5 },
             { type := CPPTokenType.LessThan, str := 28, len := 1 },
             { type := CPPTokenType.Identifier, str := 29, len := 3 },
             { type := CPPTokenType.GreaterThan, str := 32, len := 1 },
             { type := CPPTokenType.Identifier, str := 34, len := 2 },
             { type := CPPTokenType.SemiColon, str := 36, len := 1 },
             { type := CPPTokenType.RightBrace, str := 38, len := 1 }]
           tokens_index := 9
           indent_level := 1 }) ∧
    (describeMember (fileBuffer "DQN_INSPECT struct S \x7b Array<int> xs; \x7d;")
      { value :=
          { type := { str := 23, len := 5 }
            name := { str := 34, len := 2 }
            template_expr := { str := 33, len := -1 } } }).template_expr = none :=
  have h :
      ParseCPPTypeAndVariableDecl (fileBuffer "DQN_INSPECT struct S \x7b Array<int> xs; \x7d;") 20
          { tokens :=
              [{ type := CPPTokenType.InspectCode, str := 0, len := 11 },
               { type := CPPTokenType.Identifier, str := 12, len := 6 },
               { type := CPPTokenType.Identifier, str := 19, len := 1 },
               { type := CPPTokenType.LeftBrace, str := 21, len := 1 },
               { type := CPPTokenType.Identifier, str := 23, len := 5 },
               { type := CPPTokenType.LessThan, str := 28, len := 1 },
               { type := CPPTokenType.Identifier, str := 29, len := 3 },
               { type := CPPTokenType.GreaterThan, str := 32, len := 1 },
               { type := CPPTokenType.Identifier, str := 34, len := 2 },
               { type := CPPTokenType.SemiColon, str := 36, len := 1 },
               { type := CPPTokenType.RightBrace, str := 38, len := 1 }]
            tokens_index := 4
            indent_level := 1 } false =
        Except.ok
          ([{ value :=
                { type := { str := 23, len := 5 }
                  name := { str := 34, len := 2 }
                  template_expr := { str := 33, len := -1 } } }],
           { tokens :=
              [{ type := CPPTokenType.InspectCode, str := 0, len := 11 },
               { type := CPPTokenType.Identifier, str := 12, len := 6 },
               { type := CPPTokenType.Identifier, str := 19, len := 1 },
               { type := CPPTokenType.LeftBrace, str := 21, len := 1 },
               { type := CPPTokenType.Identifier, str := 23, len := 5 },
               { type := CPPTokenType.LessThan, str := 28, len := 1 },
               { type := CPPTokenType.Identifier, str := 29, len := 3 },
               { type := CPPTokenType.GreaterThan, str := 32, len := 1 },
               { type := CPPTokenType.Identifier, str := 34, len := 2 },
               { type := CPPTokenType.SemiColon, str := 36, len := 1 },
               { type := CPPTokenType.RightBrace, str := 38, len := 1 }]
             tokens_index := 9
             indent_level := 1 }) := by
    decide!
  ⟨h, (C18_generic_arguments_are_never_recorded _ 20 _ false _ h).2.1 _
    (List.mem_singleton.2 rfl)⟩

/-- The struct `struct S { Array<int> xs; };` lexed and parsed: the descriptor of the member
`xs` has the type text `Array`, the name text `xs` and no generic arguments, where the
text `int` would stand. -/
theorem generic_member_example :
    (EnumOrStructOrFunctionLexer 20 (fileBuffer " struct S \x7b Array<int> xs; \x7d;") {} 0 false >>=
      fun lexed => ParseCPPStruct 20 (fileBuffer " struct S \x7b Array<int> xs; \x7d;") lexed.1 >>=
      fun parsed => pure (parsed.1,
        parsed.2.1.members.map
          (describeMember (fileBuffer " struct S \x7b Array<int> xs; \x7d;"))))
      = Except.ok (true, [{ type := "Array".toList, name := "xs".toList, template_expr := none }]) := by
  decide!

/-! ## Indirection markers and array suffixes -/

/-- `ConsumeAsterisks` over a run of asterisks: it counts them all and hands back the
last one. -/
theorem consumeAsterisks_run : ∀ (stars : List CPPToken) (tk : CPPTokeniser)
    (pre : List CPPToken) (t : CPPToken) (post : List CPPToken) (fuel : Nat) (result : Int)
    (last : CPPToken),
    tk.tokens = pre ++ stars ++ t :: post → tk.tokens_index = pre.length →
    0 ≤ tk.indent_level → (∀ s ∈ stars, s.type = CPPTokenType.Asterisks) →
    t.type ≠ CPPTokenType.Asterisks → stars.length < fuel →
    ConsumeAsterisks fuel tk result last =
      Except.ok (result + stars.length, stars.getLast?.getD last,
        { tk with tokens_index := tk.tokens_index + stars.length }) := by
  intro stars
  induction stars with
  | nil =>
    intro tk pre t post fuel result last ht hi _ _ hta hfuel
    obtain ⟨f, rfl⟩ : ∃ f, fuel = f + 1 := ⟨fuel - 1, by simp at hfuel; omega⟩
    rw [consumeAsterisks_none f (getD_cursor (by simpa using ht) hi) hta]
    simp
  | cons s ss ih =>
    intro tk pre t post fuel result last ht hi h0 hs hta hfuel
    obtain ⟨f, rfl⟩ : ∃ f, fuel = f + 1 := ⟨fuel - 1, by simp at hfuel; omega⟩
    have hst : s.type = CPPTokenType.Asterisks := hs s (List.mem_cons_self _ _)
    have ht1 : tk.tokens = pre ++ s :: (ss ++ t :: post) := by simp [ht]
    have hg : tk.tokens.getD tk.tokens_index default = s := getD_cursor ht1 hi
    have e1 := next_plain_at tk pre s (ss ++ t :: post) ht1 hi h0
      (by rw [hst]; exact ⟨by decide, by decide, by decide⟩)
    have hrec := ih { tk with tokens_index := tk.tokens_index + 1 } (pre ++ [s]) t post f
      (result + 1) s (by simp [ht]) (by simp [hi]) h0
      (fun x hx => hs x (List.mem_cons_of_mem _ hx)) hta (by simp at hfuel; omega)
    unfold ConsumeAsterisks
    simp only [CPPTokeniser_PeekToken, hg, hst, if_true, bind, Except.bind, e1]
    rw [hrec]
    simp only [List.length_cons, Nat.cast_add, Nat.cast_one, Except.ok.injEq, Prod.mk.injEq]
    refine ⟨by ring, ?_, ?_⟩
    · cases ss with
      | nil => simp
      | cons a as =>
        rw [List.getLast?_cons_cons, List.getLast?_eq_getLast _ (List.cons_ne_nil a as)]
        rfl
    · simp [Nat.add_assoc, Nat.add_comm 1]

/-- `ConsumeConstIdentifier` at one `const`. -/
theorem consumeConst_one (mem : List Char) (tk : CPPTokeniser) (pre : List CPPToken)
    (c t : CPPToken) (post : List CPPToken) (fuel : Nat) (result : Bool) (last : CPPToken)
    (ht : tk.tokens = pre ++ c :: t :: post) (hi : tk.tokens_index = pre.length)
    (h0 : 0 ≤ tk.indent_level) (hc : IsIdentifierToken mem c "const" = true)
    (hnc : IsIdentifierToken mem t "const" = false) :
    ConsumeConstIdentifier mem (fuel + 2) tk result last =
      Except.ok (true, c, { tk with tokens_index := tk.tokens_index + 1 }) := by
  have hg : tk.tokens.getD tk.tokens_index default = c := getD_cursor ht hi
  have e1 := next_plain_at tk pre c (t :: post) ht hi h0
    (identifier_plain (isIdentifierToken_type hc))
  have hg2 : ({ tk with tokens_index := tk.tokens_index + 1 } : CPPTokeniser).tokens.getD
      ({ tk with tokens_index := tk.tokens_index + 1 } : CPPTokeniser).tokens_index default = t :=
    @getD_cursor _ (pre ++ [c]) t post (by simp [ht]) (by simp [hi])
  unfold ConsumeConstIdentifier
  simp only [CPPTokeniser_PeekToken, hg, hc, if_true, bind, Except.bind, e1]
  rw [consumeConst_none mem fuel hg2 hnc]

theorem braceDepthOk_nonneg {i : Int} {ts : List CPPToken} (h : BraceDepthOk i ts) : 0 ≤ i := by
  simpa [braceDepth_nil] using h 0 (Nat.zero_le _)

theorem braceDepthOk_left {i : Int} {xs ys : List CPPToken} (h : BraceDepthOk i (xs ++ ys)) :
    BraceDepthOk i xs := by
  intro j hj
  have := h j (by simp; omega)
  rwa [List.take_append_of_le_length hj] at this

theorem braceDepthOk_right {i : Int} {xs ys : List CPPToken} (h : BraceDepthOk i (xs ++ ys)) :
    BraceDepthOk (i + braceDepth xs) ys := by
  intro j hj
  have := h (xs.length + j) (by simp; omega)
  rw [List.take_append, braceDepth_append] at this
  omega

theorem braceDepthOk_plain {i : Int} (h : 0 ≤ i) (ts : List CPPToken)
    (hts : ∀ t ∈ ts, t.type ≠ CPPTokenType.LeftBrace ∧ t.type ≠ CPPTokenType.RightBrace) :
    BraceDepthOk i ts := by
  intro j _
  have : braceDepth (ts.take j) = 0 := by
    unfold braceDepth tokenTypes
    apply scopeDepth_of_absent
    intro ty hty
    obtain ⟨t, ht, rfl⟩ := List.mem_map.1 hty
    exact hts t (List.mem_of_mem_take ht)
  omega

/-- The inner loop of an array suffix: it takes the tokens up to the first closing
bracket, that bracket included. -/
theorem arrayInnerLoop_run : ∀ (e : List CPPToken) (tk : CPPTokeniser) (pre : List CPPToken)
    (rb : CPPToken) (post : List CPPToken) (token : CPPToken) (fuel : Nat),
    tk.tokens = pre ++ e ++ rb :: post → tk.tokens_index = pre.length →
    token.type ≠ CPPTokenType.RightSqBracket → token.type ≠ CPPTokenType.EndOfStream →
    (∀ x ∈ e, x.type ≠ CPPTokenType.RightSqBracket ∧ x.type ≠ CPPTokenType.EndOfStream) →
    rb.type = CPPTokenType.RightSqBracket →
    BraceDepthOk tk.indent_level e →
    e.length + 2 ≤ fuel →
    arrayInnerLoop fuel token tk =
      Except.ok (rb, { tk with tokens_index := tk.tokens_index + e.length + 1
                               indent_level := tk.indent_level + braceDepth e }) := by
  intro e
  induction e with
  | nil =>
    intro tk pre rb post token fuel ht hi ht1 ht2 _ hrb hdepth hfuel
    obtain ⟨f, rfl⟩ : ∃ f, fuel = f + 2 := ⟨fuel - 2, by simp at hfuel; omega⟩
    have h0 : 0 ≤ tk.indent_level := by simpa [braceDepth_nil] using hdepth 0 (Nat.le_refl _)
    have e1 := next_plain_at tk pre rb post (by simpa using ht) hi h0
      (by rw [hrb]; exact ⟨by decide, by decide, by decide⟩)
    rw [arrayInnerLoop]
    simp only [ne_eq, ht1, ht2, not_false_eq_true, and_self, if_true, bind, Except.bind, e1]
    rw [arrayInnerLoop]
    simp [hrb, braceDepth_nil, pure, Except.pure]
  | cons x xs ih =>
    intro tk pre rb post token fuel ht hi ht1 ht2 he hrb hdepth hfuel
    obtain ⟨f, rfl⟩ : ∃ f, fuel = f + 1 := ⟨fuel - 1, by simp at hfuel; omega⟩
    have hx := he x (List.mem_cons_self _ _)
    have ht' : tk.tokens = pre ++ x :: (xs ++ rb :: post) := by simp [ht]
    have hd1 : 0 ≤ tk.indent_level + braceDepth [x] := by
      simpa using hdepth 1 (by simp)
    have e1 := @next_token tk x (getD_cursor ht' hi) hx.2 hd1
    have hrec := ih { tk with tokens_index := tk.tokens_index + 1
                              indent_level := tk.indent_level + braceDepth [x] }
      (pre ++ [x]) rb post x f (by simp [ht]) (by simp [hi]) hx.1 hx.2
      (fun y hy => he y (List.mem_cons_of_mem _ hy)) hrb
      (by
        intro j hj
        have := hdepth (j + 1) (by simp; omega)
        rw [List.take_succ_cons, braceDepth_cons] at this
        simpa [Int.add_assoc] using this)
      (by simp at hfuel; omega)
    rw [arrayInnerLoop]
    simp only [ne_eq, ht1, ht2, not_false_eq_true, and_self, if_true, bind, Except.bind, e1]
    rw [hrec]
    simp only [List.length_cons, Except.ok.injEq, Prod.mk.injEq, true_and]
    rw [braceDepth_cons x xs]
    simp [Nat.add_assoc, Nat.add_comm 1, Int.add_assoc]

theorem suffixTokens_length_cons (g : CPPToken × List CPPToken × CPPToken)
    (gs : List (CPPToken × List CPPToken × CPPToken)) :
    (suffixTokens (g :: gs)).length = g.2.1.length + (suffixTokens gs).length + 2 := by
  simp [suffixTokens]; omega

/-- The loop over the array suffixes, entered at an opening bracket with `xs` the tokens
still to take before the closing bracket of that suffix: it adds one to the dimensions for
that suffix and one for each suffix that follows, and takes the token after the last
closing bracket. -/
theorem arrayLoop_run : ∀ (gs : List (CPPToken × List CPPToken × CPPToken))
    (tk : CPPTokeniser) (pre xs : List CPPToken) (rb after : CPPToken) (post : List CPPToken)
    (token : CPPToken) (fuel : Nat) (dims : Int),
    tk.tokens = pre ++ xs ++ rb :: (suffixTokens gs ++ after :: post) →
    tk.tokens_index = pre.length →
    token.type = CPPTokenType.LeftSqBracket →
    (∀ x ∈ xs, x.type ≠ CPPTokenType.RightSqBracket ∧ x.type ≠ CPPTokenType.EndOfStream) →
    rb.type = CPPTokenType.RightSqBracket →
    (∀ g ∈ gs, g.1.type = CPPTokenType.LeftSqBracket ∧
      (∀ x ∈ g.2.1, x.type ≠ CPPTokenType.RightSqBracket ∧ x.type ≠ CPPTokenType.EndOfStream) ∧
      g.2.2.type = CPPTokenType.RightSqBracket) →
    (after.type ≠ CPPTokenType.LeftSqBracket ∧ after.type ≠ CPPTokenType.EndOfStream ∧
      after.type ≠ CPPTokenType.LeftBrace ∧ after.type ≠ CPPTokenType.RightBrace) →
    BraceDepthOk tk.indent_level (xs ++ rb :: suffixTokens gs) →
    xs.length + (suffixTokens gs).length + 3 ≤ fuel →
    arrayLoop fuel token dims tk =
      Except.ok (after, dims + 1 + gs.length,
        { tk with
          tokens_index := tk.tokens_index + (xs ++ rb :: suffixTokens gs).length + 1
          indent_level := tk.indent_level + braceDepth (xs ++ rb :: suffixTokens gs) }) := by
  intro gs
  induction gs with
  | nil =>
    intro tk pre xs rb after post token fuel dims ht hi htok hxs hrb _ hafter hdepth hfuel
    obtain ⟨f, rfl⟩ : ∃ f, fuel = f + 2 := ⟨fuel - 2, by omega⟩
    simp only [suffixTokens, List.nil_append] at ht hdepth ⊢
    have hin := arrayInnerLoop_run xs tk pre rb (after :: post) token (f + 1) ht hi
      (by rw [htok]; decide) (by rw [htok]; decide) hxs hrb (braceDepthOk_left hdepth)
      (by simp [suffixTokens] at hfuel; omega)
    have hrb0 : braceDepth [rb] = 0 := by rw [braceDepth_single, hrb]; decide
    have h1 : (0 : Int) ≤ tk.indent_level + braceDepth xs :=
      braceDepthOk_nonneg (braceDepthOk_right hdepth)
    have e1 := next_plain_at
      { tk with tokens_index := tk.tokens_index + xs.length + 1
                indent_level := tk.indent_level + braceDepth xs }
      (pre ++ xs ++ [rb]) after post (by simp [ht]) (by simp [hi]; omega) h1
      ⟨hafter.2.1, hafter.2.2.1, hafter.2.2.2⟩
    rw [arrayLoop]
    simp only [htok, ne_eq, reduceCtorEq, not_false_eq_true, and_self, if_true, bind,
      Except.bind, hin, e1]
    rw [arrayLoop]
    simp only [hafter.1, false_and, if_false, pure, Except.pure, braceDepth_append, hrb0,
      List.length_append, List.length_singleton, List.length_nil, Nat.cast_zero, add_zero]
    rfl
  | cons g gs ih =>
    intro tk pre xs rb after post token fuel dims ht hi htok hxs hrb hgs hafter hdepth hfuel
    obtain ⟨f, rfl⟩ : ∃ f, fuel = f + 1 := ⟨fuel - 1, by omega⟩
    rw [suffixTokens_length_cons] at hfuel
    have hg := hgs g (List.mem_cons_self _ _)
    have hin := arrayInnerLoop_run xs tk pre rb (suffixTokens (g :: gs) ++ after :: post) token f
      ht hi (by rw [htok]; decide) (by rw [htok]; decide) hxs hrb (braceDepthOk_left hdepth)
      (by omega)
    have hrb0 : braceDepth [rb] = 0 := by rw [braceDepth_single, hrb]; decide
    have hlb0 : braceDepth [g.1] = 0 := by rw [braceDepth_single, hg.1]; decide
    have hd1 : BraceDepthOk (tk.indent_level + braceDepth xs) (rb :: suffixTokens (g :: gs)) :=
      braceDepthOk_right hdepth
    have h1 : (0 : Int) ≤ tk.indent_level + braceDepth xs := braceDepthOk_nonneg hd1
    have hd2 : BraceDepthOk (tk.indent_level + braceDepth xs)
        (g.2.1 ++ g.2.2 :: suffixTokens gs) := by
      have := @braceDepthOk_right (tk.indent_level + braceDepth xs) [rb, g.1]
        (g.2.1 ++ g.2.2 :: suffixTokens gs) (by simpa [suffixTokens] using hd1)
      rw [show [rb, g.1] = [rb] ++ [g.1] by rfl, braceDepth_append, hrb0, hlb0] at this
      simpa using this
    have e1 := next_plain_at
      { tk with tokens_index := tk.tokens_index + xs.length + 1
                indent_level := tk.indent_level + braceDepth xs }
      (pre ++ xs ++ [rb]) g.1 (g.2.1 ++ g.2.2 :: (suffixTokens gs ++ after :: post))
      (by simp [ht, suffixTokens]) (by simp [hi]; omega) h1
      (by rw [hg.1]; exact ⟨by decide, by decide, by decide⟩)
    have hrec := ih
      { tk with tokens_index := tk.tokens_index + xs.length + 1 + 1
                indent_level := tk.indent_level + braceDepth xs }
      (pre ++ xs ++ [rb, g.1]) g.2.1 g.2.2 after post g.1 f (dims + 1)
      (by simp [ht, suffixTokens]) (by simp [hi]; omega) hg.1 hg.2.1 hg.2.2
      (fun g' hg' => hgs g' (List.mem_cons_of_mem _ hg')) hafter hd2 (by omega)
    rw [arrayLoop]
    simp only [htok, ne_eq, reduceCtorEq, not_false_eq_true, and_self, if_true, bind,
      Except.bind, hin, e1]
    rw [hrec]
    simp only [Except.ok.injEq, Prod.mk.injEq, true_and, List.length_cons, Nat.cast_add,
      Nat.cast_one]
    refine ⟨by ring, ?_⟩
    have hbd : braceDepth (xs ++ rb :: suffixTokens (g :: gs)) =
        braceDepth xs + braceDepth (g.2.1 ++ g.2.2 :: suffixTokens gs) := by
      rw [show xs ++ rb :: suffixTokens (g :: gs) =
        xs ++ ([rb] ++ ([g.1] ++ (g.2.1 ++ g.2.2 :: suffixTokens gs))) by simp [suffixTokens],
        braceDepth_append, braceDepth_append, braceDepth_append, hrb0, hlb0]
      ring
    rw [hbd]
    simp [suffixTokens, Nat.add_assoc, Nat.add_comm 1, Int.add_assoc, Nat.add_left_comm]

/-- The loop over the array suffixes of a declaration, entered with the cursor on the token
after the name: one dimension for each suffix. -/
theorem arrayLoop_suffixes (gs : List (CPPToken × List CPPToken × CPPToken))
    (tk : CPPTokeniser) (pre : List CPPToken) (after : CPPToken) (post : List CPPToken)
    (fuel : Nat) (dims : Int)
    (ht : tk.tokens = pre ++ suffixTokens gs ++ after :: post)
    (hi : tk.tokens_index = pre.length)
    (hgs : ∀ g ∈ gs, g.1.type = CPPTokenType.LeftSqBracket ∧
      (∀ x ∈ g.2.1, x.type ≠ CPPTokenType.RightSqBracket ∧ x.type ≠ CPPTokenType.EndOfStream) ∧
      g.2.2.type = CPPTokenType.RightSqBracket)
    (hafter : after.type ≠ CPPTokenType.LeftSqBracket ∧ after.type ≠ CPPTokenType.EndOfStream ∧
      after.type ≠ CPPTokenType.LeftBrace ∧ after.type ≠ CPPTokenType.RightBrace)
    (hdepth : BraceDepthOk tk.indent_level (suffixTokens gs))
    (hfuel : (suffixTokens gs).length + 3 ≤ fuel) :
    arrayLoop fuel (CPPTokeniser_PeekToken tk) dims tk =
      Except.ok (after, dims + gs.length,
        { tk with
          tokens_index := tk.tokens_index + (suffixTokens gs).length + (if gs = [] then 0 else 1)
          indent_level := tk.indent_level + braceDepth (suffixTokens gs) }) := by
  cases gs with
  | nil =>
    obtain ⟨f, rfl⟩ : ∃ f, fuel = f + 1 := ⟨fuel - 1, by omega⟩
    have hg : tk.tokens.getD tk.tokens_index default = after :=
      getD_cursor (by simpa [suffixTokens] using ht) hi
    rw [arrayLoop]
    simp only [CPPTokeniser_PeekToken, hg, hafter.1, false_and, if_false, suffixTokens,
      braceDepth_nil, pure, Except.pure, List.length_nil, Nat.cast_zero, add_zero, if_true]
  | cons g gs =>
    have hg := hgs g (List.mem_cons_self _ _)
    have hpeek : tk.tokens.getD tk.tokens_index default = g.1 :=
      @getD_cursor tk pre g.1 (g.2.1 ++ g.2.2 :: (suffixTokens gs ++ after :: post))
        (by simp [ht, suffixTokens]) hi
    have hrun := arrayLoop_run gs tk pre (g.1 :: g.2.1) g.2.2 after post g.1 fuel dims
      (by simp [ht, suffixTokens]) hi hg.1
      (by
        intro x hx
        rcases List.mem_cons.1 hx with rfl | hx
        · rw [hg.1]; exact ⟨by decide, by decide⟩
        · exact hg.2.1 x hx)
      hg.2.2 (fun g' hg' => hgs g' (List.mem_cons_of_mem _ hg')) hafter
      (by simpa [suffixTokens] using hdepth)
      (by rw [suffixTokens_length_cons] at hfuel; simp; omega)
    simp only [CPPTokeniser_PeekToken, hpeek]
    rw [hrun]
    simp [suffixTokens, Nat.add_assoc, Nat.add_comm 1, Int.add_assoc, Int.add_comm 1]

/-- One turn of the loop of `ParseCPPTypeAndVariableDecl` at a declaration without generic
arguments, metadata and default value, from what its steps return: the indirection markers
before the `const`, the `const`, the markers after it, the name, the array suffixes. -/
theorem declLoop_steps (mem : List Char) (parse_function_param : Bool) (fuel : Nat)
    (tk tk1 tk2 tk3 tk4 tk5 : CPPTokeniser) (vt token name tok5 l1 l2 last : CPPToken)
    (c1 count dims : Int) (is_const : Bool)
    (result : List (CPPDeclLinkedList CPPVariableDecl))
    (hvt : vt.type = CPPTokenType.Identifier)
    (hlt : (CPPTokeniser_PeekToken tk).type ≠ CPPTokenType.LessThan)
    (h1 : ConsumeAsterisks fuel tk 0 {} = Except.ok (c1, l1, tk1))
    (h2 : ConsumeConstIdentifier mem fuel tk1 false {} = Except.ok (is_const, l2, tk2))
    (h3 : (is_const = false ∧ count = c1 ∧ last = writeBack (writeBack {} l1) l2 ∧ tk3 = tk2) ∨
      (is_const = true ∧ ∃ c2 l3 tk2a b l4,
        ConsumeAsterisks fuel tk2 0 {} = Except.ok (c2, l3, tk2a) ∧
        ConsumeConstIdentifier mem fuel tk2a false {} = Except.ok (b, l4, tk3) ∧
        count = c1 + c2 ∧
        last = writeBack (writeBack (writeBack (writeBack {} l1) l2) l3) l4))
    (hname : CPPTokeniser_PeekToken tk3 = name) (hnt : name.type = CPPTokenType.Identifier)
    (h4 : CPPTokeniser_NextToken tk3 = Except.ok (name, tk4))
    (h5 : arrayLoop fuel (CPPTokeniser_PeekToken tk4) count tk4 = Except.ok (tok5, dims, tk5))
    (hmeta : IsIdentifierToken mem tok5 "DQN_INSPECT_META" = false)
    (heq : tok5.type ≠ CPPTokenType.Equals) :
    declLoop mem parse_function_param (fuel + 1) tk vt token result =
      declTail mem parse_function_param fuel tk5 vt tok5
        (result ++ [{ metadata_list := []
                      value :=
                        { type :=
                            { str := vt.str
                              len := if last.type ≠ CPPTokenType.EndOfStream then
                                ((last.str : Int) - (vt.str : Int)) + 1 else vt.len }
                          name := { str := name.str, len := name.len }
                          array_dimensions := dims } }]) := by
  rw [declLoop]
  simp only [bind, Except.bind, CPPTokeniser_AcceptTokenIfType, hlt, if_false, pure, Except.pure,
    h1, h2]
  rcases h3 with ⟨hc, rfl, rfl, rfl⟩ | ⟨hc, c2, l3, tk2a, b, l4, h3a, h3b, rfl, rfl⟩
  · subst hc
    simp only [Bool.false_eq_true, if_false, hname, hvt, hnt, ne_eq, not_true_eq_false,
      and_false, if_true, h4, h5, hmeta, heq]
  · subst hc
    simp only [if_true, h3a, h3b, hname, hvt, hnt, ne_eq, not_true_eq_false,
      and_false, if_false, h4, h5, hmeta, heq, Bool.false_eq_true]

theorem asterisk_not_identifier (mem : List Char) {t : CPPToken} (s : String)
    (h : t.type = CPPTokenType.Asterisks) : IsIdentifierToken mem t s = false :=
  not_identifier_token_of_type (by rw [h]; decide)

/-- The first token of a run of asterisks followed by an identifier: it is no `<`, and it
is not `const` unless the identifier is. -/
theorem head_of_stars (mem : List Char) (stars : List CPPToken) (name : CPPToken)
    (rest : List CPPToken) (hs : ∀ s ∈ stars, s.type = CPPTokenType.Asterisks)
    (hn : name.type = CPPTokenType.Identifier) :
    ∃ h tl, stars ++ name :: rest = h :: tl ∧ h.type ≠ CPPTokenType.LessThan ∧
      (IsIdentifierToken mem name "const" = false → IsIdentifierToken mem h "const" = false) := by
  cases stars with
  | nil => exact ⟨name, rest, rfl, by rw [hn]; decide, fun h => h⟩
  | cons s ss =>
    have := hs s (List.mem_cons_self _ _)
    exact ⟨s, ss ++ name :: rest, rfl, by rw [this]; decide,
      fun _ => asterisk_not_identifier mem _ this⟩

/-- The loop of `ParseCPPTypeAndVariableDecl` at `*^a const *^b name [e1]...[ek]` followed
by a token that ends the declaration: one declaration with `a + b + k` dimensions. -/
theorem declLoop_pointer (mem : List Char) (parse_function_param : Bool) (tk : CPPTokeniser)
    (pre post starsA starsB : List CPPToken) (c : Option CPPToken)
    (vt token name after : CPPToken) (gs : List (CPPToken × List CPPToken × CPPToken))
    (f : Nat) (result : List (CPPDeclLinkedList CPPVariableDecl))
    (ht : tk.tokens =
      pre ++ (starsA ++ c.toList ++ starsB ++ name :: (suffixTokens gs ++ after :: post)))
    (hi : tk.tokens_index = pre.length)
    (hvt : vt.type = CPPTokenType.Identifier)
    (hA : ∀ s ∈ starsA, s.type = CPPTokenType.Asterisks)
    (hB : ∀ s ∈ starsB, s.type = CPPTokenType.Asterisks)
    (hc : ∀ x ∈ c, IsIdentifierToken mem x "const" = true)
    (hcB : c = none → starsB = [])
    (hname : name.type = CPPTokenType.Identifier ∧ IsIdentifierToken mem name "const" = false)
    (hgs : ∀ g ∈ gs, g.1.type = CPPTokenType.LeftSqBracket ∧
      (∀ x ∈ g.2.1, x.type ≠ CPPTokenType.RightSqBracket ∧ x.type ≠ CPPTokenType.EndOfStream) ∧
      g.2.2.type = CPPTokenType.RightSqBracket)
    (hafter : after.type ≠ CPPTokenType.LeftSqBracket ∧ after.type ≠ CPPTokenType.EndOfStream ∧
      after.type ≠ CPPTokenType.LeftBrace ∧ after.type ≠ CPPTokenType.RightBrace ∧
      after.type ≠ CPPTokenType.Equals ∧ after.type ≠ CPPTokenType.Comma ∧
      after.type ≠ CPPTokenType.Identifier)
    (hdepth : BraceDepthOk tk.indent_level (suffixTokens gs))
    (hfuel : starsA.length + starsB.length + (suffixTokens gs).length + 3 ≤ f) :
    ∃ decl : CPPDeclLinkedList CPPVariableDecl,
      declLoop mem parse_function_param (f + 1) tk vt token result =
        Except.ok
          (result ++ [decl],
           { tk with
             tokens_index := tk.tokens_index + (starsA ++ c.toList ++ starsB).length + 1
               + (suffixTokens gs).length + (if gs = [] then 0 else 1)
             indent_level := tk.indent_level + braceDepth (suffixTokens gs) }) ∧
      decl.value.array_dimensions = (starsA.length : Int) + starsB.length + gs.length ∧
      decl.value.name = { str := name.str, len := name.len } ∧
      decl.value.type.str = vt.str := by
  have h0 : 0 ≤ tk.indent_level := braceDepthOk_nonneg hdepth
  have hname_plain := identifier_plain hname.1
  -- the modifiers
  obtain ⟨c1, l1, tk1, is_const, l2, tk2, last, h1, h2, h3, hlt⟩ :
      ∃ (c1 : Int) (l1 : CPPToken) (tk1 : CPPTokeniser) (is_const : Bool) (l2 : CPPToken)
        (tk2 : CPPTokeniser) (last : CPPToken),
        ConsumeAsterisks f tk 0 {} = Except.ok (c1, l1, tk1) ∧
        ConsumeConstIdentifier mem f tk1 false {} = Except.ok (is_const, l2, tk2) ∧
        ((is_const = false ∧ (starsA.length : Int) + starsB.length = c1 ∧
            last = writeBack (writeBack {} l1) l2 ∧
            { tk with tokens_index := tk.tokens_index + (starsA ++ c.toList ++ starsB).length }
              = tk2) ∨
          (is_const = true ∧ ∃ c2 l3 tk2a b l4,
            ConsumeAsterisks f tk2 0 {} = Except.ok (c2, l3, tk2a) ∧
            ConsumeConstIdentifier mem f tk2a false {} = Except.ok (b, l4,
              { tk with
                tokens_index := tk.tokens_index + (starsA ++ c.toList ++ starsB).length }) ∧
            (starsA.length : Int) + starsB.length = c1 + c2 ∧
            last = writeBack (writeBack (writeBack (writeBack {} l1) l2) l3) l4)) ∧
        (CPPTokeniser_PeekToken tk).type ≠ CPPTokenType.LessThan := by
    cases c with
    | none =>
      have hB0 := hcB rfl
      subst hB0
      simp only [Option.toList, List.append_nil] at ht ⊢
      obtain ⟨g1, hg1⟩ : ∃ g, f = g + 1 := ⟨f - 1, by omega⟩
      have ha := consumeAsterisks_run starsA tk pre name (suffixTokens gs ++ after :: post) f 0
        {} (by simpa using ht) hi h0 hA (by rw [hname.1]; decide) (by omega)
      have hgn : ({ tk with tokens_index := tk.tokens_index + starsA.length } :
          CPPTokeniser).tokens.getD
          ({ tk with tokens_index := tk.tokens_index + starsA.length } :
            CPPTokeniser).tokens_index default = name :=
        @getD_cursor _ (pre ++ starsA) name (suffixTokens gs ++ after :: post)
          (by simp [ht]) (by simp [hi])
      have hb := consumeConst_none mem g1 hgn hname.2 false {}
      rw [← hg1] at hb
      obtain ⟨h, tl, hhead, hlt, _⟩ := head_of_stars mem starsA name
        (suffixTokens gs ++ after :: post) hA hname.1
      refine ⟨_, _, _, _, _, _, _, ha, hb, Or.inl ⟨rfl, by simp, rfl, rfl⟩, ?_⟩
      rw [CPPTokeniser_PeekToken, @getD_cursor tk pre h tl (by rw [ht, hhead]) hi]
      exact hlt
    | some cst =>
      have hcst := hc cst rfl
      have hcty := isIdentifierToken_type hcst
      simp only [Option.toList] at ht ⊢
      obtain ⟨g1, hg1⟩ : ∃ g, f = g + 2 := ⟨f - 2, by omega⟩
      have ha := consumeAsterisks_run starsA tk pre cst
        (starsB ++ name :: (suffixTokens gs ++ after :: post)) f 0 {}
        (by simpa using ht) hi h0 hA (by rw [hcty]; decide) (by omega)
      obtain ⟨h, tl, hhead, _, hnc⟩ := head_of_stars mem starsB name
        (suffixTokens gs ++ after :: post) hB hname.1
      have hnc := hnc hname.2
      have hb := consumeConst_one mem { tk with tokens_index := tk.tokens_index + starsA.length }
        (pre ++ starsA) cst h tl g1 false {}
        (by simp [ht, ← hhead]) (by simp [hi]) h0 hcst hnc
      rw [← hg1] at hb
      have ha2 := consumeAsterisks_run starsB
        { tk with tokens_index := tk.tokens_index + starsA.length + 1 }
        (pre ++ starsA ++ [cst]) name (suffixTokens gs ++ after :: post) f 0 {}
        (by simp [ht]) (by simp [hi]; omega) h0 hB (by rw [hname.1]; decide) (by omega)
      have hgn : ({ tk with tokens_index := tk.tokens_index + starsA.length + 1 + starsB.length } :
          CPPTokeniser).tokens.getD
          ({ tk with tokens_index := tk.tokens_index + starsA.length + 1 + starsB.length } :
            CPPTokeniser).tokens_index default = name :=
        @getD_cursor _ (pre ++ starsA ++ [cst] ++ starsB) name (suffixTokens gs ++ after :: post)
          (by simp [ht]) (by simp [hi]; omega)
      have hb2 := consumeConst_none mem (g1 + 1) hgn hname.2 false {}
      rw [show g1 + 1 + 1 = f by omega] at hb2
      obtain ⟨h', tl', hhead', hlt, _⟩ := head_of_stars mem starsA cst
        (starsB ++ name :: (suffixTokens gs ++ after :: post)) hA hcty
      refine ⟨_, _, _, _, _, _, _, ha, hb, Or.inr ⟨rfl, _, _, _, false, {}, ha2, ?_, ?_, rfl⟩, ?_⟩
      · rw [hb2]
        simp [Nat.add_assoc, Nat.add_comm 1]
      · simp
      · rw [CPPTokeniser_PeekToken, @getD_cursor tk pre h' tl' (by rw [ht]; simp [← hhead']) hi]
        exact hlt
  -- the name and the suffixes
  have ht3 : tk.tokens = (pre ++ (starsA ++ c.toList ++ starsB)) ++
      name :: (suffixTokens gs ++ after :: post) := by
    rw [ht]; simp
  have hgn : CPPTokeniser_PeekToken
      { tk with tokens_index := tk.tokens_index + (starsA ++ c.toList ++ starsB).length } = name :=
    @getD_cursor _ (pre ++ (starsA ++ c.toList ++ starsB)) name
      (suffixTokens gs ++ after :: post) ht3 (by simp [hi])
  have h4 := next_plain_at
    { tk with tokens_index := tk.tokens_index + (starsA ++ c.toList ++ starsB).length }
    (pre ++ (starsA ++ c.toList ++ starsB)) name (suffixTokens gs ++ after :: post) ht3
    (by simp [hi]) h0 hname_plain
  have h5 := arrayLoop_suffixes gs
    { tk with tokens_index := tk.tokens_index + (starsA ++ c.toList ++ starsB).length + 1 }
    (pre ++ (starsA ++ c.toList ++ starsB) ++ [name]) after post f
    ((starsA.length : Int) + starsB.length)
    (by rw [ht3]; simp) (by simp [hi]; omega)
    hgs ⟨hafter.1, hafter.2.1, hafter.2.2.1, hafter.2.2.2.1⟩ hdepth (by omega)
  have hmeta : IsIdentifierToken mem after "DQN_INSPECT_META" = false :=
    not_identifier_token_of_type hafter.2.2.2.2.2.2
  have hsteps := declLoop_steps mem parse_function_param f tk tk1 tk2
    { tk with tokens_index := tk.tokens_index + (starsA ++ c.toList ++ starsB).length }
    _ _ vt token name after l1 l2 last c1 ((starsA.length : Int) + starsB.length) _ is_const
    result hvt hlt h1 h2 h3 hgn hname.1 h4 h5 hmeta hafter.2.2.2.2.1
  obtain ⟨g, rfl⟩ : ∃ g, f = g + 1 := ⟨f - 1, by omega⟩
  refine ⟨{ metadata_list := []
            value :=
              { type :=
                  { str := vt.str
                    len := if last.type ≠ CPPTokenType.EndOfStream then
                      ((last.str : Int) - (vt.str : Int)) + 1 else vt.len }
                name := { str := name.str, len := name.len }
                array_dimensions := (starsA.length : Int) + starsB.length + gs.length } },
    ?_, rfl, rfl, rfl⟩
  rw [hsteps, declTail, if_neg hafter.2.2.2.2.2.1]
  rfl

/-- C19 as amended.  A declaration written as a one-word type, `m` indirection markers, a
`const` or none, `n` more markers, a name and `k` array suffixes, where no suffix
expression holds a closing square bracket and the braces in them keep the brace depth of
the parser at or above zero, followed by a token that ends the declaration (none of `[`,
`=`, `,`, a brace, an identifier, the end of the stream): `ParseCPPTypeAndVariableDecl`
returns exactly one declaration, of that name, and its `array_dimensions` is
`m + n + k`. -/
theorem C19_array_dimensions_count_markers_and_suffixes (mem : List Char)
    (tk : CPPTokeniser) (pre post stars1 stars2 : List CPPToken) (c : Option CPPToken)
    (ty name after : CPPToken) (gs : List (CPPToken × List CPPToken × CPPToken))
    (fuel : Nat) (parse_function_param : Bool)
    (ht : tk.tokens =
      pre ++ ty :: (stars1 ++ c.toList ++ stars2 ++ name :: (suffixTokens gs ++ after :: post)))
    (hi : tk.tokens_index = pre.length)
    (hty : ty.type = CPPTokenType.Identifier)
    (hs1 : ∀ s ∈ stars1, s.type = CPPTokenType.Asterisks)
    (hs2 : ∀ s ∈ stars2, s.type = CPPTokenType.Asterisks)
    (hc : ∀ x ∈ c, IsIdentifierToken mem x "const" = true)
    (hname : name.type = CPPTokenType.Identifier ∧ IsIdentifierToken mem name "const" = false)
    (hgs : ∀ g ∈ gs, g.1.type = CPPTokenType.LeftSqBracket ∧
      (∀ x ∈ g.2.1, x.type ≠ CPPTokenType.RightSqBracket ∧ x.type ≠ CPPTokenType.EndOfStream) ∧
      g.2.2.type = CPPTokenType.RightSqBracket)
    (hafter : after.type ≠ CPPTokenType.LeftSqBracket ∧ after.type ≠ CPPTokenType.EndOfStream ∧
      after.type ≠ CPPTokenType.LeftBrace ∧ after.type ≠ CPPTokenType.RightBrace ∧
      after.type ≠ CPPTokenType.Equals ∧ after.type ≠ CPPTokenType.Comma ∧
      after.type ≠ CPPTokenType.Identifier)
    (hdepth : BraceDepthOk tk.indent_level (suffixTokens gs))
    (hfuel : stars1.length + stars2.length + (suffixTokens gs).length + 5 ≤ fuel) :
    ∃ decl : CPPDeclLinkedList CPPVariableDecl,
      ParseCPPTypeAndVariableDecl mem fuel tk parse_function_param =
        Except.ok ([decl],
          { tk with
            tokens_index := tk.tokens_index + (stars1 ++ c.toList ++ stars2).length + 2
              + (suffixTokens gs).length + (if gs = [] then 0 else 1)
            indent_level := tk.indent_level + braceDepth (suffixTokens gs) }) ∧
      decl.value.array_dimensions = (stars1.length : Int) + stars2.length + gs.length ∧
      decl.value.name = { str := name.str, len := name.len } ∧
      decl.value.type.str = ty.str := by
  obtain ⟨f, rfl⟩ : ∃ f, fuel = f + 2 := ⟨fuel - 2, by omega⟩
  have h0 : 0 ≤ tk.indent_level := braceDepthOk_nonneg hdepth
  have e1 := next_plain_at tk pre ty _ ht hi h0 (identifier_plain hty)
  rw [ParseCPPTypeAndVariableDecl]
  simp only [bind, Except.bind, e1, hty, ne_eq, not_true_eq_false, false_and, if_false]
  cases c with
  | none =>
    simp only [Option.toList, List.append_nil] at ht ⊢
    obtain ⟨h, tl, hhead, _, hnc⟩ := head_of_stars mem (stars1 ++ stars2) name
      (suffixTokens gs ++ after :: post)
      (fun s hs => (List.mem_append.1 hs).elim (hs1 s) (hs2 s)) hname.1
    have hg : ({ tk with tokens_index := tk.tokens_index + 1 } : CPPTokeniser).tokens.getD
        ({ tk with tokens_index := tk.tokens_index + 1 } : CPPTokeniser).tokens_index default = h :=
      @getD_cursor _ (pre ++ [ty]) h tl (by simp [ht, ← hhead]) (by simp [hi])
    rw [consumeConst_none mem f hg (hnc hname.2)]
    obtain ⟨decl, hrun, hd1, hd2, hd3⟩ := declLoop_pointer mem parse_function_param
      { tk with tokens_index := tk.tokens_index + 1 } (pre ++ [ty]) post (stars1 ++ stars2) []
      none ty ty name after gs f [] (by simp [ht]) (by simp [hi]) hty
      (fun s hs => (List.mem_append.1 hs).elim (hs1 s) (hs2 s)) (by simp) (by simp)
      (fun _ => rfl) hname hgs hafter hdepth (by simp; omega)
    refine ⟨decl, ?_, ?_, hd2, hd3⟩
    · simp only []
      rw [hrun]
      simp [Nat.add_assoc, Nat.add_comm 1, Nat.add_left_comm]
    · rw [hd1]; simp
  | some cst =>
    have hcst := hc cst rfl
    have hcty := isIdentifierToken_type hcst
    simp only [Option.toList] at ht ⊢
    cases stars1 with
    | nil =>
      simp only [List.nil_append] at ht ⊢
      obtain ⟨h, tl, hhead, _, hnc⟩ := head_of_stars mem stars2 name
        (suffixTokens gs ++ after :: post) hs2 hname.1
      obtain ⟨g, rfl⟩ : ∃ g, f = g + 1 := ⟨f - 1, by omega⟩
      have hco := consumeConst_one mem { tk with tokens_index := tk.tokens_index + 1 }
        (pre ++ [ty]) cst h tl g false {} (by simp [ht, ← hhead]) (by simp [hi]) h0 hcst
        (hnc hname.2)
      rw [hco]
      obtain ⟨decl, hrun, hd1, hd2, hd3⟩ := declLoop_pointer mem parse_function_param
        { tk with tokens_index := tk.tokens_index + 1 + 1 } (pre ++ [ty, cst]) post stars2 []
        none ty ty name after gs (g + 1) [] (by simp [ht]) (by simp [hi]) hty
        hs2 (by simp) (by simp) (fun _ => rfl) hname hgs hafter hdepth
        (by simp at hfuel ⊢; omega)
      refine ⟨decl, ?_, ?_, hd2, hd3⟩
      · simp only []
        rw [hrun]
        simp [Nat.add_assoc, Nat.add_comm 1, Nat.add_left_comm]
      · rw [hd1]; simp
    | cons s ss =>
      have hsty := hs1 s (List.mem_cons_self _ _)
      have hg : ({ tk with tokens_index := tk.tokens_index + 1 } : CPPTokeniser).tokens.getD
          ({ tk with tokens_index := tk.tokens_index + 1 } : CPPTokeniser).tokens_index default = s :=
        @getD_cursor _ (pre ++ [ty]) s
          (ss ++ [cst] ++ stars2 ++ name :: (suffixTokens gs ++ after :: post))
          (by simp [ht]) (by simp [hi])
      rw [consumeConst_none mem f hg (asterisk_not_identifier mem _ hsty)]
      obtain ⟨decl, hrun, hd1, hd2, hd3⟩ := declLoop_pointer mem parse_function_param
        { tk with tokens_index := tk.tokens_index + 1 } (pre ++ [ty]) post (s :: ss) stars2
        (some cst) ty ty name after gs f [] (by simp [ht]) (by simp [hi]) hty
        hs1 hs2 (fun x hx => by cases hx; exact hcst) (fun h => by cases h) hname hgs hafter
        hdepth (by simp at hfuel ⊢; omega)
      refine ⟨decl, ?_, hd1, hd2, hd3⟩
      simp only []
      rw [hrun]
      simp [Nat.add_assoc, Nat.add_comm 1, Nat.add_left_comm]

/-- C19, counterexample.  In `int a[b[1]][2];` the name is followed by two bracket pairs,
the first around the expression `b[1]`: the struct is lexed and parsed, and the member `a`
is recorded with one dimension, not two, because the suffix loop stops at the first `]`.
In `unsigned int *p;` the type has two words: the member recorded is named `int` and has
no dimension. -/
theorem C19_counterexample :
    (EnumOrStructOrFunctionLexer 30 (fileBuffer " struct S \x7b int a[b[1]][2]; \x7d;") {} 0 false >>=
      fun lexed => ParseCPPStruct 30 (fileBuffer " struct S \x7b int a[b[1]][2]; \x7d;") lexed.1 >>=
      fun parsed => pure (parsed.2.1.members.map (fun member =>
        (fmtLit (fileBuffer " struct S \x7b int a[b[1]][2]; \x7d;") member.value.name,
          member.value.array_dimensions))))
      = Except.ok [("a".toList, 1)] ∧
    (EnumOrStructOrFunctionLexer 30 (fileBuffer " struct S \x7b unsigned int *p; \x7d;") {} 0 false >>=
      fun lexed => ParseCPPStruct 30 (fileBuffer " struct S \x7b unsigned int *p; \x7d;") lexed.1 >>=
      fun parsed => pure (parsed.2.1.members.map (fun member =>
        (fmtLit (fileBuffer " struct S \x7b unsigned int *p; \x7d;") member.value.name,
          member.value.array_dimensions))))
      = Except.ok [("int".toList, 0)] := by
  constructor
  · decide!
  · decide!

/-- C19 as amended, at `int **p[4];` (two markers, no `const`, one suffix: 3 dimensions) and
at `int * const * q;` (a marker on each side of the `const`, no suffix: 2 dimensions). -/
theorem C19_witness :
    (∃ decl : CPPDeclLinkedList CPPVariableDecl,
      ParseCPPTypeAndVariableDecl (fileBuffer "int **p[4];") 20
        { tokens :=
            [{ type := CPPTokenType.Identifier, str := 0, len := 3 },
             { type := CPPTokenType.Asterisks, str := 4, len := 1 },
             { type := CPPTokenType.Asterisks, str := 5, len := 1 },
             { type := CPPTokenType.Identifier, str := 6, len := 1 },
             { type := CPPTokenType.LeftSqBracket, str := 7, len := 1 },
             { type := CPPTokenType.Number, str := 8, len := 1 },
             { type := CPPTokenType.RightSqBracket, str := 9, len := 1 },
             { type := CPPTokenType.SemiColon, str := 10, len := 1 }] } false =
        Except.ok ([decl],
          { tokens :=
            [{ type := CPPTokenType.Identifier, str := 0, len := 3 },
             { type := CPPTokenType.Asterisks, str := 4, len := 1 },
             { type := CPPTokenType.Asterisks, str := 5, len := 1 },
             { type := CPPTokenType.Identifier, str := 6, len := 1 },
             { type := CPPTokenType.LeftSqBracket, str := 7, len := 1 },
             { type := CPPTokenType.Number, str := 8, len := 1 },
             { type := CPPTokenType.RightSqBracket, str := 9, len := 1 },
             { type := CPPTokenType.SemiColon, str := 10, len := 1 }]
            tokens_index := 8 }) ∧
      decl.value.array_dimensions = 3 ∧
      decl.value.name = { str := 6, len := 1 } ∧
      decl.value.type.str = 0) ∧
    (∃ decl : CPPDeclLinkedList CPPVariableDecl,
      ParseCPPTypeAndVariableDecl (fileBuffer "int * const * q;") 20
        { tokens :=
            [{ type := CPPTokenType.Identifier, str := 0, len := 3 },
             { type := CPPTokenType.Asterisks, str := 4, len := 1 },
             { type := CPPTokenType.Identifier, str := 6, len := 5 },
             { type := CPPTokenType.Asterisks, str := 12, len := 1 },
             { type := CPPTokenType.Identifier, str := 14, len := 1 },
             { type := CPPTokenType.SemiColon, str := 15, len := 1 }] } false =
        Except.ok ([decl],
          { tokens :=
            [{ type := CPPTokenType.Identifier, str := 0, len := 3 },
             { type := CPPTokenType.Asterisks, str := 4, len := 1 },
             { type := CPPTokenType.Identifier, str := 6, len := 5 },
             { type := CPPTokenType.Asterisks, str := 12, len := 1 },
             { type := CPPTokenType.Identifier, str := 14, len := 1 },
             { type := CPPTokenType.SemiColon, str := 15, len := 1 }]
            tokens_index := 5 }) ∧
      decl.value.array_dimensions = 2 ∧
      decl.value.name = { str := 14, len := 1 } ∧
      decl.value.type.str = 0) :=
  ⟨C19_array_dimensions_count_markers_and_suffixes (fileBuffer "int **p[4];") _ [] []
      [{ type := CPPTokenType.Asterisks, str := 4, len := 1 },
       { type := CPPTokenType.Asterisks, str := 5, len := 1 }] [] none
      { type := CPPTokenType.Identifier, str := 0, len := 3 }
      { type := CPPTokenType.Identifier, str := 6, len := 1 }
      { type := CPPTokenType.SemiColon, str := 10, len := 1 }
      [({ type := CPPTokenType.LeftSqBracket, str := 7, len := 1 },
        [{ type := CPPTokenType.Number, str := 8, len := 1 }],
        { type := CPPTokenType.RightSqBracket, str := 9, len := 1 })]
      20 false rfl rfl rfl (by decide) (by decide) (by decide) (by decide) (by decide)
      (by decide) (by decide) (by decide),
   C19_array_dimensions_count_markers_and_suffixes (fileBuffer "int * const * q;") _ [] []
      [{ type := CPPTokenType.Asterisks, str := 4, len := 1 }]
      [{ type := CPPTokenType.Asterisks, str := 12, len := 1 }]
      (some { type := CPPTokenType.Identifier, str := 6, len := 5 })
      { type := CPPTokenType.Identifier, str := 0, len := 3 }
      { type := CPPTokenType.Identifier, str := 14, len := 1 }
      { type := CPPTokenType.SemiColon, str := 15, len := 1 }
      []
      20 false rfl rfl rfl (by decide) (by decide) (by decide) (by decide) (by decide)
      (by decide) (by decide) (by decide)⟩

/-! ## Default values made of two groups -/

/-- The loop of `SkipFunctionParam` that follows an opening parenthesis, over tokens that are
neither parentheses nor braces: it leaves the cursor on the closing parenthesis. -/
theorem skipScope_flat : ∀ (xs : List CPPToken) (tk : CPPTokeniser) (pre : List CPPToken)
    (cur rp : CPPToken) (post : List CPPToken) (fuel : Nat),
    tk.tokens = pre ++ cur :: (xs ++ rp :: post) → tk.tokens_index = pre.length →
    0 ≤ tk.indent_level →
    (cur.type ≠ CPPTokenType.EndOfStream ∧ cur.type ≠ CPPTokenType.LeftBrace ∧
      cur.type ≠ CPPTokenType.RightBrace) →
    (∀ x ∈ xs, x.type ≠ CPPTokenType.OpenParen ∧ x.type ≠ CPPTokenType.CloseParen ∧
      x.type ≠ CPPTokenType.EndOfStream ∧ x.type ≠ CPPTokenType.LeftBrace ∧
      x.type ≠ CPPTokenType.RightBrace) →
    rp.type = CPPTokenType.CloseParen → xs.length + 2 ≤ fuel →
    skipScope CPPTokenType.OpenParen CPPTokenType.CloseParen fuel 1 tk =
      Except.ok { tk with tokens_index := tk.tokens_index + 1 + xs.length } := by
  intro xs
  induction xs with
  | nil =>
    intro tk pre cur rp post fuel ht hi h0 hcur _ hrp hfuel
    obtain ⟨f, rfl⟩ : ∃ f, fuel = f + 2 := ⟨fuel - 2, by simp at hfuel; omega⟩
    have e1 := next_plain_at tk pre cur (rp :: post) (by simpa using ht) hi h0 hcur
    have hg : CPPTokeniser_PeekToken { tk with tokens_index := tk.tokens_index + 1 } = rp :=
      @getD_cursor _ (pre ++ [cur]) rp post (by simp [ht]) (by simp [hi])
    rw [skipScope]
    simp only [one_ne_zero, if_false, bind, Except.bind, e1, hg, hrp, reduceCtorEq, if_true]
    rw [skipScope]
    simp [pure, Except.pure]
  | cons x xs ih =>
    intro tk pre cur rp post fuel ht hi h0 hcur hxs hrp hfuel
    obtain ⟨f, rfl⟩ : ∃ f, fuel = f + 1 := ⟨fuel - 1, by simp at hfuel; omega⟩
    have hx := hxs x (List.mem_cons_self _ _)
    have e1 := next_plain_at tk pre cur (x :: (xs ++ rp :: post)) (by simpa using ht) hi h0 hcur
    have hg : CPPTokeniser_PeekToken { tk with tokens_index := tk.tokens_index + 1 } = x :=
      @getD_cursor _ (pre ++ [cur]) x (xs ++ rp :: post) (by simp [ht]) (by simp [hi])
    have hrec := ih { tk with tokens_index := tk.tokens_index + 1 } (pre ++ [cur]) x rp post f
      (by simp [ht]) (by simp [hi]) h0 ⟨hx.2.2.1, hx.2.2.2.1, hx.2.2.2.2⟩
      (fun y hy => hxs y (List.mem_cons_of_mem _ hy)) hrp (by simp at hfuel; omega)
    rw [skipScope]
    simp only [one_ne_zero, if_false, bind, Except.bind, e1, hg, hx.1, hx.2.1]
    rw [hrec]
    simp only [List.length_cons, Except.ok.injEq, CPPTokeniser.mk.injEq, and_true, true_and]
    omega

/-- `SkipFunctionParam` over tokens that are neither parentheses, braces nor commas: it
leaves the cursor on the closing parenthesis that follows them. -/
theorem skipFunctionParam_flat : ∀ (ys : List CPPToken) (tk : CPPTokeniser)
    (pre : List CPPToken) (rp : CPPToken) (post : List CPPToken) (fuel : Nat),
    tk.tokens = pre ++ ys ++ rp :: post → tk.tokens_index = pre.length →
    0 ≤ tk.indent_level →
    (∀ y ∈ ys, y.type ≠ CPPTokenType.OpenParen ∧ y.type ≠ CPPTokenType.CloseParen ∧
      y.type ≠ CPPTokenType.Comma ∧ y.type ≠ CPPTokenType.EndOfStream ∧
      y.type ≠ CPPTokenType.LeftBrace ∧ y.type ≠ CPPTokenType.RightBrace) →
    rp.type = CPPTokenType.CloseParen → ys.length + 1 ≤ fuel →
    SkipFunctionParam fuel tk =
      Except.ok { tk with tokens_index := tk.tokens_index + ys.length } := by
  intro ys
  induction ys with
  | nil =>
    intro tk pre rp post fuel ht hi _ _ hrp hfuel
    obtain ⟨f, rfl⟩ : ∃ f, fuel = f + 1 := ⟨fuel - 1, by simp at hfuel; omega⟩
    have hg : CPPTokeniser_PeekToken tk = rp := getD_cursor (by simpa using ht) hi
    rw [SkipFunctionParam]
    simp [hg, hrp, pure, Except.pure, bind, Except.bind]
  | cons y ys ih =>
    intro tk pre rp post fuel ht hi h0 hys hrp hfuel
    obtain ⟨f, rfl⟩ : ∃ f, fuel = f + 1 := ⟨fuel - 1, by simp at hfuel; omega⟩
    have hy := hys y (List.mem_cons_self _ _)
    have hg : CPPTokeniser_PeekToken tk = y :=
      @getD_cursor tk pre y (ys ++ rp :: post) (by simp [ht]) hi
    have e1 := next_plain_at tk pre y (ys ++ rp :: post) (by simp [ht]) hi h0
      ⟨hy.2.2.2.1, hy.2.2.2.2.1, hy.2.2.2.2.2⟩
    have hrec := ih { tk with tokens_index := tk.tokens_index + 1 } (pre ++ [y]) rp post f
      (by simp [ht]) (by simp [hi]) h0 (fun z hz => hys z (List.mem_cons_of_mem _ hz)) hrp
      (by simp at hfuel; omega)
    rw [SkipFunctionParam]
    simp only [hg, hy, if_false, pure, Except.pure, bind, Except.bind, e1]
    rw [hrec]
    simp [Nat.add_assoc, Nat.add_comm 1]

/-- `SkipFunctionParam` at a group in parentheses directly followed by a second group: the
first group is skipped as a whole, the opening parenthesis of the second is taken as an
ordinary token, and the skip ends on the parenthesis that closes the second group. -/
theorem skipFunctionParam_two_groups (tk : CPPTokeniser) (pre xs ys post : List CPPToken)
    (lp1 rp1 lp2 rp2 : CPPToken) (fuel : Nat)
    (ht : tk.tokens = pre ++ lp1 :: (xs ++ rp1 :: lp2 :: (ys ++ rp2 :: post)))
    (hi : tk.tokens_index = pre.length) (h0 : 0 ≤ tk.indent_level)
    (hlp1 : lp1.type = CPPTokenType.OpenParen) (hrp1 : rp1.type = CPPTokenType.CloseParen)
    (hlp2 : lp2.type = CPPTokenType.OpenParen) (hrp2 : rp2.type = CPPTokenType.CloseParen)
    (hxs : ∀ x ∈ xs, x.type ≠ CPPTokenType.OpenParen ∧ x.type ≠ CPPTokenType.CloseParen ∧
      x.type ≠ CPPTokenType.EndOfStream ∧ x.type ≠ CPPTokenType.LeftBrace ∧
      x.type ≠ CPPTokenType.RightBrace)
    (hys : ∀ y ∈ ys, y.type ≠ CPPTokenType.OpenParen ∧ y.type ≠ CPPTokenType.CloseParen ∧
      y.type ≠ CPPTokenType.Comma ∧ y.type ≠ CPPTokenType.EndOfStream ∧
      y.type ≠ CPPTokenType.LeftBrace ∧ y.type ≠ CPPTokenType.RightBrace)
    (hfuel : xs.length + ys.length + 3 ≤ fuel) :
    SkipFunctionParam fuel tk =
      Except.ok { tk with tokens_index := tk.tokens_index + xs.length + ys.length + 3 } := by
  obtain ⟨f, rfl⟩ : ∃ f, fuel = f + 1 := ⟨fuel - 1, by omega⟩
  have hg : CPPTokeniser_PeekToken tk = lp1 := getD_cursor ht hi
  have hscope := skipScope_flat xs tk pre lp1 rp1 (lp2 :: (ys ++ rp2 :: post)) f ht hi h0
    (by rw [hlp1]; exact ⟨by decide, by decide, by decide⟩) hxs hrp1 (by omega)
  have e1 := next_plain_at { tk with tokens_index := tk.tokens_index + 1 + xs.length }
    (pre ++ lp1 :: xs) rp1 (lp2 :: (ys ++ rp2 :: post)) (by simp [ht]) (by simp [hi]; omega) h0
    (by rw [hrp1]; exact ⟨by decide, by decide, by decide⟩)
  have hg2 : CPPTokeniser_PeekToken
      { tk with tokens_index := tk.tokens_index + 1 + xs.length + 1 } = lp2 :=
    @getD_cursor _ (pre ++ lp1 :: xs ++ [rp1]) lp2 (ys ++ rp2 :: post) (by simp [ht])
      (by simp [hi]; omega)
  have e2 := next_plain_at { tk with tokens_index := tk.tokens_index + 1 + xs.length + 1 }
    (pre ++ lp1 :: xs ++ [rp1]) lp2 (ys ++ rp2 :: post) (by simp [ht]) (by simp [hi]; omega) h0
    (by rw [hlp2]; exact ⟨by decide, by decide, by decide⟩)
  have hflat := skipFunctionParam_flat ys
    { tk with tokens_index := tk.tokens_index + 1 + xs.length + 1 + 1 }
    (pre ++ lp1 :: xs ++ [rp1, lp2]) rp2 post f (by simp [ht]) (by simp [hi]; omega) h0 hys hrp2
    (by omega)
  rw [SkipFunctionParam]
  simp only [hg, hlp1, reduceCtorEq, if_false, if_true, bind, Except.bind, hscope, e1, hg2,
    pure, Except.pure, hlp2, e2]
  rw [hflat]
  simp only [Except.ok.injEq, CPPTokeniser.mk.injEq, and_true, true_and]
  omega

/-- The body of the loop of `ParseCPPTypeAndVariableDecl` on a parameter with a default
value, from what `SkipFunctionParam` returns: the default recorded runs from the first
token of the value (from the opening quote when that token is a string) to the token the
skip has stopped at. -/
theorem declLoop_default_run (mem : List Char) (tk tkF : CPPTokeniser)
    (pre post : List CPPToken) (ty name eq first sep token : CPPToken) (fuel : Nat)
    (parse_function_param : Bool) (result : List (CPPDeclLinkedList CPPVariableDecl))
    (ht : tk.tokens = pre ++ name :: eq :: first :: post)
    (hi : tk.tokens_index = pre.length) (h0 : 0 ≤ tk.indent_level)
    (hty : ty.type = CPPTokenType.Identifier) (hname : name.type = CPPTokenType.Identifier)
    (hconst : IsIdentifierToken mem name "const" = false)
    (heq : eq.type = CPPTokenType.Equals)
    (hskip : SkipFunctionParam (fuel + 1) { tk with tokens_index := tk.tokens_index + 1 + 1 } =
      Except.ok tkF)
    (hpeek : CPPTokeniser_PeekToken tkF = sep)
    (hsep : sep.type = CPPTokenType.Comma ∨ sep.type = CPPTokenType.CloseParen) :
    declLoop mem parse_function_param (fuel + 2) tk ty token result =
      declTail mem parse_function_param (fuel + 1) tkF ty sep
        (result ++ [{ metadata_list := []
                      value :=
                        { type := { str := ty.str, len := ty.len }
                          name := { str := name.str, len := name.len }
                          default_value :=
                            { str := if first.type = CPPTokenType.String then first.str - 1
                                else first.str
                              len := (sep.str : Int) -
                                ((if first.type = CPPTokenType.String then first.str - 1
                                  else first.str : Nat) : Int) } } }]) := by
  have heqn : eq.type ≠ CPPTokenType.EndOfStream ∧ eq.type ≠ CPPTokenType.LeftBrace ∧
      eq.type ≠ CPPTokenType.RightBrace ∧ eq.type ≠ CPPTokenType.LeftSqBracket ∧
      eq.type ≠ CPPTokenType.Identifier := by
    rw [heq]; decide
  have hg1 : tk.tokens.getD tk.tokens_index default = name := getD_cursor ht hi
  have e2 := next_plain_at tk pre name (eq :: first :: post) ht hi h0 (identifier_plain hname)
  have hg2 : tk.tokens.getD (tk.tokens_index + 1) default = eq :=
    @getD_cursor { tk with tokens_index := tk.tokens_index + 1 } (pre ++ [name]) eq
      (first :: post) (by simp [ht]) (by simp [hi])
  have e3 := next_plain_at { tk with tokens_index := tk.tokens_index + 1 }
    (pre ++ [name]) eq (first :: post) (by simp [ht]) (by simp [hi]) h0
    ⟨heqn.1, heqn.2.1, heqn.2.2.1⟩
  have hg3 : tk.tokens.getD (tk.tokens_index + 1 + 1) default = first :=
    @getD_cursor { tk with tokens_index := tk.tokens_index + 1 + 1 }
      (pre ++ [name, eq]) first post (by simp [ht]) (by simp [hi])
  have harr : arrayLoop (fuel + 1) eq 0 { tk with tokens_index := tk.tokens_index + 1 } =
      Except.ok (eq, 0, { tk with tokens_index := tk.tokens_index + 1 }) := by
    rw [arrayLoop, if_neg (by simp [heqn.2.2.2.1])]
    rfl
  have hwb : writeBack (writeBack ({} : CPPToken) {}) {} = {} := by decide
  have hpeek' : tkF.tokens.getD tkF.tokens_index default = sep := hpeek
  rw [declLoop]
  simp only [bind, Except.bind, CPPTokeniser_AcceptTokenIfType, CPPTokeniser_PeekToken, hg1,
    hname, reduceCtorEq, if_false, pure, Except.pure]
  rw [consumeAsterisks_none fuel hg1 (by rw [hname]; decide)]
  simp only []
  rw [consumeConst_none mem fuel hg1 hconst]
  simp only [Bool.false_eq_true, if_false, hty, hg1, hname, ne_eq, not_true_eq_false, and_false,
    if_true, e2, hg2, harr, not_identifier_token_of_type heqn.2.2.2.2, heq, hwb, e3, hg3,
    hskip, hpeek']
  rcases hsep with h | h
  · simp [h]
  · simp [h]

/-- C20.  A parameter `T name = (xs)(ys)` whose default value is a group in parentheses
directly followed by a second group, `xs` and `ys` without parentheses and braces and `ys`
without commas (a cast such as `(int)(y)`).  The value is balanced, yet the default
recorded does not run to the comma or parenthesis that follows the value: it starts at the
first `(` and stops before the `)` that closes the second group, and the parser returns
with the cursor on that `)`, having recorded this one declaration. -/
theorem C20_default_value_stops_inside_a_second_group (mem : List Char) (tk : CPPTokeniser)
    (pre post xs ys : List CPPToken) (ty name eq lp1 rp1 lp2 rp2 : CPPToken) (fuel : Nat)
    (parse_function_param : Bool)
    (ht : tk.tokens =
      pre ++ ty :: name :: eq :: lp1 :: (xs ++ rp1 :: lp2 :: (ys ++ rp2 :: post)))
    (hi : tk.tokens_index = pre.length) (h0 : 0 ≤ tk.indent_level)
    (hty : ty.type = CPPTokenType.Identifier)
    (hname : name.type = CPPTokenType.Identifier ∧ IsIdentifierToken mem name "const" = false)
    (heq : eq.type = CPPTokenType.Equals)
    (hlp1 : lp1.type = CPPTokenType.OpenParen) (hrp1 : rp1.type = CPPTokenType.CloseParen)
    (hlp2 : lp2.type = CPPTokenType.OpenParen) (hrp2 : rp2.type = CPPTokenType.CloseParen)
    (hxs : ∀ x ∈ xs, x.type ≠ CPPTokenType.OpenParen ∧ x.type ≠ CPPTokenType.CloseParen ∧
      x.type ≠ CPPTokenType.EndOfStream ∧ x.type ≠ CPPTokenType.LeftBrace ∧
      x.type ≠ CPPTokenType.RightBrace)
    (hys : ∀ y ∈ ys, y.type ≠ CPPTokenType.OpenParen ∧ y.type ≠ CPPTokenType.CloseParen ∧
      y.type ≠ CPPTokenType.Comma ∧ y.type ≠ CPPTokenType.EndOfStream ∧
      y.type ≠ CPPTokenType.LeftBrace ∧ y.type ≠ CPPTokenType.RightBrace)
    (hfuel : xs.length + ys.length + 7 ≤ fuel) :
    ParseCPPTypeAndVariableDecl mem fuel tk parse_function_param =
      Except.ok
        ([{ metadata_list := []
            value :=
              { type := { str := ty.str, len := ty.len }
                name := { str := name.str, len := name.len }
                default_value :=
                  { str := lp1.str, len := (rp2.str : Int) - (lp1.str : Int) } } }],
         { tk with tokens_index := tk.tokens_index + xs.length + ys.length + 6 }) := by
  obtain ⟨f, rfl⟩ : ∃ f, fuel = f + 3 := ⟨fuel - 3, by omega⟩
  have e1 := next_plain_at tk pre ty _ ht hi h0 (identifier_plain hty)
  have hg1 : ({ tk with tokens_index := tk.tokens_index + 1 } : CPPTokeniser).tokens.getD
      ({ tk with tokens_index := tk.tokens_index + 1 } : CPPTokeniser).tokens_index default
        = name :=
    @getD_cursor _ (pre ++ [ty]) name
      (eq :: lp1 :: (xs ++ rp1 :: lp2 :: (ys ++ rp2 :: post))) (by simp [ht]) (by simp [hi])
  have hskip := skipFunctionParam_two_groups
    { tk with tokens_index := tk.tokens_index + 1 + 1 + 1 } (pre ++ [ty, name, eq]) xs ys post
    lp1 rp1 lp2 rp2 (f + 1) (by simp [ht]) (by simp [hi]) h0 hlp1 hrp1 hlp2 hrp2 hxs hys
    (by omega)
  have hpeek : CPPTokeniser_PeekToken
      { tk with tokens_index := tk.tokens_index + 1 + 1 + 1 + xs.length + ys.length + 3 } = rp2 :=
    @getD_cursor _ (pre ++ ty :: name :: eq :: lp1 :: (xs ++ rp1 :: lp2 :: ys)) rp2 post
      (by simp [ht]) (by simp [hi]; omega)
  have hrun := declLoop_default_run mem { tk with tokens_index := tk.tokens_index + 1 } _
    (pre ++ [ty]) (xs ++ rp1 :: lp2 :: (ys ++ rp2 :: post)) ty name eq lp1 rp2 ty f
    parse_function_param [] (by simp [ht]) (by simp [hi]) h0 hty hname.1 hname.2 heq hskip
    hpeek (Or.inr hrp2)
  rw [ParseCPPTypeAndVariableDecl]
  simp only [bind, Except.bind, e1, hty, ne_eq, not_true_eq_false, false_and, if_false]
  rw [consumeConst_none mem (f + 1) hg1 hname.2]
  simp only []
  rw [hrun, declTail, if_neg (by rw [hrp2]; decide)]
  simp only [hlp1, reduceCtorEq, if_false, pure, Except.pure, List.nil_append, Except.ok.injEq,
    Prod.mk.injEq, CPPTokeniser.mk.injEq, and_true, true_and]
  omega

/-- C20 at the parameter `int x = (int)(y)` of `void f(int x = (int)(y), int z);`, parsed with
the cursor on `int`: the default recorded is the 7 characters `(int)(y` from offset 48, and
the parser returns with the cursor on the parenthesis at offset 55. -/
theorem C20_witness :
    ParseCPPTypeAndVariableDecl
        (fileBuffer "DQN_INSPECT_GENERATE_PROTOTYPE()\nvoid f(int x = (int)(y), int z);") 20
        { tokens :=
            [{ type := CPPTokenType.InspectGeneratePrototype, str := 0, len := 65 },
             { type := CPPTokenType.OpenParen, str := 30, len := 1 },
             { type := CPPTokenType.CloseParen, str := 31, len := 1 },
             { type := CPPTokenType.Identifier, str := 33, len := 4 },
             { type := CPPTokenType.Identifier, str := 38, len := 1 },
             { type := CPPTokenType.OpenParen, str := 39, len := 1 },
             { type := CPPTokenType.Identifier, str := 40, len := 3 },
             { type := CPPTokenType.Identifier, str := 44, len := 1 },
             { type := CPPTokenType.Equals, str := 46, len := 1 },
             { type := CPPTokenType.OpenParen, str := 48, len := 1 },
             { type := CPPTokenType.Identifier, str := 49, len := 3 },
             { type := CPPTokenType.CloseParen, str := 52, len := 1 },
             { type := CPPTokenType.OpenParen, str := 53, len := 1 },
             { type := CPPTokenType.Identifier, str := 54, len := 1 },
             { type := CPPTokenType.CloseParen, str := 55, len := 1 },
             { type := CPPTokenType.Comma, str := 56, len := 1 },
             { type := CPPTokenType.Identifier, str := 58, len := 3 },
             { type := CPPTokenType.Identifier, str := 62, len := 1 },
             { type := CPPTokenType.CloseParen, str := 63, len := 1 },
             { type := CPPTokenType.EndOfStream }]
          tokens_index := 6 } true =
      Except.ok
        ([{ metadata_list := []
            value :=
              { type := { str := 40, len := 3 }
                name := { str := 44, len := 1 }
                default_value := { str := 48, len := 7 } } }],
         { tokens :=
            [{ type := CPPTokenType.InspectGeneratePrototype, str := 0, len := 65 },
             { type := CPPTokenType.OpenParen, str := 30, len := 1 },
             { type := CPPTokenType.CloseParen, str := 31, len := 1 },
             { type := CPPTokenType.Identifier, str := 33, len := 4 },
             { type := CPPTokenType.Identifier, str := 38, len := 1 },
             { type := CPPTokenType.OpenParen, str := 39, len := 1 },
             { type := CPPTokenType.Identifier, str := 40, len := 3 },
             { type := CPPTokenType.Identifier, str := 44, len := 1 },
             { type := CPPTokenType.Equals, str := 46, len := 1 },
             { type := CPPTokenType.OpenParen, str := 48, len := 1 },
             { type := CPPTokenType.Identifier, str := 49, len := 3 },
             { type := CPPTokenType.CloseParen, str := 52, len := 1 },
             { type := CPPTokenType.OpenParen, str := 53, len := 1 },
             { type := CPPTokenType.Identifier, str := 54, len := 1 },
             { type := CPPTokenType.CloseParen, str := 55, len := 1 },
             { type := CPPTokenType.Comma, str := 56, len := 1 },
             { type := CPPTokenType.Identifier, str := 58, len := 3 },
             { type := CPPTokenType.Identifier, str := 62, len := 1 },
             { type := CPPTokenType.CloseParen, str := 63, len := 1 },
             { type := CPPTokenType.EndOfStream }]
           tokens_index := 14 }) :=
  C20_default_value_stops_inside_a_second_group
    (fileBuffer "DQN_INSPECT_GENERATE_PROTOTYPE()\nvoid f(int x = (int)(y), int z);") _
    [{ type := CPPTokenType.InspectGeneratePrototype, str := 0, len := 65 },
     { type := CPPTokenType.OpenParen, str := 30, len := 1 },
     { type := CPPTokenType.CloseParen, str := 31, len := 1 },
     { type := CPPTokenType.Identifier, str := 33, len := 4 },
     { type := CPPTokenType.Identifier, str := 38, len := 1 },
     { type := CPPTokenType.OpenParen, str := 39, len := 1 }]
    [{ type := CPPTokenType.Comma, str := 56, len := 1 },
     { type := CPPTokenType.Identifier, str := 58, len := 3 },
     { type := CPPTokenType.Identifier, str := 62, len := 1 },
     { type := CPPTokenType.CloseParen, str := 63, len := 1 },
     { type := CPPTokenType.EndOfStream }]
    [{ type := CPPTokenType.Identifier, str := 49, len := 3 }]
    [{ type := CPPTokenType.Identifier, str := 54, len := 1 }]
    { type := CPPTokenType.Identifier, str := 40, len := 3 }
    { type := CPPTokenType.Identifier, str := 44, len := 1 }
    { type := CPPTokenType.Equals, str := 46, len := 1 }
    { type := CPPTokenType.OpenParen, str := 48, len := 1 }
    { type := CPPTokenType.CloseParen, str := 52, len := 1 }
    { type := CPPTokenType.OpenParen, str := 53, len := 1 }
    { type := CPPTokenType.CloseParen, str := 55, len := 1 }
    20 true rfl rfl (by decide) rfl (by decide) rfl rfl rfl rfl rfl (by decide) (by decide)
    (by decide)

/-- The whole run on a prototype whose first parameter has the default `(int)(y)`: the
default recorded is `(int)(y`, it stops at the parenthesis that closes `(y`, the second
parameter is not recorded and the prototype written is `void f(int x = (int)(y);`. -/
theorem default_after_cast_example :
    (inspectFile 40
        (fileBuffer "DQN_INSPECT_GENERATE_PROTOTYPE()\nvoid f(int x = (int)(y), int z);")
        InspectMode.All >>=
      fun r => pure (r.1.map (fun parser =>
          match parser with
          | ParsedResult.FunctionPrototype parsed_func =>
            parsed_func.members.map (describeParam
              (fileBuffer "DQN_INSPECT_GENERATE_PROTOTYPE()\nvoid f(int x = (int)(y), int z);"))
          | _ => []),
        r.2.output_file))
      = Except.ok ([[{ type := "int".toList, name := some "x".toList,
                       default_value := some "(int)(y".toList }]],
          "void f(int x = (int)(y);\n".toList) := by
  decide!

/-- The whole run on a prototype whose defaults are a call with two arguments, a string
literal with a comma in it and a list in braces: each default recorded runs from the first
character of the value (the opening quote for the string) to the comma or parenthesis
that follows the value. -/
theorem default_values_example :
    (inspectFile 60
        (fileBuffer "DQN_INSPECT_GENERATE_PROTOTYPE()\nvoid f(int x = g(1, 2), int z = \"a,b\", int w = \x7b1, 2\x7d);")
        InspectMode.All >>=
      fun r => pure (r.1.map (fun parser =>
          match parser with
          | ParsedResult.FunctionPrototype parsed_func =>
            parsed_func.members.map (describeParam
              (fileBuffer "DQN_INSPECT_GENERATE_PROTOTYPE()\nvoid f(int x = g(1, 2), int z = \"a,b\", int w = \x7b1, 2\x7d);"))
          | _ => [])))
      = Except.ok [[{ type := "int".toList, name := some "x".toList,
                      default_value := some "g(1, 2)".toList },
                    { type := "int".toList, name := some "z".toList,
                      default_value := some "\"a,b\"".toList },
                    { type := "int".toList, name := some "w".toList,
                      default_value := some "\x7b1, 2\x7d".toList }]] := by
  decide!

/-! ## Structs without a name -/

theorem isIdentifierToken_kind {mem : List Char} {t : CPPToken} {a : String}
    (ha : IsIdentifierToken mem t a = true) : t.type = CPPTokenType.Identifier := by
  unfold IsIdentifierToken at ha
  simp only [Bool.and_eq_true, beq_iff_eq] at ha
  exact ha.1

/-- `ParseCPPStruct` on `struct` or `class` directly followed by an opening brace: it runs
the loop over the body and then fails, whatever the loop gives. -/
theorem parseCPPStruct_unnamed (mem : List Char) (tokeniser : CPPTokeniser)
    (pre post : List CPPToken) (kw lb : CPPToken) (fuel : Nat)
    (ht : tokeniser.tokens = pre ++ kw :: lb :: post)
    (hi : tokeniser.tokens_index = pre.length) (h0 : 0 ≤ tokeniser.indent_level)
    (hkw : IsIdentifierToken mem kw "struct" = true ∨ IsIdentifierToken mem kw "class" = true)
    (hlb : lb.type = CPPTokenType.LeftBrace) :
    ParseCPPStruct fuel mem tokeniser =
      (CPPTokeniser_NextToken
          { tokeniser with tokens_index := tokeniser.tokens_index + 1 + 1
                           indent_level := tokeniser.indent_level + 1 } >>= fun r =>
        structLoop mem tokeniser.indent_level fuel r.1 r.2 [] >>= fun m =>
          pure (false, { members := m.1 }, m.2)) := by
  have hty : kw.type = CPPTokenType.Identifier := by
    rcases hkw with h | h <;> exact isIdentifierToken_kind h
  have n0 := next_plain_at tokeniser pre kw (lb :: post) ht hi h0 (identifier_plain hty)
  have n1 := next_leftBrace_at { tokeniser with tokens_index := tokeniser.tokens_index + 1 }
    (pre ++ [kw]) lb post (by simp [ht]) (by simp [hi]) h0 hlb
  have hcond : ¬ (¬ IsIdentifierToken mem kw "struct" = true ∧
      ¬ IsIdentifierToken mem kw "class" = true) := by
    rcases hkw with h | h <;> simp [h]
  unfold ParseCPPStruct
  simp only [bind, Except.bind, n0, expectToken_ok mem _ kw _ hty, not_true_eq_false, hcond,
    or_self, if_false, n1, hlb, ne_eq, pure, Except.pure]
  cases CPPTokeniser_NextToken
      { tokeniser with tokens_index := tokeniser.tokens_index + 1 + 1
                       indent_level := tokeniser.indent_level + 1 } with
  | error err => rfl
  | ok r =>
    simp only []
    cases structLoop mem tokeniser.indent_level fuel r.1 r.2 [] with
    | error err => rfl
    | ok m => rfl

/-! ## A body that the member loop never leaves -/

/-- The level loop of `SkipFunctionParam` at the end of the stream: `CPPTokeniser_NextToken`
does not move, the level does not change, the loop does not end. -/
theorem skipScope_eos (opener closer : CPPTokenType) (tk : CPPTokeniser) (eos : CPPToken)
    (hg : tk.tokens.getD tk.tokens_index default = eos)
    (he : eos.type = CPPTokenType.EndOfStream)
    (ho : opener ≠ CPPTokenType.EndOfStream) (hc : closer ≠ CPPTokenType.EndOfStream) :
    ∀ (fuel : Nat) (level : Int), level ≠ 0 →
      skipScope opener closer fuel level tk = Except.error Fault.outOfFuel := by
  intro fuel
  induction fuel with
  | zero => intro level _; rfl
  | succ f ih =>
    intro level hl
    have hpeek : CPPTokeniser_PeekToken tk = eos := hg
    rw [skipScope]
    simp only [hl, if_false, bind, Except.bind, next_end hg he, hpeek, he, ho.symm, hc.symm]
    exact ih level hl

/-- The level loop of `SkipFunctionParam` after an opening parenthesis that nothing closes
before the end of the stream: it does not end. -/
theorem skipScope_unclosed : ∀ (xs : List CPPToken) (tk : CPPTokeniser) (pre : List CPPToken)
    (cur eos : CPPToken) (post : List CPPToken),
    tk.tokens = pre ++ cur :: (xs ++ eos :: post) → tk.tokens_index = pre.length →
    cur.type ≠ CPPTokenType.EndOfStream → eos.type = CPPTokenType.EndOfStream →
    (∀ x ∈ xs, x.type ≠ CPPTokenType.OpenParen ∧ x.type ≠ CPPTokenType.CloseParen ∧
      x.type ≠ CPPTokenType.EndOfStream) →
    BraceDepthOk tk.indent_level (cur :: xs) →
    ∀ fuel : Nat,
      skipScope CPPTokenType.OpenParen CPPTokenType.CloseParen fuel 1 tk =
        Except.error Fault.outOfFuel := by
  intro xs
  induction xs with
  | nil =>
    intro tk pre cur eos post ht hi hcur he _ hdepth fuel
    cases fuel with
    | zero => rfl
    | succ f =>
      have hd1 : 0 ≤ tk.indent_level + braceDepth [cur] := by simpa using hdepth 1 (by simp)
      have e1 := @next_token tk cur (getD_cursor (by simpa using ht) hi) hcur hd1
      have hg : ({ tk with tokens_index := tk.tokens_index + 1
                           indent_level := tk.indent_level + braceDepth [cur] } :
          CPPTokeniser).tokens.getD
          ({ tk with tokens_index := tk.tokens_index + 1
                     indent_level := tk.indent_level + braceDepth [cur] } :
            CPPTokeniser).tokens_index default = eos :=
        @getD_cursor _ (pre ++ [cur]) eos post (by simp [ht]) (by simp [hi])
      have hpeek : CPPTokeniser_PeekToken
          { tk with tokens_index := tk.tokens_index + 1
                    indent_level := tk.indent_level + braceDepth [cur] } = eos := hg
      rw [skipScope]
      simp only [one_ne_zero, if_false, bind, Except.bind, e1, hpeek, he, reduceCtorEq]
      exact skipScope_eos _ _ _ eos hg he (by decide) (by decide) f 1 one_ne_zero
  | cons x xs ih =>
    intro tk pre cur eos post ht hi hcur he hxs hdepth fuel
    cases fuel with
    | zero => rfl
    | succ f =>
      have hx := hxs x (List.mem_cons_self _ _)
      have hd1 : 0 ≤ tk.indent_level + braceDepth [cur] := by simpa using hdepth 1 (by simp)
      have e1 := @next_token tk cur
        (@getD_cursor tk pre cur (x :: (xs ++ eos :: post)) (by simpa using ht) hi) hcur hd1
      have hpeek : CPPTokeniser_PeekToken
          { tk with tokens_index := tk.tokens_index + 1
                    indent_level := tk.indent_level + braceDepth [cur] } = x :=
        @getD_cursor _ (pre ++ [cur]) x (xs ++ eos :: post) (by simp [ht]) (by simp [hi])
      have hrec := ih
        { tk with tokens_index := tk.tokens_index + 1
                  indent_level := tk.indent_level + braceDepth [cur] }
        (pre ++ [cur]) x eos post (by simp [ht]) (by simp [hi]) hx.2.2 he
        (fun y hy => hxs y (List.mem_cons_of_mem _ hy))
        (@braceDepthOk_right tk.indent_level [cur] (x :: xs) (by simpa using hdepth)) f
      rw [skipScope]
      simp only [one_ne_zero, if_false, bind, Except.bind, e1, hpeek, hx.1, hx.2.1]
      exact hrec

/-- `SkipFunctionParam` at an opening parenthesis that nothing closes before the end of the
stream: it does not end. -/
theorem skipFunctionParam_unclosed (tk : CPPTokeniser) (pre xs post : List CPPToken)
    (lp eos : CPPToken)
    (ht : tk.tokens = pre ++ lp :: (xs ++ eos :: post)) (hi : tk.tokens_index = pre.length)
    (hlp : lp.type = CPPTokenType.OpenParen) (he : eos.type = CPPTokenType.EndOfStream)
    (hxs : ∀ x ∈ xs, x.type ≠ CPPTokenType.OpenParen ∧ x.type ≠ CPPTokenType.CloseParen ∧
      x.type ≠ CPPTokenType.EndOfStream)
    (hdepth : BraceDepthOk tk.indent_level (lp :: xs)) (fuel : Nat) :
    SkipFunctionParam fuel tk = Except.error Fault.outOfFuel := by
  cases fuel with
  | zero => rfl
  | succ f =>
    have hpeek : CPPTokeniser_PeekToken tk = lp := getD_cursor ht hi
    rw [SkipFunctionParam]
    simp only [hpeek, hlp, reduceCtorEq, if_false, if_true, bind, Except.bind,
      skipScope_unclosed xs tk pre lp eos post ht hi (by rw [hlp]; decide) he hxs hdepth f]

/-- The body of the loop of `ParseCPPTypeAndVariableDecl` on a declaration with a default
value: when `SkipFunctionParam` does not return, neither does the loop. -/
theorem declLoop_default_error (mem : List Char) (tk : CPPTokeniser)
    (pre post : List CPPToken) (ty name eq first token : CPPToken) (fuel : Nat)
    (parse_function_param : Bool) (result : List (CPPDeclLinkedList CPPVariableDecl))
    (e : Fault)
    (ht : tk.tokens = pre ++ name :: eq :: first :: post)
    (hi : tk.tokens_index = pre.length) (h0 : 0 ≤ tk.indent_level)
    (hty : ty.type = CPPTokenType.Identifier) (hname : name.type = CPPTokenType.Identifier)
    (hconst : IsIdentifierToken mem name "const" = false)
    (heq : eq.type = CPPTokenType.Equals)
    (hskip : SkipFunctionParam (fuel + 1) { tk with tokens_index := tk.tokens_index + 1 + 1 } =
      Except.error e) :
    declLoop mem parse_function_param (fuel + 2) tk ty token result = Except.error e := by
  have heqn : eq.type ≠ CPPTokenType.EndOfStream ∧ eq.type ≠ CPPTokenType.LeftBrace ∧
      eq.type ≠ CPPTokenType.RightBrace ∧ eq.type ≠ CPPTokenType.LeftSqBracket ∧
      eq.type ≠ CPPTokenType.Identifier := by
    rw [heq]; decide
  have hg1 : tk.tokens.getD tk.tokens_index default = name := getD_cursor ht hi
  have e2 := next_plain_at tk pre name (eq :: first :: post) ht hi h0 (identifier_plain hname)
  have hg2 : tk.tokens.getD (tk.tokens_index + 1) default = eq :=
    @getD_cursor { tk with tokens_index := tk.tokens_index + 1 } (pre ++ [name]) eq
      (first :: post) (by simp [ht]) (by simp [hi])
  have e3 := next_plain_at { tk with tokens_index := tk.tokens_index + 1 }
    (pre ++ [name]) eq (first :: post) (by simp [ht]) (by simp [hi]) h0
    ⟨heqn.1, heqn.2.1, heqn.2.2.1⟩
  have harr : arrayLoop (fuel + 1) eq 0 { tk with tokens_index := tk.tokens_index + 1 } =
      Except.ok (eq, 0, { tk with tokens_index := tk.tokens_index + 1 }) := by
    rw [arrayLoop, if_neg (by simp [heqn.2.2.2.1])]
    rfl
  rw [declLoop]
  simp only [bind, Except.bind, CPPTokeniser_AcceptTokenIfType, CPPTokeniser_PeekToken, hg1,
    hname, reduceCtorEq, if_false, pure, Except.pure]
  rw [consumeAsterisks_none fuel hg1 (by rw [hname]; decide)]
  simp only []
  rw [consumeConst_none mem fuel hg1 hconst]
  simp only [Bool.false_eq_true, if_false, hty, hg1, hname, ne_eq, not_true_eq_false, and_false,
    if_true, e2, hg2, harr, not_identifier_token_of_type heqn.2.2.2.2, heq, e3, hskip]

/-- `ParseCPPTypeAndVariableDecl` at `T name = (` where nothing closes the parenthesis
before the end of the stream: it does not return, whatever the fuel. -/
theorem parseDecl_unclosed (mem : List Char) (tk : CPPTokeniser) (pre xs post : List CPPToken)
    (ty name eq lp eos : CPPToken) (parse_function_param : Bool)
    (ht : tk.tokens = pre ++ ty :: name :: eq :: lp :: (xs ++ eos :: post))
    (hi : tk.tokens_index = pre.length)
    (hty : ty.type = CPPTokenType.Identifier)
    (hname : name.type = CPPTokenType.Identifier ∧ IsIdentifierToken mem name "const" = false)
    (heq : eq.type = CPPTokenType.Equals)
    (hlp : lp.type = CPPTokenType.OpenParen) (he : eos.type = CPPTokenType.EndOfStream)
    (hxs : ∀ x ∈ xs, x.type ≠ CPPTokenType.OpenParen ∧ x.type ≠ CPPTokenType.CloseParen ∧
      x.type ≠ CPPTokenType.EndOfStream)
    (hdepth : BraceDepthOk tk.indent_level (lp :: xs)) (fuel : Nat) :
    ParseCPPTypeAndVariableDecl mem fuel tk parse_function_param =
      Except.error Fault.outOfFuel := by
  have h0 : 0 ≤ tk.indent_level := braceDepthOk_nonneg hdepth
  have e1 := next_plain_at tk pre ty _ ht hi h0 (identifier_plain hty)
  have hg1 : ({ tk with tokens_index := tk.tokens_index + 1 } : CPPTokeniser).tokens.getD
      ({ tk with tokens_index := tk.tokens_index + 1 } : CPPTokeniser).tokens_index default
        = name :=
    @getD_cursor _ (pre ++ [ty]) name (eq :: lp :: (xs ++ eos :: post)) (by simp [ht])
      (by simp [hi])
  rcases fuel with _ | _ | _ | f
  · rfl
  · rw [ParseCPPTypeAndVariableDecl]
    simp only [bind, Except.bind, e1, hty, ne_eq, not_true_eq_false, false_and, if_false]
    rfl
  · rw [ParseCPPTypeAndVariableDecl]
    simp only [bind, Except.bind, e1, hty, ne_eq, not_true_eq_false, false_and, if_false]
    rw [consumeConst_none mem 0 hg1 hname.2]
    simp only []
    rw [declLoop]
    simp only [bind, Except.bind, CPPTokeniser_AcceptTokenIfType, CPPTokeniser_PeekToken, hg1,
      hname.1, reduceCtorEq, if_false, pure, Except.pure]
    rfl
  · have hskip := skipFunctionParam_unclosed
      { tk with tokens_index := tk.tokens_index + 1 + 1 + 1 } (pre ++ [ty, name, eq]) xs post
      lp eos (by simp [ht]) (by simp [hi]) hlp he hxs hdepth (f + 1)
    have hrun := declLoop_default_error mem { tk with tokens_index := tk.tokens_index + 1 }
      (pre ++ [ty]) (xs ++ eos :: post) ty name eq lp ty f parse_function_param []
      Fault.outOfFuel (by simp [ht]) (by simp [hi]) h0 hty hname.1 hname.2 heq hskip
    rw [ParseCPPTypeAndVariableDecl]
    simp only [bind, Except.bind, e1, hty, ne_eq, not_true_eq_false, false_and, if_false]
    rw [consumeConst_none mem (f + 1) hg1 hname.2]
    simp only []
    rw [hrun]

/-- `ParseCPPStruct` on `struct` or `class`, an opening brace and a first member
`T name = (` whose parenthesis nothing closes before the end of the stream: it does not
return, whatever the fuel. -/
theorem parseCPPStruct_unclosed (mem : List Char) (tk : CPPTokeniser)
    (pre xs post : List CPPToken) (kw lb ty name eq lp eos : CPPToken)
    (ht : tk.tokens = pre ++ kw :: lb :: ty :: name :: eq :: lp :: (xs ++ eos :: post))
    (hi : tk.tokens_index = pre.length) (h0 : 0 ≤ tk.indent_level)
    (hkw : IsIdentifierToken mem kw "struct" = true ∨ IsIdentifierToken mem kw "class" = true)
    (hlb : lb.type = CPPTokenType.LeftBrace)
    (hty : ty.type = CPPTokenType.Identifier)
    (hname : name.type = CPPTokenType.Identifier ∧ IsIdentifierToken mem name "const" = false)
    (heq : eq.type = CPPTokenType.Equals)
    (hlp : lp.type = CPPTokenType.OpenParen) (he : eos.type = CPPTokenType.EndOfStream)
    (hxs : ∀ x ∈ xs, x.type ≠ CPPTokenType.OpenParen ∧ x.type ≠ CPPTokenType.CloseParen ∧
      x.type ≠ CPPTokenType.EndOfStream)
    (hdepth : BraceDepthOk (tk.indent_level + 1) (lp :: xs)) (fuel : Nat) :
    ParseCPPStruct fuel mem tk = Except.error Fault.outOfFuel := by
  have hun := parseCPPStruct_unnamed mem tk pre
    (ty :: name :: eq :: lp :: (xs ++ eos :: post)) kw lb fuel ht hi h0 hkw hlb
  have e1 := next_plain_at
    { tk with tokens_index := tk.tokens_index + 1 + 1, indent_level := tk.indent_level + 1 }
    (pre ++ [kw, lb]) ty (name :: eq :: lp :: (xs ++ eos :: post)) (by simp [ht])
    (by simp [hi]) (by simp; omega) (identifier_plain hty)
  rw [hun, e1]
  simp only [bind, Except.bind]
  cases fuel with
  | zero => rfl
  | succ f =>
    rw [structLoop_decl mem tk.indent_level f ty _ [] (by simp) hty]
    have hdecl := parseDecl_unclosed mem
      (CPPTokeniser_RewindToken
        { tk with tokens_index := tk.tokens_index + 1 + 1 + 1
                  indent_level := tk.indent_level + 1 })
      (pre ++ [kw, lb]) xs post ty name eq lp eos false
      (by simp [CPPTokeniser_RewindToken, ht]) (by simp [CPPTokeniser_RewindToken, hi])
      hty hname heq hlp he hxs (by simpa [CPPTokeniser_RewindToken] using hdepth) f
    simp only [bind, Except.bind, hdecl]

/-! ## The parse loop of `main`: the cursor only moves forward, and the result list -/

theorem advances_refl (a : CPPTokeniser) : Advances a a := ⟨rfl, le_refl _⟩

theorem advances_trans {a b c : CPPTokeniser} (h1 : Advances a b) (h2 : Advances b c) :
    Advances a c := ⟨h2.1.trans h1.1, le_trans h1.2 h2.2⟩

theorem nextTokenLoop_one {a b : CPPTokeniser} {r t : CPPToken}
    (h : nextTokenLoop 1 r a = Except.ok (t, b)) :
    t = CPPTokeniser_PeekToken a ∧ b.tokens = a.tokens ∧
      b.tokens_index = a.tokens_index + 1 := by
  unfold nextTokenLoop at h
  lift_lets at h
  extract_lets result indent tk at h
  split at h
  · cases h
  · split at h
    · simp only [pure, Except.pure, Except.ok.injEq, Prod.mk.injEq] at h
      obtain ⟨h1, h2⟩ := h
      subst h1 h2
      exact ⟨rfl, rfl, rfl⟩
    · unfold nextTokenLoop at h
      simp only [pure, Except.pure, Except.ok.injEq, Prod.mk.injEq] at h
      obtain ⟨h1, h2⟩ := h
      subst h1 h2
      exact ⟨rfl, rfl, rfl⟩

theorem nextToken_spec {a b : CPPTokeniser} {t : CPPToken}
    (h : CPPTokeniser_NextToken a = Except.ok (t, b)) :
    t = CPPTokeniser_PeekToken a ∧ b.tokens = a.tokens ∧
      (t.type ≠ CPPTokenType.EndOfStream → b.tokens_index = a.tokens_index + 1) ∧
      (t.type = CPPTokenType.EndOfStream → b = a) := by
  unfold CPPTokeniser_NextToken at h
  simp only [] at h
  split at h
  · rename_i hne
    obtain ⟨h1, h2, h3⟩ := nextTokenLoop_one h
    refine ⟨h1, h2, fun _ => h3, fun he => ?_⟩
    rw [h1] at he
    exact absurd he hne
  · rename_i he
    simp only [pure, Except.pure, Except.ok.injEq, Prod.mk.injEq] at h
    obtain ⟨h1, h2⟩ := h
    subst h1 h2
    simp only [ne_eq, not_not] at he
    exact ⟨rfl, rfl, fun hne => absurd he hne, fun _ => rfl⟩

theorem nextToken_advances {a b : CPPTokeniser} {t : CPPToken}
    (h : CPPTokeniser_NextToken a = Except.ok (t, b)) : Advances a b := by
  obtain ⟨_, h2, h3, h4⟩ := nextToken_spec h
  refine ⟨h2, ?_⟩
  by_cases he : t.type = CPPTokenType.EndOfStream
  · rw [h4 he]
  · rw [h3 he]; omega

theorem expectToken_tokens (mem : List Char) (a : CPPTokeniser) (t : CPPToken)
    (ty : CPPTokenType) : Advances a (ExpectToken mem a t ty).2 := by
  unfold ExpectToken
  split
  · exact advances_refl a
  · exact ⟨rfl, le_refl _⟩

theorem acceptToken_advances {a b : CPPTokeniser} {ty : CPPTokenType} {t t2 : CPPToken}
    {ok : Bool} (h : CPPTokeniser_AcceptTokenIfType a ty t = Except.ok (ok, t2, b)) :
    Advances a b := by
  unfold CPPTokeniser_AcceptTokenIfType at h
  simp only [] at h
  split at h
  · obtain ⟨x, hx, h⟩ := bind_eq_ok h
    obtain ⟨x1, x2⟩ := x
    simp only [pure, Except.pure, Except.ok.injEq, Prod.mk.injEq] at h
    obtain ⟨_, _, h3⟩ := h
    subst h3
    exact nextToken_advances hx
  · simp only [pure, Except.pure, Except.ok.injEq, Prod.mk.injEq] at h
    obtain ⟨_, _, h3⟩ := h
    subst h3
    exact advances_refl a

theorem consumeAsterisks_advances : ∀ (fuel : Nat) (a : CPPTokeniser) (n : Int) (t : CPPToken)
    (r : Int × CPPToken × CPPTokeniser),
    ConsumeAsterisks fuel a n t = Except.ok r → Advances a r.2.2 := by
  intro fuel
  induction fuel with
  | zero => intro a n t r h; unfold ConsumeAsterisks at h; cases h
  | succ fuel ih =>
    intro a n t r h
    rw [ConsumeAsterisks] at h
    simp only [] at h
    split at h
    · obtain ⟨x, hx, h⟩ := bind_eq_ok h
      exact advances_trans (nextToken_advances hx) (ih _ _ _ _ h)
    · simp only [pure, Except.pure, Except.ok.injEq] at h
      subst h
      exact advances_refl a

theorem consumeConst_advances (mem : List Char) : ∀ (fuel : Nat) (a : CPPTokeniser) (n : Bool)
    (t : CPPToken) (r : Bool × CPPToken × CPPTokeniser),
    ConsumeConstIdentifier mem fuel a n t = Except.ok r → Advances a r.2.2 := by
  intro fuel
  induction fuel with
  | zero => intro a n t r h; unfold ConsumeConstIdentifier at h; cases h
  | succ fuel ih =>
    intro a n t r h
    rw [ConsumeConstIdentifier] at h
    simp only [] at h
    split at h
    · obtain ⟨x, hx, h⟩ := bind_eq_ok h
      exact advances_trans (nextToken_advances hx) (ih _ _ _ _ h)
    · simp only [pure, Except.pure, Except.ok.injEq] at h
      subst h
      exact advances_refl a

theorem skipScope_advances (opener closer : CPPTokenType) : ∀ (fuel : Nat) (level : Int)
    (a b : CPPTokeniser), skipScope opener closer fuel level a = Except.ok b → Advances a b := by
  intro fuel
  induction fuel with
  | zero => intro level a b h; unfold skipScope at h; cases h
  | succ fuel ih =>
    intro level a b h
    rw [skipScope] at h
    split at h
    · simp only [pure, Except.pure, Except.ok.injEq] at h
      subst h
      exact advances_refl a
    · obtain ⟨x, hx, h⟩ := bind_eq_ok h
      exact advances_trans (nextToken_advances hx) (ih _ _ _ h)

theorem templateLoop_advances : ∀ (fuel : Nat) (d : Int) (t : CPPToken) (a : CPPTokeniser)
    (r : Int × CPPToken × CPPTokeniser),
    templateLoop fuel d t a = Except.ok r → Advances a r.2.2 := by
  intro fuel
  induction fuel with
  | zero => intro d t a r h; unfold templateLoop at h; cases h
  | succ fuel ih =>
    intro d t a r h
    rw [templateLoop] at h
    split at h
    · obtain ⟨x, hx, h⟩ := bind_eq_ok h
      exact advances_trans (nextToken_advances hx) (ih _ _ _ _ h)
    · simp only [pure, Except.pure, Except.ok.injEq] at h
      subst h
      exact advances_refl a

theorem arrayInnerLoop_advances : ∀ (fuel : Nat) (t : CPPToken) (a : CPPTokeniser)
    (r : CPPToken × CPPTokeniser),
    arrayInnerLoop fuel t a = Except.ok r → Advances a r.2 := by
  intro fuel
  induction fuel with
  | zero => intro t a r h; unfold arrayInnerLoop at h; cases h
  | succ fuel ih =>
    intro t a r h
    rw [arrayInnerLoop] at h
    split at h
    · obtain ⟨x, hx, h⟩ := bind_eq_ok h
      exact advances_trans (nextToken_advances hx) (ih _ _ _ h)
    · simp only [pure, Except.pure, Except.ok.injEq] at h
      subst h
      exact advances_refl a

theorem arrayLoop_advances : ∀ (fuel : Nat) (t : CPPToken) (n : Int) (a : CPPTokeniser)
    (r : CPPToken × Int × CPPTokeniser),
    arrayLoop fuel t n a = Except.ok r → Advances a r.2.2 := by
  intro fuel
  induction fuel with
  | zero => intro t n a r h; unfold arrayLoop at h; cases h
  | succ fuel ih =>
    intro t n a r h
    rw [arrayLoop] at h
    split at h
    · obtain ⟨x, hx, h⟩ := bind_eq_ok h
      obtain ⟨y, hy, h⟩ := bind_eq_ok h
      exact advances_trans (arrayInnerLoop_advances _ _ _ _ hx)
        (advances_trans (nextToken_advances hy) (ih _ _ _ _ h))
    · simp only [pure, Except.pure, Except.ok.injEq] at h
      subst h
      exact advances_refl a

theorem functionNameLoop_advances : ∀ (fuel : Nat) (t : CPPToken) (a : CPPTokeniser)
    (r : CPPToken × CPPTokeniser),
    functionNameLoop fuel t a = Except.ok r → Advances a r.2 := by
  intro fuel
  induction fuel with
  | zero => intro t a r h; unfold functionNameLoop at h; cases h
  | succ fuel ih =>
    intro t a r h
    rw [functionNameLoop] at h
    split at h
    · obtain ⟨x, hx, h⟩ := bind_eq_ok h
      exact advances_trans (nextToken_advances hx) (ih _ _ _ h)
    · simp only [pure, Except.pure, Except.ok.injEq] at h
      subst h
      exact advances_refl a

theorem skipFunctionParam_advances : ∀ (fuel : Nat) (a b : CPPTokeniser),
    SkipFunctionParam fuel a = Except.ok b → Advances a b := by
  intro fuel
  induction fuel with
  | zero => intro a b h; unfold SkipFunctionParam at h; cases h
  | succ fuel ih =>
    intro a b h
    unfold SkipFunctionParam at h
    lift_lets at h
    extract_lets token jp2 jp1 at h
    have hjp2 : ∀ y : CPPToken × CPPTokeniser, Advances a y.2 → jp2 y = Except.ok b →
        Advances a b := by
      intro y hy h2
      simp -zeta only [jp2] at h2
      split at h2
      · simp only [pure, Except.pure, Except.ok.injEq] at h2
        subst h2
        exact hy
      · split at h2
        · simp only [pure, Except.pure, Except.ok.injEq] at h2
          subst h2
          exact hy
        · obtain ⟨c, hc, h2⟩ := bind_eq_ok h2
          exact advances_trans hy (advances_trans (nextToken_advances hc) (ih _ _ h2))
    have hjp1 : ∀ x : CPPToken × CPPTokeniser, Advances a x.2 → jp1 x = Except.ok b →
        Advances a b := by
      intro x hx h1
      simp -zeta only [jp1] at h1
      split at h1
      · obtain ⟨c, hc, h1⟩ := bind_eq_ok h1
        obtain ⟨d, hd, h1⟩ := bind_eq_ok h1
        simp only [pure_bind] at h1
        exact hjp2 (CPPTokeniser_PeekToken d.2, d.2)
          (advances_trans hx (advances_trans (skipScope_advances _ _ _ _ _ _ hc)
            (nextToken_advances hd))) h1
      · simp only [pure_bind] at h1
        exact hjp2 (x.1, x.2) hx h1
    split at h
    · simp only [pure, Except.pure, Except.ok.injEq] at h
      subst h
      exact advances_refl a
    · split at h
      · obtain ⟨c, hc, h⟩ := bind_eq_ok h
        obtain ⟨d, hd, h⟩ := bind_eq_ok h
        simp only [pure_bind] at h
        exact hjp1 (CPPTokeniser_PeekToken d.2, d.2)
          (advances_trans (skipScope_advances _ _ _ _ _ _ hc) (nextToken_advances hd)) h
      · simp only [pure_bind] at h
        exact hjp1 (token, a) (advances_refl a) h

theorem declLoop_advances_step (mem : List Char) (fuel : Nat)
    (ihLoop : ∀ pfp tk vt token result r,
      declLoop mem pfp fuel tk vt token result = Except.ok r → Advances tk r.2)
    (ihTail : ∀ pfp tk vt token result r,
      declTail mem pfp fuel tk vt token result = Except.ok r → Advances tk r.2)
    (ihMeta : ∀ tk r, ParseCPPInspectMeta mem fuel tk = Except.ok r → Advances tk r.2) :
    ∀ pfp tk vt token result r,
      declLoop mem pfp (fuel + 1) tk vt token result = Except.ok r → Advances tk r.2 := by
  intro pfp tk vt token result r h
  unfold declLoop at h
  obtain ⟨d, hd, h⟩ := bind_eq_ok h
  obtain ⟨accepted, token1, tk1⟩ := d
  have hA1 : Advances tk tk1 := acceptToken_advances hd
  simp -zeta only [] at h
  lift_lets at h
  extract_lets l1 jp1 at h
  have hjp1 : ∀ x, Advances tk x.2 → jp1 x = Except.ok r → Advances tk r.2 := by
    intro x hx h1
    simp -zeta only [jp1] at h1
    lift_lets at h1
    extract_lets jp2 at h1
    have hjp2 : ∀ y, Advances tk y.2.2 → jp2 y = Except.ok r → Advances tk r.2 := by
      intro y hy h2
      simp -zeta only [jp2] at h2
      lift_lets at h2
      extract_lets peeked vtl jp3 at h2
      have hjp3 : ∀ z, Advances tk z.2 → jp3 z = Except.ok r → Advances tk r.2 := by
        intro z hz h3
        simp -zeta only [jp3] at h3
        obtain ⟨a, ha, h3⟩ := bind_eq_ok h3
        have hAa : Advances tk a.2.2 := advances_trans hz (arrayLoop_advances _ _ _ _ _ ha)
        lift_lets at h3
        extract_lets value jp4 at h3
        have hjp4 : ∀ w, Advances tk w.2.2 → jp4 w = Except.ok r → Advances tk r.2 := by
          intro w hw h4
          simp -zeta only [jp4] at h4
          split at h4
          · obtain ⟨b, hb, h4⟩ := bind_eq_ok h4
            obtain ⟨c, hc, h4⟩ := bind_eq_ok h4
            have hAc : Advances tk c := advances_trans hw (advances_trans
              (nextToken_advances hb) (skipFunctionParam_advances _ _ _ hc))
            simp only [] at h4
            split at h4
            · exact advances_trans hAc (ihLoop _ _ _ _ _ _ h4)
            · exact advances_trans hAc (ihTail _ _ _ _ _ _ h4)
          · exact advances_trans hw (ihTail _ _ _ _ _ _ h4)
        split at h3
        · obtain ⟨b, hb, h3⟩ := bind_eq_ok h3
          simp only [pure_bind] at h3
          exact hjp4 (List.map (fun node => node.value) b.1, CPPTokeniser_PeekToken b.2, b.2)
            (advances_trans hAa (ihMeta _ _ hb)) h3
        · simp only [pure_bind] at h3
          exact hjp4 ([], a.1, a.2.2) hAa h3
      split at h2
      · simp only [pure, Except.pure, Except.ok.injEq] at h2
        subst h2
        exact hy
      · split at h2
        · obtain ⟨b, hb, h2⟩ := bind_eq_ok h2
          simp only [pure_bind] at h2
          exact hjp3 (peeked, b.2) (advances_trans hy (nextToken_advances hb)) h2
        · simp only [pure_bind] at h2
          exact hjp3 (({} : CPPToken), y.2.2) hy h2
    obtain ⟨a, ha, h1⟩ := bind_eq_ok h1
    obtain ⟨b, hb, h1⟩ := bind_eq_ok h1
    have hAb : Advances tk b.2.2 := advances_trans hx (advances_trans
      (consumeAsterisks_advances _ _ _ _ _ ha) (consumeConst_advances mem _ _ _ _ _ hb))
    split at h1
    · obtain ⟨c, hc, h1⟩ := bind_eq_ok h1
      obtain ⟨d, hd, h1⟩ := bind_eq_ok h1
      simp only [pure_bind] at h1
      exact hjp2 (a.1 + c.1, writeBack (writeBack (writeBack (writeBack l1 a.2.1) b.2.1) c.2.1) d.2.1,
        d.2.2) (advances_trans hAb (advances_trans
          (consumeAsterisks_advances _ _ _ _ _ hc) (consumeConst_advances mem _ _ _ _ _ hd))) h1
    · simp only [pure_bind] at h1
      exact hjp2 (a.1, writeBack (writeBack l1 a.2.1) b.2.1, b.2.2) hAb h1
  split at h
  · obtain ⟨d, hd, h⟩ := bind_eq_ok h
    simp only [pure_bind] at h
    have hAd : Advances tk d.2.2 := advances_trans hA1 (templateLoop_advances _ _ _ _ _ hd)
    split at h
    · exact hjp1 _ hAd h
    · exact hjp1 _ hAd h
  · simp only [pure_bind] at h
    exact hjp1 _ hA1 h

theorem declTail_advances_step (mem : List Char) (fuel : Nat)
    (ihLoop : ∀ pfp tk vt token result r,
      declLoop mem pfp fuel tk vt token result = Except.ok r → Advances tk r.2) :
    ∀ pfp tk vt token result r,
      declTail mem pfp (fuel + 1) tk vt token result = Except.ok r → Advances tk r.2 := by
  intro pfp tk vt token result r h
  rw [declTail] at h
  split at h
  · simp only [pure_bind] at h
    split at h
    · obtain ⟨a, ha, h⟩ := bind_eq_ok h
      obtain ⟨b, hb, h⟩ := bind_eq_ok h
      exact advances_trans (nextToken_advances ha) (advances_trans (nextToken_advances hb)
        (ihLoop _ _ _ _ _ _ h))
    · obtain ⟨b, hb, h⟩ := bind_eq_ok h
      exact advances_trans (nextToken_advances hb) (ihLoop _ _ _ _ _ _ h)
  · simp only [pure, Except.pure, Except.ok.injEq] at h
    subst h
    exact advances_refl tk

theorem parseDecl_advances_step (mem : List Char) (fuel : Nat)
    (ihLoop : ∀ pfp tk vt token result r,
      declLoop mem pfp fuel tk vt token result = Except.ok r → Advances tk r.2) :
    ParseAdvances mem (fuel + 1) := by
  intro pfp tk r h
  unfold ParseCPPTypeAndVariableDecl at h
  obtain ⟨a, ha, h⟩ := bind_eq_ok h
  obtain ⟨t, tk1⟩ := a
  obtain ⟨ht, htok, hne, _⟩ := nextToken_spec ha
  have hA1 : Advances tk tk1 := nextToken_advances ha
  have key : Advances tk1 r.2 := by
    simp only [] at h
    split at h
    · simp only [pure, Except.pure, Except.ok.injEq] at h
      subst h
      exact advances_refl tk1
    · obtain ⟨b, hb, h⟩ := bind_eq_ok h
      exact advances_trans (consumeConst_advances mem _ _ _ _ _ hb) (ihLoop _ _ _ _ _ _ h)
  refine ⟨advances_trans hA1 key, fun hp => ?_⟩
  rw [← ht] at hp
  have := hne hp
  have := key.2
  omega

theorem inspectMeta_advances_step (mem : List Char) (fuel : Nat)
    (ihParse : ParseAdvances mem fuel) :
    ∀ tk r, ParseCPPInspectMeta mem (fuel + 1) tk = Except.ok r → Advances tk r.2 := by
  intro tk r h
  unfold ParseCPPInspectMeta at h
  obtain ⟨a, ha, h⟩ := bind_eq_ok h
  have hA1 := nextToken_advances ha
  simp only [] at h
  split at h
  · simp only [pure, Except.pure, Except.ok.injEq] at h
    subst h
    exact advances_trans hA1 (expectToken_tokens _ _ _ _)
  · obtain ⟨b, hb, h⟩ := bind_eq_ok h
    have hA2 := advances_trans (advances_trans hA1 (expectToken_tokens mem a.2 a.1
      CPPTokenType.Identifier)) (nextToken_advances hb)
    split at h
    · simp only [pure, Except.pure, Except.ok.injEq] at h
      subst h
      exact advances_trans hA2 (expectToken_tokens _ _ _ _)
    · exact advances_trans (advances_trans hA2 (expectToken_tokens _ _ _ _))
        (ihParse _ _ _ h).1

theorem decl_advances (mem : List Char) : ∀ fuel : Nat,
    (∀ pfp tk vt token result r,
      declLoop mem pfp fuel tk vt token result = Except.ok r → Advances tk r.2) ∧
    (∀ pfp tk vt token result r,
      declTail mem pfp fuel tk vt token result = Except.ok r → Advances tk r.2) ∧
    ParseAdvances mem fuel ∧
    (∀ tk r, ParseCPPInspectMeta mem fuel tk = Except.ok r → Advances tk r.2) := by
  intro fuel
  induction fuel using Nat.strong_induction_on with
  | _ fuel ih =>
    cases fuel with
    | zero =>
      refine ⟨?_, ?_, ?_, ?_⟩
      · intro pfp tk vt token result r h
        unfold declLoop at h
        cases h
      · intro pfp tk vt token result r h
        unfold declTail at h
        cases h
      · intro pfp tk r h
        unfold ParseCPPTypeAndVariableDecl at h
        cases h
      · intro tk r h
        unfold ParseCPPInspectMeta at h
        cases h
    | succ fuel =>
      obtain ⟨hL, hT, hP, hM⟩ := ih fuel (Nat.lt_succ_self fuel)
      exact ⟨declLoop_advances_step mem fuel hL hT hM, declTail_advances_step mem fuel hL,
        parseDecl_advances_step mem fuel hL, inspectMeta_advances_step mem fuel hP⟩

theorem parseDecl_advances {mem : List Char} {fuel : Nat} {tk : CPPTokeniser} {pfp : Bool}
    {r : List (CPPDeclLinkedList CPPVariableDecl) × CPPTokeniser}
    (h : ParseCPPTypeAndVariableDecl mem fuel tk pfp = Except.ok r) :
    Advances tk r.2 ∧
      ((CPPTokeniser_PeekToken tk).type ≠ CPPTokenType.EndOfStream →
        tk.tokens_index + 1 ≤ r.2.tokens_index) :=
  (decl_advances mem fuel).2.2.1 pfp tk r h

theorem inspectMeta_advances {mem : List Char} {fuel : Nat} {tk : CPPTokeniser}
    {r : List (CPPDeclLinkedList CPPVariableDecl) × CPPTokeniser}
    (h : ParseCPPInspectMeta mem fuel tk = Except.ok r) : Advances tk r.2 :=
  (decl_advances mem fuel).2.2.2 tk r h

theorem enumLoop_advances (mem : List Char) (oil : Int) : ∀ (fuel : Nat) (t : CPPToken)
    (a : CPPTokeniser) (ms : List (CPPDeclLinkedList StringLiteral))
    (r : List (CPPDeclLinkedList StringLiteral) × CPPTokeniser),
    enumLoop mem oil fuel t a ms = Except.ok r → Advances a r.2 := by
  intro fuel
  induction fuel with
  | zero => intro t a ms r h; unfold enumLoop at h; cases h
  | succ fuel ih =>
    intro t a ms r h
    rw [enumLoop] at h
    split at h
    · simp only [pure_bind] at h
      split at h
      · split at h
        · obtain ⟨c, hc, h⟩ := bind_eq_ok h
          obtain ⟨b, hb, h⟩ := bind_eq_ok h
          exact advances_trans (inspectMeta_advances hc)
            (advances_trans (nextToken_advances hb) (ih _ _ _ _ h))
        · obtain ⟨b, hb, h⟩ := bind_eq_ok h
          exact advances_trans (nextToken_advances hb) (ih _ _ _ _ h)
      · obtain ⟨b, hb, h⟩ := bind_eq_ok h
        exact advances_trans (nextToken_advances hb) (ih _ _ _ _ h)
    · simp only [pure, Except.pure, Except.ok.injEq] at h
      subst h
      exact advances_refl a

theorem readLast_next {a b : CPPTokeniser} {t : CPPToken}
    (h : CPPTokeniser_NextToken a = Except.ok (t, b)) : ReadLast t b := by
  intro hne
  obtain ⟨h1, h2, h3, _⟩ := nextToken_spec h
  have h4 := h3 hne
  refine ⟨by omega, ?_⟩
  rw [h4, h2, h1]
  rfl

theorem rewind_parse_advances {mem : List Char} {fuel : Nat} {t : CPPToken}
    {a : CPPTokeniser} {pfp : Bool}
    {r : List (CPPDeclLinkedList CPPVariableDecl) × CPPTokeniser}
    (hl : ReadLast t a) (hne : t.type ≠ CPPTokenType.EndOfStream)
    (h : ParseCPPTypeAndVariableDecl mem fuel (CPPTokeniser_RewindToken a) pfp = Except.ok r) :
    Advances a r.2 := by
  obtain ⟨h1, h2⟩ := hl hne
  obtain ⟨hA, hS⟩ := parseDecl_advances h
  have hp : (CPPTokeniser_PeekToken (CPPTokeniser_RewindToken a)).type ≠
      CPPTokenType.EndOfStream := by
    unfold CPPTokeniser_PeekToken CPPTokeniser_RewindToken
    simp only []
    rw [h2]
    exact hne
  have h3 := hS hp
  refine ⟨hA.1, ?_⟩
  have h4 : (CPPTokeniser_RewindToken a).tokens_index = a.tokens_index - 1 := rfl
  rw [h4] at h3
  omega

theorem structLoop_advances (mem : List Char) (oil : Int) : ∀ (fuel : Nat) (t : CPPToken)
    (a : CPPTokeniser) (ms : List (CPPDeclLinkedList CPPVariableDecl))
    (r : List (CPPDeclLinkedList CPPVariableDecl) × CPPTokeniser), ReadLast t a →
    structLoop mem oil fuel t a ms = Except.ok r → Advances a r.2 := by
  intro fuel
  induction fuel with
  | zero => intro t a ms r _ h; unfold structLoop at h; cases h
  | succ fuel ih =>
    intro t a ms r hl h
    rw [structLoop] at h
    split at h
    · rename_i hc
      simp only [pure_bind] at h
      split at h
      · obtain ⟨c, hc1, h⟩ := bind_eq_ok h
        obtain ⟨b, hb, h⟩ := bind_eq_ok h
        exact advances_trans (rewind_parse_advances hl hc.2 hc1)
          (advances_trans (nextToken_advances hb) (ih _ _ _ _ (readLast_next hb) h))
      · obtain ⟨b, hb, h⟩ := bind_eq_ok h
        exact advances_trans (nextToken_advances hb) (ih _ _ _ _ (readLast_next hb) h)
    · simp only [pure, Except.pure, Except.ok.injEq] at h
      subst h
      exact advances_refl a

theorem functionParamLoop_advances (mem : List Char) : ∀ (fuel : Nat) (t : CPPToken)
    (a : CPPTokeniser) (ms : List (CPPDeclLinkedList CPPVariableDecl))
    (r : List (CPPDeclLinkedList CPPVariableDecl) × CPPTokeniser), ReadLast t a →
    functionParamLoop mem fuel t a ms = Except.ok r → Advances a r.2 := by
  intro fuel
  induction fuel with
  | zero => intro t a ms r _ h; unfold functionParamLoop at h; cases h
  | succ fuel ih =>
    intro t a ms r hl h
    rw [functionParamLoop] at h
    split at h
    · rename_i hc
      simp only [pure_bind] at h
      split at h
      · obtain ⟨c, hc1, h⟩ := bind_eq_ok h
        obtain ⟨b, hb, h⟩ := bind_eq_ok h
        exact advances_trans (rewind_parse_advances hl hc.2 hc1)
          (advances_trans (nextToken_advances hb) (ih _ _ _ _ (readLast_next hb) h))
      · obtain ⟨b, hb, h⟩ := bind_eq_ok h
        exact advances_trans (nextToken_advances hb) (ih _ _ _ _ (readLast_next hb) h)
    · simp only [pure, Except.pure, Except.ok.injEq] at h
      subst h
      exact advances_refl a

theorem defaultParamLoop_advances : ∀ (fuel : Nat) (t : CPPToken)
    (a : CPPTokeniser) (ds : List FunctionDefaultParam)
    (r : List FunctionDefaultParam × CPPTokeniser),
    defaultParamLoop fuel t a ds = Except.ok r → Advances a r.2 := by
  intro fuel
  induction fuel with
  | zero => intro t a ds r h; unfold defaultParamLoop at h; cases h
  | succ fuel ih =>
    intro t a ds r h
    unfold defaultParamLoop at h
    lift_lets at h
    extract_lets jp1 at h
    have hjp1 : ∀ x : List FunctionDefaultParam × CPPTokeniser, Advances a x.2 →
        jp1 x = Except.ok r → Advances a r.2 := by
      intro x hx h1
      simp -zeta only [jp1] at h1
      obtain ⟨b, hb, h1⟩ := bind_eq_ok h1
      exact advances_trans hx (advances_trans (nextToken_advances hb) (ih _ _ _ _ h1))
    split at h
    · split at h
      · simp only [pure_bind] at h
        exact hjp1 (ds, a) (advances_refl a) h
      · simp -zeta only [] at h
        lift_lets at h
        extract_lets name at h
        split at h
        · obtain ⟨c, hc, h⟩ := bind_eq_ok h
          simp only [pure_bind] at h
          exact hjp1 (ds, c) (skipFunctionParam_advances _ _ _ hc) h
        · obtain ⟨c, hc, h⟩ := bind_eq_ok h
          have hA1 := nextToken_advances hc
          split at h
          · obtain ⟨d, hd, h⟩ := bind_eq_ok h
            simp only [pure_bind] at h
            exact hjp1 (ds, d) (advances_trans hA1 (skipFunctionParam_advances _ _ _ hd)) h
          · lift_lets at h
            extract_lets tok2 dvs at h
            obtain ⟨d, hd, h⟩ := bind_eq_ok h
            have hA2 := advances_trans hA1 (skipFunctionParam_advances _ _ _ hd)
            lift_lets at h
            extract_lets pk dve at h
            split at h
            · simp only [pure_bind] at h
              exact hjp1 (ds, d) hA2 h
            · simp only [pure_bind] at h
              exact hjp1 (_, d) hA2 h
    · simp only [pure, Except.pure, Except.ok.injEq] at h
      subst h
      exact advances_refl a

theorem parseCPPEnum_advances {fuel : Nat} {mem : List Char} {a : CPPTokeniser}
    {r : Bool × ParsedEnum × CPPTokeniser} (h : ParseCPPEnum fuel mem a = Except.ok r) :
    Advances a r.2.2 := by
  unfold ParseCPPEnum at h
  lift_lets at h
  extract_lets pe jp1 at h
  have hjp1 : ∀ z : ParsedEnum × CPPToken × CPPTokeniser, Advances a z.2.2 →
      jp1 z = Except.ok r → Advances a r.2.2 := by
    intro z hz h1
    simp only [jp1] at h1
    have hA3 := advances_trans hz
      (expectToken_tokens mem z.2.2 z.2.1 CPPTokenType.Identifier)
    split at h1
    · simp only [pure, Except.pure, Except.ok.injEq] at h1
      subst h1
      exact hA3
    · obtain ⟨w, hw, h1⟩ := bind_eq_ok h1
      have hA4 := advances_trans (advances_trans hA3 (nextToken_advances hw))
        (expectToken_tokens mem w.2 w.1 CPPTokenType.LeftBrace)
      split at h1
      · simp only [pure, Except.pure, Except.ok.injEq] at h1
        subst h1
        exact hA4
      · obtain ⟨u, hu, h1⟩ := bind_eq_ok h1
        obtain ⟨v, hv, h1⟩ := bind_eq_ok h1
        simp only [pure, Except.pure, Except.ok.injEq] at h1
        subst h1
        exact advances_trans hA4 (advances_trans (nextToken_advances hu)
          (enumLoop_advances _ _ _ _ _ _ _ hv))
  obtain ⟨x, hx, h⟩ := bind_eq_ok h
  have hA1 := advances_trans (nextToken_advances hx)
    (expectToken_tokens mem x.2 x.1 CPPTokenType.Identifier)
  simp -zeta only [] at h
  split at h
  · simp only [pure, Except.pure, Except.ok.injEq] at h
    subst h
    exact hA1
  · obtain ⟨y, hy, h⟩ := bind_eq_ok h
    have hA2 := advances_trans hA1 (nextToken_advances hy)
    split at h
    · obtain ⟨u, hu, h⟩ := bind_eq_ok h
      simp only [pure_bind] at h
      exact hjp1 (_, u.1, u.2) (advances_trans hA2 (nextToken_advances hu)) h
    · simp only [pure_bind] at h
      exact hjp1 (_, y.1, y.2) hA2 h

theorem expectOrBrace_advances (mem : List Char) (a : CPPTokeniser) (t : CPPToken)
    (c : Prop) [Decidable c] :
    Advances a (if c then ExpectToken mem a t CPPTokenType.Identifier else (true, a)).2 := by
  split
  · exact expectToken_tokens _ _ _ _
  · exact advances_refl a

theorem parseCPPStruct_advances {fuel : Nat} {mem : List Char} {a : CPPTokeniser}
    {r : Bool × ParsedStruct × CPPTokeniser} (h : ParseCPPStruct fuel mem a = Except.ok r) :
    Advances a r.2.2 := by
  unfold ParseCPPStruct at h
  lift_lets at h
  extract_lets ps at h
  obtain ⟨x, hx, h⟩ := bind_eq_ok h
  have hA1 := advances_trans (nextToken_advances hx)
    (expectToken_tokens mem x.2 x.1 CPPTokenType.Identifier)
  simp -zeta only [] at h
  split at h
  · simp only [pure, Except.pure, Except.ok.injEq] at h
    subst h
    exact hA1
  · obtain ⟨y, hy, h⟩ := bind_eq_ok h
    have hA2 := advances_trans (advances_trans hA1 (nextToken_advances hy))
      (expectOrBrace_advances mem y.2 y.1 (y.1.type ≠ CPPTokenType.LeftBrace))
    simp only [] at h
    generalize hq : (if y.1.type ≠ CPPTokenType.LeftBrace then
      ExpectToken mem y.2 y.1 CPPTokenType.Identifier else (true, y.2)) = q at h hA2
    split at h
    · simp only [pure, Except.pure, Except.ok.injEq] at h
      subst h
      exact hA2
    · obtain ⟨u, hu, h⟩ := bind_eq_ok h
      obtain ⟨v, hv, h⟩ := bind_eq_ok h
      have hA3 := advances_trans (advances_trans hA2 (nextToken_advances hu))
        (structLoop_advances _ _ _ _ _ _ _ (readLast_next hu) hv)
      have hr : r.2.2 = v.2 := by
        split at h <;> (try split at h) <;>
          (simp only [pure, Except.pure, Except.ok.injEq] at h; subst h; rfl)
      rw [hr]
      exact hA3

theorem parseCPPVariableType_advances {fuel : Nat} {mem : List Char} {a : CPPTokeniser}
    {type : StringLiteral} {r : Bool × StringLiteral × CPPTokeniser}
    (h : ParseCPPVariableType fuel mem a type = Except.ok r) : Advances a r.2.2 := by
  unfold ParseCPPVariableType at h
  obtain ⟨x, hx, h⟩ := bind_eq_ok h
  have hA1 := advances_trans (nextToken_advances hx)
    (expectToken_tokens mem x.2 x.1 CPPTokenType.Identifier)
  try simp -zeta only [] at h
  split at h
  · simp only [pure, Except.pure, Except.ok.injEq] at h
    subst h
    exact hA1
  · lift_lets at h
    extract_lets vts jp2 jp1 at h
    have hjp2 : ∀ y : CPPTokeniser, Advances a y → jp2 y = Except.ok r → Advances a r.2.2 := by
      intro y hy h2
      simp only [jp2] at h2
      have hA := advances_trans hy
        (expectToken_tokens mem y (CPPTokeniser_PeekToken y) CPPTokenType.Identifier)
      split at h2
      · simp only [pure, Except.pure, Except.ok.injEq] at h2
        subst h2
        exact hA
      · simp only [pure, Except.pure, Except.ok.injEq] at h2
        subst h2
        exact hA
    have hjp1 : ∀ y : StringLiteral × CPPTokeniser, Advances a y.2 → jp1 y = Except.ok r →
        Advances a r.2.2 := by
      intro y hy h1
      simp -zeta only [jp1] at h1
      obtain ⟨c, hc, h1⟩ := bind_eq_ok h1
      obtain ⟨d, hd, h1⟩ := bind_eq_ok h1
      have hA := advances_trans hy (advances_trans (consumeAsterisks_advances _ _ _ _ _ hc)
        (consumeConst_advances mem _ _ _ _ _ hd))
      split at h1
      · obtain ⟨e, he, h1⟩ := bind_eq_ok h1
        obtain ⟨f, hf, h1⟩ := bind_eq_ok h1
        simp only [pure_bind] at h1
        exact hjp2 f.2.2 (advances_trans hA (advances_trans
          (consumeAsterisks_advances _ _ _ _ _ he) (consumeConst_advances mem _ _ _ _ _ hf))) h1
      · simp only [pure_bind] at h1
        exact hjp2 d.2.2 hA h1
    obtain ⟨c, hc, h⟩ := bind_eq_ok h
    have hA2 := advances_trans hA1 (consumeConst_advances mem _ _ _ _ _ hc)
    try simp -zeta only [] at h
    lift_lets at h
    extract_lets pk es at h
    split at h
    · obtain ⟨d, hd, h⟩ := bind_eq_ok h
      obtain ⟨e, he, h⟩ := bind_eq_ok h
      have hA3 := advances_trans hA2 (advances_trans (nextToken_advances hd)
        (templateLoop_advances _ _ _ _ _ he))
      try simp -zeta only [] at h
      lift_lets at h
      extract_lets ee at h
      split at h
      · simp only [pure_bind] at h
        exact hjp1 (_, e.2.2) hA3 h
      · simp only [pure_bind] at h
        exact hjp1 (_, e.2.2) hA3 h
    · simp only [pure_bind] at h
      exact hjp1 (_, c.2.2) hA2 h

theorem parseCPPInspectPrototype_next {fuel : Nat} {mem : List Char} {a : CPPTokeniser}
    {r : Bool × ParsedFunctionPrototype × CPPTokeniser}
    (h : ParseCPPInspectPrototype fuel mem a = Except.ok r) :
    ∃ x, CPPTokeniser_NextToken a = Except.ok x ∧ Advances x.2 r.2.2 := by
  unfold ParseCPPInspectPrototype at h
  lift_lets at h
  extract_lets pf at h
  obtain ⟨x, hx, h⟩ := bind_eq_ok h
  refine ⟨x, hx, ?_⟩
  have hA1 := expectToken_tokens mem x.2 x.1 CPPTokenType.InspectGeneratePrototype
  try simp -zeta only [] at h
  split at h
  · simp only [pure, Except.pure, Except.ok.injEq] at h
    subst h
    exact hA1
  · obtain ⟨y, hy, h⟩ := bind_eq_ok h
    obtain ⟨y1, y2, y3⟩ := y
    have hA2 := advances_trans hA1 (acceptToken_advances hy)
    try simp -zeta only [] at h
    split at h
    · simp only [pure, Except.pure, Except.ok.injEq] at h
      subst h
      exact hA2
    · obtain ⟨z, hz, h⟩ := bind_eq_ok h
      obtain ⟨w, hw, h⟩ := bind_eq_ok h
      have hA3 := advances_trans (advances_trans hA2 (advances_trans (nextToken_advances hz)
        (defaultParamLoop_advances _ _ _ _ _ hw)))
        (expectToken_tokens mem w.2 (CPPTokeniser_PeekToken w.2) CPPTokenType.Identifier)
      try simp only [] at h
      split at h
      · simp only [pure, Except.pure, Except.ok.injEq] at h
        subst h
        exact hA3
      · obtain ⟨v, hv, h⟩ := bind_eq_ok h
        have hA4 := advances_trans hA3 (parseCPPVariableType_advances hv)
        try simp only [] at h
        split at h
        · simp only [pure, Except.pure, Except.ok.injEq] at h
          subst h
          exact hA4
        · have hA5 := advances_trans hA4
            (expectToken_tokens mem v.2.2 (CPPTokeniser_PeekToken v.2.2) CPPTokenType.Identifier)
          split at h
          · simp only [pure, Except.pure, Except.ok.injEq] at h
            subst h
            exact hA5
          · obtain ⟨u, hu, h⟩ := bind_eq_ok h
            have hA6 := advances_trans (advances_trans hA5 (functionNameLoop_advances _ _ _ _ hu))
              (expectToken_tokens mem u.2 u.1 CPPTokenType.OpenParen)
            try simp only [] at h
            split at h
            · simp only [pure, Except.pure, Except.ok.injEq] at h
              subst h
              exact hA6
            · have hA7 := advances_trans hA6
                (expectToken_tokens mem (ExpectToken mem u.2 u.1 CPPTokenType.OpenParen).2
                  (CPPTokeniser_PeekToken (ExpectToken mem u.2 u.1 CPPTokenType.OpenParen).2)
                  CPPTokenType.OpenParen)
              split at h
              · simp only [pure, Except.pure, Except.ok.injEq] at h
                subst h
                exact hA7
              · obtain ⟨s, hs, h⟩ := bind_eq_ok h
                obtain ⟨t, ht, h⟩ := bind_eq_ok h
                obtain ⟨q, hq, h⟩ := bind_eq_ok h
                simp only [pure, Except.pure, Except.ok.injEq] at h
                subst h
                exact advances_trans hA7 (advances_trans (nextToken_advances hs)
                  (advances_trans (nextToken_advances ht)
                    (functionParamLoop_advances _ _ _ _ _ _ (readLast_next ht) hq)))

theorem parseCPPInspectPrototype_advances {fuel : Nat} {mem : List Char} {a : CPPTokeniser}
    {r : Bool × ParsedFunctionPrototype × CPPTokeniser}
    (h : ParseCPPInspectPrototype fuel mem a = Except.ok r) :
    r.2.2.tokens = a.tokens ∧
      ((CPPTokeniser_PeekToken a).type ≠ CPPTokenType.EndOfStream →
        a.tokens_index + 1 ≤ r.2.2.tokens_index) := by
  obtain ⟨x, hx, hA⟩ := parseCPPInspectPrototype_next h
  obtain ⟨h1, h2, h3, _⟩ := nextToken_spec hx
  refine ⟨hA.1.trans h2, fun hp => ?_⟩
  rw [← h1] at hp
  have := h3 hp
  have := hA.2
  omega

theorem parseLoopBody_call {fuel : Nat} {mem : List Char} {st st1 : ParseLoopState}
    {r : ParsedResult} {t : CPPToken}
    (h : parseLoopBody fuel mem st = Except.ok (r, t, st1)) :
    ∃ call, routineCall fuel mem st.tokeniser = Except.ok call ∧
      (if r.type ≠ ParsedResultType.Invalid then [r] else []) =
        (LoopPass.entry { start := st.tokeniser, call := call }).toList ∧
      st1.parsing_results = st.parsing_results ∧
      st1.tokeniser.tokens = st.tokeniser.tokens ∧
      (t.type ≠ CPPTokenType.EndOfStream →
        st.tokeniser.tokens_index < st1.tokeniser.tokens_index) := by
  unfold parseLoopBody at h
  unfold routineCall
  simp only [] at h ⊢
  by_cases hcode : (CPPTokeniser_PeekToken st.tokeniser).type = CPPTokenType.InspectCode
  · simp only [hcode, true_or, if_true] at h ⊢
    obtain ⟨x, hx, h⟩ := bind_eq_ok h
    obtain ⟨hx1, hx2, hx3, _⟩ := nextToken_spec hx
    have hidx : x.2.tokens_index = st.tokeniser.tokens_index + 1 := by
      apply hx3
      rw [hx1, hcode]
      decide
    rw [hx]
    simp only [bind, Except.bind] at h ⊢
    split at h
    · rename_i he
      simp only [he, if_true]
      cases hp : ParseCPPEnum fuel mem x.2 with
      | error e => rw [hp] at h; cases h
      | ok v =>
        rw [hp] at h
        obtain ⟨ok, pe, tk⟩ := v
        have hA := parseCPPEnum_advances hp
        simp only [pure, Except.pure, Except.ok.injEq, Prod.mk.injEq] at h
        obtain ⟨h1, h2, h3⟩ := h
        subst h1 h2 h3
        refine ⟨_, rfl, ?_, rfl, hA.1.trans hx2, fun _ => ?_⟩
        · cases ok <;> simp [LoopPass.entry, ParsedResult.type]
        · have := hA.2
          simp only [] at this ⊢
          omega
    · rename_i he
      simp only [he]
      split at h
      · rename_i hs
        simp only [hs, if_true]
        cases hp : ParseCPPStruct fuel mem x.2 with
        | error e => rw [hp] at h; cases h
        | ok v =>
          rw [hp] at h
          obtain ⟨ok, pe, tk⟩ := v
          have hA := parseCPPStruct_advances hp
          simp only [pure, Except.pure, Except.ok.injEq, Prod.mk.injEq] at h
          obtain ⟨h1, h2, h3⟩ := h
          subst h1 h2 h3
          refine ⟨_, rfl, ?_, rfl, hA.1.trans hx2, fun _ => ?_⟩
          · cases ok <;> simp [LoopPass.entry, ParsedResult.type]
          · have := hA.2
            simp only [] at this ⊢
            omega
      · rename_i hs
        simp only [hs, if_false]
        simp only [pure, Except.pure, Except.ok.injEq, Prod.mk.injEq] at h
        obtain ⟨h1, h2, h3⟩ := h
        subst h1 h2 h3
        refine ⟨_, rfl, ?_, rfl, hx2, fun _ => ?_⟩
        · simp [LoopPass.entry, ParsedResult.type]
        · simp only []
          omega
  · by_cases hproto : (CPPTokeniser_PeekToken st.tokeniser).type =
        CPPTokenType.InspectGeneratePrototype
    · simp only [hproto, or_true, if_true] at h ⊢
      have hne : (CPPTokenType.InspectGeneratePrototype = CPPTokenType.InspectCode) = False := by
        simp
      simp only [hne, if_false] at h ⊢
      cases hp : ParseCPPInspectPrototype fuel mem st.tokeniser with
      | error e => rw [hp] at h; cases h
      | ok v =>
        rw [hp] at h
        obtain ⟨ok, pe, tk⟩ := v
        obtain ⟨hA1, hA2⟩ := parseCPPInspectPrototype_advances hp
        have hlt : st.tokeniser.tokens_index < tk.tokens_index := by
          have := hA2 (by rw [hproto]; decide)
          simp only [] at this
          omega
        simp only [bind, Except.bind] at h ⊢
        cases ok with
        | true =>
          simp only [if_true, pure, Except.pure, Except.ok.injEq, Prod.mk.injEq] at h
          obtain ⟨h1, h2, h3⟩ := h
          subst h1 h2 h3
          refine ⟨_, rfl, ?_, rfl, hA1, fun _ => hlt⟩
          simp [LoopPass.entry, ParsedResult.type]
        | false =>
          simp only [Bool.false_eq_true, if_false, pure, Except.pure, Except.ok.injEq,
            Prod.mk.injEq] at h
          obtain ⟨h1, h2, h3⟩ := h
          subst h1 h2 h3
          refine ⟨_, rfl, ?_, rfl, hA1, fun _ => hlt⟩
          simp [LoopPass.entry, ParsedResult.type]
    · simp only [hcode, hproto, or_self, if_false] at h ⊢
      obtain ⟨x, hx, h⟩ := bind_eq_ok h
      obtain ⟨hx1, hx2, hx3, _⟩ := nextToken_spec hx
      simp only [pure, Except.pure, Except.ok.injEq, Prod.mk.injEq] at h
      obtain ⟨h1, h2, h3⟩ := h
      subst h1 h2 h3
      refine ⟨_, rfl, ?_, rfl, hx2, fun hne => ?_⟩
      · simp [LoopPass.entry, ParsedResult.type]
      · have := hx3 hne
        simp only []
        omega

theorem generateResults_foldlM (mem : List Char) (w1 w2 : Int) :
    ∀ (rs : List ParsedResult) (tk : CPPTokeniser),
      generateResults mem w1 w2 rs tk =
        rs.foldlM (fun tk r => generateResult mem w1 w2 r tk) tk := by
  intro rs
  induction rs with
  | nil => intro tk; rfl
  | cons r rest ih =>
    intro tk
    rw [generateResults, List.foldlM_cons]
    congr 1
    funext tk1
    exact ih tk1

theorem filterMap_entry_single (pass : LoopPass) :
    [pass].filterMap LoopPass.entry = pass.entry.toList := by
  cases h : pass.entry <;> simp [List.filterMap, h]

theorem pushed_tokeniser (st1 : ParseLoopState) (r : ParsedResult) :
    (if r.type ≠ ParsedResultType.Invalid then
      { st1 with parsing_results := st1.parsing_results ++ [r] } else st1).tokeniser =
      st1.tokeniser := by
  split <;> rfl

theorem pushed_results (st1 : ParseLoopState) (r : ParsedResult) :
    (if r.type ≠ ParsedResultType.Invalid then
      { st1 with parsing_results := st1.parsing_results ++ [r] } else st1).parsing_results =
      st1.parsing_results ++ (if r.type ≠ ParsedResultType.Invalid then [r] else []) := by
  split <;> simp

theorem routineCall_marker {fuel : Nat} {mem : List Char} {tk : CPPTokeniser}
    {c : Bool × ParsedResult × CPPTokeniser}
    (h : routineCall fuel mem tk = Except.ok (some c)) :
    (CPPTokeniser_PeekToken tk).type = CPPTokenType.InspectCode ∨
      (CPPTokeniser_PeekToken tk).type = CPPTokenType.InspectGeneratePrototype := by
  by_cases h1 : (CPPTokeniser_PeekToken tk).type = CPPTokenType.InspectCode
  · exact Or.inl h1
  · by_cases h2 : (CPPTokeniser_PeekToken tk).type = CPPTokenType.InspectGeneratePrototype
    · exact Or.inr h2
    · unfold routineCall at h
      simp only [h1, h2, if_false] at h
      cases h

/-- C6, counterexample to the last part of the claim as stated.  On the file
`DQN_INSPECT enum { A };` the enum has no name, `ParseCPPEnum` returns failure and the
result list stays empty, yet the output stream holds text for that declaration: the
diagnostic that `ExpectToken` prints to `stdout`, the stream the generated code is
written to. -/
theorem C6_counterexample :
    (inspectFile 40 (fileBuffer "DQN_INSPECT enum \x7b A \x7d;") InspectMode.All).map
        (fun r => (r.1, r.2.output_file)) =
      Except.ok ([],
        "Expected token type: Identifier received: \x7b\nContext: \x7b\n\n".toList) := by
  decide!

/-! ## Later names, metadata calls, accessors, prototype columns, round trip, guard -/

theorem lexToken_noTokenKind {mem : List Char} {ptr : Nat} {c : Char} {rest : List Char}
    (hread : mem.drop ptr = c :: rest) (hkind : noTokenKind c = true) (fuel : Nat)
    (sc : LexScope) :
    lexToken fuel mem ptr sc =
      Except.ok ({ type := CPPTokenType.Identifier, str := ptr, len := 0 }, ptr, sc) := by
  unfold noTokenKind at hkind
  simp only [Bool.and_eq_true, Bool.not_eq_true', bne_iff_ne, ne_eq] at hkind
  obtain ⟨⟨⟨⟨⟨h1, h2⟩, h3⟩, h4⟩, h5⟩, h6⟩ := hkind
  have h3m : ∀ d ∈ "\x7b\x7d[](),;=<>:*./\"".toList, c ≠ d := by
    intro d hd hcd
    subst hcd
    have : "\x7b\x7d[](),;=<>:*./\"".toList.contains c = true := by
      simpa using hd
    rw [this] at h3
    cases h3
  unfold lexToken
  rw [readChar_of_drop hread]
  simp only [bind, Except.bind, pure, Except.pure]
  rw [if_neg (h3m _ (by decide)), if_neg (h3m _ (by decide)), if_neg (h3m _ (by decide)),
    if_neg (h3m _ (by decide)), if_neg (h3m _ (by decide)), if_neg (h3m _ (by decide)),
    if_neg (h3m _ (by decide)), if_neg (h3m _ (by decide)), if_neg (h3m _ (by decide)),
    if_neg (h3m _ (by decide)), if_neg (h3m _ (by decide)), if_neg (h3m _ (by decide)),
    if_neg (h3m _ (by decide)), if_neg (h3m _ (by decide)), if_neg (h3m _ (by decide)),
    if_neg (h3m _ (by decide))]
  simp [h4, h5, h6]

theorem lexPass_noTokenKind {mem : List Char} {ptr : Nat} {c : Char} {rest : List Char}
    (hread : mem.drop ptr = c :: rest) (hkind : noTokenKind c = true)
    (lexing_function : Bool) :
    ∀ (fuel : Nat) (tokeniser : CPPTokeniser) (sc : LexScope) (r : CPPTokeniser × Nat),
      lexPass mem lexing_function fuel tokeniser ptr sc ≠ Except.ok r := by
  have hk := hkind
  unfold noTokenKind at hk
  simp only [Bool.and_eq_true, Bool.not_eq_true', bne_iff_ne, ne_eq] at hk
  obtain ⟨⟨⟨⟨⟨h1, h2⟩, h3⟩, h4⟩, h5⟩, h6⟩ := hk
  intro fuel
  induction fuel with
  | zero => intro tokeniser sc r h; unfold lexPass at h; cases h
  | succ fuel ih =>
    intro tokeniser sc r h
    unfold lexPass at h
    have hscan : scanWhile CharIsWhitespace (mem.drop ptr) ptr = Except.ok ptr := by
      rw [hread]
      simp [scanWhile, h2, pure, Except.pure]
    rw [hscan] at h
    simp only [bind, Except.bind, readChar_of_drop hread] at h
    rw [if_neg h1] at h
    by_cases hroom : tokeniser.tokens.length < tokeniser.tokens_max
    · simp only [hroom, not_true_eq_false, if_false, lexToken_noTokenKind hread hkind,
        if_true] at h
      exact ih tokeniser sc r h
    · simp only [hroom, not_false_eq_true, if_true] at h
      cases h

theorem lexPass_space_noTokenKind {mem : List Char} {ptr : Nat} {ws : List Char} {c : Char}
    {rest : List Char} (hread : mem.drop ptr = ws ++ c :: rest)
    (hws : ∀ x ∈ ws, CharIsWhitespace x = true) (hkind : noTokenKind c = true)
    (lexing_function : Bool) (fuel : Nat) (tokeniser : CPPTokeniser) (sc : LexScope)
    (r : CPPTokeniser × Nat) :
    lexPass mem lexing_function fuel tokeniser ptr sc ≠ Except.ok r := by
  have hk := hkind
  unfold noTokenKind at hk
  simp only [Bool.and_eq_true, Bool.not_eq_true', bne_iff_ne, ne_eq] at hk
  obtain ⟨⟨⟨⟨⟨h1, h2⟩, h3⟩, h4⟩, h5⟩, h6⟩ := hk
  have hread2 : mem.drop (ptr + ws.length) = c :: rest := drop_add_of_drop hread
  intro h
  cases fuel with
  | zero => unfold lexPass at h; cases h
  | succ fuel =>
    unfold lexPass at h
    rw [hread, scanWhile_append CharIsWhitespace ws c rest ptr hws h2] at h
    simp only [bind, Except.bind, readChar_of_drop hread2] at h
    rw [if_neg h1] at h
    by_cases hroom : tokeniser.tokens.length < tokeniser.tokens_max
    · simp only [hroom, not_true_eq_false, if_false, lexToken_noTokenKind hread2 hkind,
        if_true] at h
      exact lexPass_noTokenKind hread2 hkind lexing_function fuel tokeniser sc r h
    · simp only [hroom, not_false_eq_true, if_true] at h
      cases h

/-- The lexer on the text of well-formed lexemes followed by a character without token
kind, when its test for the end of the scope does not succeed before that character: it
does not return. -/
theorem lexPass_lexemes_noTokenKind (mem : List Char) (lf : Bool) (ws : List Char) (c : Char)
    (rest : List Char) (hws : ∀ x ∈ ws, CharIsWhitespace x = true)
    (hkind : noTokenKind c = true) (ls : List Lexeme) :
    ∀ (fuel : Nat) (tokeniser : CPPTokeniser) (ptr : Nat) (sc : LexScope)
      (r : CPPTokeniser × Nat),
      wellFormedLexemes ls (ws ++ c :: rest) = true →
      mem.drop ptr = renderLexemes ls ++ (ws ++ c :: rest) →
      NeverStops lf sc (ls.map (fun l => l.type)) →
      tokeniser.tokens.length + ls.length ≤ tokeniser.tokens_max →
      lexPass mem lf fuel tokeniser ptr sc ≠ Except.ok r := by
  induction ls with
  | nil =>
    intro fuel tokeniser ptr sc r _ hm _ _
    exact lexPass_space_noTokenKind (by simpa [renderLexemes] using hm) hws hkind lf fuel
      tokeniser sc r
  | cons l ls ih =>
    intro fuel tokeniser ptr sc r hwf hm hnever hroom
    simp only [wellFormedLexemes, Bool.and_eq_true] at hwf
    obtain ⟨hl, hwf1⟩ := hwf
    cases fuel with
    | zero => intro h; unfold lexPass at h; cases h
    | succ fuel =>
      have hm1 : mem.drop ptr = l.render ++ (renderLexemes ls ++ (ws ++ c :: rest)) := by
        rw [hm]; simp [renderLexemes, List.append_assoc]
      rw [lexPass_lexeme mem lf fuel tokeniser ptr sc l _ hl hm1
        (by simp at hroom; omega)]
      obtain ⟨hs, hrest⟩ := neverStops_cons (by simpa using hnever)
      rw [if_neg (by simp [hs])]
      have hm2 : mem.drop (ptr + l.space.length + l.text.length) =
          renderLexemes ls ++ (ws ++ c :: rest) := by
        have := @drop_add_of_drop mem ptr l.render _ hm1
        simpa [Lexeme.render, Nat.add_assoc] using this
      exact ih fuel _ _ _ r hwf1 hm2 hrest (by simp at hroom ⊢; omega)

/-- C29.  At a character for which the `switch` of the lexer has no token kind (such as
`&`, `-`, `+`, `#`, `!`) the lexer makes a token of length zero and leaves the read
position where it is, so the scanning loop meets the same character again.  Hence, on
plain text (well-formed lexemes `ls`) that does not close the scope and is followed by
such a character, `EnumOrStructOrFunctionLexer` does not return, whatever the fuel. -/
theorem C29_lexer_stays_at_a_character_without_token_kind (mem : List Char) (ptr : Nat)
    (ls : List Lexeme) (ws : List Char) (c : Char) (rest : List Char)
    (lexing_function : Bool) (tokeniser : CPPTokeniser)
    (hm : mem.drop ptr = renderLexemes ls ++ (ws ++ c :: rest))
    (hwf : wellFormedLexemes ls (ws ++ c :: rest) = true)
    (hws : ∀ x ∈ ws, CharIsWhitespace x = true) (hkind : noTokenKind c = true)
    (hnever : NeverStops lexing_function {} (lexemeTypes ls))
    (hroom : tokeniser.tokens.length + ls.length ≤ tokeniser.tokens_max) :
    (∀ (fuel : Nat) (sc : LexScope),
      lexToken fuel mem (ptr + (renderLexemes ls).length + ws.length) sc =
        Except.ok ({ type := CPPTokenType.Identifier
                     str := ptr + (renderLexemes ls).length + ws.length, len := 0 },
          ptr + (renderLexemes ls).length + ws.length, sc)) ∧
    ∀ (fuel : Nat) (r : CPPTokeniser × Nat),
      EnumOrStructOrFunctionLexer fuel mem tokeniser ptr lexing_function ≠ Except.ok r := by
  constructor
  · intro fuel sc
    have hm2 : mem.drop (ptr + (renderLexemes ls).length + ws.length) = c :: rest := by
      have h1 : mem.drop ptr = (renderLexemes ls ++ ws) ++ c :: rest := by
        rw [hm]; simp
      have := drop_add_of_drop h1
      simpa [Nat.add_assoc] using this
    exact lexToken_noTokenKind hm2 hkind fuel sc
  · intro fuel r h
    unfold EnumOrStructOrFunctionLexer at h
    obtain ⟨x, hx, _⟩ := bind_eq_ok h
    exact lexPass_lexemes_noTokenKind mem lexing_function ws c rest hws hkind ls fuel
      tokeniser ptr {} x hwf hm hnever hroom hx

/-- C29, on the file `DQN_INSPECT enum E { A = 1 & 2 };`: the lexer, called right after the
marker (offset 11), does not get past the `&` at offset 27. -/
theorem C29_witness :
    ((fileBuffer "DQN_INSPECT enum E \x7b A = 1 & 2 \x7d;").drop 11 =
        renderLexemes
          [{ space := [' '], text := "enum".toList, type := CPPTokenType.Identifier },
           { space := [' '], text := "E".toList, type := CPPTokenType.Identifier },
           { space := [' '], text := "\x7b".toList, type := CPPTokenType.LeftBrace },
           { space := [' '], text := "A".toList, type := CPPTokenType.Identifier },
           { space := [' '], text := "=".toList, type := CPPTokenType.Equals },
           { space := [' '], text := "1".toList, type := CPPTokenType.Number }]
          ++ ([' '] ++ '&' :: (" 2 \x7d;".toList ++ [NUL])) ∧
      noTokenKind '&' = true ∧ noTokenKind '-' = true ∧ noTokenKind '+' = true ∧
      noTokenKind '#' = true ∧ noTokenKind '!' = true) ∧
    ((∀ (fuel : Nat) (sc : LexScope),
      lexToken fuel (fileBuffer "DQN_INSPECT enum E \x7b A = 1 & 2 \x7d;") 27 sc =
        Except.ok ({ type := CPPTokenType.Identifier, str := 27, len := 0 }, 27, sc)) ∧
    ∀ (fuel : Nat) (r : CPPTokeniser × Nat),
      EnumOrStructOrFunctionLexer fuel (fileBuffer "DQN_INSPECT enum E \x7b A = 1 & 2 \x7d;")
        { tokens := [{ type := CPPTokenType.InspectCode, str := 0, len := 33 }] } 11 false
        ≠ Except.ok r) :=
  ⟨by decide,
    C29_lexer_stays_at_a_character_without_token_kind
      (fileBuffer "DQN_INSPECT enum E \x7b A = 1 & 2 \x7d;") 11
      [{ space := [' '], text := "enum".toList, type := CPPTokenType.Identifier },
       { space := [' '], text := "E".toList, type := CPPTokenType.Identifier },
       { space := [' '], text := "\x7b".toList, type := CPPTokenType.LeftBrace },
       { space := [' '], text := "A".toList, type := CPPTokenType.Identifier },
       { space := [' '], text := "=".toList, type := CPPTokenType.Equals },
       { space := [' '], text := "1".toList, type := CPPTokenType.Number }]
      [' '] '&' (" 2 \x7d;".toList ++ [NUL]) false
      { tokens := [{ type := CPPTokenType.InspectCode, str := 0, len := 33 }] }
      (by decide) (by decide) (by decide) (by decide) (by decide) (by decide)⟩

theorem hashDefineChar_eq (c : Char) :
    hashDefineChar c = if c = '.' then '_' else c.toUpper := by
  unfold hashDefineChar
  by_cases hdot : c = '.'
  · subst hdot; decide
  · simp only [hdot, if_false]
    unfold Char.toUpper
    have h1 : ('a' ≤ c ∧ c ≤ 'z') ↔ (c.toNat ≥ 97 ∧ c.toNat ≤ 122) := by
      rw [char_le_iff, char_le_iff]
      rfl
    by_cases hl : 'a' ≤ c ∧ c ≤ 'z'
    · rw [if_pos hl]
      simp only []
      rw [if_pos (h1.1 hl)]
      rfl
    · rw [if_neg hl]
      simp only []
      rw [if_neg (fun h => hl (h1.2 h))]

theorem hashDefineChar_not_separator (c : Char) (hc : c ≠ '/' ∧ c ≠ '\\') :
    ¬ (hashDefineChar c = '\\' ∨ hashDefineChar c = '/') := by
  rw [hashDefineChar_eq]
  by_cases hdot : c = '.'
  · subst hdot; decide
  · simp only [hdot, if_false]
    unfold Char.toUpper
    simp only []
    by_cases hl : c.toNat ≥ 97 ∧ c.toNat ≤ 122
    · rw [if_pos hl]
      obtain ⟨h1, h2⟩ := hl
      generalize c.toNat = n at h1 h2
      interval_cases n <;> decide
    · rw [if_neg hl]
      rintro (h | h)
      · exact hc.2 h
      · exact hc.1 h

theorem hashDefineChar_separator (c : Char) (hc : c = '/' ∨ c = '\\') :
    hashDefineChar c = '\\' ∨ hashDefineChar c = '/' := by
  rcases hc with rfl | rfl
  · right; decide
  · left; decide

theorem extractFileNameLoop_name (name : List Char)
    (hname : ∀ c ∈ name, c ≠ '/' ∧ c ≠ '\\') (stop : List Char)
    (hstop : stop = [] ∨ ∃ sep rest, stop = sep :: rest ∧ (sep = '/' ∨ sep = '\\')) :
    ∀ extracted : List Char,
      extractFileNameLoop (name.reverse ++ stop) extracted = guardName name ++ extracted := by
  induction name using List.reverseRecOn with
  | nil =>
    intro extracted
    rcases hstop with rfl | ⟨sep, rest, rfl, hsep⟩
    · simp [extractFileNameLoop, guardName]
    · simp only [List.reverse_nil, List.nil_append, extractFileNameLoop]
      rw [if_pos (hashDefineChar_separator sep hsep)]
      simp [guardName]
  | append_singleton xs x ih =>
    intro extracted
    have hx := hname x (by simp)
    have hxs : ∀ c ∈ xs, c ≠ '/' ∧ c ≠ '\\' := fun c hc => hname c (by simp [hc])
    simp only [List.reverse_append, List.reverse_singleton, List.singleton_append,
      List.cons_append, List.nil_append, extractFileNameLoop]
    rw [if_neg (hashDefineChar_not_separator x hx), ih hxs, hashDefineChar_eq]
    simp [guardName]

/-- C27.  The name of the inclusion guard is formed from the file name, the component of
the path after its last `/` or `\`: every `.` is replaced by `_`, the letters `a` to `z`
are made capitals and every other character is kept.  The directories of the path do not
affect it, and the guard that is printed is `DQN_INSPECT_` followed by that name. -/
theorem C27_guard_is_the_file_name_in_capitals_with_dots_replaced (dir name : List Char)
    (sep : Char) (hsep : sep = '/' ∨ sep = '\\')
    (hname : ∀ c ∈ name, c ≠ '/' ∧ c ≠ '\\') :
    file_include_contents_hash_define (dir ++ sep :: name) = guardName name ∧
    file_include_contents_hash_define name = guardName name ∧
    fileGuardOpening (dir ++ sep :: name) =
      "//\n// ".toList ++ (dir ++ sep :: name) ++ "\n//\n\n".toList
        ++ "#ifndef DQN_INSPECT_".toList ++ guardName name ++ "\n".toList
        ++ "#define DQN_INSPECT_".toList ++ guardName name ++ "\n\n".toList ∧
    fileGuardClosing (dir ++ sep :: name) =
      "\n#undef ARRAY_COUNT\n#undef CHAR_COUNT\n#undef STR_AND_LEN\n".toList
        ++ "#endif // DQN_INSPECT_".toList ++ guardName name ++ "\n\n".toList := by
  have h1 : file_include_contents_hash_define (dir ++ sep :: name) = guardName name := by
    unfold file_include_contents_hash_define
    have := extractFileNameLoop_name name hname (sep :: dir.reverse)
      (Or.inr ⟨sep, dir.reverse, rfl, hsep⟩) []
    simpa using this
  have h2 : file_include_contents_hash_define name = guardName name := by
    unfold file_include_contents_hash_define
    have := extractFileNameLoop_name name hname [] (Or.inl rfl) []
    simpa using this
  refine ⟨h1, h2, ?_, ?_⟩
  · unfold fileGuardOpening
    rw [h1]
    simp [List.append_assoc]
  · unfold fileGuardClosing
    rw [h1]
    simp [List.append_assoc]

/-- C27, counterexample to the claim as stated.  For `Data/my-file.h` the guard name is
`MY-FILE_H`: the dot is replaced by an underscore and the hyphen is kept, where the claim
has every character that is not a letter or a digit removed (`MYFILEH`). -/
theorem C27_counterexample :
    file_include_contents_hash_define "Data/my-file.h".toList = "MY-FILE_H".toList ∧
    "MY-FILE_H".toList ≠
      ("my-file.h".toList.filter (fun c => c.isAlphanum)).map Char.toUpper := by
  decide

/-- C27, at the path `Data\DqnInspect_TestData.h`. -/
theorem C27_witness :
    ('\\' = '/' ∨ '\\' = '\\') ∧
    (∀ c ∈ "DqnInspect_TestData.h".toList, c ≠ '/' ∧ c ≠ '\\') ∧
    (file_include_contents_hash_define ("Data".toList ++ '\\' :: "DqnInspect_TestData.h".toList)
        = guardName "DqnInspect_TestData.h".toList ∧
      file_include_contents_hash_define "DqnInspect_TestData.h".toList =
        guardName "DqnInspect_TestData.h".toList ∧
      fileGuardOpening ("Data".toList ++ '\\' :: "DqnInspect_TestData.h".toList) =
        "//\n// ".toList ++ ("Data".toList ++ '\\' :: "DqnInspect_TestData.h".toList)
          ++ "\n//\n\n".toList
          ++ "#ifndef DQN_INSPECT_".toList ++ guardName "DqnInspect_TestData.h".toList
          ++ "\n".toList
          ++ "#define DQN_INSPECT_".toList ++ guardName "DqnInspect_TestData.h".toList
          ++ "\n\n".toList ∧
      fileGuardClosing ("Data".toList ++ '\\' :: "DqnInspect_TestData.h".toList) =
        "\n#undef ARRAY_COUNT\n#undef CHAR_COUNT\n#undef STR_AND_LEN\n".toList
          ++ "#endif // DQN_INSPECT_".toList ++ guardName "DqnInspect_TestData.h".toList
          ++ "\n\n".toList) :=
  ⟨by decide, by decide,
    C27_guard_is_the_file_name_in_capitals_with_dots_replaced "Data".toList
      "DqnInspect_TestData.h".toList '\\' (by decide) (by decide)⟩

theorem guardName_example :
    guardName "DqnInspect_TestData.h".toList = "DQNINSPECT_TESTDATA_H".toList := by
  decide

/-- `SkipFunctionParam` over tokens without parentheses, braces and commas: it stops on
the comma or closing parenthesis that follows them. -/
theorem skipFunctionParam_flat_sep : ∀ (ys : List CPPToken) (tk : CPPTokeniser)
    (pre : List CPPToken) (stop : CPPToken) (post : List CPPToken) (fuel : Nat),
    tk.tokens = pre ++ ys ++ stop :: post → tk.tokens_index = pre.length →
    0 ≤ tk.indent_level →
    (∀ y ∈ ys, y.type ≠ CPPTokenType.OpenParen ∧ y.type ≠ CPPTokenType.CloseParen ∧
      y.type ≠ CPPTokenType.Comma ∧ y.type ≠ CPPTokenType.EndOfStream ∧
      y.type ≠ CPPTokenType.LeftBrace ∧ y.type ≠ CPPTokenType.RightBrace) →
    (stop.type = CPPTokenType.Comma ∨ stop.type = CPPTokenType.CloseParen) →
    ys.length + 1 ≤ fuel →
    SkipFunctionParam fuel tk =
      Except.ok { tk with tokens_index := tk.tokens_index + ys.length } := by
  intro ys
  induction ys with
  | nil =>
    intro tk pre stop post fuel ht hi _ _ hstop hfuel
    obtain ⟨f, rfl⟩ : ∃ f, fuel = f + 1 := ⟨fuel - 1, by simp at hfuel; omega⟩
    have hg : CPPTokeniser_PeekToken tk = stop := getD_cursor (by simpa using ht) hi
    rw [SkipFunctionParam]
    rcases hstop with hs | hs <;> simp [hg, hs, pure, Except.pure, bind, Except.bind]
  | cons y ys ih =>
    intro tk pre stop post fuel ht hi h0 hys hstop hfuel
    obtain ⟨f, rfl⟩ : ∃ f, fuel = f + 1 := ⟨fuel - 1, by simp at hfuel; omega⟩
    have hy := hys y (List.mem_cons_self _ _)
    have hg : CPPTokeniser_PeekToken tk = y :=
      @getD_cursor tk pre y (ys ++ stop :: post) (by simp [ht]) hi
    have e1 := next_plain_at tk pre y (ys ++ stop :: post) (by simp [ht]) hi h0
      ⟨hy.2.2.2.1, hy.2.2.2.2.1, hy.2.2.2.2.2⟩
    have hrec := ih { tk with tokens_index := tk.tokens_index + 1 } (pre ++ [y]) stop post f
      (by simp [ht]) (by simp [hi]) h0 (fun z hz => hys z (List.mem_cons_of_mem _ hz)) hstop
      (by simp at hfuel; omega)
    rw [SkipFunctionParam]
    simp only [hg, hy, if_false, pure, Except.pure, bind, Except.bind, e1]
    rw [hrec]
    simp [Nat.add_assoc, Nat.add_comm 1]

/-- C30.  In the loop over the annotation call of a prototype, an entry that is a lone
identifier `name` takes the token after it, the separator `sep`, as its second token, and
the skip that follows runs over the tokens `ys` of the next entry up to the comma or
closing parenthesis `stop` after them, which the loop then takes: the loop goes on from
`stop` with the declared defaults unchanged, so the entry after a lone identifier is never
recorded. -/
theorem C30_lone_identifier_entry_swallows_the_next_entry (tk : CPPTokeniser)
    (pre ys post : List CPPToken) (name sep stop : CPPToken) (fuel : Nat)
    (acc : List FunctionDefaultParam)
    (ht : tk.tokens = pre ++ sep :: (ys ++ stop :: post))
    (hi : tk.tokens_index = pre.length) (h0 : 0 ≤ tk.indent_level)
    (hname : name.type = CPPTokenType.Identifier)
    (hsep : sep.type = CPPTokenType.Comma)
    (hys : ∀ y ∈ ys, y.type ≠ CPPTokenType.OpenParen ∧ y.type ≠ CPPTokenType.CloseParen ∧
      y.type ≠ CPPTokenType.Comma ∧ y.type ≠ CPPTokenType.EndOfStream ∧
      y.type ≠ CPPTokenType.LeftBrace ∧ y.type ≠ CPPTokenType.RightBrace)
    (hstop : stop.type = CPPTokenType.Comma ∨ stop.type = CPPTokenType.CloseParen) :
    defaultParamLoop (fuel + ys.length + 2) name tk acc =
      defaultParamLoop (fuel + ys.length + 1) stop
        { tk with tokens_index := tk.tokens_index + 1 + ys.length + 1 } acc := by
  have hs := sep_facts hstop
  have e1 := next_plain_at tk pre sep (ys ++ stop :: post) ht hi h0 (by rw [hsep]; decide)
  have e2 := skipFunctionParam_flat_sep ys { tk with tokens_index := tk.tokens_index + 1 }
    (pre ++ [sep]) stop post (fuel + ys.length + 1) (by simp [ht]) (by simp [hi]) h0 hys hstop
    (by omega)
  have e3 := next_plain_at { tk with tokens_index := tk.tokens_index + 1 + ys.length }
    (pre ++ sep :: ys) stop post (by simp [ht]) (by simp [hi]; omega) h0
    ⟨hs.1, hs.2.1, hs.2.2.1⟩
  have hnc : name.type ≠ CPPTokenType.CloseParen ∧ name.type ≠ CPPTokenType.EndOfStream ∧
      name.type ≠ CPPTokenType.Comma := by rw [hname]; decide
  have hne : sep.type ≠ CPPTokenType.Equals := by rw [hsep]; decide
  rw [defaultParamLoop]
  simp only [hnc, ne_eq, not_false_eq_true, and_self, if_true, if_false, hname,
    not_true_eq_false, e1, hne, e2, e3, bind, Except.bind, pure, Except.pure, reduceCtorEq]

/-- C30, at the tokens of
`DQN_INSPECT_GENERATE_PROTOTYPE(a, b = 10)` before `int Add(int a, int b);`, the entry `a`
read: the loop goes on from the closing parenthesis with nothing recorded for `b = 10`,
and it returns no declared default. -/
theorem C30_witness :
    (defaultParamLoop (0 + 3 + 1) { type := CPPTokenType.CloseParen, str := 40, len := 1 }
        { tokens := [{ type := CPPTokenType.InspectGeneratePrototype, str := 0, len := 64 },
              { type := CPPTokenType.OpenParen, str := 30, len := 1 },
              { type := CPPTokenType.Identifier, str := 31, len := 1 },
              { type := CPPTokenType.Comma, str := 32, len := 1 },
              { type := CPPTokenType.Identifier, str := 34, len := 1 },
              { type := CPPTokenType.Equals, str := 36, len := 1 },
              { type := CPPTokenType.Number, str := 38, len := 2 },
              { type := CPPTokenType.CloseParen, str := 40, len := 1 },
              { type := CPPTokenType.Identifier, str := 42, len := 3 },
              { type := CPPTokenType.Identifier, str := 46, len := 3 },
              { type := CPPTokenType.OpenParen, str := 49, len := 1 },
              { type := CPPTokenType.Identifier, str := 50, len := 3 },
              { type := CPPTokenType.Identifier, str := 54, len := 1 },
              { type := CPPTokenType.Comma, str := 55, len := 1 },
              { type := CPPTokenType.Identifier, str := 57, len := 3 },
              { type := CPPTokenType.Identifier, str := 61, len := 1 },
              { type := CPPTokenType.CloseParen, str := 62, len := 1 },
              { type := CPPTokenType.EndOfStream }]
          tokens_index := 3 + 1 + 3 + 1, tokens_max := 16384, spaces_per_indent := 4 } [] =
      Except.ok ([],
        { tokens := [{ type := CPPTokenType.InspectGeneratePrototype, str := 0, len := 64 },
              { type := CPPTokenType.OpenParen, str := 30, len := 1 },
              { type := CPPTokenType.Identifier, str := 31, len := 1 },
              { type := CPPTokenType.Comma, str := 32, len := 1 },
              { type := CPPTokenType.Identifier, str := 34, len := 1 },
              { type := CPPTokenType.Equals, str := 36, len := 1 },
              { type := CPPTokenType.Number, str := 38, len := 2 },
              { type := CPPTokenType.CloseParen, str := 40, len := 1 },
              { type := CPPTokenType.Identifier, str := 42, len := 3 },
              { type := CPPTokenType.Identifier, str := 46, len := 3 },
              { type := CPPTokenType.OpenParen, str := 49, len := 1 },
              { type := CPPTokenType.Identifier, str := 50, len := 3 },
              { type := CPPTokenType.Identifier, str := 54, len := 1 },
              { type := CPPTokenType.Comma, str := 55, len := 1 },
              { type := CPPTokenType.Identifier, str := 57, len := 3 },
              { type := CPPTokenType.Identifier, str := 61, len := 1 },
              { type := CPPTokenType.CloseParen, str := 62, len := 1 },
              { type := CPPTokenType.EndOfStream }]
          tokens_index := 8, tokens_max := 16384, spaces_per_indent := 4 })) ∧
    defaultParamLoop (0 + 3 + 2) { type := CPPTokenType.Identifier, str := 31, len := 1 }
        { tokens := [{ type := CPPTokenType.InspectGeneratePrototype, str := 0, len := 64 },
              { type := CPPTokenType.OpenParen, str := 30, len := 1 },
              { type := CPPTokenType.Identifier, str := 31, len := 1 },
              { type := CPPTokenType.Comma, str := 32, len := 1 },
              { type := CPPTokenType.Identifier, str := 34, len := 1 },
              { type := CPPTokenType.Equals, str := 36, len := 1 },
              { type := CPPTokenType.Number, str := 38, len := 2 },
              { type := CPPTokenType.CloseParen, str := 40, len := 1 },
              { type := CPPTokenType.Identifier, str := 42, len := 3 },
              { type := CPPTokenType.Identifier, str := 46, len := 3 },
              { type := CPPTokenType.OpenParen, str := 49, len := 1 },
              { type := CPPTokenType.Identifier, str := 50, len := 3 },
              { type := CPPTokenType.Identifier, str := 54, len := 1 },
              { type := CPPTokenType.Comma, str := 55, len := 1 },
              { type := CPPTokenType.Identifier, str := 57, len := 3 },
              { type := CPPTokenType.Identifier, str := 61, len := 1 },
              { type := CPPTokenType.CloseParen, str := 62, len := 1 },
              { type := CPPTokenType.EndOfStream }]
          tokens_index := 3, tokens_max := 16384, spaces_per_indent := 4 } [] =
      defaultParamLoop (0 + 3 + 1) { type := CPPTokenType.CloseParen, str := 40, len := 1 }
        { tokens := [{ type := CPPTokenType.InspectGeneratePrototype, str := 0, len := 64 },
              { type := CPPTokenType.OpenParen, str := 30, len := 1 },
              { type := CPPTokenType.Identifier, str := 31, len := 1 },
              { type := CPPTokenType.Comma, str := 32, len := 1 },
              { type := CPPTokenType.Identifier, str := 34, len := 1 },
              { type := CPPTokenType.Equals, str := 36, len := 1 },
              { type := CPPTokenType.Number, str := 38, len := 2 },
              { type := CPPTokenType.CloseParen, str := 40, len := 1 },
              { type := CPPTokenType.Identifier, str := 42, len := 3 },
              { type := CPPTokenType.Identifier, str := 46, len := 3 },
              { type := CPPTokenType.OpenParen, str := 49, len := 1 },
              { type := CPPTokenType.Identifier, str := 50, len := 3 },
              { type := CPPTokenType.Identifier, str := 54, len := 1 },
              { type := CPPTokenType.Comma, str := 55, len := 1 },
              { type := CPPTokenType.Identifier, str := 57, len := 3 },
              { type := CPPTokenType.Identifier, str := 61, len := 1 },
              { type := CPPTokenType.CloseParen, str := 62, len := 1 },
              { type := CPPTokenType.EndOfStream }]
          tokens_index := 3 + 1 + 3 + 1, tokens_max := 16384, spaces_per_indent := 4 } [] :=
  ⟨by decide,
    C30_lone_identifier_entry_swallows_the_next_entry
      { tokens := [{ type := CPPTokenType.InspectGeneratePrototype, str := 0, len := 64 },
              { type := CPPTokenType.OpenParen, str := 30, len := 1 },
              { type := CPPTokenType.Identifier, str := 31, len := 1 },
              { type := CPPTokenType.Comma, str := 32, len := 1 },
              { type := CPPTokenType.Identifier, str := 34, len := 1 },
              { type := CPPTokenType.Equals, str := 36, len := 1 },
              { type := CPPTokenType.Number, str := 38, len := 2 },
              { type := CPPTokenType.CloseParen, str := 40, len := 1 },
              { type := CPPTokenType.Identifier, str := 42, len := 3 },
              { type := CPPTokenType.Identifier, str := 46, len := 3 },
              { type := CPPTokenType.OpenParen, str := 49, len := 1 },
              { type := CPPTokenType.Identifier, str := 50, len := 3 },
              { type := CPPTokenType.Identifier, str := 54, len := 1 },
              { type := CPPTokenType.Comma, str := 55, len := 1 },
              { type := CPPTokenType.Identifier, str := 57, len := 3 },
              { type := CPPTokenType.Identifier, str := 61, len := 1 },
              { type := CPPTokenType.CloseParen, str := 62, len := 1 },
              { type := CPPTokenType.EndOfStream }]
        tokens_index := 3, tokens_max := 16384, spaces_per_indent := 4 }
      [{ type := CPPTokenType.InspectGeneratePrototype, str := 0, len := 64 },
       { type := CPPTokenType.OpenParen, str := 30, len := 1 },
       { type := CPPTokenType.Identifier, str := 31, len := 1 }]
      [{ type := CPPTokenType.Identifier, str := 34, len := 1 },
       { type := CPPTokenType.Equals, str := 36, len := 1 },
       { type := CPPTokenType.Number, str := 38, len := 2 }]
      [{ type := CPPTokenType.Identifier, str := 42, len := 3 },
       { type := CPPTokenType.Identifier, str := 46, len := 3 },
       { type := CPPTokenType.OpenParen, str := 49, len := 1 },
       { type := CPPTokenType.Identifier, str := 50, len := 3 },
       { type := CPPTokenType.Identifier, str := 54, len := 1 },
       { type := CPPTokenType.Comma, str := 55, len := 1 },
       { type := CPPTokenType.Identifier, str := 57, len := 3 },
       { type := CPPTokenType.Identifier, str := 61, len := 1 },
       { type := CPPTokenType.CloseParen, str := 62, len := 1 },
       { type := CPPTokenType.EndOfStream }]
      { type := CPPTokenType.Identifier, str := 31, len := 1 }
      { type := CPPTokenType.Comma, str := 32, len := 1 }
      { type := CPPTokenType.CloseParen, str := 40, len := 1 } 0 []
      (by decide) (by decide) (by decide) (by decide) (by decide) (by decide) (by decide)⟩

/-- The annotation call `(a, b = 10)` before `int Add(int a, int b);` gives `b` no default,
while `(b = 10)` and `(5, b = 10)` give it the default `10`: an entry that is one number is
passed over without harm, an entry that is one identifier takes the next entry with it. -/
theorem lone_identifier_example :
    (inspectFile 40
        (fileBuffer "DQN_INSPECT_GENERATE_PROTOTYPE(a, b = 10)\nint Add(int a, int b);")
        InspectMode.All).map (fun r => r.2.output_file) =
      Except.ok "int Add(int a, int b);\n".toList ∧
    (inspectFile 40
        (fileBuffer "DQN_INSPECT_GENERATE_PROTOTYPE(b = 10)\nint Add(int a, int b);")
        InspectMode.All).map (fun r => r.2.output_file) =
      Except.ok "int Add(int a, int b = 10);\n".toList ∧
    (inspectFile 40
        (fileBuffer "DQN_INSPECT_GENERATE_PROTOTYPE(5, b = 10)\nint Add(int a, int b);")
        InspectMode.All).map (fun r => r.2.output_file) =
      Except.ok "int Add(int a, int b = 10);\n".toList := by
  decide!

/-- An entry that is a lone identifier in the last place takes the closing parenthesis of
the call with it, and an entry in parentheses ends the call early: in both cases the
prototype that follows is not parsed, and only a diagnostic is written. -/
theorem entry_breaks_the_prototype_example :
    (inspectFile 60
        (fileBuffer "DQN_INSPECT_GENERATE_PROTOTYPE(b = 10, a)\nint Add(int a, int b);")
        InspectMode.All).map (fun r => (r.1, r.2.output_file)) =
      Except.ok ([], "Expected token type: Identifier received: \nContext: \n\n".toList) ∧
    (inspectFile 60
        (fileBuffer
          "DQN_INSPECT_GENERATE_PROTOTYPE(b = 10, (5), c = 3)\nint Add(int a, int b, int c);")
        InspectMode.All).map (fun r => (r.1, r.2.output_file)) =
      Except.ok ([], "Expected token type: Identifier received: ,\nContext: ,\n\n".toList) := by
  decide!

theorem fmtPad_zero : fmtPad 0 = [] := rfl

theorem generateStruct_eq (mem : List Char) (parsed_struct : ParsedStruct)
    (tokeniser : CPPTokeniser) (hindent : tokeniser.indent_level = 0) :
    generateStruct mem parsed_struct tokeniser =
      Except.ok (CPPTokeniser_SprintfToFileNoIndenting tokeniser
        (structText (fmtPad (tokeniser.spaces_per_indent : Int))
          (fmtPad ((tokeniser.spaces_per_indent : Int) * 2))
          (fmtLit mem parsed_struct.name) (parsed_struct.members.map (describeMember mem)))) := by
  unfold generateStruct
  simp only [writeStructMembers_eq, CPPTokeniser_SprintfToFileNoIndenting,
    CPPTokeniser_SprintfToFile, indentMore, indentLess, hindent, zero_add, mul_zero, mul_one,
    add_sub_cancel_right, fmtPad_zero, List.append_nil, List.nil_append, ne_eq,
    not_true_eq_false, if_false, pure, Except.pure, bind, Except.bind, structText,
    List.append_assoc, one_add_one_eq_two, sub_self]

/-- C28.  For a parsed enum with at least one variant and any parsed struct, generation
from the outermost indentation returns, and the two functions it defines are
`DqnInspectEnum_Stringify`, which takes the enum value and a second parameter `len` and
returns the entry of the string table for that value, and `DqnInspect_GetStruct`, which
takes a pointer to the struct and returns the address of its descriptor
`DqnInspect_<Struct>_Struct`, whose `members` is the member-descriptor array (one entry per
parsed member, in order) and whose `members_len` is the length of that array. -/
theorem C28_generated_lookup_functions (mem : List Char) (parsed_enum : ParsedEnum)
    (parsed_struct : ParsedStruct) (tokeniser : CPPTokeniser)
    (hmembers : parsed_enum.members ≠ []) (hindent : tokeniser.indent_level = 0) :
    writeEnumStringify mem parsed_enum tokeniser =
      Except.ok (CPPTokeniser_SprintfToFileNoIndenting tokeniser
        (stringifyText [] (fmtPad (tokeniser.spaces_per_indent : Int))
          parsed_enum.struct_or_class_decl (fmtLit mem parsed_enum.name)
          (variantNames mem parsed_enum))) ∧
    generateStruct mem parsed_struct tokeniser =
      Except.ok (CPPTokeniser_SprintfToFileNoIndenting tokeniser
        (structText (fmtPad (tokeniser.spaces_per_indent : Int))
          (fmtPad ((tokeniser.spaces_per_indent : Int) * 2))
          (fmtLit mem parsed_struct.name) (parsed_struct.members.map (describeMember mem)))) := by
  refine ⟨?_, generateStruct_eq mem parsed_struct tokeniser hindent⟩
  rw [writeEnumStringify_eq mem parsed_enum tokeniser hmembers, hindent]
  simp [fmtPad_zero]

/-- C28, at the parse results of the header's usage example,
`DQN_INSPECT enum InspectedEnum { HelloWorld };` and
`DQN_INSPECT struct InspectedStruct { int x; };`. -/
theorem C28_witness :
    writeEnumStringify usageExampleBuffer
        { name := { str := 17, len := 13 }, members := [{ value := { str := 33, len := 10 } }] }
        { spaces_per_indent := 4 } =
      Except.ok (CPPTokeniser_SprintfToFileNoIndenting { spaces_per_indent := 4 }
        (stringifyText [] (fmtPad ((4 : Nat) : Int)) false
          (fmtLit usageExampleBuffer { str := 17, len := 13 })
          (variantNames usageExampleBuffer
            { name := { str := 17, len := 13 }
              members := [{ value := { str := 33, len := 10 } }] }))) ∧
    generateStruct usageExampleBuffer
        { name := { str := 66, len := 15 }
          members := [{ value := { type := { str := 84, len := 3 }
                                   name := { str := 88, len := 1 } } }] }
        { spaces_per_indent := 4 } =
      Except.ok (CPPTokeniser_SprintfToFileNoIndenting { spaces_per_indent := 4 }
        (structText (fmtPad ((4 : Nat) : Int)) (fmtPad (((4 : Nat) : Int) * 2))
          (fmtLit usageExampleBuffer { str := 66, len := 15 })
          ([({ value := { type := { str := 84, len := 3 }
                          name := { str := 88, len := 1 } } } :
              CPPDeclLinkedList CPPVariableDecl)].map (describeMember usageExampleBuffer)))) :=
  C28_generated_lookup_functions usageExampleBuffer
    { name := { str := 17, len := 13 }, members := [{ value := { str := 33, len := 10 } }] }
    { name := { str := 66, len := 15 }
      members := [{ value := { type := { str := 84, len := 3 }
                               name := { str := 88, len := 1 } } }] }
    { spaces_per_indent := 4 } (by decide) rfl

/-- The text generated for the usage example of the header: the functions it defines are
`DqnInspectEnum_Stringify` and `DqnInspect_GetStruct`, not the `DqnInspect_EnumString` and
`DqnReflect_GetStruct` that the usage example calls. -/
theorem usage_example_text :
    stringifyText [] (fmtPad ((4 : Nat) : Int)) false
        (fmtLit usageExampleBuffer { str := 17, len := 13 })
        (variantNames usageExampleBuffer
          { name := { str := 17, len := 13 }
            members := [{ value := { str := 33, len := 10 } }] }) =
      ("char const *DqnInspectEnum_Stringify(InspectedEnum val, int *len = nullptr)\n\x7b\n" ++
       "    if (val == HelloWorld) \x7b if (len) *len = CHAR_COUNT(\"HelloWorld\"); " ++
         "return DqnInspect_InspectedEnum_Strings[0]; \x7d\n" ++
       "    return nullptr;\n\x7d\n\n").toList ∧
    structText (fmtPad ((4 : Nat) : Int)) (fmtPad (((4 : Nat) : Int) * 2))
        (fmtLit usageExampleBuffer { str := 66, len := 15 })
        ([({ value := { type := { str := 84, len := 3 }
                        name := { str := 88, len := 1 } } } :
            CPPDeclLinkedList CPPVariableDecl)].map (describeMember usageExampleBuffer)) =
      ("DqnInspect_StructMember const DqnInspect_InspectedStruct_StructMembers[] =\n\x7b\n" ++
       "    \x7b\n        STR_AND_LEN(\"int\"), STR_AND_LEN(\"x\"),\n" ++
       "        nullptr, 0, // template_expr and template_expr_len\n" ++
       "        0 // array_dimensions\n    \x7d,\n\x7d;\n\n" ++
       "DqnInspect_Struct const DqnInspect_InspectedStruct_Struct =\n\x7b\n" ++
       "    STR_AND_LEN(\"InspectedStruct\"),\n" ++
       "    DqnInspect_InspectedStruct_StructMembers, // members\n" ++
       "    ARRAY_COUNT(DqnInspect_InspectedStruct_StructMembers) // members_len\n\x7d;\n\n" ++
       "DqnInspect_Struct const *DqnInspect_GetStruct(InspectedStruct const *val)\n\x7b\n" ++
       "    (void)val;\n" ++
       "    DqnInspect_Struct const *result = &DqnInspect_InspectedStruct_Struct;\n" ++
       "    return result;\n\x7d\n\n").toList := by
  decide!

/-- The parse results of the usage example, as used above. -/
theorem usage_example_results :
    (do
      let tokeniser ← lexFile 40 usageExampleBuffer InspectMode.All
        { spaces_per_indent := 4, tokens_max := 16384 }
      let st ← parseLoop usageExampleBuffer 40 { tokeniser := tokeniser }
      pure (st.parsing_results, st.tokeniser.indent_level, st.tokeniser.output_file)) =
      Except.ok
        ([ParsedResult.Enum
            { name := { str := 17, len := 13 }
              members := [{ value := { str := 33, len := 10 } }] },
          ParsedResult.Struct
            { name := { str := 66, len := 15 }
              members := [{ value := { type := { str := 84, len := 3 }
                                       name := { str := 88, len := 1 } } }] }], 0, []) := by
  decide!

theorem renderParams_intercalate (ds : List ParamDescriptor) :
    renderParams ds = ", ".toList.intercalate (ds.map renderParam) := by
  induction ds with
  | nil => rfl
  | cons d ds ih =>
    cases ds with
    | nil => simp [renderParams, List.intercalate]
    | cons e es =>
      rw [renderParams, ih]
      · simp [List.intercalate, List.intersperse, List.append_assoc]
      · simp

theorem renderParam_describeParam (mem : List Char) (param : CPPDeclLinkedList CPPVariableDecl) :
    renderParam (describeParam mem param) =
      fmtLit mem param.value.type
        ++ (if param.value.template_expr.len > 0 then
              "<".toList ++ fmtLit mem param.value.template_expr ++ ">".toList
            else [])
        ++ (if param.value.name.len > 0 then " ".toList ++ fmtLit mem param.value.name else [])
        ++ (if param.value.default_value.len > 0 then
              " = ".toList ++ fmtLit mem param.value.default_value
            else []) := by
  unfold renderParam describeParam
  by_cases h1 : param.value.template_expr.len > 0 <;>
    by_cases h2 : param.value.name.len > 0 <;>
    by_cases h3 : param.value.default_value.len > 0 <;> simp [h1, h2, h3]

/-- C25.  For every parsed prototype, what the generator writes is the return type and the
name, each padded to its column, an opening parenthesis, then the parameters in order,
separated by `, `, and `);` with a newline.  Each parameter is written as its type text,
then `<` generic arguments `>` only when the generic-argument text is not empty (its length
is positive), then a space and the name only when the name is not empty, then ` = ` and the
default value only when the default-value text is not empty. -/
theorem C25_parameters_are_rendered_in_order (mem : List Char) (w1 w2 : Int)
    (parsed_func : ParsedFunctionPrototype) (out : CPPTokeniser) :
    (generateFunctionPrototype mem w1 w2 parsed_func out).output_file =
      out.output_file
        ++ (fmtPad ((out.spaces_per_indent : Int) * out.indent_level)
          ++ fmtLit mem parsed_func.return_type ++ " ".toList
          ++ List.replicate (w1 - parsed_func.return_type.len).toNat ' '
          ++ fmtPad ((out.spaces_per_indent : Int) * out.indent_level)
          ++ fmtLit mem parsed_func.name
          ++ List.replicate (w2 - parsed_func.name.len).toNat ' '
          ++ fmtPad ((out.spaces_per_indent : Int) * out.indent_level) ++ "(".toList)
        ++ ", ".toList.intercalate
            (parsed_func.members.map (fun param => renderParam (describeParam mem param)))
        ++ ");\n".toList ∧
    ∀ param ∈ parsed_func.members,
      renderParam (describeParam mem param) =
        fmtLit mem param.value.type
          ++ (if param.value.template_expr.len > 0 then
                "<".toList ++ fmtLit mem param.value.template_expr ++ ">".toList
              else [])
          ++ (if param.value.name.len > 0 then " ".toList ++ fmtLit mem param.value.name
              else [])
          ++ (if param.value.default_value.len > 0 then
                " = ".toList ++ fmtLit mem param.value.default_value
              else []) := by
  refine ⟨?_, fun param _ => renderParam_describeParam mem param⟩
  rw [generateFunctionPrototype_eq, prototypeText, renderParams_intercalate, List.map_map]
  simp only [List.append_assoc, Function.comp_def]

/-- The prototype `void f(char const *s, int n = 3, ...)` as the generator writes it. -/
theorem rendered_parameters_example :
    (inspectFile 60
        (fileBuffer
          "DQN_INSPECT_GENERATE_PROTOTYPE()\nvoid f(char const *s,  int   n = 3, ...);")
        InspectMode.All).map (fun r => r.2.output_file) =
      Except.ok "void f(char const * s, int n = 3, ...);\n".toList := by
  decide!

theorem strCmp_refl (mem : List Char) (a : StringLiteral) : StrCmp mem a a = true := by
  simp [StrCmp]

theorem strCmp_iff (mem : List Char) (a b : StringLiteral) :
    StrCmp mem a b = true ↔ a.len = b.len ∧ a.text mem = b.text mem := by
  unfold StrCmp
  by_cases h : a.len = b.len <;> simp [h]

theorem sameKey_iff (mem : List Char) (a b : CPPVariableDecl) :
    sameKey mem a b = true ↔
      (a.type.len = b.type.len ∧ a.type.text mem = b.type.text mem) ∧
      (a.name.len = b.name.len ∧ a.name.text mem = b.name.text mem) := by
  simp [sameKey, strCmp_iff]

theorem sameKey_refl (mem : List Char) (a : CPPVariableDecl) : sameKey mem a a = true := by
  simp [sameKey_iff]

theorem sameKey_symm {mem : List Char} {a b : CPPVariableDecl}
    (h : sameKey mem a b = true) : sameKey mem b a = true := by
  rw [sameKey_iff] at h ⊢
  exact ⟨⟨h.1.1.symm, h.1.2.symm⟩, ⟨h.2.1.symm, h.2.2.symm⟩⟩

theorem sameKey_trans {mem : List Char} {a b c : CPPVariableDecl}
    (h1 : sameKey mem a b = true) (h2 : sameKey mem b c = true) : sameKey mem a c = true := by
  rw [sameKey_iff] at h1 h2 ⊢
  exact ⟨⟨h1.1.1.trans h2.1.1, h1.1.2.trans h2.1.2⟩, ⟨h1.2.1.trans h2.2.1, h1.2.2.trans h2.2.2⟩⟩

theorem distinctKeys_append (mem : List Char) :
    ∀ (ds es keys : List CPPVariableDecl),
      distinctKeys mem keys (ds ++ es) = distinctKeys mem (distinctKeys mem keys ds) es := by
  intro ds
  induction ds with
  | nil => intro es keys; rfl
  | cons d ds ih =>
    intro es keys
    simp only [List.cons_append, distinctKeys]
    split <;> exact ih _ _

theorem distinctKeys_snoc (mem : List Char) (ds keys : List CPPVariableDecl)
    (d : CPPVariableDecl) :
    distinctKeys mem keys (ds ++ [d]) =
      if (distinctKeys mem keys ds).any (fun key => sameKey mem key d) then
        distinctKeys mem keys ds
      else distinctKeys mem keys ds ++ [d] := by
  rw [distinctKeys_append]
  simp only [distinctKeys]

/-- The keys met are an extension of the keys given. -/
theorem distinctKeys_initial (mem : List Char) :
    ∀ (ds keys : List CPPVariableDecl), ∃ more, distinctKeys mem keys ds = keys ++ more := by
  intro ds
  induction ds with
  | nil => intro keys; exact ⟨[], by simp [distinctKeys]⟩
  | cons d ds ih =>
    intro keys
    simp only [distinctKeys]
    split
    · exact ih keys
    · obtain ⟨more, hm⟩ := ih (keys ++ [d])
      exact ⟨d :: more, by rw [hm]; simp⟩

theorem keysOf_nil (mem : List Char) : KeysOf mem [] [] := by
  refine ⟨List.Pairwise.nil, ?_, ?_⟩
  · intro d hd; cases hd
  · intro k hk; cases hk

theorem keysOf_snoc {mem : List Char} {keys ds : List CPPVariableDecl} (d : CPPVariableDecl)
    (h : KeysOf mem keys ds) :
    KeysOf mem (if keys.any (fun key => sameKey mem key d) then keys else keys ++ [d])
      (ds ++ [d]) := by
  obtain ⟨h1, h2, h3⟩ := h
  by_cases hany : keys.any (fun key => sameKey mem key d) = true
  · rw [if_pos hany]
    refine ⟨h1, ?_, fun k hk => List.mem_append_left _ (h3 k hk)⟩
    intro x hx
    rcases List.mem_append.1 hx with hx | hx
    · exact h2 x hx
    · simp only [List.mem_singleton] at hx
      subst hx
      exact List.any_eq_true.1 hany
  · rw [if_neg hany]
    have hnone : ∀ k ∈ keys, sameKey mem k d = false := by
      intro k hk
      by_contra hc
      exact hany (List.any_eq_true.2 ⟨k, hk, by simpa using hc⟩)
    refine ⟨?_, ?_, ?_⟩
    · rw [List.pairwise_append]
      refine ⟨h1, List.pairwise_singleton _ _, ?_⟩
      intro a ha b hb
      simp only [List.mem_singleton] at hb
      subst hb
      exact hnone a ha
    · intro x hx
      rcases List.mem_append.1 hx with hx | hx
      · obtain ⟨k, hk, hkx⟩ := h2 x hx
        exact ⟨k, List.mem_append_left _ hk, hkx⟩
      · simp only [List.mem_singleton] at hx
        subst hx
        exact ⟨x, by simp, sameKey_refl mem x⟩
    · intro k hk
      rcases List.mem_append.1 hk with hk | hk
      · exact List.mem_append_left _ (h3 k hk)
      · exact List.mem_append_right _ hk

theorem keysOf_distinctKeys (mem : List Char) (ds : List CPPVariableDecl) :
    KeysOf mem (distinctKeys mem [] ds) ds := by
  induction ds using List.reverseRecOn with
  | nil => exact keysOf_nil mem
  | append_singleton ds d ih =>
    rw [distinctKeys_snoc]
    exact keysOf_snoc d ih

theorem addToMetadataEntry_map (mem : List Char) (d : CPPVariableDecl)
    (val : CPPDeclToMetaValue) (T : CPPVariableDecl → List CPPDeclToMetaValue) :
    ∀ L : List CPPVariableDecl, L.Pairwise (fun a b => sameKey mem a b = false) →
      (∀ k ∈ L, sameKey mem k d = true → (T k).length < 32) →
      addToMetadataEntry mem d val
          (L.map (fun k => { type := k.type, name := k.name, cpp_decl_to_val := T k })) =
        Except.ok
          (if L.any (fun k => sameKey mem k d) then
            some (L.map (fun k =>
              { type := k.type, name := k.name
                cpp_decl_to_val := if sameKey mem k d then T k ++ [val] else T k }))
          else none) := by
  intro L
  induction L with
  | nil => intro _ _; simp [addToMetadataEntry, pure, Except.pure]
  | cons k L ih =>
    intro hpair hcap
    obtain ⟨hk, hL⟩ := List.pairwise_cons.1 hpair
    simp only [List.map_cons, addToMetadataEntry]
    by_cases hkd : sameKey mem k d = true
    · have hcond : (StrCmp mem k.type d.type = true ∧ StrCmp mem k.name d.name = true) := by
        simpa [sameKey] using hkd
      have hrest : ∀ k2 ∈ L, sameKey mem k2 d = false := by
        intro k2 hk2
        by_contra hc
        have h2 : sameKey mem k2 d = true := by simpa using hc
        have := sameKey_trans hkd (sameKey_symm h2)
        rw [hk k2 hk2] at this
        cases this
      have hmap : L.map (fun k =>
          ({ type := k.type, name := k.name
             cpp_decl_to_val := if sameKey mem k d then T k ++ [val] else T k } : MetadataEntry))
          = L.map (fun k => { type := k.type, name := k.name, cpp_decl_to_val := T k }) := by
        apply List.map_congr_left
        intro k2 hk2
        simp [hrest k2 hk2]
      have hlen := hcap k (by simp) hkd
      simp only [hcond, and_self, if_true, hlen, not_true_eq_false, if_false, pure, Except.pure,
        List.any_cons, hkd, Bool.true_or, hmap]
    · have hkd2 : sameKey mem k d = false := by simpa using hkd
      have hcond : ¬ (StrCmp mem k.type d.type = true ∧ StrCmp mem k.name d.name = true) := by
        simpa [sameKey] using hkd
      rw [if_neg hcond, ih hL (fun k2 hk2 => hcap k2 (by simp [hk2]))]
      simp only [bind, Except.bind, List.any_cons, hkd2, Bool.false_or]
      by_cases hany : L.any (fun k => sameKey mem k d) = true
      · simp [hany, pure, Except.pure, hkd2]
      · simp [hany, pure, Except.pure]

theorem keyTests_snoc (mem : List Char) (items : List (StringLiteral × CPPVariableDecl))
    (x : StringLiteral × CPPVariableDecl) (key : CPPVariableDecl) :
    keyTests mem (items ++ [x]) key =
      if sameKey mem key x.2 then
        keyTests mem items key ++ [{ cpp_decl := x.1, value := x.2.default_value }]
      else keyTests mem items key := by
  unfold keyTests
  by_cases h : sameKey mem key x.2 = true
  · simp [List.filter_append, h, List.filter]
  · simp [List.filter_append, h, List.filter]

theorem keyTests_append_length (mem : List Char)
    (items more : List (StringLiteral × CPPVariableDecl)) (key : CPPVariableDecl) :
    (keyTests mem items key).length ≤ (keyTests mem (items ++ more) key).length := by
  unfold keyTests
  simp [List.filter_append]

theorem metadataKeys_snoc (mem : List Char) (items : List (StringLiteral × CPPVariableDecl))
    (x : StringLiteral × CPPVariableDecl) :
    metadataKeys mem (items ++ [x]) =
      if (metadataKeys mem items).any (fun key => sameKey mem key x.2) then
        metadataKeys mem items
      else metadataKeys mem items ++ [x.2] := by
  unfold metadataKeys
  rw [List.map_append, List.map_singleton, distinctKeys_snoc]

theorem metadataKeys_append (mem : List Char)
    (items more : List (StringLiteral × CPPVariableDecl)) :
    ∃ extra, metadataKeys mem (items ++ more) = metadataKeys mem items ++ extra := by
  unfold metadataKeys
  rw [List.map_append, distinctKeys_append]
  exact distinctKeys_initial mem _ _

theorem metadataFits_initial {mem : List Char}
    {items more : List (StringLiteral × CPPVariableDecl)}
    (h : MetadataFits mem (items ++ more)) : MetadataFits mem items := by
  obtain ⟨extra, he⟩ := metadataKeys_append mem items more
  obtain ⟨h1, h2⟩ := h
  constructor
  · rw [he] at h1
    simp at h1
    omega
  · intro key hkey
    have hk : key ∈ metadataKeys mem (items ++ more) := by
      rw [he]; exact List.mem_append_left _ hkey
    exact le_trans (keyTests_append_length mem items more key) (h2 key hk)

/-- One step of the loop over the metadata of a variant, from the metadata grouped so far. -/
theorem collect_step (mem : List Char) (items : List (StringLiteral × CPPVariableDecl))
    (x : StringLiteral × CPPVariableDecl) (hfits : MetadataFits mem (items ++ [x])) :
    (addToMetadataEntry mem x.2 { cpp_decl := x.1, value := x.2.default_value }
        (groupMetadata mem items) >>= fun r =>
      match r with
      | some metadata_entries => (pure metadata_entries : Except Fault (List MetadataEntry))
      | none =>
        if ¬ ((groupMetadata mem items).length + 1 ≤ 32) then throw Fault.assertFail
        else pure (groupMetadata mem items ++
          [{ type := x.2.type, name := x.2.name
             cpp_decl_to_val := [{ cpp_decl := x.1, value := x.2.default_value }] }])) =
      Except.ok (groupMetadata mem (items ++ [x])) := by
  obtain ⟨hpair, hcover, hmem⟩ := keysOf_distinctKeys mem (items.map (fun item => item.2))
  have hkeys := metadataKeys_snoc mem items x
  obtain ⟨hf1, hf2⟩ := hfits
  have hadd := addToMetadataEntry_map mem x.2 { cpp_decl := x.1, value := x.2.default_value }
    (keyTests mem items) (metadataKeys mem items) hpair (by
      intro k hk hkx
      have hk2 : k ∈ metadataKeys mem (items ++ [x]) := by
        rw [hkeys]
        split
        · exact hk
        · exact List.mem_append_left _ hk
      have := hf2 k hk2
      rw [keyTests_snoc, if_pos hkx] at this
      simp at this
      omega)
  unfold groupMetadata
  rw [hadd]
  by_cases hany : (metadataKeys mem items).any (fun key => sameKey mem key x.2) = true
  · rw [if_pos hany]
    simp only [bind, Except.bind, pure, Except.pure, hkeys, hany, if_true]
    congr 1
    apply List.map_congr_left
    intro k _
    rw [keyTests_snoc]
  · rw [if_neg hany]
    have hnone : ∀ k ∈ metadataKeys mem items, sameKey mem k x.2 = false := by
      intro k hk
      by_contra hc
      exact hany (List.any_eq_true.2 ⟨k, hk, by simpa using hc⟩)
    have hlen : (metadataKeys mem items).length + 1 ≤ 32 := by
      rw [hkeys, if_neg hany] at hf1
      simpa using hf1
    have hempty : keyTests mem items x.2 = [] := by
      unfold keyTests
      rw [List.map_eq_nil_iff, List.filter_eq_nil_iff]
      intro item hitem hsame
      obtain ⟨k, hk, hks⟩ := hcover item.2 (List.mem_map.2 ⟨item, hitem, rfl⟩)
      have := sameKey_trans hks (sameKey_symm hsame)
      rw [hnone k hk] at this
      cases this
    simp only [bind, Except.bind, pure, Except.pure, List.length_map, hlen, not_true_eq_false,
      if_false, hkeys, hany, Bool.false_eq_true, List.map_append, List.map_cons, List.map_nil]
    congr 1
    congr 1
    · apply List.map_congr_left
      intro k hk
      rw [keyTests_snoc, hnone k hk]
      simp
    · rw [keyTests_snoc, sameKey_refl, hempty]
      simp

theorem collectVariantMetadata_group (mem : List Char) (v : StringLiteral) :
    ∀ (ds : List CPPVariableDecl) (items : List (StringLiteral × CPPVariableDecl)),
      MetadataFits mem (items ++ ds.map (fun d => (v, d))) →
      collectVariantMetadata mem v ds (groupMetadata mem items) =
        Except.ok (groupMetadata mem (items ++ ds.map (fun d => (v, d)))) := by
  intro ds
  induction ds with
  | nil => intro items _; simp [collectVariantMetadata, pure, Except.pure]
  | cons d ds ih =>
    intro items hfits
    have happ : items ++ (d :: ds).map (fun d => (v, d)) =
        (items ++ [(v, d)]) ++ ds.map (fun d => (v, d)) := by simp
    rw [happ] at hfits ⊢
    have hstep := collect_step mem items (v, d) (metadataFits_initial hfits)
    have hrec := ih (items ++ [(v, d)]) hfits
    rw [collectVariantMetadata]
    simp only [] at hstep ⊢
    cases hadd : addToMetadataEntry mem d { cpp_decl := v, value := d.default_value }
        (groupMetadata mem items) with
    | error e =>
      rw [hadd] at hstep
      cases hstep
    | ok r =>
      rw [hadd] at hstep
      cases r with
      | some es =>
        simp only [bind, Except.bind, pure, Except.pure, Except.ok.injEq] at hstep ⊢
        rw [hstep]
        exact hrec
      | none =>
        simp only [bind, Except.bind] at hstep ⊢
        split at hstep
        · cases hstep
        · rename_i hlen
          simp only [pure, Except.pure, Except.ok.injEq] at hstep
          rw [if_neg hlen, hstep]
          exact hrec

theorem collectMetadata_group (mem : List Char) :
    ∀ (members : List (CPPDeclLinkedList StringLiteral))
      (items : List (StringLiteral × CPPVariableDecl)),
      MetadataFits mem (items ++ metadataItems members) →
      collectMetadata mem members (groupMetadata mem items) =
        Except.ok (groupMetadata mem (items ++ metadataItems members)) := by
  intro members
  induction members with
  | nil => intro items _; simp [collectMetadata, metadataItems, pure, Except.pure]
  | cons m ms ih =>
    intro items hfits
    have happ : items ++ metadataItems (m :: ms) =
        (items ++ m.metadata_list.map (fun d => (m.value, d))) ++ metadataItems ms := by
      simp [metadataItems]
    rw [happ] at hfits ⊢
    rw [collectMetadata, collectVariantMetadata_group mem m.value m.metadata_list items
      (metadataFits_initial hfits)]
    simp only [bind, Except.bind]
    exact ih _ hfits

theorem collectMetadata_eq (mem : List Char) (members : List (CPPDeclLinkedList StringLiteral))
    (hfits : MetadataFits mem (metadataItems members)) :
    collectMetadata mem members [] =
      Except.ok (groupMetadata mem (metadataItems members)) := by
  have := collectMetadata_group mem members [] (by simpa using hfits)
  simpa [groupMetadata, metadataKeys, distinctKeys] using this

theorem writeMetadataTests_eq (mem : List Char) (parsed_enum : ParsedEnum) (direct : Bool)
    (tests : List CPPDeclToMetaValue) :
    ∀ tokeniser : CPPTokeniser,
      writeMetadataTests mem parsed_enum
          (fun value =>
            if direct then "\x7b return ".toList ++ fmtLit mem value ++ "; \x7d\n".toList
            else "\x7b *value = ".toList ++ fmtLit mem value ++ "; return true; \x7d\n".toList)
          tests tokeniser =
        CPPTokeniser_SprintfToFileNoIndenting tokeniser
          (accessorTests (fmtPad ((tokeniser.spaces_per_indent : Int) * tokeniser.indent_level))
            parsed_enum.struct_or_class_decl (fmtLit mem parsed_enum.name) direct
            (tests.map (fun decl_to_val =>
              (fmtLit mem decl_to_val.cpp_decl, fmtLit mem decl_to_val.value)))) := by
  induction tests with
  | nil =>
    intro tokeniser
    simp [writeMetadataTests, accessorTests, CPPTokeniser_SprintfToFileNoIndenting]
  | cons t ts ih =>
    intro tokeniser
    rw [writeMetadataTests]
    simp only [ih, enumTestDecl_eq]
    simp [CPPTokeniser_SprintfToFileNoIndenting, CPPTokeniser_SprintfToFile, accessorTests,
      List.append_assoc]

theorem writeMetadataGetter_eq (mem : List Char) (parsed_enum : ParsedEnum)
    (metadata : MetadataEntry) (tokeniser : CPPTokeniser) :
    writeMetadataGetter mem parsed_enum metadata tokeniser =
      CPPTokeniser_SprintfToFileNoIndenting tokeniser
        (accessorOf mem (fmtPad ((tokeniser.spaces_per_indent : Int) * tokeniser.indent_level))
          (fmtPad ((tokeniser.spaces_per_indent : Int) * (tokeniser.indent_level + 1)))
          parsed_enum metadata) := by
  unfold writeMetadataGetter accessorOf accessorText
  by_cases hchar : startsWithChar mem metadata.type = true
  · have hc : metadata.type.len ≥ 4 ∧ (mem.drop metadata.type.str).take 4 = "char".toList := by
      simpa [startsWithChar] using hchar
    have h1 := writeMetadataTests_eq mem parsed_enum true metadata.cpp_decl_to_val
    simp only [if_true] at h1
    rw [if_pos hc]
    simp only [h1, hchar, if_true]
    simp [CPPTokeniser_SprintfToFileNoIndenting, CPPTokeniser_SprintfToFile, indentMore,
      indentLess, List.append_assoc]
  · have hchar2 : startsWithChar mem metadata.type = false := by simpa using hchar
    have hc : ¬ (metadata.type.len ≥ 4 ∧
        (mem.drop metadata.type.str).take 4 = "char".toList) := by
      simpa [startsWithChar] using hchar
    have h1 := writeMetadataTests_eq mem parsed_enum false metadata.cpp_decl_to_val
    simp only [Bool.false_eq_true, if_false] at h1
    rw [if_neg hc]
    simp only [h1, hchar2, Bool.false_eq_true, if_false]
    simp [CPPTokeniser_SprintfToFileNoIndenting, CPPTokeniser_SprintfToFile, indentMore,
      indentLess, List.append_assoc]

theorem writeMetadataGetters_eq (mem : List Char) (parsed_enum : ParsedEnum)
    (entries : List MetadataEntry) :
    ∀ tokeniser : CPPTokeniser,
      entries.foldl (fun tokeniser metadata =>
          writeMetadataGetter mem parsed_enum metadata tokeniser) tokeniser =
        CPPTokeniser_SprintfToFileNoIndenting tokeniser
          (accessorsText mem (fmtPad ((tokeniser.spaces_per_indent : Int) * tokeniser.indent_level))
            (fmtPad ((tokeniser.spaces_per_indent : Int) * (tokeniser.indent_level + 1)))
            parsed_enum entries) := by
  induction entries with
  | nil =>
    intro tokeniser
    simp [accessorsText, CPPTokeniser_SprintfToFileNoIndenting]
  | cons e es ih =>
    intro tokeniser
    rw [List.foldl_cons, ih, writeMetadataGetter_eq]
    simp [CPPTokeniser_SprintfToFileNoIndenting, accessorsText, List.append_assoc]

theorem distinctKeys_sublist (mem : List Char) :
    ∀ (ds keys : List CPPVariableDecl),
      ∃ more, distinctKeys mem keys ds = keys ++ more ∧ more.Sublist ds := by
  intro ds
  induction ds with
  | nil => intro keys; exact ⟨[], by simp [distinctKeys], List.Sublist.slnil⟩
  | cons d ds ih =>
    intro keys
    simp only [distinctKeys]
    split
    · obtain ⟨more, hm, hs⟩ := ih keys
      exact ⟨more, hm, List.Sublist.cons d hs⟩
    · obtain ⟨more, hm, hs⟩ := ih (keys ++ [d])
      exact ⟨d :: more, by rw [hm]; simp, List.Sublist.cons₂ d hs⟩

theorem metadataKeys_sublist (mem : List Char)
    (items : List (StringLiteral × CPPVariableDecl)) :
    (metadataKeys mem items).Sublist (items.map (fun item => item.2)) := by
  obtain ⟨more, hm, hs⟩ := distinctKeys_sublist mem (items.map (fun item => item.2)) []
  unfold metadataKeys
  rw [hm]
  simpa using hs

theorem distinctKeys_first (mem : List Char) (ds : List CPPVariableDecl) :
    ∀ key ∈ distinctKeys mem [] ds, ds.find? (fun d => sameKey mem key d) = some key := by
  induction ds using List.reverseRecOn with
  | nil => intro key hkey; simp [distinctKeys] at hkey
  | append_singleton ds d ih =>
    intro key hkey
    obtain ⟨-, hcover, -⟩ := keysOf_distinctKeys mem ds
    rw [distinctKeys_snoc] at hkey
    rw [List.find?_append]
    by_cases hany : (distinctKeys mem [] ds).any (fun key => sameKey mem key d) = true
    · rw [if_pos hany] at hkey
      rw [ih key hkey]
      rfl
    · rw [if_neg hany] at hkey
      rcases List.mem_append.1 hkey with hk | hk
      · rw [ih key hk]
        rfl
      · simp only [List.mem_singleton] at hk
        subst hk
        have hnone : ds.find? (fun d => sameKey mem key d) = none := by
          rw [List.find?_eq_none]
          intro x hx hsame
          obtain ⟨k, hk, hkx⟩ := hcover x hx
          apply hany
          exact List.any_eq_true.2 ⟨k, hk, sameKey_trans hkx (sameKey_symm (by simpa using hsame))⟩
        rw [hnone]
        simp [List.find?, sameKey_refl]

theorem generateEnum_accessors (mem : List Char) (parsed_enum : ParsedEnum)
    (tokeniser : CPPTokeniser) (hmembers : parsed_enum.members ≠ [])
    (hfits : MetadataFits mem (metadataItems parsed_enum.members)) :
    generateEnum mem parsed_enum tokeniser =
      Except.ok (CPPTokeniser_SprintfToFileNoIndenting tokeniser
        (stringTableText (fmtPad ((tokeniser.spaces_per_indent : Int) * tokeniser.indent_level))
            (fmtLit mem parsed_enum.name) (variantNames mem parsed_enum)
          ++ stringifyText (fmtPad ((tokeniser.spaces_per_indent : Int) * tokeniser.indent_level))
            (fmtPad ((tokeniser.spaces_per_indent : Int) * (tokeniser.indent_level + 1)))
            parsed_enum.struct_or_class_decl (fmtLit mem parsed_enum.name)
            (variantNames mem parsed_enum)
          ++ accessorsText mem
            (fmtPad ((tokeniser.spaces_per_indent : Int) * tokeniser.indent_level))
            (fmtPad ((tokeniser.spaces_per_indent : Int) * (tokeniser.indent_level + 1)))
            parsed_enum (groupMetadata mem (metadataItems parsed_enum.members)))) := by
  unfold generateEnum
  simp only [writeEnumStringify_eq mem parsed_enum _ hmembers,
    collectMetadata_eq mem _ hfits, writeEnumStrings_eq, writeMetadataGetters_eq,
    bind, Except.bind, pure, Except.pure,
    CPPTokeniser_SprintfToFileNoIndenting, CPPTokeniser_SprintfToFile, indentMore, indentLess,
    stringTableText, variantNames, List.append_assoc, add_sub_cancel_right]

/-- C23.  For a parsed enum with at least one variant whose metadata fits the fixed arrays
of the generator (at most 32 distinct keys, at most 32 entries for a key), the generator
returns, and after the string table and the stringify function it writes one accessor for
each distinct key (key type text and key name), in order of first appearance.  The keys
are entries of the variants in their order, no two of them are the same key, every entry
has one of them as its key, and each key is the first entry with that key.  The accessor
of a key is the direct-return form that ends in `return nullptr;` when the key type text
starts with `char` and the try-get form with the out-parameter `value` that ends in
`return false;` otherwise; its body has one test for each metadata entry with that key,
in declaration order, on the variant that carries the entry and yielding the value text
of the entry. -/
theorem C23_one_accessor_for_each_key (mem : List Char) (parsed_enum : ParsedEnum)
    (tokeniser : CPPTokeniser) (hmembers : parsed_enum.members ≠ [])
    (hfits : MetadataFits mem (metadataItems parsed_enum.members)) :
    generateEnum mem parsed_enum tokeniser =
      Except.ok (CPPTokeniser_SprintfToFileNoIndenting tokeniser
        (stringTableText (fmtPad ((tokeniser.spaces_per_indent : Int) * tokeniser.indent_level))
            (fmtLit mem parsed_enum.name) (variantNames mem parsed_enum)
          ++ stringifyText (fmtPad ((tokeniser.spaces_per_indent : Int) * tokeniser.indent_level))
            (fmtPad ((tokeniser.spaces_per_indent : Int) * (tokeniser.indent_level + 1)))
            parsed_enum.struct_or_class_decl (fmtLit mem parsed_enum.name)
            (variantNames mem parsed_enum)
          ++ accessorsText mem
            (fmtPad ((tokeniser.spaces_per_indent : Int) * tokeniser.indent_level))
            (fmtPad ((tokeniser.spaces_per_indent : Int) * (tokeniser.indent_level + 1)))
            parsed_enum
            ((metadataKeys mem (metadataItems parsed_enum.members)).map (fun key =>
              { type := key.type, name := key.name
                cpp_decl_to_val :=
                  ((metadataItems parsed_enum.members).filter
                    (fun item => sameKey mem key item.2)).map
                    (fun item => { cpp_decl := item.1, value := item.2.default_value }) })))) ∧
    (metadataKeys mem (metadataItems parsed_enum.members)).Sublist
      ((metadataItems parsed_enum.members).map (fun item => item.2)) ∧
    (metadataKeys mem (metadataItems parsed_enum.members)).Pairwise
      (fun a b => sameKey mem a b = false) ∧
    (∀ item ∈ metadataItems parsed_enum.members,
      ∃ key ∈ metadataKeys mem (metadataItems parsed_enum.members),
        sameKey mem key item.2 = true) ∧
    ∀ key ∈ metadataKeys mem (metadataItems parsed_enum.members),
      ((metadataItems parsed_enum.members).map (fun item => item.2)).find?
        (fun d => sameKey mem key d) = some key := by
  obtain ⟨h1, h2, -⟩ := keysOf_distinctKeys mem
    ((metadataItems parsed_enum.members).map (fun item => item.2))
  refine ⟨generateEnum_accessors mem parsed_enum tokeniser hmembers hfits,
    metadataKeys_sublist mem _, h1, ?_, distinctKeys_first mem _⟩
  intro item hitem
  exact h2 item.2 (List.mem_map.2 ⟨item, hitem, rfl⟩)

/-- The parser makes `metadataExampleEnum` of `metadataExampleBuffer`. -/
theorem metadata_example_parse :
    (inspectFile 80 metadataExampleBuffer InspectMode.All).map (fun r => r.1) =
      Except.ok [ParsedResult.Enum metadataExampleEnum] := by
  decide!

/-- C23, counterexample.  A variant that carries the key `int k` twice gets two tests in
the accessor of `k`; an enum with 33 distinct keys stops the generator at the assertion
of its fixed array of 32 entries. -/
theorem C23_counterexample :
    (inspectFile 80
        (fileBuffer "DQN_INSPECT enum E \x7b A DQN_INSPECT_META(int k = 1, int k = 2) \x7d;")
        InspectMode.All).map (fun r => (r.1.length, r.2.output_file)) =
      Except.ok (1,
        ("char const *DqnInspect_E_Strings[] = \x7b\"A\", \x7d;\n\n" ++
         "char const *DqnInspectEnum_Stringify(E val, int *len = nullptr)\n\x7b\n" ++
         "    if (val == A) \x7b if (len) *len = CHAR_COUNT(\"A\"); " ++
         "return DqnInspect_E_Strings[0]; \x7d\n" ++
         "    return nullptr;\n\x7d\n\n" ++
         "bool DqnInspectMetadata_k(E val, int *value)\n\x7b\n" ++
         "    if (val == A) \x7b *value = 1; return true; \x7d\n" ++
         "    if (val == A) \x7b *value = 2; return true; \x7d\n" ++
         "    return false;\n\x7d\n\n").toList) ∧
    generateEnum (List.replicate 40 'x' ++ [NUL]) manyKeysEnum {} =
      Except.error Fault.assertFail := by
  constructor
  · decide!
  · decide!

/-- C23, witness: the enum of `metadataExampleBuffer` gets the try-get accessor of `int k`
with the tests of `A` and `B`, then the direct accessor of `char const *s` with the test
of `A`. -/
theorem C23_witness :
    metadataExampleEnum.members ≠ [] ∧
    MetadataFits metadataExampleBuffer (metadataItems metadataExampleEnum.members) ∧
    generateEnum metadataExampleBuffer metadataExampleEnum { spaces_per_indent := 4 } =
      Except.ok { spaces_per_indent := 4
                  output_file :=
        ("char const *DqnInspect_E_Strings[] = \x7b\"A\", \"B\", \"C\", \x7d;\n\n" ++
         "char const *DqnInspectEnum_Stringify(E val, int *len = nullptr)\n\x7b\n" ++
         "    if (val == A) \x7b if (len) *len = CHAR_COUNT(\"A\"); " ++
         "return DqnInspect_E_Strings[0]; \x7d\n" ++
         "    if (val == B) \x7b if (len) *len = CHAR_COUNT(\"B\"); " ++
         "return DqnInspect_E_Strings[1]; \x7d\n" ++
         "    if (val == C) \x7b if (len) *len = CHAR_COUNT(\"C\"); " ++
         "return DqnInspect_E_Strings[2]; \x7d\n" ++
         "    return nullptr;\n\x7d\n\n" ++
         "bool DqnInspectMetadata_k(E val, int *value)\n\x7b\n" ++
         "    if (val == A) \x7b *value = 1; return true; \x7d\n" ++
         "    if (val == B) \x7b *value = 2; return true; \x7d\n" ++
         "    return false;\n\x7d\n\n" ++
         "char const * DqnInspectMetadata_s(E val)\n\x7b\n" ++
         "    if (val == A) \x7b return \"x\"; \x7d\n" ++
         "    return nullptr;\n\x7d\n\n").toList } := by
  have hmembers : metadataExampleEnum.members ≠ [] := by decide
  have hfits : MetadataFits metadataExampleBuffer
      (metadataItems metadataExampleEnum.members) := by decide!
  exact ⟨hmembers, hfits,
    (C23_one_accessor_for_each_key metadataExampleBuffer metadataExampleEnum
      { spaces_per_indent := 4 } hmembers hfits).1.trans (by decide!)⟩

theorem column_nil : column [] = 0 := rfl

theorem column_append_of_not_mem (a b : List Char) (h : '\n' ∉ b) :
    column (a ++ b) = column a + b.length := by
  unfold column
  rw [List.reverse_append, List.takeWhile_append_of_pos, List.length_append,
    List.length_reverse, Nat.add_comm]
  intro c hc
  have hc1 : c ∈ b := List.mem_reverse.1 hc
  simp only [bne_iff_ne, ne_eq]
  intro h1
  subst h1
  exact h hc1

theorem column_append_zero (a b : List Char) (hb : b ≠ []) (h : column b = 0) :
    column (a ++ b) = 0 := by
  unfold column at h ⊢
  rw [List.reverse_append]
  cases hr : b.reverse with
  | nil => exact absurd (List.reverse_eq_nil_iff.1 hr) hb
  | cons c r =>
    rw [hr] at h
    by_cases hc : (c != '\n') = true
    · simp [List.takeWhile, hc] at h
    · simp [List.takeWhile, hc]

theorem column_append_both (a b : List Char) (ha : column a = 0) (hb : column b = 0) :
    column (a ++ b) = 0 := by
  by_cases h : b = []
  · subst h
    simpa using ha
  · exact column_append_zero a b h hb

theorem column_snoc_newline (a : List Char) : column (a ++ ['\n']) = 0 :=
  column_append_zero a ['\n'] (by simp) rfl

theorem column_accessorsText (mem : List Char) (pad inner : List Char)
    (parsed_enum : ParsedEnum) :
    ∀ entries, column (accessorsText mem pad inner parsed_enum entries) = 0 := by
  intro entries
  induction entries with
  | nil => rfl
  | cons e es ih =>
    rw [accessorsText]
    apply column_append_both _ _ _ ih
    unfold accessorOf accessorText
    exact column_append_zero _ _ (by decide) (by decide)

theorem generateEnum_appends {mem : List Char} {parsed_enum : ParsedEnum}
    {tk tk1 : CPPTokeniser} (h : generateEnum mem parsed_enum tk = Except.ok tk1) :
    tk1.indent_level = tk.indent_level ∧ tk1.spaces_per_indent = tk.spaces_per_indent ∧
      ∃ text, tk1.output_file = tk.output_file ++ text ∧ column text = 0 := by
  by_cases hmembers : parsed_enum.members = []
  · exfalso
    simp [generateEnum, writeEnumStringify, hmembers, buildSourceCode, bind, Except.bind,
      throw, throwThe, MonadExceptOf.throw] at h
  · unfold generateEnum at h
    simp only [writeEnumStringify_eq mem parsed_enum _ hmembers, writeEnumStrings_eq,
      writeMetadataGetters_eq, bind, Except.bind, pure, Except.pure,
      CPPTokeniser_SprintfToFileNoIndenting, CPPTokeniser_SprintfToFile, indentMore, indentLess,
      List.append_assoc, add_sub_cancel_right] at h
    split at h
    · cases h
    · simp only [Except.ok.injEq] at h
      subst h
      refine ⟨rfl, rfl, _, rfl, ?_⟩
      simp only [← List.append_assoc]
      refine column_append_both _ _ ?_ (column_accessorsText _ _ _ _ _)
      unfold stringifyText
      simp only [← List.append_assoc]
      exact column_append_zero _ _ (by decide) (by decide)

theorem generateStruct_appends {mem : List Char} {parsed_struct : ParsedStruct}
    {tk tk1 : CPPTokeniser} (h : generateStruct mem parsed_struct tk = Except.ok tk1) :
    tk1.indent_level = tk.indent_level ∧ tk1.spaces_per_indent = tk.spaces_per_indent ∧
      ∃ text, tk1.output_file = tk.output_file ++ text ∧ column text = 0 := by
  by_cases hindent : tk.indent_level = 0
  · rw [generateStruct_eq mem parsed_struct tk hindent] at h
    simp only [Except.ok.injEq] at h
    subst h
    refine ⟨rfl, rfl, _, rfl, ?_⟩
    unfold structText
    exact column_append_zero _ _ (by decide) (by decide)
  · exfalso
    have hfail : generateStruct mem parsed_struct tk = Except.error Fault.assertFail := by
      unfold generateStruct
      simp only [writeStructMembers_eq, CPPTokeniser_SprintfToFileNoIndenting,
        CPPTokeniser_SprintfToFile, indentMore, indentLess, add_sub_cancel_right, ne_eq, hindent,
        not_false_eq_true, if_true, bind, Except.bind, throw, throwThe, MonadExceptOf.throw]
    rw [hfail] at h
    cases h

theorem generatePrototype_appends (mem : List Char) (w1 w2 : Int)
    (parsed_func : ParsedFunctionPrototype) (tk : CPPTokeniser) :
    (generateFunctionPrototype mem w1 w2 parsed_func tk).indent_level = tk.indent_level ∧
    (generateFunctionPrototype mem w1 w2 parsed_func tk).spaces_per_indent =
      tk.spaces_per_indent := by
  simp [generateFunctionPrototype, writeFunctionParams_eq, writeSpaces,
    CPPTokeniser_SprintfToFile, CPPTokeniser_SprintfToFileNoIndenting]

theorem column_prototypeText (pad returnType : List Char) (returnPad : Nat) (name : List Char)
    (namePad : Nat) (params : List ParamDescriptor) :
    column (prototypeText pad returnType returnPad name namePad params) = 0 := by
  unfold prototypeText
  exact column_append_zero _ _ (by decide) (by decide)

theorem generateResult_appends {mem : List Char} {w1 w2 : Int} {r : ParsedResult}
    {tk tk1 : CPPTokeniser} (h : generateResult mem w1 w2 r tk = Except.ok tk1) :
    tk1.indent_level = tk.indent_level ∧ tk1.spaces_per_indent = tk.spaces_per_indent ∧
      ∃ text, tk1.output_file = tk.output_file ++ text ∧ column text = 0 := by
  cases r with
  | Enum parsed_enum => exact generateEnum_appends h
  | Struct parsed_struct => exact generateStruct_appends h
  | FunctionPrototype parsed_func =>
    simp only [generateResult, pure, Except.pure, Except.ok.injEq] at h
    subst h
    obtain ⟨h1, h2⟩ := generatePrototype_appends mem w1 w2 parsed_func tk
    exact ⟨h1, h2, _, generateFunctionPrototype_eq mem w1 w2 parsed_func tk,
      column_prototypeText _ _ _ _ _ _⟩
  | Invalid =>
    simp only [generateResult, pure, Except.pure, Except.ok.injEq] at h
    subst h
    exact ⟨rfl, rfl, [], by simp, rfl⟩

theorem generateResults_appends (mem : List Char) (w1 w2 : Int) :
    ∀ (rs : List ParsedResult) (tk tk1 : CPPTokeniser),
      generateResults mem w1 w2 rs tk = Except.ok tk1 →
      tk1.indent_level = tk.indent_level ∧ tk1.spaces_per_indent = tk.spaces_per_indent ∧
        ∃ text, tk1.output_file = tk.output_file ++ text ∧ column text = 0 := by
  intro rs
  induction rs with
  | nil =>
    intro tk tk1 h
    simp only [generateResults, pure, Except.pure, Except.ok.injEq] at h
    subst h
    exact ⟨rfl, rfl, [], by simp, rfl⟩
  | cons r rest ih =>
    intro tk tk1 h
    rw [generateResults] at h
    obtain ⟨tk2, h2, h⟩ := bind_eq_ok h
    obtain ⟨a1, a2, t1, a3, a4⟩ := generateResult_appends h2
    obtain ⟨b1, b2, t2, b3, b4⟩ := ih tk2 tk1 h
    refine ⟨b1.trans a1, b2.trans a2, t1 ++ t2, ?_, column_append_both _ _ a4 b4⟩
    rw [b3, a3, List.append_assoc]

theorem generateResults_append (mem : List Char) (w1 w2 : Int) :
    ∀ (before after : List ParsedResult) (tk final : CPPTokeniser),
      generateResults mem w1 w2 (before ++ after) tk = Except.ok final →
      ∃ tk1, generateResults mem w1 w2 before tk = Except.ok tk1 ∧
        generateResults mem w1 w2 after tk1 = Except.ok final := by
  intro before
  induction before with
  | nil => intro after tk final h; exact ⟨tk, rfl, h⟩
  | cons r rest ih =>
    intro after tk final h
    rw [List.cons_append, generateResults] at h
    obtain ⟨tk2, h2, h⟩ := bind_eq_ok h
    obtain ⟨tk1, h3, h4⟩ := ih after tk2 final h
    refine ⟨tk1, ?_, h4⟩
    rw [generateResults, h2]
    exact h3

/-- The line of a prototype among the results: what is written before it ends a line when
the text before the generator started did, and the indentation is that of the start. -/
theorem generateResults_prototype (mem : List Char) (w1 w2 : Int)
    (before after : List ParsedResult) (parsed_func : ParsedFunctionPrototype)
    (tk final : CPPTokeniser)
    (h : generateResults mem w1 w2
      (before ++ ParsedResult.FunctionPrototype parsed_func :: after) tk = Except.ok final)
    (hcol : column tk.output_file = 0) :
    ∃ pre post, column pre = 0 ∧
      final.output_file = pre ++
        prototypeText (fmtPad ((tk.spaces_per_indent : Int) * tk.indent_level))
          (fmtLit mem parsed_func.return_type) (w1 - parsed_func.return_type.len).toNat
          (fmtLit mem parsed_func.name) (w2 - parsed_func.name.len).toNat
          (parsed_func.members.map (describeParam mem)) ++ post := by
  obtain ⟨tk1, h1, h2⟩ := generateResults_append mem w1 w2 before _ tk final h
  rw [generateResults] at h2
  obtain ⟨tk2, h3, h4⟩ := bind_eq_ok h2
  simp only [generateResult, pure, Except.pure, Except.ok.injEq] at h3
  obtain ⟨a1, a2, t1, a3, a4⟩ := generateResults_appends mem w1 w2 before tk tk1 h1
  obtain ⟨b1, b2, t2, b3, b4⟩ := generateResults_appends mem w1 w2 after tk2 final h4
  refine ⟨tk.output_file ++ t1, t2, column_append_both _ _ hcol a4, ?_⟩
  rw [b3, ← h3, generateFunctionPrototype_eq, a3, a1, a2]

theorem longest_foldl_le (lens : List Int) : ∀ w : Int, w ≤ lens.foldl INSPECT_MAX w := by
  induction lens with
  | nil => intro w; exact le_refl w
  | cons x xs ih =>
    intro w
    rw [List.foldl_cons]
    refine le_trans ?_ (ih _)
    unfold INSPECT_MAX
    split <;> omega

theorem longest_foldl_ge (lens : List Int) :
    ∀ w : Int, ∀ x ∈ lens, x ≤ lens.foldl INSPECT_MAX w := by
  induction lens with
  | nil => intro w x hx; cases hx
  | cons y ys ih =>
    intro w x hx
    rw [List.foldl_cons]
    rcases List.mem_cons.1 hx with h | h
    · subst h
      refine le_trans ?_ (longest_foldl_le ys _)
      unfold INSPECT_MAX
      split <;> omega
    · exact ih _ x h

theorem longest_foldl_mem (lens : List Int) :
    ∀ w : Int, lens.foldl INSPECT_MAX w = w ∨ lens.foldl INSPECT_MAX w ∈ lens := by
  induction lens with
  | nil => intro w; exact Or.inl rfl
  | cons y ys ih =>
    intro w
    rw [List.foldl_cons]
    rcases ih (INSPECT_MAX w y) with h | h
    · rw [h]
      unfold INSPECT_MAX
      split
      · exact Or.inl rfl
      · exact Or.inr (List.mem_cons_self _ _)
    · exact Or.inr (List.mem_cons_of_mem _ h)

theorem prototypesOf_append (a b : List ParsedResult) :
    prototypesOf (a ++ b) = prototypesOf a ++ prototypesOf b := by
  induction a with
  | nil => rfl
  | cons r rest ih =>
    cases r <;> simp [prototypesOf, ih]

theorem parseLoopBody_widths {fuel : Nat} {mem : List Char} {st st1 : ParseLoopState}
    {r : ParsedResult} {t : CPPToken}
    (h : parseLoopBody fuel mem st = Except.ok (r, t, st1)) :
    st1.max_func_return_type_decl_len =
        ((prototypesOf (if r.type ≠ ParsedResultType.Invalid then [r] else [])).map
          (fun p => p.return_type.len)).foldl INSPECT_MAX st.max_func_return_type_decl_len ∧
      st1.max_func_name_decl_len =
        ((prototypesOf (if r.type ≠ ParsedResultType.Invalid then [r] else [])).map
          (fun p => p.name.len)).foldl INSPECT_MAX st.max_func_name_decl_len := by
  unfold parseLoopBody at h
  simp only [] at h
  by_cases hcode : (CPPTokeniser_PeekToken st.tokeniser).type = CPPTokenType.InspectCode
  · simp only [hcode, true_or, if_true] at h
    obtain ⟨x, hx, h⟩ := bind_eq_ok h
    simp only [bind, Except.bind] at h
    split at h
    · cases hp : ParseCPPEnum fuel mem x.2 with
      | error e => rw [hp] at h; cases h
      | ok v =>
        rw [hp] at h
        obtain ⟨ok, pe, tk⟩ := v
        simp only [pure, Except.pure, Except.ok.injEq, Prod.mk.injEq] at h
        obtain ⟨h1, h2, h3⟩ := h
        subst h1 h2 h3
        cases ok <;> simp [ParsedResult.type, prototypesOf]
    · split at h
      · cases hp : ParseCPPStruct fuel mem x.2 with
        | error e => rw [hp] at h; cases h
        | ok v =>
          rw [hp] at h
          obtain ⟨ok, pe, tk⟩ := v
          simp only [pure, Except.pure, Except.ok.injEq, Prod.mk.injEq] at h
          obtain ⟨h1, h2, h3⟩ := h
          subst h1 h2 h3
          cases ok <;> simp [ParsedResult.type, prototypesOf]
      · simp only [pure, Except.pure, Except.ok.injEq, Prod.mk.injEq] at h
        obtain ⟨h1, h2, h3⟩ := h
        subst h1 h2 h3
        simp [ParsedResult.type, prototypesOf]
  · by_cases hproto : (CPPTokeniser_PeekToken st.tokeniser).type =
        CPPTokenType.InspectGeneratePrototype
    · simp only [hproto, or_true, if_true] at h
      have hne : (CPPTokenType.InspectGeneratePrototype = CPPTokenType.InspectCode) = False := by
        simp
      simp only [hne, if_false] at h
      cases hp : ParseCPPInspectPrototype fuel mem st.tokeniser with
      | error e => rw [hp] at h; cases h
      | ok v =>
        rw [hp] at h
        obtain ⟨ok, pe, tk⟩ := v
        simp only [bind, Except.bind] at h
        cases ok with
        | true =>
          simp only [if_true, pure, Except.pure, Except.ok.injEq, Prod.mk.injEq] at h
          obtain ⟨h1, h2, h3⟩ := h
          subst h1 h2 h3
          simp [ParsedResult.type, prototypesOf]
        | false =>
          simp only [Bool.false_eq_true, if_false, pure, Except.pure, Except.ok.injEq,
            Prod.mk.injEq] at h
          obtain ⟨h1, h2, h3⟩ := h
          subst h1 h2 h3
          simp [ParsedResult.type, prototypesOf]
    · simp only [hcode, hproto, or_self, if_false] at h
      obtain ⟨x, hx, h⟩ := bind_eq_ok h
      simp only [pure, Except.pure, Except.ok.injEq, Prod.mk.injEq] at h
      obtain ⟨h1, h2, h3⟩ := h
      subst h1 h2 h3
      simp [ParsedResult.type, prototypesOf]

/-- The widths that the parse loop of `main` keeps are the longest return-type length and
the longest name length of the prototypes among its results. -/
theorem parseLoop_widths (mem : List Char) : ∀ (fuel : Nat) (st final : ParseLoopState),
    parseLoop mem fuel st = Except.ok final →
    st.max_func_return_type_decl_len =
      longest ((prototypesOf st.parsing_results).map (fun p => p.return_type.len)) →
    st.max_func_name_decl_len =
      longest ((prototypesOf st.parsing_results).map (fun p => p.name.len)) →
    final.max_func_return_type_decl_len =
        longest ((prototypesOf final.parsing_results).map (fun p => p.return_type.len)) ∧
      final.max_func_name_decl_len =
        longest ((prototypesOf final.parsing_results).map (fun p => p.name.len)) := by
  intro fuel
  induction fuel with
  | zero => intro st final h; unfold parseLoop at h; cases h
  | succ fuel ih =>
    intro st final h hw1 hw2
    unfold parseLoop at h
    obtain ⟨x, hx, h⟩ := bind_eq_ok h
    obtain ⟨r, t, st1⟩ := x
    obtain ⟨hb1, hb2⟩ := parseLoopBody_widths hx
    obtain ⟨_, _, _, hres, _⟩ := parseLoopBody_call hx
    simp only [] at h
    have key : ∀ st2 : ParseLoopState,
        st2 = (if r.type ≠ ParsedResultType.Invalid then
          { st1 with parsing_results := st1.parsing_results ++ [r] } else st1) →
        st2.max_func_return_type_decl_len =
          longest ((prototypesOf st2.parsing_results).map (fun p => p.return_type.len)) ∧
        st2.max_func_name_decl_len =
          longest ((prototypesOf st2.parsing_results).map (fun p => p.name.len)) := by
      intro st2 hst2
      have hres2 : st2.parsing_results =
          st.parsing_results ++ (if r.type ≠ ParsedResultType.Invalid then [r] else []) := by
        rw [hst2, pushed_results, hres]
      have hw : st2.max_func_return_type_decl_len = st1.max_func_return_type_decl_len ∧
          st2.max_func_name_decl_len = st1.max_func_name_decl_len := by
        rw [hst2]
        split <;> exact ⟨rfl, rfl⟩
      rw [hw.1, hw.2, hres2, prototypesOf_append, List.map_append, List.map_append, hb1, hb2,
        hw1, hw2]
      unfold longest
      rw [List.foldl_append, List.foldl_append]
      exact ⟨rfl, rfl⟩
    split at h
    · simp only [pure, Except.pure, Except.ok.injEq] at h
      subst h
      exact key _ rfl
    · obtain ⟨k1, k2⟩ := key _ rfl
      exact ih _ final h k1 k2

theorem prints_refl (a : CPPTokeniser) : Prints a a := ⟨[], by simp, rfl⟩

theorem prints_of_eq {a b : CPPTokeniser} (h : b.output_file = a.output_file) : Prints a b :=
  ⟨[], by simp [h], rfl⟩

theorem prints_trans {a b c : CPPTokeniser} (h1 : Prints a b) (h2 : Prints b c) :
    Prints a c := by
  obtain ⟨t1, a1, a2⟩ := h1
  obtain ⟨t2, b1, b2⟩ := h2
  exact ⟨t1 ++ t2, by rw [b1, a1, List.append_assoc], column_append_both _ _ a2 b2⟩

theorem nextTokenLoop_output {a b : CPPTokeniser} {r t : CPPToken}
    (h : nextTokenLoop 1 r a = Except.ok (t, b)) : b.output_file = a.output_file := by
  unfold nextTokenLoop at h
  lift_lets at h
  extract_lets result indent tk at h
  split at h
  · cases h
  · split at h
    · simp only [pure, Except.pure, Except.ok.injEq, Prod.mk.injEq] at h
      obtain ⟨h1, h2⟩ := h
      subst h1 h2
      rfl
    · unfold nextTokenLoop at h
      simp only [pure, Except.pure, Except.ok.injEq, Prod.mk.injEq] at h
      obtain ⟨h1, h2⟩ := h
      subst h1 h2
      rfl

theorem nextToken_prints {a b : CPPTokeniser} {t : CPPToken}
    (h : CPPTokeniser_NextToken a = Except.ok (t, b)) : Prints a b := by
  unfold CPPTokeniser_NextToken at h
  simp only [] at h
  split at h
  · exact prints_of_eq (nextTokenLoop_output h)
  · simp only [pure, Except.pure, Except.ok.injEq, Prod.mk.injEq] at h
    obtain ⟨h1, h2⟩ := h
    subst h1 h2
    exact prints_refl _

theorem expectToken_prints (mem : List Char) (a : CPPTokeniser) (t : CPPToken)
    (ty : CPPTokenType) : Prints a (ExpectToken mem a t ty).2 := by
  unfold ExpectToken
  split
  · exact prints_refl a
  · refine ⟨_, rfl, ?_⟩
    unfold expectDiagnostic
    exact column_append_zero _ _ (by decide) (by decide)

theorem acceptToken_prints {a b : CPPTokeniser} {ty : CPPTokenType} {t t2 : CPPToken}
    {ok : Bool} (h : CPPTokeniser_AcceptTokenIfType a ty t = Except.ok (ok, t2, b)) :
    Prints a b := by
  unfold CPPTokeniser_AcceptTokenIfType at h
  simp only [] at h
  split at h
  · obtain ⟨x, hx, h⟩ := bind_eq_ok h
    obtain ⟨x1, x2⟩ := x
    simp only [pure, Except.pure, Except.ok.injEq, Prod.mk.injEq] at h
    obtain ⟨_, _, h3⟩ := h
    subst h3
    exact nextToken_prints hx
  · simp only [pure, Except.pure, Except.ok.injEq, Prod.mk.injEq] at h
    obtain ⟨_, _, h3⟩ := h
    subst h3
    exact prints_refl a

theorem consumeAsterisks_prints : ∀ (fuel : Nat) (a : CPPTokeniser) (n : Int) (t : CPPToken)
    (r : Int × CPPToken × CPPTokeniser),
    ConsumeAsterisks fuel a n t = Except.ok r → Prints a r.2.2 := by
  intro fuel
  induction fuel with
  | zero => intro a n t r h; unfold ConsumeAsterisks at h; cases h
  | succ fuel ih =>
    intro a n t r h
    rw [ConsumeAsterisks] at h
    simp only [] at h
    split at h
    · obtain ⟨x, hx, h⟩ := bind_eq_ok h
      exact prints_trans (nextToken_prints hx) (ih _ _ _ _ h)
    · simp only [pure, Except.pure, Except.ok.injEq] at h
      subst h
      exact prints_refl a

theorem consumeConst_prints (mem : List Char) : ∀ (fuel : Nat) (a : CPPTokeniser) (n : Bool)
    (t : CPPToken) (r : Bool × CPPToken × CPPTokeniser),
    ConsumeConstIdentifier mem fuel a n t = Except.ok r → Prints a r.2.2 := by
  intro fuel
  induction fuel with
  | zero => intro a n t r h; unfold ConsumeConstIdentifier at h; cases h
  | succ fuel ih =>
    intro a n t r h
    rw [ConsumeConstIdentifier] at h
    simp only [] at h
    split at h
    · obtain ⟨x, hx, h⟩ := bind_eq_ok h
      exact prints_trans (nextToken_prints hx) (ih _ _ _ _ h)
    · simp only [pure, Except.pure, Except.ok.injEq] at h
      subst h
      exact prints_refl a

theorem skipScope_prints (opener closer : CPPTokenType) : ∀ (fuel : Nat) (level : Int)
    (a b : CPPTokeniser), skipScope opener closer fuel level a = Except.ok b → Prints a b := by
  intro fuel
  induction fuel with
  | zero => intro level a b h; unfold skipScope at h; cases h
  | succ fuel ih =>
    intro level a b h
    rw [skipScope] at h
    split at h
    · simp only [pure, Except.pure, Except.ok.injEq] at h
      subst h
      exact prints_refl a
    · obtain ⟨x, hx, h⟩ := bind_eq_ok h
      exact prints_trans (nextToken_prints hx) (ih _ _ _ h)

theorem templateLoop_prints : ∀ (fuel : Nat) (d : Int) (t : CPPToken) (a : CPPTokeniser)
    (r : Int × CPPToken × CPPTokeniser),
    templateLoop fuel d t a = Except.ok r → Prints a r.2.2 := by
  intro fuel
  induction fuel with
  | zero => intro d t a r h; unfold templateLoop at h; cases h
  | succ fuel ih =>
    intro d t a r h
    rw [templateLoop] at h
    split at h
    · obtain ⟨x, hx, h⟩ := bind_eq_ok h
      exact prints_trans (nextToken_prints hx) (ih _ _ _ _ h)
    · simp only [pure, Except.pure, Except.ok.injEq] at h
      subst h
      exact prints_refl a

theorem arrayInnerLoop_prints : ∀ (fuel : Nat) (t : CPPToken) (a : CPPTokeniser)
    (r : CPPToken × CPPTokeniser),
    arrayInnerLoop fuel t a = Except.ok r → Prints a r.2 := by
  intro fuel
  induction fuel with
  | zero => intro t a r h; unfold arrayInnerLoop at h; cases h
  | succ fuel ih =>
    intro t a r h
    rw [arrayInnerLoop] at h
    split at h
    · obtain ⟨x, hx, h⟩ := bind_eq_ok h
      exact prints_trans (nextToken_prints hx) (ih _ _ _ h)
    · simp only [pure, Except.pure, Except.ok.injEq] at h
      subst h
      exact prints_refl a

theorem arrayLoop_prints : ∀ (fuel : Nat) (t : CPPToken) (n : Int) (a : CPPTokeniser)
    (r : CPPToken × Int × CPPTokeniser),
    arrayLoop fuel t n a = Except.ok r → Prints a r.2.2 := by
  intro fuel
  induction fuel with
  | zero => intro t n a r h; unfold arrayLoop at h; cases h
  | succ fuel ih =>
    intro t n a r h
    rw [arrayLoop] at h
    split at h
    · obtain ⟨x, hx, h⟩ := bind_eq_ok h
      obtain ⟨y, hy, h⟩ := bind_eq_ok h
      exact prints_trans (arrayInnerLoop_prints _ _ _ _ hx)
        (prints_trans (nextToken_prints hy) (ih _ _ _ _ h))
    · simp only [pure, Except.pure, Except.ok.injEq] at h
      subst h
      exact prints_refl a

theorem functionNameLoop_prints : ∀ (fuel : Nat) (t : CPPToken) (a : CPPTokeniser)
    (r : CPPToken × CPPTokeniser),
    functionNameLoop fuel t a = Except.ok r → Prints a r.2 := by
  intro fuel
  induction fuel with
  | zero => intro t a r h; unfold functionNameLoop at h; cases h
  | succ fuel ih =>
    intro t a r h
    rw [functionNameLoop] at h
    split at h
    · obtain ⟨x, hx, h⟩ := bind_eq_ok h
      exact prints_trans (nextToken_prints hx) (ih _ _ _ h)
    · simp only [pure, Except.pure, Except.ok.injEq] at h
      subst h
      exact prints_refl a

theorem skipFunctionParam_prints : ∀ (fuel : Nat) (a b : CPPTokeniser),
    SkipFunctionParam fuel a = Except.ok b → Prints a b := by
  intro fuel
  induction fuel with
  | zero => intro a b h; unfold SkipFunctionParam at h; cases h
  | succ fuel ih =>
    intro a b h
    unfold SkipFunctionParam at h
    lift_lets at h
    extract_lets token jp2 jp1 at h
    have hjp2 : ∀ y : CPPToken × CPPTokeniser, Prints a y.2 → jp2 y = Except.ok b →
        Prints a b := by
      intro y hy h2
      simp -zeta only [jp2] at h2
      split at h2
      · simp only [pure, Except.pure, Except.ok.injEq] at h2
        subst h2
        exact hy
      · split at h2
        · simp only [pure, Except.pure, Except.ok.injEq] at h2
          subst h2
          exact hy
        · obtain ⟨c, hc, h2⟩ := bind_eq_ok h2
          exact prints_trans hy (prints_trans (nextToken_prints hc) (ih _ _ h2))
    have hjp1 : ∀ x : CPPToken × CPPTokeniser, Prints a x.2 → jp1 x = Except.ok b →
        Prints a b := by
      intro x hx h1
      simp -zeta only [jp1] at h1
      split at h1
      · obtain ⟨c, hc, h1⟩ := bind_eq_ok h1
        obtain ⟨d, hd, h1⟩ := bind_eq_ok h1
        simp only [pure_bind] at h1
        exact hjp2 (CPPTokeniser_PeekToken d.2, d.2)
          (prints_trans hx (prints_trans (skipScope_prints _ _ _ _ _ _ hc)
            (nextToken_prints hd))) h1
      · simp only [pure_bind] at h1
        exact hjp2 (x.1, x.2) hx h1
    split at h
    · simp only [pure, Except.pure, Except.ok.injEq] at h
      subst h
      exact prints_refl a
    · split at h
      · obtain ⟨c, hc, h⟩ := bind_eq_ok h
        obtain ⟨d, hd, h⟩ := bind_eq_ok h
        simp only [pure_bind] at h
        exact hjp1 (CPPTokeniser_PeekToken d.2, d.2)
          (prints_trans (skipScope_prints _ _ _ _ _ _ hc) (nextToken_prints hd)) h
      · simp only [pure_bind] at h
        exact hjp1 (token, a) (prints_refl a) h

theorem declLoop_prints_step (mem : List Char) (fuel : Nat)
    (ihLoop : ∀ pfp tk vt token result r,
      declLoop mem pfp fuel tk vt token result = Except.ok r → Prints tk r.2)
    (ihTail : ∀ pfp tk vt token result r,
      declTail mem pfp fuel tk vt token result = Except.ok r → Prints tk r.2)
    (ihMeta : ∀ tk r, ParseCPPInspectMeta mem fuel tk = Except.ok r → Prints tk r.2) :
    ∀ pfp tk vt token result r,
      declLoop mem pfp (fuel + 1) tk vt token result = Except.ok r → Prints tk r.2 := by
  intro pfp tk vt token result r h
  unfold declLoop at h
  obtain ⟨d, hd, h⟩ := bind_eq_ok h
  obtain ⟨accepted, token1, tk1⟩ := d
  have hA1 : Prints tk tk1 := acceptToken_prints hd
  simp -zeta only [] at h
  lift_lets at h
  extract_lets l1 jp1 at h
  have hjp1 : ∀ x, Prints tk x.2 → jp1 x = Except.ok r → Prints tk r.2 := by
    intro x hx h1
    simp -zeta only [jp1] at h1
    lift_lets at h1
    extract_lets jp2 at h1
    have hjp2 : ∀ y, Prints tk y.2.2 → jp2 y = Except.ok r → Prints tk r.2 := by
      intro y hy h2
      simp -zeta only [jp2] at h2
      lift_lets at h2
      extract_lets peeked vtl jp3 at h2
      have hjp3 : ∀ z, Prints tk z.2 → jp3 z = Except.ok r → Prints tk r.2 := by
        intro z hz h3
        simp -zeta only [jp3] at h3
        obtain ⟨a, ha, h3⟩ := bind_eq_ok h3
        have hAa : Prints tk a.2.2 := prints_trans hz (arrayLoop_prints _ _ _ _ _ ha)
        lift_lets at h3
        extract_lets value jp4 at h3
        have hjp4 : ∀ w, Prints tk w.2.2 → jp4 w = Except.ok r → Prints tk r.2 := by
          intro w hw h4
          simp -zeta only [jp4] at h4
          split at h4
          · obtain ⟨b, hb, h4⟩ := bind_eq_ok h4
            obtain ⟨c, hc, h4⟩ := bind_eq_ok h4
            have hAc : Prints tk c := prints_trans hw (prints_trans
              (nextToken_prints hb) (skipFunctionParam_prints _ _ _ hc))
            simp only [] at h4
            split at h4
            · exact prints_trans hAc (ihLoop _ _ _ _ _ _ h4)
            · exact prints_trans hAc (ihTail _ _ _ _ _ _ h4)
          · exact prints_trans hw (ihTail _ _ _ _ _ _ h4)
        split at h3
        · obtain ⟨b, hb, h3⟩ := bind_eq_ok h3
          simp only [pure_bind] at h3
          exact hjp4 (List.map (fun node => node.value) b.1, CPPTokeniser_PeekToken b.2, b.2)
            (prints_trans hAa (ihMeta _ _ hb)) h3
        · simp only [pure_bind] at h3
          exact hjp4 ([], a.1, a.2.2) hAa h3
      split at h2
      · simp only [pure, Except.pure, Except.ok.injEq] at h2
        subst h2
        exact hy
      · split at h2
        · obtain ⟨b, hb, h2⟩ := bind_eq_ok h2
          simp only [pure_bind] at h2
          exact hjp3 (peeked, b.2) (prints_trans hy (nextToken_prints hb)) h2
        · simp only [pure_bind] at h2
          exact hjp3 (({} : CPPToken), y.2.2) hy h2
    obtain ⟨a, ha, h1⟩ := bind_eq_ok h1
    obtain ⟨b, hb, h1⟩ := bind_eq_ok h1
    have hAb : Prints tk b.2.2 := prints_trans hx (prints_trans
      (consumeAsterisks_prints _ _ _ _ _ ha) (consumeConst_prints mem _ _ _ _ _ hb))
    split at h1
    · obtain ⟨c, hc, h1⟩ := bind_eq_ok h1
      obtain ⟨d, hd, h1⟩ := bind_eq_ok h1
      simp only [pure_bind] at h1
      exact hjp2 (a.1 + c.1, writeBack (writeBack (writeBack (writeBack l1 a.2.1) b.2.1) c.2.1) d.2.1,
        d.2.2) (prints_trans hAb (prints_trans
          (consumeAsterisks_prints _ _ _ _ _ hc) (consumeConst_prints mem _ _ _ _ _ hd))) h1
    · simp only [pure_bind] at h1
      exact hjp2 (a.1, writeBack (writeBack l1 a.2.1) b.2.1, b.2.2) hAb h1
  split at h
  · obtain ⟨d, hd, h⟩ := bind_eq_ok h
    simp only [pure_bind] at h
    have hAd : Prints tk d.2.2 := prints_trans hA1 (templateLoop_prints _ _ _ _ _ hd)
    split at h
    · exact hjp1 _ hAd h
    · exact hjp1 _ hAd h
  · simp only [pure_bind] at h
    exact hjp1 _ hA1 h

theorem declTail_prints_step (mem : List Char) (fuel : Nat)
    (ihLoop : ∀ pfp tk vt token result r,
      declLoop mem pfp fuel tk vt token result = Except.ok r → Prints tk r.2) :
    ∀ pfp tk vt token result r,
      declTail mem pfp (fuel + 1) tk vt token result = Except.ok r → Prints tk r.2 := by
  intro pfp tk vt token result r h
  rw [declTail] at h
  split at h
  · simp only [pure_bind] at h
    split at h
    · obtain ⟨a, ha, h⟩ := bind_eq_ok h
      obtain ⟨b, hb, h⟩ := bind_eq_ok h
      exact prints_trans (nextToken_prints ha) (prints_trans (nextToken_prints hb)
        (ihLoop _ _ _ _ _ _ h))
    · obtain ⟨b, hb, h⟩ := bind_eq_ok h
      exact prints_trans (nextToken_prints hb) (ihLoop _ _ _ _ _ _ h)
  · simp only [pure, Except.pure, Except.ok.injEq] at h
    subst h
    exact prints_refl tk

theorem parseDecl_prints_step (mem : List Char) (fuel : Nat)
    (ihLoop : ∀ pfp tk vt token result r,
      declLoop mem pfp fuel tk vt token result = Except.ok r → Prints tk r.2) :
    ∀ pfp tk r, ParseCPPTypeAndVariableDecl mem (fuel + 1) tk pfp = Except.ok r →
      Prints tk r.2 := by
  intro pfp tk r h
  unfold ParseCPPTypeAndVariableDecl at h
  obtain ⟨a, ha, h⟩ := bind_eq_ok h
  obtain ⟨t, tk1⟩ := a
  have hA1 : Prints tk tk1 := nextToken_prints ha
  refine prints_trans hA1 ?_
  simp only [] at h
  split at h
  · simp only [pure, Except.pure, Except.ok.injEq] at h
    subst h
    exact prints_refl tk1
  · obtain ⟨b, hb, h⟩ := bind_eq_ok h
    exact prints_trans (consumeConst_prints mem _ _ _ _ _ hb) (ihLoop _ _ _ _ _ _ h)

theorem inspectMeta_prints_step (mem : List Char) (fuel : Nat)
    (ihParse : ∀ pfp tk r, ParseCPPTypeAndVariableDecl mem fuel tk pfp = Except.ok r → Prints tk r.2) :
    ∀ tk r, ParseCPPInspectMeta mem (fuel + 1) tk = Except.ok r → Prints tk r.2 := by
  intro tk r h
  unfold ParseCPPInspectMeta at h
  obtain ⟨a, ha, h⟩ := bind_eq_ok h
  have hA1 := nextToken_prints ha
  simp only [] at h
  split at h
  · simp only [pure, Except.pure, Except.ok.injEq] at h
    subst h
    exact prints_trans hA1 (expectToken_prints _ _ _ _)
  · obtain ⟨b, hb, h⟩ := bind_eq_ok h
    have hA2 := prints_trans (prints_trans hA1 (expectToken_prints mem a.2 a.1
      CPPTokenType.Identifier)) (nextToken_prints hb)
    split at h
    · simp only [pure, Except.pure, Except.ok.injEq] at h
      subst h
      exact prints_trans hA2 (expectToken_prints _ _ _ _)
    · exact prints_trans (prints_trans hA2 (expectToken_prints _ _ _ _))
        (ihParse _ _ _ h)

theorem decl_prints (mem : List Char) : ∀ fuel : Nat,
    (∀ pfp tk vt token result r,
      declLoop mem pfp fuel tk vt token result = Except.ok r → Prints tk r.2) ∧
    (∀ pfp tk vt token result r,
      declTail mem pfp fuel tk vt token result = Except.ok r → Prints tk r.2) ∧
    (∀ pfp tk r, ParseCPPTypeAndVariableDecl mem fuel tk pfp = Except.ok r → Prints tk r.2) ∧
    (∀ tk r, ParseCPPInspectMeta mem fuel tk = Except.ok r → Prints tk r.2) := by
  intro fuel
  induction fuel using Nat.strong_induction_on with
  | _ fuel ih =>
    cases fuel with
    | zero =>
      refine ⟨?_, ?_, ?_, ?_⟩
      · intro pfp tk vt token result r h
        unfold declLoop at h
        cases h
      · intro pfp tk vt token result r h
        unfold declTail at h
        cases h
      · intro pfp tk r h
        unfold ParseCPPTypeAndVariableDecl at h
        cases h
      · intro tk r h
        unfold ParseCPPInspectMeta at h
        cases h
    | succ fuel =>
      obtain ⟨hL, hT, hP, hM⟩ := ih fuel (Nat.lt_succ_self fuel)
      exact ⟨declLoop_prints_step mem fuel hL hT hM, declTail_prints_step mem fuel hL,
        parseDecl_prints_step mem fuel hL, inspectMeta_prints_step mem fuel hP⟩

theorem parseDecl_prints {mem : List Char} {fuel : Nat} {tk : CPPTokeniser} {pfp : Bool}
    {r : List (CPPDeclLinkedList CPPVariableDecl) × CPPTokeniser}
    (h : ParseCPPTypeAndVariableDecl mem fuel tk pfp = Except.ok r) : Prints tk r.2 :=
  (decl_prints mem fuel).2.2.1 pfp tk r h

theorem inspectMeta_prints {mem : List Char} {fuel : Nat} {tk : CPPTokeniser}
    {r : List (CPPDeclLinkedList CPPVariableDecl) × CPPTokeniser}
    (h : ParseCPPInspectMeta mem fuel tk = Except.ok r) : Prints tk r.2 :=
  (decl_prints mem fuel).2.2.2 tk r h

theorem rewind_parse_prints {mem : List Char} {fuel : Nat} {a : CPPTokeniser} {pfp : Bool}
    {r : List (CPPDeclLinkedList CPPVariableDecl) × CPPTokeniser}
    (h : ParseCPPTypeAndVariableDecl mem fuel (CPPTokeniser_RewindToken a) pfp = Except.ok r) :
    Prints a r.2 := by
  have h1 : Prints a (CPPTokeniser_RewindToken a) := prints_of_eq rfl
  exact prints_trans h1 (parseDecl_prints h)

theorem enumLoop_prints (mem : List Char) (oil : Int) : ∀ (fuel : Nat) (t : CPPToken)
    (a : CPPTokeniser) (ms : List (CPPDeclLinkedList StringLiteral))
    (r : List (CPPDeclLinkedList StringLiteral) × CPPTokeniser),
    enumLoop mem oil fuel t a ms = Except.ok r → Prints a r.2 := by
  intro fuel
  induction fuel with
  | zero => intro t a ms r h; unfold enumLoop at h; cases h
  | succ fuel ih =>
    intro t a ms r h
    rw [enumLoop] at h
    split at h
    · simp only [pure_bind] at h
      split at h
      · split at h
        · obtain ⟨c, hc, h⟩ := bind_eq_ok h
          obtain ⟨b, hb, h⟩ := bind_eq_ok h
          exact prints_trans (inspectMeta_prints hc)
            (prints_trans (nextToken_prints hb) (ih _ _ _ _ h))
        · obtain ⟨b, hb, h⟩ := bind_eq_ok h
          exact prints_trans (nextToken_prints hb) (ih _ _ _ _ h)
      · obtain ⟨b, hb, h⟩ := bind_eq_ok h
        exact prints_trans (nextToken_prints hb) (ih _ _ _ _ h)
    · simp only [pure, Except.pure, Except.ok.injEq] at h
      subst h
      exact prints_refl a

theorem structLoop_prints (mem : List Char) (oil : Int) : ∀ (fuel : Nat) (t : CPPToken)
    (a : CPPTokeniser) (ms : List (CPPDeclLinkedList CPPVariableDecl))
    (r : List (CPPDeclLinkedList CPPVariableDecl) × CPPTokeniser),
    structLoop mem oil fuel t a ms = Except.ok r → Prints a r.2 := by
  intro fuel
  induction fuel with
  | zero => intro t a ms r h; unfold structLoop at h; cases h
  | succ fuel ih =>
    intro t a ms r h
    rw [structLoop] at h
    split at h
    · rename_i hc
      simp only [pure_bind] at h
      split at h
      · obtain ⟨c, hc1, h⟩ := bind_eq_ok h
        obtain ⟨b, hb, h⟩ := bind_eq_ok h
        exact prints_trans (rewind_parse_prints hc1)
          (prints_trans (nextToken_prints hb) (ih _ _ _ _ h))
      · obtain ⟨b, hb, h⟩ := bind_eq_ok h
        exact prints_trans (nextToken_prints hb) (ih _ _ _ _ h)
    · simp only [pure, Except.pure, Except.ok.injEq] at h
      subst h
      exact prints_refl a

theorem functionParamLoop_prints (mem : List Char) : ∀ (fuel : Nat) (t : CPPToken)
    (a : CPPTokeniser) (ms : List (CPPDeclLinkedList CPPVariableDecl))
    (r : List (CPPDeclLinkedList CPPVariableDecl) × CPPTokeniser),
    functionParamLoop mem fuel t a ms = Except.ok r → Prints a r.2 := by
  intro fuel
  induction fuel with
  | zero => intro t a ms r h; unfold functionParamLoop at h; cases h
  | succ fuel ih =>
    intro t a ms r h
    rw [functionParamLoop] at h
    split at h
    · rename_i hc
      simp only [pure_bind] at h
      split at h
      · obtain ⟨c, hc1, h⟩ := bind_eq_ok h
        obtain ⟨b, hb, h⟩ := bind_eq_ok h
        exact prints_trans (rewind_parse_prints hc1)
          (prints_trans (nextToken_prints hb) (ih _ _ _ _ h))
      · obtain ⟨b, hb, h⟩ := bind_eq_ok h
        exact prints_trans (nextToken_prints hb) (ih _ _ _ _ h)
    · simp only [pure, Except.pure, Except.ok.injEq] at h
      subst h
      exact prints_refl a

theorem defaultParamLoop_prints : ∀ (fuel : Nat) (t : CPPToken)
    (a : CPPTokeniser) (ds : List FunctionDefaultParam)
    (r : List FunctionDefaultParam × CPPTokeniser),
    defaultParamLoop fuel t a ds = Except.ok r → Prints a r.2 := by
  intro fuel
  induction fuel with
  | zero => intro t a ds r h; unfold defaultParamLoop at h; cases h
  | succ fuel ih =>
    intro t a ds r h
    unfold defaultParamLoop at h
    lift_lets at h
    extract_lets jp1 at h
    have hjp1 : ∀ x : List FunctionDefaultParam × CPPTokeniser, Prints a x.2 →
        jp1 x = Except.ok r → Prints a r.2 := by
      intro x hx h1
      simp -zeta only [jp1] at h1
      obtain ⟨b, hb, h1⟩ := bind_eq_ok h1
      exact prints_trans hx (prints_trans (nextToken_prints hb) (ih _ _ _ _ h1))
    split at h
    · split at h
      · simp only [pure_bind] at h
        exact hjp1 (ds, a) (prints_refl a) h
      · simp -zeta only [] at h
        lift_lets at h
        extract_lets name at h
        split at h
        · obtain ⟨c, hc, h⟩ := bind_eq_ok h
          simp only [pure_bind] at h
          exact hjp1 (ds, c) (skipFunctionParam_prints _ _ _ hc) h
        · obtain ⟨c, hc, h⟩ := bind_eq_ok h
          have hA1 := nextToken_prints hc
          split at h
          · obtain ⟨d, hd, h⟩ := bind_eq_ok h
            simp only [pure_bind] at h
            exact hjp1 (ds, d) (prints_trans hA1 (skipFunctionParam_prints _ _ _ hd)) h
          · lift_lets at h
            extract_lets tok2 dvs at h
            obtain ⟨d, hd, h⟩ := bind_eq_ok h
            have hA2 := prints_trans hA1 (skipFunctionParam_prints _ _ _ hd)
            lift_lets at h
            extract_lets pk dve at h
            split at h
            · simp only [pure_bind] at h
              exact hjp1 (ds, d) hA2 h
            · simp only [pure_bind] at h
              exact hjp1 (_, d) hA2 h
    · simp only [pure, Except.pure, Except.ok.injEq] at h
      subst h
      exact prints_refl a

theorem parseCPPEnum_prints {fuel : Nat} {mem : List Char} {a : CPPTokeniser}
    {r : Bool × ParsedEnum × CPPTokeniser} (h : ParseCPPEnum fuel mem a = Except.ok r) :
    Prints a r.2.2 := by
  unfold ParseCPPEnum at h
  lift_lets at h
  extract_lets pe jp1 at h
  have hjp1 : ∀ z : ParsedEnum × CPPToken × CPPTokeniser, Prints a z.2.2 →
      jp1 z = Except.ok r → Prints a r.2.2 := by
    intro z hz h1
    simp only [jp1] at h1
    have hA3 := prints_trans hz
      (expectToken_prints mem z.2.2 z.2.1 CPPTokenType.Identifier)
    split at h1
    · simp only [pure, Except.pure, Except.ok.injEq] at h1
      subst h1
      exact hA3
    · obtain ⟨w, hw, h1⟩ := bind_eq_ok h1
      have hA4 := prints_trans (prints_trans hA3 (nextToken_prints hw))
        (expectToken_prints mem w.2 w.1 CPPTokenType.LeftBrace)
      split at h1
      · simp only [pure, Except.pure, Except.ok.injEq] at h1
        subst h1
        exact hA4
      · obtain ⟨u, hu, h1⟩ := bind_eq_ok h1
        obtain ⟨v, hv, h1⟩ := bind_eq_ok h1
        simp only [pure, Except.pure, Except.ok.injEq] at h1
        subst h1
        exact prints_trans hA4 (prints_trans (nextToken_prints hu)
          (enumLoop_prints _ _ _ _ _ _ _ hv))
  obtain ⟨x, hx, h⟩ := bind_eq_ok h
  have hA1 := prints_trans (nextToken_prints hx)
    (expectToken_prints mem x.2 x.1 CPPTokenType.Identifier)
  simp -zeta only [] at h
  split at h
  · simp only [pure, Except.pure, Except.ok.injEq] at h
    subst h
    exact hA1
  · obtain ⟨y, hy, h⟩ := bind_eq_ok h
    have hA2 := prints_trans hA1 (nextToken_prints hy)
    split at h
    · obtain ⟨u, hu, h⟩ := bind_eq_ok h
      simp only [pure_bind] at h
      exact hjp1 (_, u.1, u.2) (prints_trans hA2 (nextToken_prints hu)) h
    · simp only [pure_bind] at h
      exact hjp1 (_, y.1, y.2) hA2 h

theorem expectOrBrace_prints (mem : List Char) (a : CPPTokeniser) (t : CPPToken)
    (c : Prop) [Decidable c] :
    Prints a (if c then ExpectToken mem a t CPPTokenType.Identifier else (true, a)).2 := by
  split
  · exact expectToken_prints _ _ _ _
  · exact prints_refl a

theorem parseCPPStruct_prints {fuel : Nat} {mem : List Char} {a : CPPTokeniser}
    {r : Bool × ParsedStruct × CPPTokeniser} (h : ParseCPPStruct fuel mem a = Except.ok r) :
    Prints a r.2.2 := by
  unfold ParseCPPStruct at h
  lift_lets at h
  extract_lets ps at h
  obtain ⟨x, hx, h⟩ := bind_eq_ok h
  have hA1 := prints_trans (nextToken_prints hx)
    (expectToken_prints mem x.2 x.1 CPPTokenType.Identifier)
  simp -zeta only [] at h
  split at h
  · simp only [pure, Except.pure, Except.ok.injEq] at h
    subst h
    exact hA1
  · obtain ⟨y, hy, h⟩ := bind_eq_ok h
    have hA2 := prints_trans (prints_trans hA1 (nextToken_prints hy))
      (expectOrBrace_prints mem y.2 y.1 (y.1.type ≠ CPPTokenType.LeftBrace))
    simp only [] at h
    generalize hq : (if y.1.type ≠ CPPTokenType.LeftBrace then
      ExpectToken mem y.2 y.1 CPPTokenType.Identifier else (true, y.2)) = q at h hA2
    split at h
    · simp only [pure, Except.pure, Except.ok.injEq] at h
      subst h
      exact hA2
    · obtain ⟨u, hu, h⟩ := bind_eq_ok h
      obtain ⟨v, hv, h⟩ := bind_eq_ok h
      have hA3 := prints_trans (prints_trans hA2 (nextToken_prints hu))
        (structLoop_prints _ _ _ _ _ _ _ hv)
      have hr : r.2.2 = v.2 := by
        split at h <;> (try split at h) <;>
          (simp only [pure, Except.pure, Except.ok.injEq] at h; subst h; rfl)
      rw [hr]
      exact hA3

theorem parseCPPVariableType_prints {fuel : Nat} {mem : List Char} {a : CPPTokeniser}
    {type : StringLiteral} {r : Bool × StringLiteral × CPPTokeniser}
    (h : ParseCPPVariableType fuel mem a type = Except.ok r) : Prints a r.2.2 := by
  unfold ParseCPPVariableType at h
  obtain ⟨x, hx, h⟩ := bind_eq_ok h
  have hA1 := prints_trans (nextToken_prints hx)
    (expectToken_prints mem x.2 x.1 CPPTokenType.Identifier)
  try simp -zeta only [] at h
  split at h
  · simp only [pure, Except.pure, Except.ok.injEq] at h
    subst h
    exact hA1
  · lift_lets at h
    extract_lets vts jp2 jp1 at h
    have hjp2 : ∀ y : CPPTokeniser, Prints a y → jp2 y = Except.ok r → Prints a r.2.2 := by
      intro y hy h2
      simp only [jp2] at h2
      have hA := prints_trans hy
        (expectToken_prints mem y (CPPTokeniser_PeekToken y) CPPTokenType.Identifier)
      split at h2
      · simp only [pure, Except.pure, Except.ok.injEq] at h2
        subst h2
        exact hA
      · simp only [pure, Except.pure, Except.ok.injEq] at h2
        subst h2
        exact hA
    have hjp1 : ∀ y : StringLiteral × CPPTokeniser, Prints a y.2 → jp1 y = Except.ok r →
        Prints a r.2.2 := by
      intro y hy h1
      simp -zeta only [jp1] at h1
      obtain ⟨c, hc, h1⟩ := bind_eq_ok h1
      obtain ⟨d, hd, h1⟩ := bind_eq_ok h1
      have hA := prints_trans hy (prints_trans (consumeAsterisks_prints _ _ _ _ _ hc)
        (consumeConst_prints mem _ _ _ _ _ hd))
      split at h1
      · obtain ⟨e, he, h1⟩ := bind_eq_ok h1
        obtain ⟨f, hf, h1⟩ := bind_eq_ok h1
        simp only [pure_bind] at h1
        exact hjp2 f.2.2 (prints_trans hA (prints_trans
          (consumeAsterisks_prints _ _ _ _ _ he) (consumeConst_prints mem _ _ _ _ _ hf))) h1
      · simp only [pure_bind] at h1
        exact hjp2 d.2.2 hA h1
    obtain ⟨c, hc, h⟩ := bind_eq_ok h
    have hA2 := prints_trans hA1 (consumeConst_prints mem _ _ _ _ _ hc)
    try simp -zeta only [] at h
    lift_lets at h
    extract_lets pk es at h
    split at h
    · obtain ⟨d, hd, h⟩ := bind_eq_ok h
      obtain ⟨e, he, h⟩ := bind_eq_ok h
      have hA3 := prints_trans hA2 (prints_trans (nextToken_prints hd)
        (templateLoop_prints _ _ _ _ _ he))
      try simp -zeta only [] at h
      lift_lets at h
      extract_lets ee at h
      split at h
      · simp only [pure_bind] at h
        exact hjp1 (_, e.2.2) hA3 h
      · simp only [pure_bind] at h
        exact hjp1 (_, e.2.2) hA3 h
    · simp only [pure_bind] at h
      exact hjp1 (_, c.2.2) hA2 h

theorem parseCPPInspectPrototype_prints {fuel : Nat} {mem : List Char} {a : CPPTokeniser}
    {r : Bool × ParsedFunctionPrototype × CPPTokeniser}
    (h : ParseCPPInspectPrototype fuel mem a = Except.ok r) : Prints a r.2.2 := by
  unfold ParseCPPInspectPrototype at h
  lift_lets at h
  extract_lets pf at h
  obtain ⟨x, hx, h⟩ := bind_eq_ok h
  refine prints_trans (nextToken_prints hx) ?_
  have hA1 := expectToken_prints mem x.2 x.1 CPPTokenType.InspectGeneratePrototype
  try simp -zeta only [] at h
  split at h
  · simp only [pure, Except.pure, Except.ok.injEq] at h
    subst h
    exact hA1
  · obtain ⟨y, hy, h⟩ := bind_eq_ok h
    obtain ⟨y1, y2, y3⟩ := y
    have hA2 := prints_trans hA1 (acceptToken_prints hy)
    try simp -zeta only [] at h
    split at h
    · simp only [pure, Except.pure, Except.ok.injEq] at h
      subst h
      exact hA2
    · obtain ⟨z, hz, h⟩ := bind_eq_ok h
      obtain ⟨w, hw, h⟩ := bind_eq_ok h
      have hA3 := prints_trans (prints_trans hA2 (prints_trans (nextToken_prints hz)
        (defaultParamLoop_prints _ _ _ _ _ hw)))
        (expectToken_prints mem w.2 (CPPTokeniser_PeekToken w.2) CPPTokenType.Identifier)
      try simp only [] at h
      split at h
      · simp only [pure, Except.pure, Except.ok.injEq] at h
        subst h
        exact hA3
      · obtain ⟨v, hv, h⟩ := bind_eq_ok h
        have hA4 := prints_trans hA3 (parseCPPVariableType_prints hv)
        try simp only [] at h
        split at h
        · simp only [pure, Except.pure, Except.ok.injEq] at h
          subst h
          exact hA4
        · have hA5 := prints_trans hA4
            (expectToken_prints mem v.2.2 (CPPTokeniser_PeekToken v.2.2) CPPTokenType.Identifier)
          split at h
          · simp only [pure, Except.pure, Except.ok.injEq] at h
            subst h
            exact hA5
          · obtain ⟨u, hu, h⟩ := bind_eq_ok h
            have hA6 := prints_trans (prints_trans hA5 (functionNameLoop_prints _ _ _ _ hu))
              (expectToken_prints mem u.2 u.1 CPPTokenType.OpenParen)
            try simp only [] at h
            split at h
            · simp only [pure, Except.pure, Except.ok.injEq] at h
              subst h
              exact hA6
            · have hA7 := prints_trans hA6
                (expectToken_prints mem (ExpectToken mem u.2 u.1 CPPTokenType.OpenParen).2
                  (CPPTokeniser_PeekToken (ExpectToken mem u.2 u.1 CPPTokenType.OpenParen).2)
                  CPPTokenType.OpenParen)
              split at h
              · simp only [pure, Except.pure, Except.ok.injEq] at h
                subst h
                exact hA7
              · obtain ⟨s, hs, h⟩ := bind_eq_ok h
                obtain ⟨t, ht, h⟩ := bind_eq_ok h
                obtain ⟨q, hq, h⟩ := bind_eq_ok h
                simp only [pure, Except.pure, Except.ok.injEq] at h
                subst h
                exact prints_trans hA7 (prints_trans (nextToken_prints hs)
                  (prints_trans (nextToken_prints ht)
                    (functionParamLoop_prints _ _ _ _ _ _ hq)))

theorem lexPass_output (mem : List Char) (lexing_function : Bool) :
    ∀ (fuel : Nat) (tk : CPPTokeniser) (ptr : Nat) (sc : LexScope) (r : CPPTokeniser × Nat),
      lexPass mem lexing_function fuel tk ptr sc = Except.ok r →
      r.1.output_file = tk.output_file := by
  intro fuel
  induction fuel with
  | zero => intro tk ptr sc r h; unfold lexPass at h; cases h
  | succ fuel ih =>
    intro tk ptr sc r h
    rw [lexPass] at h
    obtain ⟨p, hp, h⟩ := bind_eq_ok h
    obtain ⟨c, hc, h⟩ := bind_eq_ok h
    split at h
    · simp only [pure, Except.pure, Except.ok.injEq] at h
      subst h
      rfl
    · split at h
      · cases h
      · obtain ⟨x, hx, h⟩ := bind_eq_ok h
        simp only [] at h
        split at h
        · exact ih _ _ _ _ h
        · split at h
          · simp only [pure, Except.pure, Except.ok.injEq] at h
            subst h
            rfl
          · have := ih _ _ _ _ h
            exact this

theorem lexer_output {fuel : Nat} {mem : List Char} {tk : CPPTokeniser} {ptr : Nat}
    {lexing_function : Bool} {r : CPPTokeniser × Nat}
    (h : EnumOrStructOrFunctionLexer fuel mem tk ptr lexing_function = Except.ok r) :
    r.1.output_file = tk.output_file := by
  unfold EnumOrStructOrFunctionLexer at h
  obtain ⟨x, hx, h⟩ := bind_eq_ok h
  have h1 := lexPass_output mem lexing_function fuel tk ptr {} x hx
  simp only [] at h
  split at h
  · exact (lexPass_output mem lexing_function fuel _ _ {} r h).trans h1
  · simp only [pure, Except.pure, Except.ok.injEq] at h
    subst h
    exact h1

theorem makeToken_output {tk tk1 : CPPTokeniser} {token : CPPToken}
    (h : CPPTokeniser_MakeToken tk token = Except.ok tk1) :
    tk1.output_file = tk.output_file := by
  unfold CPPTokeniser_MakeToken at h
  split at h
  · cases h
  · simp only [pure, Except.pure, Except.ok.injEq] at h
    subst h
    rfl

theorem markerLoop_output (mem : List Char) (mode : InspectMode) (file_buf_end : Nat) :
    ∀ (fuel : Nat) (tk : CPPTokeniser) (buffer : StringLiteral) (r : CPPTokeniser),
      markerLoop mem mode file_buf_end fuel tk buffer = Except.ok r →
      r.output_file = tk.output_file := by
  intro fuel
  induction fuel with
  | zero => intro tk buffer r h; unfold markerLoop at h; cases h
  | succ fuel ih =>
    intro tk buffer r h
    rw [markerLoop] at h
    obtain ⟨found, hf, h⟩ := bind_eq_ok h
    cases found with
    | none =>
      simp only [pure, Except.pure, Except.ok.injEq] at h
      subst h
      rfl
    | some ptr =>
      simp -zeta only [] at h
      lift_lets at h
      extract_lets marker_str marker_len inspect_type p at h
      split at h
      · exact ih _ _ _ h
      · obtain ⟨x, hx, h⟩ := bind_eq_ok h
        obtain ⟨y, hy, h⟩ := bind_eq_ok h
        exact (ih _ _ _ h).trans ((lexer_output hy).trans (makeToken_output hx))

theorem lexFile_output {fuel : Nat} {mem : List Char} {mode : InspectMode}
    {tk tk1 : CPPTokeniser} (h : lexFile fuel mem mode tk = Except.ok tk1) :
    tk1.output_file = tk.output_file := by
  unfold lexFile at h
  obtain ⟨x, hx, h⟩ := bind_eq_ok h
  exact (makeToken_output h).trans (markerLoop_output mem mode _ fuel tk _ x hx)

theorem parseLoopBody_prints {fuel : Nat} {mem : List Char} {st st1 : ParseLoopState}
    {r : ParsedResult} {t : CPPToken}
    (h : parseLoopBody fuel mem st = Except.ok (r, t, st1)) :
    Prints st.tokeniser st1.tokeniser := by
  unfold parseLoopBody at h
  simp only [] at h
  by_cases hcode : (CPPTokeniser_PeekToken st.tokeniser).type = CPPTokenType.InspectCode
  · simp only [hcode, true_or, if_true] at h
    obtain ⟨x, hx, h⟩ := bind_eq_ok h
    have hA := nextToken_prints hx
    simp only [bind, Except.bind] at h
    split at h
    · cases hp : ParseCPPEnum fuel mem x.2 with
      | error e => rw [hp] at h; cases h
      | ok v =>
        rw [hp] at h
        obtain ⟨ok, pe, tk⟩ := v
        simp only [pure, Except.pure, Except.ok.injEq, Prod.mk.injEq] at h
        obtain ⟨h1, h2, h3⟩ := h
        subst h1 h2 h3
        exact prints_trans hA (parseCPPEnum_prints hp)
    · split at h
      · cases hp : ParseCPPStruct fuel mem x.2 with
        | error e => rw [hp] at h; cases h
        | ok v =>
          rw [hp] at h
          obtain ⟨ok, pe, tk⟩ := v
          simp only [pure, Except.pure, Except.ok.injEq, Prod.mk.injEq] at h
          obtain ⟨h1, h2, h3⟩ := h
          subst h1 h2 h3
          exact prints_trans hA (parseCPPStruct_prints hp)
      · simp only [pure, Except.pure, Except.ok.injEq, Prod.mk.injEq] at h
        obtain ⟨h1, h2, h3⟩ := h
        subst h1 h2 h3
        exact hA
  · by_cases hproto : (CPPTokeniser_PeekToken st.tokeniser).type =
        CPPTokenType.InspectGeneratePrototype
    · simp only [hproto, or_true, if_true] at h
      have hne : (CPPTokenType.InspectGeneratePrototype = CPPTokenType.InspectCode) = False := by
        simp
      simp only [hne, if_false] at h
      cases hp : ParseCPPInspectPrototype fuel mem st.tokeniser with
      | error e => rw [hp] at h; cases h
      | ok v =>
        rw [hp] at h
        obtain ⟨ok, pe, tk⟩ := v
        have hA := parseCPPInspectPrototype_prints hp
        simp only [bind, Except.bind] at h
        cases ok with
        | true =>
          simp only [if_true, pure, Except.pure, Except.ok.injEq, Prod.mk.injEq] at h
          obtain ⟨h1, h2, h3⟩ := h
          subst h1 h2 h3
          exact hA
        | false =>
          simp only [Bool.false_eq_true, if_false, pure, Except.pure, Except.ok.injEq,
            Prod.mk.injEq] at h
          obtain ⟨h1, h2, h3⟩ := h
          subst h1 h2 h3
          exact hA
    · simp only [hcode, hproto, or_self, if_false] at h
      obtain ⟨x, hx, h⟩ := bind_eq_ok h
      simp only [pure, Except.pure, Except.ok.injEq, Prod.mk.injEq] at h
      obtain ⟨h1, h2, h3⟩ := h
      subst h1 h2 h3
      exact nextToken_prints hx

theorem parseLoop_prints (mem : List Char) : ∀ (fuel : Nat) (st final : ParseLoopState),
    parseLoop mem fuel st = Except.ok final → Prints st.tokeniser final.tokeniser := by
  intro fuel
  induction fuel with
  | zero => intro st final h; unfold parseLoop at h; cases h
  | succ fuel ih =>
    intro st final h
    unfold parseLoop at h
    obtain ⟨x, hx, h⟩ := bind_eq_ok h
    obtain ⟨r, t, st1⟩ := x
    have hA := parseLoopBody_prints hx
    simp only [] at h
    split at h
    · simp only [pure, Except.pure, Except.ok.injEq] at h
      subst h
      rw [pushed_tokeniser]
      exact hA
    · have := ih _ final h
      rw [pushed_tokeniser] at this
      exact prints_trans hA this

theorem longest_nonneg (lens : List Int) : 0 ≤ longest lens := longest_foldl_le lens 0

theorem mem_prototypesOf_of_split {results before after : List ParsedResult}
    {parsed_func : ParsedFunctionPrototype}
    (h : results = before ++ ParsedResult.FunctionPrototype parsed_func :: after) :
    parsed_func ∈ prototypesOf results := by
  rw [h, prototypesOf_append]
  exact List.mem_append_right _ (by simp [prototypesOf])

theorem not_mem_replicate_space (n : Nat) : '\n' ∉ List.replicate n ' ' := by
  intro h
  have := List.eq_of_mem_replicate h
  exact absurd this (by decide)

/-- C24.  When the run on a file returns, the lines of its prototypes are written with
one indentation `pad` of spaces, the same for all of them, and with the widths `W1`, the
longest return-type length, and `W2`, the longest name length, among the prototypes of
the parse results (no prototype is longer, and a width that is not 0 is the length of one
of them).  The line of each prototype starts at column 0 and is `pad`, the return type, a
space, spaces up to `W1`, `pad`, the name, spaces up to `W2`, `pad`, and the parameters in
parentheses.  When the text of a return type has its recorded length and no line break,
the name starts at column `2 * |pad| + W1 + 1`; when the text of the name also has its
recorded length and no line break, the parenthesis is at column
`3 * |pad| + W1 + 1 + W2`. -/
theorem C24_prototype_lines_are_padded_to_the_longest (fuel : Nat) (mem : List Char)
    (mode : InspectMode) (results : List ParsedResult) (output : List Char)
    (h : (inspectFile fuel mem mode).map (fun r => (r.1, r.2.output_file)) =
      Except.ok (results, output)) :
    ∃ n : Nat,
      (∀ parsed_func ∈ prototypesOf results,
        parsed_func.return_type.len ≤
            longest ((prototypesOf results).map (fun p => p.return_type.len)) ∧
          parsed_func.name.len ≤ longest ((prototypesOf results).map (fun p => p.name.len))) ∧
      (longest ((prototypesOf results).map (fun p => p.return_type.len)) = 0 ∨
        ∃ parsed_func ∈ prototypesOf results, parsed_func.return_type.len =
          longest ((prototypesOf results).map (fun p => p.return_type.len))) ∧
      (longest ((prototypesOf results).map (fun p => p.name.len)) = 0 ∨
        ∃ parsed_func ∈ prototypesOf results, parsed_func.name.len =
          longest ((prototypesOf results).map (fun p => p.name.len))) ∧
      ∀ before parsed_func after,
        results = before ++ ParsedResult.FunctionPrototype parsed_func :: after →
        ∃ pre post, column pre = 0 ∧
          output = pre ++
            prototypeText (List.replicate n ' ') (fmtLit mem parsed_func.return_type)
              (longest ((prototypesOf results).map (fun p => p.return_type.len))
                - parsed_func.return_type.len).toNat
              (fmtLit mem parsed_func.name)
              (longest ((prototypesOf results).map (fun p => p.name.len))
                - parsed_func.name.len).toNat
              (parsed_func.members.map (describeParam mem)) ++ post ∧
          ((((fmtLit mem parsed_func.return_type).length : Nat) : Int) =
              parsed_func.return_type.len →
            '\n' ∉ fmtLit mem parsed_func.return_type →
            column (pre ++ (List.replicate n ' ' ++ fmtLit mem parsed_func.return_type
                ++ " ".toList
                ++ List.replicate
                  (longest ((prototypesOf results).map (fun p => p.return_type.len))
                    - parsed_func.return_type.len).toNat ' '
                ++ List.replicate n ' ')) =
              2 * n + (longest ((prototypesOf results).map
                (fun p => p.return_type.len))).toNat + 1 ∧
            ((((fmtLit mem parsed_func.name).length : Nat) : Int) = parsed_func.name.len →
              '\n' ∉ fmtLit mem parsed_func.name →
              column (pre ++ (List.replicate n ' ' ++ fmtLit mem parsed_func.return_type
                  ++ " ".toList
                  ++ List.replicate
                    (longest ((prototypesOf results).map (fun p => p.return_type.len))
                      - parsed_func.return_type.len).toNat ' '
                  ++ List.replicate n ' ' ++ fmtLit mem parsed_func.name
                  ++ List.replicate
                    (longest ((prototypesOf results).map (fun p => p.name.len))
                      - parsed_func.name.len).toNat ' '
                  ++ List.replicate n ' ')) =
                3 * n + (longest ((prototypesOf results).map
                  (fun p => p.return_type.len))).toNat + 1
                  + (longest ((prototypesOf results).map (fun p => p.name.len))).toNat)) := by
  cases hrun : inspectFile fuel mem mode with
  | error e => rw [hrun] at h; cases h
  | ok run =>
  rw [hrun] at h
  simp only [Except.map, Except.ok.injEq, Prod.mk.injEq] at h
  obtain ⟨hr1, hr2⟩ := h
  unfold inspectFile at hrun
  obtain ⟨tk0, h0, h⟩ := bind_eq_ok hrun
  obtain ⟨st, h1, h⟩ := bind_eq_ok h
  obtain ⟨final, h2, h⟩ := bind_eq_ok h
  simp only [pure, Except.pure, Except.ok.injEq] at h
  subst h
  simp only [] at hr1 hr2
  have hres : st.parsing_results = results := hr1
  subst hr2
  obtain ⟨hw1, hw2⟩ := parseLoop_widths mem fuel _ st h1 rfl rfl
  rw [hres] at hw1 hw2
  have hcol : column st.tokeniser.output_file = 0 := by
    obtain ⟨text, ht, hc⟩ := parseLoop_prints mem fuel _ st h1
    have hout := lexFile_output h0
    simp only [] at ht hout
    rw [ht, hout]
    simpa using hc
  rw [hw1, hw2, hres] at h2
  refine ⟨((st.tokeniser.spaces_per_indent : Int) * st.tokeniser.indent_level).natAbs,
    fun p hp => ⟨?_, ?_⟩, ?_, ?_, ?_⟩
  · exact longest_foldl_ge _ 0 _ (List.mem_map.2 ⟨p, hp, rfl⟩)
  · exact longest_foldl_ge _ 0 _ (List.mem_map.2 ⟨p, hp, rfl⟩)
  · rcases longest_foldl_mem ((prototypesOf results).map (fun p => p.return_type.len)) 0
      with hz | hm
    · exact Or.inl hz
    · obtain ⟨p, hp, hpe⟩ := List.mem_map.1 hm
      exact Or.inr ⟨p, hp, hpe⟩
  · rcases longest_foldl_mem ((prototypesOf results).map (fun p => p.name.len)) 0
      with hz | hm
    · exact Or.inl hz
    · obtain ⟨p, hp, hpe⟩ := List.mem_map.1 hm
      exact Or.inr ⟨p, hp, hpe⟩
  · intro before parsed_func after hsplit
    rw [hsplit] at h2
    obtain ⟨pre, post, hpre, hout⟩ :=
      generateResults_prototype mem _ _ before after parsed_func st.tokeniser final h2 hcol
    rw [← hsplit] at hout
    refine ⟨pre, post, hpre, hout, fun hlen hnl => ?_⟩
    have hmem := mem_prototypesOf_of_split hsplit
    have hle1 := longest_foldl_ge ((prototypesOf results).map (fun p => p.return_type.len)) 0
      _ (List.mem_map.2 ⟨parsed_func, hmem, rfl⟩)
    have hle2 := longest_foldl_ge ((prototypesOf results).map (fun p => p.name.len)) 0
      _ (List.mem_map.2 ⟨parsed_func, hmem, rfl⟩)
    simp only [] at hle1 hle2
    have hsp := not_mem_replicate_space
    constructor
    · rw [column_append_of_not_mem, hpre]
      · simp only [List.length_append, List.length_replicate, String.toList, List.length_cons,
          List.length_nil, longest]
        omega
      · simp only [List.mem_append, not_or]
        exact ⟨⟨⟨⟨hsp _, hnl⟩, by decide⟩, hsp _⟩, hsp _⟩
    · intro hlen2 hnl2
      rw [column_append_of_not_mem, hpre]
      · simp only [List.length_append, List.length_replicate, String.toList, List.length_cons,
          List.length_nil, longest]
        omega
      · simp only [List.mem_append, not_or]
        exact ⟨⟨⟨⟨⟨⟨⟨hsp _, hnl⟩, by decide⟩, hsp _⟩, hsp _⟩, hnl2⟩, hsp _⟩, hsp _⟩

/-- C24, counterexample.  A return type written over two lines, `char const` and `*`, is
copied with its line break: the name `f` starts at column 2 of its line and the name `g`
of the other prototype at column 13.  A return type that holds a NUL character is
written up to it, 4 characters for a recorded length of 10, and `f` starts at column 5,
`g` at column 11. -/
theorem C24_counterexample :
    (inspectFile 80
        (fileBuffer ("DQN_INSPECT_GENERATE_PROTOTYPE()\nchar const\n*f(int a);\n" ++
          "DQN_INSPECT_GENERATE_PROTOTYPE()\nvoid g();"))
        InspectMode.All).map (fun r => r.2.output_file) =
      Except.ok ("char const\n* " ++ "f(int a);\n" ++ "void         " ++ "g();\n").toList ∧
    column "char const\n* ".toList = 2 ∧
    column ("char const\n* f(int a);\n" ++ "void         ").toList = 13 ∧
    (inspectFile 80
        (fileBuffer ("DQN_INSPECT_GENERATE_PROTOTYPE()\nA<\"x\x00y\"> *f();\n" ++
          "DQN_INSPECT_GENERATE_PROTOTYPE()\nvoid g();"))
        InspectMode.All).map (fun r => r.2.output_file) =
      Except.ok ("A<\"x " ++ "f();\n" ++ "void       " ++ "g();\n").toList ∧
    column "A<\"x ".toList = 5 ∧
    column ("A<\"x f();\n" ++ "void       ").toList = 11 := by
  refine ⟨by decide!, by decide, by decide, by decide!, by decide, by decide⟩

/-- C24, at the file of the prototypes `int Add(int a, int b);` and
`char const *Name(Foo *f);`, whose lines are written with the names at column 13 and the
parentheses at column 17: no return type is longer than `char const *` and no name longer
than `Name`. -/
theorem C24_witness :
    (inspectFile 80 alignedExampleBuffer InspectMode.All).map
        (fun r => (r.1, r.2.output_file)) =
      Except.ok (alignedExampleResults,
        ("int          Add (int a, int b);\n" ++ "char const * Name(Foo * f);\n").toList) ∧
    ∀ parsed_func ∈ prototypesOf alignedExampleResults,
      parsed_func.return_type.len ≤
          longest ((prototypesOf alignedExampleResults).map (fun p => p.return_type.len)) ∧
        parsed_func.name.len ≤
          longest ((prototypesOf alignedExampleResults).map (fun p => p.name.len)) := by
  have h : (inspectFile 80 alignedExampleBuffer InspectMode.All).map
        (fun r => (r.1, r.2.output_file)) =
      Except.ok (alignedExampleResults,
        ("int          Add (int a, int b);\n" ++ "char const * Name(Foo * f);\n").toList) := by
    decide!
  exact ⟨h, (C24_prototype_lines_are_padded_to_the_longest 80 alignedExampleBuffer
    InspectMode.All _ _ h).elim (fun _ hn => hn.1)⟩

theorem laterTokens_length_cons (item : CPPToken × List CPPToken × CPPToken)
    (rest : List (CPPToken × List CPPToken × CPPToken)) :
    (laterTokens (item :: rest)).length = item.2.1.length + 2 + (laterTokens rest).length := by
  simp [laterTokens]; omega

/-- One turn of the loop of `ParseCPPTypeAndVariableDecl` at the asterisks and the name of
a declared name. -/
theorem declLoop_item (mem : List Char) (parse_function_param : Bool) (tk : CPPTokeniser)
    (pre post stars : List CPPToken) (vt token name after : CPPToken) (f : Nat)
    (result : List (CPPDeclLinkedList CPPVariableDecl))
    (ht : tk.tokens = pre ++ (stars ++ name :: after :: post))
    (hi : tk.tokens_index = pre.length) (h0 : 0 ≤ tk.indent_level)
    (hvt : vt.type = CPPTokenType.Identifier)
    (hs : ∀ s ∈ stars, s.type = CPPTokenType.Asterisks)
    (hname : name.type = CPPTokenType.Identifier ∧ IsIdentifierToken mem name "const" = false)
    (hafter : after.type ≠ CPPTokenType.LeftSqBracket ∧ after.type ≠ CPPTokenType.Equals ∧
      IsIdentifierToken mem after "DQN_INSPECT_META" = false)
    (hfuel : stars.length + 2 ≤ f) :
    declLoop mem parse_function_param (f + 1) tk vt token result =
      declTail mem parse_function_param f
        { tk with tokens_index := tk.tokens_index + stars.length + 1 } vt after
        (result ++ [declaredAs vt stars name]) := by
  obtain ⟨g, rfl⟩ : ∃ g, f = g + 1 := ⟨f - 1, by omega⟩
  have ha := consumeAsterisks_run stars tk pre name (after :: post) (g + 1) 0 {}
    (by simpa using ht) hi h0 hs (by rw [hname.1]; decide) (by omega)
  have hgn : ({ tk with tokens_index := tk.tokens_index + stars.length } :
      CPPTokeniser).tokens.getD
      ({ tk with tokens_index := tk.tokens_index + stars.length } :
        CPPTokeniser).tokens_index default = name :=
    @getD_cursor _ (pre ++ stars) name (after :: post) (by simp [ht]) (by simp [hi])
  have hb := consumeConst_none mem g hgn hname.2 false {}
  obtain ⟨h, tl, hhead, hlt, _⟩ := head_of_stars mem stars name (after :: post) hs hname.1
  have hpeek : (CPPTokeniser_PeekToken tk).type ≠ CPPTokenType.LessThan := by
    rw [CPPTokeniser_PeekToken, @getD_cursor tk pre h tl (by rw [ht, hhead]) hi]
    exact hlt
  have e4 := next_plain_at { tk with tokens_index := tk.tokens_index + stars.length }
    (pre ++ stars) name (after :: post) (by simp [ht]) (by simp [hi]) h0
    (identifier_plain hname.1)
  have hg5 : ({ tk with tokens_index := tk.tokens_index + stars.length + 1 } :
      CPPTokeniser).tokens.getD (tk.tokens_index + stars.length + 1) default = after :=
    @getD_cursor { tk with tokens_index := tk.tokens_index + stars.length + 1 }
      (pre ++ stars ++ [name]) after post (by simp [ht]) (by simp [hi]; omega)
  have h5 : arrayLoop (g + 1)
      (CPPTokeniser_PeekToken { tk with tokens_index := tk.tokens_index + stars.length + 1 })
      (0 + (stars.length : Int))
      { tk with tokens_index := tk.tokens_index + stars.length + 1 } =
      Except.ok (after, (stars.length : Int),
        { tk with tokens_index := tk.tokens_index + stars.length + 1 }) := by
    rw [arrayLoop, CPPTokeniser_PeekToken]
    simp only [hg5]
    rw [if_neg (by simp [hafter.1])]
    simp [pure, Except.pure]
  rw [declLoop_steps mem parse_function_param (g + 1) tk _ _ _ _ _ vt token name after _ _
    (writeBack (writeBack {} (stars.getLast?.getD {})) {}) _ _ _ false result hvt hpeek ha hb
    (Or.inl ⟨rfl, rfl, rfl, rfl⟩) (by rw [CPPTokeniser_PeekToken]; exact hgn) hname.1 e4 h5
    hafter.2.2 hafter.2.1]
  congr 2
  unfold declaredAs
  cases hl : stars.getLast? with
  | none => simp [writeBack]
  | some last =>
    have hlast : last.type = CPPTokenType.Asterisks :=
      hs last (List.mem_of_getLast?_eq_some hl)
    simp [writeBack, hlast]

/-- The end of a turn of that loop at the comma before another declared name of a
statement. -/
theorem declTail_next_name (mem : List Char) (tk : CPPTokeniser) (pre post : List CPPToken)
    (vt sep : CPPToken) (f : Nat) (result : List (CPPDeclLinkedList CPPVariableDecl))
    (ht : tk.tokens = pre ++ sep :: post) (hi : tk.tokens_index = pre.length)
    (h0 : 0 ≤ tk.indent_level) (hsep : sep.type = CPPTokenType.Comma) :
    declTail mem false (f + 1) tk vt sep result =
      declLoop mem false f { tk with tokens_index := tk.tokens_index + 1 } vt sep result := by
  have e := next_plain_at tk pre sep post ht hi h0 (by rw [hsep]; decide)
  rw [declTail]
  simp only [hsep, if_true, Bool.false_eq_true, if_false, pure, Except.pure, bind, Except.bind,
    e]

/-- The loop of `ParseCPPTypeAndVariableDecl` over the names of a statement. -/
theorem declLoop_names (mem : List Char) (vt : CPPToken)
    (hvt : vt.type = CPPTokenType.Identifier) (stop : CPPToken) (post : List CPPToken)
    (hstop : stop.type ≠ CPPTokenType.LeftSqBracket ∧ stop.type ≠ CPPTokenType.Equals ∧
      stop.type ≠ CPPTokenType.Comma ∧ IsIdentifierToken mem stop "DQN_INSPECT_META" = false)
    (m : Nat) :
    ∀ (later : List (CPPToken × List CPPToken × CPPToken)) (tk : CPPTokeniser)
      (pre stars : List CPPToken) (name token : CPPToken) (f : Nat)
      (result : List (CPPDeclLinkedList CPPVariableDecl)),
      tk.tokens = pre ++ (stars ++ name :: (laterTokens later ++ stop :: post)) →
      tk.tokens_index = pre.length → 0 ≤ tk.indent_level →
      (∀ s ∈ stars, s.type = CPPTokenType.Asterisks) → stars.length ≤ m →
      (name.type = CPPTokenType.Identifier ∧ IsIdentifierToken mem name "const" = false) →
      (∀ item ∈ later, item.1.type = CPPTokenType.Comma ∧
        (∀ s ∈ item.2.1, s.type = CPPTokenType.Asterisks) ∧ item.2.1.length ≤ m ∧
        item.2.2.type = CPPTokenType.Identifier ∧
        IsIdentifierToken mem item.2.2 "const" = false) →
      m + 2 * later.length + 2 ≤ f →
      declLoop mem false (f + 1) tk vt token result =
        Except.ok (result ++ declaredAs vt stars name ::
            later.map (fun item => declaredAs vt item.2.1 item.2.2),
          { tk with tokens_index :=
              tk.tokens_index + stars.length + 1 + (laterTokens later).length }) := by
  intro later
  induction later with
  | nil =>
    intro tk pre stars name token f result ht hi h0 hs hm hname _ hfuel
    simp only [laterTokens, List.nil_append] at ht
    rw [declLoop_item mem false tk pre post stars vt token name stop f result ht hi h0 hvt hs
      hname ⟨hstop.1, hstop.2.1, hstop.2.2.2⟩ (by omega)]
    obtain ⟨g, rfl⟩ : ∃ g, f = g + 1 := ⟨f - 1, by omega⟩
    rw [declTail, if_neg hstop.2.2.1]
    simp [pure, Except.pure, laterTokens]
  | cons item rest ih =>
    intro tk pre stars name token f result ht hi h0 hs hm hname hlater hfuel
    obtain ⟨hsep, hs2, hm2, hn2, hc2⟩ := hlater item (List.mem_cons_self _ _)
    have hsepf : item.1.type ≠ CPPTokenType.LeftSqBracket ∧
        item.1.type ≠ CPPTokenType.Equals ∧
        IsIdentifierToken mem item.1 "DQN_INSPECT_META" = false :=
      ⟨by rw [hsep]; decide, by rw [hsep]; decide,
        not_identifier_token_of_type (by rw [hsep]; decide)⟩
    have ht1 : tk.tokens = pre ++ (stars ++ name :: item.1 ::
        (item.2.1 ++ item.2.2 :: (laterTokens rest ++ stop :: post))) := by
      rw [ht]; simp [laterTokens]
    rw [declLoop_item mem false tk pre _ stars vt token name item.1 f result ht1 hi h0 hvt hs
      hname hsepf (by omega)]
    obtain ⟨g, rfl⟩ : ∃ g, f = g + 1 := ⟨f - 1, by omega⟩
    have e1 := declTail_next_name mem
      { tk with tokens_index := tk.tokens_index + stars.length + 1 } (pre ++ stars ++ [name])
      (item.2.1 ++ item.2.2 :: (laterTokens rest ++ stop :: post)) vt item.1 g
      (result ++ [declaredAs vt stars name]) (by simp [ht1]) (by simp [hi]; omega) h0 hsep
    rw [e1]
    obtain ⟨g2, rfl⟩ : ∃ g2, g = g2 + 1 := ⟨g - 1, by simp at hfuel; omega⟩
    have e2 := ih { tk with tokens_index := tk.tokens_index + stars.length + 1 + 1 }
      (pre ++ stars ++ [name, item.1]) item.2.1 item.2.2 item.1 g2
      (result ++ [declaredAs vt stars name])
      (by simp [ht1]) (by simp [hi]; omega) h0 hs2 hm2 ⟨hn2, hc2⟩
      (fun x hx => hlater x (List.mem_cons_of_mem _ hx)) (by simp at hfuel; omega)
    rw [e2]
    simp only [List.map_cons, List.append_assoc, List.singleton_append, Except.ok.injEq,
      Prod.mk.injEq, true_and, laterTokens_length_cons]
    congr 1
    omega

/-- C21.  `ParseCPPTypeAndVariableDecl` (parse_function_param false) at a statement that
declares names of one base type `ty`, each name with asterisks before it and the names
separated by commas, up to a token `stop` that is no comma, no `[`, no `=` and no
`DQN_INSPECT_META`: it returns one declaration for each declared name, in source order,
with that name and the count of its asterisks, and leaves the cursor on `stop`.  The type
text of every declaration starts at the base type; it is the base type for a name
without asterisks, and for a name with asterisks it ends at the last of them, so that
for a later name it holds the names and commas written before it. -/
theorem C21_type_text_of_a_later_name_starts_at_the_base_type (mem : List Char)
    (tk : CPPTokeniser) (pre post stars : List CPPToken) (ty name stop : CPPToken)
    (later : List (CPPToken × List CPPToken × CPPToken)) (f m : Nat)
    (ht : tk.tokens =
      pre ++ ty :: (stars ++ name :: (laterTokens later ++ stop :: post)))
    (hi : tk.tokens_index = pre.length) (h0 : 0 ≤ tk.indent_level)
    (hty : ty.type = CPPTokenType.Identifier)
    (hs : ∀ s ∈ stars, s.type = CPPTokenType.Asterisks) (hm : stars.length ≤ m)
    (hname : name.type = CPPTokenType.Identifier ∧ IsIdentifierToken mem name "const" = false)
    (hlater : ∀ item ∈ later, item.1.type = CPPTokenType.Comma ∧
      (∀ s ∈ item.2.1, s.type = CPPTokenType.Asterisks) ∧ item.2.1.length ≤ m ∧
      item.2.2.type = CPPTokenType.Identifier ∧
      IsIdentifierToken mem item.2.2 "const" = false)
    (hstop : stop.type ≠ CPPTokenType.LeftSqBracket ∧ stop.type ≠ CPPTokenType.Equals ∧
      stop.type ≠ CPPTokenType.Comma ∧ IsIdentifierToken mem stop "DQN_INSPECT_META" = false)
    (hfuel : m + 2 * later.length + 2 ≤ f) :
    ParseCPPTypeAndVariableDecl mem (f + 2) tk false =
      Except.ok (declaredAs ty stars name ::
          later.map (fun item => declaredAs ty item.2.1 item.2.2),
        { tk with tokens_index :=
            tk.tokens_index + 1 + stars.length + 1 + (laterTokens later).length }) := by
  have e1 := next_plain_at tk pre ty _ ht hi h0 (identifier_plain hty)
  obtain ⟨h, tl, hhead, _, hconst⟩ := head_of_stars mem stars name
    (laterTokens later ++ stop :: post) hs hname.1
  have hg : ({ tk with tokens_index := tk.tokens_index + 1 } : CPPTokeniser).tokens.getD
      ({ tk with tokens_index := tk.tokens_index + 1 } : CPPTokeniser).tokens_index default
      = h :=
    @getD_cursor { tk with tokens_index := tk.tokens_index + 1 } (pre ++ [ty]) h tl
      (by simp [ht, hhead]) (by simp [hi])
  have e2 := consumeConst_none mem f hg (hconst hname.2) false {}
  have e3 := declLoop_names mem ty hty stop post hstop m later
    { tk with tokens_index := tk.tokens_index + 1 } (pre ++ [ty]) stars name ty f []
    (by simp [ht]) (by simp [hi]) h0 hs hm hname hlater hfuel
  rw [ParseCPPTypeAndVariableDecl]
  simp only [bind, Except.bind, e1, hty, ne_eq, not_true_eq_false, false_and, if_false, e2, e3,
    List.nil_append]

/-- C21, at the tokens of `DQN_INSPECT struct S { int a, *b; };` with the cursor on `int`:
the declaration of `b` has the type text of length 8 that starts at `int`, which is
`int a, *`. -/
theorem C21_witness :
    ParseCPPTypeAndVariableDecl (fileBuffer "DQN_INSPECT struct S \x7b int a, *b; \x7d;") 7
        { tokens :=
            [{ type := CPPTokenType.InspectCode, str := 0, len := 36 },
             { type := CPPTokenType.Identifier, str := 12, len := 6 },
             { type := CPPTokenType.Identifier, str := 19, len := 1 },
             { type := CPPTokenType.LeftBrace, str := 21, len := 1 },
             { type := CPPTokenType.Identifier, str := 23, len := 3 },
             { type := CPPTokenType.Identifier, str := 27, len := 1 },
             { type := CPPTokenType.Comma, str := 28, len := 1 },
             { type := CPPTokenType.Asterisks, str := 30, len := 1 },
             { type := CPPTokenType.Identifier, str := 31, len := 1 },
             { type := CPPTokenType.SemiColon, str := 32, len := 1 },
             { type := CPPTokenType.RightBrace, str := 34, len := 1 },
             { type := CPPTokenType.EndOfStream }]
          tokens_index := 4
          indent_level := 1 } false =
      Except.ok
        ([{ value := { type := { str := 23, len := 3 }, name := { str := 27, len := 1 } } },
          { value := { type := { str := 23, len := 8 }, name := { str := 31, len := 1 }
                       array_dimensions := 1 } }],
         { tokens :=
            [{ type := CPPTokenType.InspectCode, str := 0, len := 36 },
             { type := CPPTokenType.Identifier, str := 12, len := 6 },
             { type := CPPTokenType.Identifier, str := 19, len := 1 },
             { type := CPPTokenType.LeftBrace, str := 21, len := 1 },
             { type := CPPTokenType.Identifier, str := 23, len := 3 },
             { type := CPPTokenType.Identifier, str := 27, len := 1 },
             { type := CPPTokenType.Comma, str := 28, len := 1 },
             { type := CPPTokenType.Asterisks, str := 30, len := 1 },
             { type := CPPTokenType.Identifier, str := 31, len := 1 },
             { type := CPPTokenType.SemiColon, str := 32, len := 1 },
             { type := CPPTokenType.RightBrace, str := 34, len := 1 },
             { type := CPPTokenType.EndOfStream }]
           tokens_index := 9
           indent_level := 1 }) :=
  C21_type_text_of_a_later_name_starts_at_the_base_type
    (fileBuffer "DQN_INSPECT struct S \x7b int a, *b; \x7d;") _
    [{ type := CPPTokenType.InspectCode, str := 0, len := 36 },
     { type := CPPTokenType.Identifier, str := 12, len := 6 },
     { type := CPPTokenType.Identifier, str := 19, len := 1 },
     { type := CPPTokenType.LeftBrace, str := 21, len := 1 }]
    [{ type := CPPTokenType.RightBrace, str := 34, len := 1 },
     { type := CPPTokenType.EndOfStream }]
    [] { type := CPPTokenType.Identifier, str := 23, len := 3 }
    { type := CPPTokenType.Identifier, str := 27, len := 1 }
    { type := CPPTokenType.SemiColon, str := 32, len := 1 }
    [({ type := CPPTokenType.Comma, str := 28, len := 1 },
      [{ type := CPPTokenType.Asterisks, str := 30, len := 1 }],
      { type := CPPTokenType.Identifier, str := 31, len := 1 })]
    5 1 rfl rfl (by decide) rfl (by decide) (by decide) (by decide) (by decide) (by decide)
    (by decide)

/-- The struct `struct S { int a, *b; };` run through the program: the member descriptor
of `b` is written with the type text `int a, *`; in `struct S { int *a, b; };` the
descriptors have the type texts `int *` and `int`. -/
theorem later_name_example :
    (inspectFile 40 (fileBuffer "DQN_INSPECT struct S \x7b int a, *b; \x7d;")
        InspectMode.All).map
      (fun r => r.1.map (fun result => match result with
        | ParsedResult.Struct parsed_struct =>
          parsed_struct.members.map
            (describeMember (fileBuffer "DQN_INSPECT struct S \x7b int a, *b; \x7d;"))
        | _ => [])) =
      Except.ok [[{ type := "int".toList, name := "a".toList, template_expr := none },
        { type := "int a, *".toList, name := "b".toList, template_expr := none
          array_dimensions := 1 }]] ∧
    (inspectFile 40 (fileBuffer "DQN_INSPECT struct S \x7b int *a, b; \x7d;")
        InspectMode.All).map
      (fun r => r.1.map (fun result => match result with
        | ParsedResult.Struct parsed_struct =>
          parsed_struct.members.map
            (describeMember (fileBuffer "DQN_INSPECT struct S \x7b int *a, b; \x7d;"))
        | _ => [])) =
      Except.ok [[{ type := "int *".toList, name := "a".toList, template_expr := none
                    array_dimensions := 1 },
        { type := "int".toList, name := "b".toList, template_expr := none }]] := by
  constructor
  · decide!
  · decide!

/-- The lexer makes the tokens of `metaCallTokeniser` of `metaCallBuffer`. -/
theorem metaCall_tokens :
    (lexFile 40 metaCallBuffer InspectMode.All {}).map (fun r => r.tokens) =
      Except.ok metaCallTokeniser.tokens := by
  decide!

/-- The example in the source, `enum struct EnumWithMetadata`, run through the program:
the variants are `Rect`, `Square` and `Count`, with 2, 1 and 0 metadata entries, whose
key types, key names and value texts are those written. -/
theorem source_metadata_example :
    (inspectFile 80 sourceMetadataBuffer InspectMode.All).map
        (fun r => describeEnums sourceMetadataBuffer r.1) =
      Except.ok [[
        ("Rect".toList,
          [{ type := "char const *".toList, name := some "FilePath".toList
             default_value := some "\"Rect.vert\"".toList },
           { type := "V3".toList, name := some "Coords".toList
             default_value := some "V3(1, 2, 3)".toList }]),
        ("Square".toList,
          [{ type := "char *".toList, name := some "file_path".toList
             default_value := some "\"Rect.vert\"".toList }]),
        ("Count".toList, [])]] := by
  decide!

theorem wellFormed_respace {l : Lexeme} {follows follows2 : List Char} (sp : List Char)
    (h : l.wellFormed follows = true) (hsp : ∀ x ∈ sp, CharIsWhitespace x = true)
    (hf : l.type = CPPTokenType.Identifier ∨ l.type = CPPTokenType.Number →
      ∃ d rest, follows2 = d :: rest ∧ identRest d = false ∧ numberRest d = false) :
    ({ l with space := sp } : Lexeme).wellFormed follows2 = true := by
  obtain ⟨-, hk⟩ := Lexeme.wellFormed_cases h
  unfold Lexeme.wellFormed
  simp only [Bool.and_eq_true, List.all_eq_true]
  refine ⟨hsp, ?_⟩
  rcases hk with ⟨c, hc, hd⟩ | ⟨hty, c, cs, hc, hs, hcs, -⟩ | ⟨hty, c, cs, hc, hs, hcs, -⟩
  · simp only [hc]
    simp [List.contains, List.elem_iff, hd]
  · obtain ⟨d, rest, hf2, hd, -⟩ := hf (Or.inl hty)
    simp only [hc, hf2]
    simp [hty, hs, hd]
    exact Or.inr (fun x hx => hcs x hx)
  · obtain ⟨d, rest, hf2, -, hd⟩ := hf (Or.inr hty)
    simp only [hc, hf2]
    simp [hty, hs, hd]
    exact Or.inr (fun x hx => hcs x hx)

/-- The text of a delimiter lexeme. -/
theorem delimiter_text {l : Lexeme} {follows : List Char} (h : l.wellFormed follows = true)
    (c : Char) (ty : CPPTokenType) (hty : l.type = ty) (htab : (c, ty) ∈ delimiterTable)
    (huniq : ∀ d, (d, ty) ∈ delimiterTable → d = c) : l.text = [c] := by
  obtain ⟨-, hk⟩ := Lexeme.wellFormed_cases h
  rcases hk with ⟨d, hd, hmem⟩ | ⟨hid, -⟩ | ⟨hnum, -⟩
  · rw [hd, huniq d (hty ▸ hmem)]
  · exfalso
    rw [hty] at hid
    subst hid
    rw [mem_delimiterTable_iff] at htab
    simp at htab
  · exfalso
    rw [hty] at hnum
    subst hnum
    rw [mem_delimiterTable_iff] at htab
    simp at htab

theorem comma_text {l : Lexeme} {follows : List Char} (h : l.wellFormed follows = true)
    (hty : l.type = CPPTokenType.Comma) : l.text = [','] :=
  delimiter_text h ',' _ hty (by decide) (by
    intro d hd
    rw [mem_delimiterTable_iff] at hd
    simpa using hd)

theorem closeParen_text {l : Lexeme} {follows : List Char} (h : l.wellFormed follows = true)
    (hty : l.type = CPPTokenType.CloseParen) : l.text = [')'] :=
  delimiter_text h ')' _ hty (by decide) (by
    intro d hd
    rw [mem_delimiterTable_iff] at hd
    simpa using hd)

theorem openParen_text {l : Lexeme} {follows : List Char} (h : l.wellFormed follows = true)
    (hty : l.type = CPPTokenType.OpenParen) : l.text = ['('] :=
  delimiter_text h '(' _ hty (by decide) (by
    intro d hd
    rw [mem_delimiterTable_iff] at hd
    simpa using hd)

theorem pointerParamLexemes_cons (p : PointerParam) (ps : List PointerParam) :
    pointerParamLexemes (p :: ps) = p.type :: (p.tail ++ pointerParamLexemes ps) := rfl

theorem pointerParamsOk_cons {p : PointerParam} {ps : List PointerParam}
    (h : pointerParamsOk (p :: ps) = true) :
    p.ok = true ∧
      ((ps = [] ∧ p.sep.type = CPPTokenType.CloseParen) ∨
       (ps ≠ [] ∧ p.sep.type = CPPTokenType.Comma ∧ pointerParamsOk ps = true)) := by
  cases ps with
  | nil =>
    simp only [pointerParamsOk, Bool.and_eq_true, beq_iff_eq] at h
    exact ⟨h.1, Or.inl ⟨rfl, h.2⟩⟩
  | cons q qs =>
    simp only [pointerParamsOk, Bool.and_eq_true, beq_iff_eq] at h
    exact ⟨h.1.1, Or.inr ⟨by simp, h.1.2, h.2⟩⟩

theorem pointerParamOk_facts {p : PointerParam} (h : p.ok = true) :
    p.type.type = CPPTokenType.Identifier ∧
    (∀ s ∈ p.stars, s.type = CPPTokenType.Asterisks) ∧
    p.name.type = CPPTokenType.Identifier ∧ p.name.text ≠ "const".toList := by
  unfold PointerParam.ok at h
  simp only [Bool.and_eq_true, beq_iff_eq, bne_iff_ne, ne_eq, List.all_eq_true] at h
  obtain ⟨⟨⟨h1, h2⟩, h3⟩, h4⟩ := h
  exact ⟨h1, h2, h3, h4⟩

theorem starTokens_type : ∀ (stars : List Lexeme) (ptr : Nat),
    (∀ l ∈ stars, l.type = CPPTokenType.Asterisks) →
    ∀ s ∈ lexemeTokens ptr stars, s.type = CPPTokenType.Asterisks := by
  intro stars
  induction stars with
  | nil => intro ptr _ s hs; simp [lexemeTokens] at hs
  | cons l ls ih =>
    intro ptr h s hs
    simp only [lexemeTokens, List.mem_cons] at hs
    rcases hs with rfl | hs
    · exact h l (List.mem_cons_self _ _)
    · exact ih _ (fun x hx => h x (List.mem_cons_of_mem _ hx)) s hs

theorem starTokens_last : ∀ (stars : List Lexeme) (ptr : Nat),
    (∀ l ∈ stars, l.text.length = 1) → stars ≠ [] →
    ∃ last, (lexemeTokens ptr stars).getLast? = some last ∧
      last.str + 1 = ptr + (renderLexemes stars).length := by
  intro stars
  induction stars with
  | nil => intro ptr _ h; exact absurd rfl h
  | cons l ls ih =>
    intro ptr h _
    have hl := h l (List.mem_cons_self _ _)
    cases ls with
    | nil =>
      refine ⟨{ type := l.type, str := ptr + l.space.length, len := l.text.length }, rfl, ?_⟩
      simp [renderLexemes, Lexeme.render, hl]
      omega
    | cons m ms =>
      obtain ⟨last, hlast, hstr⟩ := ih (ptr + l.space.length + l.text.length)
        (fun x hx => h x (List.mem_cons_of_mem _ hx)) (by simp)
      refine ⟨last, ?_, ?_⟩
      · rw [lexemeTokens]
        rw [lexemeTokens] at hlast ⊢
        rw [List.getLast?_cons_cons]
        exact hlast
      · rw [hstr]
        simp [renderLexemes, Lexeme.render]
        omega

theorem drop_add_of_append {mem : List Char} {s : Nat} {a b : List Char}
    (h : mem.drop s = a ++ b) : mem.drop (s + a.length) = b := by
  have := List.drop_drop a.length s mem
  rw [h, List.drop_left] at this
  rw [this, Nat.add_comm]

/-- The descriptor of the declaration recorded for a name with asterisks before it. -/
theorem describe_declaredAs {mem : List Char} {s : Nat} (ty name : Lexeme)
    (stars : List Lexeme) (rest : List Char) (vtype : CPPTokenType)
    (hm : mem.drop s = ty.text ++ (renderLexemes stars ++ (name.render ++ rest)))
    (hty : ∀ c ∈ ty.text, c ≠ NUL)
    (hstars : ∀ l ∈ stars, l.text.length = 1 ∧ (∀ c ∈ l.text, c ≠ NUL) ∧
      ∀ c ∈ l.space, c ≠ NUL)
    (hname : name.text ≠ [] ∧ ∀ c ∈ name.text, c ≠ NUL) :
    describeParam mem (declaredAs { type := vtype, str := s, len := ty.text.length }
        (lexemeTokens (s + ty.text.length) stars)
        { type := name.type
          str := s + ty.text.length + (renderLexemes stars).length + name.space.length
          len := name.text.length }) =
      { type := ty.text ++ renderLexemes stars, name := some name.text } := by
  have hnul : ∀ c ∈ ty.text ++ renderLexemes stars, c ≠ NUL := by
    intro c hc
    rcases List.mem_append.1 hc with h | h
    · exact hty c h
    · clear hm hc
      induction stars with
      | nil => simp [renderLexemes] at h
      | cons l ls ih =>
        simp only [renderLexemes, Lexeme.render, List.mem_append] at h
        obtain ⟨-, h1, h2⟩ := hstars l (List.mem_cons_self _ _)
        rcases h with (h | h) | h
        · exact h2 c h
        · exact h1 c h
        · exact ih (fun x hx => hstars x (List.mem_cons_of_mem _ hx)) h
  have hspT : Spells mem (declaredAs { type := vtype, str := s, len := ty.text.length }
        (lexemeTokens (s + ty.text.length) stars)
        { type := name.type
          str := s + ty.text.length + (renderLexemes stars).length + name.space.length
          len := name.text.length }).value.type (ty.text ++ renderLexemes stars) := by
    refine ⟨?_, name.render ++ rest, by
      show List.drop s mem = _
      rw [hm]; simp [List.append_assoc]⟩
    by_cases hs : stars = []
    · subst hs
      simp [declaredAs, lexemeTokens, renderLexemes]
    · obtain ⟨last, hlast, hstr⟩ := starTokens_last stars (s + ty.text.length)
        (fun l hl => (hstars l hl).1) hs
      simp only [declaredAs, hlast, List.length_append]
      push_cast
      omega
  have hm2 : mem.drop (s + ty.text.length + (renderLexemes stars).length) =
      name.render ++ rest := by
    have := drop_add_of_append hm
    exact drop_add_of_append this
  have hspN : Spells mem
      { str := s + ty.text.length + (renderLexemes stars).length + name.space.length
        len := (name.text.length : Int) } name.text :=
    spells_at (drop_at_lexeme hm2)
  have hlen : (0 : Int) < name.text.length := by
    have : 0 < name.text.length := List.length_pos.2 hname.1
    omega
  unfold describeParam
  rw [fmtLit_of_spells hspT hnul]
  simp only [declaredAs]
  rw [fmtLit_of_spells hspN hname.2]
  simp [hlen]

theorem asterisk_text {l : Lexeme} {follows : List Char} (h : l.wellFormed follows = true)
    (hty : l.type = CPPTokenType.Asterisks) : l.text = ['*'] :=
  delimiter_text h '*' _ hty (by decide) (by
    intro d hd
    rw [mem_delimiterTable_iff] at hd
    simpa using hd)

theorem pointerParam_tokens (p : PointerParam) (rest : List Lexeme) (ptr : Nat) :
    lexemeTokens ptr (p.tail ++ rest) =
      lexemeTokens ptr p.stars ++
        { type := p.name.type, str := ptr + (renderLexemes p.stars).length + p.name.space.length
          len := p.name.text.length } ::
        { type := p.sep.type
          str := ptr + (renderLexemes p.stars).length + p.name.space.length +
            p.name.text.length + p.sep.space.length
          len := p.sep.text.length } ::
        lexemeTokens (ptr + (renderLexemes p.stars).length + p.name.space.length +
          p.name.text.length + p.sep.space.length + p.sep.text.length) rest := by
  unfold PointerParam.tail
  rw [List.append_assoc, lexemeTokens_append]
  simp [lexemeTokens]

/-- One turn of the loop of `ParseCPPTypeAndVariableDecl` on a parameter `T *...* name`
of a prototype, its type consumed: the declaration is recorded and the turn ends at the
comma or parenthesis after the name. -/
theorem declLoop_pointerParam (mem : List Char) (p : PointerParam) (rest : List Lexeme)
    (tail : List Char) (s : Nat) (tk : CPPTokeniser) (pre post : List CPPToken)
    (token : CPPToken) (f : Nat) (result : List (CPPDeclLinkedList CPPVariableDecl))
    (hok : p.ok = true)
    (hsep : p.sep.type = CPPTokenType.Comma ∨ p.sep.type = CPPTokenType.CloseParen)
    (ht : tk.tokens = pre ++ lexemeTokens (s + p.type.text.length) (p.tail ++ rest) ++ post)
    (hi : tk.tokens_index = pre.length) (h0 : 0 ≤ tk.indent_level)
    (hm : mem.drop s = p.type.text ++ (renderLexemes (p.tail ++ rest) ++ tail))
    (hwf : wellFormedLexemes (p.type :: (p.tail ++ rest)) tail = true)
    (hfuel : p.stars.length + 2 ≤ f) :
    ∃ d, describeParam mem d = p.descriptor ∧
      declLoop mem true (f + 1) tk
          { type := p.type.type, str := s, len := p.type.text.length } token result =
        declTail mem true f { tk with tokens_index := tk.tokens_index + p.stars.length + 1 }
          { type := p.type.type, str := s, len := p.type.text.length }
          { type := p.sep.type
            str := s + p.type.text.length + (renderLexemes p.stars).length +
              p.name.space.length + p.name.text.length + p.sep.space.length
            len := p.sep.text.length }
          (result ++ [d]) := by
  obtain ⟨hty, hstars, hname, hconst⟩ := pointerParamOk_facts hok
  have hall := wellFormed_of_mem _ _ hwf
  obtain ⟨ft, hwt⟩ := hall p.type (List.mem_cons_self _ _)
  obtain ⟨fn, hwn⟩ := hall p.name (by simp [PointerParam.tail])
  have hst : ∀ l ∈ p.stars, l.text.length = 1 ∧ (∀ c ∈ l.text, c ≠ NUL) ∧
      ∀ c ∈ l.space, c ≠ NUL := by
    intro l hl
    obtain ⟨fl, hwl⟩ := hall l (by simp [PointerParam.tail, hl])
    have htext := asterisk_text hwl (hstars l hl)
    obtain ⟨-, h2, h3⟩ := wellFormed_text hwl
    exact ⟨by rw [htext]; rfl, h2, h3⟩
  have hm1 : mem.drop s = p.type.text ++ (renderLexemes p.stars ++
      (p.name.render ++ (renderLexemes (p.sep :: rest) ++ tail))) := by
    rw [hm]
    simp [PointerParam.tail, renderLexemes_append, renderLexemes, List.append_assoc]
  have hdesc := describe_declaredAs p.type p.name p.stars _ p.type.type hm1
    (wellFormed_text hwt).2.1 hst ⟨(wellFormed_text hwn).1, (wellFormed_text hwn).2.1⟩
  have hm2 : mem.drop (s + p.type.text.length + (renderLexemes p.stars).length) =
      p.name.render ++ (renderLexemes (p.sep :: rest) ++ tail) :=
    drop_add_of_append (drop_add_of_append hm1)
  have hlay := pointerParam_tokens p rest (s + p.type.text.length)
  rw [hlay, List.append_assoc] at ht
  have hitem := declLoop_item mem true tk pre
    (lexemeTokens (s + p.type.text.length + (renderLexemes p.stars).length +
      p.name.space.length + p.name.text.length + p.sep.space.length + p.sep.text.length) rest
      ++ post)
    (lexemeTokens (s + p.type.text.length) p.stars)
    { type := p.type.type, str := s, len := p.type.text.length } token
    { type := p.name.type
      str := s + p.type.text.length + (renderLexemes p.stars).length + p.name.space.length
      len := p.name.text.length }
    { type := p.sep.type
      str := s + p.type.text.length + (renderLexemes p.stars).length + p.name.space.length +
        p.name.text.length + p.sep.space.length
      len := p.sep.text.length } f result
    (by rw [ht]; simp) hi h0 hty (starTokens_type _ _ hstars)
    ⟨hname, by
      rw [isIdentifierToken_at (drop_at_lexeme hm2), Bool.and_eq_false_iff]
      exact Or.inr (beq_eq_false_iff_ne.mpr hconst)⟩
    (by
      refine ⟨?_, ?_, not_identifier_token_of_type ?_⟩ <;>
        rcases hsep with h | h <;> simp only [h] <;> decide)
    (by rw [lexemeTokens_length]; exact hfuel)
  rw [lexemeTokens_length] at hitem
  exact ⟨_, hdesc, hitem⟩

theorem pointerTail_length (p : PointerParam) (rest : List Lexeme) :
    (p.tail ++ rest).length = p.stars.length + 2 + rest.length := by
  simp [PointerParam.tail]; omega

/-- The loop of `ParseCPPTypeAndVariableDecl` on the parameters of a prototype, the type
of the first one consumed: one declaration for each parameter, in order, and the cursor
is left on the closing parenthesis. -/
theorem declLoop_pointerParams (mem : List Char) :
    ∀ (ps : List PointerParam) (p : PointerParam) (tail : List Char) (s : Nat)
      (tk : CPPTokeniser) (pre post : List CPPToken) (token : CPPToken)
      (result : List (CPPDeclLinkedList CPPVariableDecl)) (f : Nat),
      pointerParamsOk (p :: ps) = true →
      tk.tokens = pre ++
        lexemeTokens (s + p.type.text.length) (p.tail ++ pointerParamLexemes ps) ++ post →
      tk.tokens_index = pre.length → 0 ≤ tk.indent_level →
      mem.drop s = p.type.text ++ (renderLexemes (p.tail ++ pointerParamLexemes ps) ++ tail) →
      wellFormedLexemes (pointerParamLexemes (p :: ps)) tail = true →
      (p.tail ++ pointerParamLexemes ps).length ≤ f →
      ∃ decls : List (CPPDeclLinkedList CPPVariableDecl),
        decls.map (describeParam mem) = (p :: ps).map PointerParam.descriptor ∧
        declLoop mem true (f + 1) tk
            { type := p.type.type, str := s, len := p.type.text.length } token result =
          Except.ok (result ++ decls, { tk with tokens_index :=
            pre.length + ((p.tail ++ pointerParamLexemes ps).length - 1) }) := by
  intro ps
  induction ps with
  | nil =>
    intro p tail s tk pre post token result f hok ht hi h0 hm hwf hfuel
    obtain ⟨hp, hcase⟩ := pointerParamsOk_cons hok
    have hsep : p.sep.type = CPPTokenType.CloseParen := by
      rcases hcase with ⟨-, h⟩ | ⟨h, -⟩
      · exact h
      · exact absurd rfl h
    rw [pointerTail_length] at hfuel ⊢
    obtain ⟨d, hd, hstep⟩ := declLoop_pointerParam mem p (pointerParamLexemes []) tail s tk pre
      post token f result hp (Or.inr hsep) ht hi h0 hm hwf (by omega)
    refine ⟨[d], by simp [hd], ?_⟩
    rw [hstep]
    obtain ⟨g, rfl⟩ : ∃ g, f = g + 1 := ⟨f - 1, by omega⟩
    rw [declTail_close mem _ _ _ true g _ hsep, hi]
    simp [pointerParamLexemes]
    omega
  | cons q qs ih =>
    intro p tail s tk pre post token result f hok ht hi h0 hm hwf hfuel
    obtain ⟨hp, hcase⟩ := pointerParamsOk_cons hok
    obtain ⟨hsep, hrest⟩ : p.sep.type = CPPTokenType.Comma ∧
        pointerParamsOk (q :: qs) = true := by
      rcases hcase with ⟨h, -⟩ | ⟨-, h1, h2⟩
      · cases h
      · exact ⟨h1, h2⟩
    obtain ⟨hq, -⟩ := pointerParamsOk_cons hrest
    obtain ⟨hqty, -, -, -⟩ := pointerParamOk_facts hq
    have hlenq : (pointerParamLexemes (q :: qs)).length =
        1 + (q.tail ++ pointerParamLexemes qs).length := by
      rw [pointerParamLexemes_cons]; simp; omega
    rw [pointerTail_length, hlenq] at hfuel ⊢
    obtain ⟨d, hd, hstep⟩ := declLoop_pointerParam mem p (pointerParamLexemes (q :: qs)) tail
      s tk pre post token f result hp (Or.inl hsep) ht hi h0 hm hwf (by omega)
    rw [hstep]
    have hlay := pointerParam_tokens p (pointerParamLexemes (q :: qs)) (s + p.type.text.length)
    rw [hlay, List.append_assoc] at ht
    obtain ⟨g, rfl⟩ : ∃ g, f = g + 2 := ⟨f - 2, by omega⟩
    have hwf2 : wellFormedLexemes (pointerParamLexemes (q :: qs)) tail = true := by
      rw [pointerParamLexemes_cons, ← List.cons_append] at hwf
      exact (wellFormedLexemes_append hwf).2
    have hm3 : mem.drop (s + p.type.text.length + (renderLexemes p.stars).length +
        p.name.space.length + p.name.text.length + p.sep.space.length + p.sep.text.length) =
        q.type.render ++ (renderLexemes (q.tail ++ pointerParamLexemes qs) ++ tail) := by
      have hm1 : mem.drop s = p.type.text ++ (renderLexemes p.stars ++
          (p.name.render ++ (p.sep.render ++
            (q.type.render ++ (renderLexemes (q.tail ++ pointerParamLexemes qs) ++ tail))))) := by
        rw [hm, pointerParamLexemes_cons]
        simp [PointerParam.tail, renderLexemes_append, renderLexemes, List.append_assoc]
      have h2 := drop_after_lexeme (drop_add_of_append (drop_add_of_append hm1))
      exact drop_after_lexeme h2
    have e1 := declTail_comma mem
      { tk with tokens_index := tk.tokens_index + p.stars.length + 1 }
      (pre ++ lexemeTokens (s + p.type.text.length) p.stars ++
        [{ type := p.name.type
           str := s + p.type.text.length + (renderLexemes p.stars).length + p.name.space.length
           len := p.name.text.length }])
      (lexemeTokens (s + p.type.text.length + (renderLexemes p.stars).length +
          p.name.space.length + p.name.text.length + p.sep.space.length + p.sep.text.length +
          q.type.space.length + q.type.text.length) (q.tail ++ pointerParamLexemes qs) ++ post)
      { type := p.type.type, str := s, len := p.type.text.length }
      { type := p.sep.type
        str := s + p.type.text.length + (renderLexemes p.stars).length +
          p.name.space.length + p.name.text.length + p.sep.space.length
        len := p.sep.text.length }
      { type := q.type.type
        str := s + p.type.text.length + (renderLexemes p.stars).length +
          p.name.space.length + p.name.text.length + p.sep.space.length + p.sep.text.length +
          q.type.space.length
        len := q.type.text.length } (g + 1) (result ++ [d])
      (by
        show tk.tokens = _
        rw [ht, pointerParamLexemes_cons]
        simp [lexemeTokens])
      (by simp [hi, lexemeTokens_length]; omega) h0 hsep hqty
    rw [e1]
    obtain ⟨decls, hdecls, hgo⟩ := ih q tail
      (s + p.type.text.length + (renderLexemes p.stars).length +
          p.name.space.length + p.name.text.length + p.sep.space.length + p.sep.text.length +
          q.type.space.length)
      { tk with tokens_index := tk.tokens_index + p.stars.length + 1 + 2 }
      (pre ++ lexemeTokens (s + p.type.text.length) p.stars ++
        [{ type := p.name.type
           str := s + p.type.text.length + (renderLexemes p.stars).length + p.name.space.length
           len := p.name.text.length },
         { type := p.sep.type
           str := s + p.type.text.length + (renderLexemes p.stars).length +
             p.name.space.length + p.name.text.length + p.sep.space.length
           len := p.sep.text.length },
         { type := q.type.type
           str := s + p.type.text.length + (renderLexemes p.stars).length +
             p.name.space.length + p.name.text.length + p.sep.space.length + p.sep.text.length +
             q.type.space.length
           len := q.type.text.length }])
      post
      { type := q.type.type
        str := s + p.type.text.length + (renderLexemes p.stars).length +
          p.name.space.length + p.name.text.length + p.sep.space.length + p.sep.text.length +
          q.type.space.length
        len := q.type.text.length }
      (result ++ [d]) g hrest
      (by
        show tk.tokens = _
        rw [ht, pointerParamLexemes_cons]
        simp [lexemeTokens])
      (by simp [hi, lexemeTokens_length]; omega) h0 (drop_at_lexeme hm3) hwf2 (by omega)
    refine ⟨d :: decls, by simp [hd, hdecls], ?_⟩
    rw [hgo]
    simp only [List.append_assoc, List.singleton_append, Except.ok.injEq, Prod.mk.injEq,
      true_and, CPPTokeniser.mk.injEq, and_true, List.length_append, List.length_cons,
      List.length_nil, lexemeTokens_length]
    simp only [List.length_append] at hfuel
    have hq2 : q.tail.length = q.stars.length + 2 := by simp [PointerParam.tail]
    rw [hq2] at hfuel ⊢
    omega

theorem pointerParam_lexemes_no_paren {p : PointerParam} (hp : p.ok = true) :
    ∀ l ∈ p.type :: (p.stars ++ [p.name]),
      l.type ≠ CPPTokenType.OpenParen ∧ l.type ≠ CPPTokenType.CloseParen := by
  obtain ⟨hty, hstars, hname, -⟩ := pointerParamOk_facts hp
  intro l hl
  simp only [List.mem_cons, List.mem_append, List.mem_singleton, List.not_mem_nil,
    or_false] at hl
  rcases hl with rfl | hl | rfl
  · rw [hty]; decide
  · rw [hstars l hl]; decide
  · rw [hname]; decide

/-- The lexemes of the parameters end with the closing parenthesis, and there is no
parenthesis before it. -/
theorem pointerParams_front : ∀ (ps : List PointerParam) (p : PointerParam),
    pointerParamsOk (p :: ps) = true →
    ∃ (front : List Lexeme) (last : Lexeme),
      pointerParamLexemes (p :: ps) = front ++ [last] ∧
      last.type = CPPTokenType.CloseParen ∧
      ∀ l ∈ front, l.type ≠ CPPTokenType.OpenParen ∧ l.type ≠ CPPTokenType.CloseParen := by
  intro ps
  induction ps with
  | nil =>
    intro p hok
    obtain ⟨hp, hcase⟩ := pointerParamsOk_cons hok
    have hsep : p.sep.type = CPPTokenType.CloseParen := by
      rcases hcase with ⟨-, h⟩ | ⟨h, -⟩
      · exact h
      · exact absurd rfl h
    exact ⟨p.type :: (p.stars ++ [p.name]), p.sep,
      by simp [pointerParamLexemes, PointerParam.lexemes, PointerParam.tail], hsep,
      pointerParam_lexemes_no_paren hp⟩
  | cons q qs ih =>
    intro p hok
    obtain ⟨hp, hcase⟩ := pointerParamsOk_cons hok
    obtain ⟨hsep, hrest⟩ : p.sep.type = CPPTokenType.Comma ∧
        pointerParamsOk (q :: qs) = true := by
      rcases hcase with ⟨h, -⟩ | ⟨-, h1, h2⟩
      · cases h
      · exact ⟨h1, h2⟩
    obtain ⟨front, last, hfront, hlast, hno⟩ := ih q hrest
    refine ⟨p.lexemes ++ front, last, ?_, hlast, ?_⟩
    · rw [pointerParamLexemes, hfront, List.append_assoc]
    · intro l hl
      rcases List.mem_append.1 hl with h | h
      · have h2 : l ∈ p.type :: (p.stars ++ [p.name]) ∨ l = p.sep := by
          simp only [PointerParam.lexemes, PointerParam.tail, List.mem_cons, List.mem_append,
            List.mem_singleton, List.not_mem_nil, or_false] at h ⊢
          tauto
        rcases h2 with h2 | rfl
        · exact pointerParam_lexemes_no_paren hp l h2
        · rw [hsep]; decide
      · exact hno l h

/-- `ParseCPPTypeAndVariableDecl` (parse_function_param true) on the parameters of a
prototype, from the type of the first one: one declaration for each parameter, in order,
and the cursor is left on the closing parenthesis. -/
theorem parseDecl_pointerParams (mem : List Char) (p : PointerParam) (ps : List PointerParam)
    (tail : List Char) (ptr : Nat) (tokeniser : CPPTokeniser) (pre post : List CPPToken)
    (fuel : Nat)
    (hok : pointerParamsOk (p :: ps) = true)
    (ht : tokeniser.tokens = pre ++ lexemeTokens ptr (pointerParamLexemes (p :: ps)) ++ post)
    (hi : tokeniser.tokens_index = pre.length) (h0 : 0 ≤ tokeniser.indent_level)
    (hm : mem.drop ptr = renderLexemes (pointerParamLexemes (p :: ps)) ++ tail)
    (hwf : wellFormedLexemes (pointerParamLexemes (p :: ps)) tail = true)
    (hfuel : (pointerParamLexemes (p :: ps)).length + 1 ≤ fuel) :
    ∃ decls : List (CPPDeclLinkedList CPPVariableDecl),
      decls.map (describeParam mem) = (p :: ps).map PointerParam.descriptor ∧
      ParseCPPTypeAndVariableDecl mem fuel tokeniser true =
        Except.ok (decls, { tokeniser with
          tokens_index := pre.length + ((pointerParamLexemes (p :: ps)).length - 1) }) := by
  obtain ⟨hp, -⟩ := pointerParamsOk_cons hok
  obtain ⟨hpty, hpstars, hpname, hpconst⟩ := pointerParamOk_facts hp
  have hm1 : mem.drop ptr =
      p.type.render ++ (renderLexemes (p.tail ++ pointerParamLexemes ps) ++ tail) := by
    rw [hm, pointerParamLexemes_cons]; simp [renderLexemes, List.append_assoc]
  have hty_at := drop_at_lexeme hm1
  have ht1 : tokeniser.tokens = pre ++
      { type := p.type.type, str := ptr + p.type.space.length, len := p.type.text.length } ::
      (lexemeTokens (ptr + p.type.space.length + p.type.text.length)
        (p.tail ++ pointerParamLexemes ps) ++ post) := by
    rw [ht, pointerParamLexemes_cons]; simp [lexemeTokens]
  have e1 := next_plain_at tokeniser pre _ _ ht1 hi h0 (identifier_plain hpty)
  have hlay := pointerParam_tokens p (pointerParamLexemes ps)
    (ptr + p.type.space.length + p.type.text.length)
  obtain ⟨h, tl, hhead, -, hconst⟩ := head_of_stars mem
    (lexemeTokens (ptr + p.type.space.length + p.type.text.length) p.stars)
    { type := p.name.type
      str := ptr + p.type.space.length + p.type.text.length + (renderLexemes p.stars).length +
        p.name.space.length
      len := p.name.text.length }
    ({ type := p.sep.type
       str := ptr + p.type.space.length + p.type.text.length + (renderLexemes p.stars).length +
         p.name.space.length + p.name.text.length + p.sep.space.length
       len := p.sep.text.length } ::
      lexemeTokens (ptr + p.type.space.length + p.type.text.length +
        (renderLexemes p.stars).length + p.name.space.length + p.name.text.length +
        p.sep.space.length + p.sep.text.length) (pointerParamLexemes ps) ++ post)
    (starTokens_type _ _ hpstars) hpname
  have hmn : mem.drop (ptr + p.type.space.length + p.type.text.length +
      (renderLexemes p.stars).length) =
      p.name.render ++ (renderLexemes (p.sep :: pointerParamLexemes ps) ++ tail) := by
    have hm2 : mem.drop (ptr + p.type.space.length) = p.type.text ++ (renderLexemes p.stars ++
        (p.name.render ++ (renderLexemes (p.sep :: pointerParamLexemes ps) ++ tail))) := by
      rw [hty_at]
      simp [PointerParam.tail, renderLexemes_append, renderLexemes, List.append_assoc]
    exact drop_add_of_append (drop_add_of_append hm2)
  have hnconst : IsIdentifierToken mem
      { type := p.name.type
        str := ptr + p.type.space.length + p.type.text.length +
          (renderLexemes p.stars).length + p.name.space.length
        len := p.name.text.length } "const" = false := by
    rw [isIdentifierToken_at (drop_at_lexeme hmn), Bool.and_eq_false_iff]
    exact Or.inr (beq_eq_false_iff_ne.mpr hpconst)
  have hg : ({ tokeniser with tokens_index := tokeniser.tokens_index + 1 } :
        CPPTokeniser).tokens.getD
      ({ tokeniser with tokens_index := tokeniser.tokens_index + 1 } :
          CPPTokeniser).tokens_index default = h :=
    @getD_cursor { tokeniser with tokens_index := tokeniser.tokens_index + 1 }
      (pre ++ [{ type := p.type.type, str := ptr + p.type.space.length
                 len := p.type.text.length }]) h tl
      (by
        show tokeniser.tokens = _
        rw [ht1, hlay, ← hhead]
        simp)
      (by simp [hi])
  obtain ⟨f, rfl⟩ : ∃ f, fuel = f + 2 := ⟨fuel - 2, by
    rw [pointerParamLexemes_cons, List.length_cons, pointerTail_length] at hfuel; omega⟩
  have e2 := consumeConst_none mem f hg (hconst hnconst) false {}
  obtain ⟨decls, hall, hgo⟩ := declLoop_pointerParams mem ps p tail
    (ptr + p.type.space.length)
    { tokeniser with tokens_index := tokeniser.tokens_index + 1 }
    (pre ++ [{ type := p.type.type, str := ptr + p.type.space.length
               len := p.type.text.length }]) post
    { type := p.type.type, str := ptr + p.type.space.length, len := p.type.text.length }
    [] f hok
    (by
      show tokeniser.tokens = _
      rw [ht1]; simp)
    (by simp [hi]) h0 hty_at hwf
    (by rw [pointerParamLexemes_cons, List.length_cons] at hfuel; omega)
  refine ⟨decls, hall, ?_⟩
  simp only [hpty] at hgo
  rw [ParseCPPTypeAndVariableDecl]
  simp only [e1, bind, Except.bind, pure, Except.pure, hpty, ne_eq, not_true_eq_false,
    false_and, if_false, e2, hgo, List.nil_append, Except.ok.injEq, Prod.mk.injEq, true_and,
    CPPTokeniser.mk.injEq, and_true, List.length_cons, List.length_append,
    pointerParamLexemes_cons, List.length_singleton, List.length_nil]
  have := pointerTail_length p (pointerParamLexemes ps)
  simp only [List.length_append] at this
  omega

theorem canonicalPointerParams_words : ∀ (ps : List PointerParam) (lead : List Char),
    lexemeWords (canonicalPointerParams lead ps) = lexemeWords (pointerParamLexemes ps) := by
  intro ps
  induction ps with
  | nil => intro lead; rfl
  | cons p ps ih =>
    intro lead
    have := ih [' ']
    simp only [lexemeWords] at this ⊢
    simp [canonicalPointerParams, pointerParamLexemes, PointerParam.lexemes,
      PointerParam.tail, this]

theorem whitespace_not_rest {c : Char} (h : CharIsWhitespace c = true) :
    identRest c = false ∧ numberRest c = false := by
  simp only [CharIsWhitespace, Bool.or_eq_true, beq_iff_eq] at h
  rcases h with ((rfl | rfl) | rfl) | rfl <;> exact ⟨by decide, by decide⟩

/-- A delimiter is written the same way before any text. -/
theorem wellFormed_delimiter {l : Lexeme} {follows : List Char} (follows2 : List Char)
    (h : l.wellFormed follows = true)
    (hty : l.type ≠ CPPTokenType.Identifier ∧ l.type ≠ CPPTokenType.Number) :
    l.wellFormed follows2 = true :=
  wellFormed_respace l.space h (Lexeme.wellFormed_cases h).1
    (fun hk => by rcases hk with hk | hk <;> [exact absurd hk hty.1; exact absurd hk hty.2])

/-- The text of a run of asterisks and then a character that is no part of a word starts
with a character that is no part of a word. -/
theorem stars_then_break : ∀ (stars : List Lexeme) (c : Char) (rest : List Char),
    (∀ l ∈ stars, ∃ f, l.wellFormed f = true ∧ l.type = CPPTokenType.Asterisks) →
    identRest c = false ∧ numberRest c = false →
    ∃ d rest2, renderLexemes stars ++ c :: rest = d :: rest2 ∧
      identRest d = false ∧ numberRest d = false := by
  intro stars c rest hs hc
  cases stars with
  | nil => exact ⟨c, rest, by simp [renderLexemes], hc⟩
  | cons l ls =>
    obtain ⟨f, hwf, hty⟩ := hs l (List.mem_cons_self _ _)
    have htext := asterisk_text hwf hty
    obtain ⟨hsp, -⟩ := Lexeme.wellFormed_cases hwf
    cases hspace : l.space with
    | nil =>
      exact ⟨'*', renderLexemes ls ++ c :: rest,
        by simp [renderLexemes, Lexeme.render, hspace, htext], by decide, by decide⟩
    | cons x xs =>
      have hx := whitespace_not_rest (hsp x (by rw [hspace]; exact List.mem_cons_self _ _))
      exact ⟨x, xs ++ l.text ++ renderLexemes ls ++ c :: rest,
        by simp [renderLexemes, Lexeme.render, hspace, List.append_assoc], hx⟩

theorem wellFormed_stars_append : ∀ (stars rest : List Lexeme) (follows : List Char),
    (∀ l ∈ stars, ∃ f, l.wellFormed f = true ∧ l.type = CPPTokenType.Asterisks) →
    wellFormedLexemes rest follows = true →
    wellFormedLexemes (stars ++ rest) follows = true := by
  intro stars
  induction stars with
  | nil => intro rest follows _ h; exact h
  | cons l ls ih =>
    intro rest follows hs h
    obtain ⟨f, hwf, hty⟩ := hs l (List.mem_cons_self _ _)
    simp only [List.cons_append, wellFormedLexemes, Bool.and_eq_true]
    exact ⟨wellFormed_delimiter _ hwf (by rw [hty]; exact ⟨by decide, by decide⟩),
      ih rest follows (fun x hx => hs x (List.mem_cons_of_mem _ hx)) h⟩

theorem renderParam_descriptor (p : PointerParam) :
    renderParam p.descriptor = p.type.text ++ renderLexemes p.stars ++ ' ' :: p.name.text := by
  simp [renderParam, PointerParam.descriptor]

/-- What the generator writes for the parameters, after `lead` and before `)`, is the text
of their lexemes in the spacing of the generator. -/
theorem canonicalPointerParams_render :
    ∀ (ps : List PointerParam) (p : PointerParam) (lead tail : List Char),
      pointerParamsOk (p :: ps) = true →
      wellFormedLexemes (pointerParamLexemes (p :: ps)) tail = true →
      lead ++ renderParams ((p :: ps).map PointerParam.descriptor) ++ [')'] =
        renderLexemes (canonicalPointerParams lead (p :: ps)) := by
  intro ps
  induction ps with
  | nil =>
    intro p lead tail hok hwf
    obtain ⟨-, hcase⟩ := pointerParamsOk_cons hok
    have hsep : p.sep.type = CPPTokenType.CloseParen := by
      rcases hcase with ⟨-, h⟩ | ⟨h, -⟩
      · exact h
      · exact absurd rfl h
    obtain ⟨f, hwsep⟩ := wellFormed_of_mem _ _ hwf p.sep
      (by simp [pointerParamLexemes, PointerParam.lexemes, PointerParam.tail])
    simp [renderParams, renderParam_descriptor, canonicalPointerParams, renderLexemes,
      renderLexemes_append, Lexeme.render, closeParen_text hwsep hsep, List.append_assoc]
  | cons q qs ih =>
    intro p lead tail hok hwf
    obtain ⟨-, hcase⟩ := pointerParamsOk_cons hok
    obtain ⟨hsep, hrest⟩ : p.sep.type = CPPTokenType.Comma ∧
        pointerParamsOk (q :: qs) = true := by
      rcases hcase with ⟨h, -⟩ | ⟨-, h1, h2⟩
      · cases h
      · exact ⟨h1, h2⟩
    obtain ⟨f, hwsep⟩ := wellFormed_of_mem _ _ hwf p.sep
      (by simp [pointerParamLexemes, PointerParam.lexemes, PointerParam.tail])
    have hwf2 : wellFormedLexemes (pointerParamLexemes (q :: qs)) tail = true := by
      rw [pointerParamLexemes_cons, ← List.cons_append] at hwf
      exact (wellFormedLexemes_append hwf).2
    have hih := ih q [' '] tail hrest hwf2
    rw [canonicalPointerParams, renderLexemes, renderLexemes_append, renderLexemes,
      renderLexemes, ← hih]
    simp [renderParams, renderParam_descriptor, Lexeme.render, comma_text hwsep hsep,
      List.append_assoc]

/-- The lexemes in the spacing of the generator are written as tokens are written. -/
theorem canonicalPointerParams_wellFormed :
    ∀ (ps : List PointerParam) (p : PointerParam) (lead tail follows : List Char),
      pointerParamsOk (p :: ps) = true →
      wellFormedLexemes (pointerParamLexemes (p :: ps)) tail = true →
      (∀ x ∈ lead, CharIsWhitespace x = true) →
      wellFormedLexemes (canonicalPointerParams lead (p :: ps)) follows = true := by
  intro ps
  induction ps with
  | nil =>
    intro p lead tail follows hok hwf hlead
    obtain ⟨hp, hcase⟩ := pointerParamsOk_cons hok
    obtain ⟨hty, hstars, hname, -⟩ := pointerParamOk_facts hp
    have hsep : p.sep.type = CPPTokenType.CloseParen := by
      rcases hcase with ⟨-, h⟩ | ⟨h, -⟩
      · exact h
      · exact absurd rfl h
    have hall := wellFormed_of_mem _ _ hwf
    obtain ⟨ft, hwt⟩ := hall p.type
      (by simp [pointerParamLexemes, PointerParam.lexemes, PointerParam.tail])
    obtain ⟨fn, hwn⟩ := hall p.name
      (by simp [pointerParamLexemes, PointerParam.lexemes, PointerParam.tail])
    obtain ⟨fs, hws⟩ := hall p.sep
      (by simp [pointerParamLexemes, PointerParam.lexemes, PointerParam.tail])
    have hst : ∀ l ∈ p.stars, ∃ f, l.wellFormed f = true ∧ l.type = CPPTokenType.Asterisks := by
      intro l hl
      obtain ⟨f, hf⟩ := hall l
        (by simp [pointerParamLexemes, PointerParam.lexemes, PointerParam.tail, hl])
      exact ⟨f, hf, hstars l hl⟩
    rw [canonicalPointerParams]
    simp only [wellFormedLexemes, Bool.and_eq_true]
    refine ⟨?_, wellFormed_stars_append _ _ _ hst ?_⟩
    · apply wellFormed_respace lead hwt hlead
      intro _
      obtain ⟨d, rest2, he, hd⟩ := stars_then_break p.stars ' '
        (p.name.text ++ (p.sep.text ++ follows)) hst ⟨by decide, by decide⟩
      refine ⟨d, rest2, ?_, hd⟩
      rw [← he]
      simp [renderLexemes, renderLexemes_append, Lexeme.render, canonicalPointerParams,
        List.append_assoc]
    · simp only [canonicalPointerParams, wellFormedLexemes, Bool.and_eq_true, and_true]
      refine ⟨?_, ?_⟩
      · apply wellFormed_respace [' '] hwn (by decide)
        intro _
        refine ⟨')', follows, ?_, by decide, by decide⟩
        simp [renderLexemes, Lexeme.render, closeParen_text hws hsep]
      · apply wellFormed_respace [] hws (by simp)
        intro h
        rw [hsep] at h
        rcases h with h | h <;> cases h
  | cons q qs ih =>
    intro p lead tail follows hok hwf hlead
    obtain ⟨hp, hcase⟩ := pointerParamsOk_cons hok
    obtain ⟨hty, hstars, hname, -⟩ := pointerParamOk_facts hp
    obtain ⟨hsep, hrest⟩ : p.sep.type = CPPTokenType.Comma ∧
        pointerParamsOk (q :: qs) = true := by
      rcases hcase with ⟨h, -⟩ | ⟨-, h1, h2⟩
      · cases h
      · exact ⟨h1, h2⟩
    have hall := wellFormed_of_mem _ _ hwf
    obtain ⟨ft, hwt⟩ := hall p.type
      (by simp [pointerParamLexemes, PointerParam.lexemes, PointerParam.tail])
    obtain ⟨fn, hwn⟩ := hall p.name
      (by simp [pointerParamLexemes, PointerParam.lexemes, PointerParam.tail])
    obtain ⟨fs, hws⟩ := hall p.sep
      (by simp [pointerParamLexemes, PointerParam.lexemes, PointerParam.tail])
    have hst : ∀ l ∈ p.stars, ∃ f, l.wellFormed f = true ∧ l.type = CPPTokenType.Asterisks := by
      intro l hl
      obtain ⟨f, hf⟩ := hall l
        (by simp [pointerParamLexemes, PointerParam.lexemes, PointerParam.tail, hl])
      exact ⟨f, hf, hstars l hl⟩
    have hwf2 : wellFormedLexemes (pointerParamLexemes (q :: qs)) tail = true := by
      rw [pointerParamLexemes_cons, ← List.cons_append] at hwf
      exact (wellFormedLexemes_append hwf).2
    have hih := ih q [' '] tail follows hrest hwf2 (by decide)
    rw [canonicalPointerParams]
    generalize canonicalPointerParams [' '] (q :: qs) = R at hih ⊢
    simp only [wellFormedLexemes, Bool.and_eq_true]
    refine ⟨?_, wellFormed_stars_append _ _ _ hst ?_⟩
    · apply wellFormed_respace lead hwt hlead
      intro _
      obtain ⟨d, rest2, he, hd⟩ := stars_then_break p.stars ' '
        (p.name.text ++ (p.sep.text ++ (renderLexemes R ++ follows))) hst
        ⟨by decide, by decide⟩
      refine ⟨d, rest2, ?_, hd⟩
      rw [← he]
      simp [renderLexemes, renderLexemes_append, Lexeme.render, List.append_assoc]
    · simp only [wellFormedLexemes, Bool.and_eq_true]
      refine ⟨?_, ?_, hih⟩
      · apply wellFormed_respace [' '] hwn (by decide)
        intro _
        refine ⟨',', renderLexemes R ++ follows, ?_, by decide, by decide⟩
        simp [renderLexemes, Lexeme.render, comma_text hws hsep]
      · apply wellFormed_respace [] hws (by simp)
        intro h
        rw [hsep] at h
        rcases h with h | h <;> cases h

/-- C26.  Round trip on parameters of one type word.  For the text of `(` and parameters
`T *...* name` (`T` one identifier, the name an identifier other than `const`) separated
by commas up to `)`, after lexemes `a` without parentheses: the lexer in function mode
makes the tokens of these lexemes; `ParseCPPTypeAndVariableDecl` from the first type gives
one declaration for each parameter and stops on `)`; and what the generator writes for
them, between `(` and `)`, is the text of lexemes that have the same kinds and texts as
the original ones, in the same order, and are written as tokens are written: the spaces
alone differ, one blank before a name and after a comma and none elsewhere, and those
before an asterisk stay as they are written. -/
theorem C26_parameters_of_one_type_word_round_trip (mem : List Char) (a ls : List Lexeme) (op : Lexeme)
    (p : PointerParam) (ps : List PointerParam) (tail : List Char) (fuel : Nat)
    (tokeniser out : CPPTokeniser) (ptr : Nat)
    (hls : ls = a ++ op :: pointerParamLexemes (p :: ps))
    (hop : op.type = CPPTokenType.OpenParen)
    (ha : ∀ l ∈ a, l.type ≠ CPPTokenType.OpenParen ∧ l.type ≠ CPPTokenType.CloseParen)
    (hok : pointerParamsOk (p :: ps) = true)
    (hwf : wellFormedLexemes ls tail = true)
    (hm : mem.drop ptr = renderLexemes ls ++ tail)
    (hroom : tokeniser.tokens.length + ls.length ≤ tokeniser.tokens_max)
    (h0 : 0 ≤ tokeniser.indent_level)
    (hfuel : ls.length + 1 ≤ fuel) :
    ∃ (next : Nat) (decls : List (CPPDeclLinkedList CPPVariableDecl)),
      lexPass mem true fuel tokeniser ptr {} =
        Except.ok ({ tokeniser with tokens := tokeniser.tokens ++ lexemeTokens ptr ls },
          next) ∧
      ParseCPPTypeAndVariableDecl mem fuel
          { tokeniser with tokens := tokeniser.tokens ++ lexemeTokens ptr ls
                           tokens_index := tokeniser.tokens.length + a.length + 1 } true =
        Except.ok (decls,
          { tokeniser with tokens := tokeniser.tokens ++ lexemeTokens ptr ls
                           tokens_index := tokeniser.tokens.length + ls.length - 1 }) ∧
      decls.map (describeParam mem) = (p :: ps).map PointerParam.descriptor ∧
      (writeFunctionParams mem decls out).output_file =
        out.output_file ++ renderParams ((p :: ps).map PointerParam.descriptor) ∧
      '(' :: renderParams ((p :: ps).map PointerParam.descriptor) ++ [')'] =
        renderLexemes ({ op with space := [] } :: canonicalPointerParams [] (p :: ps)) ∧
      lexemeWords ({ op with space := [] } :: canonicalPointerParams [] (p :: ps)) =
        lexemeWords (op :: pointerParamLexemes (p :: ps)) ∧
      ∀ follows, wellFormedLexemes
        ({ op with space := [] } :: canonicalPointerParams [] (p :: ps)) follows = true := by
  subst hls
  obtain ⟨front, last, hfront, hlast, hno⟩ := pointerParams_front ps p hok
  have hwfP : wellFormedLexemes (pointerParamLexemes (p :: ps)) tail = true := by
    have := @wellFormedLexemes_append (a ++ [op]) (pointerParamLexemes (p :: ps)) tail
      (by simpa using hwf)
    exact this.2
  have hwop : ∃ f, op.wellFormed f = true :=
    wellFormed_of_mem _ _ hwf op (by simp)
  obtain ⟨fop, hwop⟩ := hwop
  have hlex := lexPass_scope mem true a front op last tail fuel tokeniser ptr hop hlast ha
    (balanced_of_absent _ _ front hno) (by rw [← hfront]; exact hwf)
    (by rw [← hfront]; exact hm) (by rw [← hfront]; exact hroom)
    (by rw [← hfront]; omega)
  rw [← hfront] at hlex
  have hsplit : lexemeTokens ptr (a ++ op :: pointerParamLexemes (p :: ps)) =
      lexemeTokens ptr (a ++ [op]) ++
        lexemeTokens (ptr + (renderLexemes (a ++ [op])).length)
          (pointerParamLexemes (p :: ps)) := by
    rw [← lexemeTokens_append]; simp
  have hmP : mem.drop (ptr + (renderLexemes (a ++ [op])).length) =
      renderLexemes (pointerParamLexemes (p :: ps)) ++ tail := by
    apply drop_add_of_append
    rw [hm, show a ++ op :: pointerParamLexemes (p :: ps) =
      (a ++ [op]) ++ pointerParamLexemes (p :: ps) by simp, renderLexemes_append,
      List.append_assoc]
  have hlenP : 1 ≤ (pointerParamLexemes (p :: ps)).length := by
    rw [pointerParamLexemes_cons]; simp
  obtain ⟨decls, hdesc, hparse⟩ := parseDecl_pointerParams mem p ps tail
    (ptr + (renderLexemes (a ++ [op])).length)
    { tokeniser with tokens := tokeniser.tokens ++
                       lexemeTokens ptr (a ++ op :: pointerParamLexemes (p :: ps))
                     tokens_index := tokeniser.tokens.length + a.length + 1 }
    (tokeniser.tokens ++ lexemeTokens ptr (a ++ [op])) [] fuel hok
    (by
      show tokeniser.tokens ++ _ = _
      rw [hsplit]; simp)
    (by simp [lexemeTokens_length]; omega) h0 hmP hwfP
    (by simp only [List.length_append, List.length_cons] at hfuel; omega)
  refine ⟨_, decls, hlex.1, ?_, hdesc, ?_, ?_, ?_, ?_⟩
  · rw [hparse]
    simp only [List.length_append, lexemeTokens_length, List.length_singleton,
      List.length_cons, Except.ok.injEq, Prod.mk.injEq, true_and, CPPTokeniser.mk.injEq,
      and_true, List.length_nil]
    omega
  · rw [writeFunctionParams_eq, hdesc]
    rfl
  · have := canonicalPointerParams_render ps p [] tail hok hwfP
    rw [renderLexemes, ← this]
    simp [Lexeme.render, openParen_text hwop hop]
  · have := canonicalPointerParams_words (p :: ps) []
    simp only [lexemeWords, List.map_cons] at this ⊢
    rw [this]
  · intro follows
    rw [wellFormedLexemes, Bool.and_eq_true]
    refine ⟨?_, canonicalPointerParams_wellFormed ps p [] tail follows hok hwfP (by simp)⟩
    apply wellFormed_respace [] hwop (by simp)
    intro h
    rw [hop] at h
    rcases h with h | h <;> cases h

/-- C26, at `void f(int a, char  *  b);`: the lexer makes 10 tokens, the parser two
declarations, and the generator writes `int a, char  * b`. -/
theorem C26_witness :
    ∃ (next : Nat) (decls : List (CPPDeclLinkedList CPPVariableDecl)),
      lexPass roundTripBuffer true 11 { tokens_max := 16 } 0 {} =
        Except.ok ({ tokens := [] ++ lexemeTokens 0 roundTripLexemes, tokens_max := 16 },
          next) ∧
      ParseCPPTypeAndVariableDecl roundTripBuffer 11
          { tokens := [] ++ lexemeTokens 0 roundTripLexemes, tokens_max := 16
            tokens_index := 0 + 2 + 1 } true =
        Except.ok (decls,
          { tokens := [] ++ lexemeTokens 0 roundTripLexemes, tokens_max := 16
            tokens_index := 0 + roundTripLexemes.length - 1 }) ∧
      decls.map (describeParam roundTripBuffer) =
        [roundTripFirst, roundTripSecond].map PointerParam.descriptor ∧
      (writeFunctionParams roundTripBuffer decls {}).output_file =
        [] ++ renderParams ([roundTripFirst, roundTripSecond].map PointerParam.descriptor) ∧
      '(' :: renderParams ([roundTripFirst, roundTripSecond].map PointerParam.descriptor) ++
          [')'] =
        renderLexemes ({ text := "(".toList, type := CPPTokenType.OpenParen } ::
          canonicalPointerParams [] [roundTripFirst, roundTripSecond]) ∧
      lexemeWords ({ text := "(".toList, type := CPPTokenType.OpenParen } ::
          canonicalPointerParams [] [roundTripFirst, roundTripSecond]) =
        lexemeWords ({ text := "(".toList, type := CPPTokenType.OpenParen } ::
          pointerParamLexemes [roundTripFirst, roundTripSecond]) ∧
      ∀ follows, wellFormedLexemes
        ({ text := "(".toList, type := CPPTokenType.OpenParen } ::
          canonicalPointerParams [] [roundTripFirst, roundTripSecond]) follows = true :=
  C26_parameters_of_one_type_word_round_trip roundTripBuffer
    [{ text := "void".toList, type := CPPTokenType.Identifier },
     { space := [' '], text := "f".toList, type := CPPTokenType.Identifier }]
    roundTripLexemes { text := "(".toList, type := CPPTokenType.OpenParen }
    roundTripFirst [roundTripSecond] [';', NUL] 11 { tokens_max := 16 } {} 0
    rfl rfl (by decide) (by decide) (by decide) (by decide) (by decide) (by decide)
    (by decide)

/-- The text that the generator writes in that example. -/
theorem round_trip_example :
    renderParams ([roundTripFirst, roundTripSecond].map PointerParam.descriptor) =
      "int a, char  * b".toList ∧
    (inspectFile 60
        (fileBuffer "DQN_INSPECT_GENERATE_PROTOTYPE()\nvoid f(int a, char  *  b);")
        InspectMode.All).map (fun r => r.2.output_file) =
      Except.ok "void f(int a, char  * b);\n".toList := by
  refine ⟨by decide, by decide!⟩

/-- C26, counterexample.  A type of two words: of `unsigned int x` the generator writes
`unsigned int`, without the name `x`.  An array suffix is counted and not written:
`int a[3]` gives `int a`.  Generic arguments are not written: `Array<int> xs` gives
`Array xs`.  A `const` after an asterisk leaves its first letter: `char * const p` gives
`char * c p`. -/
theorem C26_counterexample :
    (inspectFile 60 (fileBuffer "DQN_INSPECT_GENERATE_PROTOTYPE()\nvoid f(unsigned int x);")
        InspectMode.All).map (fun r => r.2.output_file) =
      Except.ok "void f(unsigned int);\n".toList ∧
    (inspectFile 60 (fileBuffer "DQN_INSPECT_GENERATE_PROTOTYPE()\nvoid f(int a[3]);")
        InspectMode.All).map (fun r => r.2.output_file) =
      Except.ok "void f(int a);\n".toList ∧
    (inspectFile 60 (fileBuffer "DQN_INSPECT_GENERATE_PROTOTYPE()\nvoid f(Array<int> xs);")
        InspectMode.All).map (fun r => r.2.output_file) =
      Except.ok "void f(Array xs);\n".toList ∧
    (inspectFile 60 (fileBuffer "DQN_INSPECT_GENERATE_PROTOTYPE()\nvoid f(char * const p);")
        InspectMode.All).map (fun r => r.2.output_file) =
      Except.ok "void f(char * c p);\n".toList := by
  refine ⟨by decide!, by decide!, by decide!, by decide!⟩

/-! ## Cursor steps, skipped values, the search, nested scopes, token order, the brace count -/

/-- `CPPTokeniser_NextToken` with amount 1, in closed form. -/
theorem nextToken_eq (tk : CPPTokeniser) :
    CPPTokeniser_NextToken tk 1 =
      if (CPPTokeniser_PeekToken tk).type = CPPTokenType.EndOfStream then
        Except.ok (CPPTokeniser_PeekToken tk, tk)
      else if 0 ≤ tk.indent_level + braceDepth [CPPTokeniser_PeekToken tk] then
        Except.ok (CPPTokeniser_PeekToken tk,
          { tk with tokens_index := tk.tokens_index + 1
                    indent_level := tk.indent_level + braceDepth [CPPTokeniser_PeekToken tk] })
      else Except.error Fault.assertFail := by
  by_cases he : (CPPTokeniser_PeekToken tk).type = CPPTokenType.EndOfStream
  · rw [if_pos he]
    exact next_end rfl he
  · rw [if_neg he]
    by_cases h0 : 0 ≤ tk.indent_level + braceDepth [CPPTokeniser_PeekToken tk]
    · rw [if_pos h0]
      exact next_token rfl he h0
    · rw [if_neg h0]
      rw [braceDepth_single] at h0
      unfold CPPTokeniser_PeekToken at he h0
      simp only [CPPTokeniser_NextToken, nextTokenLoop]
      generalize tk.tokens.getD tk.tokens_index default = cur at he h0 ⊢
      rw [if_pos he, if_pos]
      · rfl
      · by_cases hl : cur.type = CPPTokenType.LeftBrace
        · simp only [hl, if_true] at h0 ⊢
          exact h0
        · by_cases hr : cur.type = CPPTokenType.RightBrace
          · simp only [hr, reduceCtorEq, if_false, if_true] at h0 ⊢
            omega
          · simp only [hl, hr, if_false] at h0 ⊢
            omega

/-- C34.  `CPPTokeniser_NextToken` with amount 1, `cur` being the token at the cursor.
When `cur` is the end of the stream, it returns `cur` and the tokeniser as it is.
Otherwise it takes the brace depth plus 1 for a `LeftBrace`, minus 1 for a `RightBrace`
and unchanged for any other token: when that depth is negative it aborts at the
assertion, and when it is not it returns `cur` with the cursor moved by one and that
depth.  So the depth is not negative after a return that moved the cursor, and after any
return from a depth that was not negative. -/
theorem C34_next_token_moves_by_one_and_tracks_the_brace_depth (tk : CPPTokeniser) :
    ((CPPTokeniser_PeekToken tk).type = CPPTokenType.EndOfStream →
      CPPTokeniser_NextToken tk 1 = Except.ok (CPPTokeniser_PeekToken tk, tk)) ∧
    ((CPPTokeniser_PeekToken tk).type ≠ CPPTokenType.EndOfStream →
      CPPTokeniser_NextToken tk 1 =
        if 0 ≤ tk.indent_level +
            (if (CPPTokeniser_PeekToken tk).type = CPPTokenType.LeftBrace then 1
             else if (CPPTokeniser_PeekToken tk).type = CPPTokenType.RightBrace then -1
             else 0)
        then Except.ok (CPPTokeniser_PeekToken tk,
          { tk with
            tokens_index := tk.tokens_index + 1
            indent_level := tk.indent_level +
              (if (CPPTokeniser_PeekToken tk).type = CPPTokenType.LeftBrace then 1
               else if (CPPTokeniser_PeekToken tk).type = CPPTokenType.RightBrace then -1
               else 0) })
        else Except.error Fault.assertFail) ∧
    ∀ (t : CPPToken) (next : CPPTokeniser),
      CPPTokeniser_NextToken tk 1 = Except.ok (t, next) →
      t = CPPTokeniser_PeekToken tk ∧ next.tokens = tk.tokens ∧
        next.output_file = tk.output_file ∧
        ((CPPTokeniser_PeekToken tk).type ≠ CPPTokenType.EndOfStream →
          0 ≤ next.indent_level) ∧
        (0 ≤ tk.indent_level → 0 ≤ next.indent_level) := by
  refine ⟨fun he => ?_, fun he => ?_, fun t next h => ?_⟩
  · rw [nextToken_eq, if_pos he]
  · rw [nextToken_eq, if_neg he, braceDepth_single]
  · rw [nextToken_eq] at h
    by_cases he : (CPPTokeniser_PeekToken tk).type = CPPTokenType.EndOfStream
    · rw [if_pos he] at h
      simp only [Except.ok.injEq, Prod.mk.injEq] at h
      obtain ⟨h1, h2⟩ := h
      subst h1 h2
      exact ⟨rfl, rfl, rfl, fun hne => absurd he hne, fun h0 => h0⟩
    · rw [if_neg he] at h
      by_cases h0 : 0 ≤ tk.indent_level + braceDepth [CPPTokeniser_PeekToken tk]
      · rw [if_pos h0] at h
        simp only [Except.ok.injEq, Prod.mk.injEq] at h
        obtain ⟨h1, h2⟩ := h
        subst h1 h2
        exact ⟨rfl, rfl, rfl, fun _ => h0, fun _ => h0⟩
      · rw [if_neg h0] at h
        cases h

/-- The steps of `CPPTokeniser_NextToken` over the tokens of `{ x }` from depth 0, and a
closing brace at depth 0. -/
theorem next_token_example :
    CPPTokeniser_NextToken
        { tokens := [{ type := CPPTokenType.LeftBrace, str := 0, len := 1 },
                     { type := CPPTokenType.Identifier, str := 2, len := 1 },
                     { type := CPPTokenType.RightBrace, str := 4, len := 1 },
                     { type := CPPTokenType.EndOfStream }] } 1 =
      Except.ok ({ type := CPPTokenType.LeftBrace, str := 0, len := 1 },
        { tokens := [{ type := CPPTokenType.LeftBrace, str := 0, len := 1 },
                     { type := CPPTokenType.Identifier, str := 2, len := 1 },
                     { type := CPPTokenType.RightBrace, str := 4, len := 1 },
                     { type := CPPTokenType.EndOfStream }]
          tokens_index := 1, indent_level := 1 }) ∧
    CPPTokeniser_NextToken
        { tokens := [{ type := CPPTokenType.RightBrace, str := 0, len := 1 },
                     { type := CPPTokenType.EndOfStream }] } 1 =
      Except.error Fault.assertFail ∧
    CPPTokeniser_NextToken
        { tokens := [{ type := CPPTokenType.RightBrace, str := 0, len := 1 },
                     { type := CPPTokenType.EndOfStream }]
          tokens_index := 1 } 1 =
      Except.ok ({ type := CPPTokenType.EndOfStream },
        { tokens := [{ type := CPPTokenType.RightBrace, str := 0, len := 1 },
                     { type := CPPTokenType.EndOfStream }]
          tokens_index := 1 }) := by
  decide

/-- Stepping over an opening brace and rewinding gives back the cursor and not the depth;
at the end of the stream the step does not move and the rewind does. -/
theorem rewind_after_brace_example :
    (CPPTokeniser_NextToken
        { tokens := [{ type := CPPTokenType.LeftBrace, str := 0, len := 1 },
                     { type := CPPTokenType.EndOfStream }] }).map
        (fun r => ((CPPTokeniser_RewindToken r.2).tokens_index,
          (CPPTokeniser_RewindToken r.2).indent_level)) = Except.ok (0, 1) ∧
    (CPPTokeniser_NextToken
        { tokens := [{ type := CPPTokenType.LeftBrace, str := 0, len := 1 },
                     { type := CPPTokenType.EndOfStream }]
          tokens_index := 1, indent_level := 1 }).map
        (fun r => ((CPPTokeniser_RewindToken r.2).tokens_index,
          (CPPTokeniser_RewindToken r.2).indent_level)) = Except.ok (0, 1) := by
  decide

/-- C40.  For a parsed enum without variants the generator writes the string table,
empty, and the head of the stringify function, and then stops at the statement
`curr_src_code->next = nullptr;`, where `curr_src_code` is still the null pointer: the run
does not return. -/
theorem C40_enum_without_variants_stops_at_a_null_pointer (mem : List Char)
    (parsed_enum : ParsedEnum) (tokeniser : CPPTokeniser)
    (hmembers : parsed_enum.members = []) :
    writeEnumStringify mem parsed_enum tokeniser = Except.error Fault.nullDeref ∧
    generateEnum mem parsed_enum tokeniser = Except.error Fault.nullDeref ∧
    ∀ (w1 w2 : Int), generateResult mem w1 w2 (ParsedResult.Enum parsed_enum) tokeniser =
      Except.error Fault.nullDeref := by
  have h1 : ∀ tk, writeEnumStringify mem parsed_enum tk = Except.error Fault.nullDeref := by
    intro tk
    unfold writeEnumStringify
    simp [hmembers, buildSourceCode, throw, throwThe, MonadExceptOf.throw]
  have h2 : generateEnum mem parsed_enum tokeniser = Except.error Fault.nullDeref := by
    unfold generateEnum
    simp only [h1, bind, Except.bind]
  refine ⟨h1 tokeniser, h2, fun w1 w2 => ?_⟩
  show generateEnum mem parsed_enum tokeniser = _
  exact h2

/-- C40, at the parse result of `DQN_INSPECT enum E { };`. -/
theorem C40_witness :
    writeEnumStringify (fileBuffer "DQN_INSPECT enum E \x7b \x7d;")
        { name := { str := 17, len := 1 } } { spaces_per_indent := 4 } =
      Except.error Fault.nullDeref ∧
    generateEnum (fileBuffer "DQN_INSPECT enum E \x7b \x7d;")
        { name := { str := 17, len := 1 } } { spaces_per_indent := 4 } =
      Except.error Fault.nullDeref ∧
    ∀ (w1 w2 : Int), generateResult (fileBuffer "DQN_INSPECT enum E \x7b \x7d;") w1 w2
        (ParsedResult.Enum { name := { str := 17, len := 1 } }) { spaces_per_indent := 4 } =
      Except.error Fault.nullDeref :=
  C40_enum_without_variants_stops_at_a_null_pointer _ { name := { str := 17, len := 1 } }
    { spaces_per_indent := 4 } rfl

/-- The file `DQN_INSPECT enum E { };` run through the program: the parse loop gives the
enum `E` without variants, and the run as a whole ends at the null pointer. -/
theorem enum_without_variants_example :
    (do
      let tokeniser ← lexFile 40 (fileBuffer "DQN_INSPECT enum E \x7b \x7d;") InspectMode.All
        { spaces_per_indent := 4, tokens_max := 16384 }
      let st ← parseLoop (fileBuffer "DQN_INSPECT enum E \x7b \x7d;") 40
        { tokeniser := tokeniser }
      pure (st.parsing_results, st.tokeniser.indent_level)) =
      Except.ok ([ParsedResult.Enum { name := { str := 17, len := 1 } }], 0) ∧
    inspectFile 40 (fileBuffer "DQN_INSPECT enum E \x7b \x7d;") InspectMode.All =
      Except.error Fault.nullDeref := by
  refine ⟨by decide!, by decide!⟩

/-- One turn of the loop of `SkipFunctionParam` at a token that is no parenthesis, no
brace, no comma and not the end of the stream: the token is passed. -/
theorem skipFunctionParam_pass (tk : CPPTokeniser) (pre post : List CPPToken) (y : CPPToken)
    (fuel : Nat) (ht : tk.tokens = pre ++ y :: post) (hi : tk.tokens_index = pre.length)
    (h0 : 0 ≤ tk.indent_level)
    (hy : y.type ≠ CPPTokenType.OpenParen ∧ y.type ≠ CPPTokenType.CloseParen ∧
      y.type ≠ CPPTokenType.Comma ∧ y.type ≠ CPPTokenType.EndOfStream ∧
      y.type ≠ CPPTokenType.LeftBrace ∧ y.type ≠ CPPTokenType.RightBrace) :
    SkipFunctionParam (fuel + 1) tk =
      SkipFunctionParam fuel { tk with tokens_index := tk.tokens_index + 1 } := by
  have hg : CPPTokeniser_PeekToken tk = y := getD_cursor ht hi
  have e1 := next_plain_at tk pre y post ht hi h0 ⟨hy.2.2.2.1, hy.2.2.2.2.1, hy.2.2.2.2.2⟩
  rw [SkipFunctionParam]
  simp only [hg, hy, if_false, pure, Except.pure, bind, Except.bind, e1]

/-- `SkipFunctionParam` passes the tokens that are no parentheses, braces or commas. -/
theorem skipFunctionParam_over_flat : ∀ (ys : List CPPToken) (tk : CPPTokeniser)
    (pre post : List CPPToken) (fuel : Nat),
    tk.tokens = pre ++ ys ++ post → tk.tokens_index = pre.length → 0 ≤ tk.indent_level →
    (∀ y ∈ ys, y.type ≠ CPPTokenType.OpenParen ∧ y.type ≠ CPPTokenType.CloseParen ∧
      y.type ≠ CPPTokenType.Comma ∧ y.type ≠ CPPTokenType.EndOfStream ∧
      y.type ≠ CPPTokenType.LeftBrace ∧ y.type ≠ CPPTokenType.RightBrace) →
    SkipFunctionParam (fuel + ys.length) tk =
      SkipFunctionParam fuel { tk with tokens_index := tk.tokens_index + ys.length } := by
  intro ys
  induction ys with
  | nil => intro tk pre post fuel _ _ _ _; rfl
  | cons y ys ih =>
    intro tk pre post fuel ht hi h0 hys
    have e := skipFunctionParam_pass tk pre (ys ++ post) y (fuel + ys.length)
      (by simp [ht]) hi h0 (hys y (List.mem_cons_self _ _))
    have hrec := ih { tk with tokens_index := tk.tokens_index + 1 } (pre ++ [y]) post fuel
      (by simp [ht]) (by simp [hi]) h0 (fun z hz => hys z (List.mem_cons_of_mem _ hz))
    rw [List.length_cons, ← Nat.add_assoc, e, hrec]
    simp [Nat.add_assoc, Nat.add_comm 1]

/-- C33.  `SkipFunctionParam` on a stream that ends with the end-of-stream token: when,
after tokens that are no parentheses, braces or commas, the cursor meets an opening
parenthesis that nothing closes before the end of the stream, the level loop reaches the
end-of-stream token, where `CPPTokeniser_NextToken` does not move and the level does not
change: the function does not return, whatever the fuel. -/
theorem C33_skip_never_returns_from_an_unclosed_parenthesis (tk : CPPTokeniser)
    (pre ys xs post : List CPPToken) (lp eos : CPPToken)
    (ht : tk.tokens = pre ++ ys ++ lp :: (xs ++ eos :: post))
    (hi : tk.tokens_index = pre.length)
    (hys : ∀ y ∈ ys, y.type ≠ CPPTokenType.OpenParen ∧ y.type ≠ CPPTokenType.CloseParen ∧
      y.type ≠ CPPTokenType.Comma ∧ y.type ≠ CPPTokenType.EndOfStream ∧
      y.type ≠ CPPTokenType.LeftBrace ∧ y.type ≠ CPPTokenType.RightBrace)
    (hlp : lp.type = CPPTokenType.OpenParen) (he : eos.type = CPPTokenType.EndOfStream)
    (hxs : ∀ x ∈ xs, x.type ≠ CPPTokenType.OpenParen ∧ x.type ≠ CPPTokenType.CloseParen ∧
      x.type ≠ CPPTokenType.EndOfStream)
    (hdepth : BraceDepthOk tk.indent_level (lp :: xs)) (fuel : Nat) :
    SkipFunctionParam fuel tk = Except.error Fault.outOfFuel := by
  induction ys generalizing tk pre fuel with
  | nil =>
    exact skipFunctionParam_unclosed tk pre xs post lp eos (by simpa using ht) hi hlp he hxs
      hdepth fuel
  | cons y ys ih =>
    have h0 : 0 ≤ tk.indent_level := braceDepthOk_nonneg hdepth
    cases fuel with
    | zero => rfl
    | succ f =>
      rw [skipFunctionParam_pass tk pre (ys ++ lp :: (xs ++ eos :: post)) y f
        (by simp [ht]) hi h0 (hys y (List.mem_cons_self _ _))]
      exact ih { tk with tokens_index := tk.tokens_index + 1 } (pre ++ [y])
        (by simp [ht]) (by simp [hi]) (fun z hz => hys z (List.mem_cons_of_mem _ hz))
        hdepth f

/-- C33, at the tokens of `x = f(1` and the end of the stream, the cursor on `f`: no fuel
makes `SkipFunctionParam` return. -/
theorem C33_witness :
    SkipFunctionParam 1000
        { tokens := [{ type := CPPTokenType.Identifier, str := 0, len := 1 },
                     { type := CPPTokenType.Equals, str := 2, len := 1 },
                     { type := CPPTokenType.Identifier, str := 4, len := 1 },
                     { type := CPPTokenType.OpenParen, str := 5, len := 1 },
                     { type := CPPTokenType.Number, str := 6, len := 1 },
                     { type := CPPTokenType.EndOfStream }]
          tokens_index := 2 } = Except.error Fault.outOfFuel ∧
    ¬ ∃ (fuel : Nat) (r : CPPTokeniser),
      SkipFunctionParam fuel
        { tokens := [{ type := CPPTokenType.Identifier, str := 0, len := 1 },
                     { type := CPPTokenType.Equals, str := 2, len := 1 },
                     { type := CPPTokenType.Identifier, str := 4, len := 1 },
                     { type := CPPTokenType.OpenParen, str := 5, len := 1 },
                     { type := CPPTokenType.Number, str := 6, len := 1 },
                     { type := CPPTokenType.EndOfStream }]
          tokens_index := 2 } = Except.ok r := by
  have key := C33_skip_never_returns_from_an_unclosed_parenthesis
    { tokens := [{ type := CPPTokenType.Identifier, str := 0, len := 1 },
                 { type := CPPTokenType.Equals, str := 2, len := 1 },
                 { type := CPPTokenType.Identifier, str := 4, len := 1 },
                 { type := CPPTokenType.OpenParen, str := 5, len := 1 },
                 { type := CPPTokenType.Number, str := 6, len := 1 },
                 { type := CPPTokenType.EndOfStream }]
      tokens_index := 2 }
    [{ type := CPPTokenType.Identifier, str := 0, len := 1 },
     { type := CPPTokenType.Equals, str := 2, len := 1 }]
    [{ type := CPPTokenType.Identifier, str := 4, len := 1 }]
    [{ type := CPPTokenType.Number, str := 6, len := 1 }] []
    { type := CPPTokenType.OpenParen, str := 5, len := 1 }
    { type := CPPTokenType.EndOfStream }
    rfl rfl (by decide) rfl rfl (by decide) (by decide)
  refine ⟨key 1000, ?_⟩
  rintro ⟨fuel, r, h⟩
  rw [key fuel] at h
  cases h

/-- C32.  `SkipFunctionParam` at tokens `ys` that are no parentheses, braces or commas,
then a group in parentheses and directly after it a second group in parentheses: the
first group is skipped as a whole, the opening parenthesis of the second is passed as an
ordinary token, and the function returns with the cursor on the parenthesis that closes
the second group.  Between the starting position and that parenthesis one more
parenthesis is opened than closed: the token it stops on lies inside a group opened after
the starting position. -/
theorem C32_skip_stops_inside_a_group_that_follows_a_group (tk : CPPTokeniser)
    (pre ys xs1 xs2 post : List CPPToken) (lp1 rp1 lp2 rp2 : CPPToken) (fuel : Nat)
    (ht : tk.tokens = pre ++ ys ++ lp1 :: (xs1 ++ rp1 :: lp2 :: (xs2 ++ rp2 :: post)))
    (hi : tk.tokens_index = pre.length) (h0 : 0 ≤ tk.indent_level)
    (hys : ∀ y ∈ ys, y.type ≠ CPPTokenType.OpenParen ∧ y.type ≠ CPPTokenType.CloseParen ∧
      y.type ≠ CPPTokenType.Comma ∧ y.type ≠ CPPTokenType.EndOfStream ∧
      y.type ≠ CPPTokenType.LeftBrace ∧ y.type ≠ CPPTokenType.RightBrace)
    (hlp1 : lp1.type = CPPTokenType.OpenParen) (hrp1 : rp1.type = CPPTokenType.CloseParen)
    (hlp2 : lp2.type = CPPTokenType.OpenParen) (hrp2 : rp2.type = CPPTokenType.CloseParen)
    (hxs1 : ∀ x ∈ xs1, x.type ≠ CPPTokenType.OpenParen ∧ x.type ≠ CPPTokenType.CloseParen ∧
      x.type ≠ CPPTokenType.EndOfStream ∧ x.type ≠ CPPTokenType.LeftBrace ∧
      x.type ≠ CPPTokenType.RightBrace)
    (hxs2 : ∀ y ∈ xs2, y.type ≠ CPPTokenType.OpenParen ∧ y.type ≠ CPPTokenType.CloseParen ∧
      y.type ≠ CPPTokenType.Comma ∧ y.type ≠ CPPTokenType.EndOfStream ∧
      y.type ≠ CPPTokenType.LeftBrace ∧ y.type ≠ CPPTokenType.RightBrace)
    (hfuel : ys.length + xs1.length + xs2.length + 3 ≤ fuel) :
    SkipFunctionParam fuel tk =
      Except.ok { tk with
        tokens_index := tk.tokens_index + ys.length + xs1.length + xs2.length + 3 } ∧
    tk.tokens.getD (tk.tokens_index + ys.length + xs1.length + xs2.length + 3) default = rp2 ∧
    (tk.tokens.drop tk.tokens_index).take (ys.length + xs1.length + xs2.length + 3) =
      ys ++ lp1 :: (xs1 ++ rp1 :: lp2 :: xs2) ∧
    scopeDepth CPPTokenType.OpenParen CPPTokenType.CloseParen
      (tokenTypes (ys ++ lp1 :: (xs1 ++ rp1 :: lp2 :: xs2))) = 1 := by
  refine ⟨?_, ?_, ?_, ?_⟩
  · obtain ⟨f, rfl⟩ : ∃ f, fuel = f + ys.length := ⟨fuel - ys.length, by omega⟩
    rw [skipFunctionParam_over_flat ys tk pre _ f ht hi h0 hys]
    rw [skipFunctionParam_two_groups { tk with tokens_index := tk.tokens_index + ys.length }
      (pre ++ ys) xs1 xs2 post lp1 rp1 lp2 rp2 f (by simp [ht]) (by simp [hi]) h0 hlp1 hrp1
      hlp2 hrp2 hxs1 hxs2 (by omega)]
  · exact @getD_cursor
      { tk with tokens_index := tk.tokens_index + ys.length + xs1.length + xs2.length + 3 }
      (pre ++ ys ++ lp1 :: (xs1 ++ rp1 :: lp2 :: xs2)) rp2 post (by simp [ht])
      (by simp [hi]; omega)
  · rw [ht, hi]
    have : pre ++ ys ++ lp1 :: (xs1 ++ rp1 :: lp2 :: (xs2 ++ rp2 :: post)) =
        pre ++ ((ys ++ lp1 :: (xs1 ++ rp1 :: lp2 :: xs2)) ++ rp2 :: post) := by simp
    rw [this, List.drop_left, List.take_left']
    simp
    omega
  · have hflat : ∀ zs : List CPPToken,
        (∀ z ∈ zs, z.type ≠ CPPTokenType.OpenParen ∧ z.type ≠ CPPTokenType.CloseParen) →
        scopeDepth CPPTokenType.OpenParen CPPTokenType.CloseParen (tokenTypes zs) = 0 := by
      intro zs hz
      apply scopeDepth_of_absent
      intro ty hty
      simp only [tokenTypes, List.mem_map] at hty
      obtain ⟨z, hz1, rfl⟩ := hty
      exact hz z hz1
    simp only [tokenTypes, List.map_append, List.map_cons, scopeDepth_append, scopeDepth_cons,
      hlp1, hrp1, hlp2]
    have e1 := hflat ys (fun z hz => ⟨(hys z hz).1, (hys z hz).2.1⟩)
    have e2 := hflat xs1 (fun z hz => ⟨(hxs1 z hz).1, (hxs1 z hz).2.1⟩)
    have e3 := hflat xs2 (fun z hz => ⟨(hxs2 z hz).1, (hxs2 z hz).2.1⟩)
    simp only [tokenTypes] at e1 e2 e3
    rw [e1, e2, e3]
    simp

/-- C32, at the tokens of `f(1)(2), x` with the cursor on `f`: the function returns with
the cursor 6, on the parenthesis that closes `(2`, and not 7, on the comma. -/
theorem C32_witness :
    SkipFunctionParam 6 { tokens := twoGroupsTokens } =
      Except.ok { tokens := twoGroupsTokens, tokens_index := 0 + 1 + 1 + 1 + 3 } ∧
    twoGroupsTokens.getD (0 + 1 + 1 + 1 + 3) default =
      { type := CPPTokenType.CloseParen, str := 6, len := 1 } ∧
    (twoGroupsTokens.drop 0).take (1 + 1 + 1 + 3) =
      [{ type := CPPTokenType.Identifier, str := 0, len := 1 }] ++
        { type := CPPTokenType.OpenParen, str := 1, len := 1 } ::
        ([{ type := CPPTokenType.Number, str := 2, len := 1 }] ++
          { type := CPPTokenType.CloseParen, str := 3, len := 1 } ::
          { type := CPPTokenType.OpenParen, str := 4, len := 1 } ::
          [{ type := CPPTokenType.Number, str := 5, len := 1 }]) ∧
    scopeDepth CPPTokenType.OpenParen CPPTokenType.CloseParen
      (tokenTypes ([{ type := CPPTokenType.Identifier, str := 0, len := 1 }] ++
        { type := CPPTokenType.OpenParen, str := 1, len := 1 } ::
        ([{ type := CPPTokenType.Number, str := 2, len := 1 }] ++
          { type := CPPTokenType.CloseParen, str := 3, len := 1 } ::
          { type := CPPTokenType.OpenParen, str := 4, len := 1 } ::
          [{ type := CPPTokenType.Number, str := 5, len := 1 }]))) = 1 :=
  C32_skip_stops_inside_a_group_that_follows_a_group { tokens := twoGroupsTokens } []
    [{ type := CPPTokenType.Identifier, str := 0, len := 1 }]
    [{ type := CPPTokenType.Number, str := 2, len := 1 }]
    [{ type := CPPTokenType.Number, str := 5, len := 1 }]
    [{ type := CPPTokenType.Comma, str := 7, len := 1 },
     { type := CPPTokenType.Identifier, str := 9, len := 1 },
     { type := CPPTokenType.EndOfStream }]
    { type := CPPTokenType.OpenParen, str := 1, len := 1 }
    { type := CPPTokenType.CloseParen, str := 3, len := 1 }
    { type := CPPTokenType.OpenParen, str := 4, len := 1 }
    { type := CPPTokenType.CloseParen, str := 6, len := 1 } 6
    rfl rfl (by decide) (by decide) rfl rfl rfl rfl (by decide) (by decide) (by decide)

/-- `SkipFunctionParam` on values that the claim describes rightly: `g(1, 2), x` stops on
the comma after the group (cursor 6), and `a b)` on the parenthesis (cursor 2). -/
theorem skip_function_param_example :
    (SkipFunctionParam 8
        { tokens := [{ type := CPPTokenType.Identifier, str := 0, len := 1 },
                     { type := CPPTokenType.OpenParen, str := 1, len := 1 },
                     { type := CPPTokenType.Number, str := 2, len := 1 },
                     { type := CPPTokenType.Comma, str := 3, len := 1 },
                     { type := CPPTokenType.Number, str := 5, len := 1 },
                     { type := CPPTokenType.CloseParen, str := 6, len := 1 },
                     { type := CPPTokenType.Comma, str := 7, len := 1 },
                     { type := CPPTokenType.Identifier, str := 9, len := 1 },
                     { type := CPPTokenType.EndOfStream }] }).map
        (fun r => r.tokens_index) = Except.ok 6 ∧
    (SkipFunctionParam 8
        { tokens := [{ type := CPPTokenType.Identifier, str := 0, len := 1 },
                     { type := CPPTokenType.Identifier, str := 2, len := 1 },
                     { type := CPPTokenType.CloseParen, str := 3, len := 1 },
                     { type := CPPTokenType.EndOfStream }] }).map
        (fun r => r.tokens_index) = Except.ok 2 := by
  decide

theorem occursAt_cons {find : List Char} {c : Char} {cs : List Char} {i : Nat} :
    OccursAt find (c :: cs) (i + 1) ↔ OccursAt find cs i := by
  simp [OccursAt]

theorem occursAt_bound {find text : List Char} {i : Nat} (h : OccursAt find text i) :
    i + find.length ≤ text.length ∨ find = [] := by
  unfold OccursAt at h
  have := congrArg List.length h
  simp only [List.length_take, List.length_drop] at this
  by_cases hf : find = []
  · exact Or.inr hf
  · left
    have : 0 < find.length := List.length_pos.2 hf
    omega

/-- The loop of `StrFind` on a text without NUL that a NUL follows. -/
theorem strFindLoop_spec (find rest : List Char) (hfind : find ≠ []) :
    ∀ (text : List Char) (s : Nat), (∀ c ∈ text, c ≠ NUL) →
      (∃ i, strFindLoop find ((s : Int) + (text.length : Int)) (text ++ NUL :: rest) s =
          Except.ok (some (s + i)) ∧
        OccursAt find text i ∧ ∀ j < i, ¬ OccursAt find text j) ∨
      (strFindLoop find ((s : Int) + (text.length : Int)) (text ++ NUL :: rest) s =
          Except.ok none ∧
        ∀ j, ¬ OccursAt find text j) := by
  have hlen : 0 < find.length := List.length_pos.2 hfind
  intro text
  induction text with
  | nil =>
    intro s _
    right
    refine ⟨by simp [strFindLoop, pure, Except.pure], fun j h => ?_⟩
    rcases occursAt_bound h with h | h
    · simp only [List.length_nil] at h; omega
    · exact hfind h
  | cons c cs ih =>
    intro s hnul
    have hc : c ≠ NUL := hnul c (List.mem_cons_self _ _)
    have hcs : ∀ x ∈ cs, x ≠ NUL := fun x hx => hnul x (List.mem_cons_of_mem _ hx)
    rw [List.cons_append, strFindLoop, if_neg hc]
    by_cases hshort : ((s : Int) + ((c :: cs).length : Int)) - (s : Int) < (find.length : Int)
    · right
      rw [if_pos hshort]
      refine ⟨rfl, fun j h => ?_⟩
      rcases occursAt_bound h with h | h
      · simp only [List.length_cons] at h hshort
        push_cast at hshort
        omega
      · exact hfind h
    · rw [if_neg hshort]
      have hfit : find.length ≤ (c :: cs).length := by
        simp only [List.length_cons] at hshort ⊢
        push_cast at hshort
        omega
      by_cases hhere : (c :: (cs ++ NUL :: rest)).take find.length = find
      · left
        rw [if_pos hhere]
        refine ⟨0, rfl, ?_, fun j hj => absurd hj (Nat.not_lt_zero j)⟩
        unfold OccursAt
        rw [List.drop_zero]
        rw [← List.cons_append, List.take_append_of_le_length hfit] at hhere
        exact hhere
      · rw [if_neg hhere]
        have hnot0 : ¬ OccursAt find (c :: cs) 0 := by
          intro h
          apply hhere
          unfold OccursAt at h
          rw [List.drop_zero] at h
          rw [← List.cons_append, List.take_append_of_le_length hfit, h]
        have hend : (s : Int) + ((c :: cs).length : Int) =
            ((s + 1 : Nat) : Int) + (cs.length : Int) := by
          simp only [List.length_cons]; push_cast; omega
        rw [hend]
        rcases ih (s + 1) hcs with ⟨i, hrun, hocc, hmin⟩ | ⟨hrun, hno⟩
        · left
          refine ⟨i + 1, ?_, occursAt_cons.2 hocc, fun j hj => ?_⟩
          · rw [hrun]
            congr 2
            omega
          · cases j with
            | zero => exact hnot0
            | succ j => exact fun h => hmin j (by omega) (occursAt_cons.1 h)
        · right
          refine ⟨hrun, fun j => ?_⟩
          cases j with
          | zero => exact hnot0
          | succ j => exact fun h => hno j (occursAt_cons.1 h)

/-- C37.  For a search text `find` that is not empty and a source text `text` without NUL
that stands at `src.str`, has the length `src.len` and is followed by a NUL: `StrFind`
returns; it returns the position `src.str + i` exactly when `i` is the leftmost offset at
which `find` stands in `text`, and the null pointer exactly when `find` stands nowhere in
`text`. -/
theorem C37_strfind_returns_the_leftmost_occurrence (mem : List Char) (src : StringLiteral)
    (find text rest : List Char) (hfind : find ≠ [])
    (hm : mem.drop src.str = text ++ NUL :: rest) (hlen : src.len = (text.length : Int))
    (hnul : ∀ c ∈ text, c ≠ NUL) :
    (∃ r, StrFind mem src find = Except.ok r) ∧
    (∀ p, StrFind mem src find = Except.ok (some p) ↔
      ∃ i, p = src.str + i ∧ OccursAt find text i ∧ ∀ j < i, ¬ OccursAt find text j) ∧
    (StrFind mem src find = Except.ok none ↔ ∀ i, ¬ OccursAt find text i) := by
  unfold StrFind
  rw [hm, hlen]
  rcases strFindLoop_spec find rest hfind text src.str hnul with
    ⟨i, hrun, hocc, hmin⟩ | ⟨hrun, hno⟩
  · rw [hrun]
    refine ⟨⟨_, rfl⟩, fun p => ⟨fun h => ?_, fun h => ?_⟩, ⟨fun h => ?_, fun h => ?_⟩⟩
    · simp only [Except.ok.injEq, Option.some.injEq] at h
      exact ⟨i, h.symm, hocc, hmin⟩
    · obtain ⟨k, rfl, hk, hkmin⟩ := h
      have : k = i := by
        rcases Nat.lt_trichotomy k i with hlt | heq | hgt
        · exact absurd hk (hmin k hlt)
        · exact heq
        · exact absurd hocc (hkmin i hgt)
      rw [this]
    · cases h
    · exact absurd hocc (h i)
  · rw [hrun]
    refine ⟨⟨_, rfl⟩, fun p => ⟨fun h => ?_, fun h => ?_⟩, ⟨fun _ => hno, fun _ => rfl⟩⟩
    · cases h
    · obtain ⟨k, -, hk, -⟩ := h
      exact absurd hk (hno k)

/-- C37, at the file `int x; DQN_INSPECT enum E;` and the marker `DQN_INSPECT`, which
stands at offset 7. -/
theorem C37_witness :
    (∃ r, StrFind (fileBuffer "int x; DQN_INSPECT enum E;") { str := 0, len := 26 }
        INSPECT_PREFIX.toList = Except.ok r) ∧
    (∀ p, StrFind (fileBuffer "int x; DQN_INSPECT enum E;") { str := 0, len := 26 }
        INSPECT_PREFIX.toList = Except.ok (some p) ↔
      ∃ i, p = 0 + i ∧ OccursAt INSPECT_PREFIX.toList "int x; DQN_INSPECT enum E;".toList i ∧
        ∀ j < i, ¬ OccursAt INSPECT_PREFIX.toList "int x; DQN_INSPECT enum E;".toList j) ∧
    (StrFind (fileBuffer "int x; DQN_INSPECT enum E;") { str := 0, len := 26 }
        INSPECT_PREFIX.toList = Except.ok none ↔
      ∀ i, ¬ OccursAt INSPECT_PREFIX.toList "int x; DQN_INSPECT enum E;".toList i) :=
  C37_strfind_returns_the_leftmost_occurrence (fileBuffer "int x; DQN_INSPECT enum E;")
    { str := 0, len := 26 } INSPECT_PREFIX.toList "int x; DQN_INSPECT enum E;".toList []
    (by decide) (by decide) (by decide) (by decide)

/-- `StrFind` on that file, and on a file without the marker. -/
theorem strfind_example :
    StrFind (fileBuffer "int x; DQN_INSPECT enum E;") { str := 0, len := 26 }
      INSPECT_PREFIX.toList = Except.ok (some 7) ∧
    StrFind (fileBuffer "int x; DQN_INSPEC enum E;") { str := 0, len := 25 }
      INSPECT_PREFIX.toList = Except.ok none ∧
    StrFind (fileBuffer "aab") { str := 0, len := 3 } "ab".toList = Except.ok (some 1) := by
  decide

/-- The loop of `ParseCPPStruct` over declarations at any depth other than that of the
struct: one declaration is recorded for each, in order, and the loop goes on at the token
after them. -/
theorem structLoop_run (mem : List Char) (oil : Int) (tail : List Char)
    (ms : List (Lexeme × Lexeme × Lexeme)) :
    ∀ (ptr : Nat) (tk : CPPTokeniser) (pre rest : List CPPToken) (F G : Nat)
      (token : CPPToken) (acc : List (CPPDeclLinkedList CPPVariableDecl)),
      tk.tokens = pre ++ lexemeTokens ptr (memberLexemes ms) ++ rest →
      tk.tokens_index = pre.length →
      mem.drop ptr = renderLexemes (memberLexemes ms) ++ tail →
      wellFormedLexemes (memberLexemes ms) tail = true →
      (∀ m ∈ ms, DeclShape m) →
      tk.indent_level ≠ oil → 0 ≤ tk.indent_level →
      token.type ≠ CPPTokenType.Identifier → token.type ≠ CPPTokenType.EndOfStream →
      F = G + 2 * ms.length → 3 ≤ G →
      ∃ (decls : List (CPPDeclLinkedList CPPVariableDecl)) (last : CPPToken),
        structLoop mem oil F token tk acc =
          structLoop mem oil G last
            { tk with tokens_index := tk.tokens_index + 3 * ms.length } (acc ++ decls) ∧
        last.type ≠ CPPTokenType.Identifier ∧ last.type ≠ CPPTokenType.EndOfStream ∧
        decls.map (describeMember mem) =
          ms.map (fun m => { type := m.1.text, name := m.2.1.text }) ∧
        ∀ d ∈ decls, d.metadata_list = [] := by
  induction ms with
  | nil =>
    intro ptr tk pre rest F G token acc _ _ _ _ _ _ _ hnid hneos hF _
    refine ⟨[], token, ?_, hnid, hneos, rfl, by simp⟩
    simp only [List.length_nil, Nat.mul_zero, Nat.add_zero] at hF ⊢
    rw [hF, List.append_nil]
  | cons m ms ih =>
    intro ptr tk pre rest F G token acc ht hi hm hwf hms hind hind0 hnid hneos hF hG
    obtain ⟨g, rfl⟩ : ∃ g, F = g + 3 + 1 + 1 := ⟨F - 5, by simp at hF; omega⟩
    obtain ⟨hT, hn, hnc, hs1, hs2, hs3, hs4, hs5, hs6, hs7⟩ := hms m (by simp)
    simp only [memberLexemes] at ht hm hwf
    obtain ⟨tT, p1, e1, hm1, tyT, -, fmT⟩ := lexemeTokens_peel hm
    obtain ⟨tn, p2, e2, hm2, tyn, idn, fmn⟩ := lexemeTokens_peel hm1
    obtain ⟨ts, p3, e3, hm3, tys, -, -⟩ := lexemeTokens_peel hm2
    simp only [wellFormedLexemes, Bool.and_eq_true] at hwf
    obtain ⟨hwfT, hwfn, -, hwfms⟩ := hwf
    rw [e1, e2, e3] at ht
    have ht' : tk.tokens =
        pre ++ tT :: tn :: ts :: (lexemeTokens p3 (memberLexemes ms) ++ rest) := by
      rw [ht]; simp
    rw [← tys] at hs1 hs2 hs3 hs4 hs5 hs6 hs7
    -- the iteration at the token before the declaration
    rw [structLoop_skip mem _ _ token tk acc hind hneos hnid,
      next_plain_at tk pre tT _ ht' hi hind0 (identifier_plain (by rw [tyT, hT]))]
    simp only [bind, Except.bind]
    -- the iteration at the type of the declaration
    rw [structLoop_decl mem _ _ tT _ acc (by simp only []; exact hind) (by rw [tyT, hT])]
    rw [parseDecl_member mem _ pre (lexemeTokens p3 (memberLexemes ms) ++ rest) tT tn ts g
      false (by simp only [CPPTokeniser_RewindToken]; exact ht')
      (by simp only [CPPTokeniser_RewindToken]; omega)
      (by simp only [CPPTokeniser_RewindToken]; exact hind0)
      (by rw [tyT, hT]) (by rw [tyn, hn]) (not_identifier_token_of_text idn hnc)
      ⟨hs5, hs6, hs7, hs4⟩]
    simp only [bind, Except.bind, CPPTokeniser_RewindToken]
    rw [next_plain_at { tk with tokens_index := tk.tokens_index + 1 - 1 + 2 }
      (pre ++ [tT, tn]) ts (lexemeTokens p3 (memberLexemes ms) ++ rest)
      (by simp [ht']) (by simp [hi]) hind0 ⟨hs1, hs2, hs3⟩]
    simp only []
    -- the declarations that follow
    obtain ⟨decls, last, hrun, hl1, hl2, hdesc, hnometa⟩ := ih p3
      { tk with tokens_index := tk.tokens_index + 1 - 1 + 2 + 1 }
      (pre ++ [tT, tn, ts]) rest (g + 3) G ts
      (acc ++ [{ metadata_list := []
                 value := { type := { str := tT.str, len := tT.len }
                            name := { str := tn.str, len := tn.len } } }])
      (by simp [ht']) (by simp [hi]) hm3 hwfms (fun m' h' => hms m' (by simp [h'])) hind hind0
      hs4 hs1 (by simp at hF ⊢; omega) hG
    refine ⟨{ metadata_list := []
              value := { type := { str := tT.str, len := tT.len }
                         name := { str := tn.str, len := tn.len } } } :: decls, last,
      ?_, hl1, hl2, ?_, ?_⟩
    · rw [hrun]
      simp only [List.append_assoc, List.singleton_append, List.length_cons]
      congr 2
      omega
    · rw [List.map_cons, List.map_cons, hdesc]
      congr 1
      simp only [describeMember, fmT (lexeme_text_no_nul hwfT).1,
        fmn (lexeme_text_no_nul hwfn).1]
      rfl
    · intro d hd
      rcases List.mem_cons.1 hd with rfl | hd
      · rfl
      · exact hnometa d hd

theorem scopedFuel_ge (segs : List (List (Lexeme × Lexeme × Lexeme) × Lexeme)) :
    4 ≤ scopedFuel segs := by
  induction segs with
  | nil => simp [scopedFuel]
  | cons s ss ih => simp only [scopedFuel]; omega

theorem scopedLexemes_cons (s : List (Lexeme × Lexeme × Lexeme) × Lexeme)
    (ss : List (List (Lexeme × Lexeme × Lexeme) × Lexeme)) :
    scopedLexemes (s :: ss) = memberLexemes s.1 ++ s.2 :: scopedLexemes ss := rfl

/-- The loop of `ParseCPPStruct` over the pieces of a body, from a depth above that of
the struct to the token that brings the depth back to it: one declaration is recorded for
each declaration of each piece, in order, at whatever depth the piece is. -/
theorem structLoop_scopes (mem : List Char) (oil : Int) (tail : List Char)
    (post : List CPPToken) (h0 : 0 ≤ oil)
    (segs : List (List (Lexeme × Lexeme × Lexeme) × Lexeme)) :
    ∀ (d : Int) (ptr : Nat) (tk : CPPTokeniser) (pre : List CPPToken) (fuel : Nat)
      (token : CPPToken) (acc : List (CPPDeclLinkedList CPPVariableDecl)),
      tk.tokens = pre ++ lexemeTokens ptr (scopedLexemes segs) ++ post →
      tk.tokens_index = pre.length →
      mem.drop ptr = renderLexemes (scopedLexemes segs) ++ tail →
      wellFormedLexemes (scopedLexemes segs) tail = true →
      (∀ s ∈ segs, (∀ m ∈ s.1, DeclShape m) ∧ s.2.type ≠ CPPTokenType.Identifier) →
      tk.indent_level = oil + d → scopeCloses d segs = true →
      token.type ≠ CPPTokenType.Identifier → token.type ≠ CPPTokenType.EndOfStream →
      scopedFuel segs ≤ fuel →
      ∃ (decls : List (CPPDeclLinkedList CPPVariableDecl)) (final : CPPTokeniser),
        structLoop mem oil fuel token tk acc = Except.ok (acc ++ decls, final) ∧
        final.tokens = tk.tokens ∧ final.output_file = tk.output_file ∧
        final.tokens_index = tk.tokens_index + (scopedLexemes segs).length ∧
        final.indent_level = oil ∧
        decls.map (describeMember mem) =
          (scopedMembers segs).map (fun m => { type := m.1.text, name := m.2.1.text }) ∧
        ∀ x ∈ decls, x.metadata_list = [] := by
  induction segs with
  | nil =>
    intro d ptr tk pre fuel token acc _ _ _ _ _ hind hcl _ _ hfuel
    obtain ⟨f, rfl⟩ : ∃ f, fuel = f + 1 := ⟨fuel - 1, by simp [scopedFuel] at hfuel; omega⟩
    simp only [scopeCloses, beq_iff_eq] at hcl
    refine ⟨[], tk, ?_, rfl, rfl, by simp [scopedLexemes], by rw [hind, hcl]; omega, rfl,
      by simp⟩
    rw [structLoop_stop mem _ f token tk acc (Or.inl (by rw [hind, hcl]; omega)),
      List.append_nil]
  | cons s ss ih =>
    intro d ptr tk pre fuel token acc ht hi hm hwf hsegs hind hcl hnid hneos hfuel
    simp only [scopeCloses, Bool.and_eq_true, decide_eq_true_eq] at hcl
    obtain ⟨hd, hcl⟩ := hcl
    obtain ⟨hdecls, hsid⟩ := hsegs s (by simp)
    simp only [scopedFuel] at hfuel
    obtain ⟨g, rfl⟩ : ∃ g, fuel = g + 1 + 2 * s.1.length :=
      ⟨fuel - 1 - 2 * s.1.length, by omega⟩
    have hfg : 4 ≤ g := by
      have := scopedFuel_ge ss
      omega
    rw [scopedLexemes_cons] at ht hm hwf
    rw [lexemeTokens_append] at ht
    rw [renderLexemes_append, List.append_assoc] at hm
    obtain ⟨hwf1, hwf2⟩ := wellFormedLexemes_append hwf
    have hmsep := drop_add_of_append hm
    obtain ⟨tsep, p2, e, hm2, tysep, -, -⟩ := lexemeTokens_peel hmsep
    rw [e] at ht
    simp only [wellFormedLexemes, Bool.and_eq_true] at hwf2
    obtain ⟨hwfsep, hwfss⟩ := hwf2
    have hsepeos : tsep.type ≠ CPPTokenType.EndOfStream := by
      rw [tysep]; exact (lexeme_text_no_nul hwfsep).2
    have hsepid : tsep.type ≠ CPPTokenType.Identifier := by rw [tysep]; exact hsid
    have hne : tk.indent_level ≠ oil := by rw [hind]; omega
    have hge : 0 ≤ tk.indent_level := by rw [hind]; omega
    -- the declarations of the piece
    obtain ⟨decls1, last, hrun, hl1, hl2, hdesc1, hnometa1⟩ :=
      structLoop_run mem oil (renderLexemes (s.2 :: scopedLexemes ss) ++ tail) s.1 ptr tk pre
        (tsep :: lexemeTokens p2 (scopedLexemes ss) ++ post) (g + 1 + 2 * s.1.length) (g + 1)
        token acc (by rw [ht]; simp) hi hm hwf1 hdecls hne hge hnid hneos rfl (by omega)
    rw [hrun]
    -- the token after the piece
    have hz : braceDepth [tsep] = lexemeDepth s.2 := by
      rw [braceDepth_single, tysep]; rfl
    have hdepth : 0 ≤ tk.indent_level + braceDepth [tsep] := by
      rw [hz, hind]
      have : -1 ≤ lexemeDepth s.2 := by
        unfold lexemeDepth
        split
        · omega
        · split <;> omega
      omega
    rw [structLoop_skip mem _ _ last _ (acc ++ decls1) (by simp only []; exact hne) hl2 hl1,
      next_token
        (@getD_cursor { tk with tokens_index := tk.tokens_index + 3 * s.1.length }
          (pre ++ lexemeTokens ptr (memberLexemes s.1)) tsep
          (lexemeTokens p2 (scopedLexemes ss) ++ post) (by rw [ht]; simp)
          (by simp [hi, lexemeTokens_length, memberLexemes_length]))
        hsepeos (by simp only []; exact hdepth)]
    simp only [bind, Except.bind]
    -- the pieces that follow
    obtain ⟨decls2, final, hrun2, hf1, hf2, hf3, hf4, hdesc2, hnometa2⟩ :=
      ih (d + lexemeDepth s.2) p2
        { tk with tokens_index := tk.tokens_index + 3 * s.1.length + 1
                  indent_level := tk.indent_level + braceDepth [tsep] }
        (pre ++ lexemeTokens ptr (memberLexemes s.1) ++ [tsep]) g tsep (acc ++ decls1)
        (by rw [ht]; simp)
        (by simp [hi, lexemeTokens_length, memberLexemes_length]; omega)
        hm2 hwfss (fun s' h' => hsegs s' (by simp [h']))
        (by simp only []; rw [hz, hind]; omega) hcl hsepid hsepeos (by omega)
    refine ⟨decls1 ++ decls2, final, ?_, hf1, hf2, ?_, hf4, ?_, ?_⟩
    · rw [hrun2, List.append_assoc]
    · rw [hf3]
      simp only [scopedLexemes_cons, List.length_append, List.length_cons,
        memberLexemes_length]
      omega
    · rw [List.map_append, hdesc1, hdesc2, scopedMembers, List.map_append]
    · intro x hx
      rcases List.mem_append.1 hx with hx | hx
      · exact hnometa1 x hx
      · exact hnometa2 x hx

/-- C31 as amended.  `ParseCPPStruct` on the tokens of `struct Name {` and a body written
in pieces, each piece some declarations (a one-word type, a name, a token after the name)
and one token that is not an identifier, braces included, the depth staying above that of
the struct until the last token brings it back: it succeeds, and the member list holds one
declaration for every declaration of every piece, in order, with the type and the name of
the source, whatever the brace depth of the piece. -/
theorem C31_every_identifier_of_the_body_adds_a_declaration (mem : List Char)
    (structLex nameLex lb : Lexeme) (segs : List (List (Lexeme × Lexeme × Lexeme) × Lexeme))
    (decl : List Lexeme) (tail : List Char) (ptr : Nat)
    (ps : CPPTokeniser) (pre post : List CPPToken) (fuel : Nat)
    (hdecl : decl = structLex :: nameLex :: lb :: scopedLexemes segs)
    (hps : ps.tokens = pre ++ lexemeTokens ptr decl ++ post)
    (hi : ps.tokens_index = pre.length) (h0 : 0 ≤ ps.indent_level)
    (hm : mem.drop ptr = renderLexemes decl ++ tail)
    (hwf : wellFormedLexemes decl tail = true)
    (hstruct : structLex.type = CPPTokenType.Identifier ∧
      (structLex.text = "struct".toList ∨ structLex.text = "class".toList))
    (hname : nameLex.type = CPPTokenType.Identifier)
    (hlb : lb.type = CPPTokenType.LeftBrace)
    (hsegs : ∀ s ∈ segs, (∀ m ∈ s.1, DeclShape m) ∧ s.2.type ≠ CPPTokenType.Identifier)
    (hcloses : scopeCloses 1 segs = true)
    (hfuel : scopedFuel segs ≤ fuel) :
    ∃ (parsed_struct : ParsedStruct) (parsed : CPPTokeniser),
      ParseCPPStruct fuel mem ps = Except.ok (true, parsed_struct, parsed) ∧
      parsed.tokens_index = pre.length + decl.length ∧
      parsed.indent_level = ps.indent_level ∧
      fmtLit mem parsed_struct.name = nameLex.text ∧
      parsed_struct.members.map (describeMember mem) =
        (scopedMembers segs).map (fun m => { type := m.1.text, name := m.2.1.text }) := by
  subst hdecl
  obtain ⟨t0, p1, e0, hm1, ty0, id0, -⟩ := lexemeTokens_peel hm
  obtain ⟨t1, p2, e1, hm2, ty1, -, fm1⟩ := lexemeTokens_peel hm1
  obtain ⟨t2, p3, e2, hm3, ty2, -, -⟩ := lexemeTokens_peel hm2
  have hlen1 := lexemeTokens_head_len e1
  simp only [wellFormedLexemes, Bool.and_eq_true] at hwf
  obtain ⟨-, hwf1, -, hwfb⟩ := hwf
  rw [e0, e1, e2] at hps
  have hps' : ps.tokens = pre ++ t0 :: t1 :: t2 ::
      (lexemeTokens p3 (scopedLexemes segs) ++ post) := by
    rw [hps]; simp
  have hid0 : IsIdentifierToken mem t0 "struct" = true ∨ IsIdentifierToken mem t0 "class" = true := by
    rcases hstruct.2 with h | h
    · exact Or.inl (identifier_token_of_text id0 hstruct.1 h)
    · exact Or.inr (identifier_token_of_text id0 hstruct.1 h)
  have ht0 : t0.type = CPPTokenType.Identifier := by rw [ty0, hstruct.1]
  have ht1 : t1.type = CPPTokenType.Identifier := by rw [ty1, hname]
  have ht2 : t2.type = CPPTokenType.LeftBrace := by rw [ty2, hlb]
  have n0 := next_plain_at ps pre t0 _ hps' hi h0 (identifier_plain ht0)
  have n1 := next_plain_at { ps with tokens_index := ps.tokens_index + 1 } (pre ++ [t0]) t1
    (t2 :: (lexemeTokens p3 (scopedLexemes segs) ++ post)) (by simp [hps']) (by simp [hi])
    h0 (identifier_plain ht1)
  have n2 := next_leftBrace_at { ps with tokens_index := ps.tokens_index + 1 + 1 }
    (pre ++ [t0, t1]) t2 (lexemeTokens p3 (scopedLexemes segs) ++ post)
    (by simp [hps']) (by simp [hi]) h0 ht2
  obtain ⟨decls, final, hrun, -, -, hidx, hdepth, hdesc, -⟩ :=
    structLoop_scopes mem ps.indent_level tail post h0 segs 1 p3
      { ps with tokens_index := ps.tokens_index + 1 + 1 + 1, indent_level := ps.indent_level + 1 }
      (pre ++ [t0, t1, t2]) fuel t2 []
      (by simp [hps']) (by simp [hi]) hm3 hwfb hsegs rfl hcloses
      (by rw [ht2]; decide) (by rw [ht2]; decide) hfuel
  have hnamelen : ¬ (t1.len = 0) := by
    rw [hlen1]
    have := lexeme_text_length_pos _ _ hwf1
    omega
  refine ⟨{ name := { str := t1.str, len := t1.len }, members := decls }, final,
    ?_, ?_, hdepth, fm1 (lexeme_text_no_nul hwf1).1, hdesc⟩
  · unfold ParseCPPStruct
    simp only [bind, Except.bind, n0, expectToken_ok mem _ t0 _ ht0, n1, ht1, ne_eq,
      reduceCtorEq, not_false_eq_true, if_true, expectToken_ok mem _ t1 _ ht1, n2]
    rcases hid0 with h | h
    · simp only [h, not_true_eq_false, false_and, or_self, if_false, hrun, List.nil_append,
        pure, Except.pure, hnamelen]
    · simp only [h, not_true_eq_false, and_false, or_self, if_false, hrun, List.nil_append,
        pure, Except.pure, hnamelen]
  · rw [hidx, hi]
    simp only [List.length_cons]
    omega

/-- C31, counterexample.  In `struct S { int x; void f() { int y; } };` the identifiers
`int y` stand inside the brace scope of the body of `f`, nested in the body of the struct;
the lexer and `ParseCPPStruct` succeed and the member list holds three declarations, the
last of them `int y`. -/
theorem C31_counterexample :
    (EnumOrStructOrFunctionLexer 40
        (fileBuffer " struct S \x7b int x; void f() \x7b int y; \x7d \x7d;") {} 0 false >>=
      fun lexed => ParseCPPStruct 40
        (fileBuffer " struct S \x7b int x; void f() \x7b int y; \x7d \x7d;") lexed.1 >>=
      fun parsed => pure (parsed.1,
        parsed.2.1.members.map
          (describeMember (fileBuffer " struct S \x7b int x; void f() \x7b int y; \x7d \x7d;"))))
      = Except.ok (true, [{ type := "int".toList, name := "x".toList },
                          { type := "void".toList, name := "f".toList },
                          { type := "int".toList, name := "y".toList }]) := by
  decide!

/-- C31 as amended, at `struct S { int x; void f() { int y; } };` parsed with the cursor
on `struct`: the members are `int x`, `void f` and the `int y` of the body of `f`. -/
theorem C31_witness :
    ∃ (parsed_struct : ParsedStruct) (parsed : CPPTokeniser),
      ParseCPPStruct 20
        (fileBuffer "DQN_INSPECT struct S \x7b int x; void f() \x7b int y; \x7d \x7d;")
        { tokens :=
            [{ type := CPPTokenType.InspectCode, str := 0, len := 52 },
             { type := CPPTokenType.Identifier, str := 12, len := 6 },
             { type := CPPTokenType.Identifier, str := 19, len := 1 },
             { type := CPPTokenType.LeftBrace, str := 21, len := 1 },
             { type := CPPTokenType.Identifier, str := 23, len := 3 },
             { type := CPPTokenType.Identifier, str := 27, len := 1 },
             { type := CPPTokenType.SemiColon, str := 28, len := 1 },
             { type := CPPTokenType.Identifier, str := 30, len := 4 },
             { type := CPPTokenType.Identifier, str := 35, len := 1 },
             { type := CPPTokenType.OpenParen, str := 36, len := 1 },
             { type := CPPTokenType.CloseParen, str := 37, len := 1 },
             { type := CPPTokenType.LeftBrace, str := 39, len := 1 },
             { type := CPPTokenType.Identifier, str := 41, len := 3 },
             { type := CPPTokenType.Identifier, str := 45, len := 1 },
             { type := CPPTokenType.SemiColon, str := 46, len := 1 },
             { type := CPPTokenType.RightBrace, str := 48, len := 1 },
             { type := CPPTokenType.RightBrace, str := 50, len := 1 },
             { type := CPPTokenType.EndOfStream }]
          tokens_index := 1 } = Except.ok (true, parsed_struct, parsed) ∧
      parsed.tokens_index = 1 + 16 ∧
      parsed.indent_level = 0 ∧
      fmtLit (fileBuffer "DQN_INSPECT struct S \x7b int x; void f() \x7b int y; \x7d \x7d;")
        parsed_struct.name = "S".toList ∧
      parsed_struct.members.map
          (describeMember
            (fileBuffer "DQN_INSPECT struct S \x7b int x; void f() \x7b int y; \x7d \x7d;")) =
        [{ type := "int".toList, name := "x".toList },
         { type := "void".toList, name := "f".toList },
         { type := "int".toList, name := "y".toList }] :=
  C31_every_identifier_of_the_body_adds_a_declaration
    (fileBuffer "DQN_INSPECT struct S \x7b int x; void f() \x7b int y; \x7d \x7d;")
    { space := [' '], text := "struct".toList, type := CPPTokenType.Identifier }
    { space := [' '], text := "S".toList, type := CPPTokenType.Identifier }
    { space := [' '], text := ['\x7b'], type := CPPTokenType.LeftBrace }
    [([({ space := [' '], text := "int".toList, type := CPPTokenType.Identifier },
        { space := [' '], text := "x".toList, type := CPPTokenType.Identifier },
        { space := [], text := [';'], type := CPPTokenType.SemiColon }),
       ({ space := [' '], text := "void".toList, type := CPPTokenType.Identifier },
        { space := [' '], text := "f".toList, type := CPPTokenType.Identifier },
        { space := [], text := ['('], type := CPPTokenType.OpenParen })],
      { space := [], text := [')'], type := CPPTokenType.CloseParen }),
     ([], { space := [' '], text := ['\x7b'], type := CPPTokenType.LeftBrace }),
     ([({ space := [' '], text := "int".toList, type := CPPTokenType.Identifier },
        { space := [' '], text := "y".toList, type := CPPTokenType.Identifier },
        { space := [], text := [';'], type := CPPTokenType.SemiColon })],
      { space := [' '], text := ['\x7d'], type := CPPTokenType.RightBrace }),
     ([], { space := [' '], text := ['\x7d'], type := CPPTokenType.RightBrace })]
    _ [';', NUL] 11 _ [{ type := CPPTokenType.InspectCode, str := 0, len := 52 }]
    [{ type := CPPTokenType.EndOfStream }] 20 rfl rfl rfl (by decide) rfl (by decide)
    (by decide) rfl rfl (by decide) (by decide) (by decide)

theorem readChar_lt {mem : List Char} {ptr : Nat} {c : Char}
    (h : readChar mem ptr = Except.ok c) : ptr < mem.length := by
  by_contra hge
  have hn : mem.get? ptr = none := List.get?_eq_none.2 (by omega)
  unfold readChar at h
  rw [hn] at h
  cases h

theorem scanWhile_bounds (p : Char → Bool) : ∀ (xs : List Char) (ptr q : Nat),
    scanWhile p xs ptr = Except.ok q → ptr ≤ q ∧ q < ptr + xs.length := by
  intro xs
  induction xs with
  | nil => intro ptr q h; unfold scanWhile at h; cases h
  | cons c rest ih =>
    intro ptr q h
    unfold scanWhile at h
    split at h
    · have := ih _ _ h
      simp only [List.length_cons]
      omega
    · simp only [pure, Except.pure, Except.ok.injEq] at h
      subst h
      simp

theorem scanWhile_drop_bounds {p : Char → Bool} {mem : List Char} {a q : Nat}
    (h : scanWhile p (mem.drop a) a = Except.ok q) : a ≤ q ∧ q < mem.length := by
  have := scanWhile_bounds p _ _ _ h
  rw [List.length_drop] at this
  omega

theorem blockCommentLoop_bounds : ∀ (xs : List Char) (ptr p : Nat),
    blockCommentLoop xs ptr = Except.ok p → ptr < p ∧ p < ptr + xs.length := by
  intro xs
  induction xs with
  | nil => intro ptr p h; unfold blockCommentLoop at h; cases h
  | cons c rest ih =>
    intro ptr p h
    unfold blockCommentLoop at h
    split at h
    · have := ih _ _ h
      simp only [List.length_cons]
      omega
    · split at h
      · cases h
      · split at h
        · simp only [pure, Except.pure, Except.ok.injEq] at h
          subst h
          simp
        · have := ih _ _ h
          simp only [List.length_cons] at this ⊢
          omega

theorem stringLoop_bounds (mem : List Char) (s : Nat) : ∀ (fuel a p : Nat) (len : Int),
    stringLoop mem s fuel a = Except.ok (p, len) →
    ∃ q, a ≤ q ∧ q < mem.length ∧ p = q + 1 ∧ len = (q : Int) - (s : Int) := by
  intro fuel
  induction fuel with
  | zero => intro a p len h; unfold stringLoop at h; cases h
  | succ fuel ih =>
    intro a p len h
    unfold stringLoop at h
    obtain ⟨q, hq, h⟩ := bind_eq_ok h
    obtain ⟨prev, -, h⟩ := bind_eq_ok h
    have hb := scanWhile_drop_bounds hq
    split at h
    · simp only [pure, Except.pure, Except.ok.injEq, Prod.mk.injEq] at h
      exact ⟨q, hb.1, hb.2, h.1.symm, h.2.symm⟩
    · obtain ⟨q2, h1, h2, h3, h4⟩ := ih _ _ _ h
      exact ⟨q2, by omega, h2, h3, h4⟩

/-- The token that the switch of the lexer makes lies between the read position before
and the read position after, which is in the buffer. -/
theorem lexToken_bounds {fuel : Nat} {mem : List Char} {str : Nat} {sc : LexScope}
    {tok : CPPToken} {ptr : Nat} {sc1 : LexScope}
    (h : lexToken fuel mem str sc = Except.ok (tok, ptr, sc1)) :
    (str : Int) ≤ tok.str ∧ 0 ≤ tok.len ∧ (tok.str : Int) + tok.len ≤ ptr ∧
      ptr ≤ mem.length := by
  unfold lexToken at h
  obtain ⟨c, hc, h⟩ := bind_eq_ok h
  have hlt := readChar_lt hc
  simp only [] at h
  by_cases h0 : c = '\x7b'
  · rw [if_pos h0] at h
    simp only [pure, Except.pure, Except.ok.injEq, Prod.mk.injEq] at h
    obtain ⟨rfl, rfl, -⟩ := h
    simp only []
    omega
  rw [if_neg h0] at h
  by_cases h1 : c = '\x7d'
  · rw [if_pos h1] at h
    simp only [pure, Except.pure, Except.ok.injEq, Prod.mk.injEq] at h
    obtain ⟨rfl, rfl, -⟩ := h
    simp only []
    omega
  rw [if_neg h1] at h
  by_cases h2 : c = '['
  · rw [if_pos h2] at h
    simp only [pure, Except.pure, Except.ok.injEq, Prod.mk.injEq] at h
    obtain ⟨rfl, rfl, -⟩ := h
    simp only []
    omega
  rw [if_neg h2] at h
  by_cases h3 : c = ']'
  · rw [if_pos h3] at h
    simp only [pure, Except.pure, Except.ok.injEq, Prod.mk.injEq] at h
    obtain ⟨rfl, rfl, -⟩ := h
    simp only []
    omega
  rw [if_neg h3] at h
  by_cases h4 : c = '('
  · rw [if_pos h4] at h
    simp only [pure, Except.pure, Except.ok.injEq, Prod.mk.injEq] at h
    obtain ⟨rfl, rfl, -⟩ := h
    simp only []
    omega
  rw [if_neg h4] at h
  by_cases h5 : c = ')'
  · rw [if_pos h5] at h
    simp only [pure, Except.pure, Except.ok.injEq, Prod.mk.injEq] at h
    obtain ⟨rfl, rfl, -⟩ := h
    simp only []
    omega
  rw [if_neg h5] at h
  by_cases h6 : c = ','
  · rw [if_pos h6] at h
    simp only [pure, Except.pure, Except.ok.injEq, Prod.mk.injEq] at h
    obtain ⟨rfl, rfl, -⟩ := h
    simp only []
    omega
  rw [if_neg h6] at h
  by_cases h7 : c = ';'
  · rw [if_pos h7] at h
    simp only [pure, Except.pure, Except.ok.injEq, Prod.mk.injEq] at h
    obtain ⟨rfl, rfl, -⟩ := h
    simp only []
    omega
  rw [if_neg h7] at h
  by_cases h8 : c = '='
  · rw [if_pos h8] at h
    simp only [pure, Except.pure, Except.ok.injEq, Prod.mk.injEq] at h
    obtain ⟨rfl, rfl, -⟩ := h
    simp only []
    omega
  rw [if_neg h8] at h
  by_cases h9 : c = '<'
  · rw [if_pos h9] at h
    simp only [pure, Except.pure, Except.ok.injEq, Prod.mk.injEq] at h
    obtain ⟨rfl, rfl, -⟩ := h
    simp only []
    omega
  rw [if_neg h9] at h
  by_cases h10 : c = '>'
  · rw [if_pos h10] at h
    simp only [pure, Except.pure, Except.ok.injEq, Prod.mk.injEq] at h
    obtain ⟨rfl, rfl, -⟩ := h
    simp only []
    omega
  rw [if_neg h10] at h
  by_cases h11 : c = ':'
  · rw [if_pos h11] at h
    simp only [pure, Except.pure, Except.ok.injEq, Prod.mk.injEq] at h
    obtain ⟨rfl, rfl, -⟩ := h
    simp only []
    omega
  rw [if_neg h11] at h
  by_cases h12 : c = '*'
  · rw [if_pos h12] at h
    simp only [pure, Except.pure, Except.ok.injEq, Prod.mk.injEq] at h
    obtain ⟨rfl, rfl, -⟩ := h
    simp only []
    omega
  rw [if_neg h12] at h
  by_cases hdot : c = '.'
  · rw [if_pos hdot] at h
    obtain ⟨c1, hc1, h⟩ := bind_eq_ok h
    split at h
    · obtain ⟨c2, hc2, h⟩ := bind_eq_ok h
      have hlt2 := readChar_lt hc2
      split at h
      all_goals
        simp only [pure, Except.pure, Except.ok.injEq, Prod.mk.injEq] at h
        obtain ⟨rfl, rfl, -⟩ := h
        simp only []
        omega
    · simp only [pure, Except.pure, Except.ok.injEq, Prod.mk.injEq] at h
      obtain ⟨rfl, rfl, -⟩ := h
      simp only []
      omega
  rw [if_neg hdot] at h
  by_cases hslash : c = '/'
  · rw [if_pos hslash] at h
    obtain ⟨n, hn, h⟩ := bind_eq_ok h
    split at h
    · obtain ⟨p1, hp1, h⟩ := bind_eq_ok h
      obtain ⟨p2, hp2, h⟩ := bind_eq_ok h
      have b1 := scanWhile_drop_bounds hp1
      have b2 := scanWhile_drop_bounds hp2
      simp only [pure, Except.pure, Except.ok.injEq, Prod.mk.injEq] at h
      obtain ⟨rfl, rfl, -⟩ := h
      simp only []
      omega
    · split at h
      · obtain ⟨p, hp, h⟩ := bind_eq_ok h
        have b := blockCommentLoop_bounds _ _ _ hp
        rw [List.length_drop] at b
        simp only [pure, Except.pure, Except.ok.injEq, Prod.mk.injEq] at h
        obtain ⟨rfl, rfl, -⟩ := h
        simp only []
        omega
      · simp only [pure, Except.pure, Except.ok.injEq, Prod.mk.injEq] at h
        obtain ⟨rfl, rfl, -⟩ := h
        simp only []
        omega
  rw [if_neg hslash] at h
  by_cases hquote : c = '"'
  · rw [if_pos hquote] at h
    obtain ⟨x, hx, h⟩ := bind_eq_ok h
    obtain ⟨q, hq1, hq2, hq3, hq4⟩ := stringLoop_bounds mem _ _ _ _ _ hx
    simp only [pure, Except.pure, Except.ok.injEq, Prod.mk.injEq] at h
    obtain ⟨rfl, rfl, -⟩ := h
    simp only []
    omega
  rw [if_neg hquote] at h
  split at h
  · obtain ⟨p, hp, h⟩ := bind_eq_ok h
    have b := scanWhile_drop_bounds hp
    simp only [pure, Except.pure, Except.ok.injEq, Prod.mk.injEq] at h
    obtain ⟨rfl, rfl, -⟩ := h
    simp only []
    omega
  · split at h
    · obtain ⟨p, hp, h⟩ := bind_eq_ok h
      have b := scanWhile_drop_bounds hp
      simp only [pure, Except.pure, Except.ok.injEq, Prod.mk.injEq] at h
      obtain ⟨rfl, rfl, -⟩ := h
      simp only []
      omega
    · simp only [pure, Except.pure, Except.ok.injEq, Prod.mk.injEq] at h
      obtain ⟨rfl, rfl, -⟩ := h
      simp only []
      omega

theorem tokensWithin_nil {lo hi : Nat} (h : lo ≤ hi) : TokensWithin lo [] hi :=
  ⟨h, by simp, List.Pairwise.nil⟩

theorem tokensWithin_cons {lo p hi : Nat} {tok : CPPToken} {ts : List CPPToken}
    (h1 : (lo : Int) ≤ tok.str) (h2 : 1 ≤ tok.len) (h3 : (tok.str : Int) + tok.len ≤ p)
    (h : TokensWithin p ts hi) : TokensWithin lo (tok :: ts) hi := by
  obtain ⟨a, b, c⟩ := h
  refine ⟨by omega, ?_, ?_⟩
  · intro t ht
    rcases List.mem_cons.1 ht with rfl | ht
    · exact ⟨h1, h2, by omega⟩
    · have := b t ht
      exact ⟨by omega, this.2.1, this.2.2⟩
  · refine List.Pairwise.cons ?_ c
    intro t ht
    have := b t ht
    omega

theorem tokensWithin_mono {lo p hi : Nat} {ts : List CPPToken} (hle : lo ≤ p)
    (h : TokensWithin p ts hi) : TokensWithin lo ts hi := by
  obtain ⟨a, b, c⟩ := h
  refine ⟨by omega, ?_, c⟩
  intro t ht
  have := b t ht
  exact ⟨by omega, this.2.1, this.2.2⟩

theorem tokensWithin_append {lo p hi : Nat} {xs ys : List CPPToken}
    (h1 : TokensWithin lo xs p) (h2 : TokensWithin p ys hi) :
    TokensWithin lo (xs ++ ys) hi := by
  obtain ⟨a1, b1, c1⟩ := h1
  obtain ⟨a2, b2, c2⟩ := h2
  refine ⟨by omega, ?_, ?_⟩
  · intro t ht
    rcases List.mem_append.1 ht with ht | ht
    · have := b1 t ht
      exact ⟨this.1, this.2.1, by omega⟩
    · have := b2 t ht
      exact ⟨by omega, this.2.1, this.2.2⟩
  · rw [List.pairwise_append]
    refine ⟨c1, c2, ?_⟩
    intro x hx y hy
    have := b1 x hx
    have := b2 y hy
    omega

/-- One pass of the lexer that returns: it appends tokens to the stream and changes
nothing else; the appended tokens lie, in order and without overlap, in the text between
the read position at the start and the one returned, which is in the buffer. -/
theorem lexPass_within (mem : List Char) (lexing_function : Bool) :
    ∀ (fuel : Nat) (tk : CPPTokeniser) (ptr : Nat) (sc : LexScope) (r : CPPTokeniser × Nat),
      lexPass mem lexing_function fuel tk ptr sc = Except.ok r →
      ∃ new : List CPPToken, r.1 = { tk with tokens := tk.tokens ++ new } ∧
        TokensWithin ptr new r.2 ∧ r.2 ≤ mem.length := by
  intro fuel
  induction fuel with
  | zero => intro tk ptr sc r h; unfold lexPass at h; cases h
  | succ fuel ih =>
    intro tk ptr sc r h
    rw [lexPass] at h
    obtain ⟨p, hp, h⟩ := bind_eq_ok h
    obtain ⟨c, hc, h⟩ := bind_eq_ok h
    have hb := scanWhile_drop_bounds hp
    split at h
    · simp only [pure, Except.pure, Except.ok.injEq] at h
      subst h
      exact ⟨[], by simp, tokensWithin_nil hb.1, by simp only []; omega⟩
    · split at h
      · cases h
      · obtain ⟨⟨tok, p1, sc1⟩, hx, h⟩ := bind_eq_ok h
        obtain ⟨t1, t2, t3, t4⟩ := lexToken_bounds hx
        simp only [] at h
        split at h
        · obtain ⟨new, e1, e2, e3⟩ := ih _ _ _ _ h
          exact ⟨new, e1, tokensWithin_mono (by omega) e2, e3⟩
        · rename_i hlen
          have hlen1 : 1 ≤ tok.len := by omega
          split at h
          · simp only [pure, Except.pure, Except.ok.injEq] at h
            subst h
            exact ⟨[tok], rfl,
              tokensWithin_cons (by omega) hlen1 t3 (tokensWithin_nil (Nat.le_refl _)), t4⟩
          · obtain ⟨new, e1, e2, e3⟩ := ih _ _ _ _ h
            refine ⟨tok :: new, ?_, tokensWithin_cons (by omega) hlen1 t3 e2, e3⟩
            rw [e1]
            simp

/-- The lexer when it returns: it appends tokens to the stream and changes nothing else;
the appended tokens lie, in order and without overlap, in the text between the read
position at the start and the one returned, which is in the buffer. -/
theorem lexer_within {fuel : Nat} {mem : List Char} {tk : CPPTokeniser} {ptr : Nat}
    {lexing_function : Bool} {r : CPPTokeniser × Nat}
    (h : EnumOrStructOrFunctionLexer fuel mem tk ptr lexing_function = Except.ok r) :
    ∃ new : List CPPToken, r.1 = { tk with tokens := tk.tokens ++ new } ∧
      TokensWithin ptr new r.2 ∧ r.2 ≤ mem.length := by
  unfold EnumOrStructOrFunctionLexer at h
  obtain ⟨x, hx, h⟩ := bind_eq_ok h
  obtain ⟨new1, a1, a2, a3⟩ := lexPass_within mem lexing_function fuel tk ptr {} x hx
  simp only [] at h
  split at h
  · obtain ⟨new2, b1, b2, b3⟩ := lexPass_within mem lexing_function fuel _ _ {} r h
    refine ⟨new1 ++ new2, ?_, tokensWithin_append a2 b2, b3⟩
    rw [b1, a1]
    simp
  · simp only [pure, Except.pure, Except.ok.injEq] at h
    subst h
    exact ⟨new1, a1, a2, a3⟩

/-- C36.  Every token that a returning call of `EnumOrStructOrFunctionLexer` appends has
a length of at least 1.  But the tokens of length zero that are dropped are not only the
lone dots: at an empty string literal the switch makes a `String` token of length zero
and moves the read position behind the literal, and the pass goes on there with the
stream as it was, so the literal leaves no token. -/
theorem C36_kept_tokens_have_length_but_an_empty_string_is_dropped (mem : List Char)
    (lexing_function : Bool) (fuel : Nat) (tokeniser : CPPTokeniser) (ptr : Nat)
    (sc : LexScope) (ws rest : List Char)
    (hm : mem.drop ptr = ws ++ '"' :: '"' :: rest)
    (hws : ∀ x ∈ ws, CharIsWhitespace x = true)
    (hroom : tokeniser.tokens.length < tokeniser.tokens_max) :
    lexToken (fuel + 1) mem (ptr + ws.length) sc =
      Except.ok ({ type := CPPTokenType.String, str := ptr + ws.length + 1, len := 0 },
        ptr + ws.length + 2, sc) ∧
    lexPass mem lexing_function (fuel + 2) tokeniser ptr sc =
      lexPass mem lexing_function (fuel + 1) tokeniser (ptr + ws.length + 2) sc ∧
    ∀ (fuel0 : Nat) (tokeniser0 : CPPTokeniser) (ptr0 : Nat) (lf : Bool)
      (r : CPPTokeniser × Nat),
      EnumOrStructOrFunctionLexer fuel0 mem tokeniser0 ptr0 lf = Except.ok r →
      ∃ new : List CPPToken, r.1.tokens = tokeniser0.tokens ++ new ∧ ∀ t ∈ new, 1 ≤ t.len := by
  have hd : mem.drop (ptr + ws.length) = '"' :: ([] ++ '"' :: rest) := drop_add_of_drop hm
  have htok := lexToken_string fuel mem (ptr + ws.length) sc [] rest hd (by simp) (by simp)
  simp only [List.length_nil, Nat.cast_zero, Nat.add_zero] at htok
  refine ⟨htok, ?_, ?_⟩
  · have hscan := scanWhile_append CharIsWhitespace ws '"' ('"' :: rest) ptr hws (by decide)
    have hr := readChar_of_drop (drop_add_of_drop hm)
    conv_lhs => unfold lexPass
    rw [hm, hscan]
    simp only [bind, Except.bind]
    rw [hr]
    have hq : ¬ ('"' = NUL) := by decide
    simp only [if_neg hq, hroom, not_true_eq_false, if_false, htok, if_true]
  · intro fuel0 tokeniser0 ptr0 lf r h
    obtain ⟨new, e1, ⟨-, b, -⟩, -⟩ := lexer_within h
    exact ⟨new, by rw [e1], fun t ht => (b t ht).2.1⟩

/-- C36 at the end of a struct whose last member `s` has an empty string literal as its
default value, read from the blank after the name: the switch makes a `String` token of
length zero at the literal, and the pass from the blank before the literal is the pass
from the blank after it. -/
theorem C36_witness :
    lexToken (7 + 1) (fileBuffer "s = \"\" \x7d") (3 + [' '].length) {} =
      Except.ok ({ type := CPPTokenType.String, str := 3 + [' '].length + 1, len := 0 },
        3 + [' '].length + 2, {}) ∧
    lexPass (fileBuffer "s = \"\" \x7d") false (7 + 2) {} 3 {} =
      lexPass (fileBuffer "s = \"\" \x7d") false (7 + 1) {} (3 + [' '].length + 2) {} ∧
    ∀ (fuel0 : Nat) (tokeniser0 : CPPTokeniser) (ptr0 : Nat) (lf : Bool)
      (r : CPPTokeniser × Nat),
      EnumOrStructOrFunctionLexer fuel0 (fileBuffer "s = \"\" \x7d") tokeniser0 ptr0 lf =
        Except.ok r →
      ∃ new : List CPPToken, r.1.tokens = tokeniser0.tokens ++ new ∧ ∀ t ∈ new, 1 ≤ t.len :=
  C36_kept_tokens_have_length_but_an_empty_string_is_dropped (fileBuffer "s = \"\" \x7d")
    false 7 {} 3 {} [' '] [' ', '\x7d', NUL] (by decide) (by decide) (by decide)

/-- The lexer on a struct `S` with the one member `char const *s` whose default value is
an empty string literal: the token after `=` is the semicolon, no token stands for the
literal, which is not a dot. -/
theorem empty_string_literal_example :
    (EnumOrStructOrFunctionLexer 40
        (fileBuffer " struct S \x7b char const *s = \"\"; \x7d;") {} 0 false >>=
      fun lexed => pure (lexed.1.tokens.map (fun t => (t.type, t.str, t.len)), lexed.2)) =
      Except.ok
        ([(CPPTokenType.Identifier, 1, 6), (CPPTokenType.Identifier, 8, 1),
          (CPPTokenType.LeftBrace, 10, 1), (CPPTokenType.Identifier, 12, 4),
          (CPPTokenType.Identifier, 17, 5), (CPPTokenType.Asterisks, 23, 1),
          (CPPTokenType.Identifier, 24, 1), (CPPTokenType.Equals, 26, 1),
          (CPPTokenType.SemiColon, 30, 1), (CPPTokenType.RightBrace, 32, 1)], 33) := by
  decide!

theorem keeps_refl (a : CPPTokeniser) : Keeps a a := fun _ h => h

theorem keeps_trans {a b c : CPPTokeniser} (h1 : Keeps a b) (h2 : Keeps b c) : Keeps a c :=
  fun D h => h2 D (h1 D h)

theorem braceDepth_of_plain {t : CPPToken}
    (h : t.type = CPPTokenType.Identifier ∨ t.type = CPPTokenType.VarArgs) :
    braceDepth [t] = 0 := by
  rw [braceDepth_single]
  rcases h with h | h <;> simp [h]

/-- The token at a cursor where the stream has not ended. -/
theorem peek_in_stream {tk : CPPTokeniser}
    (h : (CPPTokeniser_PeekToken tk).type ≠ CPPTokenType.EndOfStream) :
    tk.tokens_index < tk.tokens.length ∧
      tk.tokens.take (tk.tokens_index + 1) =
        tk.tokens.take tk.tokens_index ++ [CPPTokeniser_PeekToken tk] := by
  unfold CPPTokeniser_PeekToken at h ⊢
  by_cases hlt : tk.tokens_index < tk.tokens.length
  · refine ⟨hlt, ?_⟩
    rw [List.take_succ, List.getD_eq_getElem?_getD, List.getElem?_eq_getElem hlt]
    rfl
  · exfalso
    apply h
    rw [List.getD_eq_getElem?_getD, List.getElem?_eq_none (by omega)]
    rfl

theorem nextToken_keeps {a b : CPPTokeniser} {t : CPPToken}
    (h : CPPTokeniser_NextToken a = Except.ok (t, b)) : Keeps a b := by
  rw [nextToken_eq] at h
  by_cases he : (CPPTokeniser_PeekToken a).type = CPPTokenType.EndOfStream
  · rw [if_pos he] at h
    simp only [Except.ok.injEq, Prod.mk.injEq] at h
    rw [← h.2]
    exact keeps_refl a
  · rw [if_neg he] at h
    by_cases h0 : 0 ≤ a.indent_level + braceDepth [CPPTokeniser_PeekToken a]
    · rw [if_pos h0] at h
      simp only [Except.ok.injEq, Prod.mk.injEq] at h
      rw [← h.2]
      obtain ⟨hlt, htake⟩ := peek_in_stream he
      intro D hD
      obtain ⟨h1, h2, h3⟩ := hD
      refine ⟨hlt, ?_, ?_⟩
      · show a.indent_level + braceDepth [CPPTokeniser_PeekToken a] =
          D + braceDepth (a.tokens.take (a.tokens_index + 1))
        rw [htake, braceDepth_append, h2]
        omega
      · show ∀ t ∈ a.tokens.take (a.tokens_index + 1), t.type ≠ CPPTokenType.EndOfStream
        rw [htake]
        intro x hx
        rcases List.mem_append.1 hx with hx | hx
        · exact h3 x hx
        · simp only [List.mem_singleton] at hx
          rw [hx]
          exact he
    · rw [if_neg h0] at h
      cases h

theorem expectToken_keeps (mem : List Char) (a : CPPTokeniser) (t : CPPToken)
    (ty : CPPTokenType) : Keeps a (ExpectToken mem a t ty).2 := by
  unfold ExpectToken
  split
  · exact keeps_refl a
  · exact fun D h => h

/-- A rewind over the token read last, when it is no brace. -/
theorem rewind_depthCounted {t : CPPToken} {a : CPPTokeniser} {D : Int}
    (hl : ReadLast t a) (hne : t.type ≠ CPPTokenType.EndOfStream)
    (hb : braceDepth [t] = 0) (hD : DepthCounted D a) :
    DepthCounted D (CPPTokeniser_RewindToken a) := by
  obtain ⟨h1, h2⟩ := hl hne
  obtain ⟨d1, d2, d3⟩ := hD
  obtain ⟨k, hk⟩ : ∃ k, a.tokens_index = k + 1 := ⟨a.tokens_index - 1, by omega⟩
  have hpeek : CPPTokeniser_PeekToken (CPPTokeniser_RewindToken a) = t := h2
  have hne2 : (CPPTokeniser_PeekToken (CPPTokeniser_RewindToken a)).type ≠
      CPPTokenType.EndOfStream := by rw [hpeek]; exact hne
  obtain ⟨-, htake⟩ := peek_in_stream hne2
  have hidx : (CPPTokeniser_RewindToken a).tokens_index = k := by
    show a.tokens_index - 1 = k
    omega
  rw [hidx, hpeek] at htake
  have htake2 : a.tokens.take a.tokens_index = a.tokens.take k ++ [t] := by
    rw [hk]; exact htake
  refine ⟨?_, ?_, ?_⟩
  · show a.tokens_index - 1 ≤ a.tokens.length
    omega
  · show a.indent_level = D + braceDepth (a.tokens.take (a.tokens_index - 1))
    rw [d2, htake2, braceDepth_append, hb]
    have : a.tokens_index - 1 = k := by omega
    rw [this]
    omega
  · show ∀ x ∈ a.tokens.take (a.tokens_index - 1), x.type ≠ CPPTokenType.EndOfStream
    have : a.tokens_index - 1 = k := by omega
    rw [this]
    intro x hx
    exact d3 x (by rw [htake2]; exact List.mem_append_left _ hx)

theorem acceptToken_keeps {a b : CPPTokeniser} {ty : CPPTokenType} {t t2 : CPPToken}
    {ok : Bool} (h : CPPTokeniser_AcceptTokenIfType a ty t = Except.ok (ok, t2, b)) :
    Keeps a b := by
  unfold CPPTokeniser_AcceptTokenIfType at h
  simp only [] at h
  split at h
  · obtain ⟨x, hx, h⟩ := bind_eq_ok h
    obtain ⟨x1, x2⟩ := x
    simp only [pure, Except.pure, Except.ok.injEq, Prod.mk.injEq] at h
    obtain ⟨_, _, h3⟩ := h
    subst h3
    exact nextToken_keeps hx
  · simp only [pure, Except.pure, Except.ok.injEq, Prod.mk.injEq] at h
    obtain ⟨_, _, h3⟩ := h
    subst h3
    exact keeps_refl a

theorem consumeAsterisks_keeps : ∀ (fuel : Nat) (a : CPPTokeniser) (n : Int) (t : CPPToken)
    (r : Int × CPPToken × CPPTokeniser),
    ConsumeAsterisks fuel a n t = Except.ok r → Keeps a r.2.2 := by
  intro fuel
  induction fuel with
  | zero => intro a n t r h; unfold ConsumeAsterisks at h; cases h
  | succ fuel ih =>
    intro a n t r h
    rw [ConsumeAsterisks] at h
    simp only [] at h
    split at h
    · obtain ⟨x, hx, h⟩ := bind_eq_ok h
      exact keeps_trans (nextToken_keeps hx) (ih _ _ _ _ h)
    · simp only [pure, Except.pure, Except.ok.injEq] at h
      subst h
      exact keeps_refl a

theorem consumeConst_keeps (mem : List Char) : ∀ (fuel : Nat) (a : CPPTokeniser) (n : Bool)
    (t : CPPToken) (r : Bool × CPPToken × CPPTokeniser),
    ConsumeConstIdentifier mem fuel a n t = Except.ok r → Keeps a r.2.2 := by
  intro fuel
  induction fuel with
  | zero => intro a n t r h; unfold ConsumeConstIdentifier at h; cases h
  | succ fuel ih =>
    intro a n t r h
    rw [ConsumeConstIdentifier] at h
    simp only [] at h
    split at h
    · obtain ⟨x, hx, h⟩ := bind_eq_ok h
      exact keeps_trans (nextToken_keeps hx) (ih _ _ _ _ h)
    · simp only [pure, Except.pure, Except.ok.injEq] at h
      subst h
      exact keeps_refl a

theorem skipScope_keeps (opener closer : CPPTokenType) : ∀ (fuel : Nat) (level : Int)
    (a b : CPPTokeniser), skipScope opener closer fuel level a = Except.ok b → Keeps a b := by
  intro fuel
  induction fuel with
  | zero => intro level a b h; unfold skipScope at h; cases h
  | succ fuel ih =>
    intro level a b h
    rw [skipScope] at h
    split at h
    · simp only [pure, Except.pure, Except.ok.injEq] at h
      subst h
      exact keeps_refl a
    · obtain ⟨x, hx, h⟩ := bind_eq_ok h
      exact keeps_trans (nextToken_keeps hx) (ih _ _ _ h)

theorem templateLoop_keeps : ∀ (fuel : Nat) (d : Int) (t : CPPToken) (a : CPPTokeniser)
    (r : Int × CPPToken × CPPTokeniser),
    templateLoop fuel d t a = Except.ok r → Keeps a r.2.2 := by
  intro fuel
  induction fuel with
  | zero => intro d t a r h; unfold templateLoop at h; cases h
  | succ fuel ih =>
    intro d t a r h
    rw [templateLoop] at h
    split at h
    · obtain ⟨x, hx, h⟩ := bind_eq_ok h
      exact keeps_trans (nextToken_keeps hx) (ih _ _ _ _ h)
    · simp only [pure, Except.pure, Except.ok.injEq] at h
      subst h
      exact keeps_refl a

theorem arrayInnerLoop_keeps : ∀ (fuel : Nat) (t : CPPToken) (a : CPPTokeniser)
    (r : CPPToken × CPPTokeniser),
    arrayInnerLoop fuel t a = Except.ok r → Keeps a r.2 := by
  intro fuel
  induction fuel with
  | zero => intro t a r h; unfold arrayInnerLoop at h; cases h
  | succ fuel ih =>
    intro t a r h
    rw [arrayInnerLoop] at h
    split at h
    · obtain ⟨x, hx, h⟩ := bind_eq_ok h
      exact keeps_trans (nextToken_keeps hx) (ih _ _ _ h)
    · simp only [pure, Except.pure, Except.ok.injEq] at h
      subst h
      exact keeps_refl a

theorem arrayLoop_keeps : ∀ (fuel : Nat) (t : CPPToken) (n : Int) (a : CPPTokeniser)
    (r : CPPToken × Int × CPPTokeniser),
    arrayLoop fuel t n a = Except.ok r → Keeps a r.2.2 := by
  intro fuel
  induction fuel with
  | zero => intro t n a r h; unfold arrayLoop at h; cases h
  | succ fuel ih =>
    intro t n a r h
    rw [arrayLoop] at h
    split at h
    · obtain ⟨x, hx, h⟩ := bind_eq_ok h
      obtain ⟨y, hy, h⟩ := bind_eq_ok h
      exact keeps_trans (arrayInnerLoop_keeps _ _ _ _ hx)
        (keeps_trans (nextToken_keeps hy) (ih _ _ _ _ h))
    · simp only [pure, Except.pure, Except.ok.injEq] at h
      subst h
      exact keeps_refl a

theorem functionNameLoop_keeps : ∀ (fuel : Nat) (t : CPPToken) (a : CPPTokeniser)
    (r : CPPToken × CPPTokeniser),
    functionNameLoop fuel t a = Except.ok r → Keeps a r.2 := by
  intro fuel
  induction fuel with
  | zero => intro t a r h; unfold functionNameLoop at h; cases h
  | succ fuel ih =>
    intro t a r h
    rw [functionNameLoop] at h
    split at h
    · obtain ⟨x, hx, h⟩ := bind_eq_ok h
      exact keeps_trans (nextToken_keeps hx) (ih _ _ _ h)
    · simp only [pure, Except.pure, Except.ok.injEq] at h
      subst h
      exact keeps_refl a

theorem skipFunctionParam_keeps : ∀ (fuel : Nat) (a b : CPPTokeniser),
    SkipFunctionParam fuel a = Except.ok b → Keeps a b := by
  intro fuel
  induction fuel with
  | zero => intro a b h; unfold SkipFunctionParam at h; cases h
  | succ fuel ih =>
    intro a b h
    unfold SkipFunctionParam at h
    lift_lets at h
    extract_lets token jp2 jp1 at h
    have hjp2 : ∀ y : CPPToken × CPPTokeniser, Keeps a y.2 → jp2 y = Except.ok b →
        Keeps a b := by
      intro y hy h2
      simp -zeta only [jp2] at h2
      split at h2
      · simp only [pure, Except.pure, Except.ok.injEq] at h2
        subst h2
        exact hy
      · split at h2
        · simp only [pure, Except.pure, Except.ok.injEq] at h2
          subst h2
          exact hy
        · obtain ⟨c, hc, h2⟩ := bind_eq_ok h2
          exact keeps_trans hy (keeps_trans (nextToken_keeps hc) (ih _ _ h2))
    have hjp1 : ∀ x : CPPToken × CPPTokeniser, Keeps a x.2 → jp1 x = Except.ok b →
        Keeps a b := by
      intro x hx h1
      simp -zeta only [jp1] at h1
      split at h1
      · obtain ⟨c, hc, h1⟩ := bind_eq_ok h1
        obtain ⟨d, hd, h1⟩ := bind_eq_ok h1
        simp only [pure_bind] at h1
        exact hjp2 (CPPTokeniser_PeekToken d.2, d.2)
          (keeps_trans hx (keeps_trans (skipScope_keeps _ _ _ _ _ _ hc)
            (nextToken_keeps hd))) h1
      · simp only [pure_bind] at h1
        exact hjp2 (x.1, x.2) hx h1
    split at h
    · simp only [pure, Except.pure, Except.ok.injEq] at h
      subst h
      exact keeps_refl a
    · split at h
      · obtain ⟨c, hc, h⟩ := bind_eq_ok h
        obtain ⟨d, hd, h⟩ := bind_eq_ok h
        simp only [pure_bind] at h
        exact hjp1 (CPPTokeniser_PeekToken d.2, d.2)
          (keeps_trans (skipScope_keeps _ _ _ _ _ _ hc) (nextToken_keeps hd)) h
      · simp only [pure_bind] at h
        exact hjp1 (token, a) (keeps_refl a) h

theorem declLoop_keeps_step (mem : List Char) (fuel : Nat)
    (ihLoop : ∀ pfp tk vt token result r,
      declLoop mem pfp fuel tk vt token result = Except.ok r → Keeps tk r.2)
    (ihTail : ∀ pfp tk vt token result r,
      declTail mem pfp fuel tk vt token result = Except.ok r → Keeps tk r.2)
    (ihMeta : ∀ tk r, ParseCPPInspectMeta mem fuel tk = Except.ok r → Keeps tk r.2) :
    ∀ pfp tk vt token result r,
      declLoop mem pfp (fuel + 1) tk vt token result = Except.ok r → Keeps tk r.2 := by
  intro pfp tk vt token result r h
  unfold declLoop at h
  obtain ⟨d, hd, h⟩ := bind_eq_ok h
  obtain ⟨accepted, token1, tk1⟩ := d
  have hA1 : Keeps tk tk1 := acceptToken_keeps hd
  simp -zeta only [] at h
  lift_lets at h
  extract_lets l1 jp1 at h
  have hjp1 : ∀ x, Keeps tk x.2 → jp1 x = Except.ok r → Keeps tk r.2 := by
    intro x hx h1
    simp -zeta only [jp1] at h1
    lift_lets at h1
    extract_lets jp2 at h1
    have hjp2 : ∀ y, Keeps tk y.2.2 → jp2 y = Except.ok r → Keeps tk r.2 := by
      intro y hy h2
      simp -zeta only [jp2] at h2
      lift_lets at h2
      extract_lets peeked vtl jp3 at h2
      have hjp3 : ∀ z, Keeps tk z.2 → jp3 z = Except.ok r → Keeps tk r.2 := by
        intro z hz h3
        simp -zeta only [jp3] at h3
        obtain ⟨a, ha, h3⟩ := bind_eq_ok h3
        have hAa : Keeps tk a.2.2 := keeps_trans hz (arrayLoop_keeps _ _ _ _ _ ha)
        lift_lets at h3
        extract_lets value jp4 at h3
        have hjp4 : ∀ w, Keeps tk w.2.2 → jp4 w = Except.ok r → Keeps tk r.2 := by
          intro w hw h4
          simp -zeta only [jp4] at h4
          split at h4
          · obtain ⟨b, hb, h4⟩ := bind_eq_ok h4
            obtain ⟨c, hc, h4⟩ := bind_eq_ok h4
            have hAc : Keeps tk c := keeps_trans hw (keeps_trans
              (nextToken_keeps hb) (skipFunctionParam_keeps _ _ _ hc))
            simp only [] at h4
            split at h4
            · exact keeps_trans hAc (ihLoop _ _ _ _ _ _ h4)
            · exact keeps_trans hAc (ihTail _ _ _ _ _ _ h4)
          · exact keeps_trans hw (ihTail _ _ _ _ _ _ h4)
        split at h3
        · obtain ⟨b, hb, h3⟩ := bind_eq_ok h3
          simp only [pure_bind] at h3
          exact hjp4 (List.map (fun node => node.value) b.1, CPPTokeniser_PeekToken b.2, b.2)
            (keeps_trans hAa (ihMeta _ _ hb)) h3
        · simp only [pure_bind] at h3
          exact hjp4 ([], a.1, a.2.2) hAa h3
      split at h2
      · simp only [pure, Except.pure, Except.ok.injEq] at h2
        subst h2
        exact hy
      · split at h2
        · obtain ⟨b, hb, h2⟩ := bind_eq_ok h2
          simp only [pure_bind] at h2
          exact hjp3 (peeked, b.2) (keeps_trans hy (nextToken_keeps hb)) h2
        · simp only [pure_bind] at h2
          exact hjp3 (({} : CPPToken), y.2.2) hy h2
    obtain ⟨a, ha, h1⟩ := bind_eq_ok h1
    obtain ⟨b, hb, h1⟩ := bind_eq_ok h1
    have hAb : Keeps tk b.2.2 := keeps_trans hx (keeps_trans
      (consumeAsterisks_keeps _ _ _ _ _ ha) (consumeConst_keeps mem _ _ _ _ _ hb))
    split at h1
    · obtain ⟨c, hc, h1⟩ := bind_eq_ok h1
      obtain ⟨d, hd, h1⟩ := bind_eq_ok h1
      simp only [pure_bind] at h1
      exact hjp2 (a.1 + c.1, writeBack (writeBack (writeBack (writeBack l1 a.2.1) b.2.1) c.2.1) d.2.1,
        d.2.2) (keeps_trans hAb (keeps_trans
          (consumeAsterisks_keeps _ _ _ _ _ hc) (consumeConst_keeps mem _ _ _ _ _ hd))) h1
    · simp only [pure_bind] at h1
      exact hjp2 (a.1, writeBack (writeBack l1 a.2.1) b.2.1, b.2.2) hAb h1
  split at h
  · obtain ⟨d, hd, h⟩ := bind_eq_ok h
    simp only [pure_bind] at h
    have hAd : Keeps tk d.2.2 := keeps_trans hA1 (templateLoop_keeps _ _ _ _ _ hd)
    split at h
    · exact hjp1 _ hAd h
    · exact hjp1 _ hAd h
  · simp only [pure_bind] at h
    exact hjp1 _ hA1 h

theorem declTail_keeps_step (mem : List Char) (fuel : Nat)
    (ihLoop : ∀ pfp tk vt token result r,
      declLoop mem pfp fuel tk vt token result = Except.ok r → Keeps tk r.2) :
    ∀ pfp tk vt token result r,
      declTail mem pfp (fuel + 1) tk vt token result = Except.ok r → Keeps tk r.2 := by
  intro pfp tk vt token result r h
  rw [declTail] at h
  split at h
  · simp only [pure_bind] at h
    split at h
    · obtain ⟨a, ha, h⟩ := bind_eq_ok h
      obtain ⟨b, hb, h⟩ := bind_eq_ok h
      exact keeps_trans (nextToken_keeps ha) (keeps_trans (nextToken_keeps hb)
        (ihLoop _ _ _ _ _ _ h))
    · obtain ⟨b, hb, h⟩ := bind_eq_ok h
      exact keeps_trans (nextToken_keeps hb) (ihLoop _ _ _ _ _ _ h)
  · simp only [pure, Except.pure, Except.ok.injEq] at h
    subst h
    exact keeps_refl tk

theorem parseDecl_keeps_step (mem : List Char) (fuel : Nat)
    (ihLoop : ∀ pfp tk vt token result r,
      declLoop mem pfp fuel tk vt token result = Except.ok r → Keeps tk r.2) :
    ParseKeeps mem (fuel + 1) := by
  intro pfp tk r h
  unfold ParseCPPTypeAndVariableDecl at h
  obtain ⟨a, ha, h⟩ := bind_eq_ok h
  obtain ⟨t, tk1⟩ := a
  have hA1 : Keeps tk tk1 := nextToken_keeps ha
  have key : Keeps tk1 r.2 := by
    simp only [] at h
    split at h
    · simp only [pure, Except.pure, Except.ok.injEq] at h
      subst h
      exact keeps_refl tk1
    · obtain ⟨b, hb, h⟩ := bind_eq_ok h
      exact keeps_trans (consumeConst_keeps mem _ _ _ _ _ hb) (ihLoop _ _ _ _ _ _ h)
  exact keeps_trans hA1 key

theorem inspectMeta_keeps_step (mem : List Char) (fuel : Nat)
    (ihParse : ParseKeeps mem fuel) :
    ∀ tk r, ParseCPPInspectMeta mem (fuel + 1) tk = Except.ok r → Keeps tk r.2 := by
  intro tk r h
  unfold ParseCPPInspectMeta at h
  obtain ⟨a, ha, h⟩ := bind_eq_ok h
  have hA1 := nextToken_keeps ha
  simp only [] at h
  split at h
  · simp only [pure, Except.pure, Except.ok.injEq] at h
    subst h
    exact keeps_trans hA1 (expectToken_keeps _ _ _ _)
  · obtain ⟨b, hb, h⟩ := bind_eq_ok h
    have hA2 := keeps_trans (keeps_trans hA1 (expectToken_keeps mem a.2 a.1
      CPPTokenType.Identifier)) (nextToken_keeps hb)
    split at h
    · simp only [pure, Except.pure, Except.ok.injEq] at h
      subst h
      exact keeps_trans hA2 (expectToken_keeps _ _ _ _)
    · exact keeps_trans (keeps_trans hA2 (expectToken_keeps _ _ _ _))
        (ihParse _ _ _ h)

theorem decl_keeps (mem : List Char) : ∀ fuel : Nat,
    (∀ pfp tk vt token result r,
      declLoop mem pfp fuel tk vt token result = Except.ok r → Keeps tk r.2) ∧
    (∀ pfp tk vt token result r,
      declTail mem pfp fuel tk vt token result = Except.ok r → Keeps tk r.2) ∧
    ParseKeeps mem fuel ∧
    (∀ tk r, ParseCPPInspectMeta mem fuel tk = Except.ok r → Keeps tk r.2) := by
  intro fuel
  induction fuel using Nat.strong_induction_on with
  | _ fuel ih =>
    cases fuel with
    | zero =>
      refine ⟨?_, ?_, ?_, ?_⟩
      · intro pfp tk vt token result r h
        unfold declLoop at h
        cases h
      · intro pfp tk vt token result r h
        unfold declTail at h
        cases h
      · intro pfp tk r h
        unfold ParseCPPTypeAndVariableDecl at h
        cases h
      · intro tk r h
        unfold ParseCPPInspectMeta at h
        cases h
    | succ fuel =>
      obtain ⟨hL, hT, hP, hM⟩ := ih fuel (Nat.lt_succ_self fuel)
      exact ⟨declLoop_keeps_step mem fuel hL hT hM, declTail_keeps_step mem fuel hL,
        parseDecl_keeps_step mem fuel hL, inspectMeta_keeps_step mem fuel hP⟩

theorem parseDecl_keeps {mem : List Char} {fuel : Nat} {tk : CPPTokeniser} {pfp : Bool}
    {r : List (CPPDeclLinkedList CPPVariableDecl) × CPPTokeniser}
    (h : ParseCPPTypeAndVariableDecl mem fuel tk pfp = Except.ok r) : Keeps tk r.2 :=
  (decl_keeps mem fuel).2.2.1 pfp tk r h

theorem inspectMeta_keeps {mem : List Char} {fuel : Nat} {tk : CPPTokeniser}
    {r : List (CPPDeclLinkedList CPPVariableDecl) × CPPTokeniser}
    (h : ParseCPPInspectMeta mem fuel tk = Except.ok r) : Keeps tk r.2 :=
  (decl_keeps mem fuel).2.2.2 tk r h

/-- The declaration parser called after a rewind over the token read last, which is no
brace: the count stays that of the tokens before the cursor. -/
theorem rewind_parse_keeps {mem : List Char} {fuel : Nat} {t : CPPToken}
    {a : CPPTokeniser} {pfp : Bool}
    {r : List (CPPDeclLinkedList CPPVariableDecl) × CPPTokeniser}
    (hl : ReadLast t a) (hne : t.type ≠ CPPTokenType.EndOfStream)
    (hb : braceDepth [t] = 0)
    (h : ParseCPPTypeAndVariableDecl mem fuel (CPPTokeniser_RewindToken a) pfp = Except.ok r) :
    Keeps a r.2 :=
  fun D hD => parseDecl_keeps h D (rewind_depthCounted hl hne hb hD)

theorem enumLoop_keeps (mem : List Char) (oil : Int) : ∀ (fuel : Nat) (t : CPPToken)
    (a : CPPTokeniser) (ms : List (CPPDeclLinkedList StringLiteral))
    (r : List (CPPDeclLinkedList StringLiteral) × CPPTokeniser),
    enumLoop mem oil fuel t a ms = Except.ok r → Keeps a r.2 := by
  intro fuel
  induction fuel with
  | zero => intro t a ms r h; unfold enumLoop at h; cases h
  | succ fuel ih =>
    intro t a ms r h
    rw [enumLoop] at h
    split at h
    · simp only [pure_bind] at h
      split at h
      · split at h
        · obtain ⟨c, hc, h⟩ := bind_eq_ok h
          obtain ⟨b, hb, h⟩ := bind_eq_ok h
          exact keeps_trans (inspectMeta_keeps hc)
            (keeps_trans (nextToken_keeps hb) (ih _ _ _ _ h))
        · obtain ⟨b, hb, h⟩ := bind_eq_ok h
          exact keeps_trans (nextToken_keeps hb) (ih _ _ _ _ h)
      · obtain ⟨b, hb, h⟩ := bind_eq_ok h
        exact keeps_trans (nextToken_keeps hb) (ih _ _ _ _ h)
    · simp only [pure, Except.pure, Except.ok.injEq] at h
      subst h
      exact keeps_refl a

theorem structLoop_keeps (mem : List Char) (oil : Int) : ∀ (fuel : Nat) (t : CPPToken)
    (a : CPPTokeniser) (ms : List (CPPDeclLinkedList CPPVariableDecl))
    (r : List (CPPDeclLinkedList CPPVariableDecl) × CPPTokeniser), ReadLast t a →
    structLoop mem oil fuel t a ms = Except.ok r → Keeps a r.2 := by
  intro fuel
  induction fuel with
  | zero => intro t a ms r _ h; unfold structLoop at h; cases h
  | succ fuel ih =>
    intro t a ms r hl h
    rw [structLoop] at h
    split at h
    · rename_i hc
      simp only [pure_bind] at h
      split at h
      · rename_i hid
        obtain ⟨c, hc1, h⟩ := bind_eq_ok h
        obtain ⟨b, hb, h⟩ := bind_eq_ok h
        exact keeps_trans (rewind_parse_keeps hl hc.2 (braceDepth_of_plain (Or.inl hid)) hc1)
          (keeps_trans (nextToken_keeps hb) (ih _ _ _ _ (readLast_next hb) h))
      · obtain ⟨b, hb, h⟩ := bind_eq_ok h
        exact keeps_trans (nextToken_keeps hb) (ih _ _ _ _ (readLast_next hb) h)
    · simp only [pure, Except.pure, Except.ok.injEq] at h
      subst h
      exact keeps_refl a

theorem functionParamLoop_keeps (mem : List Char) : ∀ (fuel : Nat) (t : CPPToken)
    (a : CPPTokeniser) (ms : List (CPPDeclLinkedList CPPVariableDecl))
    (r : List (CPPDeclLinkedList CPPVariableDecl) × CPPTokeniser), ReadLast t a →
    functionParamLoop mem fuel t a ms = Except.ok r → Keeps a r.2 := by
  intro fuel
  induction fuel with
  | zero => intro t a ms r _ h; unfold functionParamLoop at h; cases h
  | succ fuel ih =>
    intro t a ms r hl h
    rw [functionParamLoop] at h
    split at h
    · rename_i hc
      simp only [pure_bind] at h
      split at h
      · rename_i hid
        obtain ⟨c, hc1, h⟩ := bind_eq_ok h
        obtain ⟨b, hb, h⟩ := bind_eq_ok h
        exact keeps_trans (rewind_parse_keeps hl hc.2 (braceDepth_of_plain hid) hc1)
          (keeps_trans (nextToken_keeps hb) (ih _ _ _ _ (readLast_next hb) h))
      · obtain ⟨b, hb, h⟩ := bind_eq_ok h
        exact keeps_trans (nextToken_keeps hb) (ih _ _ _ _ (readLast_next hb) h)
    · simp only [pure, Except.pure, Except.ok.injEq] at h
      subst h
      exact keeps_refl a

theorem defaultParamLoop_keeps : ∀ (fuel : Nat) (t : CPPToken)
    (a : CPPTokeniser) (ds : List FunctionDefaultParam)
    (r : List FunctionDefaultParam × CPPTokeniser),
    defaultParamLoop fuel t a ds = Except.ok r → Keeps a r.2 := by
  intro fuel
  induction fuel with
  | zero => intro t a ds r h; unfold defaultParamLoop at h; cases h
  | succ fuel ih =>
    intro t a ds r h
    unfold defaultParamLoop at h
    lift_lets at h
    extract_lets jp1 at h
    have hjp1 : ∀ x : List FunctionDefaultParam × CPPTokeniser, Keeps a x.2 →
        jp1 x = Except.ok r → Keeps a r.2 := by
      intro x hx h1
      simp -zeta only [jp1] at h1
      obtain ⟨b, hb, h1⟩ := bind_eq_ok h1
      exact keeps_trans hx (keeps_trans (nextToken_keeps hb) (ih _ _ _ _ h1))
    split at h
    · split at h
      · simp only [pure_bind] at h
        exact hjp1 (ds, a) (keeps_refl a) h
      · simp -zeta only [] at h
        lift_lets at h
        extract_lets name at h
        split at h
        · obtain ⟨c, hc, h⟩ := bind_eq_ok h
          simp only [pure_bind] at h
          exact hjp1 (ds, c) (skipFunctionParam_keeps _ _ _ hc) h
        · obtain ⟨c, hc, h⟩ := bind_eq_ok h
          have hA1 := nextToken_keeps hc
          split at h
          · obtain ⟨d, hd, h⟩ := bind_eq_ok h
            simp only [pure_bind] at h
            exact hjp1 (ds, d) (keeps_trans hA1 (skipFunctionParam_keeps _ _ _ hd)) h
          · lift_lets at h
            extract_lets tok2 dvs at h
            obtain ⟨d, hd, h⟩ := bind_eq_ok h
            have hA2 := keeps_trans hA1 (skipFunctionParam_keeps _ _ _ hd)
            lift_lets at h
            extract_lets pk dve at h
            split at h
            · simp only [pure_bind] at h
              exact hjp1 (ds, d) hA2 h
            · simp only [pure_bind] at h
              exact hjp1 (_, d) hA2 h
    · simp only [pure, Except.pure, Except.ok.injEq] at h
      subst h
      exact keeps_refl a

theorem parseCPPEnum_keeps {fuel : Nat} {mem : List Char} {a : CPPTokeniser}
    {r : Bool × ParsedEnum × CPPTokeniser} (h : ParseCPPEnum fuel mem a = Except.ok r) :
    Keeps a r.2.2 := by
  unfold ParseCPPEnum at h
  lift_lets at h
  extract_lets pe jp1 at h
  have hjp1 : ∀ z : ParsedEnum × CPPToken × CPPTokeniser, Keeps a z.2.2 →
      jp1 z = Except.ok r → Keeps a r.2.2 := by
    intro z hz h1
    simp only [jp1] at h1
    have hA3 := keeps_trans hz
      (expectToken_keeps mem z.2.2 z.2.1 CPPTokenType.Identifier)
    split at h1
    · simp only [pure, Except.pure, Except.ok.injEq] at h1
      subst h1
      exact hA3
    · obtain ⟨w, hw, h1⟩ := bind_eq_ok h1
      have hA4 := keeps_trans (keeps_trans hA3 (nextToken_keeps hw))
        (expectToken_keeps mem w.2 w.1 CPPTokenType.LeftBrace)
      split at h1
      · simp only [pure, Except.pure, Except.ok.injEq] at h1
        subst h1
        exact hA4
      · obtain ⟨u, hu, h1⟩ := bind_eq_ok h1
        obtain ⟨v, hv, h1⟩ := bind_eq_ok h1
        simp only [pure, Except.pure, Except.ok.injEq] at h1
        subst h1
        exact keeps_trans hA4 (keeps_trans (nextToken_keeps hu)
          (enumLoop_keeps _ _ _ _ _ _ _ hv))
  obtain ⟨x, hx, h⟩ := bind_eq_ok h
  have hA1 := keeps_trans (nextToken_keeps hx)
    (expectToken_keeps mem x.2 x.1 CPPTokenType.Identifier)
  simp -zeta only [] at h
  split at h
  · simp only [pure, Except.pure, Except.ok.injEq] at h
    subst h
    exact hA1
  · obtain ⟨y, hy, h⟩ := bind_eq_ok h
    have hA2 := keeps_trans hA1 (nextToken_keeps hy)
    split at h
    · obtain ⟨u, hu, h⟩ := bind_eq_ok h
      simp only [pure_bind] at h
      exact hjp1 (_, u.1, u.2) (keeps_trans hA2 (nextToken_keeps hu)) h
    · simp only [pure_bind] at h
      exact hjp1 (_, y.1, y.2) hA2 h

theorem expectOrBrace_keeps (mem : List Char) (a : CPPTokeniser) (t : CPPToken)
    (c : Prop) [Decidable c] :
    Keeps a (if c then ExpectToken mem a t CPPTokenType.Identifier else (true, a)).2 := by
  split
  · exact expectToken_keeps _ _ _ _
  · exact keeps_refl a

theorem parseCPPStruct_keeps {fuel : Nat} {mem : List Char} {a : CPPTokeniser}
    {r : Bool × ParsedStruct × CPPTokeniser} (h : ParseCPPStruct fuel mem a = Except.ok r) :
    Keeps a r.2.2 := by
  unfold ParseCPPStruct at h
  lift_lets at h
  extract_lets ps at h
  obtain ⟨x, hx, h⟩ := bind_eq_ok h
  have hA1 := keeps_trans (nextToken_keeps hx)
    (expectToken_keeps mem x.2 x.1 CPPTokenType.Identifier)
  simp -zeta only [] at h
  split at h
  · simp only [pure, Except.pure, Except.ok.injEq] at h
    subst h
    exact hA1
  · obtain ⟨y, hy, h⟩ := bind_eq_ok h
    have hA2 := keeps_trans (keeps_trans hA1 (nextToken_keeps hy))
      (expectOrBrace_keeps mem y.2 y.1 (y.1.type ≠ CPPTokenType.LeftBrace))
    simp only [] at h
    generalize hq : (if y.1.type ≠ CPPTokenType.LeftBrace then
      ExpectToken mem y.2 y.1 CPPTokenType.Identifier else (true, y.2)) = q at h hA2
    split at h
    · simp only [pure, Except.pure, Except.ok.injEq] at h
      subst h
      exact hA2
    · obtain ⟨u, hu, h⟩ := bind_eq_ok h
      obtain ⟨v, hv, h⟩ := bind_eq_ok h
      have hA3 := keeps_trans (keeps_trans hA2 (nextToken_keeps hu))
        (structLoop_keeps _ _ _ _ _ _ _ (readLast_next hu) hv)
      have hr : r.2.2 = v.2 := by
        split at h <;> (try split at h) <;>
          (simp only [pure, Except.pure, Except.ok.injEq] at h; subst h; rfl)
      rw [hr]
      exact hA3

theorem parseCPPVariableType_keeps {fuel : Nat} {mem : List Char} {a : CPPTokeniser}
    {type : StringLiteral} {r : Bool × StringLiteral × CPPTokeniser}
    (h : ParseCPPVariableType fuel mem a type = Except.ok r) : Keeps a r.2.2 := by
  unfold ParseCPPVariableType at h
  obtain ⟨x, hx, h⟩ := bind_eq_ok h
  have hA1 := keeps_trans (nextToken_keeps hx)
    (expectToken_keeps mem x.2 x.1 CPPTokenType.Identifier)
  try simp -zeta only [] at h
  split at h
  · simp only [pure, Except.pure, Except.ok.injEq] at h
    subst h
    exact hA1
  · lift_lets at h
    extract_lets vts jp2 jp1 at h
    have hjp2 : ∀ y : CPPTokeniser, Keeps a y → jp2 y = Except.ok r → Keeps a r.2.2 := by
      intro y hy h2
      simp only [jp2] at h2
      have hA := keeps_trans hy
        (expectToken_keeps mem y (CPPTokeniser_PeekToken y) CPPTokenType.Identifier)
      split at h2
      · simp only [pure, Except.pure, Except.ok.injEq] at h2
        subst h2
        exact hA
      · simp only [pure, Except.pure, Except.ok.injEq] at h2
        subst h2
        exact hA
    have hjp1 : ∀ y : StringLiteral × CPPTokeniser, Keeps a y.2 → jp1 y = Except.ok r →
        Keeps a r.2.2 := by
      intro y hy h1
      simp -zeta only [jp1] at h1
      obtain ⟨c, hc, h1⟩ := bind_eq_ok h1
      obtain ⟨d, hd, h1⟩ := bind_eq_ok h1
      have hA := keeps_trans hy (keeps_trans (consumeAsterisks_keeps _ _ _ _ _ hc)
        (consumeConst_keeps mem _ _ _ _ _ hd))
      split at h1
      · obtain ⟨e, he, h1⟩ := bind_eq_ok h1
        obtain ⟨f, hf, h1⟩ := bind_eq_ok h1
        simp only [pure_bind] at h1
        exact hjp2 f.2.2 (keeps_trans hA (keeps_trans
          (consumeAsterisks_keeps _ _ _ _ _ he) (consumeConst_keeps mem _ _ _ _ _ hf))) h1
      · simp only [pure_bind] at h1
        exact hjp2 d.2.2 hA h1
    obtain ⟨c, hc, h⟩ := bind_eq_ok h
    have hA2 := keeps_trans hA1 (consumeConst_keeps mem _ _ _ _ _ hc)
    try simp -zeta only [] at h
    lift_lets at h
    extract_lets pk es at h
    split at h
    · obtain ⟨d, hd, h⟩ := bind_eq_ok h
      obtain ⟨e, he, h⟩ := bind_eq_ok h
      have hA3 := keeps_trans hA2 (keeps_trans (nextToken_keeps hd)
        (templateLoop_keeps _ _ _ _ _ he))
      try simp -zeta only [] at h
      lift_lets at h
      extract_lets ee at h
      split at h
      · simp only [pure_bind] at h
        exact hjp1 (_, e.2.2) hA3 h
      · simp only [pure_bind] at h
        exact hjp1 (_, e.2.2) hA3 h
    · simp only [pure_bind] at h
      exact hjp1 (_, c.2.2) hA2 h

theorem parseCPPInspectPrototype_keeps {fuel : Nat} {mem : List Char} {a : CPPTokeniser}
    {r : Bool × ParsedFunctionPrototype × CPPTokeniser}
    (h : ParseCPPInspectPrototype fuel mem a = Except.ok r) : Keeps a r.2.2 := by
  unfold ParseCPPInspectPrototype at h
  lift_lets at h
  extract_lets pf at h
  obtain ⟨x, hx, h⟩ := bind_eq_ok h
  have hA1 := keeps_trans (nextToken_keeps hx)
    (expectToken_keeps mem x.2 x.1 CPPTokenType.InspectGeneratePrototype)
  try simp -zeta only [] at h
  split at h
  · simp only [pure, Except.pure, Except.ok.injEq] at h
    subst h
    exact hA1
  · obtain ⟨y, hy, h⟩ := bind_eq_ok h
    obtain ⟨y1, y2, y3⟩ := y
    have hA2 := keeps_trans hA1 (acceptToken_keeps hy)
    try simp -zeta only [] at h
    split at h
    · simp only [pure, Except.pure, Except.ok.injEq] at h
      subst h
      exact hA2
    · obtain ⟨z, hz, h⟩ := bind_eq_ok h
      obtain ⟨w, hw, h⟩ := bind_eq_ok h
      have hA3 := keeps_trans (keeps_trans hA2 (keeps_trans (nextToken_keeps hz)
        (defaultParamLoop_keeps _ _ _ _ _ hw)))
        (expectToken_keeps mem w.2 (CPPTokeniser_PeekToken w.2) CPPTokenType.Identifier)
      try simp only [] at h
      split at h
      · simp only [pure, Except.pure, Except.ok.injEq] at h
        subst h
        exact hA3
      · obtain ⟨v, hv, h⟩ := bind_eq_ok h
        have hA4 := keeps_trans hA3 (parseCPPVariableType_keeps hv)
        try simp only [] at h
        split at h
        · simp only [pure, Except.pure, Except.ok.injEq] at h
          subst h
          exact hA4
        · have hA5 := keeps_trans hA4
            (expectToken_keeps mem v.2.2 (CPPTokeniser_PeekToken v.2.2) CPPTokenType.Identifier)
          split at h
          · simp only [pure, Except.pure, Except.ok.injEq] at h
            subst h
            exact hA5
          · obtain ⟨u, hu, h⟩ := bind_eq_ok h
            have hA6 := keeps_trans (keeps_trans hA5 (functionNameLoop_keeps _ _ _ _ hu))
              (expectToken_keeps mem u.2 u.1 CPPTokenType.OpenParen)
            try simp only [] at h
            split at h
            · simp only [pure, Except.pure, Except.ok.injEq] at h
              subst h
              exact hA6
            · have hA7 := keeps_trans hA6
                (expectToken_keeps mem (ExpectToken mem u.2 u.1 CPPTokenType.OpenParen).2
                  (CPPTokeniser_PeekToken (ExpectToken mem u.2 u.1 CPPTokenType.OpenParen).2)
                  CPPTokenType.OpenParen)
              split at h
              · simp only [pure, Except.pure, Except.ok.injEq] at h
                subst h
                exact hA7
              · obtain ⟨s, hs, h⟩ := bind_eq_ok h
                obtain ⟨t, ht, h⟩ := bind_eq_ok h
                obtain ⟨q, hq, h⟩ := bind_eq_ok h
                simp only [pure, Except.pure, Except.ok.injEq] at h
                subst h
                exact keeps_trans hA7 (keeps_trans (nextToken_keeps hs)
                  (keeps_trans (nextToken_keeps ht)
                    (functionParamLoop_keeps _ _ _ _ _ _ (readLast_next ht) hq)))

/-- One pass of the parse loop of `main` keeps the count and the stream; when the token
it leaves for the loop test ends the stream, the cursor is on a token that does. -/
theorem parseLoopBody_keeps {fuel : Nat} {mem : List Char} {st st1 : ParseLoopState}
    {r : ParsedResult} {t : CPPToken}
    (h : parseLoopBody fuel mem st = Except.ok (r, t, st1)) :
    Keeps st.tokeniser st1.tokeniser ∧
      (t.type = CPPTokenType.EndOfStream →
        (CPPTokeniser_PeekToken st1.tokeniser).type = CPPTokenType.EndOfStream) := by
  unfold parseLoopBody at h
  simp only [] at h
  by_cases hcode : (CPPTokeniser_PeekToken st.tokeniser).type = CPPTokenType.InspectCode
  · simp only [hcode, true_or, if_true] at h
    obtain ⟨x, hx, h⟩ := bind_eq_ok h
    have hK := nextToken_keeps hx
    try simp only [] at h
    split at h
    · rename_i he
      obtain ⟨v, hv, h⟩ := bind_eq_ok h
      simp only [pure, Except.pure, Except.ok.injEq, Prod.mk.injEq] at h
      obtain ⟨-, h2, h3⟩ := h
      subst h2 h3
      refine ⟨keeps_trans hK (parseCPPEnum_keeps hv), fun hend => ?_⟩
      rw [isIdentifierToken_type he] at hend
      cases hend
    · split at h
      · rename_i hs
        obtain ⟨v, hv, h⟩ := bind_eq_ok h
        simp only [pure, Except.pure, Except.ok.injEq, Prod.mk.injEq] at h
        obtain ⟨-, h2, h3⟩ := h
        subst h2 h3
        refine ⟨keeps_trans hK (parseCPPStruct_keeps hv), fun hend => ?_⟩
        rcases hs with hs | hs
        · rw [isIdentifierToken_type hs] at hend
          cases hend
        · rw [isIdentifierToken_type hs] at hend
          cases hend
      · simp only [pure, Except.pure, Except.ok.injEq, Prod.mk.injEq] at h
        obtain ⟨-, h2, h3⟩ := h
        subst h2 h3
        exact ⟨hK, fun hend => hend⟩
  · by_cases hproto : (CPPTokeniser_PeekToken st.tokeniser).type =
        CPPTokenType.InspectGeneratePrototype
    · simp only [hproto, or_true, if_true] at h
      have hne : (CPPTokenType.InspectGeneratePrototype = CPPTokenType.InspectCode) = False := by
        simp
      simp only [hne, if_false] at h
      obtain ⟨v, hv, h⟩ := bind_eq_ok h
      have hK := parseCPPInspectPrototype_keeps hv
      try simp only [] at h
      split at h
      · simp only [pure, Except.pure, Except.ok.injEq, Prod.mk.injEq] at h
        obtain ⟨-, h2, h3⟩ := h
        subst h2 h3
        refine ⟨hK, fun hend => ?_⟩
        rw [hproto] at hend
        cases hend
      · simp only [pure, Except.pure, Except.ok.injEq, Prod.mk.injEq] at h
        obtain ⟨-, h2, h3⟩ := h
        subst h2 h3
        refine ⟨hK, fun hend => ?_⟩
        rw [hproto] at hend
        cases hend
    · simp only [hcode, hproto, or_self, if_false] at h
      obtain ⟨x, hx, h⟩ := bind_eq_ok h
      obtain ⟨hx1, -, -, hx4⟩ := nextToken_spec hx
      have hK := nextToken_keeps hx
      simp only [pure, Except.pure, Except.ok.injEq, Prod.mk.injEq] at h
      obtain ⟨-, h2, h3⟩ := h
      subst h2 h3
      refine ⟨hK, fun hend => ?_⟩
      have := hx4 hend
      simp only []
      rw [this, ← hx1]
      exact hend

/-- The parse loop of `main` when it runs to its end: the stream is as it was, the count
is kept, and the cursor is on a token that ends the stream. -/
theorem parseLoop_keeps (mem : List Char) : ∀ (fuel : Nat) (st final : ParseLoopState),
    parseLoop mem fuel st = Except.ok final →
    final.tokeniser.tokens = st.tokeniser.tokens ∧
      Keeps st.tokeniser final.tokeniser ∧
      (CPPTokeniser_PeekToken final.tokeniser).type = CPPTokenType.EndOfStream := by
  intro fuel
  induction fuel with
  | zero => intro st final h; unfold parseLoop at h; cases h
  | succ fuel ih =>
    intro st final h
    rw [parseLoop] at h
    obtain ⟨x, hx, h⟩ := bind_eq_ok h
    obtain ⟨r, t, st1⟩ := x
    obtain ⟨-, -, -, -, htok, -⟩ := parseLoopBody_call hx
    obtain ⟨hK, hend⟩ := parseLoopBody_keeps hx
    simp only [] at h
    split at h
    · rename_i he
      simp only [pure, Except.pure, Except.ok.injEq] at h
      subst h
      rw [pushed_tokeniser]
      exact ⟨htok, hK, hend he⟩
    · obtain ⟨h1, h2, h3⟩ := ih _ _ h
      rw [pushed_tokeniser] at h1 h2
      exact ⟨h1.trans htok, keeps_trans hK h2, h3⟩

/-- The cursor that stands on the first token that ends the stream, all tokens before it
being other tokens. -/
theorem cursor_at_sentinel {tokens body post : List CPPToken} {eos : CPPToken} {idx : Nat}
    (htokens : tokens = body ++ eos :: post)
    (hbody : ∀ t ∈ body, t.type ≠ CPPTokenType.EndOfStream)
    (heos : eos.type = CPPTokenType.EndOfStream)
    (hbefore : ∀ t ∈ tokens.take idx, t.type ≠ CPPTokenType.EndOfStream)
    (hat : (tokens.getD idx default).type = CPPTokenType.EndOfStream) :
    idx = body.length ∧ tokens.take idx = body := by
  have hidx : idx = body.length := by
    rcases Nat.lt_trichotomy idx body.length with hlt | heq | hgt
    · exfalso
      have hmem : tokens.getD idx default ∈ body := by
        rw [htokens, List.getD_eq_getElem?_getD, List.getElem?_append_left hlt,
          List.getElem?_eq_getElem hlt]
        exact List.getElem_mem _
      exact hbody _ hmem hat
    · exact heq
    · exfalso
      apply hbefore eos _ heos
      rw [htokens, List.take_append_eq_append_take]
      obtain ⟨k, hk⟩ : ∃ k, idx - body.length = k + 1 := ⟨idx - body.length - 1, by omega⟩
      rw [hk, List.take_succ_cons]
      simp
  refine ⟨hidx, ?_⟩
  rw [hidx, htokens, List.take_left]

/-- C35.  The parse loop of `main` runs to its end on a stream that starts at the cursor
0 and the depth 0 and whose first token that ends the stream is the sentinel after `body`:
the stream is as it was, the cursor stands on the sentinel, and the brace depth is the
number of `LeftBrace` tokens of `body` minus the number of its `RightBrace` tokens.  When
the two numbers are equal the depth is 0, it is 0 whenever the generator comes to a struct
among the results, and the generator of the struct, which asserts it, returns. -/
theorem C35_depth_after_the_parse_loop_is_the_brace_count (mem : List Char) (fuel : Nat)
    (tokeniser : CPPTokeniser) (final : ParseLoopState) (body post : List CPPToken)
    (eos : CPPToken)
    (hrun : parseLoop mem fuel { tokeniser := tokeniser } = Except.ok final)
    (htokens : tokeniser.tokens = body ++ eos :: post)
    (hbody : ∀ t ∈ body, t.type ≠ CPPTokenType.EndOfStream)
    (heos : eos.type = CPPTokenType.EndOfStream)
    (hindex : tokeniser.tokens_index = 0) (hdepth : tokeniser.indent_level = 0) :
    final.tokeniser.tokens = tokeniser.tokens ∧
    final.tokeniser.tokens_index = body.length ∧
    final.tokeniser.indent_level =
      ((tokenTypes body).count CPPTokenType.LeftBrace : Int) -
        ((tokenTypes body).count CPPTokenType.RightBrace : Int) ∧
    ((tokenTypes body).count CPPTokenType.LeftBrace =
        (tokenTypes body).count CPPTokenType.RightBrace →
      final.tokeniser.indent_level = 0 ∧
      ∀ (w1 w2 : Int) (before after : List ParsedResult) (parsed_struct : ParsedStruct)
        (out : CPPTokeniser),
        final.parsing_results = before ++ ParsedResult.Struct parsed_struct :: after →
        generateResults mem w1 w2 before final.tokeniser = Except.ok out →
        out.indent_level = 0 ∧ ∃ r, generateStruct mem parsed_struct out = Except.ok r) := by
  obtain ⟨h1, h2, h3⟩ := parseLoop_keeps mem fuel _ final hrun
  simp only [] at h1 h2
  have hstart : DepthCounted 0 tokeniser := by
    refine ⟨by omega, ?_, ?_⟩
    · rw [hindex, hdepth, List.take_zero, braceDepth_nil]
      rfl
    · rw [hindex, List.take_zero]
      intro t ht
      cases ht
  obtain ⟨-, d2, d3⟩ := h2 0 hstart
  unfold CPPTokeniser_PeekToken at h3
  rw [h1] at d2 d3 h3
  obtain ⟨hidx, htake⟩ := cursor_at_sentinel htokens hbody heos d3 h3
  have hlevel : final.tokeniser.indent_level =
      ((tokenTypes body).count CPPTokenType.LeftBrace : Int) -
        ((tokenTypes body).count CPPTokenType.RightBrace : Int) := by
    rw [d2, htake, zero_add]
    rfl
  refine ⟨h1, hidx, hlevel, fun hbal => ?_⟩
  have hzero : final.tokeniser.indent_level = 0 := by
    rw [hlevel, hbal]
    omega
  refine ⟨hzero, ?_⟩
  intro w1 w2 before after parsed_struct out _ hgen
  obtain ⟨g1, -, -⟩ := generateResults_appends mem w1 w2 before _ _ hgen
  have hout : out.indent_level = 0 := g1.trans hzero
  exact ⟨hout, _, generateStruct_eq mem parsed_struct out hout⟩

/-- C35 at the file of an enum and a struct: the lexer gives the fourteen tokens and the
sentinel, the parse loop ends with the cursor on the sentinel and the depth 2 - 2 = 0,
and the generator comes to the struct at the depth 0. -/
theorem C35_witness :
    depthExampleFinal.tokeniser.tokens =
      ({ tokens := depthExampleTokens ++ [{ type := CPPTokenType.EndOfStream }] } :
        CPPTokeniser).tokens ∧
    depthExampleFinal.tokeniser.tokens_index = depthExampleTokens.length ∧
    depthExampleFinal.tokeniser.indent_level =
      ((tokenTypes depthExampleTokens).count CPPTokenType.LeftBrace : Int) -
        ((tokenTypes depthExampleTokens).count CPPTokenType.RightBrace : Int) ∧
    ((tokenTypes depthExampleTokens).count CPPTokenType.LeftBrace =
        (tokenTypes depthExampleTokens).count CPPTokenType.RightBrace →
      depthExampleFinal.tokeniser.indent_level = 0 ∧
      ∀ (w1 w2 : Int) (before after : List ParsedResult) (parsed_struct : ParsedStruct)
        (out : CPPTokeniser),
        depthExampleFinal.parsing_results =
          before ++ ParsedResult.Struct parsed_struct :: after →
        generateResults depthExampleBuffer w1 w2 before depthExampleFinal.tokeniser =
          Except.ok out →
        out.indent_level = 0 ∧
          ∃ r, generateStruct depthExampleBuffer parsed_struct out = Except.ok r) :=
  C35_depth_after_the_parse_loop_is_the_brace_count depthExampleBuffer 60
    { tokens := depthExampleTokens ++ [{ type := CPPTokenType.EndOfStream }] }
    depthExampleFinal depthExampleTokens [] { type := CPPTokenType.EndOfStream }
    (by decide!) rfl (by decide) rfl rfl rfl

/-- The lexer on the file of the enum and the struct gives the stream of the witness; and
on a struct that the file does not close, the stream has one `LeftBrace` and no
`RightBrace`, the parse loop ends at the depth 1, and the generator stops at the assertion
of the struct. -/
theorem depth_example :
    lexFile 60 depthExampleBuffer InspectMode.All { spaces_per_indent := 4, tokens_max := 16384 } =
      Except.ok { tokens := depthExampleTokens ++ [{ type := CPPTokenType.EndOfStream }] } ∧
    (lexFile 60 (fileBuffer "DQN_INSPECT struct S \x7b int x;") InspectMode.All
        { spaces_per_indent := 4, tokens_max := 16384 } >>=
      fun tokeniser => parseLoop (fileBuffer "DQN_INSPECT struct S \x7b int x;") 60
        { tokeniser := tokeniser } >>=
      fun st => pure (tokenTypes st.tokeniser.tokens, st.tokeniser.indent_level)) =
      Except.ok ([CPPTokenType.InspectCode, CPPTokenType.Identifier, CPPTokenType.Identifier,
        CPPTokenType.LeftBrace, CPPTokenType.Identifier, CPPTokenType.Identifier,
        CPPTokenType.SemiColon, CPPTokenType.EndOfStream], 1) ∧
    inspectFile 60 (fileBuffer "DQN_INSPECT struct S \x7b int x;") InspectMode.All =
      Except.error Fault.assertFail := by
  decide!

/-! ## The cursor after a rewind, memory after the file, and the wider families of text -/

/-- C39.  A call of `EnumOrStructOrFunctionLexer` that returns leaves the tokens that were
in the stream as they were and appends tokens after them, each of a length of at least 1,
each starting at or after the end of every one appended before it, so the start offsets
are strictly increasing, and all of them between the read position at the start and the
one returned.  But they need not lie inside the lexed text: the loop of a line comment,
`while (ptr[0] != '\n') ptr++;`, has no test for the terminating NUL.  At a line comment
with no line break before the NUL of the file (`text` is the rest of the file, `arena`
the memory after the NUL up to the first line break in it) the `Comment` token runs over
the NUL to that line break, and the lexer goes on from there, outside the file. -/
theorem C39_line_comment_token_runs_past_the_end_of_the_text (mem : List Char)
    (fuel str : Nat) (sc : LexScope) (text arena rest : List Char)
    (hm : mem.drop str = '/' :: '/' :: (text ++ NUL :: (arena ++ '\n' :: rest)))
    (htext : ∀ c ∈ text, c ≠ '\n') (harena : ∀ c ∈ arena, c ≠ '\n') :
    readChar mem (str + 2 + text.length) = Except.ok NUL ∧
    lexToken fuel mem str sc =
      Except.ok ({ type := CPPTokenType.Comment, str := str + 1
                   len := (text.length : Int) + 1 + 1 + arena.length },
        str + 2 + text.length + 1 + arena.length, sc) ∧
    ∀ (fuel0 : Nat) (tokeniser : CPPTokeniser) (ptr : Nat) (lexing_function : Bool)
      (r : CPPTokeniser × Nat),
      EnumOrStructOrFunctionLexer fuel0 mem tokeniser ptr lexing_function = Except.ok r →
      ∃ new : List CPPToken,
        r.1.tokens = tokeniser.tokens ++ new ∧
        ptr ≤ r.2 ∧ r.2 ≤ mem.length ∧
        (∀ t ∈ new, (ptr : Int) ≤ t.str ∧ 1 ≤ t.len ∧ (t.str : Int) + t.len ≤ r.2) ∧
        new.Pairwise (fun a b => (a.str : Int) + a.len ≤ b.str) ∧
        new.Pairwise (fun a b => a.str < b.str) := by
  refine ⟨?_, ?_, ?_⟩
  · have h1 : mem.drop str = ('/' :: '/' :: text) ++ NUL :: (arena ++ '\n' :: rest) := by
      rw [hm]; simp
    have := readChar_of_drop (drop_add_of_drop h1)
    have e : str + ('/' :: '/' :: text).length = str + 2 + text.length := by
      simp only [List.length_cons]; omega
    rw [e] at this
    exact this
  · have hdrop : mem.drop (str + 1) = ('/' :: (text ++ NUL :: arena)) ++ '\n' :: rest := by
      have := @drop_add_of_drop mem str ['/']
        ('/' :: (text ++ NUL :: (arena ++ '\n' :: rest))) (by simpa using hm)
      simpa using this
    have hscan1 : scanWhile (fun ch => ch == ' ' || ch == '\t') (mem.drop (str + 1)) (str + 1) =
        Except.ok (str + 1) := by
      rw [hdrop]
      simp [scanWhile, pure, Except.pure]
    have hscan2 := scanWhile_append (fun ch => ch != '\n') ('/' :: (text ++ NUL :: arena)) '\n'
      rest (str + 1)
      (fun x hx => by
        rcases List.mem_cons.1 hx with rfl | h
        · decide
        · rcases List.mem_append.1 h with h | h
          · simpa using htext x h
          · rcases List.mem_cons.1 h with rfl | h
            · decide
            · simpa using harena x h) (by simp)
    rw [lexToken_slash fuel mem str sc '/' _ hm, if_pos rfl]
    simp only [bind, Except.bind, hscan1]
    rw [hdrop, hscan2]
    simp only [pure, Except.pure, List.length_cons, List.length_append, Except.ok.injEq,
      Prod.mk.injEq, CPPToken.mk.injEq, true_and, and_true]
    constructor
    · push_cast; ring
    · omega
  · intro fuel0 tokeniser ptr lexing_function r h
    obtain ⟨new, e1, ⟨a, b, c⟩, e3⟩ := lexer_within h
    refine ⟨new, by rw [e1], a, e3, b, c, ?_⟩
    have hc : ∀ x ∈ new, 1 ≤ x.len := fun x hx => (b x hx).2.1
    clear b e1 h
    induction new with
    | nil => exact List.Pairwise.nil
    | cons t ts ih =>
      rw [List.pairwise_cons] at c ⊢
      refine ⟨?_, ih c.2 (fun x hx => hc x (List.mem_cons_of_mem _ hx))⟩
      intro y hy
      have := c.1 y hy
      have := hc t (List.mem_cons_self _ _)
      omega

/-- C39, at the file `{ // x` in `pastTheEndMemory`: the NUL of the file is at offset 6;
the `Comment` token starts at offset 3 and has length 7, so it ends at offset 10, after
the NUL; the lexer returns with that token in the stream, and with the token of a brace
that stands at offset 11 in the arena. -/
theorem C39_witness :
    EnumOrStructOrFunctionLexer 10 pastTheEndMemory {} 0 false =
      Except.ok ({ tokens := [{ type := CPPTokenType.LeftBrace, str := 0, len := 1 },
                              { type := CPPTokenType.Comment, str := 3, len := 7 },
                              { type := CPPTokenType.RightBrace, str := 11, len := 1 }] }, 12) ∧
    readChar pastTheEndMemory (2 + 2 + 2) = Except.ok NUL ∧
    lexToken 9 pastTheEndMemory 2 { started_lexing_brace_scope := true, indent_level := 1 } =
      Except.ok ({ type := CPPTokenType.Comment, str := 2 + 1
                   len := ((2 : Nat) : Int) + 1 + 1 + (3 : Nat) },
        2 + 2 + 2 + 1 + 3, { started_lexing_brace_scope := true, indent_level := 1 }) :=
  ⟨by decide,
    (C39_line_comment_token_runs_past_the_end_of_the_text pastTheEndMemory 9 2
      { started_lexing_brace_scope := true, indent_level := 1 } [' ', 'x'] ['a', '.', 'h']
      ['\x7d', NUL] (by decide) (by decide) (by decide)).1,
    (C39_line_comment_token_runs_past_the_end_of_the_text pastTheEndMemory 9 2
      { started_lexing_brace_scope := true, indent_level := 1 } [' ', 'x'] ['a', '.', 'h']
      ['\x7d', NUL] (by decide) (by decide) (by decide)).2.1⟩

/-- C8.  `ParseCPPStruct` tests the name only after its loop over the members.  For every
token stream in which `struct` or `class` is directly followed by an opening brace, a
call that returns does return failure, with an empty name.  But the call need not return:
when the first member is `T name = (` and nothing closes that parenthesis before the end
of the stream, the member loop reaches the level loop of `SkipFunctionParam`, which has
no test for the end of the stream, and `ParseCPPStruct` gives no result, failure or
success, whatever the fuel. -/
theorem C8_unnamed_struct_never_returns_on_an_unclosed_default (mem : List Char)
    (tk : CPPTokeniser) (pre xs post : List CPPToken) (kw lb ty name eq lp eos : CPPToken)
    (ht : tk.tokens = pre ++ kw :: lb :: ty :: name :: eq :: lp :: (xs ++ eos :: post))
    (hi : tk.tokens_index = pre.length) (h0 : 0 ≤ tk.indent_level)
    (hkw : IsIdentifierToken mem kw "struct" = true ∨ IsIdentifierToken mem kw "class" = true)
    (hlb : lb.type = CPPTokenType.LeftBrace)
    (hty : ty.type = CPPTokenType.Identifier)
    (hname : name.type = CPPTokenType.Identifier ∧ IsIdentifierToken mem name "const" = false)
    (heq : eq.type = CPPTokenType.Equals)
    (hlp : lp.type = CPPTokenType.OpenParen) (he : eos.type = CPPTokenType.EndOfStream)
    (hxs : ∀ x ∈ xs, x.type ≠ CPPTokenType.OpenParen ∧ x.type ≠ CPPTokenType.CloseParen ∧
      x.type ≠ CPPTokenType.EndOfStream)
    (hdepth : BraceDepthOk (tk.indent_level + 1) (lp :: xs)) :
    (∀ fuel : Nat, ParseCPPStruct fuel mem tk = Except.error Fault.outOfFuel) ∧
    (¬ ∃ (fuel : Nat) (r : Bool × ParsedStruct × CPPTokeniser),
      ParseCPPStruct fuel mem tk = Except.ok r) ∧
    ∀ (tk2 : CPPTokeniser) (pre2 post2 : List CPPToken) (kw2 lb2 : CPPToken) (f : Nat)
      (r : Bool × ParsedStruct × CPPTokeniser),
      tk2.tokens = pre2 ++ kw2 :: lb2 :: post2 → tk2.tokens_index = pre2.length →
      0 ≤ tk2.indent_level →
      (IsIdentifierToken mem kw2 "struct" = true ∨ IsIdentifierToken mem kw2 "class" = true) →
      lb2.type = CPPTokenType.LeftBrace →
      ParseCPPStruct f mem tk2 = Except.ok r → r.1 = false ∧ r.2.1.name.len = 0 := by
  have key := parseCPPStruct_unclosed mem tk pre xs post kw lb ty name eq lp eos ht hi h0 hkw
    hlb hty hname heq hlp he hxs hdepth
  refine ⟨key, ?_, ?_⟩
  · rintro ⟨fuel, r, h⟩
    rw [key fuel] at h
    cases h
  · intro tk2 pre2 post2 kw2 lb2 f r ht2 hi2 h02 hkw2 hlb2 hr
    rw [parseCPPStruct_unnamed mem tk2 pre2 post2 kw2 lb2 f ht2 hi2 h02 hkw2 hlb2] at hr
    obtain ⟨a, -, hr⟩ := bind_eq_ok hr
    obtain ⟨m, -, hr⟩ := bind_eq_ok hr
    simp only [pure, Except.pure, Except.ok.injEq] at hr
    subst hr
    exact ⟨rfl, rfl⟩

/-- C8, at the file `DQN_INSPECT struct { int x = (; };`, whose tokens are the ten below:
`ParseCPPStruct`, started at `struct`, runs out of every fuel and so returns nothing,
neither failure nor success. -/
theorem C8_witness :
    ParseCPPStruct 1000 (fileBuffer "DQN_INSPECT struct \x7b int x = (; \x7d;")
        { tokens :=
          [{ type := CPPTokenType.InspectCode, str := 0, len := 34 },
           { type := CPPTokenType.Identifier, str := 12, len := 6 },
           { type := CPPTokenType.LeftBrace, str := 19, len := 1 },
           { type := CPPTokenType.Identifier, str := 21, len := 3 },
           { type := CPPTokenType.Identifier, str := 25, len := 1 },
           { type := CPPTokenType.Equals, str := 27, len := 1 },
           { type := CPPTokenType.OpenParen, str := 29, len := 1 },
           { type := CPPTokenType.SemiColon, str := 30, len := 1 },
           { type := CPPTokenType.RightBrace, str := 32, len := 1 },
           { type := CPPTokenType.EndOfStream }]
          tokens_index := 1 } = Except.error Fault.outOfFuel ∧
    ¬ ∃ (fuel : Nat) (r : Bool × ParsedStruct × CPPTokeniser),
      ParseCPPStruct fuel (fileBuffer "DQN_INSPECT struct \x7b int x = (; \x7d;")
        { tokens :=
          [{ type := CPPTokenType.InspectCode, str := 0, len := 34 },
           { type := CPPTokenType.Identifier, str := 12, len := 6 },
           { type := CPPTokenType.LeftBrace, str := 19, len := 1 },
           { type := CPPTokenType.Identifier, str := 21, len := 3 },
           { type := CPPTokenType.Identifier, str := 25, len := 1 },
           { type := CPPTokenType.Equals, str := 27, len := 1 },
           { type := CPPTokenType.OpenParen, str := 29, len := 1 },
           { type := CPPTokenType.SemiColon, str := 30, len := 1 },
           { type := CPPTokenType.RightBrace, str := 32, len := 1 },
           { type := CPPTokenType.EndOfStream }]
          tokens_index := 1 } = Except.ok r := by
  have key := C8_unnamed_struct_never_returns_on_an_unclosed_default
    (fileBuffer "DQN_INSPECT struct \x7b int x = (; \x7d;")
    { tokens :=
          [{ type := CPPTokenType.InspectCode, str := 0, len := 34 },
           { type := CPPTokenType.Identifier, str := 12, len := 6 },
           { type := CPPTokenType.LeftBrace, str := 19, len := 1 },
           { type := CPPTokenType.Identifier, str := 21, len := 3 },
           { type := CPPTokenType.Identifier, str := 25, len := 1 },
           { type := CPPTokenType.Equals, str := 27, len := 1 },
           { type := CPPTokenType.OpenParen, str := 29, len := 1 },
           { type := CPPTokenType.SemiColon, str := 30, len := 1 },
           { type := CPPTokenType.RightBrace, str := 32, len := 1 },
           { type := CPPTokenType.EndOfStream }],
      tokens_index := 1 }
    [{ type := CPPTokenType.InspectCode, str := 0, len := 34 }]
    [{ type := CPPTokenType.SemiColon, str := 30, len := 1 },
     { type := CPPTokenType.RightBrace, str := 32, len := 1 }] []
    { type := CPPTokenType.Identifier, str := 12, len := 6 }
    { type := CPPTokenType.LeftBrace, str := 19, len := 1 }
    { type := CPPTokenType.Identifier, str := 21, len := 3 }
    { type := CPPTokenType.Identifier, str := 25, len := 1 }
    { type := CPPTokenType.Equals, str := 27, len := 1 }
    { type := CPPTokenType.OpenParen, str := 29, len := 1 }
    { type := CPPTokenType.EndOfStream } rfl rfl (by decide) (Or.inl (by decide)) rfl rfl
    (by decide) rfl rfl rfl (by decide) (by decide)
  exact ⟨key.1 1000, key.2.1⟩

/-- The lexer on the text of well-formed lexemes, when its test for the end of the scope
succeeds first at the last of them: whatever the fuel, a pass that returns has made their
tokens and returns the offset right after the last lexeme. -/
theorem lexPass_lexemes_stop_of_ok (mem : List Char) (lf : Bool) (ls : List Lexeme) :
    ∀ (tail : List Char) (fuel : Nat) (tokeniser : CPPTokeniser) (ptr : Nat) (sc : LexScope)
      (x : CPPTokeniser × Nat),
      wellFormedLexemes ls tail = true → mem.drop ptr = renderLexemes ls ++ tail →
      StopsAtLast lf sc (ls.map (fun l => l.type)) →
      tokeniser.tokens.length + ls.length ≤ tokeniser.tokens_max →
      lexPass mem lf fuel tokeniser ptr sc = Except.ok x →
      x = ({ tokeniser with tokens := tokeniser.tokens ++ lexemeTokens ptr ls },
          ptr + (renderLexemes ls).length) := by
  induction ls with
  | nil => intro tail fuel tokeniser ptr sc x _ _ hstop; exact absurd rfl hstop.1
  | cons l ls ih =>
    intro tail fuel tokeniser ptr sc x hwf hm hstop hroom h
    simp only [wellFormedLexemes, Bool.and_eq_true] at hwf
    obtain ⟨hl, hwf1⟩ := hwf
    cases fuel with
    | zero => unfold lexPass at h; cases h
    | succ fuel =>
      have hm1 : mem.drop ptr = l.render ++ (renderLexemes ls ++ tail) := by
        rw [hm]; simp [renderLexemes, List.append_assoc]
      rw [lexPass_lexeme mem lf fuel tokeniser ptr sc l _ hl hm1
        (by simp at hroom; omega)] at h
      rcases stopsAtLast_cons (by simpa using hstop) with ⟨hnil, hs⟩ | ⟨hs, hrest⟩
      · have hls : ls = [] := by simpa using hnil
        subst hls
        rw [if_pos hs] at h
        simp only [Except.ok.injEq] at h
        subst h
        simp [lexemeTokens, renderLexemes, Lexeme.render, Nat.add_assoc]
      · rw [if_neg (by simp [hs])] at h
        have hm2 : mem.drop (ptr + l.space.length + l.text.length) =
            renderLexemes ls ++ tail := by
          have := @drop_add_of_drop mem ptr l.render _ hm1
          simpa [Lexeme.render, Nat.add_assoc] using this
        rw [ih tail fuel _ _ _ x hwf1 hm2 hrest (by simp at hroom ⊢; omega) h]
        simp [lexemeTokens, renderLexemes, Lexeme.render, Nat.add_assoc]

/-- C10.  Lexing a function prototype (`lexing_function` true) over the macro call (an
opening parenthesis, the lexemes `args`, a closing parenthesis, the parentheses of `args`
nesting properly) and a declaration that starts with the lexemes `front`, which hold no
parenthesis, an opening parenthesis and the lexemes `params`, which do not close it, and
goes on with a character for which the lexer has no token kind (the `&` of a reference
parameter, the `-` of a negative default value).  The first pass stops right after the
`)` that closes the macro call, as the claim says.  The second pass does not stop after
the `)` that closes the parameter list: it never gets there, it stays at that character,
and `EnumOrStructOrFunctionLexer` returns no position, whatever the fuel. -/
theorem C10_second_pass_never_returns_at_a_character_without_token_kind (mem : List Char)
    (args front params : List Lexeme) (op cp op2 : Lexeme) (call decl : List Lexeme)
    (ws : List Char) (c : Char) (rest : List Char) (tokeniser : CPPTokeniser) (ptr : Nat)
    (hcall : call = op :: (args ++ [cp])) (hdecl : decl = front ++ op2 :: params)
    (hop : op.type = CPPTokenType.OpenParen) (hcp : cp.type = CPPTokenType.CloseParen)
    (hop2 : op2.type = CPPTokenType.OpenParen)
    (hargs : Balanced CPPTokenType.OpenParen CPPTokenType.CloseParen (lexemeTypes args))
    (hfront : ∀ l ∈ front,
      l.type ≠ CPPTokenType.OpenParen ∧ l.type ≠ CPPTokenType.CloseParen)
    (hparams : ∀ k, k ≤ params.length →
      0 ≤ scopeDepth CPPTokenType.OpenParen CPPTokenType.CloseParen
        (lexemeTypes (params.take k)))
    (hwf : wellFormedLexemes (call ++ decl) (ws ++ c :: rest) = true)
    (hm : mem.drop ptr = renderLexemes (call ++ decl) ++ (ws ++ c :: rest))
    (hws : ∀ x ∈ ws, CharIsWhitespace x = true) (hkind : noTokenKind c = true)
    (hroom : tokeniser.tokens.length + (call ++ decl).length ≤ tokeniser.tokens_max) :
    (∀ fuel : Nat, call.length ≤ fuel →
      lexPass mem true fuel tokeniser ptr {} =
        Except.ok ({ tokeniser with tokens := tokeniser.tokens ++ lexemeTokens ptr call },
          ptr + (renderLexemes (op :: args)).length + cp.space.length + 1)) ∧
    ∀ (fuel : Nat) (r : CPPTokeniser × Nat),
      EnumOrStructOrFunctionLexer fuel mem tokeniser ptr true ≠ Except.ok r := by
  subst hcall hdecl
  obtain ⟨hwf1, hwf2⟩ := wellFormedLexemes_append hwf
  have hm1 : mem.drop ptr = renderLexemes ([] ++ op :: (args ++ [cp])) ++
      (renderLexemes (front ++ op2 :: params) ++ (ws ++ c :: rest)) := by
    rw [hm, renderLexemes_append]; simp [List.append_assoc]
  have hstop : StopsAtLast true {} ((op :: (args ++ [cp])).map (fun l => l.type)) := by
    have := stopsAtLast_scope true [] (lexemeTypes args) (by simp) hargs
    simpa [lexemeTypes, hop, hcp, scopeOpener, scopeCloser] using this
  have hnever : NeverStops true {} ((front ++ op2 :: params).map (fun l => l.type)) := by
    have := neverStops_open true (lexemeTypes front) (lexemeTypes params)
      (by
        intro ty hty
        simp only [lexemeTypes, List.mem_map] at hty
        obtain ⟨l, hl, rfl⟩ := hty
        exact hfront l hl)
      (by
        intro k hk
        have := hparams k (by simpa [lexemeTypes] using hk)
        simpa [lexemeTypes, List.map_take] using this)
    simpa [lexemeTypes, hop2, scopeOpener] using this
  have hm2 : mem.drop (ptr + (renderLexemes (op :: (args ++ [cp]))).length) =
      renderLexemes (front ++ op2 :: params) ++ (ws ++ c :: rest) := by
    apply drop_add_of_drop
    rw [hm, renderLexemes_append, List.append_assoc]
  have hnot : ∀ (fuel : Nat) (r : CPPTokeniser × Nat),
      EnumOrStructOrFunctionLexer fuel mem tokeniser ptr true ≠ Except.ok r := by
    intro fuel r h
    unfold EnumOrStructOrFunctionLexer at h
    obtain ⟨x, hx, h2⟩ := bind_eq_ok h
    have hx' := lexPass_lexemes_stop_of_ok mem true (op :: (args ++ [cp])) _ fuel tokeniser ptr
      {} x hwf1 (by simpa using hm1) hstop (by simp at hroom ⊢; omega) hx
    subst hx'
    simp only [if_true] at h2
    exact lexPass_lexemes_noTokenKind mem true ws c rest hws hkind (front ++ op2 :: params) fuel
      _ _ {} r hwf2 hm2 hnever
      (by
        simp only [List.length_append, lexemeTokens_length]
        simp only [List.length_append] at hroom
        omega) h2
  refine ⟨?_, hnot⟩
  intro fuel hfuel
  obtain ⟨p1, -, -, -⟩ := lexPass_scope mem true [] args op cp _ fuel tokeniser ptr hop hcp
    (by simp) hargs (by simpa using hwf1) hm1
    (by simp at hroom ⊢; omega) (by simpa using hfuel)
  simpa using p1

/-- C10, at the text `() void f(Foo &x);` that follows the marker of a prototype: the
first pass stops at offset 2, right after the `)` of the macro call, and the lexer never
returns: the second pass stays at the `&` at offset 14. -/
theorem C10_witness :
    (∀ fuel : Nat, 2 ≤ fuel →
      lexPass (fileBuffer "() void f(Foo &x);") true fuel {} 0 {} =
        Except.ok ({ tokens := [{ type := CPPTokenType.OpenParen, str := 0, len := 1 },
                                { type := CPPTokenType.CloseParen, str := 1, len := 1 }] }, 2)) ∧
    ∀ (fuel : Nat) (r : CPPTokeniser × Nat),
      EnumOrStructOrFunctionLexer fuel (fileBuffer "() void f(Foo &x);") {} 0 true ≠
        Except.ok r :=
  C10_second_pass_never_returns_at_a_character_without_token_kind
    (fileBuffer "() void f(Foo &x);") []
    [{ space := [' '], text := "void".toList, type := CPPTokenType.Identifier },
     { space := [' '], text := "f".toList, type := CPPTokenType.Identifier }]
    [{ space := [], text := "Foo".toList, type := CPPTokenType.Identifier }]
    { space := [], text := ['('], type := CPPTokenType.OpenParen }
    { space := [], text := [')'], type := CPPTokenType.CloseParen }
    { space := [], text := ['('], type := CPPTokenType.OpenParen }
    _ _ [' '] '&' ("x);".toList ++ [NUL]) {} 0 rfl rfl rfl rfl rfl (by decide) (by decide)
    (by decide) (by decide) (by decide) (by decide) (by decide) (by decide)

/-- C11 as amended.  An iteration of the lexer that meets, after the whitespace `ws`, a
closing brace or a closing parenthesis, whatever the depth counters `sc` are.  The switch
does not test the counters: it makes the token of the closer and lowers the counter of
its kind by one.  The pass does not abort there: it appends that token and either stops
(when its test for the end of the scope succeeds) or goes on from the next character.
When the closer is of the kind that the pass follows (a closing parenthesis when lexing a
function, a closing brace otherwise) and no unmatched opener precedes it (its counter is 0
or less), the counter is negative afterwards, the test for the end of the scope fails and
the pass goes on from the next character with the token of the closer in the stream.  The
abort on a brace depth below zero is made later, by `CPPTokeniser_NextToken`, when the
parser takes a closing brace at depth zero. -/
theorem C11_lexer_lowers_the_depth_below_zero_and_goes_on (mem : List Char) (lf : Bool)
    (fuel : Nat) (tokeniser : CPPTokeniser) (ptr : Nat) (sc : LexScope) (ws : List Char)
    (c : Char) (rest : List Char) (ty : CPPTokenType)
    (hc : (c = '\x7d' ∧ ty = CPPTokenType.RightBrace) ∨
      (c = ')' ∧ ty = CPPTokenType.CloseParen))
    (hm : mem.drop ptr = ws ++ c :: rest) (hws : ∀ x ∈ ws, CharIsWhitespace x = true)
    (hroom : tokeniser.tokens.length < tokeniser.tokens_max) :
    lexToken fuel mem (ptr + ws.length) sc =
      Except.ok ({ type := ty, str := ptr + ws.length, len := 1 }, ptr + ws.length + 1,
        if c = '\x7d' then { sc with indent_level := sc.indent_level - 1 }
        else { sc with paren_level := sc.paren_level - 1 }) ∧
    lexPass mem lf (fuel + 1) tokeniser ptr sc =
      (if lexStop lf (if c = '\x7d' then { sc with indent_level := sc.indent_level - 1 }
          else { sc with paren_level := sc.paren_level - 1 }) = true then
        Except.ok ({ tokeniser with tokens := tokeniser.tokens ++
          [{ type := ty, str := ptr + ws.length, len := 1 }] }, ptr + ws.length + 1)
      else
        lexPass mem lf fuel { tokeniser with tokens := tokeniser.tokens ++
          [{ type := ty, str := ptr + ws.length, len := 1 }] } (ptr + ws.length + 1)
          (if c = '\x7d' then { sc with indent_level := sc.indent_level - 1 }
           else { sc with paren_level := sc.paren_level - 1 })) ∧
    (ty = scopeCloser lf → (if lf then sc.paren_level else sc.indent_level) ≤ 0 →
      (if lf then sc.paren_level - 1 else sc.indent_level - 1) < 0 ∧
      lexPass mem lf (fuel + 1) tokeniser ptr sc =
        lexPass mem lf fuel { tokeniser with tokens := tokeniser.tokens ++
          [{ type := ty, str := ptr + ws.length, len := 1 }] } (ptr + ws.length + 1)
          (if lf then { sc with paren_level := sc.paren_level - 1 }
           else { sc with indent_level := sc.indent_level - 1 })) ∧
    (∀ (tk : CPPTokeniser) (t : CPPToken), tk.tokens.getD tk.tokens_index default = t →
      t.type = CPPTokenType.RightBrace → tk.indent_level = 0 →
      CPPTokeniser_NextToken tk = Except.error Fault.assertFail) := by
  have hd : (c, ty) ∈ delimiterTable := by
    rw [mem_delimiterTable_iff]
    rcases hc with ⟨rfl, rfl⟩ | ⟨rfl, rfl⟩
    · exact Or.inr (Or.inl ⟨rfl, rfl⟩)
    · exact Or.inr (Or.inr (Or.inr (Or.inr (Or.inr (Or.inl ⟨rfl, rfl⟩)))))
  have hscope : typeScope sc ty =
      (if c = '\x7d' then { sc with indent_level := sc.indent_level - 1 }
       else { sc with paren_level := sc.paren_level - 1 }) := by
    rcases hc with ⟨rfl, rfl⟩ | ⟨rfl, rfl⟩
    · rfl
    · rw [if_neg (by decide)]; rfl
  have htok := lexToken_delimiter fuel mem (ptr + ws.length) sc c rest ty (drop_add_of_drop hm) hd
  rw [hscope] at htok
  have hstep := lexPass_step mem lf fuel tokeniser ptr sc ws c rest _ _ _ hm hws
    (delimiter_not_space hd).1 (delimiter_not_space hd).2 hroom htok (by simp)
  refine ⟨htok, hstep, ?_, next_rightBrace_aborts⟩
  intro hty hdepth
  cases lf with
  | false =>
    have hcb : c = '\x7d' := by
      rcases hc with ⟨h, -⟩ | ⟨-, h⟩
      · exact h
      · rw [h] at hty; cases hty
    simp only [Bool.false_eq_true, if_false] at hdepth ⊢
    refine ⟨by omega, ?_⟩
    rw [hstep, if_pos hcb, if_neg]
    simp only [lexStop, Bool.false_eq_true, if_false, Bool.and_eq_true, beq_iff_eq, not_and]
    intro _
    omega
  | true =>
    have hcb : c ≠ '\x7d' := by
      rcases hc with ⟨-, h⟩ | ⟨h, -⟩
      · rw [h] at hty; cases hty
      · rw [h]; decide
    simp only [if_true] at hdepth ⊢
    refine ⟨by omega, ?_⟩
    rw [hstep, if_neg hcb, if_neg]
    simp only [lexStop, if_true, Bool.and_eq_true, beq_iff_eq, not_and]
    intro _
    omega

/-- C11 as amended, at the text `} } { x` lexed as a struct from depth 0: the first `}`
gets its token, the depth after it is `-1`, and the pass goes on at offset 1; it lexes the
whole text, four tokens, and ends at the NUL. -/
theorem C11_witness :
    lexPass (fileBuffer "\x7d \x7d \x7b x") false 10 {} 0 {} =
      Except.ok ({ tokens := [{ type := CPPTokenType.RightBrace, str := 0, len := 1 },
                              { type := CPPTokenType.RightBrace, str := 2, len := 1 },
                              { type := CPPTokenType.LeftBrace, str := 4, len := 1 },
                              { type := CPPTokenType.Identifier, str := 6, len := 1 }] }, 7) ∧
    ((0 : Int) - 1 < 0 ∧
      lexPass (fileBuffer "\x7d \x7d \x7b x") false (9 + 1) {} 0 {} =
        lexPass (fileBuffer "\x7d \x7d \x7b x") false 9
          { tokens := [{ type := CPPTokenType.RightBrace, str := 0, len := 1 }] } 1
          { indent_level := -1 }) :=
  ⟨by decide,
    (C11_lexer_lowers_the_depth_below_zero_and_goes_on (fileBuffer "\x7d \x7d \x7b x") false 9
      {} 0 {} [] '\x7d' [' ', '\x7d', ' ', '\x7b', ' ', 'x', NUL] CPPTokenType.RightBrace
      (Or.inl ⟨rfl, rfl⟩) (by decide) (by decide) (by decide)).2.2.1 rfl (by decide)⟩

/-- C3, counterexample.  In `enum E { A = 1, B = A };` two variants are declared, `A` and
`B`; the lexer and `ParseCPPEnum` succeed and the string table that is written has three
entries, `"A"`, `"B"` and `"A"`: the identifier of the initializer of `B` is recorded as
a variant.  On `enum E : int { A, B };`, an enum with an underlying type, and on
`enum { A, B };`, an enum without a name, `ParseCPPEnum` prints a diagnostic and returns
failure with no variant recorded, so no table is written. -/
theorem C3_counterexample :
    (EnumOrStructOrFunctionLexer 20 (fileBuffer " enum E \x7b A = 1, B = A \x7d;") {} 0 false >>=
      fun lexed => ParseCPPEnum 20 (fileBuffer " enum E \x7b A = 1, B = A \x7d;") lexed.1 >>=
      fun parsed => pure (parsed.1,
        parsed.2.1.members.map (fun m => fmtLit (fileBuffer " enum E \x7b A = 1, B = A \x7d;") m.value),
        (writeEnumStrings (fileBuffer " enum E \x7b A = 1, B = A \x7d;") parsed.2.1.members {}).output_file))
      = Except.ok (true, ["A".toList, "B".toList, "A".toList],
          "\"A\", \"B\", \"A\", ".toList) ∧
    (EnumOrStructOrFunctionLexer 20 (fileBuffer " enum E : int \x7b A, B \x7d;") {} 0 false >>=
      fun lexed => ParseCPPEnum 20 (fileBuffer " enum E : int \x7b A, B \x7d;") lexed.1 >>=
      fun parsed => pure (parsed.1, parsed.2.1.members, parsed.2.2.output_file))
      = Except.ok (false, [],
          "Expected token type: \x7b received: :\nContext: :\n\n".toList) ∧
    (EnumOrStructOrFunctionLexer 20 (fileBuffer " enum \x7b A, B \x7d;") {} 0 false >>=
      fun lexed => ParseCPPEnum 20 (fileBuffer " enum \x7b A, B \x7d;") lexed.1 >>=
      fun parsed => pure (parsed.1, parsed.2.1.members, parsed.2.2.output_file))
      = Except.ok (false, [],
          "Expected token type: Identifier received: \x7b\nContext: \x7b\n\n".toList) := by
  refine ⟨by decide, by decide, by decide⟩

theorem parseLoopBody_pass {fuel : Nat} {mem : List Char} {st st1 : ParseLoopState}
    {r : ParsedResult} {t : CPPToken}
    (h : parseLoopBody fuel mem st = Except.ok (r, t, st1))
    {call : Option (Bool × ParsedResult × CPPTokeniser)}
    (hcall : routineCall fuel mem st.tokeniser = Except.ok call) :
    LoopPass.leaves { start := st.tokeniser, call := call } = Except.ok st1.tokeniser ∧
      LoopPass.token { start := st.tokeniser, call := call } = Except.ok t := by
  unfold parseLoopBody at h
  unfold routineCall at hcall
  unfold LoopPass.leaves LoopPass.token
  simp only [] at h hcall ⊢
  by_cases hcode : (CPPTokeniser_PeekToken st.tokeniser).type = CPPTokenType.InspectCode
  · simp only [hcode, true_or, if_true] at h hcall ⊢
    obtain ⟨x, hx, h⟩ := bind_eq_ok h
    rw [hx] at hcall ⊢
    simp only [bind, Except.bind] at h hcall ⊢
    split at h
    · rename_i he
      simp only [he, if_true] at hcall
      cases hp : ParseCPPEnum fuel mem x.2 with
      | error e => rw [hp] at h; cases h
      | ok v =>
        rw [hp] at h hcall
        obtain ⟨ok, pe, tk⟩ := v
        simp only [pure, Except.pure, Except.ok.injEq, Prod.mk.injEq] at h hcall
        obtain ⟨h1, h2, h3⟩ := h
        subst h1 h2 h3 hcall
        exact ⟨rfl, rfl⟩
    · rename_i he
      simp only [he, Bool.false_eq_true, if_false] at hcall
      split at h
      · rename_i hs
        simp only [hs, if_true] at hcall
        cases hp : ParseCPPStruct fuel mem x.2 with
        | error e => rw [hp] at h; cases h
        | ok v =>
          rw [hp] at h hcall
          obtain ⟨ok, pe, tk⟩ := v
          simp only [pure, Except.pure, Except.ok.injEq, Prod.mk.injEq] at h hcall
          obtain ⟨h1, h2, h3⟩ := h
          subst h1 h2 h3 hcall
          exact ⟨rfl, rfl⟩
      · rename_i hs
        simp only [hs, if_false] at hcall
        simp only [pure, Except.pure, Except.ok.injEq, Prod.mk.injEq] at h hcall
        obtain ⟨h1, h2, h3⟩ := h
        subst h1 h2 h3 hcall
        simp only [hx, bind, Except.bind, pure, Except.pure]
        first | exact ⟨rfl, rfl⟩ | simp
  · by_cases hproto : (CPPTokeniser_PeekToken st.tokeniser).type =
        CPPTokenType.InspectGeneratePrototype
    · simp only [hproto, or_true, if_true] at h hcall ⊢
      have hne : (CPPTokenType.InspectGeneratePrototype = CPPTokenType.InspectCode) = False := by
        simp
      simp only [hne, if_false] at h hcall ⊢
      cases hp : ParseCPPInspectPrototype fuel mem st.tokeniser with
      | error e => rw [hp] at h; cases h
      | ok v =>
        rw [hp] at h hcall
        obtain ⟨ok, pe, tk⟩ := v
        simp only [bind, Except.bind, pure, Except.pure, Except.ok.injEq] at h hcall
        subst hcall
        cases ok with
        | true =>
          simp only [if_true, Except.ok.injEq, Prod.mk.injEq] at h
          obtain ⟨h1, h2, h3⟩ := h
          subst h1 h2 h3
          exact ⟨rfl, rfl⟩
        | false =>
          simp only [Bool.false_eq_true, if_false, Except.ok.injEq, Prod.mk.injEq] at h
          obtain ⟨h1, h2, h3⟩ := h
          subst h1 h2 h3
          exact ⟨rfl, rfl⟩
    · simp only [hcode, hproto, or_self, if_false] at h hcall ⊢
      obtain ⟨x, hx, h⟩ := bind_eq_ok h
      simp only [pure, Except.pure, Except.ok.injEq, Prod.mk.injEq] at h hcall
      obtain ⟨h1, h2, h3⟩ := h
      subst h1 h2 h3 hcall
      simp only [hx, bind, Except.bind, pure, Except.pure]
      first | exact ⟨rfl, rfl⟩ | simp

/-- A run of the parse loop has one list of passes and one final tokeniser. -/
theorem loopRun_unique (mem : List Char) : ∀ (p1 p2 : List LoopPass) (fuel : Nat)
    (start f1 f2 : CPPTokeniser),
    LoopRun mem fuel start p1 f1 → LoopRun mem fuel start p2 f2 → p1 = p2 ∧ f1 = f2 := by
  intro p1
  induction p1 with
  | nil => intro p2 fuel start f1 f2 h1; exact absurd h1 (by simp [LoopRun])
  | cons a r1 ih =>
    intro p2 fuel start f1 f2 h1 h2
    cases p2 with
    | nil => exact absurd h2 (by simp [LoopRun])
    | cons b r2 =>
      have hab : a = b := by
        have ha : a.start = start ∧ routineCall (fuel - 1) mem start = Except.ok a.call := by
          cases r1 with
          | nil => exact ⟨h1.1, h1.2.1⟩
          | cons _ _ => exact ⟨h1.1, h1.2.1⟩
        have hb : b.start = start ∧ routineCall (fuel - 1) mem start = Except.ok b.call := by
          cases r2 with
          | nil => exact ⟨h2.1, h2.2.1⟩
          | cons _ _ => exact ⟨h2.1, h2.2.1⟩
        obtain ⟨a1, a2⟩ := ha
        obtain ⟨b1, b2⟩ := hb
        rw [a2] at b2
        simp only [Except.ok.injEq] at b2
        cases a
        cases b
        simp only [] at a1 b1 b2
        subst a1 b1 b2
        rfl
      subst hab
      cases r1 with
      | nil =>
        cases r2 with
        | nil =>
          obtain ⟨-, -, l1, -⟩ := h1
          obtain ⟨-, -, l2, -⟩ := h2
          rw [l1] at l2
          simp only [Except.ok.injEq] at l2
          exact ⟨rfl, l2⟩
        | cons c r2 =>
          obtain ⟨-, -, -, t1, ht1, he1⟩ := h1
          obtain ⟨-, -, ⟨t2, ht2, he2⟩, -⟩ := h2
          rw [ht1] at ht2
          simp only [Except.ok.injEq] at ht2
          subst ht2
          exact absurd he1 he2
      | cons c r1 =>
        cases r2 with
        | nil =>
          obtain ⟨-, -, ⟨t1, ht1, he1⟩, -⟩ := h1
          obtain ⟨-, -, -, t2, ht2, he2⟩ := h2
          rw [ht1] at ht2
          simp only [Except.ok.injEq] at ht2
          subst ht2
          exact absurd he2 he1
        | cons d r2 =>
          obtain ⟨-, -, -, m1, l1, run1⟩ := h1
          obtain ⟨-, -, -, m2, l2, run2⟩ := h2
          rw [l1] at l2
          simp only [Except.ok.injEq] at l2
          subst l2
          obtain ⟨e1, e2⟩ := ih (d :: r2) (fuel - 1) m1 f1 f2 run1 run2
          rw [e1]
          exact ⟨rfl, e2⟩

/-- The passes of a run of the parse loop that returns. -/
theorem parseLoop_run (mem : List Char) : ∀ (fuel : Nat) (st final : ParseLoopState),
    parseLoop mem fuel st = Except.ok final →
    ∃ passes : List LoopPass,
      LoopRun mem fuel st.tokeniser passes final.tokeniser ∧
      passes.Pairwise (fun p q => q.start.tokens = p.start.tokens ∧
        p.start.tokens_index < q.start.tokens_index) ∧
      (∀ q ∈ passes, q.start.tokens = st.tokeniser.tokens ∧
        st.tokeniser.tokens_index ≤ q.start.tokens_index) ∧
      final.parsing_results = st.parsing_results ++ passes.filterMap LoopPass.entry := by
  intro fuel
  induction fuel with
  | zero => intro st final h; unfold parseLoop at h; cases h
  | succ fuel ih =>
    intro st final h
    rw [parseLoop] at h
    obtain ⟨x, hx, h⟩ := bind_eq_ok h
    obtain ⟨r, t, st1⟩ := x
    obtain ⟨call, hcall, hentry, hres, htok, hidx⟩ := parseLoopBody_call hx
    obtain ⟨hleaves, htoken⟩ := parseLoopBody_pass hx hcall
    simp only [] at h
    split at h
    · rename_i heos
      simp only [pure, Except.pure, Except.ok.injEq] at h
      subst h
      refine ⟨[{ start := st.tokeniser, call := call }], ?_, ?_, ?_, ?_⟩
      · refine ⟨rfl, hcall, ?_, t, htoken, heos⟩
        rw [pushed_tokeniser]
        exact hleaves
      · exact List.pairwise_singleton _ _
      · intro q hq
        simp only [List.mem_singleton] at hq
        subst hq
        exact ⟨rfl, le_refl _⟩
      · rw [pushed_results, filterMap_entry_single, hentry, hres]
    · rename_i hne
      obtain ⟨passes, hrun, hpair, hall, hfinal⟩ := ih _ _ h
      rw [pushed_tokeniser] at hrun hall
      have hlt := hidx hne
      cases passes with
      | nil => exact absurd hrun (by simp [LoopRun])
      | cons next rest =>
        refine ⟨{ start := st.tokeniser, call := call } :: next :: rest, ?_, ?_, ?_, ?_⟩
        · exact ⟨rfl, hcall, ⟨t, htoken, hne⟩, st1.tokeniser, hleaves, hrun⟩
        · refine List.pairwise_cons.2 ⟨?_, hpair⟩
          intro q hq
          obtain ⟨h1, h2⟩ := hall q hq
          exact ⟨h1.trans htok, by show st.tokeniser.tokens_index < _; omega⟩
        · intro q hq
          rcases List.mem_cons.1 hq with hq | hq
          · subst hq
            exact ⟨rfl, le_refl _⟩
          · obtain ⟨h1, h2⟩ := hall q hq
            exact ⟨h1.trans htok, by omega⟩
        · rw [hfinal, pushed_results, hres, hentry]
          simp only [List.filterMap_cons, List.append_assoc]
          cases hq : LoopPass.entry { start := st.tokeniser, call := call } <;> simp

/-- In a run of the parse loop, a pass that calls a parse routine has a marker at its
cursor. -/
theorem loopRun_marker (mem : List Char) : ∀ (passes : List LoopPass) (fuel : Nat)
    (start final : CPPTokeniser), LoopRun mem fuel start passes final →
    ∀ pass ∈ passes, pass.call ≠ none →
      (CPPTokeniser_PeekToken pass.start).type = CPPTokenType.InspectCode ∨
        (CPPTokeniser_PeekToken pass.start).type = CPPTokenType.InspectGeneratePrototype := by
  intro passes
  induction passes with
  | nil => intro fuel start final h; exact absurd h (by simp [LoopRun])
  | cons a rest ih =>
    intro fuel start final h pass hp hc
    have ha : a.start = start ∧ routineCall (fuel - 1) mem start = Except.ok a.call := by
      cases rest with
      | nil => exact ⟨h.1, h.2.1⟩
      | cons _ _ => exact ⟨h.1, h.2.1⟩
    rcases List.mem_cons.1 hp with rfl | hp
    · cases hcc : pass.call with
      | none => exact absurd hcc hc
      | some c =>
        rw [hcc, ← ha.1] at ha
        exact routineCall_marker ha.2
    · cases rest with
      | nil => cases hp
      | cons b rest =>
        obtain ⟨-, -, -, mid, -, hrun⟩ := h
        exact ih (fuel - 1) mid final hrun pass hp hc

/-- C6 as amended.  Whenever the parse loop of `main` returns, the list of its passes is
determined by the token stream (`LoopRun`: the first pass starts at the cursor the loop
started from, every pass makes the call that `main` dispatches at its cursor, every pass
but the last reads a token that is not the end of the stream and hands its tokeniser to
the next, the last pass reads the end of the stream and leaves the final tokeniser; no
other list of passes is such a run).  A pass that calls a parse routine has a marker at
its cursor; from pass to pass the cursor moves strictly forward over the same tokens,
which is the order of the markers in the token stream; and the result list has grown by
exactly the results of the calls that returned success, one entry each and none for a
call that returned failure, in the order of the passes.  The generator walks the list from
its first entry to its last, so what it writes is determined by the successful results
alone. -/
theorem C6_result_list_is_the_successful_calls_of_the_run (mem : List Char) (fuel : Nat)
    (st final : ParseLoopState) (h : parseLoop mem fuel st = Except.ok final) :
    ∃ passes : List LoopPass,
      LoopRun mem fuel st.tokeniser passes final.tokeniser ∧
      (∀ (others : List LoopPass) (tk : CPPTokeniser),
        LoopRun mem fuel st.tokeniser others tk → others = passes ∧ tk = final.tokeniser) ∧
      (∀ pass ∈ passes, pass.call ≠ none →
        (CPPTokeniser_PeekToken pass.start).type = CPPTokenType.InspectCode ∨
          (CPPTokeniser_PeekToken pass.start).type = CPPTokenType.InspectGeneratePrototype) ∧
      passes.Pairwise (fun p q => q.start.tokens = p.start.tokens ∧
        p.start.tokens_index < q.start.tokens_index) ∧
      final.parsing_results = st.parsing_results ++ passes.filterMap LoopPass.entry ∧
      ∀ (w1 w2 : Int) (tk : CPPTokeniser),
        generateResults mem w1 w2 final.parsing_results tk =
          (st.parsing_results ++ passes.filterMap LoopPass.entry).foldlM
            (fun tk r => generateResult mem w1 w2 r tk) tk := by
  obtain ⟨passes, h1, h2, -, h4⟩ := parseLoop_run mem fuel st final h
  refine ⟨passes, h1, ?_, loopRun_marker mem passes fuel _ _ h1, h2, h4, fun w1 w2 tk => ?_⟩
  · intro others tk hrun
    exact loopRun_unique mem others passes fuel _ _ _ hrun h1
  · rw [generateResults_foldlM, h4]

/-- C6 as amended, at the tokens of `DQN_INSPECT enum { A }; DQN_INSPECT enum E { B };`:
the parse loop returns with one entry, the enum `E`, and the run is accounted for by its
passes as the theorem says. -/
theorem C6_witness :
    parseLoop resultListBuffer 20 { tokeniser := { tokens := resultListTokens } } =
      Except.ok resultListFinal ∧
    ∃ passes : List LoopPass,
      LoopRun resultListBuffer 20 { tokens := resultListTokens } passes
        resultListFinal.tokeniser ∧
      (∀ (others : List LoopPass) (tk : CPPTokeniser),
        LoopRun resultListBuffer 20 { tokens := resultListTokens } others tk →
          others = passes ∧ tk = resultListFinal.tokeniser) ∧
      (∀ pass ∈ passes, pass.call ≠ none →
        (CPPTokeniser_PeekToken pass.start).type = CPPTokenType.InspectCode ∨
          (CPPTokeniser_PeekToken pass.start).type = CPPTokenType.InspectGeneratePrototype) ∧
      passes.Pairwise (fun p q => q.start.tokens = p.start.tokens ∧
        p.start.tokens_index < q.start.tokens_index) ∧
      resultListFinal.parsing_results = [] ++ passes.filterMap LoopPass.entry ∧
      ∀ (w1 w2 : Int) (tk : CPPTokeniser),
        generateResults resultListBuffer w1 w2 resultListFinal.parsing_results tk =
          ([] ++ passes.filterMap LoopPass.entry).foldlM
            (fun tk r => generateResult resultListBuffer w1 w2 r tk) tk := by
  have h : parseLoop resultListBuffer 20 { tokeniser := { tokens := resultListTokens } } =
      Except.ok resultListFinal := by
    decide!
  exact ⟨h, C6_result_list_is_the_successful_calls_of_the_run _ 20 _ _ h⟩

theorem lexPass_drop (mem : List Char) (lexing_function : Bool) (fuel : Nat)
    (tokeniser : CPPTokeniser) (ptr : Nat) (sc : LexScope) (ws : List Char) (c : Char)
    (rest : List Char) (token : CPPToken) (ptr' : Nat) (sc' : LexScope)
    (hm : mem.drop ptr = ws ++ c :: rest) (hws : ∀ x ∈ ws, CharIsWhitespace x = true)
    (hc : CharIsWhitespace c = false) (hnul : c ≠ NUL)
    (hroom : tokeniser.tokens.length < tokeniser.tokens_max)
    (htok : lexToken fuel mem (ptr + ws.length) sc = Except.ok (token, ptr', sc'))
    (hlen : token.len = 0) :
    lexPass mem lexing_function (fuel + 1) tokeniser ptr sc =
      lexPass mem lexing_function fuel tokeniser ptr' sc' := by
  have hscan := scanWhile_append CharIsWhitespace ws c rest ptr hws hc
  have hr := readChar_of_drop (drop_add_of_drop hm)
  conv_lhs => unfold lexPass
  rw [hm, hscan]
  simp only [bind, Except.bind]
  rw [hr]
  simp only [if_neg hnul, hroom, not_true_eq_false, if_false, htok, if_pos hlen]

theorem TextItem.space_whitespace {i : TextItem} {follows : List Char}
    (h : i.wellFormed follows = true) : ∀ x ∈ i.space, CharIsWhitespace x = true := by
  cases i with
  | plain l => exact (Lexeme.wellFormed_cases h).1
  | dot sp =>
    simp only [TextItem.wellFormed, Bool.and_eq_true, List.all_eq_true] at h
    exact h.1
  | varArgs sp =>
    simp only [TextItem.wellFormed, List.all_eq_true] at h
    exact h
  | slash sp =>
    simp only [TextItem.wellFormed, Bool.and_eq_true, List.all_eq_true] at h
    exact h.1
  | lineComment sp text =>
    simp only [TextItem.wellFormed, Bool.and_eq_true, List.all_eq_true] at h
    exact h.1.1
  | string sp body =>
    simp only [TextItem.wellFormed, Bool.and_eq_true, List.all_eq_true] at h
    exact h.1.1

/-- One iteration of the lexer at an item: the token of the item is appended if there is
one, the test for the end of the scope is made after a token that is kept, and the read
position is right after the item. -/
theorem lexPass_item (mem : List Char) (lf : Bool) (fuel : Nat)
    (tokeniser : CPPTokeniser) (ptr : Nat) (sc : LexScope)
    (i : TextItem) (follows : List Char) (hi : i.wellFormed follows = true)
    (hm : mem.drop ptr = i.render ++ follows)
    (hroom : tokeniser.tokens.length < tokeniser.tokens_max) :
    lexPass mem lf (fuel + 2) tokeniser ptr sc =
      match i.token (ptr + i.space.length) with
      | none => lexPass mem lf (fuel + 1) tokeniser (ptr + i.render.length) sc
      | some t =>
        if lexStop lf (typeScope sc t.type) = true then
          Except.ok ({ tokeniser with tokens := tokeniser.tokens ++ [t] },
            ptr + i.render.length)
        else
          lexPass mem lf (fuel + 1) { tokeniser with tokens := tokeniser.tokens ++ [t] }
            (ptr + i.render.length) (typeScope sc t.type) := by
  have hsp := TextItem.space_whitespace hi
  cases i with
  | plain l =>
    have := lexPass_lexeme mem lf (fuel + 1) tokeniser ptr sc l follows hi hm hroom
    simp only [TextItem.token, TextItem.render, TextItem.space, TextItem.text,
      List.length_append]
    rw [this]
    simp only [Nat.add_assoc]
  | dot sp =>
    simp only [TextItem.wellFormed, Bool.and_eq_true] at hi
    obtain ⟨-, hf⟩ := hi
    simp only [TextItem.token, TextItem.render, TextItem.space, TextItem.text,
      List.length_append, List.length_singleton] at hm hsp ⊢
    cases follows with
    | nil => simp at hf
    | cons d rest =>
      have hm' : mem.drop ptr = sp ++ '.' :: (d :: rest) := by rw [hm]; simp
      have hd : d ≠ '.' ∨ ∃ e rest2, rest = e :: rest2 ∧ e ≠ '.' := by
        simp only [Bool.or_eq_true, bne_iff_ne, ne_eq] at hf
        rcases hf with h | h
        · exact Or.inl h
        · cases rest with
          | nil => simp at h
          | cons e rest2 => exact Or.inr ⟨e, rest2, rfl, by simpa using h⟩
      obtain ⟨token, hlen, htok⟩ := lexToken_dot (fuel + 1) mem (ptr + sp.length) sc d rest
        (drop_add_of_drop hm') hd
      rw [lexPass_drop mem lf (fuel + 1) tokeniser ptr sc sp '.' (d :: rest) token _ sc hm'
        hsp (by decide) (by decide) hroom htok hlen, Nat.add_assoc]
  | varArgs sp =>
    simp only [TextItem.token, TextItem.render, TextItem.space, TextItem.text,
      List.length_append, List.length_cons, List.length_nil] at hm hsp ⊢
    have hm' : mem.drop ptr = sp ++ '.' :: ('.' :: '.' :: follows) := by rw [hm]; simp
    have htok := lexToken_varArgs (fuel + 1) mem (ptr + sp.length) sc follows
      (drop_add_of_drop hm')
    rw [lexPass_step mem lf (fuel + 1) tokeniser ptr sc sp '.' _ _ _ sc hm' hsp (by decide)
      (by decide) hroom htok (by simp)]
    simp only [typeScope, Nat.add_assoc]
  | slash sp =>
    simp only [TextItem.wellFormed, Bool.and_eq_true] at hi
    obtain ⟨-, hf⟩ := hi
    simp only [TextItem.token, TextItem.render, TextItem.space, TextItem.text,
      List.length_append, List.length_singleton] at hm hsp ⊢
    cases follows with
    | nil => simp at hf
    | cons d rest =>
      simp only [Bool.and_eq_true, bne_iff_ne, ne_eq] at hf
      have hm' : mem.drop ptr = sp ++ '/' :: (d :: rest) := by rw [hm]; simp
      have htok := lexToken_slash (fuel + 1) mem (ptr + sp.length) sc d rest
        (drop_add_of_drop hm')
      rw [if_neg hf.1, if_neg hf.2] at htok
      rw [lexPass_step mem lf (fuel + 1) tokeniser ptr sc sp '/' _ _ _ sc hm' hsp (by decide)
        (by decide) hroom htok (by simp)]
      simp only [typeScope, Nat.add_assoc]
  | lineComment sp text =>
    simp only [TextItem.wellFormed, Bool.and_eq_true, List.all_eq_true, bne_iff_ne,
      ne_eq] at hi
    obtain ⟨⟨-, htext⟩, hf⟩ := hi
    simp only [TextItem.token, TextItem.render, TextItem.space, TextItem.text,
      List.length_append, List.length_cons] at hm hsp ⊢
    cases follows with
    | nil => simp at hf
    | cons d rest =>
      have hd : d = '\n' := by simpa using hf
      subst hd
      have hm' : mem.drop ptr = sp ++ '/' :: ('/' :: (text ++ '\n' :: rest)) := by
        rw [hm]; simp
      have hm2 : mem.drop (ptr + sp.length) = '/' :: '/' :: (text ++ '\n' :: rest) :=
        drop_add_of_drop hm'
      have hdrop : mem.drop (ptr + sp.length + 1) = ('/' :: text) ++ '\n' :: rest := by
        have := @drop_add_of_drop mem (ptr + sp.length) ['/']
          ('/' :: (text ++ '\n' :: rest)) (by simpa using hm2)
        simpa using this
      have hscan1 : scanWhile (fun ch => ch == ' ' || ch == '\t')
          (mem.drop (ptr + sp.length + 1)) (ptr + sp.length + 1) =
          Except.ok (ptr + sp.length + 1) := by
        rw [hdrop]
        simp [scanWhile, pure, Except.pure]
      have hscan2 := scanWhile_append (fun ch => ch != '\n') ('/' :: text) '\n' rest
        (ptr + sp.length + 1)
        (fun x hx => by
          rcases List.mem_cons.1 hx with rfl | h
          · decide
          · simpa using htext x h) (by simp)
      have htok : lexToken (fuel + 1) mem (ptr + sp.length) sc =
          Except.ok ({ type := CPPTokenType.Comment, str := ptr + sp.length + 1
                       len := (text.length : Int) + 1 },
            ptr + (sp.length + (text.length + 1 + 1)), sc) := by
        rw [lexToken_slash (fuel + 1) mem (ptr + sp.length) sc '/' _ hm2, if_pos rfl]
        simp only [bind, Except.bind, hscan1]
        rw [hdrop, hscan2]
        simp only [pure, Except.pure, List.length_cons, Except.ok.injEq, Prod.mk.injEq,
          CPPToken.mk.injEq, true_and, and_true]
        constructor
        · push_cast; ring
        · omega
      rw [lexPass_step mem lf (fuel + 1) tokeniser ptr sc sp '/' _ _ _ sc hm' hsp (by decide)
        (by decide) hroom htok (by simp only []; omega)]
      simp only [typeScope]
  | string sp body =>
    simp only [TextItem.wellFormed, Bool.and_eq_true, List.all_eq_true, bne_iff_ne,
      ne_eq] at hi
    obtain ⟨⟨-, hbody⟩, hlast⟩ := hi
    simp only [TextItem.token, TextItem.render, TextItem.space, TextItem.text,
      List.length_append, List.length_cons, List.length_nil] at hm hsp ⊢
    have hm' : mem.drop ptr = sp ++ '"' :: (body ++ '"' :: follows) := by rw [hm]; simp
    have htok := lexToken_string fuel mem (ptr + sp.length) sc body follows
      (drop_add_of_drop hm') hbody hlast
    have hptr : ptr + sp.length + body.length + 2 = ptr + (sp.length + (body.length + 1 + 1)) := by
      omega
    rw [hptr] at htok
    by_cases hb : body = []
    · subst hb
      rw [lexPass_drop mem lf (fuel + 1) tokeniser ptr sc sp '"' _ _ _ sc hm' hsp (by decide)
        (by decide) hroom htok (by simp)]
      simp
    · rw [lexPass_step mem lf (fuel + 1) tokeniser ptr sc sp '"' _ _ _ sc hm' hsp (by decide)
        (by decide) hroom htok (by
          simp only [ne_eq, Int.natCast_eq_zero, List.length_eq_zero]
          exact hb)]
      simp only [if_neg hb, typeScope]

theorem TextItem.kind_token (i : TextItem) (p : Nat) :
    (i.token p).map (fun t => t.type) = i.kind := by
  cases i with
  | string sp body =>
    by_cases hb : body = []
    · simp [TextItem.kind, TextItem.token, hb]
    · simp [TextItem.kind, TextItem.token, hb]
  | _ => simp [TextItem.kind, TextItem.token]

theorem renderItems_append (xs ys : List TextItem) :
    renderItems (xs ++ ys) = renderItems xs ++ renderItems ys := by
  induction xs with
  | nil => rfl
  | cons x xs ih => simp [renderItems, ih, List.append_assoc]

theorem itemTokens_append (ptr : Nat) (xs ys : List TextItem) :
    itemTokens ptr (xs ++ ys) =
      itemTokens ptr xs ++ itemTokens (ptr + (renderItems xs).length) ys := by
  induction xs generalizing ptr with
  | nil => simp [itemTokens, renderItems]
  | cons x xs ih =>
    show itemTokens ptr (x :: (xs ++ ys)) = _
    simp only [itemTokens, renderItems, List.length_append, List.append_assoc]
    rw [ih]
    simp only [Nat.add_assoc]

theorem itemKinds_append (xs ys : List TextItem) :
    itemKinds (xs ++ ys) = itemKinds xs ++ itemKinds ys := by
  simp [itemKinds, List.filterMap_append]

theorem itemsWellFormed_append {xs ys : List TextItem} {tail : List Char}
    (h : itemsWellFormed (xs ++ ys) tail = true) :
    itemsWellFormed xs (renderItems ys ++ tail) = true ∧ itemsWellFormed ys tail = true := by
  induction xs with
  | nil => exact ⟨rfl, h⟩
  | cons x xs ih =>
    change itemsWellFormed (x :: (xs ++ ys)) tail = true at h
    simp only [itemsWellFormed, Bool.and_eq_true, renderItems_append,
      List.append_assoc] at h ⊢
    exact ⟨⟨h.1, (ih h.2).1⟩, (ih h.2).2⟩

theorem typesScope_append (sc : LexScope) (xs ys : List CPPTokenType) :
    typesScope sc (xs ++ ys) = typesScope (typesScope sc xs) ys := by
  simp [typesScope, List.foldl_append]

/-- The tokens of some items lie in their text. -/
theorem itemTokens_bounds (is : List TextItem) :
    ∀ (ptr : Nat) (t : CPPToken), t ∈ itemTokens ptr is →
      ptr ≤ t.str ∧ (t.str : Int) + t.len ≤ ((ptr + (renderItems is).length : Nat) : Int) := by
  induction is with
  | nil => intro ptr t h; simp [itemTokens] at h
  | cons i is ih =>
    intro ptr t h
    simp only [itemTokens, List.mem_append, Option.mem_toList, Option.mem_def] at h
    simp only [renderItems, List.length_append]
    rcases h with h | h
    · have hlen : i.render.length = i.space.length + i.text.length := by
        simp [TextItem.render]
      cases i with
      | plain l =>
        simp only [TextItem.token, Option.some.injEq] at h
        subst h
        simp only [TextItem.space, TextItem.render, TextItem.text, List.length_append]
        push_cast
        constructor <;> omega
      | dot sp => simp [TextItem.token] at h
      | varArgs sp =>
        simp only [TextItem.token, Option.some.injEq] at h
        subst h
        simp only [TextItem.space, TextItem.render, TextItem.text, List.length_append,
          List.length_cons, List.length_nil]
        push_cast
        constructor <;> omega
      | slash sp =>
        simp only [TextItem.token, Option.some.injEq] at h
        subst h
        simp only [TextItem.space, TextItem.render, TextItem.text, List.length_append,
          List.length_cons, List.length_nil]
        push_cast
        constructor <;> omega
      | lineComment sp text =>
        simp only [TextItem.token, Option.some.injEq] at h
        subst h
        simp only [TextItem.space, TextItem.render, TextItem.text, List.length_append,
          List.length_cons]
        push_cast
        constructor <;> omega
      | string sp body =>
        simp only [TextItem.token] at h
        split at h
        · cases h
        · simp only [Option.some.injEq] at h
          subst h
          simp only [TextItem.space, TextItem.render, TextItem.text, List.length_append,
            List.length_cons, List.length_nil]
          push_cast
          constructor <;> omega
    · obtain ⟨h1, h2⟩ := ih _ t h
      constructor
      · omega
      · have : ((ptr + i.render.length + (renderItems is).length : Nat) : Int) =
            ((ptr + (i.render.length + (renderItems is).length) : Nat) : Int) := by
          congr 1; omega
        rw [← this]; exact h2

theorem itemTokens_length_le (is : List TextItem) :
    ∀ ptr : Nat, (itemTokens ptr is).length ≤ is.length := by
  induction is with
  | nil => intro ptr; simp [itemTokens]
  | cons x xs ih =>
    intro ptr
    simp only [itemTokens, List.length_append, List.length_cons]
    have := ih (ptr + x.render.length)
    have hx : (x.token (ptr + x.space.length)).toList.length ≤ 1 := by
      cases x.token (ptr + x.space.length) <;> simp
    omega

/-- The lexer over items after none of which its test for the end of the scope succeeds:
it appends their tokens and goes on right after them. -/
theorem lexPass_items (mem : List Char) (lf : Bool) (is : List TextItem) :
    ∀ (follows : List Char) (fuel : Nat) (tokeniser : CPPTokeniser) (ptr : Nat)
      (sc : LexScope),
      itemsWellFormed is follows = true → mem.drop ptr = renderItems is ++ follows →
      NeverStops lf sc (itemKinds is) →
      tokeniser.tokens.length + is.length ≤ tokeniser.tokens_max →
      lexPass mem lf (fuel + 1 + is.length) tokeniser ptr sc =
        lexPass mem lf (fuel + 1)
          { tokeniser with tokens := tokeniser.tokens ++ itemTokens ptr is }
          (ptr + (renderItems is).length) (typesScope sc (itemKinds is)) := by
  induction is with
  | nil =>
    intro follows fuel tokeniser ptr sc _ _ _ _
    simp [itemTokens, renderItems, itemKinds, typesScope]
  | cons i is ih =>
    intro follows fuel tokeniser ptr sc hwf hm hnever hroom
    simp only [itemsWellFormed, Bool.and_eq_true] at hwf
    obtain ⟨hi, hwf1⟩ := hwf
    have hm1 : mem.drop ptr = i.render ++ (renderItems is ++ follows) := by
      rw [hm]; simp [renderItems, List.append_assoc]
    have hm2 : mem.drop (ptr + i.render.length) = renderItems is ++ follows :=
      drop_add_of_drop hm1
    have hfuel : fuel + 1 + (i :: is).length = (fuel + is.length) + 2 := by
      simp only [List.length_cons]; omega
    rw [hfuel, lexPass_item mem lf (fuel + is.length) tokeniser ptr sc i _ hi hm1
      (by simp at hroom; omega)]
    have hk := TextItem.kind_token i (ptr + i.space.length)
    cases htok : i.token (ptr + i.space.length) with
    | none =>
      rw [htok] at hk
      have hkind : i.kind = none := by simpa using hk.symm
      have hkinds : itemKinds (i :: is) = itemKinds is := by
        simp [itemKinds, List.filterMap_cons, hkind]
      rw [hkinds] at hnever ⊢
      simp only []
      have e : fuel + is.length + 1 = fuel + 1 + is.length := by omega
      rw [e, ih follows fuel tokeniser _ sc hwf1 hm2 hnever (by simp at hroom; omega)]
      simp only [itemTokens, htok, Option.toList, List.nil_append, renderItems,
        List.length_append, Nat.add_assoc]
    | some t =>
      rw [htok] at hk
      have hkind : i.kind = some t.type := by simpa using hk.symm
      have hkinds : itemKinds (i :: is) = t.type :: itemKinds is := by
        simp [itemKinds, List.filterMap_cons, hkind]
      rw [hkinds] at hnever ⊢
      obtain ⟨hs, hrest⟩ := neverStops_cons hnever
      simp only []
      rw [if_neg (by simp [hs])]
      have e : fuel + is.length + 1 = fuel + 1 + is.length := by omega
      rw [e, ih follows fuel _ _ _ hwf1 hm2 hrest (by simp at hroom ⊢; omega)]
      simp only [itemTokens, htok, Option.toList, renderItems, List.length_append,
        Nat.add_assoc, typesScope_cons, List.append_assoc, List.singleton_append]

/-- C9 as amended.  Lexing a struct or enum (`lexing_function` false) over text made of
the items `a`, an opening brace, the items `b` and a closing brace, followed by any text,
where the items are pieces of text that the lexer gets through (identifiers, numbers,
one-character delimiters, dots, slashes, line comments that a line break ends, string
literals without a quote after a backslash), the tokens of `a` hold no brace and the
braces among the tokens of `b` nest properly: the lexer returns; the tokens it appends
are those of these items, the last one being the `RightBrace` that matches the first
`LeftBrace`; the position it returns is the character right after that brace; every token
it appends ends at or before it. -/
theorem C9_lexer_stops_right_after_the_matching_brace (mem : List Char) (a b : List TextItem)
    (lb rb : Lexeme) (all : List TextItem) (tail : List Char) (fuel : Nat)
    (tokeniser : CPPTokeniser) (ptr : Nat)
    (hall : all = a ++ TextItem.plain lb :: (b ++ [TextItem.plain rb]))
    (hlb : lb.type = CPPTokenType.LeftBrace) (hrb : rb.type = CPPTokenType.RightBrace)
    (ha : ∀ k ∈ itemKinds a, k ≠ CPPTokenType.LeftBrace ∧ k ≠ CPPTokenType.RightBrace)
    (hb : Balanced CPPTokenType.LeftBrace CPPTokenType.RightBrace (itemKinds b))
    (hwf : itemsWellFormed all tail = true)
    (hm : mem.drop ptr = renderItems all ++ tail)
    (hroom : tokeniser.tokens.length + all.length ≤ tokeniser.tokens_max)
    (hfuel : all.length + 1 ≤ fuel) :
    EnumOrStructOrFunctionLexer fuel mem tokeniser ptr false =
      Except.ok ({ tokeniser with tokens := tokeniser.tokens ++ itemTokens ptr all },
        ptr + (renderItems (a ++ TextItem.plain lb :: b)).length + rb.space.length + 1) ∧
    (itemTokens ptr all).getLast? =
      some { type := CPPTokenType.RightBrace,
             str := ptr + (renderItems (a ++ TextItem.plain lb :: b)).length + rb.space.length,
             len := 1 } ∧
    ∀ t ∈ itemTokens ptr all,
      (t.str : Int) + t.len ≤
        ((ptr + (renderItems (a ++ TextItem.plain lb :: b)).length + rb.space.length + 1 : Nat) :
          Int) := by
  have hshape : all = (a ++ TextItem.plain lb :: b) ++ [TextItem.plain rb] := by
    rw [hall]; simp
  obtain ⟨hwf1, hwf2⟩ := @itemsWellFormed_append (a ++ TextItem.plain lb :: b)
    [TextItem.plain rb] tail (by rw [← hshape]; exact hwf)
  have hrbwf : rb.wellFormed tail = true := by
    simpa [itemsWellFormed, TextItem.wellFormed, renderItems] using hwf2
  have hrbtext : rb.text.length = 1 := by
    obtain ⟨-, hk⟩ := Lexeme.wellFormed_cases hrbwf
    rcases hk with ⟨c, hc, -⟩ | ⟨hty, -⟩ | ⟨hty, -⟩
    · simp [hc]
    · rw [hrb] at hty; cases hty
    · rw [hrb] at hty; cases hty
  have hkinds : itemKinds (a ++ TextItem.plain lb :: b) =
      itemKinds a ++ CPPTokenType.LeftBrace :: itemKinds b := by
    rw [itemKinds_append]
    simp [itemKinds, List.filterMap_cons, TextItem.kind, TextItem.token, hlb]
  have hnever : NeverStops false {} (itemKinds (a ++ TextItem.plain lb :: b)) := by
    rw [hkinds]
    exact neverStops_open false (itemKinds a) (itemKinds b) ha hb.2
  have hlen : (renderItems all).length =
      (renderItems (a ++ TextItem.plain lb :: b)).length + rb.space.length + 1 := by
    rw [hshape, renderItems_append]
    simp [renderItems, TextItem.render, TextItem.space, TextItem.text, hrbtext, Nat.add_assoc]
  have htoks : itemTokens ptr all = itemTokens ptr (a ++ TextItem.plain lb :: b) ++
      [{ type := CPPTokenType.RightBrace,
         str := ptr + (renderItems (a ++ TextItem.plain lb :: b)).length + rb.space.length,
         len := 1 }] := by
    rw [hshape, itemTokens_append]
    simp [itemTokens, TextItem.token, TextItem.space, hrb, hrbtext]
  have hm1 : mem.drop ptr = renderItems (a ++ TextItem.plain lb :: b) ++
      (renderItems [TextItem.plain rb] ++ tail) := by
    rw [hm, hshape, renderItems_append, List.append_assoc]
  have hlenall : all.length = (a ++ TextItem.plain lb :: b).length + 1 := by
    rw [hshape, List.length_append]; rfl
  refine ⟨?_, ?_, ?_⟩
  · obtain ⟨f, rfl⟩ : ∃ f, fuel = f + 1 + 1 + (a ++ TextItem.plain lb :: b).length :=
      ⟨fuel - 2 - (a ++ TextItem.plain lb :: b).length, by omega⟩
    have hrun := lexPass_items mem false (a ++ TextItem.plain lb :: b) _ (f + 1) tokeniser ptr
      {} hwf1 hm1 hnever (by omega)
    have hm2 : mem.drop (ptr + (renderItems (a ++ TextItem.plain lb :: b)).length) =
        rb.render ++ tail := by
      have := drop_add_of_drop hm1
      simpa [renderItems, TextItem.render, TextItem.space, TextItem.text, Lexeme.render]
        using this
    have hlast := lexPass_lexeme mem false (f + 1)
      { tokeniser with
        tokens := (tokeniser.tokens ++ itemTokens ptr (a ++ TextItem.plain lb :: b)) }
      (ptr + (renderItems (a ++ TextItem.plain lb :: b)).length)
      (typesScope {} (itemKinds (a ++ TextItem.plain lb :: b))) rb tail hrbwf hm2
      (by
        have hcount := itemTokens_length_le (a ++ TextItem.plain lb :: b) ptr
        simp only [List.length_append]
        omega)
    have hstop : lexStop false (typeScope (typesScope {}
        (itemKinds (a ++ TextItem.plain lb :: b))) rb.type) = true := by
      have h1 : typeScope (typesScope {} (itemKinds (a ++ TextItem.plain lb :: b))) rb.type =
          typesScope {} (itemKinds (a ++ TextItem.plain lb :: b) ++ [rb.type]) := by
        rw [typesScope_append]; rfl
      rw [h1, lexStop_typesScope, hkinds, hrb]
      have hda := scopeDepth_of_absent (scopeOpener false) (scopeCloser false) (itemKinds a) ha
      have hdepth : scopeDepth (scopeOpener false) (scopeCloser false)
          ((itemKinds a ++ CPPTokenType.LeftBrace :: itemKinds b) ++
            [CPPTokenType.RightBrace]) = 0 := by
        rw [scopeDepth_append, scopeDepth_append, scopeDepth_cons, hda]
        have := hb.1
        simp only [scopeOpener, scopeCloser, Bool.false_eq_true, if_false] at this ⊢
        rw [this]
        simp [scopeDepth_cons, scopeDepth_nil]
      have hdepth2 : scopeDepth CPPTokenType.LeftBrace (scopeCloser false)
          (itemKinds a ++ CPPTokenType.LeftBrace ::
            (itemKinds b ++ [CPPTokenType.RightBrace])) = 0 := by
        simpa [scopeOpener] using hdepth
      simp [hdepth2, scopeOpener]
    unfold EnumOrStructOrFunctionLexer
    rw [hrun, hlast, if_pos hstop]
    simp only [bind, Except.bind, Bool.false_eq_true, if_false, pure, Except.pure, htoks, hrb,
      hrbtext, List.append_assoc, Nat.add_assoc, Nat.cast_one]
  · rw [htoks]; simp
  · intro t ht
    have := (itemTokens_bounds all ptr t ht).2
    rw [hlen] at this
    simpa [Nat.add_assoc] using this

/-- C9, counterexample.  In the text ` } { } ` the first `{` (offset 3) is matched by
the `}` at offset 5, but the lexer stops at the `{`: the last token it appends is that
`LeftBrace` and it returns offset 4. -/
theorem C9_counterexample :
    EnumOrStructOrFunctionLexer 10 (fileBuffer " \x7d \x7b \x7d ") {} 0 false =
      Except.ok ({ tokens := [{ type := CPPTokenType.RightBrace, str := 1, len := 1 },
                              { type := CPPTokenType.LeftBrace, str := 3, len := 1 }] }, 4) := by
  decide

/-- C9 as amended, at the text of `bracesInCommentsBuffer`: the braces in the comment and
in the string literal are not counted, the dot leaves no token, and the lexer stops right
after the closing brace of the struct, at offset 51. -/
theorem C9_witness :
    EnumOrStructOrFunctionLexer 20 bracesInCommentsBuffer {} 0 false =
      Except.ok ({ tokens :=
        [{ type := CPPTokenType.Identifier, str := 1, len := 6 },
         { type := CPPTokenType.Identifier, str := 8, len := 1 },
         { type := CPPTokenType.LeftBrace, str := 10, len := 1 },
         { type := CPPTokenType.Identifier, str := 12, len := 3 },
         { type := CPPTokenType.Identifier, str := 16, len := 1 },
         { type := CPPTokenType.SemiColon, str := 17, len := 1 },
         { type := CPPTokenType.Comment, str := 20, len := 5 },
         { type := CPPTokenType.Identifier, str := 27, len := 4 },
         { type := CPPTokenType.Identifier, str := 32, len := 5 },
         { type := CPPTokenType.Asterisks, str := 38, len := 1 },
         { type := CPPTokenType.Identifier, str := 39, len := 1 },
         { type := CPPTokenType.Equals, str := 41, len := 1 },
         { type := CPPTokenType.String, str := 44, len := 1 },
         { type := CPPTokenType.SemiColon, str := 46, len := 1 },
         { type := CPPTokenType.RightBrace, str := 50, len := 1 }] }, 51) :=
  (C9_lexer_stops_right_after_the_matching_brace bracesInCommentsBuffer
    [TextItem.plain { space := [' '], text := "struct".toList, type := CPPTokenType.Identifier },
     TextItem.plain { space := [' '], text := "P".toList, type := CPPTokenType.Identifier }]
    bracesInCommentsBody
    { space := [' '], text := ['\x7b'], type := CPPTokenType.LeftBrace }
    { space := [' '], text := ['\x7d'], type := CPPTokenType.RightBrace }
    _ [' ', 'z', NUL] 20 {} 0 rfl rfl rfl (by decide) (by decide) (by decide) (by decide)
    (by decide) (by decide)).1

theorem lexemeTokens_stars_length (stars : List Lexeme) (p : Nat) :
    ((lexemeTokens p stars).length : Int) = (stars.length : Int) := by
  rw [lexemeTokens_length]

theorem memberLexemes_lexemes_length (m : MemberLexemes) :
    m.lexemes.length = m.modifiers.length + 3 := by
  simp [MemberLexemes.lexemes]

theorem defaultCPPToken_type : ({} : CPPToken).type = CPPTokenType.EndOfStream := rfl

theorem paramTokens_named_length (p : ParamTokens) :
    p.named.length = p.valueTokens.length + 2 := by
  simp [ParamTokens.named]

end DqnInspect
